import Mathlib

/-!
# Constant pool: compare, search and class-file serialisation

A shallow embedding of the sequential parts of
`src/hotspot/share/oops/constantPool.cpp` (product build: `assert` is compiled
out, `ShouldNotReachHere()` is not).

* A pool is the list of its slots; slot `i` carries the tag byte `tags()->at(i)`
  and the word stored at `base()[i]` (64-bit words: a `jlong` or `jdouble` is read
  from one word, its second slot only reserves the index).  A `Symbol*` is the
  address held in the word, so symbol identity is equality of addresses; the text
  of a symbol lives in a separate `SymbolHeap`.
* A `jint` payload is its unsigned 32-bit pattern; a `jint` accumulator is an
  integer reduced by `jint_wrap`, and so is an `int` read from two shorts of the
  operands array; a `u2` loop index wraps at 65536.  Floating-point
  literals are their bit patterns and `==` on them is decided on the patterns.
* An access outside an array has no defined result in the product build and is
  reported as `Fault.out_of_bounds`; `ShouldNotReachHere()` is reported as
  `Fault.should_not_reach_here`.
* An allocation in the metaspace can fail: `MetadataFactory::new_array` answers from
  the oracle `ClassLoaderData.new_array_fails`, and a function that allocates with
  `CHECK` returns at once with the exception pending, which is part of its result.
* The cases of `initialize_unresolved_klasses` under `#ifndef PRODUCT` are modelled
  behind an explicit `product` flag.
* The recursion of `compare_entry_to` is not bounded by the source, so the
  embedding carries a recursion budget and reports `Fault.out_of_fuel` when it
  is exhausted; the theorems speak of what a call returns for some budget and
  every larger one.
-/

namespace Hotspot

/-! ## Faults -/

/-- The ways in which an operation of the embedding can fail to return. -/
inductive Fault where
  | should_not_reach_here
  | out_of_bounds
  | null_pointer
  | out_of_fuel
  deriving DecidableEq, Repr

deriving instance DecidableEq for Except

/-! ## Tags (`jvm_constants.h`, `classfile_constants.h`, `constantTag.hpp`) -/

/-- Modelled from the spec: the tag byte values are declared in `classfile_constants.h`
and `jvm_constants.h`, which are not among the sources; the class-file tags are the
ones of the compiled-class format and the VM-internal ones start at 100. -/
abbrev JVM_CONSTANT_Invalid : Nat := 0
/-- Modelled from the spec: class-file tag `CONSTANT_Utf8`. -/
abbrev JVM_CONSTANT_Utf8 : Nat := 1
/-- Modelled from the spec: the unused class-file tag `CONSTANT_Unicode`. -/
abbrev JVM_CONSTANT_Unicode : Nat := 2
/-- Modelled from the spec: class-file tag `CONSTANT_Integer`. -/
abbrev JVM_CONSTANT_Integer : Nat := 3
/-- Modelled from the spec: class-file tag `CONSTANT_Float`. -/
abbrev JVM_CONSTANT_Float : Nat := 4
/-- Modelled from the spec: class-file tag `CONSTANT_Long`. -/
abbrev JVM_CONSTANT_Long : Nat := 5
/-- Modelled from the spec: class-file tag `CONSTANT_Double`. -/
abbrev JVM_CONSTANT_Double : Nat := 6
/-- Modelled from the spec: class-file tag `CONSTANT_Class`. -/
abbrev JVM_CONSTANT_Class : Nat := 7
/-- Modelled from the spec: class-file tag `CONSTANT_String`. -/
abbrev JVM_CONSTANT_String : Nat := 8
/-- Modelled from the spec: class-file tag `CONSTANT_Fieldref`. -/
abbrev JVM_CONSTANT_Fieldref : Nat := 9
/-- Modelled from the spec: class-file tag `CONSTANT_Methodref`. -/
abbrev JVM_CONSTANT_Methodref : Nat := 10
/-- Modelled from the spec: class-file tag `CONSTANT_InterfaceMethodref`. -/
abbrev JVM_CONSTANT_InterfaceMethodref : Nat := 11
/-- Modelled from the spec: class-file tag `CONSTANT_NameAndType`. -/
abbrev JVM_CONSTANT_NameAndType : Nat := 12
/-- Modelled from the spec: class-file tag `CONSTANT_MethodHandle`. -/
abbrev JVM_CONSTANT_MethodHandle : Nat := 15
/-- Modelled from the spec: class-file tag `CONSTANT_MethodType`. -/
abbrev JVM_CONSTANT_MethodType : Nat := 16
/-- Modelled from the spec: class-file tag `CONSTANT_Dynamic`. -/
abbrev JVM_CONSTANT_Dynamic : Nat := 17
/-- Modelled from the spec: class-file tag `CONSTANT_InvokeDynamic`. -/
abbrev JVM_CONSTANT_InvokeDynamic : Nat := 18
/-- Modelled from the spec: first value of the VM-internal tag range. -/
abbrev JVM_CONSTANT_InternalMin : Nat := 100
/-- Modelled from the spec: VM-internal tag of a class entry that is not resolved. -/
abbrev JVM_CONSTANT_UnresolvedClass : Nat := 100
/-- Modelled from the spec: VM-internal tag of a class entry that holds a name index only. -/
abbrev JVM_CONSTANT_ClassIndex : Nat := 101
/-- Modelled from the spec: VM-internal tag of a string entry that holds an index only. -/
abbrev JVM_CONSTANT_StringIndex : Nat := 102
/-- Modelled from the spec: error variant of `UnresolvedClass`. -/
abbrev JVM_CONSTANT_UnresolvedClassInError : Nat := 103
/-- Modelled from the spec: error variant of `MethodHandle`. -/
abbrev JVM_CONSTANT_MethodHandleInError : Nat := 104
/-- Modelled from the spec: error variant of `MethodType`. -/
abbrev JVM_CONSTANT_MethodTypeInError : Nat := 105
/-- Modelled from the spec: error variant of `Dynamic`. -/
abbrev JVM_CONSTANT_DynamicInError : Nat := 106

namespace constantTag

/-- Modelled from the spec: `constantTag::non_error_value` of `constantTag.hpp` (not among
the sources): an in-error tag is mapped to its non-error counterpart, every other tag
to itself. -/
def non_error_value (tag : Nat) : Nat :=
  if tag = JVM_CONSTANT_UnresolvedClassInError then JVM_CONSTANT_UnresolvedClass
  else if tag = JVM_CONSTANT_MethodHandleInError then JVM_CONSTANT_MethodHandle
  else if tag = JVM_CONSTANT_MethodTypeInError then JVM_CONSTANT_MethodType
  else if tag = JVM_CONSTANT_DynamicInError then JVM_CONSTANT_Dynamic
  else tag

/-- Modelled from the spec: `constantTag::has_bootstrap` of `constantTag.hpp` (not among the
sources): the entry refers to a bootstrap specifier. -/
def has_bootstrap (tag : Nat) : Bool :=
  tag = JVM_CONSTANT_InvokeDynamic || tag = JVM_CONSTANT_Dynamic ||
    tag = JVM_CONSTANT_DynamicInError

end constantTag

/-! ## Shorts and words (`globalDefinitions.hpp`, `bytes.hpp`) -/

/-- Modelled from the spec: `extract_low_short_from_int` of `globalDefinitions.hpp` (not among
the sources), on the unsigned pattern of a `jint`. -/
def extract_low_short_from_int (x : Nat) : Nat := x % 65536

/-- Modelled from the spec: `extract_high_short_from_int` of `globalDefinitions.hpp` (not among
the sources), on the unsigned pattern of a `jint`. -/
def extract_high_short_from_int (x : Nat) : Nat := (x / 65536) % 65536

/-- Modelled from the spec: `build_int_from_shorts` of `globalDefinitions.hpp` (not among the
sources): the unsigned 32-bit pattern of the `jint` whose low and high halves are the two
shorts; the `int` itself is `jint_wrap` of the pattern. -/
def build_int_from_shorts (low high : Nat) : Nat := (high % 65536) * 65536 + low % 65536

/-- A `jint` value of the unbounded integer `x`: two's complement reduction to 32 bits. -/
def jint_wrap (x : Int) : Int := (x + 2147483648) % 4294967296 - 2147483648

/-- Equality `f1 == f2` of two `jfloat`s given by their 32-bit patterns: a NaN equals
nothing, the two zeros are equal, every other value equals only itself. -/
def jfloat_eq (a b : Nat) : Bool :=
  let nan (x : Nat) : Bool := (x / 8388608) % 256 = 255 && x % 8388608 ≠ 0
  !nan a && !nan b && (a = b || (a % 2147483648 = 0 && b % 2147483648 = 0))

/-- Equality `d1 == d2` of two `jdouble`s given by their 64-bit patterns. -/
def jdouble_eq (a b : Nat) : Bool :=
  let nan (x : Nat) : Bool :=
    (x / 4503599627370496) % 2048 = 2047 && x % 4503599627370496 ≠ 0
  !nan a && !nan b &&
    (a = b || (a % 9223372036854775808 = 0 && b % 9223372036854775808 = 0))

/-! ## Symbols -/

/-- Modelled from the spec: `Symbol` of `symbol.hpp` (not among the sources): the interned,
reference-counted text an entry names.  The length field of a symbol is a `u2`. -/
structure Symbol where
  body : List Nat
  length_lt : body.length < 65536
  refcount : Nat

/-- Modelled from the spec: `Symbol::utf8_length`. -/
def Symbol.utf8_length (s : Symbol) : Nat := s.body.length

/-- The C string `Symbol::as_utf8` hands out is the body followed by a NUL; `strlen` of it
is the length of the body up to its first zero byte. -/
def Symbol.strlen (s : Symbol) : Nat := (s.body.takeWhile (fun b => b ≠ 0)).length

/-- The symbols of the VM by address. -/
abbrev SymbolHeap := Nat → Symbol

/-! ## The pool -/

/-- One slot of a pool: its tag byte and the word at `base()[i]`. -/
structure CPSlot where
  tag : Nat
  value : Nat
  deriving DecidableEq, Repr

/-- The constant pool: the slots `0 .. length-1` and the operands array
(`none` is `nullptr`). -/
structure ConstantPool where
  slots : List CPSlot
  operands : Option (List Nat)
  deriving DecidableEq, Repr

namespace ConstantPool

/-- The number of slots, `ConstantPool::length`. -/
def length (cp : ConstantPool) : Nat := cp.slots.length

/-- The slot at an index; an index outside the pool is a fault. -/
def slot_at (cp : ConstantPool) (cp_index : Nat) : Except Fault CPSlot :=
  match cp.slots[cp_index]? with
  | some s => .ok s
  | none => .error .out_of_bounds

/-- Modelled from the spec: `ConstantPool::tag_at` of `constantPool.hpp` (not among the
sources): read tag at index. -/
def tag_at (cp : ConstantPool) (cp_index : Nat) : Except Fault Nat :=
  (fun s => s.tag) <$> cp.slot_at cp_index

/-- Modelled from the spec: `*int_at_addr(cp_index)` of `constantPool.hpp`: the raw entry
payload read as a `jint` (its unsigned 32-bit pattern). -/
def int_at_addr (cp : ConstantPool) (cp_index : Nat) : Except Fault Nat :=
  (fun s => s.value % 4294967296) <$> cp.slot_at cp_index

/-- Modelled from the spec: `*symbol_at_addr(cp_index)`: the raw entry payload read as a
`Symbol*`. -/
def symbol_at_addr (cp : ConstantPool) (cp_index : Nat) : Except Fault Nat :=
  (fun s => s.value) <$> cp.slot_at cp_index

/-- Modelled from the spec: `ConstantPool::symbol_at`. -/
def symbol_at (cp : ConstantPool) (cp_index : Nat) : Except Fault Nat :=
  cp.symbol_at_addr cp_index

/-- Modelled from the spec: `ConstantPool::unresolved_string_at`. -/
def unresolved_string_at (cp : ConstantPool) (cp_index : Nat) : Except Fault Nat :=
  cp.symbol_at_addr cp_index

/-- Modelled from the spec: `ConstantPool::int_at`. -/
def int_at (cp : ConstantPool) (cp_index : Nat) : Except Fault Nat :=
  cp.int_at_addr cp_index

/-- Modelled from the spec: `ConstantPool::float_at`, as the 32-bit pattern. -/
def float_at (cp : ConstantPool) (cp_index : Nat) : Except Fault Nat :=
  cp.int_at_addr cp_index

/-- Modelled from the spec: `ConstantPool::long_at`, as the 64-bit pattern. -/
def long_at (cp : ConstantPool) (cp_index : Nat) : Except Fault Nat :=
  (fun s => s.value % 18446744073709551616) <$> cp.slot_at cp_index

/-- Modelled from the spec: `ConstantPool::double_at`, as the 64-bit pattern. -/
def double_at (cp : ConstantPool) (cp_index : Nat) : Except Fault Nat :=
  (fun s => s.value % 18446744073709551616) <$> cp.slot_at cp_index

/-- Modelled from the spec: `ConstantPool::klass_index_at`. -/
def klass_index_at (cp : ConstantPool) (cp_index : Nat) : Except Fault Nat :=
  cp.int_at_addr cp_index

/-- Modelled from the spec: `ConstantPool::string_index_at`. -/
def string_index_at (cp : ConstantPool) (cp_index : Nat) : Except Fault Nat :=
  cp.int_at_addr cp_index

/-- Modelled from the spec: `ConstantPool::name_and_type_at`. -/
def name_and_type_at (cp : ConstantPool) (cp_index : Nat) : Except Fault Nat :=
  cp.int_at_addr cp_index

/-- Modelled from the spec: `ConstantPool::method_type_index_at`. -/
def method_type_index_at (cp : ConstantPool) (cp_index : Nat) : Except Fault Nat :=
  cp.int_at_addr cp_index

/-- Modelled from the spec: `ConstantPool::method_handle_ref_kind_at`, the low half of the
entry. -/
def method_handle_ref_kind_at (cp : ConstantPool) (cp_index : Nat) : Except Fault Nat :=
  extract_low_short_from_int <$> cp.int_at_addr cp_index

/-- Modelled from the spec: `ConstantPool::method_handle_index_at`, the high half of the
entry. -/
def method_handle_index_at (cp : ConstantPool) (cp_index : Nat) : Except Fault Nat :=
  extract_high_short_from_int <$> cp.int_at_addr cp_index

/-- Modelled from the spec: `ConstantPool::bootstrap_methods_attribute_index`, the low half
of the entry. -/
def bootstrap_methods_attribute_index (cp : ConstantPool) (cp_index : Nat) :
    Except Fault Nat :=
  extract_low_short_from_int <$> cp.int_at_addr cp_index

/-- Modelled from the spec: `ConstantPool::bootstrap_name_and_type_ref_index_at`, the high
half of the entry. -/
def bootstrap_name_and_type_ref_index_at (cp : ConstantPool) (cp_index : Nat) :
    Except Fault Nat :=
  extract_high_short_from_int <$> cp.int_at_addr cp_index

/-- Modelled from the spec: `CPKlassSlot::name_index` of `klass_slot_at(cp_index)`: the klass
slot gives the symbolic name index (high half) and the resolved-table slot index
(low half). -/
def klass_slot_name_index (cp : ConstantPool) (cp_index : Nat) : Except Fault Nat :=
  extract_high_short_from_int <$> cp.int_at_addr cp_index

/-- Modelled from the spec: `CPKlassSlot::resolved_klass_index` of `klass_slot_at(cp_index)`. -/
def klass_slot_resolved_klass_index (cp : ConstantPool) (cp_index : Nat) :
    Except Fault Nat :=
  extract_low_short_from_int <$> cp.int_at_addr cp_index

/-- Function `ConstantPool::uncached_name_and_type_ref_index_at`. -/
def uncached_name_and_type_ref_index_at (cp : ConstantPool) (cp_index : Nat) :
    Except Fault Nat := do
  let tag ← cp.tag_at cp_index
  if constantTag.has_bootstrap tag then
    let pool_index ← cp.bootstrap_name_and_type_ref_index_at cp_index
    pure pool_index
  else
    let ref_index ← cp.int_at_addr cp_index
    pure (extract_high_short_from_int ref_index)

/-- Function `ConstantPool::uncached_klass_ref_index_at`. -/
def uncached_klass_ref_index_at (cp : ConstantPool) (cp_index : Nat) : Except Fault Nat := do
  let ref_index ← cp.int_at_addr cp_index
  pure (extract_low_short_from_int ref_index)

/-- Function `ConstantPool::name_ref_index_at`. -/
def name_ref_index_at (cp : ConstantPool) (cp_index : Nat) : Except Fault Nat := do
  let ref_index ← cp.name_and_type_at cp_index
  pure (extract_low_short_from_int ref_index)

/-- Function `ConstantPool::signature_ref_index_at`. -/
def signature_ref_index_at (cp : ConstantPool) (cp_index : Nat) : Except Fault Nat := do
  let ref_index ← cp.name_and_type_at cp_index
  pure (extract_high_short_from_int ref_index)

/-- Function `ConstantPool::klass_name_at`. -/
def klass_name_at (cp : ConstantPool) (cp_index : Nat) : Except Fault Nat := do
  let name_index ← cp.klass_slot_name_index cp_index
  cp.symbol_at name_index

/-! ## Entry sizes -/

/-- Function `ConstantPool::cpool_entry_size`: the size of the class-file form of the entry. The
last branch is the `return 1` behind the `assert(false, ...)` for a tag no case names. -/
def cpool_entry_size (heap : SymbolHeap) (cp : ConstantPool) (idx : Nat) :
    Except Fault Nat := do
  let tag ← cp.tag_at idx
  if tag = JVM_CONSTANT_Invalid ∨ tag = JVM_CONSTANT_Unicode then
    pure 1
  else if tag = JVM_CONSTANT_Utf8 then
    let sym ← cp.symbol_at idx
    pure (3 + (heap sym).utf8_length)
  else if tag = JVM_CONSTANT_Class ∨ tag = JVM_CONSTANT_String ∨
      tag = JVM_CONSTANT_ClassIndex ∨ tag = JVM_CONSTANT_UnresolvedClass ∨
      tag = JVM_CONSTANT_UnresolvedClassInError ∨ tag = JVM_CONSTANT_StringIndex ∨
      tag = JVM_CONSTANT_MethodType ∨ tag = JVM_CONSTANT_MethodTypeInError then
    pure 3
  else if tag = JVM_CONSTANT_MethodHandle ∨ tag = JVM_CONSTANT_MethodHandleInError then
    pure 4
  else if tag = JVM_CONSTANT_Integer ∨ tag = JVM_CONSTANT_Float ∨
      tag = JVM_CONSTANT_Fieldref ∨ tag = JVM_CONSTANT_Methodref ∨
      tag = JVM_CONSTANT_InterfaceMethodref ∨ tag = JVM_CONSTANT_NameAndType then
    pure 5
  else if tag = JVM_CONSTANT_Dynamic ∨ tag = JVM_CONSTANT_DynamicInError ∨
      tag = JVM_CONSTANT_InvokeDynamic then
    pure 5
  else if tag = JVM_CONSTANT_Long ∨ tag = JVM_CONSTANT_Double then
    pure 9
  else
    pure 1

/-! ## The operands array -/

/-- Modelled from the spec: `operands()->at(i)` of `array.hpp`: one `u2` of the flat operands
array; `nullptr` and an index outside the array are faults. -/
def operand_at (cp : ConstantPool) (i : Nat) : Except Fault Nat :=
  match cp.operands with
  | none => .error .null_pointer
  | some ops =>
    match ops[i]? with
    | some v => .ok v
    | none => .error .out_of_bounds

/-- Modelled from the spec: `ConstantPool::operand_offset_at` of `constantPool.hpp`: the offset
index at the head of the array locates each record; the offset of record `n` is the
signed `int` built from the shorts at `2n` and `2n+1`, negative when the high short has
its top bit set. -/
def operand_offset_at (cp : ConstantPool) (bsms_attribute_index : Nat) : Except Fault Int := do
  let n := bsms_attribute_index * 2
  let lo ← cp.operand_at n
  let hi ← cp.operand_at (n + 1)
  pure (jint_wrap (build_int_from_shorts lo hi))

/-- Modelled from the spec: `ConstantPool::operand_array_length` of `constantPool.hpp`: the
number of bootstrap specifiers, the signed `int` offset of the first record divided by
two as C++ divides (towards zero); 0 for `nullptr` and for an empty array. -/
def operand_array_length (cp : ConstantPool) : Except Fault Int :=
  match cp.operands with
  | none => .ok 0
  | some [] => .ok 0
  | some _ => do
    let second_part ← cp.operand_offset_at 0
    pure (Int.tdiv second_part 2)

/-- Modelled from the spec: `ConstantPool::bsm_attribute_entry` of `constantPool.hpp`: the record
of a bootstrap specifier, `operands()->adr_at(offset)`, given by the offset at which it
starts; a negative offset is an address outside the array. -/
def bsm_attribute_entry (cp : ConstantPool) (bsms_attribute_index : Nat) :
    Except Fault Nat := do
  let offset ← cp.operand_offset_at bsms_attribute_index
  if offset < 0 then .error .out_of_bounds else pure offset.toNat

/-- Modelled from the spec: `BSMAttributeEntry::bootstrap_method_index`: first short of the
2-int header pair (method-handle index, argument count). -/
def bootstrap_method_index (cp : ConstantPool) (e : Nat) : Except Fault Nat :=
  cp.operand_at e

/-- Modelled from the spec: `BSMAttributeEntry::argument_count`: second short of the header. -/
def argument_count (cp : ConstantPool) (e : Nat) : Except Fault Nat :=
  cp.operand_at (e + 1)

/-- Modelled from the spec: `BSMAttributeEntry::argument_index`: the argument pool-indices
follow the header. -/
def argument_index (cp : ConstantPool) (e : Nat) (j : Nat) : Except Fault Nat :=
  cp.operand_at (e + 2 + j)

/-! ## Structural comparison -/

/-- The loop `for (int j = 0; j < argc; j++)` of `compare_operand_to`, from position `j`
with `n` positions left, over the entry comparison `cmp`. -/
def compare_operand_args (cmp : Nat → Nat → Except Fault Bool)
    (cp1 : ConstantPool) (e1 : Nat) (cp2 : ConstantPool) (e2 : Nat) :
    Nat → Nat → Except Fault Bool
  | 0, _ => pure true
  | n + 1, j => do
    let k1 ← cp1.argument_index e1 j
    let k2 ← cp2.argument_index e2 j
    let m ← cmp k1 k2
    if !m then pure false
    else compare_operand_args cmp cp1 e1 cp2 e2 n (j + 1)

/-- The body of `ConstantPool::compare_operand_to`, over the entry comparison `cmp` it
calls for the method entries and the arguments. -/
def compare_operand_with (cmp : Nat → Nat → Except Fault Bool)
    (cp1 : ConstantPool) (idx1 : Nat) (cp2 : ConstantPool) (idx2 : Nat) :
    Except Fault Bool := do
  let e1 ← cp1.bsm_attribute_entry idx1
  let e2 ← cp2.bsm_attribute_entry idx2
  let k1 ← cp1.bootstrap_method_index e1
  let k2 ← cp2.bootstrap_method_index e2
  let m ← cmp k1 k2
  if !m then pure false
  else
    let argc ← cp1.argument_count e1
    let argc2 ← cp2.argument_count e2
    if argc = argc2 then compare_operand_args cmp cp1 e1 cp2 e2 argc 0
    else pure false

/-- The tag `compare_entry_to` switches on: the non-error value of the tag, with Class
reverted to UnresolvedClass. -/
def normalized_tag (tag : Nat) : Nat :=
  if constantTag.non_error_value tag = JVM_CONSTANT_Class then JVM_CONSTANT_UnresolvedClass
  else constantTag.non_error_value tag

/-- The body of `ConstantPool::compare_entry_to`: this pool's entry at `index1` against
`cp2`'s entry at `index2`, over the comparison `cmp` that stands for the nested calls
`compare_entry_to(recur1, cp2, recur2)`. -/
def compare_entry_with (cmp : Nat → Nat → Except Fault Bool)
    (cp1 : ConstantPool) (index1 : Nat) (cp2 : ConstantPool) (index2 : Nat) :
    Except Fault Bool := do
  let tag1 ← cp1.tag_at index1
  let tag2 ← cp2.tag_at index2
  let t1 := constantTag.non_error_value tag1
  let t2 := constantTag.non_error_value tag2
  let t1 := if t1 = JVM_CONSTANT_Class then JVM_CONSTANT_UnresolvedClass else t1
  let t2 := if t2 = JVM_CONSTANT_Class then JVM_CONSTANT_UnresolvedClass else t2
  if t1 ≠ t2 then pure false
  else if t1 = JVM_CONSTANT_ClassIndex then
    let recur1 ← cp1.klass_index_at index1
    let recur2 ← cp2.klass_index_at index2
    let r ← cmp recur1 recur2
    if r then pure true else pure false
  else if t1 = JVM_CONSTANT_Double then
    let d1 ← cp1.double_at index1
    let d2 ← cp2.double_at index2
    if jdouble_eq d1 d2 then pure true else pure false
  else if t1 = JVM_CONSTANT_Fieldref ∨ t1 = JVM_CONSTANT_InterfaceMethodref ∨
      t1 = JVM_CONSTANT_Methodref then
    let recur1 ← cp1.uncached_klass_ref_index_at index1
    let recur2 ← cp2.uncached_klass_ref_index_at index2
    let isMatch ← cmp recur1 recur2
    if isMatch then
      let recur1 ← cp1.uncached_name_and_type_ref_index_at index1
      let recur2 ← cp2.uncached_name_and_type_ref_index_at index2
      let r ← cmp recur1 recur2
      if r then pure true else pure false
    else pure false
  else if t1 = JVM_CONSTANT_Float then
    let f1 ← cp1.float_at index1
    let f2 ← cp2.float_at index2
    if jfloat_eq f1 f2 then pure true else pure false
  else if t1 = JVM_CONSTANT_Integer then
    let i1 ← cp1.int_at index1
    let i2 ← cp2.int_at index2
    if i1 = i2 then pure true else pure false
  else if t1 = JVM_CONSTANT_Long then
    let l1 ← cp1.long_at index1
    let l2 ← cp2.long_at index2
    if l1 = l2 then pure true else pure false
  else if t1 = JVM_CONSTANT_NameAndType then
    let recur1 ← cp1.name_ref_index_at index1
    let recur2 ← cp2.name_ref_index_at index2
    let r ← cmp recur1 recur2
    if r then
      let recur1 ← cp1.signature_ref_index_at index1
      let recur2 ← cp2.signature_ref_index_at index2
      let r ← cmp recur1 recur2
      if r then pure true else pure false
    else pure false
  else if t1 = JVM_CONSTANT_StringIndex then
    let recur1 ← cp1.string_index_at index1
    let recur2 ← cp2.string_index_at index2
    let r ← cmp recur1 recur2
    if r then pure true else pure false
  else if t1 = JVM_CONSTANT_UnresolvedClass then
    let k1 ← cp1.klass_name_at index1
    let k2 ← cp2.klass_name_at index2
    if k1 = k2 then pure true else pure false
  else if t1 = JVM_CONSTANT_MethodType then
    let k1 ← cp1.method_type_index_at index1
    let k2 ← cp2.method_type_index_at index2
    let r ← cmp k1 k2
    if r then pure true else pure false
  else if t1 = JVM_CONSTANT_MethodHandle then
    let k1 ← cp1.method_handle_ref_kind_at index1
    let k2 ← cp2.method_handle_ref_kind_at index2
    if k1 = k2 then
      let i1 ← cp1.method_handle_index_at index1
      let i2 ← cp2.method_handle_index_at index2
      let r ← cmp i1 i2
      if r then pure true else pure false
    else pure false
  else if t1 = JVM_CONSTANT_Dynamic then
    let k1 ← cp1.bootstrap_name_and_type_ref_index_at index1
    let k2 ← cp2.bootstrap_name_and_type_ref_index_at index2
    let i1 ← cp1.bootstrap_methods_attribute_index index1
    let i2 ← cp2.bootstrap_methods_attribute_index index2
    let match_entry ← cmp k1 k2
    let match_operand ←
      compare_operand_with cmp cp1 i1 cp2 i2
    pure (match_entry && match_operand)
  else if t1 = JVM_CONSTANT_InvokeDynamic then
    let k1 ← cp1.bootstrap_name_and_type_ref_index_at index1
    let k2 ← cp2.bootstrap_name_and_type_ref_index_at index2
    let i1 ← cp1.bootstrap_methods_attribute_index index1
    let i2 ← cp2.bootstrap_methods_attribute_index index2
    let match_entry ← cmp k1 k2
    let match_operand ←
      compare_operand_with cmp cp1 i1 cp2 i2
    pure (match_entry && match_operand)
  else if t1 = JVM_CONSTANT_String then
    let s1 ← cp1.unresolved_string_at index1
    let s2 ← cp2.unresolved_string_at index2
    if s1 = s2 then pure true else pure false
  else if t1 = JVM_CONSTANT_Utf8 then
    let s1 ← cp1.symbol_at index1
    let s2 ← cp2.symbol_at index2
    if s1 = s2 then pure true else pure false
  else
    .error .should_not_reach_here

/-- Function `ConstantPool::compare_entry_to`: this pool's entry at `index1` against `cp2`'s entry
at `index2`.  The first argument bounds the depth of nested calls. -/
def compare_entry_to : Nat → ConstantPool → Nat → ConstantPool → Nat → Except Fault Bool
  | 0, _, _, _, _ => .error .out_of_fuel
  | fuel + 1, cp1, index1, cp2, index2 =>
    compare_entry_with (fun a b => compare_entry_to fuel cp1 a cp2 b) cp1 index1 cp2 index2

/-- Function `ConstantPool::compare_operand_to`: this pool's bootstrap specifier at `idx1` against
`cp2`'s bootstrap specifier at `idx2`; `fuel` bounds the depth of the entry comparisons
it makes. -/
def compare_operand_to (fuel : Nat) (cp1 : ConstantPool) (idx1 : Nat) (cp2 : ConstantPool)
    (idx2 : Nat) : Except Fault Bool :=
  compare_operand_with (fun a b => compare_entry_to fuel cp1 a cp2 b) cp1 idx1 cp2 idx2

/-- The loop `for (int i = 1; i < search_cp->length(); i++)` of `find_matching_entry`,
from index `i` with `n` indices left. -/
def find_matching_entry_from (fuel : Nat) (cp : ConstantPool) (pattern_i : Nat)
    (search_cp : ConstantPool) : Nat → Nat → Except Fault Nat
  | 0, _ => pure 0
  | n + 1, i => do
    let found ← compare_entry_to fuel cp pattern_i search_cp i
    if found then pure i
    else find_matching_entry_from fuel cp pattern_i search_cp n (i + 1)

/-- Function `ConstantPool::find_matching_entry`: the index of an entry of `search_cp`
that matches this pool's entry at `pattern_i`, or 0. -/
def find_matching_entry (fuel : Nat) (cp : ConstantPool) (pattern_i : Nat)
    (search_cp : ConstantPool) : Except Fault Nat :=
  find_matching_entry_from fuel cp pattern_i search_cp (search_cp.length - 1) 1

end ConstantPool

/-! ## Serialisation to the class-file layout -/

/-- Modelled from the spec: `SymbolHash` of `constantPool.hpp` (not among the sources): the
caller-supplied symbol→index table, as the list of its (symbol, index) pairs in the
order they were added. -/
abbrev SymbolHash := List (Nat × Nat)

/-- Modelled from the spec: `SymbolHash::add_if_absent`: a symbol that has an index keeps it. -/
def SymbolHash.add_if_absent (tbl : SymbolHash) (sym : Nat) (value : Nat) : SymbolHash :=
  if tbl.any (fun kv => kv.1 = sym) then tbl else tbl ++ [(sym, value % 65536)]

/-- Modelled from the spec: `SymbolHash::symbol_to_value`: the index of the symbol, 0 when the
table has none. -/
def SymbolHash.symbol_to_value (tbl : SymbolHash) (sym : Nat) : Nat :=
  match tbl.find? (fun kv => kv.1 = sym) with
  | some kv => kv.2
  | none => 0

/-- The memory the `bytes` argument of `copy_cpool_bytes` points to: the byte at
`start_bytes + a` for every offset `a`. -/
abbrev Bytes := Nat → Nat

/-- The store `bytes[p] = (u1) v`. -/
def put_u1 (bytes : Bytes) (p v : Nat) : Bytes :=
  fun a => if a = p then v % 256 else bytes a

/-- Modelled from the spec: `Bytes::put_Java_u2` of `bytes.hpp` (not among the sources): the
`u2` in the byte order of the compiled-class layout, high byte first. -/
def put_Java_u2 (bytes : Bytes) (p v : Nat) : Bytes :=
  put_u1 (put_u1 bytes p (v / 256)) (p + 1) v

/-- Modelled from the spec: `Bytes::put_Java_u4`, high byte first. -/
def put_Java_u4 (bytes : Bytes) (p v : Nat) : Bytes :=
  put_Java_u2 (put_Java_u2 bytes p (v / 65536)) (p + 2) v

/-- Modelled from the spec: `Bytes::put_Java_u8`, high byte first. -/
def put_Java_u8 (bytes : Bytes) (p v : Nat) : Bytes :=
  put_Java_u4 (put_Java_u4 bytes p (v / 4294967296)) (p + 4) v

/-- The loop `for (int i = 0; i < len; i++) bytes[3+i] = (u1) str[i]` of the Utf8 case,
`p` being the offset of `bytes`. -/
def put_utf8_body (bytes : Bytes) (p : Nat) : List Nat → Nat → Bytes
  | [], _ => bytes
  | c :: str, i => put_utf8_body (put_u1 bytes (p + 3 + i) c) p str (i + 1)

namespace ConstantPool

/-- The loop of `ConstantPool::hash_entries_to` from index `idx`.  The index is a `u2`,
an increment of it wraps at 65536; `fuel` bounds the number of iterations. -/
def hash_entries_from (heap : SymbolHeap) (cp : ConstantPool) :
    Nat → Nat → Int → SymbolHash → SymbolHash → Except Fault (Int × SymbolHash × SymbolHash)
  | 0, _, _, _, _ => .error .out_of_fuel
  | fuel + 1, idx, size, symmap, classmap =>
    if idx < cp.length then do
      let tag ← cp.tag_at idx
      let ent_size ← cp.cpool_entry_size heap idx
      let size := jint_wrap (size + ent_size)
      if tag = JVM_CONSTANT_Utf8 then
        let sym ← cp.symbol_at idx
        hash_entries_from heap cp fuel ((idx + 1) % 65536) size
          (symmap.add_if_absent sym idx) classmap
      else if tag = JVM_CONSTANT_Class ∨ tag = JVM_CONSTANT_UnresolvedClass ∨
          tag = JVM_CONSTANT_UnresolvedClassInError then
        let sym ← cp.klass_name_at idx
        hash_entries_from heap cp fuel ((idx + 1) % 65536) size
          symmap (classmap.add_if_absent sym idx)
      else if tag = JVM_CONSTANT_Long ∨ tag = JVM_CONSTANT_Double then
        hash_entries_from heap cp fuel (((idx + 1) % 65536 + 1) % 65536) size symmap classmap
      else
        hash_entries_from heap cp fuel ((idx + 1) % 65536) size symmap classmap
    else pure (size, symmap, classmap)

/-- Function `ConstantPool::hash_entries_to`: fills the two tables and returns the size of the
raw bytes of the pool. -/
def hash_entries_to (fuel : Nat) (heap : SymbolHeap) (cp : ConstantPool)
    (symmap classmap : SymbolHash) : Except Fault (Int × SymbolHash × SymbolHash) :=
  hash_entries_from heap cp fuel 1 0 symmap classmap

/-- The `switch (tag)` of one iteration of `ConstantPool::copy_cpool_bytes`, after
`*bytes = tag`: the bytes of entry `idx` are stored from offset `p` on.  The result is the
memory and whether the entry occupies two slots (`idx++`). -/
def copy_cpool_entry (heap : SymbolHeap) (tbl : SymbolHash) (cp : ConstantPool)
    (idx : Nat) (tag : Nat) (bytes : Bytes) (p : Nat) : Except Fault (Bytes × Bool) := do
  let bytes := put_u1 bytes p tag
  if tag = JVM_CONSTANT_Invalid then
    pure (bytes, false)
  else if tag = JVM_CONSTANT_Unicode then
    pure (bytes, false)
  else if tag = JVM_CONSTANT_Utf8 then
    let sym ← cp.symbol_at idx
    let str := (heap sym).body
    let len := (heap sym).strlen
    let bytes := put_Java_u2 bytes (p + 1) len
    pure (put_utf8_body bytes p (str.take len) 0, false)
  else if tag = JVM_CONSTANT_Integer then
    let val ← cp.int_at idx
    pure (put_Java_u4 bytes (p + 1) val, false)
  else if tag = JVM_CONSTANT_Float then
    let val ← cp.float_at idx
    pure (put_Java_u4 bytes (p + 1) val, false)
  else if tag = JVM_CONSTANT_Long then
    let val ← cp.long_at idx
    pure (put_Java_u8 bytes (p + 1) val, true)
  else if tag = JVM_CONSTANT_Double then
    let val ← cp.double_at idx
    pure (put_Java_u8 bytes (p + 1) val, true)
  else if tag = JVM_CONSTANT_Class ∨ tag = JVM_CONSTANT_UnresolvedClass ∨
      tag = JVM_CONSTANT_UnresolvedClassInError then
    let bytes := put_u1 bytes p JVM_CONSTANT_Class
    let sym ← cp.klass_name_at idx
    let idx1 := tbl.symbol_to_value sym
    pure (put_Java_u2 bytes (p + 1) idx1, false)
  else if tag = JVM_CONSTANT_String then
    let bytes := put_u1 bytes p JVM_CONSTANT_String
    let sym ← cp.unresolved_string_at idx
    let idx1 := tbl.symbol_to_value sym
    pure (put_Java_u2 bytes (p + 1) idx1, false)
  else if tag = JVM_CONSTANT_Fieldref ∨ tag = JVM_CONSTANT_Methodref ∨
      tag = JVM_CONSTANT_InterfaceMethodref then
    let idx1 ← cp.uncached_klass_ref_index_at idx
    let idx2 ← cp.uncached_name_and_type_ref_index_at idx
    pure (put_Java_u2 (put_Java_u2 bytes (p + 1) idx1) (p + 3) idx2, false)
  else if tag = JVM_CONSTANT_NameAndType then
    let idx1 ← cp.name_ref_index_at idx
    let idx2 ← cp.signature_ref_index_at idx
    pure (put_Java_u2 (put_Java_u2 bytes (p + 1) idx1) (p + 3) idx2, false)
  else if tag = JVM_CONSTANT_ClassIndex then
    let bytes := put_u1 bytes p JVM_CONSTANT_Class
    let idx1 ← cp.klass_index_at idx
    pure (put_Java_u2 bytes (p + 1) idx1, false)
  else if tag = JVM_CONSTANT_StringIndex then
    let bytes := put_u1 bytes p JVM_CONSTANT_String
    let idx1 ← cp.string_index_at idx
    pure (put_Java_u2 bytes (p + 1) idx1, false)
  else if tag = JVM_CONSTANT_MethodHandle ∨ tag = JVM_CONSTANT_MethodHandleInError then
    let bytes := put_u1 bytes p JVM_CONSTANT_MethodHandle
    let kind ← cp.method_handle_ref_kind_at idx
    let idx1 ← cp.method_handle_index_at idx
    let bytes := put_u1 bytes (p + 1) kind
    pure (put_Java_u2 bytes (p + 2) idx1, false)
  else if tag = JVM_CONSTANT_MethodType ∨ tag = JVM_CONSTANT_MethodTypeInError then
    let bytes := put_u1 bytes p JVM_CONSTANT_MethodType
    let idx1 ← cp.method_type_index_at idx
    pure (put_Java_u2 bytes (p + 1) idx1, false)
  else if tag = JVM_CONSTANT_Dynamic ∨ tag = JVM_CONSTANT_DynamicInError then
    let bytes := put_u1 bytes p tag
    let w ← cp.int_at_addr idx
    let idx1 := extract_low_short_from_int w
    let idx2 := extract_high_short_from_int w
    pure (put_Java_u2 (put_Java_u2 bytes (p + 1) idx1) (p + 3) idx2, false)
  else if tag = JVM_CONSTANT_InvokeDynamic then
    let bytes := put_u1 bytes p tag
    let w ← cp.int_at_addr idx
    let idx1 := extract_low_short_from_int w
    let idx2 := extract_high_short_from_int w
    pure (put_Java_u2 (put_Java_u2 bytes (p + 1) idx1) (p + 3) idx2, false)
  else
    pure (bytes, false)

/-- The loop `for (jint idx = 1; idx < cnt; idx++)` of `ConstantPool::copy_cpool_bytes`
from index `idx`, with `bytes` at offset `p` from `start_bytes`.  Every iteration
advances `idx`, so `cnt` iterations are enough; the first argument counts them. -/
def copy_cpool_bytes_from (heap : SymbolHeap) (tbl : SymbolHash) (cp : ConstantPool) :
    Nat → Nat → Int → Nat → Bytes → Except Fault (Nat × Bytes)
  | 0, idx, _, p, bytes =>
    if idx < cp.length then .error .out_of_fuel else pure (p, bytes)
  | steps + 1, idx, size, p, bytes =>
    if idx < cp.length then do
      let tag ← cp.tag_at idx
      let ent_size ← cp.cpool_entry_size heap idx
      let (bytes, two_slots) ← cp.copy_cpool_entry heap tbl idx tag bytes p
      let idx := if two_slots then idx + 1 else idx
      copy_cpool_bytes_from heap tbl cp steps (idx + 1) (jint_wrap (size + ent_size))
        (p + ent_size) bytes
    else pure (p, bytes)

/-- Function `ConstantPool::copy_cpool_bytes`: the count `(int)(bytes - start_bytes)` of the raw
bytes that have been copied, and the memory they were copied to. -/
def copy_cpool_bytes (heap : SymbolHeap) (tbl : SymbolHash) (cp : ConstantPool)
    (bytes : Bytes) : Except Fault (Int × Bytes) := do
  let (p, bytes) ← copy_cpool_bytes_from heap tbl cp cp.length 1 0 0 bytes
  pure (jint_wrap p, bytes)

/-- The sum of `cpool_entry_size` over the first slot of every entry from index `idx` on,
the second slot of each Long/Double being skipped; `n` bounds the number of entries. -/
def entry_sizes_from (heap : SymbolHeap) (cp : ConstantPool) : Nat → Nat → Nat
  | 0, _ => 0
  | n + 1, idx =>
    if idx < cp.length then
      match cp.tag_at idx, cp.cpool_entry_size heap idx with
      | .ok tag, .ok sz =>
        sz + entry_sizes_from heap cp n
          (if tag = JVM_CONSTANT_Long ∨ tag = JVM_CONSTANT_Double then idx + 2 else idx + 1)
      | _, _ => 0
    else 0

/-- The sum of `cpool_entry_size` over the first slot of every entry at indices
`1 .. length-1`. -/
def entry_sizes (heap : SymbolHeap) (cp : ConstantPool) : Nat :=
  entry_sizes_from heap cp cp.length 1

end ConstantPool

/-! ## Searching the operands -/

namespace ConstantPool

/-- The loop `for (int i = 0; i < search_len; i++)` of `find_matching_operand`, from index
`i` with `n` indices left. -/
def find_matching_operand_from (fuel : Nat) (cp : ConstantPool) (pattern_i : Nat)
    (search_cp : ConstantPool) : Nat → Nat → Except Fault Int
  | 0, _ => pure (-1)
  | n + 1, i => do
    let found ← compare_operand_to fuel cp pattern_i search_cp i
    if found then pure (i : Int)
    else find_matching_operand_from fuel cp pattern_i search_cp n (i + 1)

/-- Function `ConstantPool::find_matching_operand`: the index of a bootstrap specifier of
`search_cp`, below `search_len`, that matches this pool's bootstrap specifier at
`pattern_i`, or -1. -/
def find_matching_operand (fuel : Nat) (cp : ConstantPool) (pattern_i : Nat)
    (search_cp : ConstantPool) (search_len : Int) : Except Fault Int :=
  find_matching_operand_from fuel cp pattern_i search_cp search_len.toNat 0

end ConstantPool

/-! ## Writing entries -/

/-- Modelled from the spec: `Symbol::increment_refcount` of `symbol.hpp` (not among the
sources): the reference count of the symbol goes up by one. -/
def Symbol.increment_refcount (s : Symbol) : Symbol := { s with refcount := s.refcount + 1 }

/-- The heap after `sym->increment_refcount()`. -/
def SymbolHeap.increment_refcount (heap : SymbolHeap) (sym : Nat) : SymbolHeap :=
  fun a => if a = sym then (heap a).increment_refcount else heap a

/-- The `jint` `(high << 16) | low` the two-index entries are stored as. -/
def pack_shorts (low high : Nat) : Nat := ((high * 65536) ||| low) % 4294967296

namespace ConstantPool

/-- A store into slot `cp_index`; a store outside the pool is a fault. -/
def slot_put (cp : ConstantPool) (cp_index : Nat) (f : CPSlot → CPSlot) :
    Except Fault ConstantPool :=
  match cp.slots[cp_index]? with
  | some s => .ok { cp with slots := cp.slots.set cp_index (f s) }
  | none => .error .out_of_bounds

/-- Modelled from the spec: `ConstantPool::tag_at_put` of `constantPool.hpp` (not among the
sources): the tag byte of the slot is replaced, the payload is kept. -/
def tag_at_put (cp : ConstantPool) (cp_index : Nat) (t : Nat) : Except Fault ConstantPool :=
  cp.slot_put cp_index fun s => { s with tag := t }

/-- Modelled from the spec: the store `*int_at_addr(cp_index) = v` of a `jint` into the raw
entry payload: the 32 bits `int_at_addr` reads are replaced, the rest of the word is
kept. -/
def int_at_addr_put (cp : ConstantPool) (cp_index : Nat) (v : Nat) : Except Fault ConstantPool :=
  cp.slot_put cp_index fun s =>
    { s with value := s.value / 4294967296 * 4294967296 + v % 4294967296 }

/-- Modelled from the spec: the store of a whole word (a `Symbol*`, a `jlong`, a `jdouble`)
into the raw entry payload. -/
def word_at_put (cp : ConstantPool) (cp_index : Nat) (v : Nat) : Except Fault ConstantPool :=
  cp.slot_put cp_index fun s => { s with value := v }

/-- A write of a tag and of a `jint` payload, the shape of the `*_at_put` functions of
`constantPool.hpp` for the entries that hold an `int`. -/
def tagged_int_at_put (cp : ConstantPool) (cp_index : Nat) (t v : Nat) :
    Except Fault ConstantPool := do
  let cp ← cp.tag_at_put cp_index t
  cp.int_at_addr_put cp_index v

/-- A write of a tag and of a whole word. -/
def tagged_word_at_put (cp : ConstantPool) (cp_index : Nat) (t v : Nat) :
    Except Fault ConstantPool := do
  let cp ← cp.tag_at_put cp_index t
  cp.word_at_put cp_index v

/-- Modelled from the spec: `ConstantPool::klass_index_at_put`: a ClassIndex entry holding
the name index. -/
def klass_index_at_put (cp : ConstantPool) (cp_index name_index : Nat) :
    Except Fault ConstantPool :=
  cp.tagged_int_at_put cp_index JVM_CONSTANT_ClassIndex name_index

/-- Modelled from the spec: `ConstantPool::string_index_at_put`. -/
def string_index_at_put (cp : ConstantPool) (cp_index string_index : Nat) :
    Except Fault ConstantPool :=
  cp.tagged_int_at_put cp_index JVM_CONSTANT_StringIndex string_index

/-- Modelled from the spec: `ConstantPool::int_at_put`. -/
def int_at_put (cp : ConstantPool) (cp_index i : Nat) : Except Fault ConstantPool :=
  cp.tagged_int_at_put cp_index JVM_CONSTANT_Integer i

/-- Modelled from the spec: `ConstantPool::float_at_put`, on the 32-bit pattern. -/
def float_at_put (cp : ConstantPool) (cp_index f : Nat) : Except Fault ConstantPool :=
  cp.tagged_int_at_put cp_index JVM_CONSTANT_Float f

/-- Modelled from the spec: `ConstantPool::long_at_put`, on the 64-bit pattern. -/
def long_at_put (cp : ConstantPool) (cp_index l : Nat) : Except Fault ConstantPool :=
  cp.tagged_word_at_put cp_index JVM_CONSTANT_Long (l % 18446744073709551616)

/-- Modelled from the spec: `ConstantPool::double_at_put`, on the 64-bit pattern. -/
def double_at_put (cp : ConstantPool) (cp_index d : Nat) : Except Fault ConstantPool :=
  cp.tagged_word_at_put cp_index JVM_CONSTANT_Double (d % 18446744073709551616)

/-- Modelled from the spec: `ConstantPool::field_at_put`: class index in the low half,
name-and-type index in the high half. -/
def field_at_put (cp : ConstantPool) (cp_index class_index name_and_type_index : Nat) :
    Except Fault ConstantPool :=
  cp.tagged_int_at_put cp_index JVM_CONSTANT_Fieldref
    (pack_shorts class_index name_and_type_index)

/-- Modelled from the spec: `ConstantPool::method_at_put`. -/
def method_at_put (cp : ConstantPool) (cp_index class_index name_and_type_index : Nat) :
    Except Fault ConstantPool :=
  cp.tagged_int_at_put cp_index JVM_CONSTANT_Methodref
    (pack_shorts class_index name_and_type_index)

/-- Modelled from the spec: `ConstantPool::interface_method_at_put`. -/
def interface_method_at_put (cp : ConstantPool)
    (cp_index class_index name_and_type_index : Nat) : Except Fault ConstantPool :=
  cp.tagged_int_at_put cp_index JVM_CONSTANT_InterfaceMethodref
    (pack_shorts class_index name_and_type_index)

/-- Modelled from the spec: `ConstantPool::name_and_type_at_put`: name index in the low
half, signature index in the high half. -/
def name_and_type_at_put (cp : ConstantPool) (cp_index name_index signature_index : Nat) :
    Except Fault ConstantPool :=
  cp.tagged_int_at_put cp_index JVM_CONSTANT_NameAndType
    (pack_shorts name_index signature_index)

/-- Modelled from the spec: `ConstantPool::unresolved_string_at_put`: a String entry holding
the symbol. -/
def unresolved_string_at_put (cp : ConstantPool) (cp_index s : Nat) :
    Except Fault ConstantPool :=
  cp.tagged_word_at_put cp_index JVM_CONSTANT_String s

/-- Modelled from the spec: `ConstantPool::symbol_at_put`: a Utf8 entry holding the symbol. -/
def symbol_at_put (cp : ConstantPool) (cp_index s : Nat) : Except Fault ConstantPool :=
  cp.tagged_word_at_put cp_index JVM_CONSTANT_Utf8 s

/-- Modelled from the spec: `ConstantPool::method_type_index_at_put`. -/
def method_type_index_at_put (cp : ConstantPool) (cp_index ref_index : Nat) :
    Except Fault ConstantPool :=
  cp.tagged_int_at_put cp_index JVM_CONSTANT_MethodType ref_index

/-- Modelled from the spec: `ConstantPool::method_handle_index_at_put`: reference kind in the
low half, member index in the high half. -/
def method_handle_index_at_put (cp : ConstantPool) (cp_index ref_kind ref_index : Nat) :
    Except Fault ConstantPool :=
  cp.tagged_int_at_put cp_index JVM_CONSTANT_MethodHandle (pack_shorts ref_kind ref_index)

/-- Modelled from the spec: `ConstantPool::dynamic_constant_at_put`: bootstrap specifier
index in the low half, name-and-type index in the high half; the specifier index is an
`int` and enters the word by its two's complement pattern. -/
def dynamic_constant_at_put (cp : ConstantPool) (cp_index : Nat)
    (bsms_attribute_index : Int) (name_and_type_index : Nat) : Except Fault ConstantPool :=
  cp.tagged_int_at_put cp_index JVM_CONSTANT_Dynamic
    (pack_shorts (bsms_attribute_index % 4294967296).toNat name_and_type_index)

/-- Modelled from the spec: `ConstantPool::invoke_dynamic_at_put`. -/
def invoke_dynamic_at_put (cp : ConstantPool) (cp_index : Nat)
    (bsms_attribute_index : Int) (name_and_type_index : Nat) : Except Fault ConstantPool :=
  cp.tagged_int_at_put cp_index JVM_CONSTANT_InvokeDynamic
    (pack_shorts (bsms_attribute_index % 4294967296).toNat name_and_type_index)

/-- Function `ConstantPool::copy_entry_to`: the entry of `from_cp` at `from_i` is copied to
the entry of `to_cp` at `to_i`.  The result is the destination pool and the symbol heap
after the call. -/
def copy_entry_to (heap : SymbolHeap) (from_cp : ConstantPool) (from_i : Nat)
    (to_cp : ConstantPool) (to_i : Nat) : Except Fault (ConstantPool × SymbolHeap) := do
  let tag ← from_cp.tag_at from_i
  if tag = JVM_CONSTANT_ClassIndex then
    let ki ← from_cp.klass_index_at from_i
    let to_cp ← to_cp.klass_index_at_put to_i ki
    pure (to_cp, heap)
  else if tag = JVM_CONSTANT_Double then
    let d ← from_cp.double_at from_i
    let to_cp ← to_cp.double_at_put to_i d
    let to_cp ← to_cp.tag_at_put (to_i + 1) JVM_CONSTANT_Invalid
    pure (to_cp, heap)
  else if tag = JVM_CONSTANT_Fieldref then
    let class_index ← from_cp.uncached_klass_ref_index_at from_i
    let name_and_type_index ← from_cp.uncached_name_and_type_ref_index_at from_i
    let to_cp ← to_cp.field_at_put to_i class_index name_and_type_index
    pure (to_cp, heap)
  else if tag = JVM_CONSTANT_Float then
    let f ← from_cp.float_at from_i
    let to_cp ← to_cp.float_at_put to_i f
    pure (to_cp, heap)
  else if tag = JVM_CONSTANT_Integer then
    let i ← from_cp.int_at from_i
    let to_cp ← to_cp.int_at_put to_i i
    pure (to_cp, heap)
  else if tag = JVM_CONSTANT_InterfaceMethodref then
    let class_index ← from_cp.uncached_klass_ref_index_at from_i
    let name_and_type_index ← from_cp.uncached_name_and_type_ref_index_at from_i
    let to_cp ← to_cp.interface_method_at_put to_i class_index name_and_type_index
    pure (to_cp, heap)
  else if tag = JVM_CONSTANT_Long then
    let l ← from_cp.long_at from_i
    let to_cp ← to_cp.long_at_put to_i l
    let to_cp ← to_cp.tag_at_put (to_i + 1) JVM_CONSTANT_Invalid
    pure (to_cp, heap)
  else if tag = JVM_CONSTANT_Methodref then
    let class_index ← from_cp.uncached_klass_ref_index_at from_i
    let name_and_type_index ← from_cp.uncached_name_and_type_ref_index_at from_i
    let to_cp ← to_cp.method_at_put to_i class_index name_and_type_index
    pure (to_cp, heap)
  else if tag = JVM_CONSTANT_NameAndType then
    let name_ref_index ← from_cp.name_ref_index_at from_i
    let signature_ref_index ← from_cp.signature_ref_index_at from_i
    let to_cp ← to_cp.name_and_type_at_put to_i name_ref_index signature_ref_index
    pure (to_cp, heap)
  else if tag = JVM_CONSTANT_StringIndex then
    let si ← from_cp.string_index_at from_i
    let to_cp ← to_cp.string_index_at_put to_i si
    pure (to_cp, heap)
  else if tag = JVM_CONSTANT_Class ∨ tag = JVM_CONSTANT_UnresolvedClass ∨
      tag = JVM_CONSTANT_UnresolvedClassInError then
    let name_index ← from_cp.klass_slot_name_index from_i
    let to_cp ← to_cp.klass_index_at_put to_i name_index
    pure (to_cp, heap)
  else if tag = JVM_CONSTANT_String then
    let s ← from_cp.unresolved_string_at from_i
    let to_cp ← to_cp.unresolved_string_at_put to_i s
    pure (to_cp, heap)
  else if tag = JVM_CONSTANT_Utf8 then
    let s ← from_cp.symbol_at from_i
    let heap := heap.increment_refcount s
    let to_cp ← to_cp.symbol_at_put to_i s
    pure (to_cp, heap)
  else if tag = JVM_CONSTANT_MethodType ∨ tag = JVM_CONSTANT_MethodTypeInError then
    let k ← from_cp.method_type_index_at from_i
    let to_cp ← to_cp.method_type_index_at_put to_i k
    pure (to_cp, heap)
  else if tag = JVM_CONSTANT_MethodHandle ∨ tag = JVM_CONSTANT_MethodHandleInError then
    let k1 ← from_cp.method_handle_ref_kind_at from_i
    let k2 ← from_cp.method_handle_index_at from_i
    let to_cp ← to_cp.method_handle_index_at_put to_i k1 k2
    pure (to_cp, heap)
  else if tag = JVM_CONSTANT_Dynamic ∨ tag = JVM_CONSTANT_DynamicInError then
    let k1 ← from_cp.bootstrap_methods_attribute_index from_i
    let k2 ← from_cp.bootstrap_name_and_type_ref_index_at from_i
    let oplen ← to_cp.operand_array_length
    let k1 : Int := (k1 : Int) + oplen
    let to_cp ← to_cp.dynamic_constant_at_put to_i k1 k2
    pure (to_cp, heap)
  else if tag = JVM_CONSTANT_InvokeDynamic then
    let k1 ← from_cp.bootstrap_methods_attribute_index from_i
    let k2 ← from_cp.bootstrap_name_and_type_ref_index_at from_i
    let oplen ← to_cp.operand_array_length
    let k1 : Int := (k1 : Int) + oplen
    let to_cp ← to_cp.invoke_dynamic_at_put to_i k1 k2
    pure (to_cp, heap)
  else
    .error .should_not_reach_here

end ConstantPool

/-! ## Exceptions and the allocation of metadata arrays -/

/-- The text of a C string, without its terminating NUL. -/
abbrev CString := List Nat

/-- Modelled from the spec: the cause field of a `java.lang.Throwable` as
`java_lang_Throwable::cause` reads it: `nullptr`, the throwable itself (no cause was
set), or another throwable, of which the pool reads the class name and message. -/
inductive ThrowableCause where
  | null
  | self
  | other (klass : Nat) (message : Option CString)
  deriving DecidableEq, Repr

/-- Modelled from the spec: an exception object: the name of its class
(`klass()->name()`), its detail message (`java_lang_Throwable::message_as_utf8`, `none`
for `nullptr`) and its cause. -/
structure Throwable where
  klass : Nat
  message : Option CString
  cause : ThrowableCause
  deriving DecidableEq, Repr

/-- Modelled from the spec: the `ClassLoaderData` in whose metaspace the arrays of a pool
are allocated (`classLoaderData.hpp`, not among the sources), as far as the pool depends
on it: the exception with which the allocation of an array of a given length fails, if
it does. -/
structure ClassLoaderData where
  new_array_fails : Int → Option Throwable

/-- Modelled from the spec: `MetadataFactory::new_array<T>(loader_data, length, THREAD)` of
`metadataFactory.hpp` (not among the sources): a fresh array of the given length, filled
with the zero of `T` (0 for a `u2`, `nullptr` for a pointer), or the exception that a
failed allocation leaves pending; a negative length is a fault. -/
def new_array {T : Type} (zero : T) (loader_data : ClassLoaderData) (length : Int) :
    Except Fault (Except Throwable (List T)) :=
  if 0 ≤ length then
    match loader_data.new_array_fails length with
    | some e => .ok (.error e)
    | none => .ok (.ok (List.replicate length.toNat zero))
  else .error .out_of_bounds

/-! ## Resizing and copying the operands array -/

/-- Modelled from the spec: `Copy::conjoint_memory_atomic` of `copy.hpp` (not among the
sources), in units of `u2`: `count` elements of `src` from `src_pos` on are copied over the
elements of `dst` from `dst_pos` on.  A negative count (a huge `size_t`) and a copy that
leaves either array are faults; a copy of nothing touches no memory. -/
def conjoint_memory_atomic (src : List Nat) (src_pos : Int) (dst : List Nat) (dst_pos : Int)
    (count : Int) : Except Fault (List Nat) :=
  if count = 0 then .ok dst
  else if 0 < count ∧ 0 ≤ src_pos ∧ src_pos + count ≤ src.length ∧
      0 ≤ dst_pos ∧ dst_pos + count ≤ dst.length then
    .ok (dst.take dst_pos.toNat ++ (src.drop src_pos.toNat).take count.toNat ++
      dst.drop (dst_pos.toNat + count.toNat))
  else .error .out_of_bounds

/-- Modelled from the spec: the static `ConstantPool::operand_offset_at_put` of
`constantPool.hpp`: the `int` offset of record `bsms_attribute_index` is stored as its low
and high shorts at `2n` and `2n+1`. -/
def operand_offset_at_put (operands : List Nat) (bsms_attribute_index : Nat) (offset : Int) :
    Except Fault (List Nat) :=
  let n := bsms_attribute_index * 2
  let v := (offset % 4294967296).toNat
  if n + 1 < operands.length then
    .ok ((operands.set n (extract_low_short_from_int v)).set (n + 1)
      (extract_high_short_from_int v))
  else .error .out_of_bounds

namespace ConstantPool

/-- Modelled from the spec: `operands()->length()` of `array.hpp`; `nullptr` is a fault. -/
def operands_length (cp : ConstantPool) : Except Fault Nat :=
  match cp.operands with
  | none => .error .null_pointer
  | some ops => .ok ops.length

/-- Modelled from the spec: `operands()->adr_at(..)` handed to a copy: the array the
address points into; `nullptr` is a fault. -/
def operands_array (cp : ConstantPool) : Except Fault (List Nat) :=
  match cp.operands with
  | none => .error .null_pointer
  | some ops => .ok ops

/-- Modelled from the spec: `ConstantPool::set_operands` of `constantPool.hpp`. -/
def set_operands (cp : ConstantPool) (ops : List Nat) : ConstantPool :=
  { cp with operands := some ops }

/-- Modelled from the spec: `ConstantPool::operand_next_offset_at` of `constantPool.hpp`: the
offset just past the record of a bootstrap specifier, that is the offset of the record
plus the two header shorts plus the argument count. -/
def operand_next_offset_at (cp : ConstantPool) (bsms_attribute_index : Int) :
    Except Fault Nat :=
  if bsms_attribute_index < 0 then .error .out_of_bounds
  else do
    let e ← cp.bsm_attribute_entry bsms_attribute_index.toNat
    let argc ← cp.argument_count e
    pure (e + 2 + argc)

/-- The loop `for (int idx = 0; idx < min_len; idx++)` of `resize_operands`, from index
`idx` with `n` indices left: the offset of each kept record moves by `2*delta_len`. -/
def resize_offsets (cp : ConstantPool) (delta_len : Int) :
    Nat → Nat → List Nat → Except Fault (List Nat)
  | 0, _, new_ops => pure new_ops
  | n + 1, idx, new_ops => do
    let offset ← cp.operand_offset_at idx
    let new_ops ← operand_offset_at_put new_ops idx (offset + 2 * delta_len)
    resize_offsets cp delta_len n (idx + 1) new_ops

/-- Function `ConstantPool::resize_operands`: the operands array is replaced by one with
`delta_len` more offset pairs and `delta_size` more shorts.  The result is the pool and
the exception left pending, if any: when the allocation of the new array fails the
function returns at `CHECK` with the operands as they were. -/
def resize_operands (cp : ConstantPool) (loader_data : ClassLoaderData)
    (delta_len delta_size : Int) : Except Fault (ConstantPool × Option Throwable) := do
  let old_len ← cp.operand_array_length
  let new_len : Int := old_len + delta_len
  let min_len : Int := if delta_len > 0 then old_len else new_len
  let old_size ← cp.operands_length
  let new_size : Int := (old_size : Int) + delta_size
  let min_size : Int := if delta_size > 0 then (old_size : Int) else new_size
  match ← new_array (0 : Nat) loader_data new_size with
  | .error e => pure (cp, some e)
  | .ok new_ops => do
    let new_ops ← cp.resize_offsets delta_len min_len.toNat 0 new_ops
    let ops ← cp.operands_array
    let new_ops ← conjoint_memory_atomic ops (2 * old_len) new_ops (2 * new_len)
      (min_size - 2 * min_len)
    pure (cp.set_operands new_ops, none)

/-- Function `ConstantPool::extend_operands`: room is made in the operands array for the
bootstrap specifiers of `ext_cp`.  The result is the pool and the exception left
pending, if any: a failed allocation returns at `CHECK` with the operands as they
were. -/
def extend_operands (cp : ConstantPool) (loader_data : ClassLoaderData)
    (ext_cp : ConstantPool) : Except Fault (ConstantPool × Option Throwable) := do
  let delta_len ← ext_cp.operand_array_length
  if delta_len = 0 then pure (cp, none)
  else do
    let delta_size ← ext_cp.operands_length
    let old_len ← cp.operand_array_length
    if old_len = 0 then do
      match ← new_array (0 : Nat) loader_data (delta_size : Int) with
      | .error e => pure (cp, some e)
      | .ok new_ops => do
        let new_ops ← operand_offset_at_put new_ops 0 (2 * delta_len)
        pure (cp.set_operands new_ops, none)
    else cp.resize_operands loader_data delta_len (delta_size : Int)

/-- Function `ConstantPool::shrink_operands`: the operands array is cut down to its first
`new_len` bootstrap specifiers.  The result is the pool and the exception left pending,
if any. -/
def shrink_operands (cp : ConstantPool) (loader_data : ClassLoaderData) (new_len : Int) :
    Except Fault (ConstantPool × Option Throwable) := do
  let old_len ← cp.operand_array_length
  if new_len = old_len then pure (cp, none)
  else do
    let free_base ← cp.operand_next_offset_at (new_len - 1)
    let delta_len : Int := new_len - old_len
    let size ← cp.operands_length
    let delta_size : Int := 2 * delta_len + (free_base : Int) - (size : Int)
    cp.resize_operands loader_data delta_len delta_size

/-- The loop `for (int j = 0; j < from_oplen; j++)` of `copy_operands`, from `j` with `n`
indices left: the offsets of the appended records move by `old_len`.  A negative index
`old_oplen + j` is an access outside the array. -/
def adjust_offsets (old_oplen : Int) (old_len : Nat) :
    Nat → Nat → List Nat → Except Fault (List Nat)
  | 0, _, new_operands => pure new_operands
  | n + 1, j, new_operands => do
    let idx : Int := old_oplen + (j : Int)
    if idx < 0 then .error .out_of_bounds
    else do
      let offset ← (ConstantPool.mk [] (some new_operands)).operand_offset_at idx.toNat
      let offset : Int := offset + (old_len : Int)
      let new_operands ← operand_offset_at_put new_operands idx.toNat offset
      adjust_offsets old_oplen old_len n (j + 1) new_operands

/-- Function `ConstantPool::copy_operands`: the bootstrap specifiers of `from_cp` are
appended to the operands array of `to_cp`, in whose loader data the new array is
allocated.  The result is the destination pool and the exception left pending, if any:
when the allocation fails the function returns at `CHECK` with the destination as it
was. -/
def copy_operands (loader_data : ClassLoaderData) (from_cp to_cp : ConstantPool) :
    Except Fault (ConstantPool × Option Throwable) := do
  let from_oplen ← from_cp.operand_array_length
  let old_oplen ← to_cp.operand_array_length
  if from_oplen ≠ 0 then
    if old_oplen = 0 then do
      let len ← from_cp.operands_length
      match ← new_array (0 : Nat) loader_data (len : Int) with
      | .error e => pure (to_cp, some e)
      | .ok new_ops => do
        let from_ops ← from_cp.operands_array
        let new_ops ← conjoint_memory_atomic from_ops 0 new_ops 0 (len : Int)
        pure (to_cp.set_operands new_ops, none)
    else do
      let old_len ← to_cp.operands_length
      let from_len ← from_cp.operands_length
      let old_off : Int := old_oplen * 2
      let from_off : Int := from_oplen * 2
      match ← new_array (0 : Nat) loader_data ((old_len : Int) + (from_len : Int)) with
      | .error e => pure (to_cp, some e)
      | .ok new_operands => do
        let to_ops ← to_cp.operands_array
        let from_ops ← from_cp.operands_array
        let fillp : Int := 0
        let len : Int := old_off
        let new_operands ← conjoint_memory_atomic to_ops 0 new_operands fillp len
        let fillp := fillp + len
        let len : Int := from_off
        let new_operands ← conjoint_memory_atomic from_ops 0 new_operands fillp len
        let fillp := fillp + len
        let len : Int := (old_len : Int) - old_off
        let new_operands ← conjoint_memory_atomic to_ops old_off new_operands fillp len
        let fillp := fillp + len
        let len : Int := (from_len : Int) - from_off
        let new_operands ← conjoint_memory_atomic from_ops from_off new_operands fillp len
        let new_operands ← adjust_offsets old_oplen old_len from_oplen.toNat 0 new_operands
        pure (to_cp.set_operands new_operands, none)
  else pure (to_cp, none)

/-- The loop `for (int src_cpi = start_i; src_cpi <= end_i; )` of `copy_cp_to_impl`, with
`n` iterations allowed. -/
def copy_cp_to_loop (from_cp : ConstantPool) (end_i : Nat) :
    Nat → Nat → Nat → ConstantPool → SymbolHeap → Except Fault (ConstantPool × SymbolHeap)
  | 0, src_cpi, _, to_cp, heap =>
    if src_cpi ≤ end_i then .error .out_of_fuel else pure (to_cp, heap)
  | n + 1, src_cpi, dest_cpi, to_cp, heap =>
    if src_cpi ≤ end_i then do
      let r ← copy_entry_to heap from_cp src_cpi to_cp dest_cpi
      let tag ← from_cp.tag_at src_cpi
      if tag = JVM_CONSTANT_Double ∨ tag = JVM_CONSTANT_Long then
        copy_cp_to_loop from_cp end_i n (src_cpi + 2) (dest_cpi + 2) r.1 r.2
      else
        copy_cp_to_loop from_cp end_i n (src_cpi + 1) (dest_cpi + 1) r.1 r.2
    else pure (to_cp, heap)

/-- Function `ConstantPool::copy_cp_to_impl`: the entries `start_i..end_i` of `from_cp` are
copied to `to_cp` from `to_i` on, then the operands are appended.  Every iteration moves
`src_cpi` forward, so `end_i + 1 - start_i` iterations are enough.  The result is the
destination pool, the symbol heap and the exception `copy_operands` leaves pending, if
any. -/
def copy_cp_to_impl (loader_data : ClassLoaderData) (heap : SymbolHeap)
    (from_cp : ConstantPool) (start_i end_i : Nat) (to_cp : ConstantPool) (to_i : Nat) :
    Except Fault ((ConstantPool × SymbolHeap) × Option Throwable) := do
  let r ← copy_cp_to_loop from_cp end_i (end_i + 1 - start_i) start_i to_i to_cp heap
  let c ← copy_operands loader_data from_cp r.1
  pure ((c.1, r.2), c.2)

/-! ## Bootstrap specifiers as values -/

/-- The argument indices `argument_index(j), ..` of the record at `e`, `n` of them. -/
def argument_indices (cp : ConstantPool) (e : Nat) : Nat → Nat → Except Fault (List Nat)
  | 0, _ => pure []
  | n + 1, j => do
    let a ← cp.argument_index e j
    let rest ← argument_indices cp e n (j + 1)
    pure (a :: rest)

end ConstantPool

/-- The content of a bootstrap specifier. -/
structure Specifier where
  bootstrap_method_index : Nat
  argument_count : Nat
  arguments : List Nat
  deriving DecidableEq, Repr

namespace ConstantPool

/-- The bootstrap specifier read at index `idx`: the bootstrap-method index, the argument
count and the argument indices of `bsm_attribute_entry(idx)`. -/
def specifier_at (cp : ConstantPool) (idx : Nat) : Except Fault Specifier := do
  let e ← cp.bsm_attribute_entry idx
  let bsm ← cp.bootstrap_method_index e
  let argc ← cp.argument_count e
  let args ← cp.argument_indices e argc 0
  pure ⟨bsm, argc, args⟩

end ConstantPool

/-! ## Specification vocabulary -/

/-- Whatever value `x` returns, `y` returns too. -/
def OkLe {α : Type} (x y : Except Fault α) : Prop := ∀ r, x = .ok r → y = .ok r

namespace ConstantPool

/-- The call `compare_entry_to(index1, cp2, index2)` on `cp1` returns `b`: some depth of
nested calls is enough for it. -/
def EntryReturns (cp1 : ConstantPool) (index1 : Nat) (cp2 : ConstantPool) (index2 : Nat)
    (b : Bool) : Prop :=
  ∃ fuel, compare_entry_to fuel cp1 index1 cp2 index2 = .ok b

/-- The call `compare_operand_to(idx1, cp2, idx2)` on `cp1` returns `b`. -/
def OperandReturns (cp1 : ConstantPool) (idx1 : Nat) (cp2 : ConstantPool) (idx2 : Nat)
    (b : Bool) : Prop :=
  ∃ fuel, compare_operand_to fuel cp1 idx1 cp2 idx2 = .ok b

end ConstantPool

/-- The slot with its tag replaced by the non-error counterpart, the payload kept. -/
def CPSlot.non_error (s : CPSlot) : CPSlot := ⟨constantTag.non_error_value s.tag, s.value⟩

/-- The pool `cp'` is the pool `cp` after the tags of any number of its entries have been
replaced by their in-error or their non-error counterparts (UnresolvedClass /
UnresolvedClassInError, MethodHandle / MethodHandleInError, MethodType /
MethodTypeInError, Dynamic / DynamicInError), every payload and the operands kept. -/
def SameUpToError (cp cp' : ConstantPool) : Prop :=
  cp.slots.map CPSlot.non_error = cp'.slots.map CPSlot.non_error ∧ cp.operands = cp'.operands

instance (cp cp' : ConstantPool) : Decidable (SameUpToError cp cp') := by
  unfold SameUpToError
  infer_instance

/-- The memory `b'` agrees with the memory `b` below offset `p`. -/
def Frame (p : Nat) (b b' : Bytes) : Prop := ∀ a, a < p → b' a = b a

/-- A step of `copy_cpool_bytes` that returns leaves the memory below `p` as it was. -/
def FramedResult (p : Nat) (bytes : Bytes) (x : Except Fault (Bytes × Bool)) : Prop :=
  ∀ b' two, x = .ok (b', two) → Frame p bytes b'

/-- No value is returned. -/
def NeverOk {α : Type} (x : Except Fault α) : Prop := ∀ r, x ≠ .ok r

namespace ConstantPool

/-- The entries `copy_cpool_bytes` visits from index `idx` on, each with the offset from
`start_bytes` at which its bytes start: the first slot of every entry, the second slot
of each Long/Double being skipped; `n` bounds the number of entries. -/
def entry_layout_from (heap : SymbolHeap) (cp : ConstantPool) : Nat → Nat → Nat → List (Nat × Nat)
  | 0, _, _ => []
  | n + 1, idx, p =>
    if idx < cp.length then
      match cp.tag_at idx, cp.cpool_entry_size heap idx with
      | .ok tag, .ok sz =>
        (idx, p) :: entry_layout_from heap cp n
          (if tag = JVM_CONSTANT_Long ∨ tag = JVM_CONSTANT_Double then idx + 2 else idx + 1)
          (p + sz)
      | _, _ => []
    else []

/-- The entries of the pool in index order, each with the offset of its bytes in the
class-file layout. -/
def entry_layout (heap : SymbolHeap) (cp : ConstantPool) : List (Nat × Nat) :=
  entry_layout_from heap cp cp.length 1 0

/-- Every 8-byte entry (Long, Double) is followed by its second slot. -/
def SecondSlots (cp : ConstantPool) : Prop :=
  ∀ idx, idx < cp.length →
    cp.tag_at idx = .ok JVM_CONSTANT_Long ∨ cp.tag_at idx = .ok JVM_CONSTANT_Double →
    idx + 1 < cp.length

instance (cp : ConstantPool) : Decidable (SecondSlots cp) := by
  unfold SecondSlots
  infer_instance

/-- Every class entry (resolved, unresolved or in error) names a slot of the pool. -/
def ClassNamesInPool (cp : ConstantPool) : Prop :=
  ∀ idx, idx < cp.length →
    cp.tag_at idx = .ok JVM_CONSTANT_Class ∨ cp.tag_at idx = .ok JVM_CONSTANT_UnresolvedClass ∨
      cp.tag_at idx = .ok JVM_CONSTANT_UnresolvedClassInError →
    (cp.klass_name_at idx).isOk = true

instance (cp : ConstantPool) : Decidable (ClassNamesInPool cp) := by
  unfold ClassNamesInPool
  infer_instance

end ConstantPool

/-! ## Specification vocabulary: copied entries -/

/-- The tags `copy_entry_to` has a case for: every tag of an entry but Invalid. -/
abbrev Copyable (t : Nat) : Prop :=
  t = JVM_CONSTANT_Utf8 ∨ t = JVM_CONSTANT_Integer ∨ t = JVM_CONSTANT_Float ∨
  t = JVM_CONSTANT_Long ∨ t = JVM_CONSTANT_Double ∨ t = JVM_CONSTANT_Class ∨
  t = JVM_CONSTANT_String ∨ t = JVM_CONSTANT_Fieldref ∨ t = JVM_CONSTANT_Methodref ∨
  t = JVM_CONSTANT_InterfaceMethodref ∨ t = JVM_CONSTANT_NameAndType ∨
  t = JVM_CONSTANT_MethodHandle ∨ t = JVM_CONSTANT_MethodType ∨ t = JVM_CONSTANT_Dynamic ∨
  t = JVM_CONSTANT_InvokeDynamic ∨ t = JVM_CONSTANT_UnresolvedClass ∨
  t = JVM_CONSTANT_ClassIndex ∨ t = JVM_CONSTANT_StringIndex ∨
  t = JVM_CONSTANT_UnresolvedClassInError ∨ t = JVM_CONSTANT_MethodHandleInError ∨
  t = JVM_CONSTANT_MethodTypeInError ∨ t = JVM_CONSTANT_DynamicInError

/-- The tags of a class entry: Class, UnresolvedClass, UnresolvedClassInError. -/
abbrev KlassTag (t : Nat) : Prop :=
  t = JVM_CONSTANT_Class ∨ t = JVM_CONSTANT_UnresolvedClass ∨
  t = JVM_CONSTANT_UnresolvedClassInError

/-- The tags of an entry with a bootstrap specifier: Dynamic, DynamicInError,
InvokeDynamic. -/
abbrev BootstrapTag (t : Nat) : Prop :=
  t = JVM_CONSTANT_Dynamic ∨ t = JVM_CONSTANT_DynamicInError ∨ t = JVM_CONSTANT_InvokeDynamic

/-- The tags of an entry whose payload is a whole word: a symbol or an 8-byte value. -/
abbrev WordTag (t : Nat) : Prop :=
  t = JVM_CONSTANT_Utf8 ∨ t = JVM_CONSTANT_String ∨ t = JVM_CONSTANT_Long ∨
  t = JVM_CONSTANT_Double

/-- The tags of the 8-byte entries, which take two slots. -/
abbrev TwoSlotTag (t : Nat) : Prop := t = JVM_CONSTANT_Long ∨ t = JVM_CONSTANT_Double

/-- The tag of the copy of an entry tagged `t`, in the spec's words: a class entry becomes
ClassIndex, an in-error entry becomes its plain counterpart, every other tag is kept. -/
def demoted_tag (t : Nat) : Nat :=
  if KlassTag t then JVM_CONSTANT_ClassIndex
  else if t = JVM_CONSTANT_MethodHandleInError then JVM_CONSTANT_MethodHandle
  else if t = JVM_CONSTANT_MethodTypeInError then JVM_CONSTANT_MethodType
  else if t = JVM_CONSTANT_DynamicInError then JVM_CONSTANT_Dynamic
  else t

/-- The payload word of the copy of the source slot `s` over the destination slot `d`, for
a destination that holds `oplen` bootstrap specifiers: a symbol or an 8-byte value is
stored whole; every other payload is a `jint`, stored in the low half of the word: the
name index for a class entry, the specifier index moved by `oplen` for a Dynamic or
InvokeDynamic entry, the source's `jint` for every other entry. -/
def copied_value (s d : CPSlot) (oplen : Nat) : Nat :=
  let i := s.value % 4294967296
  let keep := d.value / 4294967296 * 4294967296
  if s.tag = JVM_CONSTANT_Utf8 ∨ s.tag = JVM_CONSTANT_String then s.value
  else if TwoSlotTag s.tag then s.value % 18446744073709551616
  else if KlassTag s.tag then keep + extract_high_short_from_int i
  else if BootstrapTag s.tag then
    keep + pack_shorts (extract_low_short_from_int i + oplen) (extract_high_short_from_int i)
  else keep + i

/-- The slots of the destination after the copy of the source slot `s` to index `to_i`:
the copied entry at `to_i` and, for an 8-byte entry, the Invalid tag at `to_i + 1`. -/
def copied_slots (s : CPSlot) (slots : List CPSlot) (to_i oplen : Nat) : List CPSlot :=
  let slots1 := slots.set to_i ⟨demoted_tag s.tag, copied_value s (slots.getD to_i ⟨0, 0⟩) oplen⟩
  if TwoSlotTag s.tag then
    slots1.set (to_i + 1) ⟨JVM_CONSTANT_Invalid, (slots1.getD (to_i + 1) ⟨0, 0⟩).value⟩
  else slots1

/-! ## Specification vocabulary: well-formed operands -/

/-- The offset the operands array `ops` records for bootstrap specifier `i`: the unsigned
pattern of the `int` built from the shorts at `2i` and `2i+1`, which is the `int` that
`operand_offset_at` reads when it is below 2^31, as every offset of a well-formed array
is. -/
def operands_offset (ops : List Nat) (i : Nat) : Nat :=
  build_int_from_shorts (ops.getD (2 * i) 0) (ops.getD (2 * i + 1) 0)

/-- The number of bootstrap specifiers of the operands array `ops`: half the offset of
the first record, which is the count `operand_array_length` reads when that offset is
below 2^31. -/
def operands_count (ops : List Nat) : Nat := operands_offset ops 0 / 2

/-- The offset just past the record of bootstrap specifier `i`: the record is the
bootstrap-method index, the argument count and that many argument indices. -/
def operands_next (ops : List Nat) (i : Nat) : Nat :=
  operands_offset ops i + 2 + ops.getD (operands_offset ops i + 1) 0

/-- A well-formed operands array: its length is an `int`; and when it is not empty, it
starts with the offsets of its records, two shorts each, the first record starts right
after the offsets, every record lies inside the array, and each record starts where the
one before it ends. -/
def OperandsWF (ops : List Nat) : Prop :=
  ops.length < 2147483648 ∧
  (ops ≠ [] →
    2 ≤ ops.length ∧ operands_offset ops 0 = 2 * operands_count ops ∧
    2 * operands_count ops ≤ ops.length ∧
    ∀ i, i < operands_count ops →
      operands_next ops i ≤ ops.length ∧
      (i + 1 < operands_count ops → operands_offset ops (i + 1) = operands_next ops i))

instance (ops : List Nat) : Decidable (OperandsWF ops) := by
  unfold OperandsWF; infer_instance

/-! ## Specification vocabulary: copying a pool -/

namespace ConstantPool

/-- The index of the entry after the entry at `i`: two slots on for a Long or Double, one
slot on for every other entry. -/
def next_entry (cp : ConstantPool) (i : Nat) : Nat :=
  if cp.tag_at i = .ok JVM_CONSTANT_Double ∨ cp.tag_at i = .ok JVM_CONSTANT_Long then i + 2
  else i + 1

/-- The indices `copy_cp_to_impl` visits from `i` up to `end_i`: the first slot of every
entry, the second slot of each Long/Double being skipped; `n` bounds their number. -/
def first_slots_from (cp : ConstantPool) (end_i : Nat) : Nat → Nat → List Nat
  | 0, _ => []
  | n + 1, i =>
    if i ≤ end_i then i :: first_slots_from cp end_i n (cp.next_entry i) else []

/-- The first slots of the entries of the pool, from index 1 on (index 0 is unused). -/
def first_slots (cp : ConstantPool) : List Nat :=
  first_slots_from cp (cp.length - 1) (cp.length - 1) 1

/-- The entry at `i` can be copied: its tag is one `copy_entry_to` has a case for, and
when it is a Long or Double its second slot is inside the pool. -/
def copyable_at (cp : ConstantPool) (i : Nat) : Bool :=
  match cp.tag_at i with
  | .ok t => decide (Copyable t) && decide (TwoSlotTag t → i + 1 < cp.length)
  | .error _ => false

/-- A pool `copy_cp_to_impl` copies whole: every entry can be copied and the number of
bootstrap specifiers can be read. -/
def CopyableSource (cp : ConstantPool) : Prop :=
  (∀ i, i ∈ cp.first_slots → cp.copyable_at i = true) ∧
  cp.operand_array_length.isOk = true

instance (cp : ConstantPool) : Decidable (CopyableSource cp) := by
  unfold CopyableSource
  infer_instance

/-- The entry at `i` is copied to an entry that compares equal to it: it is the first slot
of an entry, and it is a Utf8, String, Integer or Long entry, a Float or Double entry
whose value is not a NaN, or an entry of another kind but a class entry whose every
referenced entry, and for a Dynamic or InvokeDynamic entry whose bootstrap method and
bootstrap arguments, are such entries in turn, down to `fuel` levels. -/
def copy_stable : Nat → ConstantPool → Nat → Bool
  | 0, _, _ => false
  | fuel + 1, cp, i =>
    decide (i ∈ cp.first_slots) &&
    match cp.slot_at i with
    | .error _ => false
    | .ok s =>
      let v := s.value % 4294967296
      let lo := extract_low_short_from_int v
      let hi := extract_high_short_from_int v
      if s.tag = JVM_CONSTANT_Utf8 ∨ s.tag = JVM_CONSTANT_String ∨
          s.tag = JVM_CONSTANT_Integer ∨ s.tag = JVM_CONSTANT_Long then true
      else if s.tag = JVM_CONSTANT_Float then jfloat_eq v v
      else if s.tag = JVM_CONSTANT_Double then
        jdouble_eq (s.value % 18446744073709551616) (s.value % 18446744073709551616)
      else if s.tag = JVM_CONSTANT_ClassIndex ∨ s.tag = JVM_CONSTANT_StringIndex ∨
          s.tag = JVM_CONSTANT_MethodType ∨ s.tag = JVM_CONSTANT_MethodTypeInError then
        copy_stable fuel cp v
      else if s.tag = JVM_CONSTANT_Fieldref ∨ s.tag = JVM_CONSTANT_Methodref ∨
          s.tag = JVM_CONSTANT_InterfaceMethodref ∨ s.tag = JVM_CONSTANT_NameAndType then
        copy_stable fuel cp lo && copy_stable fuel cp hi
      else if s.tag = JVM_CONSTANT_MethodHandle ∨
          s.tag = JVM_CONSTANT_MethodHandleInError then
        copy_stable fuel cp hi
      else if BootstrapTag s.tag then
        copy_stable fuel cp hi &&
        match cp.operand_array_length, cp.specifier_at lo with
        | .ok n, .ok sp =>
          decide (1 ≤ n) && copy_stable fuel cp sp.bootstrap_method_index &&
            sp.arguments.all (fun a => copy_stable fuel cp a)
        | _, _ => false
      else false

end ConstantPool

/-! ## Concrete pools -/

/-- A heap with the symbols `Foo` (at 1000), `bar` (at 1001), `()V` (at 1002) and a
second symbol object with the text `Foo` (at 1003). -/
def demoHeap : SymbolHeap := fun a =>
  if a = 1000 then ⟨[70, 111, 111], by decide, 1⟩
  else if a = 1001 then ⟨[98, 97, 114], by decide, 1⟩
  else if a = 1002 then ⟨[40, 41, 86], by decide, 1⟩
  else if a = 1003 then ⟨[70, 111, 111], by decide, 1⟩
  else ⟨[], by decide, 0⟩

/-- The pool `[Utf8 "Foo", Class→#1 (unresolved), Utf8 "bar", Utf8 "()V",
NameAndType(#3,#4), Methodref(#2,#5), Long 42, String "bar", MethodHandle(5,#6),
Dynamic(bsm 0,#5)]` with one bootstrap specifier `(#10, [#9])`. -/
def demoPool : ConstantPool where
  slots := [⟨0, 0⟩, ⟨1, 1000⟩, ⟨100, 65536⟩, ⟨1, 1001⟩, ⟨1, 1002⟩, ⟨12, 262147⟩,
    ⟨10, 327682⟩, ⟨5, 42⟩, ⟨0, 0⟩, ⟨8, 1001⟩, ⟨15, 393221⟩, ⟨17, 327680⟩]
  operands := some [2, 0, 10, 1, 9]

/-- The pool `demoPool` after its class entry has been resolved and its Dynamic entry
has failed to resolve. -/
def demoPoolResolved : ConstantPool where
  slots := [⟨0, 0⟩, ⟨1, 1000⟩, ⟨7, 65536⟩, ⟨1, 1001⟩, ⟨1, 1002⟩, ⟨12, 262147⟩,
    ⟨10, 327682⟩, ⟨5, 42⟩, ⟨0, 0⟩, ⟨8, 1001⟩, ⟨15, 393221⟩, ⟨106, 327680⟩]
  operands := some [2, 0, 10, 1, 9]

/-- A pool whose entries name the second symbol object with the text `Foo`: a Utf8
entry, a class entry whose resolution failed, and a String entry. -/
def demoPoolOtherFoo : ConstantPool where
  slots := [⟨0, 0⟩, ⟨1, 1003⟩, ⟨103, 65536⟩, ⟨8, 1003⟩]
  operands := none

/-- The pool `demoPool` after its Dynamic entry has failed to resolve. -/
def demoPoolDynamicInError : ConstantPool where
  slots := [⟨0, 0⟩, ⟨1, 1000⟩, ⟨100, 65536⟩, ⟨1, 1001⟩, ⟨1, 1002⟩, ⟨12, 262147⟩,
    ⟨10, 327682⟩, ⟨5, 42⟩, ⟨0, 0⟩, ⟨8, 1001⟩, ⟨15, 393221⟩, ⟨106, 327680⟩]
  operands := some [2, 0, 10, 1, 9]

/-- The table `hash_entries_to` fills for the Utf8 entries of `demoPool`. -/
def demoSymmap : SymbolHash := [(1000, 1), (1001, 3), (1002, 4)]

/-- A pool in which one entry of each kind has failed to resolve:
`[Utf8 "Foo", Class→#1 (in error), Utf8 "bar", Utf8 "()V", NameAndType(#3,#4),
Methodref(#2,#5), MethodHandle(6,#6) (in error), MethodType(#4) (in error),
Dynamic(bsm 0,#5) (in error)]` with the bootstrap specifier `(#7, [])`. -/
def inErrorPool : ConstantPool where
  slots := [⟨0, 0⟩, ⟨1, 1000⟩, ⟨103, 65536⟩, ⟨1, 1001⟩, ⟨1, 1002⟩, ⟨12, 262147⟩,
    ⟨10, 327682⟩, ⟨104, 393222⟩, ⟨105, 4⟩, ⟨106, 327680⟩]
  operands := some [2, 0, 7, 0]

/-- A pool of 65536 slots: slot 0 and 65535 Integer entries of value 0. -/
def bigPool : ConstantPool where
  slots := ⟨0, 0⟩ :: List.replicate 65535 ⟨3, 0⟩
  operands := none

/-- A destination of 12 unused slots that already holds the bootstrap specifier
`(#7, [])`. -/
def demoDestOneSpecifier : ConstantPool where
  slots := List.replicate 12 ⟨0, 0⟩
  operands := some [2, 0, 7, 0]

/-- An empty destination of `n` slots: no entries, no operands. -/
def emptyPool (n : Nat) : ConstantPool where
  slots := List.replicate n ⟨0, 0⟩
  operands := none

/-- A pool whose InvokeDynamic entry names the bootstrap specifier 65535 and the
name-and-type entry 4. -/
def wideBootstrapPool : ConstantPool where
  slots := [⟨0, 0⟩, ⟨18, 327679⟩]
  operands := none

/-- A pool that holds the two bootstrap specifiers `(#10, [#9])` and `(#7, [])`. -/
def twoSpecifierPool : ConstantPool where
  slots := []
  operands := some [4, 0, 7, 0, 10, 1, 9, 7, 0]

/-- A pool that holds the bootstrap specifier `(#9, [#5])`. -/
def oneSpecifierPool : ConstantPool where
  slots := []
  operands := some [2, 0, 9, 1, 5]

/-- A loader data in whose metaspace there is room: no allocation fails. -/
def roomyLoaderData : ClassLoaderData where
  new_array_fails := fun _ => none

/-- A loader data whose metaspace is exhausted: every allocation fails with an error of
class 2004, without message. -/
def exhaustedLoaderData : ClassLoaderData where
  new_array_fails := fun _ => some ⟨2004, none, .self⟩

/-- A pool with a Float entry whose value is a NaN. -/
def nanPool : ConstantPool where
  slots := [⟨0, 0⟩, ⟨4, 2143289344⟩]
  operands := none

/-- An operands array of 65536 bootstrap specifiers `(#9, [])`: the 65536 offsets
`131072 + 2i`, two shorts each, then the 65536 records, two shorts each. -/
def wideOperands : List Nat :=
  (List.range 262144).map fun k =>
    if k < 131072 then
      (if k % 2 = 0 then (131072 + k) % 65536 else (131072 + (k - 1)) / 65536)
    else (if k % 2 = 0 then 9 else 0)

/-- A pool with the operands `wideOperands` whose InvokeDynamic entry names the last
bootstrap specifier, 65535, and the name-and-type entry 0. -/
def wideSpecifierPool : ConstantPool where
  slots := [⟨0, 0⟩, ⟨18, 65535⟩]
  operands := some wideOperands

/-! ## Resolution: the values of the running VM -/

/-- Modelled from the spec: `BasicType` of `globalDefinitions.hpp` (not among the sources):
the codes of the primitive types, of objects and arrays, and of `void`. -/
abbrev T_BOOLEAN : Nat := 4
/-- Modelled from the spec: basic type code `T_CHAR` of `globalDefinitions.hpp`. -/
abbrev T_CHAR : Nat := 5
/-- Modelled from the spec: basic type code `T_FLOAT` of `globalDefinitions.hpp`. -/
abbrev T_FLOAT : Nat := 6
/-- Modelled from the spec: basic type code `T_DOUBLE` of `globalDefinitions.hpp`. -/
abbrev T_DOUBLE : Nat := 7
/-- Modelled from the spec: basic type code `T_BYTE` of `globalDefinitions.hpp`. -/
abbrev T_BYTE : Nat := 8
/-- Modelled from the spec: basic type code `T_SHORT` of `globalDefinitions.hpp`. -/
abbrev T_SHORT : Nat := 9
/-- Modelled from the spec: basic type code `T_INT` of `globalDefinitions.hpp`. -/
abbrev T_INT : Nat := 10
/-- Modelled from the spec: basic type code `T_LONG` of `globalDefinitions.hpp`. -/
abbrev T_LONG : Nat := 11
/-- Modelled from the spec: basic type code `T_OBJECT` of `globalDefinitions.hpp`. -/
abbrev T_OBJECT : Nat := 12
/-- Modelled from the spec: basic type code `T_ARRAY` of `globalDefinitions.hpp`. -/
abbrev T_ARRAY : Nat := 13
/-- Modelled from the spec: basic type code `T_VOID` of `globalDefinitions.hpp`. -/
abbrev T_VOID : Nat := 14
/-- Modelled from the spec: basic type code `T_ILLEGAL` of `globalDefinitions.hpp`. -/
abbrev T_ILLEGAL : Nat := 99

/-- Modelled from the spec: `is_java_primitive` of `globalDefinitions.hpp`: the eight
primitive types `T_BOOLEAN .. T_LONG`. -/
def is_java_primitive (t : Nat) : Bool := decide (T_BOOLEAN ≤ t) && decide (t ≤ T_LONG)

/-- Modelled from the spec: `is_reference_type` of `globalDefinitions.hpp`: objects and
arrays. -/
def is_reference_type (t : Nat) : Bool := t = T_OBJECT || t = T_ARRAY

/-- Modelled from the spec: `Signature::basic_type(Symbol*)` of `signature.hpp` (not among
the sources): the type a field signature denotes, decided by its first character. -/
def Signature.basic_type (signature : Symbol) : Nat :=
  match signature.body.head? with
  | some 66 => T_BYTE
  | some 67 => T_CHAR
  | some 68 => T_DOUBLE
  | some 70 => T_FLOAT
  | some 73 => T_INT
  | some 74 => T_LONG
  | some 76 => T_OBJECT
  | some 83 => T_SHORT
  | some 86 => T_VOID
  | some 90 => T_BOOLEAN
  | some 91 => T_ARRAY
  | _ => T_ILLEGAL

/-- The C string of a literal. -/
def c_string (s : String) : CString := s.toList.map Char.toNat

/-- Modelled from the spec: `Symbol::as_C_string` of `symbol.hpp`: the body of the symbol
read as a C string, which ends at the first zero byte. -/
def Symbol.as_C_string (s : Symbol) : CString := s.body.takeWhile (fun b => b ≠ 0)

/-- Modelled from the spec: an object reference (`oop`): `nullptr`, the distinguished
object `Universe::the_null_sentinel()` that represents "resolved to a legitimate null",
a box of a primitive value (`java_lang_boxing_object`), or any other object. -/
inductive Oop where
  | null
  | null_sentinel
  | box (type : Nat) (value : Nat)
  | object (id : Nat)
  deriving DecidableEq, Repr

/-- Modelled from the spec: `Universe::the_null_sentinel()`. -/
def Universe.the_null_sentinel : Oop := .null_sentinel

/-- Modelled from the spec: `java_lang_boxing_object::is_instance(oop, BasicType)`: the
object is a box of the given primitive type. -/
def java_lang_boxing_object.is_instance (o : Oop) (type : Nat) : Bool :=
  match o with
  | .box t _ => t = type
  | _ => false

/-- Modelled from the spec: a loaded class (`Klass`), as far as the pool looks at it: its
name, whether it is an interface, whether it is an instance or object-array class, and
its mirror. -/
structure Klass where
  name : Nat
  is_interface : Bool
  is_instance_klass : Bool
  is_objArray_klass : Bool
  java_mirror : Oop
  deriving DecidableEq, Repr

/-- Modelled from the spec: `Exceptions::new_exception(thread, name, message)` of
`exceptions.hpp` (not among the sources): a new exception of the named class with the
message and no cause set. -/
def Exceptions.new_exception (name : Nat) (message : Option CString) : Throwable :=
  ⟨name, message, .self⟩

/-- Modelled from the spec: `Exceptions::new_exception(thread, name, message, h_cause)`:
a new exception of the named class with the message and the given cause. -/
def Exceptions.new_exception_cause (name : Nat) (message : Option CString)
    (h_cause : Throwable) : Throwable :=
  ⟨name, message, .other h_cause.klass h_cause.message⟩

/-- A call the pool makes to a collaborator outside it: the class loader
(`SystemDictionary::resolve_or_fail`), the accessibility check
(`LinkResolver::check_klass_accessibility`), the string table (`StringTable::intern`),
a bootstrap method (`SystemDictionary::invoke_bootstrap_method`), the linking of a
method handle (`SystemDictionary::link_method_handle_constant`), the lookup of a method
type (`SystemDictionary::find_method_handle_type`) and the allocation of a box
(`java_lang_boxing_object::create`). -/
inductive Event where
  | resolve_or_fail (name : Nat)
  | check_klass_accessibility (k : Klass)
  | intern (sym : Nat)
  | invoke_bootstrap_method (cp_index : Nat)
  | link_method_handle_constant (ref_kind : Nat) (callee : Klass) (name signature : Nat)
  | find_method_handle_type (signature : Nat)
  | boxing_create (type value : Nat)
  deriving DecidableEq, Repr

/-- Modelled from the spec: the collaborators of the pool, none of which is among the
sources.  Each is an oracle that is given the calls made so far and its arguments and
answers with a value or with the exception it leaves pending; it does not touch the
pool.  `is_linkage_error` is `is_a(vmClasses::LinkageError_klass())` by class name. -/
structure Env where
  heap : SymbolHeap
  is_linkage_error : Nat → Bool
  java_lang_InternalError : Nat
  java_lang_IncompatibleClassChangeError : Nat
  java_lang_LinkageError : Nat
  resolve_or_fail : List Event → Nat → Except Throwable Klass
  check_klass_accessibility : List Event → Klass → Option Throwable
  intern : List Event → Nat → Except Throwable Oop
  invoke_bootstrap_method : List Event → Nat → Option Throwable × Oop
  wrap_dynamic_exception : Throwable → Throwable
  link_method_handle_constant : List Event → Nat → Klass → Nat → Nat → Option Throwable × Oop
  find_method_handle_type : List Event → Nat → Option Throwable × Oop
  boxing_create : List Event → Nat → Nat → Except Throwable Oop
  print_as_signature_external_return_type : Nat → CString
  print_as_signature_external_parameters : Nat → CString

/-- Modelled from the spec: one record of the error table (`ResolutionErrorEntry` of
`resolutionErrors.hpp`, not among the sources): error kind, optional message, optional
cause kind and message. -/
structure ResolutionErrorEntry where
  error : Nat
  message : Option CString
  cause : Option Nat
  cause_msg : Option CString
  deriving DecidableEq, Repr

/-- The error table of one pool, keyed by entry index. -/
abbrev ResolutionErrorTable := List (Nat × ResolutionErrorEntry)

/-- Modelled from the spec: `SystemDictionary::find_resolution_error` (not among the
sources): the record for the index, `none` when there is none. -/
def SystemDictionary.find_resolution_error (table : ResolutionErrorTable) (which : Nat) :
    Option ResolutionErrorEntry :=
  (table.find? (fun p => p.1 = which)).map (fun p => p.2)

/-- Modelled from the spec: `SystemDictionary::add_resolution_error` (not among the
sources): entries are append-only; once populated for an index the value does not
change. -/
def SystemDictionary.add_resolution_error (table : ResolutionErrorTable) (which : Nat)
    (entry : ResolutionErrorEntry) : ResolutionErrorTable :=
  match SystemDictionary.find_resolution_error table which with
  | some _ => table
  | none => table ++ [(which, entry)]

/-- Modelled from the spec: `objArrayOopDesc::replace_if_null` of `objArrayOop.hpp` (not
among the sources): atomic insert-if-absent; the slot receives the new value only when
it holds `nullptr`, and its previous content is returned. -/
def replace_if_null (a : List Oop) (index : Nat) (exchange_value : Oop) :
    Except Fault (List Oop × Oop) :=
  match a[index]? with
  | none => .error .out_of_bounds
  | some old => if old = .null then .ok (a.set index exchange_value, old) else .ok (a, old)

/-- The pool together with the tables resolution works on: the resolved klasses, the
resolved references with their reference map, the error table, and the calls made to
the collaborators so far. -/
structure PoolState where
  cp : ConstantPool
  resolved_klasses : List (Option Klass)
  resolved_references : List Oop
  reference_map : List Nat
  error_table : ResolutionErrorTable
  trace : List Event
  deriving DecidableEq, Repr

namespace constantTag

/-- Modelled from the spec: `constantTag::error_value` of `constantTag.hpp` (not among the
sources): the in-error variant of the four tags that have one; `ShouldNotReachHere`
for every other tag. -/
def error_value (tag : Nat) : Except Fault Nat :=
  if tag = JVM_CONSTANT_UnresolvedClass then .ok JVM_CONSTANT_UnresolvedClassInError
  else if tag = JVM_CONSTANT_MethodHandle then .ok JVM_CONSTANT_MethodHandleInError
  else if tag = JVM_CONSTANT_MethodType then .ok JVM_CONSTANT_MethodTypeInError
  else if tag = JVM_CONSTANT_Dynamic then .ok JVM_CONSTANT_DynamicInError
  else .error .should_not_reach_here

/-- Modelled from the spec: `constantTag::is_klass`. -/
def is_klass (tag : Nat) : Bool := tag = JVM_CONSTANT_Class

/-- Modelled from the spec: `constantTag::is_unresolved_klass_in_error`. -/
def is_unresolved_klass_in_error (tag : Nat) : Bool := tag = JVM_CONSTANT_UnresolvedClassInError

/-- Modelled from the spec: `constantTag::is_method`. -/
def is_method (tag : Nat) : Bool := tag = JVM_CONSTANT_Methodref

/-- Modelled from the spec: `constantTag::is_interface_method`. -/
def is_interface_method (tag : Nat) : Bool := tag = JVM_CONSTANT_InterfaceMethodref

end constantTag

namespace ConstantPool

/-- Modelled from the spec: `ConstantPool::_no_index_sentinel` of `constantPool.hpp`. -/
abbrev _no_index_sentinel : Int := -1

/-- Modelled from the spec: `ConstantPool::_possible_index_sentinel` of
`constantPool.hpp`. -/
abbrev _possible_index_sentinel : Int := -2

/-- Modelled from the spec: `ConstantPool::uncached_name_ref_at` of `constantPool.hpp`. -/
def uncached_name_ref_at (cp : ConstantPool) (cp_index : Nat) : Except Fault Nat := do
  let nt ← cp.uncached_name_and_type_ref_index_at cp_index
  let name_index ← cp.name_ref_index_at nt
  cp.symbol_at name_index

/-- Modelled from the spec: `ConstantPool::uncached_signature_ref_at` of
`constantPool.hpp`. -/
def uncached_signature_ref_at (cp : ConstantPool) (cp_index : Nat) : Except Fault Nat := do
  let nt ← cp.uncached_name_and_type_ref_index_at cp_index
  let signature_index ← cp.signature_ref_index_at nt
  cp.symbol_at signature_index

/-- Modelled from the spec: `ConstantPool::method_handle_name_ref_at` of
`constantPool.hpp`. -/
def method_handle_name_ref_at (cp : ConstantPool) (cp_index : Nat) : Except Fault Nat := do
  let member ← cp.method_handle_index_at cp_index
  cp.uncached_name_ref_at member

/-- Modelled from the spec: `ConstantPool::method_handle_signature_ref_at` of
`constantPool.hpp`. -/
def method_handle_signature_ref_at (cp : ConstantPool) (cp_index : Nat) :
    Except Fault Nat := do
  let member ← cp.method_handle_index_at cp_index
  cp.uncached_signature_ref_at member

/-- Modelled from the spec: `ConstantPool::method_handle_klass_index_at` of
`constantPool.hpp`. -/
def method_handle_klass_index_at (cp : ConstantPool) (cp_index : Nat) :
    Except Fault Nat := do
  let member ← cp.method_handle_index_at cp_index
  cp.uncached_klass_ref_index_at member

/-- Modelled from the spec: `ConstantPool::method_type_signature_at` of
`constantPool.hpp`. -/
def method_type_signature_at (cp : ConstantPool) (cp_index : Nat) : Except Fault Nat := do
  let sym ← cp.method_type_index_at cp_index
  cp.symbol_at sym

/-- Modelled from the spec: `ConstantPool::unresolved_klass_at_put` of `constantPool.hpp`:
the tag becomes UnresolvedClass and the entry holds the resolved-klass index in its low
half and the name index in its high half. -/
def unresolved_klass_at_put (cp : ConstantPool) (cp_index name_index resolved_klass_index : Nat) :
    Except Fault ConstantPool :=
  cp.tagged_int_at_put cp_index JVM_CONSTANT_UnresolvedClass
    (build_int_from_shorts resolved_klass_index name_index)

end ConstantPool

namespace PoolState

/-- The state after one more call to a collaborator. -/
def log (st : PoolState) (ev : Event) : PoolState := { st with trace := st.trace ++ [ev] }

/-- Modelled from the spec: `resolved_klasses()->at(i)` of `array.hpp`; an index outside
the array is a fault. -/
def resolved_klasses_at (st : PoolState) (i : Nat) : Except Fault (Option Klass) :=
  match st.resolved_klasses[i]? with
  | some k => .ok k
  | none => .error .out_of_bounds

/-- The store `Atomic::release_store(resolved_klasses()->adr_at(i), k)`, also
`Atomic::store`; an index outside the array is a fault. -/
def resolved_klasses_store (st : PoolState) (i : Nat) (k : Option Klass) :
    Except Fault PoolState :=
  if i < st.resolved_klasses.length then
    .ok { st with resolved_klasses := st.resolved_klasses.set i k }
  else .error .out_of_bounds

/-- Modelled from the spec: `Atomic::cmpxchg((jbyte*)tag_addr_at(cp_index), compare_value,
exchange_value)` of `atomic.hpp`: the tag receives the exchange value only when it
holds the compare value, and its previous value is returned. -/
def cmpxchg_tag (st : PoolState) (cp_index compare_value exchange_value : Nat) :
    Except Fault (PoolState × Nat) := do
  let old_tag ← st.cp.tag_at cp_index
  if old_tag = compare_value then
    let cp ← st.cp.tag_at_put cp_index exchange_value
    pure ({ st with cp := cp }, old_tag)
  else pure (st, old_tag)

/-- Function `ConstantPool::resolved_reference_at`. -/
def resolved_reference_at (st : PoolState) (index : Nat) : Except Fault Oop :=
  match st.resolved_references[index]? with
  | some result => .ok result
  | none => .error .out_of_bounds

/-- Function `ConstantPool::set_resolved_reference_at`. -/
def set_resolved_reference_at (st : PoolState) (index : Nat) (new_result : Oop) :
    Except Fault (PoolState × Oop) := do
  let (a, old) ← replace_if_null st.resolved_references index new_result
  pure ({ st with resolved_references := a }, old)

/-- Function `ConstantPool::string_at_put`. -/
def string_at_put (st : PoolState) (obj_index : Nat) (str : Oop) : Except Fault PoolState := do
  let (st1, _) ← st.set_resolved_reference_at obj_index str
  pure st1

/-- Modelled from the spec: `Array<u2>::find` of `array.hpp` (not among the sources): the
last position that holds the value, -1 when there is none. -/
def reference_map_find (m : List Nat) (x : Nat) : Int :=
  match (List.range m.length).reverse.find? (fun i => m[i]? = some x) with
  | some i => (i : Int)
  | none => -1

/-- Function `ConstantPool::cp_to_object_index`: the index is narrowed to a `u2`. -/
def cp_to_object_index (st : PoolState) (cp_index : Int) : Int :=
  let i := reference_map_find st.reference_map (cp_index % 65536).toNat
  if i < 0 then ConstantPool._no_index_sentinel else i

/-- Modelled from the spec: `ConstantPool::object_to_cp_index` of `constantPool.hpp`:
`reference_map()->at(index)`. -/
def object_to_cp_index (st : PoolState) (index : Nat) : Except Fault Nat :=
  match st.reference_map[index]? with
  | some i => .ok i
  | none => .error .out_of_bounds

end PoolState

/-! ## Resolution: klasses and recorded errors -/

namespace ConstantPool

/-- Function `ConstantPool::initialize_unresolved_klasses`, the loop body from slot `i`
on: every ClassIndex entry becomes an UnresolvedClass entry with the next
resolved-klass index.  The cases under `#ifndef PRODUCT` are there when `product` is
false: a Class, UnresolvedClass or UnresolvedClassInError entry then reaches
`ShouldNotReachHere()`.  The result is the pool and the number of klasses. -/
def initialize_unresolved_klasses_from (product : Bool) (cp : ConstantPool)
    (num_klasses : Nat) : Nat → Nat → Except Fault (ConstantPool × Nat)
  | 0, _ => .ok (cp, num_klasses)
  | fuel + 1, i =>
    if i < cp.length then do
      let tag ← cp.tag_at i
      if tag = JVM_CONSTANT_ClassIndex then
        let class_index ← cp.klass_index_at i
        let cp1 ← cp.unresolved_klass_at_put i class_index num_klasses
        initialize_unresolved_klasses_from product cp1 (num_klasses + 1) fuel (i + 1)
      else if product = false ∧ (tag = JVM_CONSTANT_Class ∨
          tag = JVM_CONSTANT_UnresolvedClass ∨ tag = JVM_CONSTANT_UnresolvedClassInError) then
        .error .should_not_reach_here
      else initialize_unresolved_klasses_from product cp num_klasses fuel (i + 1)
    else .ok (cp, num_klasses)

/-- Function `ConstantPool::allocate_resolved_klasses`: the resolved-klasses array of
`num_klasses` null slots that the pool is given, and no exception; or, when the
allocation fails, no array (the field stays `nullptr`) and the exception left pending at
`CHECK`. -/
def allocate_resolved_klasses (loader_data : ClassLoaderData) (num_klasses : Int) :
    Except Fault (Option (List (Option Klass)) × Option Throwable) := do
  match ← new_array (none : Option Klass) loader_data num_klasses with
  | .error e => pure (none, some e)
  | .ok rk => pure (some rk, none)

/-- Function `ConstantPool::initialize_unresolved_klasses`: the pool with its class
entries unresolved, its resolved-klasses array (`none` for `nullptr`) and the exception
that `allocate_resolved_klasses` leaves pending, if any. -/
def initialize_unresolved_klasses (product : Bool) (cp : ConstantPool)
    (loader_data : ClassLoaderData) :
    Except Fault ((ConstantPool × Option (List (Option Klass))) × Option Throwable) := do
  let (cp1, num_klasses) ← initialize_unresolved_klasses_from product cp 0 cp.length 1
  let r ← allocate_resolved_klasses loader_data (num_klasses : Int)
  pure ((cp1, r.1), r.2)

/-- Function `ConstantPool::klass_at_put`. -/
def klass_at_put (st : PoolState) (class_index : Nat) (k : Klass) : Except Fault PoolState := do
  let resolved_klass_index ← st.cp.klass_slot_resolved_klass_index class_index
  let st1 ← st.resolved_klasses_store resolved_klass_index (some k)
  let cp ← st1.cp.tag_at_put class_index JVM_CONSTANT_Class
  pure { st1 with cp := cp }

/-- Function `ConstantPool::verify_constant_pool_resolve`: the pending exception after the
accessibility check, which is skipped for a type-array klass. -/
def verify_constant_pool_resolve (env : Env) (st : PoolState) (k : Klass) :
    PoolState × Option Throwable :=
  if !(k.is_instance_klass || k.is_objArray_klass) then (st, none)
  else (st.log (.check_klass_accessibility k), env.check_klass_accessibility st.trace k)

/-- The static function `exception_message`; a null `Symbol*` is the address 0. -/
def exception_message (env : Env) (cp : ConstantPool) (which tag : Nat)
    (pending_exception : Throwable) : Except Fault (Option CString) :=
  match pending_exception.message with
  | some msg => .ok (some msg)
  | none => do
    let message ←
      if tag = JVM_CONSTANT_UnresolvedClass then cp.klass_name_at which
      else if tag = JVM_CONSTANT_MethodHandle then cp.method_handle_name_ref_at which
      else if tag = JVM_CONSTANT_MethodType then cp.method_type_signature_at which
      else if tag = JVM_CONSTANT_Dynamic then cp.uncached_name_ref_at which
      else .error .should_not_reach_here
    pure (if message ≠ 0 then some (env.heap message).as_C_string else none)

/-- The static function `add_resolution_error`, lines 976 to 984: the class name of the
cause, when the exception has one that is not itself. -/
def cause_sym (pending_exception : Throwable) : Option Nat :=
  match pending_exception.cause with
  | .other klass _ => some klass
  | _ => none

/-- The static function `add_resolution_error`, lines 976 to 984: the message of the
cause, when the exception has one that is not itself. -/
def cause_msg (pending_exception : Throwable) : Option CString :=
  match pending_exception.cause with
  | .other _ message => message
  | _ => none

/-- The static function `add_resolution_error`. -/
def add_resolution_error (env : Env) (st : PoolState) (which tag : Nat)
    (pending_exception : Throwable) : Except Fault PoolState := do
  let error := pending_exception.klass
  let message ← exception_message env st.cp which tag pending_exception
  let table := SystemDictionary.add_resolution_error st.error_table which
    ⟨error, message, cause_sym pending_exception, cause_msg pending_exception⟩
  pure { st with error_table := table }

/-- Function `ConstantPool::throw_resolution_error`: the exception it leaves pending.  A
missing record is a null `error`. -/
def throw_resolution_error (st : PoolState) (which : Nat) : Except Fault Throwable :=
  match SystemDictionary.find_resolution_error st.error_table which with
  | none => .error .null_pointer
  | some entry =>
    match entry.message with
    | some message =>
      match entry.cause with
      | some cause =>
        .ok (Exceptions.new_exception_cause entry.error (some message)
          (Exceptions.new_exception cause entry.cause_msg))
      | none => .ok (Exceptions.new_exception entry.error (some message))
    | none =>
      match entry.cause with
      | some cause =>
        .ok (Exceptions.new_exception_cause entry.error none
          (Exceptions.new_exception cause entry.cause_msg))
      | none => .ok (Exceptions.new_exception entry.error none)

/-- Function `ConstantPool::save_and_throw_exception`, entered with the pending exception;
the result is the new state and the exception that is pending on return. -/
def save_and_throw_exception (env : Env) (st : PoolState) (cp_index tag : Nat)
    (pending_exception : Throwable) : Except Fault (PoolState × Option Throwable) := do
  let error_tag ← constantTag.error_value tag
  if !env.is_linkage_error pending_exception.klass then
    pure (st, some pending_exception)
  else
    let t ← st.cp.tag_at cp_index
    if t ≠ error_tag then
      let st1 ← add_resolution_error env st cp_index tag pending_exception
      let (st2, old_tag) ← st1.cmpxchg_tag cp_index tag error_tag
      if old_tag ≠ error_tag ∧ old_tag ≠ tag then pure (st2, none)
      else pure (st2, some pending_exception)
    else
      let e ← throw_resolution_error st cp_index
      pure (st, some e)

/-- Function `ConstantPool::klass_at_impl`, lines 677 to 685: resolution has left an
exception pending. -/
def klass_at_impl_failed (env : Env) (st : PoolState) (cp_index resolved_klass_index : Nat)
    (pending_exception : Throwable) :
    Except Fault (PoolState × Except Throwable (Option Klass)) := do
  let (st1, pending) ← save_and_throw_exception env st cp_index
    JVM_CONSTANT_UnresolvedClass pending_exception
  match pending with
  | some e => pure (st1, .error e)
  | none =>
    let klass ← st1.resolved_klasses_at resolved_klass_index
    pure (st1, .ok klass)

/-- Function `ConstantPool::klass_at_impl`, lines 692 to 710: the klass `k` has been
loaded and is accessible. -/
def klass_at_impl_resolved (st : PoolState) (cp_index resolved_klass_index : Nat) (k : Klass) :
    Except Fault (PoolState × Except Throwable (Option Klass)) := do
  let st1 ← st.resolved_klasses_store resolved_klass_index (some k)
  let (st2, old_tag) ← st1.cmpxchg_tag cp_index JVM_CONSTANT_UnresolvedClass JVM_CONSTANT_Class
  if old_tag = JVM_CONSTANT_UnresolvedClassInError then
    let st3 ← st2.resolved_klasses_store resolved_klass_index none
    let e ← throw_resolution_error st3 cp_index
    pure (st3, .error e)
  else pure (st2, .ok (some k))

/-- Function `ConstantPool::klass_at_impl`: the new state and either the klass returned or
the exception left pending. -/
def klass_at_impl (env : Env) (st : PoolState) (cp_index : Nat) :
    Except Fault (PoolState × Except Throwable (Option Klass)) := do
  let resolved_klass_index ← st.cp.klass_slot_resolved_klass_index cp_index
  let name_index ← st.cp.klass_slot_name_index cp_index
  let tag ← st.cp.tag_at cp_index
  if constantTag.is_klass tag then
    let klass ← st.resolved_klasses_at resolved_klass_index
    pure (st, .ok klass)
  else if constantTag.is_unresolved_klass_in_error tag then
    let e ← throw_resolution_error st cp_index
    pure (st, .error e)
  else
    let name ← st.cp.symbol_at name_index
    let st1 := st.log (.resolve_or_fail name)
    match env.resolve_or_fail st.trace name with
    | .error e => klass_at_impl_failed env st1 cp_index resolved_klass_index e
    | .ok k =>
      match verify_constant_pool_resolve env st1 k with
      | (st2, some e) => klass_at_impl_failed env st2 cp_index resolved_klass_index e
      | (st2, none) => klass_at_impl_resolved st2 cp_index resolved_klass_index k

end ConstantPool

/-! ## Resolution: constants -/

namespace ConstantPool

/-- Function `ConstantPool::string_at_impl`. -/
def string_at_impl (env : Env) (st : PoolState) (cp_index : Nat) (obj_index : Int) :
    Except Fault (PoolState × Except Throwable Oop) :=
  if obj_index < 0 then .error .out_of_bounds
  else do
    let str ← st.resolved_reference_at obj_index.toNat
    if str ≠ .null then pure (st, .ok str)
    else
      let sym ← st.cp.unresolved_string_at cp_index
      let st1 := st.log (.intern sym)
      match env.intern st.trace sym with
      | .error e => pure (st1, .error e)
      | .ok str =>
        let st2 ← st1.string_at_put obj_index.toNat str
        pure (st2, .ok str)

/-- Function `ConstantPool::resolve_constant_at_impl`, lines 1169 to 1189: a value of
primitive type must be a box of that type. -/
def resolve_constant_check_box (env : Env) (signature : Nat) (result_oop : Oop) :
    Except Throwable Oop :=
  let type := Signature.basic_type (env.heap signature)
  if !is_reference_type type then
    let fail : Option CString :=
      if result_oop = .null then some (c_string "null result instead of box")
      else if !is_java_primitive type then
        some (c_string "can only handle references and primitives")
      else if !java_lang_boxing_object.is_instance result_oop type then
        some (c_string "primitive is not properly boxed")
      else none
    match fail with
    | some f => .error (Exceptions.new_exception env.java_lang_InternalError (some f))
    | none => .ok result_oop
  else .ok result_oop

/-- Function `ConstantPool::resolve_constant_at_impl`, the case of a Dynamic entry, lines
1144 to 1197. -/
def resolve_constant_dynamic (env : Env) (st : PoolState) (cp_index tag : Nat) :
    Except Fault (PoolState × Except Throwable Oop) := do
  let signature ← st.cp.uncached_signature_ref_at cp_index
  let st1 := st.log (.invoke_bootstrap_method cp_index)
  match env.invoke_bootstrap_method st.trace cp_index with
  | (some e, resolved_value) =>
    let (st2, pending) ← save_and_throw_exception env st1 cp_index tag
      (env.wrap_dynamic_exception e)
    match pending with
    | some e1 => pure (st2, .error e1)
    | none => pure (st2, resolve_constant_check_box env signature resolved_value)
  | (none, resolved_value) =>
    pure (st1, resolve_constant_check_box env signature resolved_value)

/-- Function `ConstantPool::resolve_constant_at_impl`, lines 1243 to 1252: linking the
method handle. -/
def resolve_constant_link_method_handle (env : Env) (st : PoolState) (cp_index tag : Nat)
    (ref_kind : Nat) (callee : Klass) (name signature : Nat) :
    Except Fault (PoolState × Except Throwable Oop) := do
  let st1 := st.log (.link_method_handle_constant ref_kind callee name signature)
  match env.link_method_handle_constant st.trace ref_kind callee name signature with
  | (some e, value) =>
    let (st2, pending) ← save_and_throw_exception env st1 cp_index tag e
    match pending with
    | some e1 => pure (st2, .error e1)
    | none => pure (st2, .ok value)
  | (none, value) => pure (st1, .ok value)

/-- The message of lines 1228 to 1237. -/
def inconsistent_method_message (env : Env) (cp_index : Nat) (callee : Klass)
    (name signature : Nat) : CString :=
  c_string "Inconsistent constant pool data in classfile for class "
    ++ (env.heap callee.name).as_C_string ++ c_string ". Method '"
    ++ env.print_as_signature_external_return_type signature
    ++ c_string " " ++ (env.heap name).as_C_string ++ c_string "("
    ++ env.print_as_signature_external_parameters signature
    ++ c_string ")' at index " ++ c_string (toString cp_index) ++ c_string " is "
    ++ (if callee.is_interface then c_string "CONSTANT_MethodRef"
        else c_string "CONSTANT_InterfaceMethodRef")
    ++ c_string " and should be "
    ++ (if callee.is_interface then c_string "CONSTANT_InterfaceMethodRef"
        else c_string "CONSTANT_MethodRef")

/-- Function `ConstantPool::resolve_constant_at_impl`, lines 1224 to 1252: the check of
the member kind against the class, then the linking.  A null `callee` is a fault. -/
def resolve_constant_check_method_handle (env : Env) (st : PoolState) (cp_index tag : Nat)
    (ref_kind : Nat) (callee : Option Klass) (name signature m_tag : Nat) :
    Except Fault (PoolState × Except Throwable Oop) :=
  match callee with
  | none => .error .null_pointer
  | some callee =>
    if (callee.is_interface && constantTag.is_method m_tag) ||
        (!callee.is_interface && constantTag.is_interface_method m_tag) then do
      let e := Exceptions.new_exception env.java_lang_IncompatibleClassChangeError
        (some (inconsistent_method_message env cp_index callee name signature))
      let (st1, pending) ← save_and_throw_exception env st cp_index tag e
      match pending with
      | some e1 => pure (st1, .error e1)
      | none =>
        resolve_constant_link_method_handle env st1 cp_index tag ref_kind callee name signature
    else
      resolve_constant_link_method_handle env st cp_index tag ref_kind callee name signature

/-- Function `ConstantPool::resolve_constant_at_impl`, the case of a MethodHandle entry,
lines 1204 to 1253. -/
def resolve_constant_method_handle (env : Env) (st : PoolState) (cp_index tag : Nat) :
    Except Fault (PoolState × Except Throwable Oop) := do
  let ref_kind ← st.cp.method_handle_ref_kind_at cp_index
  let callee_index ← st.cp.method_handle_klass_index_at cp_index
  let name ← st.cp.method_handle_name_ref_at cp_index
  let signature ← st.cp.method_handle_signature_ref_at cp_index
  let member ← st.cp.method_handle_index_at cp_index
  let m_tag ← st.cp.tag_at member
  let (st1, r) ← klass_at_impl env st callee_index
  match r with
  | .error e =>
    let (st2, pending) ← save_and_throw_exception env st1 cp_index tag e
    match pending with
    | some e1 => pure (st2, .error e1)
    | none =>
      resolve_constant_check_method_handle env st2 cp_index tag ref_kind none name signature
        m_tag
  | .ok callee =>
    resolve_constant_check_method_handle env st1 cp_index tag ref_kind callee name signature
      m_tag

/-- Function `ConstantPool::resolve_constant_at_impl`, the case of a MethodType entry,
lines 1255 to 1273. -/
def resolve_constant_method_type (env : Env) (st : PoolState) (cp_index tag : Nat) :
    Except Fault (PoolState × Except Throwable Oop) := do
  let signature ← st.cp.method_type_signature_at cp_index
  let st1 := st.log (.find_method_handle_type signature)
  match env.find_method_handle_type st.trace signature with
  | (some e, value) =>
    let (st2, pending) ← save_and_throw_exception env st1 cp_index tag e
    match pending with
    | some e1 => pure (st2, .error e1)
    | none => pure (st2, .ok value)
  | (none, value) => pure (st1, .ok value)

/-- Function `ConstantPool::resolve_constant_at_impl`, the cases of the primitive
constants, lines 1275 to 1297: the value is boxed. -/
def resolve_constant_box (env : Env) (st : PoolState) (type value : Nat) :
    PoolState × Except Throwable Oop :=
  (st.log (.boxing_create type value), env.boxing_create st.trace type value)

/-- Function `ConstantPool::resolve_constant_at_impl`, the switch of lines 1132 to 1309:
the value an entry resolves to, or the exception left pending. -/
def resolve_constant_value (env : Env) (st : PoolState) (cp_index : Nat) (cache_index : Int)
    (tag : Nat) : Except Fault (PoolState × Except Throwable Oop) :=
  if tag = JVM_CONSTANT_UnresolvedClass ∨ tag = JVM_CONSTANT_Class then do
    let (st1, r) ← klass_at_impl env st cp_index
    match r with
    | .error e => pure (st1, .error e)
    | .ok none => .error .null_pointer
    | .ok (some resolved) => pure (st1, .ok resolved.java_mirror)
  else if tag = JVM_CONSTANT_Dynamic then resolve_constant_dynamic env st cp_index tag
  else if tag = JVM_CONSTANT_String then string_at_impl env st cp_index cache_index
  else if tag = JVM_CONSTANT_MethodHandle then resolve_constant_method_handle env st cp_index tag
  else if tag = JVM_CONSTANT_MethodType then resolve_constant_method_type env st cp_index tag
  else if tag = JVM_CONSTANT_Integer then do
    let i ← st.cp.int_at cp_index
    pure (resolve_constant_box env st T_INT i)
  else if tag = JVM_CONSTANT_Float then do
    let f ← st.cp.float_at cp_index
    pure (resolve_constant_box env st T_FLOAT f)
  else if tag = JVM_CONSTANT_Long then do
    let j ← st.cp.long_at cp_index
    pure (resolve_constant_box env st T_LONG j)
  else if tag = JVM_CONSTANT_Double then do
    let d ← st.cp.double_at cp_index
    pure (resolve_constant_box env st T_DOUBLE d)
  else if tag = JVM_CONSTANT_UnresolvedClassInError ∨ tag = JVM_CONSTANT_DynamicInError ∨
      tag = JVM_CONSTANT_MethodHandleInError ∨ tag = JVM_CONSTANT_MethodTypeInError then do
    let e ← throw_resolution_error st cp_index
    pure (st, .error e)
  else .error .should_not_reach_here

/-- Function `ConstantPool::resolve_constant_at_impl`, lines 1311 to 1330: the value is
published in the resolved-references slot and the winning value is returned. -/
def resolve_constant_publish (st : PoolState) (cache_index : Int) (result_oop : Oop) :
    Except Fault (PoolState × Oop) :=
  if cache_index ≥ 0 then do
    let new_result := if result_oop = .null then Universe.the_null_sentinel else result_oop
    let (st1, old_result) ← st.set_resolved_reference_at cache_index.toNat new_result
    if old_result = .null then pure (st1, result_oop)
    else if old_result = Universe.the_null_sentinel then pure (st1, .null)
    else pure (st1, old_result)
  else pure (st, result_oop)

/-- Function `ConstantPool::resolve_constant_at_impl`, lines 1107 to 1331: the entry at
`cp_index` is resolved.  `status_return` is `none` for a null pointer; the third
component of the result is the flag it points to on return. -/
def resolve_constant_at_tag (env : Env) (st : PoolState) (cp_index : Nat) (cache_index : Int)
    (status_return : Option Bool) :
    Except Fault (PoolState × Except Throwable Oop × Option Bool) := do
  let tag ← st.cp.tag_at cp_index
  if status_return.isSome ∧
      ¬ (tag = JVM_CONSTANT_Class ∨ tag = JVM_CONSTANT_String ∨ tag = JVM_CONSTANT_Integer ∨
        tag = JVM_CONSTANT_Float ∨ tag = JVM_CONSTANT_Long ∨ tag = JVM_CONSTANT_Double) then
    pure (st, .ok .null, some false)
  else
    let status := status_return.map (fun _ => true)
    let (st1, r) ← resolve_constant_value env st cp_index cache_index tag
    match r with
    | .error e => pure (st1, .error e, status)
    | .ok result_oop =>
      let (st2, v) ← resolve_constant_publish st1 cache_index result_oop
      pure (st2, .ok v, status)

/-- Function `ConstantPool::resolve_constant_at_impl`: the new state, the value returned
or the exception left pending, and the flag `status_return` points to. -/
def resolve_constant_at_impl (env : Env) (st : PoolState) (cp_index cache_index : Int)
    (status_return : Option Bool) :
    Except Fault (PoolState × Except Throwable Oop × Option Bool) :=
  let cache_index :=
    if cache_index = _possible_index_sentinel then st.cp_to_object_index cp_index
    else cache_index
  if cache_index ≥ 0 then do
    let result_oop ← st.resolved_reference_at cache_index.toNat
    if result_oop ≠ .null then
      let result_oop := if result_oop = Universe.the_null_sentinel then .null else result_oop
      pure (st, .ok result_oop, status_return.map (fun _ => true))
    else
      let cp_index ← st.object_to_cp_index cache_index.toNat
      resolve_constant_at_tag env st cp_index cache_index status_return
  else if cp_index < 0 then .error .out_of_bounds
  else resolve_constant_at_tag env st cp_index.toNat cache_index status_return

end ConstantPool

/-! ## Resolution: the atomic steps of racing threads -/

/-- The program points of a thread between two of the atomic steps by which
`klass_at_impl`, `save_and_throw_exception` and `resolve_constant_at_impl` read or
write the shared pool.
* `store`: before `Atomic::release_store(adr, k)` (line 697), the klass `k` loaded;
* `swap`: before the `Atomic::cmpxchg` of the tag to Class (line 699);
* `reset`: before `Atomic::store(adr, nullptr)` (line 706);
* `save`: at the entry of `save_and_throw_exception` (line 1022), an exception pending;
* `record`: before `add_resolution_error` (line 1031);
* `mark`: before the `Atomic::cmpxchg` of the tag to its in-error variant (line 1038);
* `publish`: before `set_resolved_reference_at` (lines 1317 and 1384). -/
inductive Thread where
  | idle
  | store (cp_index : Nat) (k : Klass)
  | swap (cp_index : Nat) (k : Klass)
  | reset (cp_index : Nat)
  | save (cp_index tag : Nat) (pending_exception : Throwable)
  | record (cp_index tag : Nat) (pending_exception : Throwable)
  | mark (cp_index tag : Nat) (pending_exception : Throwable)
  | publish (cache_index : Nat) (new_result : Oop)
  deriving DecidableEq, Repr

namespace Thread

/-- The program points at which a thread starts to work on the shared pool: it has loaded
a klass, it has an exception pending, or it has a value to publish. -/
def entry : Thread → Bool
  | .store _ _ => true
  | .save _ _ _ => true
  | .publish _ _ => true
  | _ => false

/-- One atomic step of a thread on the shared pool: the new pool and the program point
the thread is at afterwards.  A thread that faults or returns is `idle`. -/
def step (env : Env) (st : PoolState) : Thread → PoolState × Thread
  | .idle => (st, .idle)
  | .store cp_index k =>
    match st.cp.klass_slot_resolved_klass_index cp_index with
    | .error _ => (st, .idle)
    | .ok resolved_klass_index =>
      match st.resolved_klasses_store resolved_klass_index (some k) with
      | .error _ => (st, .idle)
      | .ok st1 => (st1, .swap cp_index k)
  | .swap cp_index _ =>
    match st.cmpxchg_tag cp_index JVM_CONSTANT_UnresolvedClass JVM_CONSTANT_Class with
    | .error _ => (st, .idle)
    | .ok (st1, old_tag) =>
      if old_tag = JVM_CONSTANT_UnresolvedClassInError then (st1, .reset cp_index)
      else (st1, .idle)
  | .reset cp_index =>
    match st.cp.klass_slot_resolved_klass_index cp_index with
    | .error _ => (st, .idle)
    | .ok resolved_klass_index =>
      match st.resolved_klasses_store resolved_klass_index none with
      | .error _ => (st, .idle)
      | .ok st1 => (st1, .idle)
  | .save cp_index tag pending_exception =>
    match constantTag.error_value tag with
    | .error _ => (st, .idle)
    | .ok error_tag =>
      if !env.is_linkage_error pending_exception.klass then (st, .idle)
      else
        match st.cp.tag_at cp_index with
        | .error _ => (st, .idle)
        | .ok t =>
          if t ≠ error_tag then (st, .record cp_index tag pending_exception)
          else (st, .idle)
  | .record cp_index tag pending_exception =>
    match ConstantPool.add_resolution_error env st cp_index tag pending_exception with
    | .error _ => (st, .idle)
    | .ok st1 => (st1, .mark cp_index tag pending_exception)
  | .mark cp_index tag _ =>
    match constantTag.error_value tag with
    | .error _ => (st, .idle)
    | .ok error_tag =>
      match st.cmpxchg_tag cp_index tag error_tag with
      | .error _ => (st, .idle)
      | .ok (st1, _) => (st1, .idle)
  | .publish cache_index new_result =>
    match st.set_resolved_reference_at cache_index new_result with
    | .error _ => (st, .idle)
    | .ok (st1, _) => (st1, .idle)

end Thread

/-- The shared pool and the threads at work on it. -/
structure System where
  shared : PoolState
  threads : List Thread
  deriving DecidableEq, Repr

/-- What happens next: a thread starts at an entry point, or thread `t` takes its next
atomic step. -/
inductive Action where
  | spawn (th : Thread)
  | step (t : Nat)
  deriving DecidableEq, Repr

namespace System

/-- The system after one action. -/
def act (env : Env) (sys : System) : Action → System
  | .spawn th => if th.entry then { sys with threads := sys.threads ++ [th] } else sys
  | .step t =>
    match sys.threads[t]? with
    | none => sys
    | some th =>
      let r := th.step env sys.shared
      { shared := r.1, threads := sys.threads.set t r.2 }

/-- The system after a schedule: any interleaving of the atomic steps of any number of
threads. -/
def run (env : Env) (sys : System) (schedule : List Action) : System :=
  schedule.foldl (act env) sys

end System

/-! ## Specification vocabulary: resolution -/

/-- The pool with the tag of slot `i` replaced. -/
def ConstantPool.with_tag (cp : ConstantPool) (i t : Nat) : ConstantPool :=
  ⟨cp.slots.set i ⟨t, (cp.slots.getD i ⟨0, 0⟩).value⟩, cp.operands⟩

namespace PoolState

/-- The resolved-klass slot of the class entry at `cp_index`. -/
def resolved_klass_slot (st : PoolState) (cp_index : Nat) : Except Fault (Option Klass) := do
  let resolved_klass_index ← st.cp.klass_slot_resolved_klass_index cp_index
  st.resolved_klasses_at resolved_klass_index

/-- The indices of the class entries of the pool. -/
def klass_entries (st : PoolState) : List Nat :=
  (List.range st.cp.length).filter fun i =>
    match st.cp.tag_at i with
    | .ok t => decide (KlassTag t)
    | .error _ => false

/-- All class entries are UnresolvedClass and their resolved-klass slots are null. -/
def KlassesUnresolved (st : PoolState) : Prop :=
  ∀ i ∈ st.klass_entries,
    st.cp.tag_at i = .ok JVM_CONSTANT_UnresolvedClass ∧ st.resolved_klass_slot i = .ok none

instance (st : PoolState) : Decidable (KlassesUnresolved st) := by
  unfold KlassesUnresolved; infer_instance

/-- Every class entry has a resolved-klass slot of its own, as
`initialize_unresolved_klasses` hands them out. -/
def KlassSlotsDistinct (st : PoolState) : Prop :=
  ∀ i ∈ st.klass_entries, ∀ j ∈ st.klass_entries,
    st.cp.klass_slot_resolved_klass_index i = st.cp.klass_slot_resolved_klass_index j → i = j

instance (st : PoolState) : Decidable (KlassSlotsDistinct st) := by
  unfold KlassSlotsDistinct; infer_instance

/-- The tag Class implies a non-null resolved-klass slot. -/
def KlassesPublished (st : PoolState) : Prop :=
  ∀ i, st.cp.tag_at i = .ok JVM_CONSTANT_Class → ∃ k, st.resolved_klass_slot i = .ok (some k)

end PoolState

/-- The tag transitions of resolution: UnresolvedClass to Class, and each of the four
unresolved tags to its in-error variant. -/
def TagTransition (t t1 : Nat) : Prop :=
  (t = JVM_CONSTANT_UnresolvedClass ∧ t1 = JVM_CONSTANT_Class) ∨
  (t = JVM_CONSTANT_UnresolvedClass ∧ t1 = JVM_CONSTANT_UnresolvedClassInError) ∨
  (t = JVM_CONSTANT_MethodHandle ∧ t1 = JVM_CONSTANT_MethodHandleInError) ∨
  (t = JVM_CONSTANT_MethodType ∧ t1 = JVM_CONSTANT_MethodTypeInError) ∨
  (t = JVM_CONSTANT_Dynamic ∧ t1 = JVM_CONSTANT_DynamicInError)

/-- The tags Class and the four in-error variants. -/
def SettledTag (t : Nat) : Prop :=
  t = JVM_CONSTANT_Class ∨ t = JVM_CONSTANT_UnresolvedClassInError ∨
  t = JVM_CONSTANT_MethodHandleInError ∨ t = JVM_CONSTANT_MethodTypeInError ∨
  t = JVM_CONSTANT_DynamicInError

/-- The tags of the second pool are those of the first up to the tag transitions of
resolution: the pools have the same length, and at every index the tag is unchanged or
has made one of the transitions; a settled tag is unchanged. -/
def TagsAdvance (cp cp1 : ConstantPool) : Prop :=
  cp1.length = cp.length ∧
  ∀ i t, cp.tag_at i = .ok t →
    ∃ t1, cp1.tag_at i = .ok t1 ∧ (t1 = t ∨ TagTransition t t1) ∧ (SettledTag t → t1 = t)

/-- What a thread at a program point relies on: before the tag is swapped to Class the
resolved-klass slot is filled unless the entry is no longer UnresolvedClass, and the
slot is reset only at an entry in error. -/
def Thread.Safe (st : PoolState) : Thread → Prop
  | .swap cp_index _ =>
    st.cp.tag_at cp_index = .ok JVM_CONSTANT_UnresolvedClass →
      ∃ k, st.resolved_klass_slot cp_index = .ok (some k)
  | .reset cp_index => st.cp.tag_at cp_index = .ok JVM_CONSTANT_UnresolvedClassInError
  | _ => True

/-- The invariant of the racing threads: class entries have slots of their own, an entry
tagged Class has a filled slot, and every thread is at a safe program point. -/
def System.Inv (sys : System) : Prop :=
  sys.shared.KlassSlotsDistinct ∧ sys.shared.KlassesPublished ∧
    ∀ th ∈ sys.threads, th.Safe sys.shared

/-- The second state is the first after some resolution work: the tags have advanced,
every filled resolved-references slot holds the same object, the reference map is the
same, and the calls to the collaborators have been added to. -/
def PoolState.Advances (st st1 : PoolState) : Prop :=
  TagsAdvance st.cp st1.cp ∧
  st1.resolved_references.length = st.resolved_references.length ∧
  (∀ (j : Nat) (o : Oop), st.resolved_references[j]? = some o → o ≠ Oop.null →
    st1.resolved_references[j]? = some o) ∧
  st1.reference_map = st.reference_map ∧
  ∃ l, st1.trace = st.trace ++ l

/-- The object a resolved-references slot stands for: the null sentinel stands for
null. -/
def Oop.resolved (o : Oop) : Oop := if o = Universe.the_null_sentinel then .null else o

/-- The resolved-references index a call of `resolve_constant_at_impl` works with, lines
1081 to 1088: the index it is given, or the one the reference map has for the entry. -/
def PoolState.cache_index (st : PoolState) (cp_index cache_index : Int) : Int :=
  if cache_index = ConstantPool._possible_index_sentinel then st.cp_to_object_index cp_index
  else cache_index

/-- The call `resolve_constant_at_impl(cp_index, cache_index, ..)` is not answered from
the resolved references and looks at the entry `i`: it has no resolved-references index
and `cp_index` is `i`, or the slot at its index is null and stands for the entry `i`. -/
def PoolState.Uncached (st : PoolState) (cp_index cache_index : Int) (i : Nat) : Prop :=
  (st.cache_index cp_index cache_index < 0 ∧ cp_index = (i : Int)) ∨
  (0 ≤ st.cache_index cp_index cache_index ∧
    st.resolved_references[(st.cache_index cp_index cache_index).toNat]? = some Oop.null ∧
    st.reference_map[(st.cache_index cp_index cache_index).toNat]? = some i)

instance (st : PoolState) (cp_index cache_index : Int) (i : Nat) :
    Decidable (st.Uncached cp_index cache_index i) := by
  unfold PoolState.Uncached; infer_instance

/-- The error a record of the error table stands for, in the spec's words: an error of
the recorded kind with the recorded message, if any, and, when a cause is recorded, a
cause of the recorded kind and message. -/
def ResolutionErrorEntry.replayed (entry : ResolutionErrorEntry) : Throwable :=
  ⟨entry.error, entry.message,
    match entry.cause with
    | some cause => .other cause entry.cause_msg
    | none => .self⟩

/-- The in-error tags. -/
abbrev InErrorTag (t : Nat) : Prop :=
  t = JVM_CONSTANT_UnresolvedClassInError ∨ t = JVM_CONSTANT_MethodHandleInError ∨
  t = JVM_CONSTANT_MethodTypeInError ∨ t = JVM_CONSTANT_DynamicInError

/-- The second state differs from the first at most in the entry `j`, in the content of
the resolved klasses and in the calls made to the collaborators: the resolved references
and the reference map are the same, every other entry has the same tag and the same
record in the error table, every entry has the same payload, and there are as many
resolved-klass slots. -/
def PoolState.TouchesOnly (j : Nat) (st st1 : PoolState) : Prop :=
  st1.resolved_references = st.resolved_references ∧
  st1.reference_map = st.reference_map ∧
  (∀ i, i ≠ j → st1.cp.tag_at i = st.cp.tag_at i) ∧
  (∀ i, i ≠ j → SystemDictionary.find_resolution_error st1.error_table i =
    SystemDictionary.find_resolution_error st.error_table i) ∧
  (∀ i, st1.cp.int_at_addr i = st.cp.int_at_addr i) ∧
  (∀ i, st1.cp.symbol_at i = st.cp.symbol_at i) ∧
  st1.resolved_klasses.length = st.resolved_klasses.length

/-- The MethodHandle entry `i` is well formed for resolution: its member is not a class
entry, the class entry of its member is a class entry with a resolved-klass slot, the
record the error table has for that class entry, if any, is of a LinkageError, and
IncompatibleClassChangeError is a LinkageError. -/
def PoolState.MethodHandleWF (env : Env) (st : PoolState) (i : Nat) : Prop :=
  env.is_linkage_error env.java_lang_IncompatibleClassChangeError = true ∧
  ∃ member m_tag callee_index ct,
    st.cp.method_handle_index_at i = .ok member ∧ st.cp.tag_at member = .ok m_tag ∧
    ¬ KlassTag m_tag ∧ st.cp.method_handle_klass_index_at i = .ok callee_index ∧
    st.cp.tag_at callee_index = .ok ct ∧ KlassTag ct ∧
    (∃ k, st.resolved_klass_slot callee_index = .ok k) ∧
    ∀ entry, SystemDictionary.find_resolution_error st.error_table callee_index = some entry →
      env.is_linkage_error entry.error = true

/-! ## Concrete pools: resolution -/

/-- The heap `demoHeap` with the signatures `I` (at 1004) and `LFoo;` (at 1005). -/
def resolutionHeap : SymbolHeap := fun a =>
  if a = 1004 then ⟨[73], by decide, 1⟩
  else if a = 1005 then ⟨[76, 70, 111, 111, 59], by decide, 1⟩
  else demoHeap a

/-- The interface `Foo`. -/
def fooKlass : Klass := ⟨1000, true, true, false, .object 500⟩

/-- Collaborators for the examples.  The class names 2000 (a LinkageError), 2001 (not a
LinkageError), 2002 (IncompatibleClassChangeError) and 2003 (InternalError) are the
exception classes.  The class loader finds the interface `Foo` and fails for every
other name: for the symbol at 1003 with an error that is not a LinkageError, otherwise
with a LinkageError without message whose cause is an exception of class 2001 with the
message `bar`.  Every klass is accessible, every string is interned, the bootstrap
methods return null, method handles link, and method types are not found, with an
error that is not a LinkageError. -/
def resolutionEnv : Env where
  heap := resolutionHeap
  is_linkage_error := fun k => k = 2000 || k = 2002
  java_lang_InternalError := 2003
  java_lang_IncompatibleClassChangeError := 2002
  java_lang_LinkageError := 2000
  resolve_or_fail := fun _ name =>
    if name = 1000 then .ok fooKlass
    else if name = 1003 then .error ⟨2001, some [111, 111, 109], .self⟩
    else .error ⟨2000, none, .other 2001 (some [98, 97, 114])⟩
  check_klass_accessibility := fun _ _ => none
  intern := fun _ sym => .ok (.object sym)
  invoke_bootstrap_method := fun _ _ => (none, .null)
  wrap_dynamic_exception := fun e => e
  link_method_handle_constant := fun _ _ _ _ _ => (none, .object 77)
  find_method_handle_type := fun _ _ => (some ⟨2001, none, .self⟩, .null)
  boxing_create := fun _ type value => .ok (.box type value)
  print_as_signature_external_return_type := fun _ => []
  print_as_signature_external_parameters := fun _ => []

/-- The pool `[Utf8 "Foo", Class→#1 (unresolved, slot 0), Utf8 "bar", Utf8 "()V",
NameAndType(#3,#4), Methodref(#2,#5), Class→#3 (unresolved, slot 1), MethodHandle(5,#6),
MethodType(#4), Utf8 "I", NameAndType(#3,#10), Dynamic(bsm 0,#11), Utf8 "LFoo;",
NameAndType(#3,#13), Dynamic(bsm 0,#14), String "bar", InterfaceMethodref(#2,#5),
MethodHandle(9,#17), Utf8 "Foo" (the symbol at 1003), Class→#19 (unresolved, slot 2)]`
with the bootstrap specifier `(#8, [])`. -/
def resolutionPool : ConstantPool where
  slots := [⟨0, 0⟩, ⟨1, 1000⟩, ⟨100, 65536⟩, ⟨1, 1001⟩, ⟨1, 1002⟩, ⟨12, 262147⟩,
    ⟨10, 327682⟩, ⟨100, 196609⟩, ⟨15, 393221⟩, ⟨16, 4⟩, ⟨1, 1004⟩, ⟨12, 655363⟩,
    ⟨17, 720896⟩, ⟨1, 1005⟩, ⟨12, 851971⟩, ⟨17, 917504⟩, ⟨8, 1001⟩, ⟨11, 327682⟩,
    ⟨15, 1114121⟩, ⟨1, 1003⟩, ⟨100, 1245186⟩]
  operands := some [2, 0, 8, 0]

/-- The pool `resolutionPool` as the class-file parser leaves it: the class entries #2, #7
and #20 are ClassIndex entries holding their name index. -/
def parsedPool : ConstantPool where
  slots := [⟨0, 0⟩, ⟨1, 1000⟩, ⟨101, 1⟩, ⟨1, 1001⟩, ⟨1, 1002⟩, ⟨12, 262147⟩,
    ⟨10, 327682⟩, ⟨101, 3⟩, ⟨15, 393221⟩, ⟨16, 4⟩, ⟨1, 1004⟩, ⟨12, 655363⟩,
    ⟨17, 720896⟩, ⟨1, 1005⟩, ⟨12, 851971⟩, ⟨17, 917504⟩, ⟨8, 1001⟩, ⟨11, 327682⟩,
    ⟨15, 1114121⟩, ⟨1, 1003⟩, ⟨101, 19⟩]
  operands := some [2, 0, 8, 0]

/-- The pool `resolutionPool` before any resolution: three null resolved-klass slots, and
null resolved-references slots for the String entry #16, the MethodHandle entries #8
and #18, the MethodType entry #9 and the Dynamic entries #12 and #15. -/
def resolutionState : PoolState where
  cp := resolutionPool
  resolved_klasses := [none, none, none]
  resolved_references := [.null, .null, .null, .null, .null, .null]
  reference_map := [16, 8, 9, 12, 15, 18]
  error_table := []
  trace := []

/-- A race for the class entry #2 and the resolution of the class entry #7: one thread
has loaded `Foo` for #2 and stores it, a second thread has failed to load it with a
LinkageError and puts the entry in error before the first swaps the tag, so that the
first resets the slot; a third thread resolves #7. -/
def raceSchedule : List Action :=
  [.spawn (.store 2 fooKlass), .spawn (.save 2 100 ⟨2000, none, .self⟩), .step 0, .step 1,
    .step 1, .step 1, .spawn (.store 7 fooKlass), .step 2, .step 2, .step 0, .step 0]

/-- The state `resolutionState` after the class entry #7 and the MethodHandle entry #8
have failed to resolve: #7 with an error of class 2000 with the message `bar` and a
cause of class 2001 with the message `bar`, #8 with an error of class 2002 without
message. -/
def errorState : PoolState where
  cp := (resolutionPool.with_tag 7 JVM_CONSTANT_UnresolvedClassInError).with_tag 8
    JVM_CONSTANT_MethodHandleInError
  resolved_klasses := [none, none, none]
  resolved_references := [.null, .null, .null, .null, .null, .null]
  reference_map := [16, 8, 9, 12, 15, 18]
  error_table := [(7, ⟨2000, some [98, 97, 114], some 2001, some [98, 97, 114]⟩),
    (8, ⟨2002, none, none, none⟩)]
  trace := []

/-- The state `errorState` when another thread had resolved the MethodHandle entry #8 and
stored the object 500 in its resolved-references slot before the failed resolution put
the entry in error: the tag of a MethodHandle entry does not change when it is resolved,
so the swap of the tag to MethodHandleInError succeeds. -/
def errorStateCached : PoolState :=
  { errorState with
    resolved_references := [.null, .object 500, .null, .null, .null, .null] }

/-! ## Bootstrap arguments -/

/-- Modelled from the spec: `objArrayOopDesc::obj_at_put` of `objArrayOop.hpp` (not among
the sources): the store of an element; an index outside the array is a fault. -/
def obj_at_put (a : List Oop) (index : Nat) (value : Oop) : Except Fault (List Oop) :=
  if index < a.length then .ok (a.set index value) else .error .out_of_bounds

namespace ConstantPool

/-- Modelled from the spec: `ConstantPool::bootstrap_argument_count_at` of
`constantPool.hpp` (not among the sources): the argument count of the bootstrap
specifier of the entry. -/
def bootstrap_argument_count_at (cp : ConstantPool) (cp_index : Nat) : Except Fault Nat := do
  let bsms_attribute_index ← cp.bootstrap_methods_attribute_index cp_index
  let e ← cp.bsm_attribute_entry bsms_attribute_index
  cp.argument_count e

/-- Modelled from the spec: `ConstantPool::bootstrap_argument_index_at` of
`constantPool.hpp` (not among the sources): the pool index of argument `j` of the
bootstrap specifier of the entry. -/
def bootstrap_argument_index_at (cp : ConstantPool) (cp_index j : Nat) : Except Fault Nat := do
  let bsms_attribute_index ← cp.bootstrap_methods_attribute_index cp_index
  let e ← cp.bsm_attribute_entry bsms_attribute_index
  cp.argument_index e j

/-- Modelled from the spec: `ConstantPool::resolve_possibly_cached_constant_at` of
`constantPool.hpp` (not among the sources): `resolve_constant_at_impl` with the cache
index `_possible_index_sentinel` and no `status_return`. -/
def resolve_possibly_cached_constant_at (env : Env) (st : PoolState) (cp_index : Nat) :
    Except Fault (PoolState × Except Throwable Oop) := do
  let r ← resolve_constant_at_impl env st cp_index _possible_index_sentinel none
  pure (r.1, r.2.1)

/-- Modelled from the spec: `ConstantPool::find_cached_constant_at` of `constantPool.hpp`
(not among the sources): `resolve_constant_at_impl` with the cache index
`_possible_index_sentinel` and `&found_it` as `status_return`; the third component is
`found_it` on return. -/
def find_cached_constant_at (env : Env) (st : PoolState) (cp_index : Nat) (found_it : Bool) :
    Except Fault (PoolState × Except Throwable Oop × Bool) := do
  let r ← resolve_constant_at_impl env st cp_index _possible_index_sentinel (some found_it)
  pure (r.1, r.2.1, r.2.2.getD found_it)

/-- Function `ConstantPool::copy_bootstrap_arguments_at_impl`, lines 1365 to 1372: the
object stored for the argument at pool index `arg_index`, or the exception left
pending. -/
def bootstrap_argument_oop (env : Env) (st : PoolState) (arg_index : Nat) (must_resolve : Bool)
    (if_not_available : Oop) : Except Fault (PoolState × Except Throwable Oop) :=
  if must_resolve then resolve_possibly_cached_constant_at env st arg_index
  else do
    let r ← find_cached_constant_at env st arg_index false
    match r.2.1 with
    | .error e => pure (r.1, .error e)
    | .ok arg_oop => pure (r.1, .ok (if !r.2.2 then if_not_available else arg_oop))

/-- Function `ConstantPool::copy_bootstrap_arguments_at_impl`, the loop
`for (int i = start_arg; i < end_arg; i++)` of lines 1362 to 1374, from argument `i` and
element `info_i` with `n` arguments left.  The result is the new state, the info array
and the exception left pending, if any. -/
def copy_bootstrap_arguments_loop (env : Env) (cp_index : Nat) (must_resolve : Bool)
    (if_not_available : Oop) :
    Nat → Nat → Nat → PoolState → List Oop →
      Except Fault (PoolState × List Oop × Option Throwable)
  | 0, _, _, st, info => pure (st, info, none)
  | n + 1, i, info_i, st, info => do
    let arg_index ← st.cp.bootstrap_argument_index_at cp_index i
    let r ← bootstrap_argument_oop env st arg_index must_resolve if_not_available
    match r.2 with
    | .error e => pure (r.1, info, some e)
    | .ok arg_oop =>
      let info1 ← obj_at_put info info_i arg_oop
      copy_bootstrap_arguments_loop env cp_index must_resolve if_not_available n (i + 1)
        (info_i + 1) r.1 info1

/-- The exception of line 1359. -/
def bad_bsm_argument_access (env : Env) : Throwable :=
  Exceptions.new_exception env.java_lang_LinkageError
    (some (c_string "bad BSM argument access"))

/-- Function `ConstantPool::copy_bootstrap_arguments_at_impl`.  The arguments are `int`s,
`info` is `none` for a null handle; `limit` is computed in `int` arithmetic.  The
result is the new state, the info array and the exception left pending, if any.  Past
the checks `start_arg`, `end_arg` and `pos` are not negative, and the loop runs over
them as naturals. -/
def copy_bootstrap_arguments_at_impl (env : Env) (st : PoolState)
    (cp_index start_arg end_arg : Int) (info : Option (List Oop)) (pos : Int)
    (must_resolve : Bool) (if_not_available : Oop) :
    Except Fault (PoolState × Option (List Oop) × Option Throwable) :=
  let limit := jint_wrap (jint_wrap (pos + end_arg) - start_arg)
  let bad : Except Fault (PoolState × Option (List Oop) × Option Throwable) :=
    pure (st, info, some (bad_bsm_argument_access env))
  if 0 ≥ cp_index ∨ cp_index ≥ st.cp.length then bad
  else do
    let tag ← st.cp.tag_at cp_index.toNat
    if ¬ (tag = JVM_CONSTANT_InvokeDynamic ∨ tag = JVM_CONSTANT_Dynamic) then bad
    else if 0 > start_arg ∨ start_arg > end_arg then bad
    else do
      let argc ← st.cp.bootstrap_argument_count_at cp_index.toNat
      if end_arg > argc then bad
      else if 0 > pos ∨ pos > limit then bad
      else
        match info with
        | none => bad
        | some a =>
          if limit > a.length then bad
          else do
            let r ← copy_bootstrap_arguments_loop env cp_index.toNat must_resolve
              if_not_available (end_arg - start_arg).toNat start_arg.toNat pos.toNat st a
            pure (r.1, some r.2.1, r.2.2)

end ConstantPool

/-! ## Archiving and restoring -/

/-- Modelled from the spec: what the pool reads and writes of its `ConstantPoolCache`
(`cpCache.hpp`, not among the sources): the resolved references and the archived
references, each `none` for `nullptr`. -/
structure ConstantPoolCache where
  resolved_references : Option (List Oop)
  archived_references : Option (List Oop)
  deriving DecidableEq, Repr

/-- Modelled from the spec: the pool as the archiving code sees it: its entries, the
resolved klasses, the cache (`none` for `nullptr`), the recorded length of the resolved
references, the flags `_on_stack`, `_is_shared` and `is_for_method_handle_intrinsic`,
what the pool holder answers to `is_linked()` and `is_rewritten()`, and the scratch
resolved references `HeapShared` keeps for the pool. -/
structure ArchivedPool where
  cp : ConstantPool
  resolved_klasses : List (Option Klass)
  cache : Option ConstantPoolCache
  resolved_reference_length : Int
  on_stack : Bool
  is_shared : Bool
  is_for_method_handle_intrinsic : Bool
  holder_is_linked : Bool
  holder_is_rewritten : Bool
  scratch_resolved_references : Option (List Oop)
  deriving DecidableEq, Repr

/-- Modelled from the spec: what the archiving code reads outside the pool, none of it
among the sources: `vmClasses::Object_klass_loaded()`, `ArchiveHeapLoader::is_in_use()`
(false also when the VM is built without `INCLUDE_CDS_JAVA_HEAP`),
`CDSConfig::is_dumping_final_static_archive()`, `CDSConfig::is_dumping_heap()`, the
exception with which `oopFactory::new_objArray` fails for a length, if it does,
`AOTConstantPoolResolver::is_resolution_deterministic` on the source pool, and
`ConstantPoolCache::remove_unshareable_info`. -/
structure ArchiveEnv where
  Object_klass_loaded : Bool
  is_in_use : Bool
  is_dumping_final_static_archive : Bool
  is_dumping_heap : Bool
  new_objArray_fails : Int → Option Throwable
  is_resolution_deterministic : Nat → Bool
  cache_remove_unshareable_info : ConstantPoolCache → ConstantPoolCache

/-- Modelled from the spec: `oopFactory::new_objArray(vmClasses::Object_klass(), length,
CHECK)` of `oopFactory.hpp`: a new array of nulls, an exception when the allocation
fails; a negative length is a fault. -/
def oopFactory.new_objArray (env : ArchiveEnv) (length : Int) :
    Except Fault (Except Throwable (List Oop)) :=
  if length < 0 then .error .out_of_bounds
  else
    match env.new_objArray_fails length with
    | some e => .ok (.error e)
    | none => .ok (.ok (List.replicate length.toNat Oop.null))

/-- Modelled from the spec: `Array<Klass*>::at_put` of `array.hpp`; an index outside the
array is a fault. -/
def klasses_at_put (a : List (Option Klass)) (i : Nat) (k : Option Klass) :
    Except Fault (List (Option Klass)) :=
  if i < a.length then .ok (a.set i k) else .error .out_of_bounds

namespace ArchivedPool

/-- Function `ConstantPool::resolved_references`: `_cache->resolved_references()`; a null
cache is a fault. -/
def resolved_references (p : ArchivedPool) : Except Fault (Option (List Oop)) :=
  match p.cache with
  | none => .error .null_pointer
  | some c => .ok c.resolved_references

/-- Modelled from the spec: `ConstantPool::resolved_klass_at` of `constantPool.hpp`: the
slot of a Class entry; another tag fails the `guarantee`. -/
def resolved_klass_at (p : ArchivedPool) (which : Nat) : Except Fault (Option Klass) := do
  let tag ← p.cp.tag_at which
  if !constantTag.is_klass tag then .error .should_not_reach_here
  else
    let resolved_klass_index ← p.cp.klass_slot_resolved_klass_index which
    match p.resolved_klasses[resolved_klass_index]? with
    | some k => .ok k
    | none => .error .out_of_bounds

/-- Function `ConstantPool::remove_resolved_klass_if_non_deterministic`. -/
def remove_resolved_klass_if_non_deterministic (env : ArchiveEnv) (p : ArchivedPool)
    (cp_index : Nat) : Except Fault ArchivedPool := do
  let k ← p.resolved_klass_at cp_index
  let can_archive :=
    match k with
    | none => false
    | some _ => env.is_resolution_deterministic cp_index
  if !can_archive then
    let resolved_klass_index ← p.cp.klass_slot_resolved_klass_index cp_index
    let cp ← p.cp.tag_at_put cp_index JVM_CONSTANT_UnresolvedClass
    let resolved_klasses ← klasses_at_put p.resolved_klasses resolved_klass_index none
    pure { p with cp := cp, resolved_klasses := resolved_klasses }
  else pure p

/-- Function `ConstantPool::remove_unshareable_entries`, the body of the loop of lines
504 to 529 for one index. -/
def remove_unshareable_entry (env : ArchiveEnv) (p : ArchivedPool) (cp_index : Nat) :
    Except Fault ArchivedPool := do
  let cp_tag ← p.cp.tag_at cp_index
  if cp_tag = JVM_CONSTANT_UnresolvedClass then pure p
  else if cp_tag = JVM_CONSTANT_UnresolvedClassInError then do
    let cp ← p.cp.tag_at_put cp_index JVM_CONSTANT_UnresolvedClass
    pure { p with cp := cp }
  else if cp_tag = JVM_CONSTANT_MethodHandleInError then do
    let cp ← p.cp.tag_at_put cp_index JVM_CONSTANT_MethodHandle
    pure { p with cp := cp }
  else if cp_tag = JVM_CONSTANT_MethodTypeInError then do
    let cp ← p.cp.tag_at_put cp_index JVM_CONSTANT_MethodType
    pure { p with cp := cp }
  else if cp_tag = JVM_CONSTANT_DynamicInError then do
    let cp ← p.cp.tag_at_put cp_index JVM_CONSTANT_Dynamic
    pure { p with cp := cp }
  else if cp_tag = JVM_CONSTANT_Class then
    p.remove_resolved_klass_if_non_deterministic env cp_index
  else pure p

/-- Function `ConstantPool::remove_unshareable_entries`, the loop
`for (int cp_index = 1; cp_index < length(); cp_index++)` from `cp_index` with `n`
indices left. -/
def remove_unshareable_entries_from (env : ArchiveEnv) :
    Nat → Nat → ArchivedPool → Except Fault ArchivedPool
  | 0, _, p => pure p
  | n + 1, cp_index, p => do
    let p1 ← p.remove_unshareable_entry env cp_index
    remove_unshareable_entries_from env n (cp_index + 1) p1

/-- Function `ConstantPool::remove_unshareable_entries`.  No store of the loop changes the
length of the pool, so the loop makes `length() - 1` iterations. -/
def remove_unshareable_entries (env : ArchiveEnv) (p : ArchivedPool) :
    Except Fault ArchivedPool := do
  let p1 ← remove_unshareable_entries_from env (p.cp.length - 1) 1 p
  match p1.cache with
  | some c => pure { p1 with cache := some (env.cache_remove_unshareable_info c) }
  | none => pure p1

/-- Function `ConstantPool::restore_unshareable_info`, lines 398 to 422: the resolved
references are taken from the archive or made anew. -/
def restore_resolved_references (env : ArchiveEnv) (p : ArchivedPool) (c : ConstantPoolCache) :
    Except Fault (ArchivedPool × Option Throwable) :=
  if env.Object_klass_loaded then
    if env.is_in_use ∧ c.archived_references ≠ none then
      pure ({ p with cache := some ⟨c.archived_references, none⟩ }, none)
    else
      let map_length := p.resolved_reference_length
      if map_length > 0 then do
        let r ← oopFactory.new_objArray env map_length
        match r with
        | .error e => pure (p, some e)
        | .ok stom =>
          pure ({ p with cache := some { c with resolved_references := some stom } }, none)
      else pure (p, none)
  else pure (p, none)

/-- Function `ConstantPool::restore_unshareable_info`, lines 424 to 427. -/
def restore_scratch_references (env : ArchiveEnv) (p : ArchivedPool) :
    Except Fault (ArchivedPool × Option Throwable) :=
  if env.is_dumping_final_static_archive ∧ env.is_dumping_heap then do
    let refs ← p.resolved_references
    match refs with
    | some a =>
      let r ← oopFactory.new_objArray env a.length
      match r with
      | .error e => pure (p, some e)
      | .ok scratch_references =>
        pure ({ p with scratch_resolved_references := some scratch_references }, none)
    | none => pure (p, none)
  else pure (p, none)

/-- Function `ConstantPool::restore_unshareable_info`: the new pool and the exception left
pending, if any. -/
def restore_unshareable_info (env : ArchiveEnv) (p : ArchivedPool) :
    Except Fault (ArchivedPool × Option Throwable) :=
  if !p.holder_is_linked && !p.holder_is_rewritten then pure (p, none)
  else if p.is_for_method_handle_intrinsic then pure (p, none)
  else
    match p.cache with
    | none => .error .null_pointer
    | some c =>
      if c.resolved_references ≠ none then pure (p, none)
      else do
        let r ← p.restore_resolved_references env c
        match r.2 with
        | some e => pure (r.1, some e)
        | none => r.1.restore_scratch_references env

end ArchivedPool

/-! ## Specification vocabulary: class entries and archiving -/

namespace ConstantPool

/-- The number of ClassIndex entries among the entries at the indices `1 .. i - 1`. -/
def class_index_count (cp : ConstantPool) (i : Nat) : Nat :=
  ((List.range i).filter fun j =>
    decide (1 ≤ j) && decide (cp.tag_at j = .ok JVM_CONSTANT_ClassIndex)).length

/-- The entries tagged Class have resolved-klass slots of their own. -/
def ClassSlotsDistinct (cp : ConstantPool) : Prop :=
  ∀ i ∈ List.range cp.length, ∀ j ∈ List.range cp.length,
    cp.tag_at i = .ok JVM_CONSTANT_Class → cp.tag_at j = .ok JVM_CONSTANT_Class →
    cp.klass_slot_resolved_klass_index i = cp.klass_slot_resolved_klass_index j → i = j

instance (cp : ConstantPool) : Decidable (ClassSlotsDistinct cp) := by
  unfold ClassSlotsDistinct; infer_instance

/-- No entry of the pool is tagged Class, UnresolvedClass or UnresolvedClassInError: the
class entries have all been reverted back to ClassIndex, as
`initialize_unresolved_klasses` expects of its callers. -/
def ClassEntriesReverted (cp : ConstantPool) : Prop :=
  ∀ s ∈ cp.slots.drop 1, ¬ KlassTag s.tag

instance (cp : ConstantPool) : Decidable (ClassEntriesReverted cp) := by
  unfold ClassEntriesReverted; infer_instance

/-- Every ClassIndex entry holds the index of a slot of the pool as its name index. -/
def ClassIndexNamesInPool (cp : ConstantPool) : Prop :=
  ∀ i ∈ List.range cp.length, cp.tag_at i = .ok JVM_CONSTANT_ClassIndex →
    ∃ name ∈ List.range cp.length, cp.klass_index_at i = .ok name

instance (cp : ConstantPool) : Decidable (ClassIndexNamesInPool cp) := by
  unfold ClassIndexNamesInPool; infer_instance

end ConstantPool

namespace ArchivedPool

/-- The slot of the resolved-klasses table that the entry at an index names, whatever the
tag of the entry. -/
def resolved_klass_slot (p : ArchivedPool) (cp_index : Nat) : Except Fault (Option Klass) := do
  let resolved_klass_index ← p.cp.klass_slot_resolved_klass_index cp_index
  match p.resolved_klasses[resolved_klass_index]? with
  | some k => .ok k
  | none => .error .out_of_bounds

/-- The entries tagged Class name slots of the resolved-klasses table. -/
def ClassSlotsInTable (p : ArchivedPool) : Prop :=
  ∀ i ∈ List.range p.cp.length, p.cp.tag_at i = .ok JVM_CONSTANT_Class →
    (p.resolved_klass_slot i).isOk = true

instance (p : ArchivedPool) : Decidable (ClassSlotsInTable p) := by
  unfold ClassSlotsInTable; infer_instance

/-- The class entry at an index keeps its class in the archive: its slot holds a class and
its resolution is deterministic. -/
def keeps_klass (env : ArchiveEnv) (p : ArchivedPool) (cp_index : Nat) : Bool :=
  match p.resolved_klass_slot cp_index with
  | .ok (some _) => env.is_resolution_deterministic cp_index
  | _ => false

/-- The tag with which an entry with tag `t` at an index is archived. -/
def archived_tag (env : ArchiveEnv) (p : ArchivedPool) (cp_index t : Nat) : Nat :=
  if t = JVM_CONSTANT_UnresolvedClassInError then JVM_CONSTANT_UnresolvedClass
  else if t = JVM_CONSTANT_MethodHandleInError then JVM_CONSTANT_MethodHandle
  else if t = JVM_CONSTANT_MethodTypeInError then JVM_CONSTANT_MethodType
  else if t = JVM_CONSTANT_DynamicInError then JVM_CONSTANT_Dynamic
  else if t = JVM_CONSTANT_Class then
    if p.keeps_klass env cp_index then JVM_CONSTANT_Class else JVM_CONSTANT_UnresolvedClass
  else t

/-- The state `p` of the loop of `remove_unshareable_entries` when it arrives at the
index `i`, started on `p0`: the entries before `i` are archived, those from `i` on are as
they were, and the slots of the class entries before `i` that lose their class are null. -/
structure ArchivedUpTo (env : ArchiveEnv) (p0 : ArchivedPool) (i : Nat) (p : ArchivedPool) :
    Prop where
  frame : p = { p0 with cp := p.cp, resolved_klasses := p.resolved_klasses }
  operands : p.cp.operands = p0.cp.operands
  slots_length : p.cp.slots.length = p0.cp.slots.length
  klasses_length : p.resolved_klasses.length = p0.resolved_klasses.length
  rest : ∀ j, j = 0 ∨ i ≤ j → p.cp.slots[j]? = p0.cp.slots[j]?
  done : ∀ j s, 1 ≤ j → j < i → p0.cp.slots[j]? = some s →
    p.cp.slots[j]? = some ⟨archived_tag env p0 j s.tag, s.value⟩
  nulled : ∀ j k, 1 ≤ j → j < i → p0.cp.tag_at j = .ok JVM_CONSTANT_Class →
    p0.cp.klass_slot_resolved_klass_index j = .ok k → keeps_klass env p0 j = false →
    p.resolved_klasses[k]? = some none
  kept : ∀ k, (∀ j, 1 ≤ j → j < i → p0.cp.tag_at j = .ok JVM_CONSTANT_Class →
      p0.cp.klass_slot_resolved_klass_index j = .ok k → keeps_klass env p0 j = true) →
    p.resolved_klasses[k]? = p0.resolved_klasses[k]?

/-- The tags of the state `p` of the loop of `remove_unshareable_entries` when it arrives
at the index `i`, started on `p0`: before `i` the entries that were not tagged Class are
archived and those that were are tagged Class or UnresolvedClass, and the entries from `i`
on are as they were. -/
structure TagsArchivedUpTo (env : ArchiveEnv) (p0 : ArchivedPool) (i : Nat)
    (p : ArchivedPool) : Prop where
  slots_length : p.cp.slots.length = p0.cp.slots.length
  klasses_length : p.resolved_klasses.length = p0.resolved_klasses.length
  rest : ∀ j, j = 0 ∨ i ≤ j → p.cp.slots[j]? = p0.cp.slots[j]?
  done : ∀ j s, 1 ≤ j → j < i → p0.cp.slots[j]? = some s → s.tag ≠ JVM_CONSTANT_Class →
    p.cp.slots[j]? = some ⟨archived_tag env p0 j s.tag, s.value⟩
  classes : ∀ j s, 1 ≤ j → j < i → p0.cp.slots[j]? = some s → s.tag = JVM_CONSTANT_Class →
    p.cp.slots[j]? = some s ∨ p.cp.slots[j]? = some ⟨JVM_CONSTANT_UnresolvedClass, s.value⟩

end ArchivedPool

/-- Collaborators for the archiving examples: the Object klass is loaded, no archived heap
is in use, nothing is dumped, no allocation fails, only the resolution of the entry #2 is
deterministic, and the cache drops its resolved references. -/
def archiveEnv : ArchiveEnv where
  Object_klass_loaded := true
  is_in_use := false
  is_dumping_final_static_archive := false
  is_dumping_heap := false
  new_objArray_fails := fun _ => none
  is_resolution_deterministic := fun cp_index => cp_index == 2
  cache_remove_unshareable_info := fun c => { c with resolved_references := none }

/-- A pool to archive, `resolutionPool` after some resolution: the class entries #2 and #7
are resolved (slots 0 and 1), the class entry #20 (slot 2), the MethodHandle entry #8, the
MethodType entry #9 and the Dynamic entry #12 are in error. -/
def archivePool : ArchivedPool where
  cp := ⟨[⟨0, 0⟩, ⟨1, 1000⟩, ⟨7, 65536⟩, ⟨1, 1001⟩, ⟨1, 1002⟩, ⟨12, 262147⟩,
    ⟨10, 327682⟩, ⟨7, 196609⟩, ⟨104, 393221⟩, ⟨105, 4⟩, ⟨1, 1004⟩, ⟨12, 655363⟩,
    ⟨106, 720896⟩, ⟨1, 1005⟩, ⟨12, 851971⟩, ⟨17, 917504⟩, ⟨8, 1001⟩, ⟨11, 327682⟩,
    ⟨15, 1114121⟩, ⟨1, 1003⟩, ⟨103, 1245186⟩], some [2, 0, 8, 0]⟩
  resolved_klasses := [some fooKlass, some fooKlass, none]
  cache := some ⟨some [.null, .null, .null, .null, .null, .null], none⟩
  resolved_reference_length := 6
  on_stack := false
  is_shared := false
  is_for_method_handle_intrinsic := false
  holder_is_linked := true
  holder_is_rewritten := true
  scratch_resolved_references := none

/-- The pool `archivePool` as it is mapped from the archive: no resolved references, the
recorded length 6. -/
def sharedPool : ArchivedPool :=
  { archivePool with cache := some ⟨none, none⟩, on_stack := true, is_shared := true }

/-- The collaborators `archiveEnv` early in the start of the VM, before the Object klass is
loaded. -/
def earlyBootEnv : ArchiveEnv := { archiveEnv with Object_klass_loaded := false }

/-- The collaborators `archiveEnv` with a heap in which no array can be allocated: every
allocation fails with an exception of the class 2004 (an OutOfMemoryError). -/
def fullHeapEnv : ArchiveEnv :=
  { archiveEnv with new_objArray_fails := fun _ => some ⟨2004, none, .self⟩ }

/-- The pool `sharedPool` of a holder that is neither linked nor rewritten. -/
def unlinkedPool : ArchivedPool :=
  { sharedPool with holder_is_linked := false, holder_is_rewritten := false }

/-- The pool `sharedPool` as the pool of a method-handle intrinsic: it has no cache. -/
def intrinsicPool : ArchivedPool :=
  { sharedPool with is_for_method_handle_intrinsic := true, cache := none }

namespace ConstantPool

/-- The entries of `from_cp` whose first slot lies in `start_i .. end_i` can be copied, and
the range holds both slots of each Long and Double among them. -/
def CopyableRange (from_cp : ConstantPool) (start_i end_i : Nat) : Prop :=
  ∀ i ∈ from_cp.first_slots, start_i ≤ i → i ≤ end_i →
    from_cp.copyable_at i = true ∧
    (from_cp.tag_at i = .ok JVM_CONSTANT_Long ∨ from_cp.tag_at i = .ok JVM_CONSTANT_Double →
      i + 1 ≤ end_i)

instance (from_cp : ConstantPool) (start_i end_i : Nat) :
    Decidable (CopyableRange from_cp start_i end_i) := by
  unfold CopyableRange; infer_instance

/-- The length of the array that `copy_operands` allocates for a source that holds
bootstrap specifiers: the length of the source's array when the destination holds no
specifier, the sum of the lengths of the two arrays otherwise. -/
def appended_length (from_cp to_cp : ConstantPool) : Int :=
  if to_cp.operand_array_length = .ok 0 then ((from_cp.operands.getD []).length : Int)
  else ((to_cp.operands.getD []).length : Int) + ((from_cp.operands.getD []).length : Int)

/-- The bootstrap specifiers of `from_cp` can be appended to those of `to_cp`: the
destination has no operands array or a well-formed one; and the source holds no
specifier, or its table is well formed and the destination holds no specifier or the
two arrays together are no longer than an `int`. -/
def OperandsAppendable (from_cp to_cp : ConstantPool) : Prop :=
  (match to_cp.operands with
    | none => True
    | some tops => OperandsWF tops) ∧
  (from_cp.operand_array_length = .ok 0 ∨
    match from_cp.operands with
    | none => False
    | some fops =>
      OperandsWF fops ∧ 1 ≤ operands_count fops ∧
      (to_cp.operand_array_length = .ok 0 ∨
        (to_cp.operands.getD []).length + fops.length < 2147483648))

instance (from_cp to_cp : ConstantPool) : Decidable (OperandsAppendable from_cp to_cp) := by
  unfold OperandsAppendable
  cases from_cp.operands <;> cases to_cp.operands <;> infer_instance

end ConstantPool

/-- A destination of 12 slots that hold leftovers: Integer entries of value 7. -/
def scribbledPool : ConstantPool where
  slots := List.replicate 12 ⟨3, 7⟩
  operands := none

/-! ## Specification vocabulary: entries whose references end -/

/-- A read returns a value that passes the test `f`. -/
def okAnd {α : Type} (x : Except Fault α) (f : α → Bool) : Bool :=
  match x with
  | .ok a => f a
  | .error _ => false

namespace ConstantPool

/-- The references of the entry at `i` end within `d` levels: the entry can be read, its
tag is one `compare_entry_to` has a case for, and the entries it refers to, and for a
Dynamic or InvokeDynamic entry the bootstrap method and the bootstrap arguments of its
specifier, are such entries within `d - 1` levels.  With `floats` false the entry is not a
Float or Double and reaches none. -/
def refs_end_within (floats : Bool) : Nat → ConstantPool → Nat → Bool
  | 0, _, _ => false
  | d + 1, cp, i =>
    okAnd (cp.tag_at i) fun tag =>
      let t := normalized_tag tag
      if t = JVM_CONSTANT_ClassIndex then
        okAnd (cp.klass_index_at i) fun a => refs_end_within floats d cp a
      else if t = JVM_CONSTANT_Double then floats && (cp.double_at i).isOk
      else if t = JVM_CONSTANT_Fieldref ∨ t = JVM_CONSTANT_InterfaceMethodref ∨
          t = JVM_CONSTANT_Methodref then
        okAnd (cp.uncached_klass_ref_index_at i) fun a =>
          okAnd (cp.uncached_name_and_type_ref_index_at i) fun b =>
            refs_end_within floats d cp a && refs_end_within floats d cp b
      else if t = JVM_CONSTANT_Float then floats && (cp.float_at i).isOk
      else if t = JVM_CONSTANT_Integer then (cp.int_at i).isOk
      else if t = JVM_CONSTANT_Long then (cp.long_at i).isOk
      else if t = JVM_CONSTANT_NameAndType then
        okAnd (cp.name_ref_index_at i) fun a =>
          okAnd (cp.signature_ref_index_at i) fun b =>
            refs_end_within floats d cp a && refs_end_within floats d cp b
      else if t = JVM_CONSTANT_StringIndex then
        okAnd (cp.string_index_at i) fun a => refs_end_within floats d cp a
      else if t = JVM_CONSTANT_UnresolvedClass then (cp.klass_name_at i).isOk
      else if t = JVM_CONSTANT_MethodType then
        okAnd (cp.method_type_index_at i) fun a => refs_end_within floats d cp a
      else if t = JVM_CONSTANT_MethodHandle then
        okAnd (cp.method_handle_ref_kind_at i) fun _ =>
          okAnd (cp.method_handle_index_at i) fun a => refs_end_within floats d cp a
      else if t = JVM_CONSTANT_Dynamic ∨ t = JVM_CONSTANT_InvokeDynamic then
        okAnd (cp.bootstrap_name_and_type_ref_index_at i) fun k =>
          okAnd (cp.bootstrap_methods_attribute_index i) fun b =>
            refs_end_within floats d cp k &&
            okAnd (cp.specifier_at b) fun sp =>
              refs_end_within floats d cp sp.bootstrap_method_index &&
              sp.arguments.all fun a => refs_end_within floats d cp a
      else if t = JVM_CONSTANT_String then (cp.unresolved_string_at i).isOk
      else if t = JVM_CONSTANT_Utf8 then (cp.symbol_at i).isOk
      else false

/-- The references of the bootstrap specifier at `idx` end within `d` levels: the
specifier can be read and the references of its bootstrap method and of its bootstrap
arguments end within `d` levels. -/
def specifier_refs_end_within (floats : Bool) (d : Nat) (cp : ConstantPool) (idx : Nat) : Bool :=
  okAnd (cp.specifier_at idx) fun sp =>
    refs_end_within floats d cp sp.bootstrap_method_index &&
    sp.arguments.all fun a => refs_end_within floats d cp a

/-- The entry at `j` is an entry of the pool, index 0 apart, with one of the tags `ts`. -/
def entry_of_kind (cp : ConstantPool) (j : Nat) (ts : List Nat) : Bool :=
  decide (1 ≤ j) && okAnd (cp.tag_at j) fun t => ts.contains t

/-- The tags of the class entries. -/
def klass_tags : List Nat :=
  [JVM_CONSTANT_Class, JVM_CONSTANT_UnresolvedClass, JVM_CONSTANT_UnresolvedClassInError]

/-- The tags of the constants a bootstrap argument may name: the loadable constants. -/
def loadable_tags : List Nat :=
  klass_tags ++ [JVM_CONSTANT_Integer, JVM_CONSTANT_Float, JVM_CONSTANT_Long,
    JVM_CONSTANT_Double, JVM_CONSTANT_String, JVM_CONSTANT_MethodHandle,
    JVM_CONSTANT_MethodHandleInError, JVM_CONSTANT_MethodType, JVM_CONSTANT_MethodTypeInError,
    JVM_CONSTANT_Dynamic, JVM_CONSTANT_DynamicInError]

/-- The entry at `i` obeys the class-file typing of its sub-indices: each names an entry
of the pool of the kind the entry requires. -/
def typed_at (cp : ConstantPool) (i : Nat) : Bool :=
  okAnd (cp.tag_at i) fun tag =>
    let t := normalized_tag tag
    if t = JVM_CONSTANT_UnresolvedClass then
      okAnd (cp.klass_slot_name_index i) fun a => entry_of_kind cp a [JVM_CONSTANT_Utf8]
    else if t = JVM_CONSTANT_Fieldref ∨ t = JVM_CONSTANT_InterfaceMethodref ∨
        t = JVM_CONSTANT_Methodref then
      okAnd (cp.uncached_klass_ref_index_at i) fun a =>
        okAnd (cp.uncached_name_and_type_ref_index_at i) fun b =>
          entry_of_kind cp a klass_tags && entry_of_kind cp b [JVM_CONSTANT_NameAndType]
    else if t = JVM_CONSTANT_NameAndType then
      okAnd (cp.name_ref_index_at i) fun a =>
        okAnd (cp.signature_ref_index_at i) fun b =>
          entry_of_kind cp a [JVM_CONSTANT_Utf8] && entry_of_kind cp b [JVM_CONSTANT_Utf8]
    else if t = JVM_CONSTANT_MethodType then
      okAnd (cp.method_type_index_at i) fun a => entry_of_kind cp a [JVM_CONSTANT_Utf8]
    else if t = JVM_CONSTANT_MethodHandle then
      okAnd (cp.method_handle_index_at i) fun a =>
        entry_of_kind cp a
          [JVM_CONSTANT_Fieldref, JVM_CONSTANT_Methodref, JVM_CONSTANT_InterfaceMethodref]
    else if t = JVM_CONSTANT_Dynamic ∨ t = JVM_CONSTANT_InvokeDynamic then
      okAnd (cp.bootstrap_name_and_type_ref_index_at i) fun k =>
        okAnd (cp.bootstrap_methods_attribute_index i) fun b =>
          entry_of_kind cp k [JVM_CONSTANT_NameAndType] &&
          okAnd (cp.specifier_at b) fun sp =>
            entry_of_kind cp sp.bootstrap_method_index
              [JVM_CONSTANT_MethodHandle, JVM_CONSTANT_MethodHandleInError] &&
            sp.arguments.all fun a => entry_of_kind cp a loadable_tags
    else
      t = JVM_CONSTANT_Invalid ∨ t = JVM_CONSTANT_Utf8 ∨ t = JVM_CONSTANT_Integer ∨
        t = JVM_CONSTANT_Float ∨ t = JVM_CONSTANT_Long ∨ t = JVM_CONSTANT_Double ∨
        t = JVM_CONSTANT_String

/-- The pool obeys the class-file typing of sub-indices: every entry does. -/
def ClassFileTyped (cp : ConstantPool) : Prop :=
  ∀ i ∈ List.range cp.length, 1 ≤ i → cp.typed_at i = true

instance (cp : ConstantPool) : Decidable (ClassFileTyped cp) := by
  unfold ClassFileTyped; infer_instance

end ConstantPool

/-- The pool `[Dynamic(bsm 0,#2), NameAndType(#3,#4), Utf8 "bar", Utf8 "()V",
MethodHandle(6,#6), Methodref(#7,#2), Class→#8 (unresolved), Utf8 "Foo"]` with the
bootstrap specifier `(#5, [#1])`: the bootstrap argument of the Dynamic entry #1 is the
entry #1. -/
def cyclicPool : ConstantPool where
  slots := [⟨0, 0⟩, ⟨17, 131072⟩, ⟨12, 262147⟩, ⟨1, 1001⟩, ⟨1, 1002⟩, ⟨15, 393222⟩,
    ⟨10, 131079⟩, ⟨100, 524288⟩, ⟨1, 1000⟩]
  operands := some [2, 0, 5, 1, 1]

/-! ## Specification vocabulary: bootstrap arguments -/

namespace ConstantPool

/-- The access to the bootstrap arguments `start_arg .. end_arg - 1` of the entry at
`cp_index`, to be stored from `info[pos]` on, is in order, in the spec's words:
`0 < cp_index < length`, the entry is InvokeDynamic or Dynamic,
`0 ≤ start_arg ≤ end_arg ≤` the argument count of the entry, `0 ≤ pos`, and `info` is not
null and holds `pos + (end_arg - start_arg)` elements at least. -/
def bsm_argument_access_ok (st : PoolState) (cp_index start_arg end_arg : Int)
    (info : Option (List Oop)) (pos : Int) : Bool :=
  decide (0 < cp_index) && decide (cp_index < st.cp.length) &&
  okAnd (st.cp.tag_at cp_index.toNat)
    (fun tag => decide (tag = JVM_CONSTANT_InvokeDynamic ∨ tag = JVM_CONSTANT_Dynamic)) &&
  decide (0 ≤ start_arg) && decide (start_arg ≤ end_arg) &&
  okAnd (st.cp.bootstrap_argument_count_at cp_index.toNat)
    (fun argc => decide (end_arg ≤ argc)) &&
  decide (0 ≤ pos) &&
  match info with
  | none => false
  | some a => decide (pos + (end_arg - start_arg) ≤ a.length)

/-- The loop of `copy_bootstrap_arguments_at_impl` without its store into the info array:
the objects for the arguments `i, i + 1, ..` of the entry, `n` of them, each computed in
the state the one before it has left, up to the first exception.  The result is the new
state, the objects in argument order and the exception left pending, if any. -/
def bootstrap_argument_values (env : Env) (cp_index : Nat) (must_resolve : Bool)
    (if_not_available : Oop) :
    Nat → Nat → PoolState → Except Fault (PoolState × List Oop × Option Throwable)
  | 0, _, st => pure (st, [], none)
  | n + 1, i, st => do
    let arg_index ← st.cp.bootstrap_argument_index_at cp_index i
    let r ← bootstrap_argument_oop env st arg_index must_resolve if_not_available
    match r.2 with
    | .error e => pure (r.1, [], some e)
    | .ok arg_oop =>
      let rest ← bootstrap_argument_values env cp_index must_resolve if_not_available n (i + 1)
        r.1
      pure (rest.1, arg_oop :: rest.2.1, rest.2.2)

/-- The tags of the entries for which the best-effort mode gives the placeholder when
their resolved-references slot is empty. -/
abbrev PlaceholderTag (t : Nat) : Prop :=
  t = JVM_CONSTANT_UnresolvedClass ∨ t = JVM_CONSTANT_MethodHandle ∨
  t = JVM_CONSTANT_MethodType ∨ t = JVM_CONSTANT_Dynamic ∨
  t = JVM_CONSTANT_UnresolvedClassInError ∨ t = JVM_CONSTANT_MethodHandleInError ∨
  t = JVM_CONSTANT_MethodTypeInError ∨ t = JVM_CONSTANT_DynamicInError

end ConstantPool

/-- The state `resolutionState` with the bootstrap specifier `(#8, [#16, #7, #9])`: the
bootstrap arguments of the Dynamic entries #12 and #15 are the String entry #16, the
unresolved class entry #7 and the MethodType entry #9. -/
def argumentsState : PoolState :=
  { resolutionState with
    cp := { resolutionPool with operands := some [2, 0, 8, 3, 16, 7, 9] } }

/-! # Theorems -/

namespace ConstantPool

/-! ## The fault monad -/

@[simp] theorem ok_bind {α β : Type} (a : α) (f : α → Except Fault β) :
    (Except.ok a >>= f) = f a := rfl

@[simp] theorem error_bind {α β : Type} (e : Fault) (f : α → Except Fault β) :
    ((Except.error e : Except Fault α) >>= f) = Except.error e := rfl

@[simp] theorem pure_eq_ok {α : Type} (a : α) : (pure a : Except Fault α) = Except.ok a := rfl

@[simp] theorem map_ok {α β : Type} (g : α → β) (a : α) :
    (g <$> (Except.ok a : Except Fault α)) = Except.ok (g a) := rfl

@[simp] theorem map_error {α β : Type} (g : α → β) (e : Fault) :
    (g <$> (Except.error e : Except Fault α)) = Except.error e := rfl

@[simp] theorem ite_ok_true_false (c : Prop) [Decidable c] :
    (if c then (Except.ok true : Except Fault Bool) else Except.ok false) =
      Except.ok (decide c) := by
  by_cases h : c <;> simp [h]

@[simp] theorem bind_ok_self {α : Type} (x : Except Fault α) :
    (x >>= fun r => Except.ok r) = x := by
  cases x <;> rfl

theorem bind_eq_ok {α β : Type} {x : Except Fault α} {f : α → Except Fault β} {b : β} :
    (x >>= f) = Except.ok b ↔ ∃ a, x = Except.ok a ∧ f a = Except.ok b := by
  cases x <;> simp

/-! ## Reading slots -/

theorem slot_at_eq_ok {cp : ConstantPool} {i : Nat} {s : CPSlot} :
    cp.slot_at i = .ok s ↔ cp.slots[i]? = some s := by
  unfold slot_at
  cases h : cp.slots[i]? <;> simp

theorem slot_at_of_lt {cp : ConstantPool} {i : Nat} (h : i < cp.length) :
    ∃ s, cp.slot_at i = .ok s := by
  unfold slot_at
  have h' : i < cp.slots.length := h
  simp [List.getElem?_eq_getElem h']

theorem slot_at_lt {cp : ConstantPool} {i : Nat} {s : CPSlot} (h : cp.slot_at i = .ok s) :
    i < cp.length := by
  rw [slot_at_eq_ok] at h
  by_contra hn
  have : cp.slots.length ≤ i := Nat.le_of_not_lt hn
  rw [List.getElem?_eq_none this] at h
  cases h

theorem tag_at_eq_ok {cp : ConstantPool} {i t : Nat} :
    cp.tag_at i = .ok t ↔ ∃ s, cp.slot_at i = .ok s ∧ s.tag = t := by
  unfold tag_at
  cases h : cp.slot_at i <;> simp

theorem int_at_addr_eq_ok {cp : ConstantPool} {i v : Nat} :
    cp.int_at_addr i = .ok v ↔ ∃ s, cp.slot_at i = .ok s ∧ s.value % 4294967296 = v := by
  unfold int_at_addr
  cases h : cp.slot_at i <;> simp

theorem symbol_at_eq_ok {cp : ConstantPool} {i v : Nat} :
    cp.symbol_at i = .ok v ↔ ∃ s, cp.slot_at i = .ok s ∧ s.value = v := by
  unfold symbol_at symbol_at_addr
  cases h : cp.slot_at i <;> simp

/-! ## Monotonicity in the recursion budget -/

theorem okLe_refl {α : Type} (x : Except Fault α) : OkLe x x := fun _ h => h

theorem okLe_trans {α : Type} {x y z : Except Fault α} (h1 : OkLe x y) (h2 : OkLe y z) :
    OkLe x z := fun r h => h2 r (h1 r h)

theorem okLe_error {α : Type} (e : Fault) (y : Except Fault α) : OkLe (.error e) y := by
  intro r h; cases h

theorem okLe_bind {α β : Type} {x y : Except Fault α} {f g : α → Except Fault β}
    (hx : OkLe x y) (hf : ∀ a, OkLe (f a) (g a)) : OkLe (x >>= f) (y >>= g) := by
  intro r h
  obtain ⟨a, ha, hfa⟩ := bind_eq_ok.mp h
  rw [hx a ha]
  exact hf a r hfa

theorem okLe_ite {α : Type} {c : Prop} [Decidable c] {a a' b b' : Except Fault α}
    (ha : OkLe a a') (hb : OkLe b b') :
    OkLe (if c then a else b) (if c then a' else b') := by
  by_cases hc : c <;> simp [hc, ha, hb]

theorem compare_operand_args_mono {cmp cmp' : Nat → Nat → Except Fault Bool}
    (h : ∀ a b, OkLe (cmp a b) (cmp' a b))
    (cp1 : ConstantPool) (e1 : Nat) (cp2 : ConstantPool) (e2 : Nat) (n j : Nat) :
    OkLe (compare_operand_args cmp cp1 e1 cp2 e2 n j)
      (compare_operand_args cmp' cp1 e1 cp2 e2 n j) := by
  induction n generalizing j with
  | zero => exact okLe_refl _
  | succ n ih =>
    unfold compare_operand_args
    refine okLe_bind (okLe_refl _) fun k1 => okLe_bind (okLe_refl _) fun k2 =>
      okLe_bind (h k1 k2) fun m => okLe_ite (okLe_refl _) (ih (j + 1))

theorem compare_operand_with_mono {cmp cmp' : Nat → Nat → Except Fault Bool}
    (h : ∀ a b, OkLe (cmp a b) (cmp' a b))
    (cp1 : ConstantPool) (idx1 : Nat) (cp2 : ConstantPool) (idx2 : Nat) :
    OkLe (compare_operand_with cmp cp1 idx1 cp2 idx2)
      (compare_operand_with cmp' cp1 idx1 cp2 idx2) := by
  unfold compare_operand_with
  refine okLe_bind (okLe_refl _) fun e1 => okLe_bind (okLe_refl _) fun e2 =>
    okLe_bind (okLe_refl _) fun k1 => okLe_bind (okLe_refl _) fun k2 =>
    okLe_bind (h k1 k2) fun m => okLe_ite (okLe_refl _) ?_
  refine okLe_bind (okLe_refl _) fun argc => okLe_bind (okLe_refl _) fun argc2 =>
    okLe_ite (compare_operand_args_mono h cp1 e1 cp2 e2 argc 0) (okLe_refl _)

theorem compare_entry_with_mono {cmp cmp' : Nat → Nat → Except Fault Bool}
    (h : ∀ a b, OkLe (cmp a b) (cmp' a b))
    (cp1 : ConstantPool) (index1 : Nat) (cp2 : ConstantPool) (index2 : Nat) :
    OkLe (compare_entry_with cmp cp1 index1 cp2 index2)
      (compare_entry_with cmp' cp1 index1 cp2 index2) := by
  unfold compare_entry_with
  refine okLe_bind (okLe_refl _) fun tag1 => okLe_bind (okLe_refl _) fun tag2 => ?_
  dsimp only
  repeat' first
    | exact okLe_refl _
    | exact h _ _
    | exact compare_operand_with_mono h _ _ _ _
    | apply okLe_ite
    | apply okLe_bind
    | intro _

theorem compare_entry_to_succ (fuel : Nat) (cp1 : ConstantPool) (index1 : Nat)
    (cp2 : ConstantPool) (index2 : Nat) :
    OkLe (compare_entry_to fuel cp1 index1 cp2 index2)
      (compare_entry_to (fuel + 1) cp1 index1 cp2 index2) := by
  induction fuel generalizing index1 index2 with
  | zero => exact okLe_error _ _
  | succ n ih =>
    rw [compare_entry_to, compare_entry_to]
    exact compare_entry_with_mono (fun a b => ih a b) cp1 index1 cp2 index2

theorem compare_entry_to_mono {fuel fuel' : Nat} (hle : fuel ≤ fuel') (cp1 : ConstantPool)
    (index1 : Nat) (cp2 : ConstantPool) (index2 : Nat) :
    OkLe (compare_entry_to fuel cp1 index1 cp2 index2)
      (compare_entry_to fuel' cp1 index1 cp2 index2) := by
  induction hle with
  | refl => exact okLe_refl _
  | step _ ih => exact okLe_trans ih (compare_entry_to_succ _ cp1 index1 cp2 index2)

theorem compare_operand_to_mono {fuel fuel' : Nat} (hle : fuel ≤ fuel') (cp1 : ConstantPool)
    (idx1 : Nat) (cp2 : ConstantPool) (idx2 : Nat) :
    OkLe (compare_operand_to fuel cp1 idx1 cp2 idx2)
      (compare_operand_to fuel' cp1 idx1 cp2 idx2) :=
  compare_operand_with_mono (fun a b => compare_entry_to_mono hle cp1 a cp2 b) cp1 idx1 cp2 idx2

/-! ## Entry sizes: theorems -/

/-- C1: `cpool_entry_size(idx)` depends only on the tag at `idx` and, for Utf8, on the
length of the symbol; the sizes are Invalid 1, Utf8 3 + length, the class, string and
method-type kinds 3, the method-handle kinds 4, the 4-byte literals, member references,
name-and-type and dynamic kinds 5, Long and Double 9. -/
theorem cpool_entry_size_by_tag (heap : SymbolHeap) (cp : ConstantPool) (idx tag : Nat)
    (htag : cp.tag_at idx = .ok tag) :
    (tag = JVM_CONSTANT_Invalid → cp.cpool_entry_size heap idx = .ok 1) ∧
    (tag = JVM_CONSTANT_Utf8 → ∃ sym, cp.symbol_at idx = .ok sym ∧
      cp.cpool_entry_size heap idx = .ok (3 + (heap sym).utf8_length)) ∧
    (tag ∈ [JVM_CONSTANT_Class, JVM_CONSTANT_UnresolvedClass,
        JVM_CONSTANT_UnresolvedClassInError, JVM_CONSTANT_ClassIndex, JVM_CONSTANT_String,
        JVM_CONSTANT_StringIndex, JVM_CONSTANT_MethodType, JVM_CONSTANT_MethodTypeInError] →
      cp.cpool_entry_size heap idx = .ok 3) ∧
    (tag ∈ [JVM_CONSTANT_MethodHandle, JVM_CONSTANT_MethodHandleInError] →
      cp.cpool_entry_size heap idx = .ok 4) ∧
    (tag ∈ [JVM_CONSTANT_Integer, JVM_CONSTANT_Float, JVM_CONSTANT_Fieldref,
        JVM_CONSTANT_Methodref, JVM_CONSTANT_InterfaceMethodref, JVM_CONSTANT_NameAndType,
        JVM_CONSTANT_Dynamic, JVM_CONSTANT_DynamicInError, JVM_CONSTANT_InvokeDynamic] →
      cp.cpool_entry_size heap idx = .ok 5) ∧
    (tag ∈ [JVM_CONSTANT_Long, JVM_CONSTANT_Double] →
      cp.cpool_entry_size heap idx = .ok 9) ∧
    (∀ (heap2 : SymbolHeap) (cp2 : ConstantPool) (idx2 : Nat),
      cp2.tag_at idx2 = .ok tag →
      (tag = JVM_CONSTANT_Utf8 → ∀ sym sym2, cp.symbol_at idx = .ok sym →
        cp2.symbol_at idx2 = .ok sym2 →
        (heap sym).utf8_length = (heap2 sym2).utf8_length) →
      cp2.cpool_entry_size heap2 idx2 = cp.cpool_entry_size heap idx) := by
  obtain ⟨s, hs, hst⟩ := tag_at_eq_ok.mp htag
  have hsym : cp.symbol_at idx = .ok s.value := symbol_at_eq_ok.mpr ⟨s, hs, rfl⟩
  refine ⟨?_, ?_, ?_, ?_, ?_, ?_, ?_⟩
  · intro h; subst h
    simp [cpool_entry_size, htag]
  · intro h; subst h
    exact ⟨s.value, hsym, by simp [cpool_entry_size, htag, hsym]⟩
  · intro h
    simp only [List.mem_cons, List.mem_singleton, List.not_mem_nil, or_false] at h
    rcases h with h | h | h | h | h | h | h | h <;> subst h <;>
      simp [cpool_entry_size, htag]
  · intro h
    simp only [List.mem_cons, List.mem_singleton, List.not_mem_nil, or_false] at h
    rcases h with h | h <;> subst h <;> simp [cpool_entry_size, htag]
  · intro h
    simp only [List.mem_cons, List.mem_singleton, List.not_mem_nil, or_false] at h
    rcases h with h | h | h | h | h | h | h | h | h <;> subst h <;>
      simp [cpool_entry_size, htag]
  · intro h
    simp only [List.mem_cons, List.mem_singleton, List.not_mem_nil, or_false] at h
    rcases h with h | h <;> subst h <;> simp [cpool_entry_size, htag]
  · intro heap2 cp2 idx2 htag2 hlen
    obtain ⟨s2, hs2, hst2⟩ := tag_at_eq_ok.mp htag2
    have hsym2 : cp2.symbol_at idx2 = .ok s2.value := symbol_at_eq_ok.mpr ⟨s2, hs2, rfl⟩
    by_cases hu : tag = JVM_CONSTANT_Utf8
    · have := hlen hu _ _ hsym hsym2
      subst hu
      simp [cpool_entry_size, htag, htag2, hsym, hsym2, this]
    · simp [cpool_entry_size, htag, htag2, hu]

theorem cpool_entry_size_by_tag_witness :
    demoPool.tag_at 1 = .ok JVM_CONSTANT_Utf8 ∧
    ∃ sym, demoPool.symbol_at 1 = .ok sym ∧
      demoPool.cpool_entry_size demoHeap 1 = .ok (3 + (demoHeap sym).utf8_length) :=
  ⟨by decide,
   (cpool_entry_size_by_tag demoHeap demoPool 1 JVM_CONSTANT_Utf8 (by decide)).2.1 rfl⟩

/-! ## The cases of `compare_entry_to` -/

theorem compare_entry_with_tags_ne (cmp : Nat → Nat → Except Fault Bool)
    {cp1 cp2 : ConstantPool} {i j tg1 tg2 : Nat}
    (h1 : cp1.tag_at i = .ok tg1) (h2 : cp2.tag_at j = .ok tg2)
    (hne : normalized_tag tg1 ≠ normalized_tag tg2) :
    compare_entry_with cmp cp1 i cp2 j = .ok false := by
  unfold normalized_tag at hne
  simp only [compare_entry_with, h1, h2, ok_bind]
  rw [if_pos hne]
  rfl

theorem compare_entry_with_class (cmp : Nat → Nat → Except Fault Bool)
    {cp1 cp2 : ConstantPool} {i j tg1 tg2 : Nat}
    (h1 : cp1.tag_at i = .ok tg1) (h2 : cp2.tag_at j = .ok tg2)
    (hn1 : normalized_tag tg1 = JVM_CONSTANT_UnresolvedClass)
    (hn2 : normalized_tag tg2 = JVM_CONSTANT_UnresolvedClass) :
    compare_entry_with cmp cp1 i cp2 j =
      (do let k1 ← cp1.klass_name_at i
          let k2 ← cp2.klass_name_at j
          pure (decide (k1 = k2))) := by
  unfold normalized_tag at hn1 hn2
  simp only [compare_entry_with, h1, h2, ok_bind]
  rw [hn1, hn2]
  simp

theorem compare_entry_with_utf8 (cmp : Nat → Nat → Except Fault Bool)
    {cp1 cp2 : ConstantPool} {i j tg1 tg2 : Nat}
    (h1 : cp1.tag_at i = .ok tg1) (h2 : cp2.tag_at j = .ok tg2)
    (hn1 : normalized_tag tg1 = JVM_CONSTANT_Utf8)
    (hn2 : normalized_tag tg2 = JVM_CONSTANT_Utf8) :
    compare_entry_with cmp cp1 i cp2 j =
      (do let s1 ← cp1.symbol_at i
          let s2 ← cp2.symbol_at j
          pure (decide (s1 = s2))) := by
  unfold normalized_tag at hn1 hn2
  simp only [compare_entry_with, h1, h2, ok_bind]
  rw [hn1, hn2]
  simp

theorem compare_entry_with_string (cmp : Nat → Nat → Except Fault Bool)
    {cp1 cp2 : ConstantPool} {i j tg1 tg2 : Nat}
    (h1 : cp1.tag_at i = .ok tg1) (h2 : cp2.tag_at j = .ok tg2)
    (hn1 : normalized_tag tg1 = JVM_CONSTANT_String)
    (hn2 : normalized_tag tg2 = JVM_CONSTANT_String) :
    compare_entry_with cmp cp1 i cp2 j =
      (do let s1 ← cp1.unresolved_string_at i
          let s2 ← cp2.unresolved_string_at j
          pure (decide (s1 = s2))) := by
  unfold normalized_tag at hn1 hn2
  simp only [compare_entry_with, h1, h2, ok_bind]
  rw [hn1, hn2]
  simp

theorem compare_entry_with_member (cmp : Nat → Nat → Except Fault Bool)
    {cp1 cp2 : ConstantPool} {i j tg1 tg2 : Nat}
    (h1 : cp1.tag_at i = .ok tg1) (h2 : cp2.tag_at j = .ok tg2)
    (hn : normalized_tag tg1 = normalized_tag tg2)
    (hn1 : normalized_tag tg1 = JVM_CONSTANT_Fieldref ∨
      normalized_tag tg1 = JVM_CONSTANT_InterfaceMethodref ∨
      normalized_tag tg1 = JVM_CONSTANT_Methodref) :
    compare_entry_with cmp cp1 i cp2 j =
      (do let c1 ← cp1.uncached_klass_ref_index_at i
          let c2 ← cp2.uncached_klass_ref_index_at j
          let m ← cmp c1 c2
          if m then
            let n1 ← cp1.uncached_name_and_type_ref_index_at i
            let n2 ← cp2.uncached_name_and_type_ref_index_at j
            cmp n1 n2
          else pure false) := by
  unfold normalized_tag at hn hn1
  simp only [compare_entry_with, h1, h2, ok_bind]
  rw [← hn]
  rcases hn1 with hn1 | hn1 | hn1 <;> rw [hn1] <;> simp

theorem compare_entry_with_name_and_type (cmp : Nat → Nat → Except Fault Bool)
    {cp1 cp2 : ConstantPool} {i j tg1 tg2 : Nat}
    (h1 : cp1.tag_at i = .ok tg1) (h2 : cp2.tag_at j = .ok tg2)
    (hn1 : normalized_tag tg1 = JVM_CONSTANT_NameAndType)
    (hn2 : normalized_tag tg2 = JVM_CONSTANT_NameAndType) :
    compare_entry_with cmp cp1 i cp2 j =
      (do let n1 ← cp1.name_ref_index_at i
          let n2 ← cp2.name_ref_index_at j
          let m ← cmp n1 n2
          if m then
            let s1 ← cp1.signature_ref_index_at i
            let s2 ← cp2.signature_ref_index_at j
            cmp s1 s2
          else pure false) := by
  unfold normalized_tag at hn1 hn2
  simp only [compare_entry_with, h1, h2, ok_bind]
  rw [hn1, hn2]
  simp

theorem compare_entry_with_method_handle (cmp : Nat → Nat → Except Fault Bool)
    {cp1 cp2 : ConstantPool} {i j tg1 tg2 : Nat}
    (h1 : cp1.tag_at i = .ok tg1) (h2 : cp2.tag_at j = .ok tg2)
    (hn1 : normalized_tag tg1 = JVM_CONSTANT_MethodHandle)
    (hn2 : normalized_tag tg2 = JVM_CONSTANT_MethodHandle) :
    compare_entry_with cmp cp1 i cp2 j =
      (do let k1 ← cp1.method_handle_ref_kind_at i
          let k2 ← cp2.method_handle_ref_kind_at j
          if k1 = k2 then
            let i1 ← cp1.method_handle_index_at i
            let i2 ← cp2.method_handle_index_at j
            cmp i1 i2
          else pure false) := by
  unfold normalized_tag at hn1 hn2
  simp only [compare_entry_with, h1, h2, ok_bind]
  rw [hn1, hn2]
  simp

theorem compare_entry_with_dynamic (cmp : Nat → Nat → Except Fault Bool)
    {cp1 cp2 : ConstantPool} {i j tg1 tg2 : Nat}
    (h1 : cp1.tag_at i = .ok tg1) (h2 : cp2.tag_at j = .ok tg2)
    (hn : normalized_tag tg1 = normalized_tag tg2)
    (hn1 : normalized_tag tg1 = JVM_CONSTANT_Dynamic ∨
      normalized_tag tg1 = JVM_CONSTANT_InvokeDynamic) :
    compare_entry_with cmp cp1 i cp2 j =
      (do let k1 ← cp1.bootstrap_name_and_type_ref_index_at i
          let k2 ← cp2.bootstrap_name_and_type_ref_index_at j
          let i1 ← cp1.bootstrap_methods_attribute_index i
          let i2 ← cp2.bootstrap_methods_attribute_index j
          let match_entry ← cmp k1 k2
          let match_operand ← compare_operand_with cmp cp1 i1 cp2 i2
          pure (match_entry && match_operand)) := by
  unfold normalized_tag at hn hn1
  simp only [compare_entry_with, h1, h2, ok_bind]
  rw [← hn]
  rcases hn1 with hn1 | hn1 <;> rw [hn1] <;> simp

/-! ## Symbol-bearing entries -/

theorem compare_entry_to_zero (cp1 : ConstantPool) (i : Nat) (cp2 : ConstantPool) (j : Nat) :
    compare_entry_to 0 cp1 i cp2 j = .error .out_of_fuel := rfl

theorem compare_entry_to_succ_eq (fuel : Nat) (cp1 : ConstantPool) (i : Nat)
    (cp2 : ConstantPool) (j : Nat) :
    compare_entry_to (fuel + 1) cp1 i cp2 j =
      compare_entry_with (fun a b => compare_entry_to fuel cp1 a cp2 b) cp1 i cp2 j := rfl

theorem entryReturns_iff {cp1 cp2 : ConstantPool} {i j : Nat} {b : Bool} :
    EntryReturns cp1 i cp2 j b ↔
      ∃ fuel, compare_entry_with (fun a b => compare_entry_to fuel cp1 a cp2 b) cp1 i cp2 j
        = .ok b := by
  constructor
  · rintro ⟨fuel, h⟩
    cases fuel with
    | zero => cases h
    | succ n => exact ⟨n, h⟩
  · rintro ⟨fuel, h⟩
    exact ⟨fuel + 1, h⟩

/-- C5: a resolved class entry and an unresolved class entry (either way round) that
name the identical symbol compare equal, and compare unequal when their class-name
symbols are different objects. -/
theorem compare_entry_to_resolved_vs_unresolved (fuel : Nat) (cp1 cp2 : ConstantPool)
    (i j k1 k2 : Nat)
    (htags : (cp1.tag_at i = .ok JVM_CONSTANT_Class ∧
        cp2.tag_at j = .ok JVM_CONSTANT_UnresolvedClass) ∨
      (cp1.tag_at i = .ok JVM_CONSTANT_UnresolvedClass ∧
        cp2.tag_at j = .ok JVM_CONSTANT_Class))
    (hk1 : cp1.klass_name_at i = .ok k1) (hk2 : cp2.klass_name_at j = .ok k2) :
    (k1 = k2 → compare_entry_to (fuel + 1) cp1 i cp2 j = .ok true) ∧
    (k1 ≠ k2 → compare_entry_to (fuel + 1) cp1 i cp2 j = .ok false) := by
  have key : compare_entry_to (fuel + 1) cp1 i cp2 j = .ok (decide (k1 = k2)) := by
    rw [compare_entry_to_succ_eq]
    rcases htags with ⟨h1, h2⟩ | ⟨h1, h2⟩
    · rw [compare_entry_with_class _ h1 h2 (by decide) (by decide), hk1, hk2]; rfl
    · rw [compare_entry_with_class _ h1 h2 (by decide) (by decide), hk1, hk2]; rfl
  constructor
  · intro h; rw [key]; simp [h]
  · intro h; rw [key]; simp [h]

theorem compare_entry_to_resolved_vs_unresolved_witness :
    compare_entry_to 1 demoPoolResolved 2 demoPool 2 = .ok true :=
  (compare_entry_to_resolved_vs_unresolved 0 demoPoolResolved demoPool 2 2 1000 1000
    (Or.inl ⟨by decide, by decide⟩) (by decide) (by decide)).1 rfl

/-- C7: two Utf8 entries, two String entries or two class entries (resolved, unresolved
or in error) compare equal exactly when they hold the identical symbol object; the text
of the symbols plays no part. -/
theorem compare_entry_to_symbol_identity (fuel : Nat) (cp1 cp2 : ConstantPool)
    (i j tg1 tg2 : Nat)
    (h1 : cp1.tag_at i = .ok tg1) (h2 : cp2.tag_at j = .ok tg2) :
    (tg1 = JVM_CONSTANT_Utf8 → tg2 = JVM_CONSTANT_Utf8 →
      ∃ s1 s2, cp1.symbol_at i = .ok s1 ∧ cp2.symbol_at j = .ok s2 ∧
        (compare_entry_to (fuel + 1) cp1 i cp2 j = .ok true ↔ s1 = s2) ∧
        (∀ heap : SymbolHeap, s1 ≠ s2 → (heap s1).body = (heap s2).body →
          compare_entry_to (fuel + 1) cp1 i cp2 j = .ok false)) ∧
    (tg1 = JVM_CONSTANT_String → tg2 = JVM_CONSTANT_String →
      ∃ s1 s2, cp1.unresolved_string_at i = .ok s1 ∧ cp2.unresolved_string_at j = .ok s2 ∧
        (compare_entry_to (fuel + 1) cp1 i cp2 j = .ok true ↔ s1 = s2) ∧
        (∀ heap : SymbolHeap, s1 ≠ s2 → (heap s1).body = (heap s2).body →
          compare_entry_to (fuel + 1) cp1 i cp2 j = .ok false)) ∧
    (tg1 ∈ [JVM_CONSTANT_Class, JVM_CONSTANT_UnresolvedClass,
        JVM_CONSTANT_UnresolvedClassInError] →
      tg2 ∈ [JVM_CONSTANT_Class, JVM_CONSTANT_UnresolvedClass,
        JVM_CONSTANT_UnresolvedClassInError] →
      ∀ k1 k2, cp1.klass_name_at i = .ok k1 → cp2.klass_name_at j = .ok k2 →
        (compare_entry_to (fuel + 1) cp1 i cp2 j = .ok true ↔ k1 = k2) ∧
        (∀ heap : SymbolHeap, k1 ≠ k2 → (heap k1).body = (heap k2).body →
          compare_entry_to (fuel + 1) cp1 i cp2 j = .ok false)) := by
  obtain ⟨sl1, hs1, ht1⟩ := tag_at_eq_ok.mp h1
  obtain ⟨sl2, hs2, ht2⟩ := tag_at_eq_ok.mp h2
  have hsym1 : cp1.symbol_at i = .ok sl1.value := symbol_at_eq_ok.mpr ⟨sl1, hs1, rfl⟩
  have hsym2 : cp2.symbol_at j = .ok sl2.value := symbol_at_eq_ok.mpr ⟨sl2, hs2, rfl⟩
  refine ⟨?_, ?_, ?_⟩
  · intro e1 e2
    subst e1; subst e2
    have key : compare_entry_to (fuel + 1) cp1 i cp2 j =
        .ok (decide (sl1.value = sl2.value)) := by
      rw [compare_entry_to_succ_eq,
        compare_entry_with_utf8 _ h1 h2 (by decide) (by decide), hsym1, hsym2]; rfl
    refine ⟨_, _, hsym1, hsym2, ?_, ?_⟩
    · rw [key]; simp
    · intro _ hne _; rw [key]; simp [hne]
  · intro e1 e2
    subst e1; subst e2
    have key : compare_entry_to (fuel + 1) cp1 i cp2 j =
        .ok (decide (sl1.value = sl2.value)) := by
      rw [compare_entry_to_succ_eq,
        compare_entry_with_string _ h1 h2 (by decide) (by decide)]
      have u1 : cp1.unresolved_string_at i = .ok sl1.value := hsym1
      have u2 : cp2.unresolved_string_at j = .ok sl2.value := hsym2
      rw [u1, u2]; rfl
    refine ⟨_, _, hsym1, hsym2, ?_, ?_⟩
    · rw [key]; simp
    · intro _ hne _; rw [key]; simp [hne]
  · intro e1 e2 k1 k2 hk1 hk2
    have n1 : normalized_tag tg1 = JVM_CONSTANT_UnresolvedClass := by
      simp only [List.mem_cons, List.mem_singleton, List.not_mem_nil, or_false] at e1
      rcases e1 with e | e | e <;> subst e <;> decide
    have n2 : normalized_tag tg2 = JVM_CONSTANT_UnresolvedClass := by
      simp only [List.mem_cons, List.mem_singleton, List.not_mem_nil, or_false] at e2
      rcases e2 with e | e | e <;> subst e <;> decide
    have key : compare_entry_to (fuel + 1) cp1 i cp2 j = .ok (decide (k1 = k2)) := by
      rw [compare_entry_to_succ_eq, compare_entry_with_class _ h1 h2 n1 n2, hk1, hk2]; rfl
    refine ⟨?_, ?_⟩
    · rw [key]; simp
    · intro _ hne _; rw [key]; simp [hne]

theorem compare_entry_to_symbol_identity_witness :
    (demoHeap 1000).body = (demoHeap 1003).body ∧
    compare_entry_to 1 demoPool 2 demoPoolOtherFoo 2 = .ok false :=
  ⟨by decide,
   ((compare_entry_to_symbol_identity 0 demoPool demoPoolOtherFoo 2 2
      JVM_CONSTANT_UnresolvedClass JVM_CONSTANT_UnresolvedClassInError
      (by decide) (by decide)).2.2 (by decide) (by decide) 1000 1003
      (by decide) (by decide)).2 demoHeap (by decide) (by decide)⟩

/-! ## Composite entries -/

theorem and_then_eq_true (x y : Except Fault Bool) :
    (do let m ← x
        if m then y else pure false) = .ok true ↔ x = .ok true ∧ y = .ok true := by
  cases x with
  | error e => simp
  | ok m => cases m <;> simp

theorem both_eq_true (x y : Except Fault Bool) :
    (do let m ← x
        let o ← y
        pure (m && o)) = .ok true ↔ x = .ok true ∧ y = .ok true := by
  cases x with
  | error e => simp
  | ok m =>
    cases y with
    | error e => simp
    | ok o => cases m <;> cases o <;> simp

theorem entryReturns_of_le {cp1 cp2 : ConstantPool} {i j : Nat} {b : Bool} {fuel fuel' : Nat}
    (hle : fuel ≤ fuel') (h : compare_entry_to fuel cp1 i cp2 j = .ok b) :
    compare_entry_to fuel' cp1 i cp2 j = .ok b :=
  compare_entry_to_mono hle cp1 i cp2 j b h

theorem int_at_addr_of_tag {cp : ConstantPool} {i tg : Nat} (h : cp.tag_at i = .ok tg) :
    ∃ w, cp.int_at_addr i = .ok w := by
  obtain ⟨s, hs, _⟩ := tag_at_eq_ok.mp h
  exact ⟨_, int_at_addr_eq_ok.mpr ⟨s, hs, rfl⟩⟩

/-- Two comparisons that both return true do so within one common budget. -/
theorem entryReturns_pair {cp1 cp2 : ConstantPool} {a b c d : Nat}
    (h1 : EntryReturns cp1 a cp2 b true) (h2 : EntryReturns cp1 c cp2 d true) :
    ∃ fuel, compare_entry_to fuel cp1 a cp2 b = .ok true ∧
      compare_entry_to fuel cp1 c cp2 d = .ok true := by
  obtain ⟨f1, e1⟩ := h1
  obtain ⟨f2, e2⟩ := h2
  exact ⟨max f1 f2, entryReturns_of_le (le_max_left _ _) e1,
    entryReturns_of_le (le_max_right _ _) e2⟩

/-- C8: member references compare equal exactly when their class entries and their
name-and-type entries do, name-and-type entries exactly when their names and their
signatures do, method handles exactly when the reference kinds are equal and the
referenced members compare equal; entries of different normalized tags compare unequal. -/
theorem compare_entry_to_composite (cp1 cp2 : ConstantPool) (i j tg1 tg2 : Nat)
    (h1 : cp1.tag_at i = .ok tg1) (h2 : cp2.tag_at j = .ok tg2) :
    (normalized_tag tg1 = normalized_tag tg2 →
      tg1 ∈ [JVM_CONSTANT_Fieldref, JVM_CONSTANT_Methodref, JVM_CONSTANT_InterfaceMethodref] →
      ∃ c1 c2 n1 n2, cp1.uncached_klass_ref_index_at i = .ok c1 ∧
        cp2.uncached_klass_ref_index_at j = .ok c2 ∧
        cp1.uncached_name_and_type_ref_index_at i = .ok n1 ∧
        cp2.uncached_name_and_type_ref_index_at j = .ok n2 ∧
        (EntryReturns cp1 i cp2 j true ↔
          EntryReturns cp1 c1 cp2 c2 true ∧ EntryReturns cp1 n1 cp2 n2 true)) ∧
    (tg1 = JVM_CONSTANT_NameAndType → tg2 = JVM_CONSTANT_NameAndType →
      ∃ n1 n2 s1 s2, cp1.name_ref_index_at i = .ok n1 ∧ cp2.name_ref_index_at j = .ok n2 ∧
        cp1.signature_ref_index_at i = .ok s1 ∧ cp2.signature_ref_index_at j = .ok s2 ∧
        (EntryReturns cp1 i cp2 j true ↔
          EntryReturns cp1 n1 cp2 n2 true ∧ EntryReturns cp1 s1 cp2 s2 true)) ∧
    (normalized_tag tg1 = JVM_CONSTANT_MethodHandle →
      normalized_tag tg2 = JVM_CONSTANT_MethodHandle →
      ∃ k1 k2 m1 m2, cp1.method_handle_ref_kind_at i = .ok k1 ∧
        cp2.method_handle_ref_kind_at j = .ok k2 ∧
        cp1.method_handle_index_at i = .ok m1 ∧ cp2.method_handle_index_at j = .ok m2 ∧
        (EntryReturns cp1 i cp2 j true ↔ k1 = k2 ∧ EntryReturns cp1 m1 cp2 m2 true)) ∧
    (normalized_tag tg1 ≠ normalized_tag tg2 →
      ∀ fuel, compare_entry_to (fuel + 1) cp1 i cp2 j = .ok false) := by
  obtain ⟨w1, hw1⟩ := int_at_addr_of_tag h1
  obtain ⟨w2, hw2⟩ := int_at_addr_of_tag h2
  refine ⟨?_, ?_, ?_, ?_⟩
  · intro hn hmem
    have hn1 : normalized_tag tg1 = JVM_CONSTANT_Fieldref ∨
        normalized_tag tg1 = JVM_CONSTANT_InterfaceMethodref ∨
        normalized_tag tg1 = JVM_CONSTANT_Methodref := by
      simp only [List.mem_cons, List.mem_singleton, List.not_mem_nil, or_false] at hmem
      rcases hmem with e | e | e <;> subst e <;> decide
    have hb1 : constantTag.has_bootstrap tg1 = false := by
      simp only [List.mem_cons, List.mem_singleton, List.not_mem_nil, or_false] at hmem
      rcases hmem with e | e | e <;> subst e <;> decide
    have hc1 : cp1.uncached_klass_ref_index_at i = .ok (extract_low_short_from_int w1) := by
      simp [uncached_klass_ref_index_at, hw1]
    have hc2 : cp2.uncached_klass_ref_index_at j = .ok (extract_low_short_from_int w2) := by
      simp [uncached_klass_ref_index_at, hw2]
    have hnt1 : cp1.uncached_name_and_type_ref_index_at i =
        .ok (extract_high_short_from_int w1) := by
      simp [uncached_name_and_type_ref_index_at, h1, hb1, hw1]
    have hnt2 : cp2.uncached_name_and_type_ref_index_at j =
        .ok (extract_high_short_from_int w2) := by
      by_cases hb2 : constantTag.has_bootstrap tg2 = true
      · simp [uncached_name_and_type_ref_index_at, h2, hb2,
          bootstrap_name_and_type_ref_index_at, hw2]
      · simp [uncached_name_and_type_ref_index_at, h2, hb2, hw2]
    refine ⟨_, _, _, _, hc1, hc2, hnt1, hnt2, ?_⟩
    rw [entryReturns_iff]
    simp only [compare_entry_with_member _ h1 h2 hn hn1, hc1, hc2, hnt1, hnt2, ok_bind,
      and_then_eq_true]
    constructor
    · rintro ⟨fuel, e1, e2⟩
      exact ⟨⟨fuel, e1⟩, ⟨fuel, e2⟩⟩
    · rintro ⟨e1, e2⟩
      exact entryReturns_pair e1 e2
  · intro e1 e2
    subst e1; subst e2
    have hn1 : cp1.name_ref_index_at i = .ok (extract_low_short_from_int w1) := by
      simp [name_ref_index_at, name_and_type_at, hw1]
    have hn2 : cp2.name_ref_index_at j = .ok (extract_low_short_from_int w2) := by
      simp [name_ref_index_at, name_and_type_at, hw2]
    have hs1 : cp1.signature_ref_index_at i = .ok (extract_high_short_from_int w1) := by
      simp [signature_ref_index_at, name_and_type_at, hw1]
    have hs2 : cp2.signature_ref_index_at j = .ok (extract_high_short_from_int w2) := by
      simp [signature_ref_index_at, name_and_type_at, hw2]
    refine ⟨_, _, _, _, hn1, hn2, hs1, hs2, ?_⟩
    rw [entryReturns_iff]
    simp only [compare_entry_with_name_and_type _ h1 h2 (by decide) (by decide), hn1, hn2,
      hs1, hs2, ok_bind, and_then_eq_true]
    constructor
    · rintro ⟨fuel, e1, e2⟩
      exact ⟨⟨fuel, e1⟩, ⟨fuel, e2⟩⟩
    · rintro ⟨e1, e2⟩
      exact entryReturns_pair e1 e2
  · intro e1 e2
    have hk1 : cp1.method_handle_ref_kind_at i = .ok (extract_low_short_from_int w1) := by
      simp [method_handle_ref_kind_at, hw1]
    have hk2 : cp2.method_handle_ref_kind_at j = .ok (extract_low_short_from_int w2) := by
      simp [method_handle_ref_kind_at, hw2]
    have hm1 : cp1.method_handle_index_at i = .ok (extract_high_short_from_int w1) := by
      simp [method_handle_index_at, hw1]
    have hm2 : cp2.method_handle_index_at j = .ok (extract_high_short_from_int w2) := by
      simp [method_handle_index_at, hw2]
    refine ⟨_, _, _, _, hk1, hk2, hm1, hm2, ?_⟩
    rw [entryReturns_iff]
    simp only [compare_entry_with_method_handle _ h1 h2 e1 e2, hk1, hk2, hm1, hm2, ok_bind]
    by_cases hk : extract_low_short_from_int w1 = extract_low_short_from_int w2
    · simp only [hk, if_true, true_and]
      exact Iff.rfl
    · simp [hk]
  · intro hne fuel
    rw [compare_entry_to_succ_eq]
    exact compare_entry_with_tags_ne _ h1 h2 hne

theorem compare_entry_to_composite_witness :
    compare_entry_to 1 demoPool 6 demoPool 5 = .ok false :=
  (compare_entry_to_composite demoPool demoPool 6 5 JVM_CONSTANT_Methodref
    JVM_CONSTANT_NameAndType (by decide) (by decide)).2.2.2 (by decide) 0

/-! ## Bootstrap specifiers -/

theorem compare_operand_args_eq_true (cmp : Nat → Nat → Except Fault Bool)
    (cp1 : ConstantPool) (e1 : Nat) (cp2 : ConstantPool) (e2 : Nat) (n j : Nat) :
    compare_operand_args cmp cp1 e1 cp2 e2 n j = .ok true ↔
      ∀ k, k < n → ∃ a1 a2, cp1.argument_index e1 (j + k) = .ok a1 ∧
        cp2.argument_index e2 (j + k) = .ok a2 ∧ cmp a1 a2 = .ok true := by
  induction n generalizing j with
  | zero => simp [compare_operand_args]
  | succ n ih =>
    unfold compare_operand_args
    constructor
    · intro h
      obtain ⟨a1, ha1, h⟩ := bind_eq_ok.mp h
      obtain ⟨a2, ha2, h⟩ := bind_eq_ok.mp h
      obtain ⟨m, hm, h⟩ := bind_eq_ok.mp h
      cases m with
      | false => simp at h
      | true =>
        simp only [Bool.not_true, Bool.false_eq_true, if_false] at h
        intro k hk
        cases k with
        | zero => exact ⟨a1, a2, ha1, ha2, hm⟩
        | succ k =>
          have := (ih (j + 1)).mp h k (by omega)
          rwa [show j + 1 + k = j + (k + 1) by omega] at this
    · intro h
      obtain ⟨a1, a2, ha1, ha2, hm⟩ := h 0 (by omega)
      rw [Nat.add_zero] at ha1 ha2
      simp only [ha1, ha2, hm, ok_bind, Bool.not_true, Bool.false_eq_true, if_false]
      refine (ih (j + 1)).mpr fun k hk => ?_
      have := h (k + 1) (by omega)
      rwa [show j + (k + 1) = j + 1 + k by omega] at this

/-- Finitely many comparisons that all return true do so within one common budget. -/
theorem entryReturns_all {cp1 cp2 : ConstantPool} (e1 e2 n : Nat)
    (h : ∀ k, k < n → ∃ a1 a2, cp1.argument_index e1 k = .ok a1 ∧
      cp2.argument_index e2 k = .ok a2 ∧ EntryReturns cp1 a1 cp2 a2 true) :
    ∃ fuel, ∀ k, k < n → ∃ a1 a2, cp1.argument_index e1 k = .ok a1 ∧
      cp2.argument_index e2 k = .ok a2 ∧ compare_entry_to fuel cp1 a1 cp2 a2 = .ok true := by
  induction n with
  | zero => exact ⟨0, fun k hk => absurd hk (Nat.not_lt_zero k)⟩
  | succ n ih =>
    obtain ⟨f, hf⟩ := ih fun k hk => h k (by omega)
    obtain ⟨a1, a2, ha1, ha2, g, hg⟩ := h n (by omega)
    refine ⟨max f g, fun k hk => ?_⟩
    by_cases hkn : k = n
    · subst hkn
      exact ⟨a1, a2, ha1, ha2, entryReturns_of_le (le_max_right _ _) hg⟩
    · obtain ⟨b1, b2, hb1, hb2, hb⟩ := hf k (by omega)
      exact ⟨b1, b2, hb1, hb2, entryReturns_of_le (le_max_left _ _) hb⟩

theorem compare_operand_with_eq_true (cmp : Nat → Nat → Except Fault Bool)
    {cp1 cp2 : ConstantPool} {idx1 idx2 e1 e2 k1 k2 argc1 argc2 : Nat}
    (he1 : cp1.bsm_attribute_entry idx1 = .ok e1) (he2 : cp2.bsm_attribute_entry idx2 = .ok e2)
    (hk1 : cp1.bootstrap_method_index e1 = .ok k1)
    (hk2 : cp2.bootstrap_method_index e2 = .ok k2)
    (ha1 : cp1.argument_count e1 = .ok argc1) (ha2 : cp2.argument_count e2 = .ok argc2) :
    compare_operand_with cmp cp1 idx1 cp2 idx2 = .ok true ↔
      cmp k1 k2 = .ok true ∧ argc1 = argc2 ∧
      ∀ k, k < argc1 → ∃ a1 a2, cp1.argument_index e1 k = .ok a1 ∧
        cp2.argument_index e2 k = .ok a2 ∧ cmp a1 a2 = .ok true := by
  simp only [compare_operand_with, he1, he2, hk1, hk2, ok_bind]
  cases hm : cmp k1 k2 with
  | error e => simp
  | ok m =>
    cases m with
    | false => simp
    | true =>
      simp only [ok_bind, Bool.not_true, Bool.false_eq_true, if_false, ha1, ha2, true_and]
      by_cases hargc : argc1 = argc2
      · simp only [hargc, if_true, true_and]
        rw [compare_operand_args_eq_true]
        simp
      · simp [hargc]

theorem operandReturns_iff {cp1 cp2 : ConstantPool} {idx1 idx2 : Nat} {b : Bool} :
    OperandReturns cp1 idx1 cp2 idx2 b ↔
      ∃ fuel, compare_operand_with (fun a b => compare_entry_to fuel cp1 a cp2 b)
        cp1 idx1 cp2 idx2 = .ok b := Iff.rfl

/-- C9: two bootstrap specifiers compare equal exactly when their method entries compare
equal, their argument counts are equal and their arguments compare equal position by
position; two Dynamic or two InvokeDynamic entries compare equal exactly when their
name-and-type entries and their bootstrap specifiers compare equal. -/
theorem compare_operand_to_spec (cp1 cp2 : ConstantPool) :
    (∀ idx1 idx2 e1 e2 k1 k2 argc1 argc2 : Nat,
      cp1.bsm_attribute_entry idx1 = .ok e1 → cp2.bsm_attribute_entry idx2 = .ok e2 →
      cp1.bootstrap_method_index e1 = .ok k1 → cp2.bootstrap_method_index e2 = .ok k2 →
      cp1.argument_count e1 = .ok argc1 → cp2.argument_count e2 = .ok argc2 →
      (OperandReturns cp1 idx1 cp2 idx2 true ↔
        EntryReturns cp1 k1 cp2 k2 true ∧ argc1 = argc2 ∧
        ∀ j, j < argc1 → ∃ a1 a2, cp1.argument_index e1 j = .ok a1 ∧
          cp2.argument_index e2 j = .ok a2 ∧ EntryReturns cp1 a1 cp2 a2 true)) ∧
    (∀ i j tg1 tg2 : Nat, cp1.tag_at i = .ok tg1 → cp2.tag_at j = .ok tg2 →
      (normalized_tag tg1 = JVM_CONSTANT_Dynamic ∧ normalized_tag tg2 = JVM_CONSTANT_Dynamic) ∨
        (tg1 = JVM_CONSTANT_InvokeDynamic ∧ tg2 = JVM_CONSTANT_InvokeDynamic) →
      ∃ nt1 nt2 b1 b2, cp1.bootstrap_name_and_type_ref_index_at i = .ok nt1 ∧
        cp2.bootstrap_name_and_type_ref_index_at j = .ok nt2 ∧
        cp1.bootstrap_methods_attribute_index i = .ok b1 ∧
        cp2.bootstrap_methods_attribute_index j = .ok b2 ∧
        (EntryReturns cp1 i cp2 j true ↔
          EntryReturns cp1 nt1 cp2 nt2 true ∧ OperandReturns cp1 b1 cp2 b2 true)) := by
  constructor
  · intro idx1 idx2 e1 e2 k1 k2 argc1 argc2 he1 he2 hk1 hk2 ha1 ha2
    rw [operandReturns_iff]
    simp only [compare_operand_with_eq_true _ he1 he2 hk1 hk2 ha1 ha2]
    constructor
    · rintro ⟨fuel, hm, hargc, hargs⟩
      refine ⟨⟨fuel, hm⟩, hargc, fun j hj => ?_⟩
      obtain ⟨a1, a2, r1, r2, hc⟩ := hargs j hj
      exact ⟨a1, a2, r1, r2, fuel, hc⟩
    · rintro ⟨⟨f, hm⟩, hargc, hargs⟩
      obtain ⟨g, hg⟩ := entryReturns_all e1 e2 argc1 hargs
      refine ⟨max f g, entryReturns_of_le (le_max_left _ _) hm, hargc, fun j hj => ?_⟩
      obtain ⟨a1, a2, r1, r2, hc⟩ := hg j hj
      exact ⟨a1, a2, r1, r2, entryReturns_of_le (le_max_right _ _) hc⟩
  · intro i j tg1 tg2 h1 h2 htags
    obtain ⟨w1, hw1⟩ := int_at_addr_of_tag h1
    obtain ⟨w2, hw2⟩ := int_at_addr_of_tag h2
    have hn : normalized_tag tg1 = normalized_tag tg2 := by
      rcases htags with ⟨a, b⟩ | ⟨a, b⟩
      · rw [a, b]
      · rw [a, b]
    have hn1 : normalized_tag tg1 = JVM_CONSTANT_Dynamic ∨
        normalized_tag tg1 = JVM_CONSTANT_InvokeDynamic := by
      rcases htags with ⟨a, _⟩ | ⟨a, _⟩
      · exact Or.inl a
      · subst a; exact Or.inr (by decide)
    have hnt1 : cp1.bootstrap_name_and_type_ref_index_at i =
        .ok (extract_high_short_from_int w1) := by
      simp [bootstrap_name_and_type_ref_index_at, hw1]
    have hnt2 : cp2.bootstrap_name_and_type_ref_index_at j =
        .ok (extract_high_short_from_int w2) := by
      simp [bootstrap_name_and_type_ref_index_at, hw2]
    have hb1 : cp1.bootstrap_methods_attribute_index i =
        .ok (extract_low_short_from_int w1) := by
      simp [bootstrap_methods_attribute_index, hw1]
    have hb2 : cp2.bootstrap_methods_attribute_index j =
        .ok (extract_low_short_from_int w2) := by
      simp [bootstrap_methods_attribute_index, hw2]
    refine ⟨_, _, _, _, hnt1, hnt2, hb1, hb2, ?_⟩
    rw [entryReturns_iff]
    simp only [compare_entry_with_dynamic _ h1 h2 hn hn1, hnt1, hnt2, hb1, hb2, ok_bind,
      both_eq_true]
    constructor
    · rintro ⟨fuel, e1, e2⟩
      exact ⟨⟨fuel, e1⟩, ⟨fuel, e2⟩⟩
    · rintro ⟨⟨f, e1⟩, ⟨g, e2⟩⟩
      exact ⟨max f g, entryReturns_of_le (le_max_left _ _) e1,
        compare_operand_to_mono (le_max_right _ _) cp1 _ cp2 _ true e2⟩

theorem compare_operand_to_spec_witness :
    OperandReturns demoPool 0 demoPoolResolved 0 true ↔
      EntryReturns demoPool 10 demoPoolResolved 10 true ∧ 1 = 1 ∧
      ∀ j, j < 1 → ∃ a1 a2, demoPool.argument_index 2 j = .ok a1 ∧
        demoPoolResolved.argument_index 2 j = .ok a2 ∧
        EntryReturns demoPool a1 demoPoolResolved a2 true :=
  (compare_operand_to_spec demoPool demoPoolResolved).1 0 0 2 2 10 10 1 1
    (by decide) (by decide) (by decide) (by decide) (by decide) (by decide)

/-! ## Searching a pool -/

theorem normalized_tag_eq_zero {tg : Nat} (h : normalized_tag tg = 0) : tg = 0 := by
  unfold normalized_tag constantTag.non_error_value at h
  split_ifs at h
  omega

theorem compare_entry_to_true_tags {fuel : Nat} {cp1 cp2 : ConstantPool} {i j tg1 tg2 : Nat}
    (h1 : cp1.tag_at i = .ok tg1) (h2 : cp2.tag_at j = .ok tg2)
    (h : compare_entry_to fuel cp1 i cp2 j = .ok true) :
    normalized_tag tg1 = normalized_tag tg2 := by
  cases fuel with
  | zero => cases h
  | succ n =>
    by_contra hne
    rw [compare_entry_to_succ_eq, compare_entry_with_tags_ne _ h1 h2 hne] at h
    cases h

theorem find_matching_entry_from_iff (fuel : Nat) (cp : ConstantPool) (pattern_i : Nat)
    (search_cp : ConstantPool) (n : Nat) :
    ∀ i r, 1 ≤ i →
      (find_matching_entry_from fuel cp pattern_i search_cp n i = .ok r ↔
        (r = 0 ∧ ∀ k, i ≤ k → k < i + n →
          compare_entry_to fuel cp pattern_i search_cp k = .ok false) ∨
        (i ≤ r ∧ r < i + n ∧ compare_entry_to fuel cp pattern_i search_cp r = .ok true ∧
          ∀ k, i ≤ k → k < r →
            compare_entry_to fuel cp pattern_i search_cp k = .ok false)) := by
  induction n with
  | zero =>
    intro i r hi
    simp only [find_matching_entry_from, pure_eq_ok, Except.ok.injEq]
    constructor
    · intro h
      exact Or.inl ⟨h.symm, fun k h1 h2 => absurd h2 (by omega)⟩
    · rintro (⟨h, -⟩ | ⟨h1, h2, -⟩)
      · exact h.symm
      · omega
  | succ n ih =>
    intro i r hi
    rw [find_matching_entry_from]
    cases hc : compare_entry_to fuel cp pattern_i search_cp i with
    | error e =>
      simp only [error_bind]
      constructor
      · intro h; cases h
      · rintro (⟨-, hall⟩ | ⟨h1, h2, h3, h4⟩)
        · have := hall i (Nat.le_refl i) (by omega)
          rw [hc] at this; cases this
        · by_cases hri : r = i
          · subst hri; rw [hc] at h3; cases h3
          · have := h4 i (Nat.le_refl i) (by omega)
            rw [hc] at this; cases this
    | ok b =>
      cases b with
      | true =>
        simp only [ok_bind, if_true, pure_eq_ok, Except.ok.injEq]
        constructor
        · intro h
          subst h
          exact Or.inr ⟨Nat.le_refl _, by omega, hc, fun k h1 h2 => absurd h2 (by omega)⟩
        · rintro (⟨-, hall⟩ | ⟨h1, h2, h3, h4⟩)
          · have := hall i (Nat.le_refl i) (by omega)
            rw [hc] at this; cases this
          · by_contra hne
            have := h4 i (Nat.le_refl i) (by omega)
            rw [hc] at this; cases this
      | false =>
        simp only [ok_bind, Bool.false_eq_true, if_false]
        rw [ih (i + 1) r (by omega)]
        constructor
        · rintro (⟨h0, hall⟩ | ⟨h1, h2, h3, h4⟩)
          · refine Or.inl ⟨h0, fun k hk1 hk2 => ?_⟩
            by_cases hk : k = i
            · subst hk; exact hc
            · exact hall k (by omega) (by omega)
          · refine Or.inr ⟨by omega, by omega, h3, fun k hk1 hk2 => ?_⟩
            by_cases hk : k = i
            · subst hk; exact hc
            · exact h4 k (by omega) hk2
        · rintro (⟨h0, hall⟩ | ⟨h1, h2, h3, h4⟩)
          · exact Or.inl ⟨h0, fun k hk1 hk2 => hall k (by omega) (by omega)⟩
          · have hri : r ≠ i := by
              intro e; subst e; rw [hc] at h3; cases h3
            exact Or.inr ⟨by omega, by omega, h3, fun k hk1 hk2 => h4 k (by omega) hk2⟩

/-- C10: `find_matching_entry` returns `r` exactly when either `r` is an index in
`1 .. length-1` whose entry compares equal to the pattern while every smaller index
compares unequal (the smallest matching index), or `r` is 0 and every index in
`1 .. length-1` compares unequal; for a pattern that is not Invalid the index returned is
never the Invalid-tagged second slot of a Long or Double. -/
theorem find_matching_entry_spec (fuel : Nat) (cp : ConstantPool) (pattern_i : Nat)
    (search_cp : ConstantPool) (r : Nat) :
    (find_matching_entry fuel cp pattern_i search_cp = .ok r ↔
      (r = 0 ∧ ∀ k, 1 ≤ k → k < search_cp.length →
        compare_entry_to fuel cp pattern_i search_cp k = .ok false) ∨
      (1 ≤ r ∧ r < search_cp.length ∧
        compare_entry_to fuel cp pattern_i search_cp r = .ok true ∧
        ∀ k, 1 ≤ k → k < r → compare_entry_to fuel cp pattern_i search_cp k = .ok false)) ∧
    (find_matching_entry fuel cp pattern_i search_cp = .ok r →
      ∀ tp, cp.tag_at pattern_i = .ok tp → tp ≠ JVM_CONSTANT_Invalid →
        ∀ k tl, search_cp.tag_at k = .ok tl →
          tl = JVM_CONSTANT_Long ∨ tl = JVM_CONSTANT_Double →
          search_cp.tag_at (k + 1) = .ok JVM_CONSTANT_Invalid → r ≠ k + 1) := by
  have key := find_matching_entry_from_iff fuel cp pattern_i search_cp
    (search_cp.length - 1) 1 r (Nat.le_refl 1)
  have hiff : find_matching_entry fuel cp pattern_i search_cp = .ok r ↔
      (r = 0 ∧ ∀ k, 1 ≤ k → k < search_cp.length →
        compare_entry_to fuel cp pattern_i search_cp k = .ok false) ∨
      (1 ≤ r ∧ r < search_cp.length ∧
        compare_entry_to fuel cp pattern_i search_cp r = .ok true ∧
        ∀ k, 1 ≤ k → k < r →
          compare_entry_to fuel cp pattern_i search_cp k = .ok false) := by
    unfold find_matching_entry
    rw [key]
    constructor
    · rintro (⟨h0, hall⟩ | ⟨h1, h2, h3, h4⟩)
      · exact Or.inl ⟨h0, fun k hk1 hk2 => hall k hk1 (by omega)⟩
      · exact Or.inr ⟨h1, by omega, h3, h4⟩
    · rintro (⟨h0, hall⟩ | ⟨h1, h2, h3, h4⟩)
      · exact Or.inl ⟨h0, fun k hk1 hk2 => hall k hk1 (by omega)⟩
      · exact Or.inr ⟨h1, by omega, h3, h4⟩
  refine ⟨hiff, ?_⟩
  intro hfind tp htp hne k tl _ _ hk hrk
  rcases hiff.mp hfind with ⟨h0, -⟩ | ⟨-, -, h3, -⟩
  · omega
  · subst hrk
    have := compare_entry_to_true_tags htp hk h3
    exact hne (normalized_tag_eq_zero (by rw [this]; decide))

theorem find_matching_entry_spec_witness :
    (1 ≤ 6 ∧ 6 < demoPoolResolved.length ∧
      compare_entry_to 5 demoPool 6 demoPoolResolved 6 = .ok true ∧
      ∀ k, 1 ≤ k → k < 6 → compare_entry_to 5 demoPool 6 demoPoolResolved k = .ok false) ∧
    ∀ k tl, demoPoolResolved.tag_at k = .ok tl →
      tl = JVM_CONSTANT_Long ∨ tl = JVM_CONSTANT_Double →
      demoPoolResolved.tag_at (k + 1) = .ok JVM_CONSTANT_Invalid → 6 ≠ k + 1 := by
  have key := find_matching_entry_spec 5 demoPool 6 demoPoolResolved 6
  have hfind : find_matching_entry 5 demoPool 6 demoPoolResolved = .ok 6 := by decide
  refine ⟨?_, key.2 hfind JVM_CONSTANT_Methodref (by decide) (by decide)⟩
  rcases key.1.mp hfind with ⟨h0, -⟩ | h
  · exact absurd h0 (by decide)
  · exact h

/-! ## In-error tags -/

theorem slot_at_error {cp : ConstantPool} {i : Nat} {e : Fault} (h : cp.slot_at i = .error e) :
    e = .out_of_bounds := by
  unfold slot_at at h
  cases hs : cp.slots[i]? with
  | some s => rw [hs] at h; cases h
  | none => rw [hs] at h; cases h; rfl

theorem sameUpToError_slot_at {cp cp' : ConstantPool} (h : SameUpToError cp cp') (i : Nat) :
    (cp.slot_at i = .error .out_of_bounds ∧ cp'.slot_at i = .error .out_of_bounds) ∨
    ∃ s s', cp.slot_at i = .ok s ∧ cp'.slot_at i = .ok s' ∧ s.non_error = s'.non_error := by
  have hm : (cp.slots.map CPSlot.non_error)[i]? = (cp'.slots.map CPSlot.non_error)[i]? := by
    rw [h.1]
  rw [List.getElem?_map, List.getElem?_map] at hm
  unfold slot_at
  cases h1 : cp.slots[i]? with
  | none =>
    cases h2 : cp'.slots[i]? with
    | none => exact Or.inl ⟨rfl, rfl⟩
    | some s' => rw [h1, h2] at hm; cases hm
  | some s =>
    cases h2 : cp'.slots[i]? with
    | none => rw [h1, h2] at hm; cases hm
    | some s' =>
      rw [h1, h2] at hm
      exact Or.inr ⟨s, s', rfl, rfl, Option.some.inj hm⟩

theorem map_slot_at_congr {α : Type} {cp cp' : ConstantPool} (h : SameUpToError cp cp')
    (g : CPSlot → α) (hg : ∀ s, g s = g s.non_error) (i : Nat) :
    g <$> cp.slot_at i = g <$> cp'.slot_at i := by
  rcases sameUpToError_slot_at h i with ⟨h1, h2⟩ | ⟨s, s', h1, h2, hs⟩
  · rw [h1, h2]
  · rw [h1, h2, map_ok, map_ok, hg s, hg s', hs]

theorem int_at_addr_congr {cp cp' : ConstantPool} (h : SameUpToError cp cp') :
    cp.int_at_addr = cp'.int_at_addr := by
  funext i
  exact map_slot_at_congr h (fun s => s.value % 4294967296) (fun _ => rfl) i

theorem symbol_at_addr_congr {cp cp' : ConstantPool} (h : SameUpToError cp cp') :
    cp.symbol_at_addr = cp'.symbol_at_addr := by
  funext i
  exact map_slot_at_congr h (fun s => s.value) (fun _ => rfl) i

theorem long_at_congr {cp cp' : ConstantPool} (h : SameUpToError cp cp') :
    cp.long_at = cp'.long_at := by
  funext i
  exact map_slot_at_congr h (fun s => s.value % 18446744073709551616) (fun _ => rfl) i

theorem double_at_congr {cp cp' : ConstantPool} (h : SameUpToError cp cp') :
    cp.double_at = cp'.double_at := by
  funext i
  exact map_slot_at_congr h (fun s => s.value % 18446744073709551616) (fun _ => rfl) i

theorem non_error_value_idem (t : Nat) :
    constantTag.non_error_value (constantTag.non_error_value t) =
      constantTag.non_error_value t := by
  unfold constantTag.non_error_value
  split_ifs <;> simp_all

theorem has_bootstrap_non_error (t : Nat) :
    constantTag.has_bootstrap (constantTag.non_error_value t) = constantTag.has_bootstrap t := by
  unfold constantTag.has_bootstrap constantTag.non_error_value
  split_ifs <;> simp_all

theorem uncached_name_and_type_ref_index_at_eq (cp : ConstantPool) (i : Nat) :
    cp.uncached_name_and_type_ref_index_at i =
      extract_high_short_from_int <$> cp.int_at_addr i := by
  unfold uncached_name_and_type_ref_index_at tag_at int_at_addr
    bootstrap_name_and_type_ref_index_at int_at_addr
  cases cp.slot_at i with
  | error e => rfl
  | ok s => by_cases hb : constantTag.has_bootstrap s.tag = true <;> simp [hb]

theorem operand_at_congr {cp cp' : ConstantPool} (h : SameUpToError cp cp') :
    cp.operand_at = cp'.operand_at := by
  funext i
  unfold operand_at
  rw [h.2]

theorem compare_operand_args_congr (cmp : Nat → Nat → Except Fault Bool)
    {cp1 cp1' cp2 cp2' : ConstantPool} (h1 : SameUpToError cp1 cp1')
    (h2 : SameUpToError cp2 cp2') (e1 e2 n j : Nat) :
    compare_operand_args cmp cp1 e1 cp2 e2 n j = compare_operand_args cmp cp1' e1 cp2' e2 n j := by
  induction n generalizing j with
  | zero => rfl
  | succ n ih =>
    simp only [compare_operand_args, argument_index, operand_at_congr h1, operand_at_congr h2, ih]

theorem compare_operand_with_congr (cmp : Nat → Nat → Except Fault Bool)
    {cp1 cp1' cp2 cp2' : ConstantPool} (h1 : SameUpToError cp1 cp1')
    (h2 : SameUpToError cp2 cp2') (idx1 idx2 : Nat) :
    compare_operand_with cmp cp1 idx1 cp2 idx2 = compare_operand_with cmp cp1' idx1 cp2' idx2 := by
  simp only [compare_operand_with, bsm_attribute_entry, operand_offset_at,
    bootstrap_method_index, argument_count, operand_at_congr h1, operand_at_congr h2,
    compare_operand_args_congr cmp h1 h2]

theorem compare_entry_with_congr (cmp : Nat → Nat → Except Fault Bool)
    {cp1 cp1' cp2 cp2' : ConstantPool} (h1 : SameUpToError cp1 cp1')
    (h2 : SameUpToError cp2 cp2') (i j : Nat) :
    compare_entry_with cmp cp1 i cp2 j = compare_entry_with cmp cp1' i cp2' j := by
  have body : ∀ (t1 t1' t2 t2' : Nat),
      constantTag.non_error_value t1 = constantTag.non_error_value t1' →
      constantTag.non_error_value t2 = constantTag.non_error_value t2' →
      cp1.tag_at i = .ok t1 → cp1'.tag_at i = .ok t1' →
      cp2.tag_at j = .ok t2 → cp2'.tag_at j = .ok t2' →
      compare_entry_with cmp cp1 i cp2 j = compare_entry_with cmp cp1' i cp2' j := by
    intro t1 t1' t2 t2' e1 e2 a1 a1' a2 a2'
    simp only [compare_entry_with, a1, a1', a2, a2', ok_bind, e1, e2,
      klass_index_at, uncached_klass_ref_index_at,
      uncached_name_and_type_ref_index_at_eq, float_at, int_at, name_ref_index_at,
      signature_ref_index_at, name_and_type_at, string_index_at, klass_name_at,
      klass_slot_name_index, method_type_index_at, method_handle_ref_kind_at,
      method_handle_index_at, bootstrap_name_and_type_ref_index_at,
      bootstrap_methods_attribute_index, unresolved_string_at, symbol_at,
      int_at_addr_congr h1, int_at_addr_congr h2, symbol_at_addr_congr h1, symbol_at_addr_congr h2,
      long_at_congr h1, long_at_congr h2, double_at_congr h1, double_at_congr h2,
      compare_operand_with_congr cmp h1 h2]
  rcases sameUpToError_slot_at h1 i with ⟨b1, b1'⟩ | ⟨s1, s1', b1, b1', hs1⟩
  · simp [compare_entry_with, tag_at, b1, b1']
  · rcases sameUpToError_slot_at h2 j with ⟨b2, b2'⟩ | ⟨s2, s2', b2, b2', hs2⟩
    · simp [compare_entry_with, tag_at, b1, b1', b2, b2']
    · exact body s1.tag s1'.tag s2.tag s2'.tag (congrArg CPSlot.tag hs1)
        (congrArg CPSlot.tag hs2) (by simp [tag_at, b1]) (by simp [tag_at, b1'])
        (by simp [tag_at, b2]) (by simp [tag_at, b2'])

/-- C6: the result of `compare_entry_to` does not change when, in either pool, tags are
replaced by their in-error or their non-error counterparts and every payload is kept. -/
theorem compare_entry_to_error_tags (fuel : Nat) (cp1 cp1' cp2 cp2' : ConstantPool)
    (i j : Nat) (h1 : SameUpToError cp1 cp1') (h2 : SameUpToError cp2 cp2') :
    compare_entry_to fuel cp1 i cp2 j = compare_entry_to fuel cp1' i cp2' j := by
  induction fuel generalizing i j with
  | zero => rfl
  | succ n ih =>
    rw [compare_entry_to_succ_eq, compare_entry_to_succ_eq]
    have hcmp : (fun a b => compare_entry_to n cp1 a cp2 b) =
        (fun a b => compare_entry_to n cp1' a cp2' b) := by
      funext a b
      exact ih a b
    rw [hcmp]
    exact compare_entry_with_congr _ h1 h2 i j

theorem compare_entry_to_error_tags_witness :
    compare_entry_to 5 demoPool 11 demoPoolDynamicInError 11 =
      compare_entry_to 5 demoPoolDynamicInError 11 demoPool 11 :=
  compare_entry_to_error_tags 5 demoPool demoPoolDynamicInError demoPoolDynamicInError
    demoPool 11 11 (by decide) (by decide)

end ConstantPool

/-! ## Stores into the byte memory -/

theorem frame_refl (p : Nat) (b : Bytes) : Frame p b b := fun _ _ => rfl

theorem frame_trans {p : Nat} {b b' b'' : Bytes} (h1 : Frame p b b') (h2 : Frame p b' b'') :
    Frame p b b'' := fun a ha => (h2 a ha).trans (h1 a ha)

theorem frame_mono {p q : Nat} {b b' : Bytes} (hpq : p ≤ q) (h : Frame q b b') : Frame p b b' :=
  fun a ha => h a (Nat.lt_of_lt_of_le ha hpq)

theorem put_u1_same (b : Bytes) (p v : Nat) : put_u1 b p v p = v % 256 := by
  simp [put_u1]

theorem put_u1_other (b : Bytes) {p a : Nat} (v : Nat) (h : a ≠ p) : put_u1 b p v a = b a := by
  simp [put_u1, h]

theorem frame_put_u1 {p q : Nat} {b b' : Bytes} (v : Nat) (h : Frame p b b') (hpq : p ≤ q) :
    Frame p b (put_u1 b' q v) := by
  intro a ha
  rw [put_u1_other b' v (by omega)]
  exact h a ha

theorem frame_put_Java_u2 {p q : Nat} {b b' : Bytes} (v : Nat) (h : Frame p b b')
    (hpq : p ≤ q) : Frame p b (put_Java_u2 b' q v) :=
  frame_put_u1 _ (frame_put_u1 _ h hpq) (by omega)

theorem frame_put_Java_u4 {p q : Nat} {b b' : Bytes} (v : Nat) (h : Frame p b b')
    (hpq : p ≤ q) : Frame p b (put_Java_u4 b' q v) :=
  frame_put_Java_u2 _ (frame_put_Java_u2 _ h hpq) (by omega)

theorem frame_put_Java_u8 {p q : Nat} {b b' : Bytes} (v : Nat) (h : Frame p b b')
    (hpq : p ≤ q) : Frame p b (put_Java_u8 b' q v) :=
  frame_put_Java_u4 _ (frame_put_Java_u4 _ h hpq) (by omega)

theorem frame_put_utf8_body {p : Nat} {b b' : Bytes} (str : List Nat) (i : Nat)
    (h : Frame p b b') : Frame p b (put_utf8_body b' p str i) := by
  induction str generalizing b' i with
  | nil => exact h
  | cons c str ih => exact ih (i + 1) (frame_put_u1 c h (by omega))

theorem put_Java_u2_bytes (b : Bytes) (p v : Nat) :
    put_Java_u2 b p v p = v / 256 % 256 ∧ put_Java_u2 b p v (p + 1) = v % 256 := by
  constructor
  · unfold put_Java_u2
    rw [put_u1_other _ _ (by omega), put_u1_same]
  · unfold put_Java_u2
    rw [put_u1_same]

theorem put_Java_u2_other (b : Bytes) {p a : Nat} (v : Nat) (h1 : a ≠ p) (h2 : a ≠ p + 1) :
    put_Java_u2 b p v a = b a := by
  unfold put_Java_u2
  rw [put_u1_other _ _ h2, put_u1_other _ _ h1]

namespace ConstantPool

/-! ## One entry of `copy_cpool_bytes` -/

theorem isOk_iff {α : Type} {x : Except Fault α} : x.isOk = true ↔ ∃ a, x = .ok a := by
  cases x <;> simp [Except.isOk, Except.toBool]

theorem cpool_entry_size_total (heap : SymbolHeap) {cp : ConstantPool} {idx : Nat} {s : CPSlot}
    (hs : cp.slot_at idx = .ok s) : ∃ sz, cp.cpool_entry_size heap idx = .ok sz ∧ 1 ≤ sz := by
  have ht : cp.tag_at idx = .ok s.tag := tag_at_eq_ok.mpr ⟨s, hs, rfl⟩
  have hsym : cp.symbol_at idx = .ok s.value := symbol_at_eq_ok.mpr ⟨s, hs, rfl⟩
  unfold cpool_entry_size
  rw [ht, hsym]
  simp only [ok_bind]
  split_ifs <;> exact ⟨_, rfl, by omega⟩

theorem framed_ite {p : Nat} {bytes : Bytes} {c : Prop} [Decidable c]
    {x y : Except Fault (Bytes × Bool)}
    (hx : FramedResult p bytes x) (hy : FramedResult p bytes y) :
    FramedResult p bytes (if c then x else y) := by
  by_cases hc : c
  · simpa [hc] using hx
  · simpa [hc] using hy

theorem framed_bind {α : Type} {p : Nat} {bytes : Bytes} {x : Except Fault α}
    {f : α → Except Fault (Bytes × Bool)} (hf : ∀ a, FramedResult p bytes (f a)) :
    FramedResult p bytes (x >>= f) := by
  intro b' two h
  obtain ⟨a, -, ha⟩ := bind_eq_ok.mp h
  exact hf a b' two ha

theorem framed_pure {p : Nat} {bytes b : Bytes} {t : Bool} (h : Frame p bytes b) :
    FramedResult p bytes (pure (b, t)) := by
  intro b' two e
  cases e
  exact h

theorem copy_cpool_entry_frame (heap : SymbolHeap) (tbl : SymbolHash) (cp : ConstantPool)
    (idx tag p : Nat) (bytes : Bytes) :
    FramedResult p bytes (cp.copy_cpool_entry heap tbl idx tag bytes p) := by
  unfold copy_cpool_entry
  dsimp only
  repeat' first
    | refine framed_ite ?_ ?_
    | refine framed_bind (fun _ => ?_)
    | refine framed_pure ?_
    | refine frame_put_utf8_body _ _ ?_
    | refine frame_put_Java_u8 _ ?_ (by omega)
    | refine frame_put_Java_u4 _ ?_ (by omega)
    | refine frame_put_Java_u2 _ ?_ (by omega)
    | refine frame_put_u1 _ ?_ (by omega)
    | exact frame_refl _ _

theorem copy_cpool_entry_class {heap : SymbolHeap} {tbl : SymbolHash} {cp : ConstantPool}
    {idx tag sym : Nat} (p : Nat) (bytes : Bytes)
    (htag : tag = JVM_CONSTANT_Class ∨ tag = JVM_CONSTANT_UnresolvedClass ∨
      tag = JVM_CONSTANT_UnresolvedClassInError)
    (hk : cp.klass_name_at idx = .ok sym) :
    cp.copy_cpool_entry heap tbl idx tag bytes p =
      .ok (put_Java_u2 (put_u1 (put_u1 bytes p tag) p JVM_CONSTANT_Class) (p + 1)
        (tbl.symbol_to_value sym), false) := by
  rcases htag with h | h | h <;> subst h <;> simp [copy_cpool_entry, hk]

theorem copy_cpool_entry_string {heap : SymbolHeap} {tbl : SymbolHash} {cp : ConstantPool}
    {idx sym : Nat} (p : Nat) (bytes : Bytes)
    (hk : cp.unresolved_string_at idx = .ok sym) :
    cp.copy_cpool_entry heap tbl idx JVM_CONSTANT_String bytes p =
      .ok (put_Java_u2 (put_u1 (put_u1 bytes p JVM_CONSTANT_String) p JVM_CONSTANT_String)
        (p + 1) (tbl.symbol_to_value sym), false) := by
  simp [copy_cpool_entry, hk]

/-- The three bytes of a symbolic entry: the tag byte and the big-endian index. -/
theorem symbolic_bytes (bytes : Bytes) (p t0 t v : Nat) :
    put_Java_u2 (put_u1 (put_u1 bytes p t0) p t) (p + 1) v p = t % 256 ∧
    put_Java_u2 (put_u1 (put_u1 bytes p t0) p t) (p + 1) v (p + 1) = v / 256 % 256 ∧
    put_Java_u2 (put_u1 (put_u1 bytes p t0) p t) (p + 1) v (p + 2) = v % 256 := by
  refine ⟨?_, (put_Java_u2_bytes _ _ _).1, (put_Java_u2_bytes _ _ _).2⟩
  rw [put_Java_u2_other _ _ (by omega) (by omega), put_u1_same]

theorem two_ite {tag : Nat} {c : Prop} [Decidable c] {x y : Except Fault (Bytes × Bool)}
    (hx : c → ∀ b two, x = .ok (b, two) →
      (two = true ↔ tag = JVM_CONSTANT_Long ∨ tag = JVM_CONSTANT_Double))
    (hy : ¬c → ∀ b two, y = .ok (b, two) →
      (two = true ↔ tag = JVM_CONSTANT_Long ∨ tag = JVM_CONSTANT_Double)) :
    ∀ b two, (if c then x else y) = .ok (b, two) →
      (two = true ↔ tag = JVM_CONSTANT_Long ∨ tag = JVM_CONSTANT_Double) := by
  by_cases hc : c
  · simpa [hc] using hx hc
  · simpa [hc] using hy hc

theorem two_bind {α : Type} {tag : Nat} {x : Except Fault α}
    {f : α → Except Fault (Bytes × Bool)}
    (hf : ∀ a b two, f a = .ok (b, two) →
      (two = true ↔ tag = JVM_CONSTANT_Long ∨ tag = JVM_CONSTANT_Double)) :
    ∀ b two, (x >>= f) = .ok (b, two) →
      (two = true ↔ tag = JVM_CONSTANT_Long ∨ tag = JVM_CONSTANT_Double) := by
  intro b two h
  obtain ⟨a, -, ha⟩ := bind_eq_ok.mp h
  exact hf a b two ha

theorem two_pure {tag : Nat} {b0 : Bytes} {t : Bool}
    (h : t = true ↔ tag = JVM_CONSTANT_Long ∨ tag = JVM_CONSTANT_Double) :
    ∀ b two, (pure (b0, t) : Except Fault (Bytes × Bool)) = .ok (b, two) →
      (two = true ↔ tag = JVM_CONSTANT_Long ∨ tag = JVM_CONSTANT_Double) := by
  intro b two e
  cases e
  exact h

set_option maxHeartbeats 1000000 in
theorem copy_cpool_entry_two_slots (heap : SymbolHeap) (tbl : SymbolHash) (cp : ConstantPool)
    (idx tag p : Nat) (bytes : Bytes) :
    ∀ b two, cp.copy_cpool_entry heap tbl idx tag bytes p = .ok (b, two) →
      (two = true ↔ tag = JVM_CONSTANT_Long ∨ tag = JVM_CONSTANT_Double) := by
  unfold copy_cpool_entry
  dsimp only
  repeat' first
    | refine two_ite (fun _ => ?_) (fun _ => ?_)
    | refine two_bind (fun _ => ?_)
    | refine two_pure ?_
  all_goals simp only [Bool.false_eq_true, false_iff, true_iff, JVM_CONSTANT_Invalid,
    JVM_CONSTANT_Utf8, JVM_CONSTANT_Unicode, JVM_CONSTANT_Integer, JVM_CONSTANT_Float,
    JVM_CONSTANT_Long, JVM_CONSTANT_Double, JVM_CONSTANT_Class, JVM_CONSTANT_String,
    JVM_CONSTANT_Fieldref, JVM_CONSTANT_Methodref, JVM_CONSTANT_InterfaceMethodref,
    JVM_CONSTANT_NameAndType, JVM_CONSTANT_MethodHandle, JVM_CONSTANT_MethodType,
    JVM_CONSTANT_Dynamic, JVM_CONSTANT_InvokeDynamic, JVM_CONSTANT_UnresolvedClass,
    JVM_CONSTANT_ClassIndex, JVM_CONSTANT_StringIndex, JVM_CONSTANT_UnresolvedClassInError,
    JVM_CONSTANT_MethodHandleInError, JVM_CONSTANT_MethodTypeInError,
    JVM_CONSTANT_DynamicInError] at *
  all_goals omega

/-! ## The loop of `copy_cpool_bytes` -/

theorem copy_cpool_bytes_from_succ (heap : SymbolHeap) (tbl : SymbolHash) (cp : ConstantPool)
    (steps idx : Nat) (size : Int) (p : Nat) (bytes : Bytes) (hlt : idx < cp.length) :
    copy_cpool_bytes_from heap tbl cp (steps + 1) idx size p bytes =
      (do let tag ← cp.tag_at idx
          let ent_size ← cp.cpool_entry_size heap idx
          let r ← cp.copy_cpool_entry heap tbl idx tag bytes p
          copy_cpool_bytes_from heap tbl cp steps ((if r.2 then idx + 1 else idx) + 1)
            (jint_wrap (size + ent_size)) (p + ent_size) r.1) := by
  rw [copy_cpool_bytes_from, if_pos hlt]

theorem copy_cpool_bytes_from_done (heap : SymbolHeap) (tbl : SymbolHash) (cp : ConstantPool)
    (steps idx : Nat) (size : Int) (p : Nat) (bytes : Bytes) (hge : ¬ idx < cp.length) :
    copy_cpool_bytes_from heap tbl cp steps idx size p bytes = .ok (p, bytes) := by
  cases steps <;> simp [copy_cpool_bytes_from, hge]

/-- What `copy_cpool_bytes` leaves at offset `p` for entry `idx` when that entry is a
class entry or a String entry. -/
theorem entry_layout_from_succ (heap : SymbolHeap) (cp : ConstantPool) (n idx p tag sz : Nat)
    (hlt : idx < cp.length) (ht : cp.tag_at idx = .ok tag)
    (hsz : cp.cpool_entry_size heap idx = .ok sz) :
    entry_layout_from heap cp (n + 1) idx p =
      (idx, p) :: entry_layout_from heap cp n
        (if tag = JVM_CONSTANT_Long ∨ tag = JVM_CONSTANT_Double then idx + 2 else idx + 1)
        (p + sz) := by
  rw [entry_layout_from, if_pos hlt, ht, hsz]

theorem copy_cpool_bytes_from_symbolic (heap : SymbolHeap) (tbl : SymbolHash)
    (cp : ConstantPool) (steps : Nat) :
    ∀ (idx : Nat) (size : Int) (p : Nat) (bytes : Bytes) (q : Nat) (out : Bytes),
      copy_cpool_bytes_from heap tbl cp steps idx size p bytes = .ok (q, out) →
      Frame p bytes out ∧
      ∀ i pi tag, (i, pi) ∈ entry_layout_from heap cp steps idx p → cp.tag_at i = .ok tag →
        (tag = JVM_CONSTANT_Class ∨ tag = JVM_CONSTANT_UnresolvedClass ∨
            tag = JVM_CONSTANT_UnresolvedClassInError →
          ∃ sym, cp.klass_name_at i = .ok sym ∧ out pi = JVM_CONSTANT_Class ∧
            out (pi + 1) = tbl.symbol_to_value sym / 256 % 256 ∧
            out (pi + 2) = tbl.symbol_to_value sym % 256) ∧
        (tag = JVM_CONSTANT_String →
          ∃ sym, cp.unresolved_string_at i = .ok sym ∧ out pi = JVM_CONSTANT_String ∧
            out (pi + 1) = tbl.symbol_to_value sym / 256 % 256 ∧
            out (pi + 2) = tbl.symbol_to_value sym % 256) := by
  induction steps with
  | zero =>
    intro idx size p bytes q out h
    unfold copy_cpool_bytes_from at h
    split_ifs at h
    cases h
    exact ⟨frame_refl _ _, fun i pi tag hm => absurd hm (List.not_mem_nil _)⟩
  | succ n ih =>
    intro idx size p bytes q out h
    by_cases hlt : idx < cp.length
    · rw [copy_cpool_bytes_from_succ _ _ _ _ _ _ _ _ hlt] at h
      obtain ⟨tag0, ht0, h⟩ := bind_eq_ok.mp h
      obtain ⟨sz, hsz, h⟩ := bind_eq_ok.mp h
      obtain ⟨⟨bytes1, two⟩, hent, h⟩ := bind_eq_ok.mp h
      have hfr1 : Frame p bytes bytes1 := copy_cpool_entry_frame heap tbl cp idx tag0 p bytes _ _ hent
      have htwo := copy_cpool_entry_two_slots heap tbl cp idx tag0 p bytes _ _ hent
      have h' : copy_cpool_bytes_from heap tbl cp n ((if two = true then idx + 1 else idx) + 1)
          (jint_wrap (size + sz)) (p + sz) bytes1 = .ok (q, out) := h
      obtain ⟨hfr2, hrest⟩ := ih _ _ _ _ _ _ h'
      have hidx : ((if two = true then idx + 1 else idx) + 1) =
          (if tag0 = JVM_CONSTANT_Long ∨ tag0 = JVM_CONSTANT_Double then idx + 2
            else idx + 1) := by
        by_cases h2 : two = true
        · rw [if_pos h2, if_pos (htwo.mp h2)]
        · rw [if_neg h2, if_neg (fun hc => h2 (htwo.mpr hc))]
      refine ⟨frame_trans hfr1 (frame_mono (Nat.le_add_right _ _) hfr2), ?_⟩
      intro i pi tag hm htag
      rw [entry_layout_from_succ heap cp n idx p tag0 sz hlt ht0 hsz] at hm
      rcases List.mem_cons.mp hm with heq | hm'
      · obtain ⟨rfl, rfl⟩ := Prod.mk.inj heq
        have e : tag = tag0 := by rw [ht0] at htag; exact (Except.ok.inj htag).symm
        subst e
        constructor
        · intro hc
          have hsz3 : sz = 3 := by
            have h3 : cp.cpool_entry_size heap i = .ok 3 := by
              rcases hc with c | c | c <;> subst c <;> simp [cpool_entry_size, ht0]
            rw [hsz] at h3; exact Except.ok.inj h3
          obtain ⟨sym, hk⟩ : ∃ sym, cp.klass_name_at i = .ok sym := by
            by_contra hno
            cases hkn : cp.klass_name_at i with
            | ok sym => exact hno ⟨sym, hkn⟩
            | error e =>
              rcases hc with c | c | c <;> subst c <;>
                simp [copy_cpool_entry, hkn] at hent
          rw [copy_cpool_entry_class pi bytes hc hk] at hent
          have hb : bytes1 = put_Java_u2 (put_u1 (put_u1 bytes pi tag) pi JVM_CONSTANT_Class)
              (pi + 1) (tbl.symbol_to_value sym) := (Prod.mk.inj (Except.ok.inj hent)).1.symm
          obtain ⟨b0, b1, b2⟩ := symbolic_bytes bytes pi tag JVM_CONSTANT_Class
            (tbl.symbol_to_value sym)
          subst hsz3
          refine ⟨sym, hk, ?_, ?_, ?_⟩
          · rw [hfr2 pi (by omega), hb, b0]; rfl
          · rw [hfr2 (pi + 1) (by omega), hb, b1]
          · rw [hfr2 (pi + 2) (by omega), hb, b2]
        · intro hc
          subst hc
          have hsz3 : sz = 3 := by
            have h3 : cp.cpool_entry_size heap i = .ok 3 := by
              simp [cpool_entry_size, ht0]
            rw [hsz] at h3; exact Except.ok.inj h3
          obtain ⟨sl, hsl, -⟩ := tag_at_eq_ok.mp ht0
          have hk : cp.unresolved_string_at i = .ok sl.value := symbol_at_eq_ok.mpr ⟨sl, hsl, rfl⟩
          rw [copy_cpool_entry_string pi bytes hk] at hent
          have hb : bytes1 = put_Java_u2 (put_u1 (put_u1 bytes pi JVM_CONSTANT_String) pi
              JVM_CONSTANT_String) (pi + 1) (tbl.symbol_to_value sl.value) :=
            (Prod.mk.inj (Except.ok.inj hent)).1.symm
          obtain ⟨b0, b1, b2⟩ := symbolic_bytes bytes pi JVM_CONSTANT_String
            JVM_CONSTANT_String (tbl.symbol_to_value sl.value)
          subst hsz3
          refine ⟨sl.value, hk, ?_, ?_, ?_⟩
          · rw [hfr2 pi (by omega), hb, b0]; rfl
          · rw [hfr2 (pi + 1) (by omega), hb, b1]
          · rw [hfr2 (pi + 2) (by omega), hb, b2]
      · rw [← hidx] at hm'
        exact hrest i pi tag hm' htag
    · rw [copy_cpool_bytes_from_done _ _ _ _ _ _ _ _ hlt] at h
      obtain ⟨rfl, rfl⟩ := Prod.mk.inj (Except.ok.inj h)
      refine ⟨frame_refl _ _, fun i pi tag hm => ?_⟩
      rw [entry_layout_from, if_neg hlt] at hm
      exact absurd hm (List.not_mem_nil _)

theorem returns_ite {α : Type} {c : Prop} [Decidable c] {x y : Except Fault α}
    (hx : ∃ r, x = .ok r) (hy : ∃ r, y = .ok r) : ∃ r, (if c then x else y) = .ok r := by
  by_cases hc : c
  · simpa [hc] using hx
  · simpa [hc] using hy

theorem copy_cpool_entry_total (heap : SymbolHeap) (tbl : SymbolHash) {cp : ConstantPool}
    {idx : Nat} {s : CPSlot} (p : Nat) (bytes : Bytes) (hs : cp.slot_at idx = .ok s)
    (hk : s.tag = JVM_CONSTANT_Class ∨ s.tag = JVM_CONSTANT_UnresolvedClass ∨
      s.tag = JVM_CONSTANT_UnresolvedClassInError → ∃ sym, cp.klass_name_at idx = .ok sym) :
    ∃ r, cp.copy_cpool_entry heap tbl idx s.tag bytes p = .ok r := by
  by_cases hc : s.tag = JVM_CONSTANT_Class ∨ s.tag = JVM_CONSTANT_UnresolvedClass ∨
      s.tag = JVM_CONSTANT_UnresolvedClassInError
  · obtain ⟨sym, hsym⟩ := hk hc
    exact ⟨_, copy_cpool_entry_class p bytes hc hsym⟩
  · have hi : cp.int_at_addr idx = .ok (s.value % 4294967296) :=
      int_at_addr_eq_ok.mpr ⟨s, hs, rfl⟩
    have hsy : cp.symbol_at_addr idx = .ok s.value := symbol_at_eq_ok.mpr ⟨s, hs, rfl⟩
    have hl : cp.long_at idx = .ok (s.value % 18446744073709551616) := by
      unfold long_at; rw [hs]; rfl
    have hd : cp.double_at idx = .ok (s.value % 18446744073709551616) := by
      unfold double_at; rw [hs]; rfl
    unfold copy_cpool_entry
    simp only [int_at, float_at, uncached_klass_ref_index_at,
      uncached_name_and_type_ref_index_at_eq, name_ref_index_at, signature_ref_index_at,
      name_and_type_at, klass_index_at, string_index_at, method_handle_ref_kind_at,
      method_handle_index_at, method_type_index_at, unresolved_string_at, symbol_at,
      hi, hsy, hl, hd, map_ok, ok_bind, if_neg hc]
    repeat' first
      | exact ⟨_, rfl⟩
      | refine returns_ite ?_ ?_

theorem copy_cpool_bytes_from_total (heap : SymbolHeap) (tbl : SymbolHash) (cp : ConstantPool)
    (hnames : ClassNamesInPool cp) (steps : Nat) :
    ∀ (idx : Nat) (size : Int) (p : Nat) (bytes : Bytes), cp.length ≤ idx + steps →
      ∃ r, copy_cpool_bytes_from heap tbl cp steps idx size p bytes = .ok r := by
  induction steps with
  | zero =>
    intro idx size p bytes hle
    exact ⟨_, copy_cpool_bytes_from_done _ _ _ _ _ _ _ _ (by omega)⟩
  | succ n ih =>
    intro idx size p bytes hle
    by_cases hlt : idx < cp.length
    · obtain ⟨s, hs⟩ := slot_at_of_lt hlt
      have ht : cp.tag_at idx = .ok s.tag := tag_at_eq_ok.mpr ⟨s, hs, rfl⟩
      obtain ⟨sz, hsz, -⟩ := cpool_entry_size_total heap hs
      obtain ⟨r, hr⟩ := copy_cpool_entry_total heap tbl p bytes hs (fun hc =>
        isOk_iff.mp (hnames idx hlt (by
          rcases hc with c | c | c
          · exact Or.inl (by rw [ht, c])
          · exact Or.inr (Or.inl (by rw [ht, c]))
          · exact Or.inr (Or.inr (by rw [ht, c])))))
      rw [copy_cpool_bytes_from_succ _ _ _ _ _ _ _ _ hlt, ht, hsz, ok_bind, ok_bind, hr, ok_bind]
      apply ih
      split_ifs <;> omega
    · exact ⟨_, copy_cpool_bytes_from_done _ _ _ _ _ _ _ _ hlt⟩

theorem put_u1_put_u1 (bytes : Bytes) (p v w : Nat) :
    put_u1 (put_u1 bytes p v) p w = put_u1 bytes p w := by
  funext a
  by_cases h : a = p <;> simp [put_u1, h]

/-- C3: in the bytes `copy_cpool_bytes` returns, every class entry (resolved, unresolved or
in error) is the tag byte 7 followed by the big-endian `u2` the table gives for its
class-name symbol, and every String entry is the tag byte 8 followed by the big-endian
`u2` the table gives for its symbol; the three class tags write the same bytes; the call
returns when every class entry names a slot of the pool. -/
theorem copy_cpool_bytes_symbolic (heap : SymbolHeap) (tbl : SymbolHash) (cp : ConstantPool)
    (bytes : Bytes) :
    (∀ n out, cp.copy_cpool_bytes heap tbl bytes = .ok (n, out) →
      ∀ idx p tag, (idx, p) ∈ cp.entry_layout heap → cp.tag_at idx = .ok tag →
        (tag = JVM_CONSTANT_Class ∨ tag = JVM_CONSTANT_UnresolvedClass ∨
            tag = JVM_CONSTANT_UnresolvedClassInError →
          ∃ sym, cp.klass_name_at idx = .ok sym ∧ out p = JVM_CONSTANT_Class ∧
            out (p + 1) = tbl.symbol_to_value sym / 256 % 256 ∧
            out (p + 2) = tbl.symbol_to_value sym % 256) ∧
        (tag = JVM_CONSTANT_String →
          ∃ sym, cp.unresolved_string_at idx = .ok sym ∧ out p = JVM_CONSTANT_String ∧
            out (p + 1) = tbl.symbol_to_value sym / 256 % 256 ∧
            out (p + 2) = tbl.symbol_to_value sym % 256)) ∧
    (∀ idx p tag tag',
      tag = JVM_CONSTANT_Class ∨ tag = JVM_CONSTANT_UnresolvedClass ∨
        tag = JVM_CONSTANT_UnresolvedClassInError →
      tag' = JVM_CONSTANT_Class ∨ tag' = JVM_CONSTANT_UnresolvedClass ∨
        tag' = JVM_CONSTANT_UnresolvedClassInError →
      cp.copy_cpool_entry heap tbl idx tag bytes p =
        cp.copy_cpool_entry heap tbl idx tag' bytes p) ∧
    (ClassNamesInPool cp → ∃ n out, cp.copy_cpool_bytes heap tbl bytes = .ok (n, out)) := by
  refine ⟨?_, ?_, ?_⟩
  · intro n out h
    unfold copy_cpool_bytes at h
    obtain ⟨⟨q, out'⟩, hq, h⟩ := bind_eq_ok.mp h
    have e : out' = out := (Prod.mk.inj (Except.ok.inj h)).2
    subst e
    exact (copy_cpool_bytes_from_symbolic heap tbl cp cp.length 1 0 0 bytes q out' hq).2
  · intro idx p tag tag' hc hc'
    cases hk : cp.klass_name_at idx with
    | ok sym =>
      rw [copy_cpool_entry_class p bytes hc hk, copy_cpool_entry_class p bytes hc' hk,
        put_u1_put_u1, put_u1_put_u1]
    | error e =>
      rcases hc with c | c | c <;> rcases hc' with c' | c' | c' <;> subst c <;> subst c' <;>
        simp [copy_cpool_entry, hk]
  · intro hnames
    obtain ⟨⟨q, out⟩, hq⟩ := copy_cpool_bytes_from_total heap tbl cp hnames cp.length 1 0 0
      bytes (by omega)
    exact ⟨jint_wrap q, out, by simp [copy_cpool_bytes, hq]⟩

theorem copy_cpool_bytes_symbolic_witness :
    ∃ n out, demoPoolResolved.copy_cpool_bytes demoHeap demoSymmap (fun _ => 0) =
      .ok (n, out) ∧ out 6 = 7 ∧ out 7 = 0 ∧ out 8 = 1 := by
  have key := copy_cpool_bytes_symbolic demoHeap demoSymmap demoPoolResolved (fun _ => 0)
  obtain ⟨n, out, h⟩ := key.2.2 (by decide)
  obtain ⟨sym, hk, h0, h1, h2⟩ :=
    (key.1 n out h 2 6 JVM_CONSTANT_Class (by decide) (by decide)).1 (Or.inl rfl)
  have hs : sym = 1000 := (Except.ok.inj hk).symm
  subst hs
  exact ⟨n, out, h, h0, h1, h2⟩

/-! ## The size of the raw bytes -/

theorem jint_wrap_add (x y : Int) : jint_wrap (jint_wrap x + y) = jint_wrap (x + y) := by
  unfold jint_wrap
  omega

theorem jint_wrap_of_lt {x : Int} (h0 : 0 ≤ x) (h1 : x < 2147483648) : jint_wrap x = x := by
  unfold jint_wrap
  omega

theorem entry_sizes_from_succ (heap : SymbolHeap) (cp : ConstantPool) (n idx tag sz : Nat)
    (hlt : idx < cp.length) (ht : cp.tag_at idx = .ok tag)
    (hsz : cp.cpool_entry_size heap idx = .ok sz) :
    entry_sizes_from heap cp (n + 1) idx =
      sz + entry_sizes_from heap cp n
        (if tag = JVM_CONSTANT_Long ∨ tag = JVM_CONSTANT_Double then idx + 2 else idx + 1) := by
  rw [entry_sizes_from, if_pos hlt, ht, hsz]

theorem entry_sizes_from_done (heap : SymbolHeap) (cp : ConstantPool) (n idx : Nat)
    (hge : ¬ idx < cp.length) : entry_sizes_from heap cp n idx = 0 := by
  cases n <;> simp [entry_sizes_from, hge]

/-- Once the bound covers the rest of the pool, a larger bound gives the same sum. -/
theorem entry_sizes_from_stable (heap : SymbolHeap) (cp : ConstantPool) (n : Nat) :
    ∀ m idx, cp.length ≤ idx + n → cp.length ≤ idx + m →
      entry_sizes_from heap cp n idx = entry_sizes_from heap cp m idx := by
  induction n with
  | zero =>
    intro m idx hn _
    rw [entry_sizes_from_done heap cp 0 idx (by omega),
      entry_sizes_from_done heap cp m idx (by omega)]
  | succ n ih =>
    intro m idx hn hm
    by_cases hlt : idx < cp.length
    · obtain ⟨s, hs⟩ := slot_at_of_lt hlt
      have ht : cp.tag_at idx = .ok s.tag := tag_at_eq_ok.mpr ⟨s, hs, rfl⟩
      obtain ⟨sz, hsz, -⟩ := cpool_entry_size_total heap hs
      cases m with
      | zero => omega
      | succ m =>
        rw [entry_sizes_from_succ heap cp n idx s.tag sz hlt ht hsz,
          entry_sizes_from_succ heap cp m idx s.tag sz hlt ht hsz]
        congr 1
        apply ih
        · split_ifs <;> omega
        · split_ifs <;> omega
    · rw [entry_sizes_from_done heap cp _ idx hlt, entry_sizes_from_done heap cp m idx hlt]

theorem copy_cpool_bytes_from_count (heap : SymbolHeap) (tbl : SymbolHash)
    (cp : ConstantPool) (steps : Nat) :
    ∀ (idx : Nat) (size : Int) (p : Nat) (bytes : Bytes) (q : Nat) (out : Bytes),
      copy_cpool_bytes_from heap tbl cp steps idx size p bytes = .ok (q, out) →
      q = p + entry_sizes_from heap cp steps idx := by
  induction steps with
  | zero =>
    intro idx size p bytes q out h
    unfold copy_cpool_bytes_from at h
    split_ifs at h
    cases h
    rfl
  | succ n ih =>
    intro idx size p bytes q out h
    by_cases hlt : idx < cp.length
    · rw [copy_cpool_bytes_from_succ _ _ _ _ _ _ _ _ hlt] at h
      obtain ⟨tag0, ht0, h⟩ := bind_eq_ok.mp h
      obtain ⟨sz, hsz, h⟩ := bind_eq_ok.mp h
      obtain ⟨⟨bytes1, two⟩, hent, h⟩ := bind_eq_ok.mp h
      have h' : copy_cpool_bytes_from heap tbl cp n ((if two = true then idx + 1 else idx) + 1)
          (jint_wrap (size + sz)) (p + sz) bytes1 = .ok (q, out) := h
      have htwo := copy_cpool_entry_two_slots heap tbl cp idx tag0 p bytes _ _ hent
      have hidx : ((if two = true then idx + 1 else idx) + 1) =
          (if tag0 = JVM_CONSTANT_Long ∨ tag0 = JVM_CONSTANT_Double then idx + 2
            else idx + 1) := by
        by_cases h2 : two = true
        · rw [if_pos h2, if_pos (htwo.mp h2)]
        · rw [if_neg h2, if_neg (fun hc => h2 (htwo.mpr hc))]
      rw [ih _ _ _ _ _ _ h', entry_sizes_from_succ heap cp n idx tag0 sz hlt ht0 hsz, hidx]
      omega
    · rw [copy_cpool_bytes_from_done _ _ _ _ _ _ _ _ hlt] at h
      obtain ⟨rfl, -⟩ := Prod.mk.inj (Except.ok.inj h)
      rw [entry_sizes_from_done heap cp _ idx hlt]
      rfl

theorem hash_entries_from_done (heap : SymbolHeap) (cp : ConstantPool) (fuel idx : Nat)
    (size : Int) (symmap classmap : SymbolHash) (hge : ¬ idx < cp.length) :
    hash_entries_from heap cp (fuel + 1) idx size symmap classmap =
      .ok (size, symmap, classmap) := by
  simp [hash_entries_from, hge]

/-- One iteration of `hash_entries_to` on a pool of at most 65535 slots whose 8-byte
entries have their second slot: the index advances without wrapping. -/
theorem hash_entries_from_step (heap : SymbolHeap) {cp : ConstantPool}
    (hlen : cp.length ≤ 65535) (hss : SecondSlots cp) (hnames : ClassNamesInPool cp)
    (fuel idx : Nat) (size : Int) (symmap classmap : SymbolHash) (hlt : idx < cp.length) :
    ∃ tag sz symmap' classmap', cp.tag_at idx = .ok tag ∧
      cp.cpool_entry_size heap idx = .ok sz ∧
      hash_entries_from heap cp (fuel + 1) idx size symmap classmap =
        hash_entries_from heap cp fuel
          (if tag = JVM_CONSTANT_Long ∨ tag = JVM_CONSTANT_Double then idx + 2 else idx + 1)
          (jint_wrap (size + sz)) symmap' classmap' := by
  obtain ⟨s, hs⟩ := slot_at_of_lt hlt
  have ht : cp.tag_at idx = .ok s.tag := tag_at_eq_ok.mpr ⟨s, hs, rfl⟩
  have hsy : cp.symbol_at idx = .ok s.value := symbol_at_eq_ok.mpr ⟨s, hs, rfl⟩
  obtain ⟨sz, hsz, -⟩ := cpool_entry_size_total heap hs
  have h1 : (idx + 1) % 65536 = idx + 1 := Nat.mod_eq_of_lt (by omega)
  rw [hash_entries_from, if_pos hlt, ht, hsz]
  simp only [ok_bind, h1]
  by_cases hu : s.tag = JVM_CONSTANT_Utf8
  · refine ⟨s.tag, sz, symmap.add_if_absent s.value idx, classmap, rfl, rfl, ?_⟩
    rw [if_pos hu, hsy, ok_bind, if_neg (by rw [hu]; decide)]
  · rw [if_neg hu]
    by_cases hc : s.tag = JVM_CONSTANT_Class ∨ s.tag = JVM_CONSTANT_UnresolvedClass ∨
        s.tag = JVM_CONSTANT_UnresolvedClassInError
    · obtain ⟨sym, hsym⟩ := isOk_iff.mp (hnames idx hlt (by
        rcases hc with c | c | c
        · exact Or.inl (by rw [ht, c])
        · exact Or.inr (Or.inl (by rw [ht, c]))
        · exact Or.inr (Or.inr (by rw [ht, c]))))
      refine ⟨s.tag, sz, symmap, classmap.add_if_absent sym idx, rfl, rfl, ?_⟩
      rw [if_pos hc, hsym, ok_bind, if_neg (by rcases hc with c | c | c <;> rw [c] <;> decide)]
    · rw [if_neg hc]
      by_cases hl : s.tag = JVM_CONSTANT_Long ∨ s.tag = JVM_CONSTANT_Double
      · have h2 : idx + 1 < cp.length := hss idx hlt (by
          rcases hl with c | c
          · exact Or.inl (by rw [ht, c])
          · exact Or.inr (by rw [ht, c]))
        have h3 : (idx + 1 + 1) % 65536 = idx + 2 := Nat.mod_eq_of_lt (by omega)
        refine ⟨s.tag, sz, symmap, classmap, rfl, rfl, ?_⟩
        rw [if_pos hl, if_pos hl, h3]
      · refine ⟨s.tag, sz, symmap, classmap, rfl, rfl, ?_⟩
        rw [if_neg hl, if_neg hl]

theorem jint_wrap_idem (x : Int) : jint_wrap (jint_wrap x) = jint_wrap x := by
  unfold jint_wrap
  omega

theorem hash_entries_from_size (heap : SymbolHeap) {cp : ConstantPool}
    (hlen : cp.length ≤ 65535) (hss : SecondSlots cp) (hnames : ClassNamesInPool cp)
    (steps : Nat) :
    ∀ (idx : Nat) (size : Int) (symmap classmap : SymbolHash), cp.length ≤ idx + steps →
      jint_wrap size = size →
      ∃ symmap' classmap', hash_entries_from heap cp (steps + 1) idx size symmap classmap =
        .ok (jint_wrap (size + entry_sizes_from heap cp steps idx), symmap', classmap') := by
  induction steps with
  | zero =>
    intro idx size symmap classmap hle hsize
    refine ⟨symmap, classmap, ?_⟩
    rw [hash_entries_from_done heap cp 0 idx size symmap classmap (by omega),
      entry_sizes_from_done heap cp 0 idx (by omega)]
    simp [hsize]
  | succ n ih =>
    intro idx size symmap classmap hle hsize
    by_cases hlt : idx < cp.length
    · obtain ⟨tag, sz, sm, cm, ht, hsz, hstep⟩ :=
        hash_entries_from_step heap hlen hss hnames (n + 1) idx size symmap classmap hlt
      obtain ⟨sm', cm', hrec⟩ := ih
        (if tag = JVM_CONSTANT_Long ∨ tag = JVM_CONSTANT_Double then idx + 2 else idx + 1)
        (jint_wrap (size + sz)) sm cm (by split_ifs <;> omega) (jint_wrap_idem _)
      refine ⟨sm', cm', ?_⟩
      rw [hstep, hrec, entry_sizes_from_succ heap cp n idx tag sz hlt ht hsz, jint_wrap_add]
      push_cast
      rw [Int.add_assoc]
    · refine ⟨symmap, classmap, ?_⟩
      rw [hash_entries_from_done heap cp _ idx size symmap classmap hlt,
        entry_sizes_from_done heap cp _ idx hlt]
      simp [hsize]

/-- The loop of `hash_entries_to` returns the same value for every larger budget. -/
theorem hash_entries_from_mono (heap : SymbolHeap) (cp : ConstantPool) (fuel : Nat) :
    ∀ (idx : Nat) (size : Int) (symmap classmap : SymbolHash),
      OkLe (hash_entries_from heap cp fuel idx size symmap classmap)
        (hash_entries_from heap cp (fuel + 1) idx size symmap classmap) := by
  induction fuel with
  | zero => intro idx size symmap classmap; exact okLe_error _ _
  | succ n ih =>
    intro idx size symmap classmap
    rw [hash_entries_from, hash_entries_from]
    refine okLe_ite ?_ (okLe_refl _)
    refine okLe_bind (okLe_refl _) fun tag => okLe_bind (okLe_refl _) fun sz => ?_
    dsimp only
    refine okLe_ite (okLe_bind (okLe_refl _) fun sym => ih _ _ _ _) ?_
    refine okLe_ite (okLe_bind (okLe_refl _) fun sym => ih _ _ _ _) ?_
    exact okLe_ite (ih _ _ _ _) (ih _ _ _ _)

theorem hash_entries_from_mono_le (heap : SymbolHeap) (cp : ConstantPool) {fuel fuel' : Nat}
    (hle : fuel ≤ fuel') (idx : Nat) (size : Int) (symmap classmap : SymbolHash) :
    OkLe (hash_entries_from heap cp fuel idx size symmap classmap)
      (hash_entries_from heap cp fuel' idx size symmap classmap) := by
  induction hle with
  | refl => exact okLe_refl _
  | step _ ih => exact okLe_trans ih (hash_entries_from_mono heap cp _ idx size symmap classmap)

/-- A pool of 65536 slots or more: the `u2` index of `hash_entries_to` never reaches the
length, so the loop does not end. -/
theorem hash_entries_from_never (heap : SymbolHeap) {cp : ConstantPool}
    (hlen : 65536 ≤ cp.length) (fuel : Nat) :
    ∀ (idx : Nat) (size : Int) (symmap classmap : SymbolHash), idx < 65536 →
      NeverOk (hash_entries_from heap cp fuel idx size symmap classmap) := by
  induction fuel with
  | zero =>
    intro idx size symmap classmap _ r h
    cases h
  | succ n ih =>
    intro idx size symmap classmap hidx r h
    rw [hash_entries_from, if_pos (by omega)] at h
    obtain ⟨tag, -, h⟩ := bind_eq_ok.mp h
    obtain ⟨sz, -, h⟩ := bind_eq_ok.mp h
    dsimp only at h
    split_ifs at h
    · obtain ⟨sym, -, h⟩ := bind_eq_ok.mp h
      exact ih _ _ _ _ (Nat.mod_lt _ (by omega)) r h
    · obtain ⟨sym, -, h⟩ := bind_eq_ok.mp h
      exact ih _ _ _ _ (Nat.mod_lt _ (by omega)) r h
    · exact ih _ _ _ _ (Nat.mod_lt _ (by omega)) r h
    · exact ih _ _ _ _ (Nat.mod_lt _ (by omega)) r h

/-- C2 (amended): for a pool of at most 65535 slots whose class entries name a slot of the
pool and whose 8-byte entries are each followed by their second slot, `hash_entries_to`
and `copy_cpool_bytes` both return, with the same count: the sum of `cpool_entry_size`
over the first slots of the entries, as a `jint`. -/
theorem copy_cpool_bytes_size (heap : SymbolHeap) (tbl : SymbolHash) (cp : ConstantPool)
    (bytes : Bytes) (symmap classmap : SymbolHash) (fuel : Nat)
    (hlen : cp.length ≤ 65535) (hss : SecondSlots cp) (hnames : ClassNamesInPool cp)
    (hfuel : cp.length < fuel) :
    ∃ symmap' classmap' out,
      cp.hash_entries_to fuel heap symmap classmap =
        .ok (jint_wrap (cp.entry_sizes heap), symmap', classmap') ∧
      cp.copy_cpool_bytes heap tbl bytes = .ok (jint_wrap (cp.entry_sizes heap), out) ∧
      (cp.entry_sizes heap < 2147483648 →
        jint_wrap (cp.entry_sizes heap) = cp.entry_sizes heap) := by
  obtain ⟨sm, cm, hh⟩ := hash_entries_from_size heap hlen hss hnames cp.length 1 0
    symmap classmap (by omega) rfl
  obtain ⟨⟨q, out⟩, hq⟩ := copy_cpool_bytes_from_total heap tbl cp hnames cp.length 1 0 0
    bytes (by omega)
  have hcount := copy_cpool_bytes_from_count heap tbl cp cp.length 1 0 0 bytes q out hq
  refine ⟨sm, cm, out, ?_, ?_, fun h => jint_wrap_of_lt (by omega) (by omega)⟩
  · have := hash_entries_from_mono_le heap cp (show cp.length + 1 ≤ fuel from hfuel) 1 0
      symmap classmap _ hh
    rw [Int.zero_add] at this
    exact this
  · unfold copy_cpool_bytes
    rw [hq, ok_bind, hcount]
    simp [entry_sizes]

theorem copy_cpool_bytes_size_witness :
    ∃ symmap' classmap' out,
      demoPool.hash_entries_to 20 demoHeap [] [] =
        .ok (jint_wrap (demoPool.entry_sizes demoHeap), symmap', classmap') ∧
      demoPool.copy_cpool_bytes demoHeap demoSymmap (fun _ => 0) =
        .ok (jint_wrap (demoPool.entry_sizes demoHeap), out) ∧
      (demoPool.entry_sizes demoHeap < 2147483648 →
        jint_wrap (demoPool.entry_sizes demoHeap) = demoPool.entry_sizes demoHeap) :=
  copy_cpool_bytes_size demoHeap demoSymmap demoPool (fun _ => 0) [] [] 20
    (by decide) (by decide) (by decide) (by decide)

theorem bigPool_length : bigPool.length = 65536 := by
  unfold length bigPool
  rw [List.length_cons, List.length_replicate]

theorem bigPool_tag {idx tag : Nat} (h : bigPool.tag_at idx = .ok tag) :
    tag = JVM_CONSTANT_Invalid ∨ tag = JVM_CONSTANT_Integer := by
  obtain ⟨s, hs, ht⟩ := tag_at_eq_ok.mp h
  have hm : s ∈ bigPool.slots := List.getElem?_mem (slot_at_eq_ok.mp hs)
  simp only [bigPool, List.mem_cons] at hm
  rcases hm with e | e
  · subst e; exact Or.inl ht.symm
  · have := List.eq_of_mem_replicate e
    subst this; exact Or.inr ht.symm

/-- C2 (as stated) fails: on the pool of 65536 slots, which has no 8-byte entry at all,
`hash_entries_to` returns no size, whatever the budget. -/
theorem hash_entries_to_bigPool_never :
    SecondSlots bigPool ∧
    ¬ ∃ fuel n symmap' classmap',
      bigPool.hash_entries_to fuel demoHeap [] [] = .ok (n, symmap', classmap') := by
  constructor
  · intro idx _ h
    rcases h with h | h <;> rcases bigPool_tag h with e | e <;> cases e
  · rintro ⟨fuel, n, sm, cm, h⟩
    exact hash_entries_from_never demoHeap (by rw [bigPool_length]) fuel 1 0 [] []
      (by omega) _ h

/-! ## In-error entries in the serialised pool -/

/-- C4: on `inErrorPool` the entries 2, 7, 8 and 9 (class, method handle, method type and
dynamic constant, each in error) start at offsets 6, 31, 35 and 38; `copy_cpool_bytes`
writes the class-file tags 7, 15 and 16 for the first three and the VM-internal tag 106
for the DynamicInError entry. -/
theorem copy_cpool_bytes_in_error_tags :
    inErrorPool.entry_layout demoHeap =
      [(1, 0), (2, 6), (3, 9), (4, 15), (5, 21), (6, 26), (7, 31), (8, 35), (9, 38)] ∧
    inErrorPool.tag_at 9 = .ok JVM_CONSTANT_DynamicInError ∧
    (fun r => (r.1, r.2 6, r.2 31, r.2 35, r.2 38)) <$>
      inErrorPool.copy_cpool_bytes demoHeap demoSymmap (fun _ => 0) =
        .ok (43, JVM_CONSTANT_Class, JVM_CONSTANT_MethodHandle, JVM_CONSTANT_MethodType,
          JVM_CONSTANT_DynamicInError) := by
  decide

/-! ## Searching the operands: theorems -/

theorem find_matching_operand_from_iff (fuel : Nat) (cp : ConstantPool) (pattern_i : Nat)
    (search_cp : ConstantPool) (n : Nat) :
    ∀ (i : Nat) (r : Int),
      (find_matching_operand_from fuel cp pattern_i search_cp n i = .ok r ↔
        (r = -1 ∧ ∀ k, i ≤ k → k < i + n →
          compare_operand_to fuel cp pattern_i search_cp k = .ok false) ∨
        (∃ m : Nat, r = (m : Int) ∧ i ≤ m ∧ m < i + n ∧
          compare_operand_to fuel cp pattern_i search_cp m = .ok true ∧
          ∀ k, i ≤ k → k < m →
            compare_operand_to fuel cp pattern_i search_cp k = .ok false)) := by
  induction n with
  | zero =>
    intro i r
    simp only [find_matching_operand_from, pure_eq_ok, Except.ok.injEq]
    constructor
    · intro h
      exact Or.inl ⟨h.symm, fun k h1 h2 => absurd h2 (by omega)⟩
    · rintro (⟨h, -⟩ | ⟨m, -, h1, h2, -⟩)
      · exact h.symm
      · omega
  | succ n ih =>
    intro i r
    rw [find_matching_operand_from]
    cases hc : compare_operand_to fuel cp pattern_i search_cp i with
    | error e =>
      simp only [error_bind]
      constructor
      · intro h; cases h
      · rintro (⟨-, hall⟩ | ⟨m, -, h1, h2, h3, h4⟩)
        · have := hall i (Nat.le_refl i) (by omega)
          rw [hc] at this; cases this
        · by_cases hri : m = i
          · subst hri; rw [hc] at h3; cases h3
          · have := h4 i (Nat.le_refl i) (by omega)
            rw [hc] at this; cases this
    | ok b =>
      cases b with
      | true =>
        simp only [ok_bind, if_true, pure_eq_ok, Except.ok.injEq]
        constructor
        · intro h
          exact Or.inr ⟨i, h.symm, Nat.le_refl _, by omega, hc,
            fun k h1 h2 => absurd h2 (by omega)⟩
        · rintro (⟨-, hall⟩ | ⟨m, hr, h1, h2, h3, h4⟩)
          · have := hall i (Nat.le_refl i) (by omega)
            rw [hc] at this; cases this
          · by_cases hmi : m = i
            · subst hmi; exact hr.symm
            · have := h4 i (Nat.le_refl i) (by omega)
              rw [hc] at this; cases this
      | false =>
        simp only [ok_bind, Bool.false_eq_true, if_false]
        rw [ih (i + 1) r]
        constructor
        · rintro (⟨h0, hall⟩ | ⟨m, hr, h1, h2, h3, h4⟩)
          · refine Or.inl ⟨h0, fun k hk1 hk2 => ?_⟩
            by_cases hk : k = i
            · subst hk; exact hc
            · exact hall k (by omega) (by omega)
          · refine Or.inr ⟨m, hr, by omega, by omega, h3, fun k hk1 hk2 => ?_⟩
            by_cases hk : k = i
            · subst hk; exact hc
            · exact h4 k (by omega) hk2
        · rintro (⟨h0, hall⟩ | ⟨m, hr, h1, h2, h3, h4⟩)
          · exact Or.inl ⟨h0, fun k hk1 hk2 => hall k (by omega) (by omega)⟩
          · have hri : m ≠ i := by
              intro e; subst e; rw [hc] at h3; cases h3
            exact Or.inr ⟨m, hr, by omega, by omega, h3,
              fun k hk1 hk2 => h4 k (by omega) hk2⟩

/-- C11: `find_matching_operand(pattern_i, search_cp, search_len)` returns `r` exactly when
either `r` is an index `m` with `0 <= m < search_len` at which `compare_operand_to` is true
while it is false at every smaller index (the smallest matching index), or `r` is -1 and
`compare_operand_to` is false at every index below `search_len`; for `search_len <= 0` it
returns -1. -/
theorem find_matching_operand_spec (fuel : Nat) (cp : ConstantPool) (pattern_i : Nat)
    (search_cp : ConstantPool) (search_len r : Int) :
    (find_matching_operand fuel cp pattern_i search_cp search_len = .ok r ↔
      (r = -1 ∧ ∀ k : Nat, (k : Int) < search_len →
        compare_operand_to fuel cp pattern_i search_cp k = .ok false) ∨
      (∃ m : Nat, r = (m : Int) ∧ (m : Int) < search_len ∧
        compare_operand_to fuel cp pattern_i search_cp m = .ok true ∧
        ∀ k, k < m → compare_operand_to fuel cp pattern_i search_cp k = .ok false)) ∧
    (search_len ≤ 0 →
      find_matching_operand fuel cp pattern_i search_cp search_len = .ok (-1)) := by
  have key := find_matching_operand_from_iff fuel cp pattern_i search_cp search_len.toNat 0
  have hiff : ∀ r : Int, find_matching_operand fuel cp pattern_i search_cp search_len = .ok r ↔
      (r = -1 ∧ ∀ k : Nat, (k : Int) < search_len →
        compare_operand_to fuel cp pattern_i search_cp k = .ok false) ∨
      (∃ m : Nat, r = (m : Int) ∧ (m : Int) < search_len ∧
        compare_operand_to fuel cp pattern_i search_cp m = .ok true ∧
        ∀ k, k < m → compare_operand_to fuel cp pattern_i search_cp k = .ok false) := by
    intro r
    unfold find_matching_operand
    rw [key r]
    constructor
    · rintro (⟨h0, hall⟩ | ⟨m, hr, h1, h2, h3, h4⟩)
      · exact Or.inl ⟨h0, fun k hk => hall k (Nat.zero_le k) (by omega)⟩
      · exact Or.inr ⟨m, hr, by omega, h3, fun k hk => h4 k (Nat.zero_le k) hk⟩
    · rintro (⟨h0, hall⟩ | ⟨m, hr, h2, h3, h4⟩)
      · exact Or.inl ⟨h0, fun k _ hk => hall k (by omega)⟩
      · exact Or.inr ⟨m, hr, Nat.zero_le m, by omega, h3, fun k _ hk => h4 k hk⟩
  refine ⟨hiff r, fun hle => ?_⟩
  exact (hiff (-1)).mpr (Or.inl ⟨rfl, fun k hk => absurd hk (by omega)⟩)

theorem find_matching_operand_spec_witness :
    (∃ m : Nat, (0 : Int) = (m : Int) ∧ (m : Int) < 1 ∧
        compare_operand_to 10 demoPool 0 demoPoolResolved m = .ok true ∧
        ∀ k, k < m → compare_operand_to 10 demoPool 0 demoPoolResolved k = .ok false) ∧
    find_matching_operand 10 demoPool 0 demoPoolResolved 0 = .ok (-1) := by
  have key := find_matching_operand_spec 10 demoPool 0 demoPoolResolved 1 0
  have hfind : find_matching_operand 10 demoPool 0 demoPoolResolved 1 = .ok 0 := by decide
  refine ⟨?_, (find_matching_operand_spec 10 demoPool 0 demoPoolResolved 0 0).2 (by decide)⟩
  rcases key.1.mp hfind with ⟨h0, -⟩ | h
  · exact absurd h0 (by decide)
  · exact h

/-! ## Writing entries: theorems -/

theorem pack_shorts_eq {low high : Nat} (hl : low < 65536) (hh : high < 65536) :
    pack_shorts low high = high * 65536 + low := by
  unfold pack_shorts
  have h := Nat.mul_add_lt_is_or (show low < 2 ^ 16 from hl) high
  have e : (2 : Nat) ^ 16 = 65536 := by norm_num
  rw [e] at h
  rw [Nat.mul_comm high 65536, ← h]
  omega

theorem pack_shorts_extract (x : Nat) :
    pack_shorts (extract_low_short_from_int x) (extract_high_short_from_int x) =
      x % 4294967296 := by
  rw [pack_shorts_eq]
  · unfold extract_low_short_from_int extract_high_short_from_int; omega
  · unfold extract_low_short_from_int; omega
  · unfold extract_high_short_from_int; omega

theorem pack_shorts_low_mod (x high : Nat) :
    pack_shorts (x % 4294967296) high = pack_shorts x high := by
  unfold pack_shorts
  have e : (4294967296 : Nat) = 2 ^ 32 := by norm_num
  rw [e]
  apply Nat.eq_of_testBit_eq
  intro i
  simp only [Nat.testBit_mod_two_pow, Nat.testBit_or]
  by_cases h : i < 32 <;> simp [h]

/-- The `int` sum of a specifier index and a specifier count that is not negative enters
an entry as the sum of the two numbers. -/
theorem pack_shorts_int_add (a n high : Nat) :
    pack_shorts ((((a : Nat) : Int) + ((n : Nat) : Int)) % 4294967296).toNat high =
      pack_shorts (a + n) high := by
  have e : ((((a : Nat) : Int) + ((n : Nat) : Int)) % 4294967296).toNat =
      (a + n) % 4294967296 := by omega
  rw [e, pack_shorts_low_mod]

theorem pack_shorts_mod (low high : Nat) :
    pack_shorts low high % 4294967296 = pack_shorts low high := by
  unfold pack_shorts; exact Nat.mod_mod _ _

theorem extract_high_short_mod (x : Nat) :
    extract_high_short_from_int x % 4294967296 = extract_high_short_from_int x := by
  unfold extract_high_short_from_int; omega

theorem slot_put_eq {cp : ConstantPool} {i : Nat} (f : CPSlot → CPSlot) (h : i < cp.length) :
    cp.slot_put i f = .ok ⟨cp.slots.set i (f (cp.slots.getD i ⟨0, 0⟩)), cp.operands⟩ := by
  unfold length at h
  unfold slot_put
  rw [List.getD_eq_getElem?_getD, List.getElem?_eq_getElem h]
  rfl

theorem slot_put_error {cp : ConstantPool} {i : Nat} (f : CPSlot → CPSlot)
    (h : cp.length ≤ i) : cp.slot_put i f = .error .out_of_bounds := by
  unfold length at h
  unfold slot_put
  rw [List.getElem?_eq_none h]

theorem tagged_int_at_put_eq {cp : ConstantPool} {i : Nat} (t v : Nat) (h : i < cp.length) :
    cp.tagged_int_at_put i t v =
      .ok ⟨cp.slots.set i ⟨t, (cp.slots.getD i ⟨0, 0⟩).value / 4294967296 * 4294967296 +
        v % 4294967296⟩, cp.operands⟩ := by
  unfold tagged_int_at_put tag_at_put int_at_addr_put
  rw [slot_put_eq _ h]
  simp only [ok_bind]
  rw [slot_put_eq _ (by unfold length at *; simpa using h)]
  unfold length at h
  simp only [List.set_set, List.getD_eq_getElem?_getD, List.getElem?_set_self h,
    Option.getD_some]

theorem tagged_word_at_put_eq {cp : ConstantPool} {i : Nat} (t v : Nat) (h : i < cp.length) :
    cp.tagged_word_at_put i t v = .ok ⟨cp.slots.set i ⟨t, v⟩, cp.operands⟩ := by
  unfold tagged_word_at_put tag_at_put word_at_put
  rw [slot_put_eq _ h]
  simp only [ok_bind]
  rw [slot_put_eq _ (by unfold length at *; simpa using h)]
  unfold length at h
  simp only [List.set_set, List.getD_eq_getElem?_getD, List.getElem?_set_self h,
    Option.getD_some]

theorem tag_at_put_eq {cp : ConstantPool} {i : Nat} (t : Nat) (h : i < cp.length) :
    cp.tag_at_put i t =
      .ok ⟨cp.slots.set i ⟨t, (cp.slots.getD i ⟨0, 0⟩).value⟩, cp.operands⟩ := by
  unfold tag_at_put
  rw [slot_put_eq _ h]

theorem tag_at_of_slot {cp : ConstantPool} {i : Nat} {s : CPSlot} (h : cp.slot_at i = .ok s) :
    cp.tag_at i = .ok s.tag := by
  unfold tag_at; rw [h]; rfl

theorem int_at_addr_of_slot {cp : ConstantPool} {i : Nat} {s : CPSlot}
    (h : cp.slot_at i = .ok s) : cp.int_at_addr i = .ok (s.value % 4294967296) := by
  unfold int_at_addr; rw [h]; rfl

theorem symbol_at_addr_of_slot {cp : ConstantPool} {i : Nat} {s : CPSlot}
    (h : cp.slot_at i = .ok s) : cp.symbol_at_addr i = .ok s.value := by
  unfold symbol_at_addr; rw [h]; rfl

theorem long_at_of_slot {cp : ConstantPool} {i : Nat} {s : CPSlot}
    (h : cp.slot_at i = .ok s) : cp.long_at i = .ok (s.value % 18446744073709551616) := by
  unfold long_at; rw [h]; rfl

theorem double_at_of_slot {cp : ConstantPool} {i : Nat} {s : CPSlot}
    (h : cp.slot_at i = .ok s) : cp.double_at i = .ok (s.value % 18446744073709551616) := by
  unfold double_at; rw [h]; rfl

set_option maxHeartbeats 4000000 in
theorem copy_entry_to_eq (heap : SymbolHeap) {from_cp to_cp : ConstantPool}
    {from_i to_i n : Nat} {s : CPSlot}
    (hs : from_cp.slot_at from_i = .ok s) (hc : Copyable s.tag)
    (hd : to_i < to_cp.length) (h2 : TwoSlotTag s.tag → to_i + 1 < to_cp.length)
    (hn : BootstrapTag s.tag → to_cp.operand_array_length = .ok n) :
    copy_entry_to heap from_cp from_i to_cp to_i =
      .ok (⟨copied_slots s to_cp.slots to_i n, to_cp.operands⟩,
        if s.tag = JVM_CONSTANT_Utf8 then heap.increment_refcount s.value else heap) := by
  have ht := tag_at_of_slot hs
  have hi := int_at_addr_of_slot hs
  have hw := symbol_at_addr_of_slot hs
  have hl := long_at_of_slot hs
  have hdb := double_at_of_slot hs
  unfold copy_entry_to
  rw [ht]
  simp only [ok_bind]
  rcases hc with h | h | h | h | h | h | h | h | h | h | h | h | h | h | h | h | h | h | h |
    h | h | h
  all_goals
    simp only [JVM_CONSTANT_Invalid, JVM_CONSTANT_Utf8, JVM_CONSTANT_Integer,
      JVM_CONSTANT_Float, JVM_CONSTANT_Long, JVM_CONSTANT_Double, JVM_CONSTANT_Class,
      JVM_CONSTANT_String, JVM_CONSTANT_Fieldref, JVM_CONSTANT_Methodref,
      JVM_CONSTANT_InterfaceMethodref, JVM_CONSTANT_NameAndType, JVM_CONSTANT_MethodHandle,
      JVM_CONSTANT_MethodType, JVM_CONSTANT_Dynamic, JVM_CONSTANT_InvokeDynamic,
      JVM_CONSTANT_UnresolvedClass, JVM_CONSTANT_ClassIndex, JVM_CONSTANT_StringIndex,
      JVM_CONSTANT_UnresolvedClassInError, JVM_CONSTANT_MethodHandleInError,
      JVM_CONSTANT_MethodTypeInError, JVM_CONSTANT_DynamicInError] at h h2 hn ⊢
    simp only [h, Nat.reduceEqDiff, if_true, if_false, or_false, false_or, or_true, true_or,
      forall_const, false_implies, true_implies] at h2 hn ⊢
  all_goals
    simp only [symbol_at, unresolved_string_at, int_at, float_at, klass_index_at,
      string_index_at, method_type_index_at, name_and_type_at, method_handle_ref_kind_at,
      method_handle_index_at, bootstrap_methods_attribute_index,
      bootstrap_name_and_type_ref_index_at, klass_slot_name_index,
      uncached_klass_ref_index_at, uncached_name_and_type_ref_index_at, name_ref_index_at,
      signature_ref_index_at, ht, hi, hw, hl, hdb, h, constantTag.has_bootstrap,
      JVM_CONSTANT_Dynamic, JVM_CONSTANT_InvokeDynamic, JVM_CONSTANT_DynamicInError,
      map_ok, ok_bind, pure_eq_ok, Nat.reduceEqDiff, decide_False, decide_True,
      Bool.or_false, Bool.false_or, Bool.or_true, Bool.true_or, if_true, if_false,
      Bool.false_eq_true]
  all_goals
    simp only [BootstrapTag, TwoSlotTag, JVM_CONSTANT_Dynamic, JVM_CONSTANT_InvokeDynamic,
      JVM_CONSTANT_DynamicInError, JVM_CONSTANT_Long, JVM_CONSTANT_Double, Nat.reduceEqDiff,
      or_false, false_or, or_true, true_or, forall_const, false_implies, true_implies]
      at h2 hn
  all_goals
    simp only [symbol_at_put, unresolved_string_at_put, int_at_put, float_at_put,
      long_at_put, double_at_put, klass_index_at_put, string_index_at_put, field_at_put,
      method_at_put, interface_method_at_put, name_and_type_at_put,
      method_type_index_at_put, method_handle_index_at_put, dynamic_constant_at_put,
      invoke_dynamic_at_put, hn, tagged_int_at_put_eq _ _ hd, tagged_word_at_put_eq _ _ hd,
      ok_bind, pack_shorts_extract, pack_shorts_int_add, Nat.mod_mod]
  all_goals
    first
    | rw [tag_at_put_eq _ (by unfold length at h2 ⊢; simpa using h2)]
    | skip
  all_goals
    simp only [copied_slots, copied_value, demoted_tag, KlassTag, BootstrapTag, TwoSlotTag,
      h, JVM_CONSTANT_Invalid, JVM_CONSTANT_Utf8, JVM_CONSTANT_Integer,
      JVM_CONSTANT_Float, JVM_CONSTANT_Long, JVM_CONSTANT_Double, JVM_CONSTANT_Class,
      JVM_CONSTANT_String, JVM_CONSTANT_Fieldref, JVM_CONSTANT_Methodref,
      JVM_CONSTANT_InterfaceMethodref, JVM_CONSTANT_NameAndType, JVM_CONSTANT_MethodHandle,
      JVM_CONSTANT_MethodType, JVM_CONSTANT_Dynamic, JVM_CONSTANT_InvokeDynamic,
      JVM_CONSTANT_UnresolvedClass, JVM_CONSTANT_ClassIndex, JVM_CONSTANT_StringIndex,
      JVM_CONSTANT_UnresolvedClassInError, JVM_CONSTANT_MethodHandleInError,
      JVM_CONSTANT_MethodTypeInError, JVM_CONSTANT_DynamicInError, Nat.reduceEqDiff,
      or_false, false_or, or_true, true_or, or_self, if_true, if_false, pack_shorts_mod,
      extract_high_short_mod, ok_bind]

theorem copy_entry_to_not_copyable (heap : SymbolHeap) {from_cp to_cp : ConstantPool}
    {from_i to_i : Nat} {s : CPSlot}
    (hs : from_cp.slot_at from_i = .ok s) (hc : ¬ Copyable s.tag) :
    copy_entry_to heap from_cp from_i to_cp to_i = .error .should_not_reach_here := by
  unfold copy_entry_to
  rw [tag_at_of_slot hs]
  simp only [ok_bind]
  simp only [Copyable, not_or] at hc
  obtain ⟨h1, h2, h3, h4, h5, h6, h7, h8, h9, h10, h11, h12, h13, h14, h15, h16, h17, h18,
    h19, h20, h21, h22⟩ := hc
  simp only [h1, h2, h3, h4, h5, h6, h7, h8, h9, h10, h11, h12, h13, h14, h15, h16, h17, h18,
    h19, h20, h21, h22, if_false, or_self]

theorem copied_slots_length (s : CPSlot) (slots : List CPSlot) (to_i n : Nat) :
    (copied_slots s slots to_i n).length = slots.length := by
  unfold copied_slots
  by_cases h : TwoSlotTag s.tag
  · simp only [h, if_true, List.length_set]
  · simp only [h, if_false, List.length_set]

theorem slot_at_copied (s : CPSlot) {slots : List CPSlot} (ops : Option (List Nat))
    {to_i : Nat} (n : Nat) (hd : to_i < slots.length) :
    (ConstantPool.mk (copied_slots s slots to_i n) ops).slot_at to_i =
      .ok ⟨demoted_tag s.tag, copied_value s (slots.getD to_i ⟨0, 0⟩) n⟩ := by
  unfold copied_slots slot_at
  by_cases h : TwoSlotTag s.tag
  · simp only [h, if_true]
    rw [List.getElem?_set_ne (by omega), List.getElem?_set_self hd]
  · simp only [h, if_false]
    rw [List.getElem?_set_self hd]

theorem slot_at_copied_ne (s : CPSlot) (slots : List CPSlot) (ops : Option (List Nat))
    {to_i j : Nat} (n : Nat) (hj : j ≠ to_i) (hj2 : TwoSlotTag s.tag → j ≠ to_i + 1) :
    (ConstantPool.mk (copied_slots s slots to_i n) ops).slot_at j =
      (ConstantPool.mk slots ops).slot_at j := by
  unfold copied_slots slot_at
  by_cases h : TwoSlotTag s.tag
  · simp only [h, if_true]
    rw [List.getElem?_set_ne (Ne.symm (hj2 h)), List.getElem?_set_ne (Ne.symm hj)]
  · simp only [h, if_false]
    rw [List.getElem?_set_ne (Ne.symm hj)]

theorem slot_at_copied_second (s : CPSlot) {slots : List CPSlot} (ops : Option (List Nat))
    {to_i : Nat} (n : Nat) (h : TwoSlotTag s.tag) (h2 : to_i + 1 < slots.length) :
    (ConstantPool.mk (copied_slots s slots to_i n) ops).slot_at (to_i + 1) =
      .ok ⟨JVM_CONSTANT_Invalid, (slots.getD (to_i + 1) ⟨0, 0⟩).value⟩ := by
  unfold copied_slots slot_at
  simp only [h, if_true]
  rw [List.getElem?_set_self (by simpa using h2)]
  simp only [List.getD_eq_getElem?_getD]
  rw [List.getElem?_set_ne (by omega)]

theorem demoted_tag_plain (t : Nat) :
    ¬ KlassTag (demoted_tag t) ∧ demoted_tag t ≠ JVM_CONSTANT_MethodHandleInError ∧
      demoted_tag t ≠ JVM_CONSTANT_MethodTypeInError ∧
      demoted_tag t ≠ JVM_CONSTANT_DynamicInError := by
  unfold demoted_tag
  split_ifs with h1 h2 h3 h4
  · decide
  · decide
  · decide
  · decide
  · exact ⟨h1, h2, h3, h4⟩

theorem extract_low_short_lt (x : Nat) : extract_low_short_from_int x < 65536 := by
  unfold extract_low_short_from_int; omega

theorem extract_high_short_lt (x : Nat) : extract_high_short_from_int x < 65536 := by
  unfold extract_high_short_from_int; omega

theorem extract_low_pack {low high : Nat} (hl : low < 65536) (hh : high < 65536) :
    extract_low_short_from_int (pack_shorts low high) = low := by
  rw [pack_shorts_eq hl hh]; unfold extract_low_short_from_int; omega

theorem extract_high_pack {low high : Nat} (hl : low < 65536) (hh : high < 65536) :
    extract_high_short_from_int (pack_shorts low high) = high := by
  rw [pack_shorts_eq hl hh]; unfold extract_high_short_from_int; omega

theorem keep_add_mod (d v : Nat) (hv : v < 4294967296) :
    (d / 4294967296 * 4294967296 + v) % 4294967296 = v := by
  omega

theorem copied_value_klass {s : CPSlot} (d : CPSlot) (n : Nat) (h : KlassTag s.tag) :
    copied_value s d n % 4294967296 = extract_high_short_from_int (s.value % 4294967296) := by
  have hlt := extract_high_short_lt (s.value % 4294967296)
  unfold copied_value
  rcases h with h | h | h <;>
    simp only [h, KlassTag, BootstrapTag, TwoSlotTag, JVM_CONSTANT_Utf8, JVM_CONSTANT_String,
      JVM_CONSTANT_Long, JVM_CONSTANT_Double, JVM_CONSTANT_Class,
      JVM_CONSTANT_UnresolvedClass, JVM_CONSTANT_UnresolvedClassInError, Nat.reduceEqDiff,
      or_false, false_or, or_true, true_or, or_self, if_true, if_false] <;>
    omega

theorem copied_value_symbol {s : CPSlot} (d : CPSlot) (n : Nat)
    (h : s.tag = JVM_CONSTANT_Utf8 ∨ s.tag = JVM_CONSTANT_String) :
    copied_value s d n = s.value := by
  unfold copied_value
  simp only [h, if_true]

theorem copied_value_two_slot {s : CPSlot} (d : CPSlot) (n : Nat) (h : TwoSlotTag s.tag) :
    copied_value s d n = s.value % 18446744073709551616 := by
  unfold copied_value
  rcases h with h | h <;>
    simp only [h, TwoSlotTag, JVM_CONSTANT_Utf8, JVM_CONSTANT_String,
      JVM_CONSTANT_Long, JVM_CONSTANT_Double, Nat.reduceEqDiff,
      or_false, false_or, or_true, true_or, or_self, if_true, if_false]

theorem copied_value_bootstrap {s : CPSlot} (d : CPSlot) (n : Nat) (h : BootstrapTag s.tag) :
    copied_value s d n % 4294967296 =
      pack_shorts (extract_low_short_from_int (s.value % 4294967296) + n)
        (extract_high_short_from_int (s.value % 4294967296)) := by
  have hlt : pack_shorts (extract_low_short_from_int (s.value % 4294967296) + n)
      (extract_high_short_from_int (s.value % 4294967296)) < 4294967296 := by
    unfold pack_shorts; omega
  unfold copied_value
  rcases h with h | h | h <;>
    simp only [h, KlassTag, BootstrapTag, TwoSlotTag, JVM_CONSTANT_Utf8, JVM_CONSTANT_String,
      JVM_CONSTANT_Long, JVM_CONSTANT_Double, JVM_CONSTANT_Class,
      JVM_CONSTANT_UnresolvedClass, JVM_CONSTANT_UnresolvedClassInError,
      JVM_CONSTANT_Dynamic, JVM_CONSTANT_DynamicInError, JVM_CONSTANT_InvokeDynamic,
      Nat.reduceEqDiff, or_false, false_or, or_true, true_or, or_self, if_true, if_false] <;>
    omega

theorem copied_value_other {s : CPSlot} (d : CPSlot) (n : Nat) (h1 : ¬ KlassTag s.tag)
    (h2 : ¬ WordTag s.tag) (h3 : ¬ BootstrapTag s.tag) :
    copied_value s d n % 4294967296 = s.value % 4294967296 := by
  unfold copied_value
  have h4 : ¬ (s.tag = JVM_CONSTANT_Utf8 ∨ s.tag = JVM_CONSTANT_String) := by
    intro h; exact h2 (by rcases h with h | h <;> simp [WordTag, h])
  have h5 : ¬ TwoSlotTag s.tag := by
    intro h; exact h2 (by rcases h with h | h <;> simp [WordTag, h])
  simp only [h1, h3, h4, h5, if_false]
  omega

theorem demoted_tag_other {t : Nat} (h1 : ¬ KlassTag t)
    (h2 : t ≠ JVM_CONSTANT_MethodHandleInError) (h3 : t ≠ JVM_CONSTANT_MethodTypeInError)
    (h4 : t ≠ JVM_CONSTANT_DynamicInError) : demoted_tag t = t := by
  unfold demoted_tag
  simp only [h1, h2, h3, h4, if_false]

/-- C12 (as amended): a source entry with a tag `copy_entry_to` has no case for (Invalid,
an unknown tag) is not copied; for every other source entry and a destination slot inside
the pool the call returns, and the destination entry has the demoted tag, which is never
Class, UnresolvedClass or an in-error variant: a class entry becomes a ClassIndex entry
holding the name index of the source's class slot; a String or Utf8 entry holds the
identical symbol, a Long or Double entry the same 8-byte value; a Dynamic, DynamicInError
or InvokeDynamic entry holds the source's specifier index plus the number of specifiers
of the destination and the source's name-and-type index whenever that sum is below 65536,
which is the same payload when the destination holds no specifier; every other entry
keeps its payload. -/
theorem copy_entry_to_demotes (heap : SymbolHeap) (from_cp to_cp : ConstantPool)
    (from_i to_i n : Nat) (s : CPSlot)
    (hs : from_cp.slot_at from_i = .ok s)
    (hd : to_i < to_cp.length) (h2 : TwoSlotTag s.tag → to_i + 1 < to_cp.length)
    (hn : BootstrapTag s.tag → to_cp.operand_array_length = .ok n) :
    (¬ Copyable s.tag →
      copy_entry_to heap from_cp from_i to_cp to_i = .error .should_not_reach_here) ∧
    (Copyable s.tag → ∃ r, copy_entry_to heap from_cp from_i to_cp to_i = .ok r ∧
      r.1.tag_at to_i = .ok (demoted_tag s.tag) ∧
      ¬ KlassTag (demoted_tag s.tag) ∧
      demoted_tag s.tag ≠ JVM_CONSTANT_MethodHandleInError ∧
      demoted_tag s.tag ≠ JVM_CONSTANT_MethodTypeInError ∧
      demoted_tag s.tag ≠ JVM_CONSTANT_DynamicInError ∧
      (KlassTag s.tag → demoted_tag s.tag = JVM_CONSTANT_ClassIndex ∧
        r.1.klass_index_at to_i = from_cp.klass_slot_name_index from_i) ∧
      (s.tag = JVM_CONSTANT_Utf8 ∨ s.tag = JVM_CONSTANT_String →
        demoted_tag s.tag = s.tag ∧
        r.1.symbol_at_addr to_i = from_cp.symbol_at_addr from_i) ∧
      (TwoSlotTag s.tag → demoted_tag s.tag = s.tag ∧
        r.1.long_at to_i = from_cp.long_at from_i) ∧
      (BootstrapTag s.tag → ∀ b, from_cp.bootstrap_methods_attribute_index from_i = .ok b →
        b + n < 65536 →
          r.1.bootstrap_methods_attribute_index to_i = .ok (b + n) ∧
          r.1.bootstrap_name_and_type_ref_index_at to_i =
            from_cp.bootstrap_name_and_type_ref_index_at from_i ∧
          (n = 0 → r.1.int_at_addr to_i = from_cp.int_at_addr from_i)) ∧
      (¬ KlassTag s.tag → ¬ WordTag s.tag → ¬ BootstrapTag s.tag →
        r.1.int_at_addr to_i = from_cp.int_at_addr from_i)) := by
  refine ⟨fun hc => copy_entry_to_not_copyable heap hs hc, fun hc => ?_⟩
  have hsl := slot_at_copied s to_cp.operands n (show to_i < to_cp.slots.length from hd)
  have hplain := demoted_tag_plain s.tag
  refine ⟨_, copy_entry_to_eq heap hs hc hd h2 hn, tag_at_of_slot hsl, hplain.1, hplain.2.1,
    hplain.2.2.1, hplain.2.2.2, ?_, ?_, ?_, ?_, ?_⟩
  · intro hk
    refine ⟨by unfold demoted_tag; simp only [hk, if_true], ?_⟩
    unfold klass_index_at klass_slot_name_index
    rw [int_at_addr_of_slot hsl, int_at_addr_of_slot hs, map_ok]
    exact congrArg Except.ok (copied_value_klass _ n hk)
  · intro hsym
    refine ⟨?_, ?_⟩
    · rcases hsym with h | h <;> rw [h] <;> decide
    · rw [symbol_at_addr_of_slot hsl, symbol_at_addr_of_slot hs]
      exact congrArg Except.ok (copied_value_symbol _ n hsym)
  · intro h2s
    refine ⟨?_, ?_⟩
    · rcases h2s with h | h <;> rw [h] <;> decide
    · rw [long_at_of_slot hsl, long_at_of_slot hs]
      simp only [copied_value_two_slot _ n h2s, Nat.mod_mod]
  · intro hb b hbi hlt
    unfold bootstrap_methods_attribute_index at hbi ⊢
    unfold bootstrap_name_and_type_ref_index_at
    rw [int_at_addr_of_slot hs, map_ok] at hbi
    have hb' : extract_low_short_from_int (s.value % 4294967296) = b := by
      cases hbi; rfl
    rw [int_at_addr_of_slot hsl, int_at_addr_of_slot hs, map_ok, map_ok, map_ok,
      copied_value_bootstrap _ n hb, hb']
    have hh := extract_high_short_lt (s.value % 4294967296)
    refine ⟨by rw [extract_low_pack hlt hh], by rw [extract_high_pack hlt hh], ?_⟩
    intro hn0
    subst hn0
    rw [← hb', Nat.add_zero, pack_shorts_extract, Nat.mod_mod]
  · intro h1 h2' h3
    rw [int_at_addr_of_slot hsl, int_at_addr_of_slot hs]
    exact congrArg Except.ok (copied_value_other _ n h1 h2' h3)

theorem copy_entry_to_demotes_witness :
    ∃ r, copy_entry_to demoHeap demoPoolResolved 2 (emptyPool 12) 2 = .ok r ∧
      r.1.tag_at 2 = .ok JVM_CONSTANT_ClassIndex ∧
      r.1.klass_index_at 2 = .ok 1 := by
  have key := (copy_entry_to_demotes demoHeap demoPoolResolved (emptyPool 12) 2 2 0 ⟨7, 65536⟩
    (by decide) (by decide) (by decide) (by decide)).2 (by decide)
  obtain ⟨r, hr, ht, -, -, -, -, hk, -⟩ := key
  exact ⟨r, hr, ht, (hk (by decide)).2⟩

/-- C12, as stated, fails: the Dynamic entry 11 of `demoPool` (specifier 0, name-and-type
5) copied into a destination that already holds one bootstrap specifier keeps its tag but
not its payload: the copy names specifier 1. -/
theorem copy_entry_to_dynamic_payload_changes :
    demoPool.tag_at 11 = .ok JVM_CONSTANT_Dynamic ∧
    demoPool.int_at_addr 11 = .ok 327680 ∧
    (copy_entry_to demoHeap demoPool 11 demoDestOneSpecifier 11 >>= fun r =>
      r.1.tag_at 11) = .ok JVM_CONSTANT_Dynamic ∧
    (copy_entry_to demoHeap demoPool 11 demoDestOneSpecifier 11 >>= fun r =>
      r.1.int_at_addr 11) = .ok 327681 := by
  decide

/-- C13 (as amended): for a Dynamic, DynamicInError or InvokeDynamic source entry whose
specifier index `b` plus the number `n` of bootstrap specifiers of the destination is
below 65536, `copy_entry_to` returns and writes a Dynamic (resp. InvokeDynamic) entry
whose specifier index is `b + n` and whose name-and-type index is the source's. -/
theorem copy_entry_to_bootstrap_index (heap : SymbolHeap) (from_cp to_cp : ConstantPool)
    (from_i to_i n b : Nat) (s : CPSlot)
    (hs : from_cp.slot_at from_i = .ok s) (ht : BootstrapTag s.tag)
    (hd : to_i < to_cp.length) (hn : to_cp.operand_array_length = .ok n)
    (hb : from_cp.bootstrap_methods_attribute_index from_i = .ok b)
    (hlt : b + n < 65536) :
    ∃ r, copy_entry_to heap from_cp from_i to_cp to_i = .ok r ∧
      r.1.tag_at to_i =
        .ok (if s.tag = JVM_CONSTANT_InvokeDynamic then JVM_CONSTANT_InvokeDynamic
          else JVM_CONSTANT_Dynamic) ∧
      r.1.bootstrap_methods_attribute_index to_i = .ok (b + n) ∧
      r.1.bootstrap_name_and_type_ref_index_at to_i =
        from_cp.bootstrap_name_and_type_ref_index_at from_i := by
  have hc : Copyable s.tag := by
    rcases ht with h | h | h <;> rw [h] <;> decide
  have h2 : TwoSlotTag s.tag → to_i + 1 < to_cp.length := by
    intro h
    rcases ht with h' | h' | h' <;> rw [h'] at h <;> exact absurd h (by decide)
  have hsl := slot_at_copied s to_cp.operands n (show to_i < to_cp.slots.length from hd)
  refine ⟨_, copy_entry_to_eq heap hs hc hd h2 (fun _ => hn), ?_, ?_, ?_⟩
  · have htag : demoted_tag s.tag =
        (if s.tag = JVM_CONSTANT_InvokeDynamic then JVM_CONSTANT_InvokeDynamic
          else JVM_CONSTANT_Dynamic) := by
      rcases ht with h | h | h <;> rw [h] <;> decide
    rw [tag_at_of_slot hsl]
    exact congrArg Except.ok htag
  · unfold bootstrap_methods_attribute_index at hb ⊢
    rw [int_at_addr_of_slot hs, map_ok] at hb
    have hb' : extract_low_short_from_int (s.value % 4294967296) = b := by
      cases hb; rfl
    rw [int_at_addr_of_slot hsl, map_ok, copied_value_bootstrap _ n ht, hb',
      extract_low_pack hlt (extract_high_short_lt _)]
  · unfold bootstrap_methods_attribute_index at hb
    unfold bootstrap_name_and_type_ref_index_at
    rw [int_at_addr_of_slot hs, map_ok] at hb
    have hb' : extract_low_short_from_int (s.value % 4294967296) = b := by
      cases hb; rfl
    rw [int_at_addr_of_slot hsl, int_at_addr_of_slot hs, map_ok, map_ok,
      copied_value_bootstrap _ n ht, hb', extract_high_pack hlt (extract_high_short_lt _)]

theorem copy_entry_to_bootstrap_index_witness :
    ∃ r, copy_entry_to demoHeap demoPoolResolved 11 demoDestOneSpecifier 11 = .ok r ∧
      r.1.tag_at 11 = .ok JVM_CONSTANT_Dynamic ∧
      r.1.bootstrap_methods_attribute_index 11 = .ok 1 ∧
      r.1.bootstrap_name_and_type_ref_index_at 11 = .ok 5 :=
  copy_entry_to_bootstrap_index demoHeap demoPoolResolved demoDestOneSpecifier 11 11 1 0
    ⟨106, 327680⟩ (by decide) (by decide) (by decide) (by decide) (by decide) (by decide)

/-- C13, as stated, fails: the InvokeDynamic entry of `wideBootstrapPool` names specifier
65535 and name-and-type 4; copied into a destination that holds one bootstrap specifier
it names specifier 0, not 65536, and name-and-type 5. -/
theorem copy_entry_to_bootstrap_index_overflow :
    wideBootstrapPool.tag_at 1 = .ok JVM_CONSTANT_InvokeDynamic ∧
    wideBootstrapPool.bootstrap_methods_attribute_index 1 = .ok 65535 ∧
    wideBootstrapPool.bootstrap_name_and_type_ref_index_at 1 = .ok 4 ∧
    demoDestOneSpecifier.operand_array_length = .ok 1 ∧
    (copy_entry_to demoHeap wideBootstrapPool 1 demoDestOneSpecifier 1 >>= fun r =>
      r.1.bootstrap_methods_attribute_index 1) = .ok 0 ∧
    (copy_entry_to demoHeap wideBootstrapPool 1 demoDestOneSpecifier 1 >>= fun r =>
      r.1.bootstrap_name_and_type_ref_index_at 1) = .ok 5 := by
  decide

/-- C15: `copy_entry_to` of a Utf8 entry returns a heap in which the reference count of
the entry's symbol is one more than before and every other symbol is as before, and
stores the identical symbol in the destination; the copy of an entry of any other kind,
a String entry included, returns the heap it was given. -/
theorem copy_entry_to_refcount (heap : SymbolHeap) (from_cp to_cp : ConstantPool)
    (from_i to_i n : Nat) (s : CPSlot)
    (hs : from_cp.slot_at from_i = .ok s) (hc : Copyable s.tag)
    (hd : to_i < to_cp.length) (h2 : TwoSlotTag s.tag → to_i + 1 < to_cp.length)
    (hn : BootstrapTag s.tag → to_cp.operand_array_length = .ok n) :
    ∃ r, copy_entry_to heap from_cp from_i to_cp to_i = .ok r ∧
      (s.tag = JVM_CONSTANT_Utf8 →
        (r.2 s.value).refcount = (heap s.value).refcount + 1 ∧
        (r.2 s.value).body = (heap s.value).body ∧
        (∀ a, a ≠ s.value → r.2 a = heap a) ∧
        r.1.tag_at to_i = .ok JVM_CONSTANT_Utf8 ∧
        r.1.symbol_at to_i = .ok s.value) ∧
      (s.tag ≠ JVM_CONSTANT_Utf8 → r.2 = heap) := by
  have hsl := slot_at_copied s to_cp.operands n (show to_i < to_cp.slots.length from hd)
  refine ⟨_, copy_entry_to_eq heap hs hc hd h2 hn, ?_, ?_⟩
  · intro hu
    simp only [hu, if_true]
    refine ⟨?_, ?_, ?_, ?_, ?_⟩
    · simp only [SymbolHeap.increment_refcount, Symbol.increment_refcount, if_true]
    · simp only [SymbolHeap.increment_refcount, Symbol.increment_refcount, if_true]
    · intro a ha
      simp only [SymbolHeap.increment_refcount, ha, if_false]
    · rw [tag_at_of_slot hsl, hu]; rfl
    · unfold symbol_at
      rw [symbol_at_addr_of_slot hsl]
      exact congrArg Except.ok (copied_value_symbol _ n (Or.inl hu))
  · intro hu
    simp only [hu, if_false]

theorem copy_entry_to_refcount_witness :
    ∃ r, copy_entry_to demoHeap demoPool 3 (emptyPool 12) 3 = .ok r ∧
      (r.2 1001).refcount = 2 ∧ (∀ a, a ≠ 1001 → r.2 a = demoHeap a) ∧
      r.1.symbol_at 3 = .ok 1001 := by
  obtain ⟨r, hr, hu, -⟩ := copy_entry_to_refcount demoHeap demoPool (emptyPool 12) 3 3 0
    ⟨1, 1001⟩ (by decide) (by decide) (by decide) (by decide) (by decide)
  obtain ⟨h1, -, h3, -, h5⟩ := hu rfl
  exact ⟨r, hr, h1, h3, h5⟩

/-! ## Reading the operands array -/

theorem getElem?_eq_some_getD {l : List Nat} {k : Nat} (h : k < l.length) :
    l[k]? = some (l.getD k 0) := by
  rw [List.getD_eq_getElem?_getD, List.getElem?_eq_getElem h]; rfl

theorem getD_congr {l l' : List Nat} {k k' : Nat} (h : l'[k']? = l[k]?) :
    l'.getD k' 0 = l.getD k 0 := by
  rw [List.getD_eq_getElem?_getD, List.getD_eq_getElem?_getD, h]

theorem build_extract {v : Nat} (hv : v < 4294967296) :
    build_int_from_shorts (extract_low_short_from_int v) (extract_high_short_from_int v) =
      v := by
  unfold build_int_from_shorts extract_low_short_from_int extract_high_short_from_int
  omega

theorem build_int_from_shorts_lt (low high : Nat) :
    build_int_from_shorts low high < 4294967296 := by
  unfold build_int_from_shorts; omega

theorem operands_offset_lt (ops : List Nat) (i : Nat) : operands_offset ops i < 4294967296 :=
  build_int_from_shorts_lt _ _

theorem operand_at_eq {cp : ConstantPool} {ops : List Nat} (h : cp.operands = some ops)
    {k : Nat} (hk : k < ops.length) : cp.operand_at k = .ok (ops.getD k 0) := by
  unfold operand_at
  rw [h]
  simp only [getElem?_eq_some_getD hk]

theorem operand_at_eq_ok {cp : ConstantPool} {ops : List Nat} (h : cp.operands = some ops)
    {k v : Nat} : cp.operand_at k = .ok v ↔ ops[k]? = some v := by
  unfold operand_at
  rw [h]
  cases hk : ops[k]? with
  | none => simp only [hk]; constructor <;> intro hh <;> cases hh
  | some w =>
    simp only [hk]
    constructor
    · intro hh; cases hh; rfl
    · intro hh; cases hh; rfl

theorem jint_wrap_natCast {v : Nat} (h : v < 2147483648) : jint_wrap (v : Int) = (v : Int) :=
  jint_wrap_of_lt (by omega) (by omega)

theorem jint_wrap_emod (x : Int) : jint_wrap x % 4294967296 = x % 4294967296 := by
  unfold jint_wrap
  rw [Int.sub_emod, Int.emod_emod_of_dvd _ (dvd_refl _), ← Int.sub_emod]
  congr 1
  ring

theorem jint_wrap_add_emod (x d : Int) :
    (jint_wrap x + d) % 4294967296 = (x + d) % 4294967296 := by
  rw [Int.add_emod, jint_wrap_emod, ← Int.add_emod]

/-- The offset read is the signed `int` of the pattern that the two shorts make. -/
theorem operand_offset_at_eq_wrap {cp : ConstantPool} {ops : List Nat}
    (h : cp.operands = some ops) {i : Nat} (hi : 2 * i + 1 < ops.length) :
    cp.operand_offset_at i = .ok (jint_wrap (operands_offset ops i)) := by
  unfold operand_offset_at operands_offset
  have e : i * 2 = 2 * i := Nat.mul_comm _ _
  simp only [e]
  rw [operand_at_eq h (by omega), operand_at_eq h hi]
  rfl

theorem operand_offset_at_eq {cp : ConstantPool} {ops : List Nat} (h : cp.operands = some ops)
    {i : Nat} (hi : 2 * i + 1 < ops.length) (hb : operands_offset ops i < 2147483648) :
    cp.operand_offset_at i = .ok (operands_offset ops i) := by
  rw [operand_offset_at_eq_wrap h hi, jint_wrap_natCast hb]

theorem bsm_attribute_entry_eq {cp : ConstantPool} {i e : Nat}
    (h : cp.operand_offset_at i = .ok (e : Int)) : cp.bsm_attribute_entry i = .ok e := by
  unfold bsm_attribute_entry
  rw [h]
  simp only [ok_bind]
  rw [if_neg (by omega), Int.toNat_ofNat]
  rfl

theorem bsm_attribute_entry_eq_ok {cp : ConstantPool} {i e : Nat} :
    cp.bsm_attribute_entry i = .ok e ↔ cp.operand_offset_at i = .ok (e : Int) := by
  constructor
  · intro h
    unfold bsm_attribute_entry at h
    obtain ⟨offset, ho, h⟩ := bind_eq_ok.mp h
    by_cases hneg : offset < 0
    · rw [if_pos hneg] at h; cases h
    · rw [if_neg hneg] at h
      have h := Except.ok.inj h
      rw [ho]
      congr 1
      omega
  · exact bsm_attribute_entry_eq

theorem operand_array_length_eq {cp : ConstantPool} {ops : List Nat}
    (h : cp.operands = some ops) (hlen : 2 ≤ ops.length)
    (hb : operands_offset ops 0 < 2147483648) :
    cp.operand_array_length = .ok (operands_count ops) := by
  unfold operand_array_length
  rw [h]
  cases ops with
  | nil => simp at hlen
  | cons a t =>
    simp only
    rw [operand_offset_at_eq h (by omega) hb]
    simp only [ok_bind]
    unfold operands_count
    exact congrArg Except.ok (Int.ofNat_tdiv _ 2).symm

theorem operands_length_eq {cp : ConstantPool} {ops : List Nat} (h : cp.operands = some ops) :
    cp.operands_length = .ok ops.length := by
  unfold operands_length; rw [h]

theorem operands_array_eq {cp : ConstantPool} {ops : List Nat} (h : cp.operands = some ops) :
    cp.operands_array = .ok ops := by
  unfold operands_array; rw [h]

/-! ## Bootstrap specifiers read from the array -/

theorem argument_indices_transfer {cp cp' : ConstantPool} {ops ops' : List Nat}
    (h : cp.operands = some ops) (h' : cp'.operands = some ops') {e e' : Nat} (bound : Nat)
    (hrec : ∀ m v, m < bound → ops[e + m]? = some v → ops'[e' + m]? = some v) :
    ∀ (n j : Nat) (l : List Nat), 2 + j + n ≤ bound → cp.argument_indices e n j = .ok l →
      cp'.argument_indices e' n j = .ok l := by
  intro n
  induction n with
  | zero => intro j l _ hl; exact hl
  | succ n ih =>
    intro j l hb hl
    rw [argument_indices] at hl ⊢
    obtain ⟨a, ha, hl⟩ := bind_eq_ok.mp hl
    obtain ⟨rest, hrest, hl⟩ := bind_eq_ok.mp hl
    unfold argument_index at ha ⊢
    have ha' : cp'.operand_at (e' + 2 + j) = .ok a := by
      rw [operand_at_eq_ok h']
      rw [operand_at_eq_ok h] at ha
      have := hrec (2 + j) a (by omega) (by rw [← Nat.add_assoc]; exact ha)
      rw [← Nat.add_assoc] at this; exact this
    rw [ha', ih (j + 1) rest (by omega) hrest]
    exact hl

theorem specifier_at_transfer {cp cp' : ConstantPool} {ops ops' : List Nat}
    (h : cp.operands = some ops) (h' : cp'.operands = some ops') {i i' e e' : Nat}
    (he : cp.operand_offset_at i = .ok e) (he' : cp'.operand_offset_at i' = .ok e')
    (hrec : ∀ m v, m < 2 + ops.getD (e + 1) 0 → ops[e + m]? = some v →
      ops'[e' + m]? = some v)
    {s : Specifier} (hs : cp.specifier_at i = .ok s) : cp'.specifier_at i' = .ok s := by
  unfold specifier_at at hs ⊢
  rw [bsm_attribute_entry_eq he] at hs
  rw [bsm_attribute_entry_eq he']
  simp only [ok_bind] at hs ⊢
  obtain ⟨bsm, hbsm, hs⟩ := bind_eq_ok.mp hs
  obtain ⟨argc, hargc, hs⟩ := bind_eq_ok.mp hs
  obtain ⟨args, hargs, hs⟩ := bind_eq_ok.mp hs
  unfold bootstrap_method_index at hbsm ⊢
  unfold argument_count at hargc ⊢
  rw [operand_at_eq_ok h] at hbsm hargc
  have hargc' : ops.getD (e + 1) 0 = argc := by
    rw [List.getD_eq_getElem?_getD, hargc]; rfl
  have h1 : cp'.operand_at e' = .ok bsm := by
    rw [operand_at_eq_ok h']
    exact hrec 0 bsm (by omega) hbsm
  have h2 : cp'.operand_at (e' + 1) = .ok argc := by
    rw [operand_at_eq_ok h']
    exact hrec 1 argc (by omega) hargc
  rw [h1, h2]
  simp only [ok_bind]
  rw [argument_indices_transfer h h' (2 + argc) (by rw [← hargc']; exact hrec) argc 0 args
    (by omega) hargs]
  exact hs

theorem argument_indices_ok {cp : ConstantPool} {ops : List Nat}
    (h : cp.operands = some ops) (e : Nat) :
    ∀ (n j : Nat), e + 2 + j + n ≤ ops.length →
      ∃ l, cp.argument_indices e n j = .ok l ∧ l.length = n := by
  intro n
  induction n with
  | zero => intro j _; exact ⟨[], rfl, rfl⟩
  | succ n ih =>
    intro j hj
    obtain ⟨rest, hrest, hlen⟩ := ih (j + 1) (by omega)
    refine ⟨ops.getD (e + 2 + j) 0 :: rest, ?_, by simp [hlen]⟩
    rw [argument_indices]
    unfold argument_index
    rw [operand_at_eq h (by omega), hrest]
    rfl

theorem specifier_at_ok {cp : ConstantPool} {ops : List Nat} (h : cp.operands = some ops)
    (hlen : ops.length < 2147483648)
    {i : Nat} (hi : 2 * i + 1 < ops.length) (hn : operands_next ops i ≤ ops.length) :
    ∃ s, cp.specifier_at i = .ok s ∧
      s.bootstrap_method_index = ops.getD (operands_offset ops i) 0 ∧
      s.argument_count = ops.getD (operands_offset ops i + 1) 0 ∧
      s.arguments.length = s.argument_count := by
  unfold operands_next at hn
  obtain ⟨args, hargs, hlen⟩ := argument_indices_ok h (operands_offset ops i)
    (ops.getD (operands_offset ops i + 1) 0) 0 (by omega)
  refine ⟨⟨ops.getD (operands_offset ops i) 0, ops.getD (operands_offset ops i + 1) 0, args⟩,
    ?_, rfl, rfl, hlen⟩
  unfold specifier_at bootstrap_method_index argument_count
  rw [bsm_attribute_entry_eq (operand_offset_at_eq h hi (by omega))]
  simp only [ok_bind]
  rw [operand_at_eq h (by omega), operand_at_eq h (by omega)]
  simp only [ok_bind]
  rw [hargs]
  rfl

/-! ## Well-formed operands -/

theorem wf_offset_ge {ops : List Nat} (hwf : OperandsWF ops) (hne : ops ≠ []) :
    ∀ i, i < operands_count ops → 2 * operands_count ops ≤ operands_offset ops i := by
  obtain ⟨h2, h0, hc, hall⟩ := hwf.2 hne
  intro i
  induction i with
  | zero => intro _; omega
  | succ i ih =>
    intro hi
    have := ih (by omega)
    have hn := (hall i (by omega)).2 hi
    unfold operands_next at hn
    omega

theorem wf_next_mono {ops : List Nat} (hwf : OperandsWF ops) (hne : ops ≠ []) :
    ∀ j, j < operands_count ops → ∀ i, i ≤ j → operands_next ops i ≤ operands_next ops j := by
  obtain ⟨h2, h0, hc, hall⟩ := hwf.2 hne
  intro j
  induction j with
  | zero =>
    intro _ i hi
    have : i = 0 := by omega
    subst this; exact Nat.le_refl _
  | succ j ih =>
    intro hj i hi
    by_cases hij : i = j + 1
    · subst hij; exact Nat.le_refl _
    · have h1 := ih (by omega) i (by omega)
      have hn := (hall j (by omega)).2 hj
      have : operands_next ops j ≤ operands_next ops (j + 1) := by
        have e : operands_next ops (j + 1) =
            operands_offset ops (j + 1) + 2 + ops.getD (operands_offset ops (j + 1) + 1) 0 := rfl
        omega
      omega

theorem wf_index_lt {ops : List Nat} (hwf : OperandsWF ops) (hne : ops ≠ []) {i : Nat}
    (hi : i < operands_count ops) : 2 * i + 1 < ops.length := by
  obtain ⟨h2, h0, hc, hall⟩ := hwf.2 hne
  omega

theorem wf_offset_lt {ops : List Nat} (hwf : OperandsWF ops) (hne : ops ≠ []) {i : Nat}
    (hi : i < operands_count ops) : operands_offset ops i < 2147483648 := by
  obtain ⟨h2, h0, hc, hall⟩ := hwf.2 hne
  have := (hall i hi).1
  have := hwf.1
  unfold operands_next at *
  omega

theorem wf_first_lt {ops : List Nat} (hwf : OperandsWF ops) (hne : ops ≠ []) :
    operands_offset ops 0 < 2147483648 := by
  obtain ⟨h2, h0, hc, hall⟩ := hwf.2 hne
  have := hwf.1
  omega

/-! ## Array primitives -/

theorem new_array_eq {T : Type} (zero : T) {loader_data : ClassLoaderData} {n : Nat}
    (h : loader_data.new_array_fails (n : Int) = none) :
    new_array zero loader_data (n : Int) = .ok (.ok (List.replicate n zero)) := by
  unfold new_array
  simp only [Int.natCast_nonneg, if_true, Int.toNat_ofNat, h]

theorem new_array_fails {T : Type} (zero : T) {loader_data : ClassLoaderData} {n : Nat}
    {e : Throwable} (h : loader_data.new_array_fails (n : Int) = some e) :
    new_array zero loader_data (n : Int) = .ok (.error e) := by
  unfold new_array
  simp only [Int.natCast_nonneg, if_true, h]

theorem operand_offset_at_put_congr (ops : List Nat) (idx : Nat) {a b : Int}
    (h : a % 4294967296 = b % 4294967296) :
    operand_offset_at_put ops idx a = operand_offset_at_put ops idx b := by
  unfold operand_offset_at_put
  rw [h]

theorem conjoint_memory_atomic_spec (src dst : List Nat) (sp dp c : Nat)
    (hs : sp + c ≤ src.length) (hd : dp + c ≤ dst.length) :
    ∃ l, conjoint_memory_atomic src (sp : Int) dst (dp : Int) (c : Int) = .ok l ∧
      l.length = dst.length ∧
      ∀ k, l[k]? = if dp ≤ k ∧ k < dp + c then src[sp + (k - dp)]? else dst[k]? := by
  unfold conjoint_memory_atomic
  by_cases hc : c = 0
  · subst hc
    refine ⟨dst, by simp, rfl, fun k => ?_⟩
    rw [if_neg (by omega)]
  · have hcond : (0 : Int) < (c : Int) ∧ (0 : Int) ≤ (sp : Int) ∧
        (sp : Int) + (c : Int) ≤ (src.length : Int) ∧ (0 : Int) ≤ (dp : Int) ∧
        (dp : Int) + (c : Int) ≤ (dst.length : Int) := by omega
    have hc' : ¬ ((c : Int) = 0) := by omega
    rw [if_neg hc', if_pos hcond]
    simp only [Int.toNat_ofNat]
    refine ⟨_, rfl, ?_, fun k => ?_⟩
    · simp only [List.length_append, List.length_take, List.length_drop]
      omega
    · have hA : (dst.take dp).length = dp := by
        rw [List.length_take]; omega
      have hB : ((src.drop sp).take c).length = c := by
        rw [List.length_take, List.length_drop]; omega
      by_cases h1 : k < dp
      · rw [if_neg (by omega), List.append_assoc, List.getElem?_append_left (by omega),
          List.getElem?_take_of_lt h1]
      · by_cases h2 : k < dp + c
        · rw [if_pos ⟨by omega, h2⟩, List.append_assoc,
            List.getElem?_append_right (by omega), hA,
            List.getElem?_append_left (by omega), List.getElem?_take_of_lt (by omega),
            List.getElem?_drop]
        · rw [if_neg (by omega), List.getElem?_append_right
            (by rw [List.length_append, hA, hB]; omega), List.length_append, hA, hB,
            List.getElem?_drop]
          congr 1
          omega

theorem operand_offset_at_put_spec (ops : List Nat) (idx : Nat) (offset : Int)
    (h : 2 * idx + 1 < ops.length) :
    ∃ l, operand_offset_at_put ops idx offset = .ok l ∧ l.length = ops.length ∧
      operands_offset l idx = (offset % 4294967296).toNat ∧
      ∀ k, k ≠ 2 * idx → k ≠ 2 * idx + 1 → l[k]? = ops[k]? := by
  unfold operand_offset_at_put
  have e : idx * 2 = 2 * idx := Nat.mul_comm _ _
  simp only [e]
  rw [if_pos h]
  refine ⟨_, rfl, by simp, ?_, fun k h1 h2 => ?_⟩
  · unfold operands_offset
    have hv : (offset % 4294967296).toNat < 4294967296 := by omega
    rw [List.getD_eq_getElem?_getD, List.getD_eq_getElem?_getD,
      List.getElem?_set_self (by simpa using h),
      List.getElem?_set_ne (by omega), List.getElem?_set_self (by omega)]
    exact build_extract hv
  · rw [List.getElem?_set_ne (Ne.symm h2), List.getElem?_set_ne (Ne.symm h1)]

theorem operands_offset_congr {l l' : List Nat} {i i' : Nat}
    (h0 : l'[2 * i']? = l[2 * i]?) (h1 : l'[2 * i' + 1]? = l[2 * i + 1]?) :
    operands_offset l' i' = operands_offset l i := by
  unfold operands_offset
  rw [getD_congr h0, getD_congr h1]

theorem resize_offsets_spec {cp : ConstantPool} {ops : List Nat} (h : cp.operands = some ops)
    (dl : Int) :
    ∀ (m idx : Nat) (l : List Nat), 2 * (idx + m) ≤ ops.length → 2 * (idx + m) ≤ l.length →
      ∃ l', cp.resize_offsets dl m idx l = .ok l' ∧ l'.length = l.length ∧
        (∀ j, idx ≤ j → j < idx + m → operands_offset l' j =
          Int.toNat ((((operands_offset ops j : Nat) : Int) + 2 * dl) % 4294967296)) ∧
        ∀ k, k < 2 * idx ∨ 2 * (idx + m) ≤ k → l'[k]? = l[k]? := by
  intro m
  induction m with
  | zero =>
    intro idx l _ _
    exact ⟨l, rfl, rfl, fun j h1 h2 => absurd h2 (by omega), fun k _ => rfl⟩
  | succ m ih =>
    intro idx l hops hl
    obtain ⟨l1, hput, hlen1, hoff1, hrest1⟩ := operand_offset_at_put_spec l idx
      (((operands_offset ops idx : Nat) : Int) + 2 * dl) (by omega)
    obtain ⟨l2, hloop, hlen2, hoff2, hrest2⟩ := ih (idx + 1) l1 (by omega) (by omega)
    refine ⟨l2, ?_, by omega, fun j hj1 hj2 => ?_, fun k hk => ?_⟩
    · rw [resize_offsets, operand_offset_at_eq_wrap h (by omega)]
      simp only [ok_bind]
      rw [operand_offset_at_put_congr l idx (jint_wrap_add_emod _ _), hput]
      exact hloop
    · by_cases hj : j = idx
      · subst hj
        rw [operands_offset_congr (hrest2 _ (Or.inl (by omega)))
          (hrest2 _ (Or.inl (by omega))), hoff1]
      · exact hoff2 j (by omega) (by omega)
    · rw [hrest2 k (by omega), hrest1 k (by omega) (by omega)]

theorem adjust_offsets_spec (old_oplen old_len : Nat) :
    ∀ (m j : Nat) (l : List Nat), 2 * (old_oplen + j + m) ≤ l.length →
      ∃ l', adjust_offsets old_oplen old_len m j l = .ok l' ∧ l'.length = l.length ∧
        (∀ i, j ≤ i → i < j + m → operands_offset l' (old_oplen + i) =
          Int.toNat ((((operands_offset l (old_oplen + i) : Nat) : Int) + (old_len : Int)) %
            4294967296)) ∧
        ∀ k, k < 2 * (old_oplen + j) ∨ 2 * (old_oplen + j + m) ≤ k → l'[k]? = l[k]? := by
  intro m
  induction m with
  | zero =>
    intro j l _
    exact ⟨l, rfl, rfl, fun i h1 h2 => absurd h2 (by omega), fun k _ => rfl⟩
  | succ m ih =>
    intro j l hl
    obtain ⟨l1, hput, hlen1, hoff1, hrest1⟩ := operand_offset_at_put_spec l (old_oplen + j)
      (((operands_offset l (old_oplen + j) : Nat) : Int) + (old_len : Int)) (by omega)
    obtain ⟨l2, hloop, hlen2, hoff2, hrest2⟩ := ih (j + 1) l1 (by omega)
    refine ⟨l2, ?_, by omega, fun i hi1 hi2 => ?_, fun k hk => ?_⟩
    · have hidx : ((old_oplen : Nat) : Int) + ((j : Nat) : Int) = ((old_oplen + j : Nat) : Int) := by
        push_cast; rfl
      rw [adjust_offsets]
      simp only [hidx]
      rw [if_neg (by omega), Int.toNat_ofNat,
        operand_offset_at_eq_wrap (rfl : (ConstantPool.mk [] (some l)).operands = some l)
          (by omega)]
      simp only [ok_bind]
      rw [operand_offset_at_put_congr l (old_oplen + j) (jint_wrap_add_emod _ _), hput]
      exact hloop
    · by_cases hi : i = j
      · subst hi
        rw [operands_offset_congr (hrest2 _ (Or.inl (by omega)))
          (hrest2 _ (Or.inl (by omega))), hoff1]
      · rw [hoff2 i (by omega) (by omega)]
        rw [@operands_offset_congr l l1 (old_oplen + i) (old_oplen + i)
          (hrest1 _ (by omega) (by omega)) (hrest1 _ (by omega) (by omega))]
    · rw [hrest2 k (by omega), hrest1 k (by omega) (by omega)]

/-! ## `resize_operands` -/

/-- When the allocation of the new array fails, `resize_operands` returns with the
exception pending and the pool as it was. -/
theorem resize_operands_fails {cp : ConstantPool} {ops : List Nat} (h : cp.operands = some ops)
    (hlen2 : 2 ≤ ops.length) (hb : operands_offset ops 0 < 2147483648)
    (loader_data : ClassLoaderData) (dl ds : Int) (new_size : Nat)
    (h3 : (new_size : Int) = (ops.length : Int) + ds) {e : Throwable}
    (hf : loader_data.new_array_fails (new_size : Int) = some e) :
    cp.resize_operands loader_data dl ds = .ok (cp, some e) := by
  unfold resize_operands
  rw [operand_array_length_eq h hlen2 hb, operands_length_eq h]
  simp only [ok_bind]
  rw [← h3, new_array_fails 0 hf]
  rfl

theorem resize_operands_spec {cp : ConstantPool} {ops : List Nat} (h : cp.operands = some ops)
    (hlen2 : 2 ≤ ops.length) (hb : operands_offset ops 0 < 2147483648)
    (loader_data : ClassLoaderData) (dl ds : Int) (new_len min_len new_size c : Nat)
    (halloc : loader_data.new_array_fails (new_size : Int) = none)
    (h1 : (new_len : Int) = (operands_count ops : Int) + dl)
    (h2 : (min_len : Int) = if dl > 0 then (operands_count ops : Int) else (new_len : Int))
    (h3 : (new_size : Int) = (ops.length : Int) + ds)
    (h4 : (c : Int) = (if ds > 0 then (ops.length : Int) else (new_size : Int)) -
      2 * (min_len : Int))
    (h5 : 2 * operands_count ops + c ≤ ops.length) (h6 : 2 * new_len + c ≤ new_size)
    (h7 : 2 * min_len ≤ ops.length) :
    ∃ ops', cp.resize_operands loader_data dl ds = .ok (cp.set_operands ops', none) ∧
      ops'.length = new_size ∧
      (∀ j, j < min_len → operands_offset ops' j =
        Int.toNat ((((operands_offset ops j : Nat) : Int) + 2 * dl) % 4294967296)) ∧
      (∀ k, 2 * new_len ≤ k → k < 2 * new_len + c →
        ops'[k]? = ops[2 * operands_count ops + (k - 2 * new_len)]?) ∧
      (∀ k, 2 * min_len ≤ k → k < new_size → (k < 2 * new_len ∨ 2 * new_len + c ≤ k) →
        ops'[k]? = some 0) := by
  have hmin_le : min_len ≤ new_len := by
    by_cases hd : dl > 0
    · rw [if_pos hd] at h2; omega
    · rw [if_neg hd] at h2; omega
  obtain ⟨l1, hloop, hlen1, hoff1, hrest1⟩ := resize_offsets_spec h dl min_len 0
    (List.replicate new_size 0) (by omega) (by rw [List.length_replicate]; omega)
  rw [List.length_replicate] at hlen1
  obtain ⟨l2, hcopy, hlen2', hget2⟩ := conjoint_memory_atomic_spec ops l1
    (2 * operands_count ops) (2 * new_len) c h5 (by omega)
  refine ⟨l2, ?_, by omega, fun j hj => ?_, fun k hk1 hk2 => ?_, fun k hk1 hk2 hk3 => ?_⟩
  · unfold resize_operands
    rw [operand_array_length_eq h hlen2 hb, operands_length_eq h, operands_array_eq h]
    simp only [ok_bind]
    have e3 : (ops.length : Int) + ds = ((new_size : Nat) : Int) := h3.symm
    have e2 : (if dl > 0 then (operands_count ops : Int) else (operands_count ops : Int) + dl) =
        ((min_len : Nat) : Int) := by
      rw [h2, h1]
    have e1 : (operands_count ops : Int) + dl = ((new_len : Nat) : Int) := h1.symm
    have e4 : (if ds > 0 then (ops.length : Int) else (ops.length : Int) + ds) -
        2 * (if dl > 0 then (operands_count ops : Int) else (operands_count ops : Int) + dl) =
        ((c : Nat) : Int) := by
      rw [e2, e3, h4]
    rw [e4, e2, e3, e1, new_array_eq 0 halloc]
    simp only [ok_bind, Int.toNat_ofNat]
    rw [hloop]
    simp only [ok_bind]
    have e5 : (2 : Int) * ((operands_count ops : Nat) : Int) =
        ((2 * operands_count ops : Nat) : Int) := by push_cast; rfl
    have e6 : (2 : Int) * ((new_len : Nat) : Int) = ((2 * new_len : Nat) : Int) := by
      push_cast; rfl
    rw [e5, e6, hcopy]
    rfl
  · rw [@operands_offset_congr l1 l2 j j
      (by rw [hget2, if_neg (by omega)]) (by rw [hget2, if_neg (by omega)])]
    exact hoff1 j (Nat.zero_le _) (by omega)
  · rw [hget2, if_pos ⟨hk1, hk2⟩]
  · rw [hget2, if_neg (by omega), hrest1 k (Or.inr (by omega)),
      List.getElem?_replicate_of_lt hk2]

theorem operands_count_nil : operands_count [] = 0 := by decide

theorem wf_ne_nil {ops : List Nat} (hn : 1 ≤ operands_count ops) : ops ≠ [] := by
  intro h
  rw [h, operands_count_nil] at hn
  omega

theorem set_operands_operands (cp : ConstantPool) (ops : List Nat) :
    (cp.set_operands ops).operands = some ops := rfl

/-- The specifier count of a well-formed table that holds a specifier. -/
theorem operand_array_length_wf {cp : ConstantPool} {ops : List Nat}
    (h : cp.operands = some ops) (hwf : OperandsWF ops) (hne : ops ≠ []) :
    cp.operand_array_length = .ok (operands_count ops) :=
  operand_array_length_eq h (hwf.2 hne).1 (wf_first_lt hwf hne)

theorem resize_operands_grow_aux {cp : ConstantPool} {ops : List Nat} {dl ds : Nat}
    (loader_data : ClassLoaderData)
    (h : cp.operands = some ops) (hwf : OperandsWF ops) (hn : 1 ≤ operands_count ops)
    (hdl : 0 < dl) (hds : 0 < ds) (hle : 2 * dl ≤ ds)
    (hsz : ops.length + ds < 2147483648)
    (halloc : loader_data.new_array_fails ((ops.length + ds : Nat) : Int) = none) :
    ∃ ops', cp.resize_operands loader_data (dl : Int) (ds : Int) =
        .ok (cp.set_operands ops', none) ∧
      ops'.length = ops.length + ds ∧
      operands_count ops' = operands_count ops + dl ∧
      operands_offset ops' 0 < 2147483648 ∧
      ∀ idx, idx < operands_count ops →
        cp.operand_offset_at idx = .ok (operands_offset ops idx) ∧
        (cp.set_operands ops').operand_offset_at idx =
          .ok ((operands_offset ops idx + 2 * dl : Nat) : Int) ∧
        ∃ s, cp.specifier_at idx = .ok s ∧ (cp.set_operands ops').specifier_at idx = .ok s := by
  have hne := wf_ne_nil hn
  obtain ⟨hlen2, h0, hc, hall⟩ := hwf.2 hne
  obtain ⟨ops', hres, hlen', hoff', hdata', -⟩ := resize_operands_spec h hlen2
    (wf_first_lt hwf hne) loader_data (dl : Int)
    (ds : Int) (operands_count ops + dl) (operands_count ops) (ops.length + ds)
    (ops.length - 2 * operands_count ops) halloc (by push_cast; rfl)
    (by rw [if_pos (by omega)]) (by push_cast; rfl)
    (by rw [if_pos (by omega)]; omega) (by omega) (by omega) (by omega)
  have hoffv : ∀ idx, idx < operands_count ops →
      operands_offset ops' idx = operands_offset ops idx + 2 * dl := by
    intro idx hidx
    rw [hoff' idx hidx]
    have := (hall idx hidx).1
    unfold operands_next at this
    omega
  have hoffb : ∀ idx, idx < operands_count ops → operands_offset ops' idx < 2147483648 := by
    intro idx hidx
    rw [hoffv idx hidx]
    have := (hall idx hidx).1
    unfold operands_next at this
    omega
  refine ⟨ops', hres, hlen', ?_, hoffb 0 (by omega), fun idx hidx => ?_⟩
  · unfold operands_count
    rw [hoffv 0 (by omega), h0]
    unfold operands_count
    omega
  · have hi := wf_index_lt hwf hne hidx
    have he := operand_offset_at_eq h hi (wf_offset_lt hwf hne hidx)
    have he' : (cp.set_operands ops').operand_offset_at idx =
        .ok ((operands_offset ops idx + 2 * dl : Nat) : Int) := by
      rw [operand_offset_at_eq (set_operands_operands cp ops') (by omega) (hoffb idx hidx),
        hoffv idx hidx]
    obtain ⟨s, hs, -⟩ := specifier_at_ok h hwf.1 hi (hall idx hidx).1
    refine ⟨he, he', s, hs, ?_⟩
    refine specifier_at_transfer h (set_operands_operands cp ops') he he' ?_ hs
    intro m v hm hv
    have hge := wf_offset_ge hwf hne idx hidx
    have hnx := (hall idx hidx).1
    unfold operands_next at hnx
    rw [hdata' _ (by omega) (by omega), ← hv]
    congr 1
    omega

/-- C18 (as amended): for a well-formed table of `old_len >= 1` specifiers and
`delta_len > 0`, `delta_size >= 2*delta_len` with the new size an `int`,
`resize_operands(delta_len, delta_size)` returns.  When the allocation of the new array
fails, the exception is pending and the pool is as it was.  When the allocation
succeeds, no exception is pending, the new array has length `old_size + delta_size`, and
for every `idx < old_len` the offset recorded at `idx` is the old offset plus
`2*delta_len` and the specifier read at `idx` is the one read before. -/
theorem resize_operands_grow (cp : ConstantPool) (loader_data : ClassLoaderData)
    (ops : List Nat) (delta_len delta_size : Nat)
    (h : cp.operands = some ops) (hwf : OperandsWF ops) (hn : 1 ≤ operands_count ops)
    (hdl : 0 < delta_len) (hds : 0 < delta_size) (hle : 2 * delta_len ≤ delta_size)
    (hsz : ops.length + delta_size < 2147483648) :
    cp.operand_array_length = .ok (operands_count ops) ∧
    (∀ e, loader_data.new_array_fails ((ops.length + delta_size : Nat) : Int) = some e →
      cp.resize_operands loader_data (delta_len : Int) (delta_size : Int) =
        .ok (cp, some e)) ∧
    (loader_data.new_array_fails ((ops.length + delta_size : Nat) : Int) = none →
      ∃ cp', cp.resize_operands loader_data (delta_len : Int) (delta_size : Int) =
          .ok (cp', none) ∧
        cp'.slots = cp.slots ∧
        cp'.operands_length = .ok (ops.length + delta_size) ∧
        ∀ idx, idx < operands_count ops →
          cp.operand_offset_at idx = .ok (operands_offset ops idx) ∧
          cp'.operand_offset_at idx =
            .ok ((operands_offset ops idx + 2 * delta_len : Nat) : Int) ∧
          ∃ s, cp.specifier_at idx = .ok s ∧ cp'.specifier_at idx = .ok s) := by
  have hne := wf_ne_nil hn
  refine ⟨operand_array_length_wf h hwf hne, fun e hf => ?_, fun halloc => ?_⟩
  · exact resize_operands_fails h (hwf.2 hne).1 (wf_first_lt hwf hne) loader_data _ _
      (ops.length + delta_size) (by push_cast; rfl) hf
  · obtain ⟨ops', hres, hlen', -, -, hall⟩ :=
      resize_operands_grow_aux loader_data h hwf hn hdl hds hle hsz halloc
    refine ⟨cp.set_operands ops', hres, rfl, ?_, hall⟩
    rw [operands_length_eq (set_operands_operands cp ops'), hlen']

theorem resize_operands_grow_witness :
    ∃ cp', twoSpecifierPool.resize_operands roomyLoaderData 1 5 = .ok (cp', none) ∧
      cp'.operands_length = .ok 14 ∧
      cp'.operand_offset_at 1 = .ok 9 ∧
      ∃ s, twoSpecifierPool.specifier_at 1 = .ok s ∧ cp'.specifier_at 1 = .ok s := by
  obtain ⟨-, -, hgrow⟩ := resize_operands_grow twoSpecifierPool roomyLoaderData
    [4, 0, 7, 0, 10, 1, 9, 7, 0] 1 5 rfl (by decide) (by decide) (by decide) (by decide)
    (by decide) (by decide)
  obtain ⟨cp', hres, -, hlen, hall⟩ := hgrow rfl
  obtain ⟨-, hoff, hs⟩ := hall 1 (by decide)
  exact ⟨cp', hres, hlen, hoff, hs⟩

/-- C18, as stated, fails: on the well-formed table of `demoDestOneSpecifier` (one
specifier, four shorts) `resize_operands(1, 1)` copies the record to offset 4 of a new
array of five shorts; the copy leaves the array and nothing is returned.  And on the
well-formed table of `twoSpecifierPool` (two specifiers, nine shorts)
`resize_operands(1, 5)` in an exhausted metaspace returns with the exception of the
failed allocation pending and the array of nine shorts still in place. -/
theorem resize_operands_overrun :
    OperandsWF [2, 0, 7, 0] ∧ demoDestOneSpecifier.operands = some [2, 0, 7, 0] ∧
    demoDestOneSpecifier.operand_array_length = .ok 1 ∧
    demoDestOneSpecifier.resize_operands roomyLoaderData 1 1 = .error .out_of_bounds ∧
    OperandsWF [4, 0, 7, 0, 10, 1, 9, 7, 0] ∧
    twoSpecifierPool.operand_array_length = .ok 2 ∧
    twoSpecifierPool.resize_operands exhaustedLoaderData 1 5 =
      .ok (twoSpecifierPool, some ⟨2004, none, .self⟩) ∧
    twoSpecifierPool.operands_length = .ok 9 := by
  decide

/-! ## `shrink_operands` and `extend_operands` -/

theorem operand_next_offset_at_eq {cp : ConstantPool} {ops : List Nat}
    (h : cp.operands = some ops) (hlen : ops.length < 2147483648)
    {i : Nat} (hi : 2 * i + 1 < ops.length)
    (hn : operands_next ops i ≤ ops.length) :
    cp.operand_next_offset_at (i : Int) = .ok (operands_next ops i) := by
  unfold operand_next_offset_at argument_count
  rw [if_neg (by omega)]
  simp only [Int.toNat_ofNat]
  unfold operands_next at hn
  rw [bsm_attribute_entry_eq (operand_offset_at_eq h hi (by omega))]
  simp only [ok_bind]
  rw [operand_at_eq h (by omega)]
  rfl

/-- C19 (as amended): for a well-formed operands array of `old_len` specifiers and
`1 <= new_len < old_len`, `shrink_operands(new_len)` returns.  When the allocation of
the new array fails, the exception is pending and the pool is as it was.  When the
allocation succeeds, no exception is pending and the table has the specifier count
`new_len`, the array length is the old end offset of specifier `new_len - 1` minus
`2*(old_len - new_len)`, and the specifiers below `new_len` are read as before.
`shrink_operands(old_len)` returns the pool unchanged and allocates nothing. -/
theorem shrink_operands_spec (cp : ConstantPool) (loader_data : ClassLoaderData)
    (ops : List Nat) (new_len : Nat)
    (h : cp.operands = some ops) (hwf : OperandsWF ops)
    (h1 : 1 ≤ new_len) (h2 : new_len < operands_count ops) :
    cp.operand_array_length = .ok (operands_count ops) ∧
    cp.operand_next_offset_at ((new_len : Int) - 1) = .ok (operands_next ops (new_len - 1)) ∧
    (∀ e, loader_data.new_array_fails
        ((operands_next ops (new_len - 1) - 2 * (operands_count ops - new_len) : Nat) : Int) =
        some e →
      cp.shrink_operands loader_data (new_len : Int) = .ok (cp, some e)) ∧
    (loader_data.new_array_fails
        ((operands_next ops (new_len - 1) - 2 * (operands_count ops - new_len) : Nat) : Int) =
        none →
      ∃ cp', cp.shrink_operands loader_data (new_len : Int) = .ok (cp', none) ∧
        cp'.slots = cp.slots ∧
        cp'.operand_array_length = .ok new_len ∧
        cp'.operands_length =
          .ok (operands_next ops (new_len - 1) - 2 * (operands_count ops - new_len)) ∧
        ∀ idx, idx < new_len →
          ∃ s, cp.specifier_at idx = .ok s ∧ cp'.specifier_at idx = .ok s) ∧
    cp.shrink_operands loader_data (operands_count ops : Int) = .ok (cp, none) := by
  have hne := wf_ne_nil (show 1 ≤ operands_count ops by omega)
  obtain ⟨hlen2, h0, hc, hall⟩ := hwf.2 hne
  have hcount := operand_array_length_wf h hwf hne
  have hcast : ((new_len : Int) - 1) = ((new_len - 1 : Nat) : Int) := by omega
  have hfb : cp.operand_next_offset_at ((new_len : Int) - 1) =
      .ok (operands_next ops (new_len - 1)) := by
    rw [hcast]
    exact operand_next_offset_at_eq h hwf.1 (wf_index_lt hwf hne (by omega))
      (hall (new_len - 1) (by omega)).1
  have hfb_le := (hall (new_len - 1) (by omega)).1
  have hfb_ge : 2 * operands_count ops + 2 ≤ operands_next ops (new_len - 1) := by
    have := wf_offset_ge hwf hne (new_len - 1) (by omega)
    unfold operands_next
    omega
  have hshrink : cp.shrink_operands loader_data (new_len : Int) =
      cp.resize_operands loader_data ((new_len : Int) - (operands_count ops : Int))
        (2 * ((new_len : Int) - (operands_count ops : Int)) +
          (operands_next ops (new_len - 1) : Int) - (ops.length : Int)) := by
    unfold shrink_operands
    rw [hcount]
    simp only [ok_bind]
    rw [if_neg (by omega), hfb, operands_length_eq h]
    rfl
  have hwl := hwf.1
  refine ⟨hcount, hfb, fun e hf => ?_, fun halloc => ?_, ?_⟩
  · rw [hshrink]
    exact resize_operands_fails h hlen2 (wf_first_lt hwf hne) loader_data _ _
      (operands_next ops (new_len - 1) - 2 * (operands_count ops - new_len)) (by omega) hf
  · obtain ⟨ops', hres, hlen', hoff', hdata', -⟩ := resize_operands_spec h hlen2
      (wf_first_lt hwf hne) loader_data
      ((new_len : Int) - (operands_count ops : Int))
      (2 * ((new_len : Int) - (operands_count ops : Int)) +
        (operands_next ops (new_len - 1) : Int) - (ops.length : Int))
      new_len new_len
      (operands_next ops (new_len - 1) - 2 * (operands_count ops - new_len))
      (operands_next ops (new_len - 1) - 2 * operands_count ops) halloc
      (by omega) (by rw [if_neg (by omega)]) (by omega)
      (by rw [if_neg (by omega)]; omega) (by omega) (by omega) (by omega)
    have hoffv : ∀ idx, idx < new_len → operands_offset ops' idx =
        operands_offset ops idx - 2 * (operands_count ops - new_len) := by
      intro idx hidx
      rw [hoff' idx hidx]
      have := wf_offset_ge hwf hne idx (by omega)
      have := operands_offset_lt ops idx
      omega
    have hoffb : ∀ idx, idx < new_len → operands_offset ops' idx < 2147483648 := by
      intro idx hidx
      rw [hoffv idx hidx]
      have := wf_offset_lt hwf hne (show idx < operands_count ops by omega)
      omega
    refine ⟨cp.set_operands ops', ?_, rfl, ?_, ?_, fun idx hidx => ?_⟩
    · rw [hshrink]
      exact hres
    · rw [operand_array_length_eq (set_operands_operands cp ops') (by omega)
        (hoffb 0 (by omega))]
      unfold operands_count
      rw [hoffv 0 (by omega), h0]
      unfold operands_count
      congr 2
      omega
    · rw [operands_length_eq (set_operands_operands cp ops'), hlen']
    · have hi := wf_index_lt hwf hne (show idx < operands_count ops by omega)
      have he := operand_offset_at_eq h hi
        (wf_offset_lt hwf hne (show idx < operands_count ops by omega))
      have hge := wf_offset_ge hwf hne idx (by omega)
      have he' : (cp.set_operands ops').operand_offset_at idx =
          .ok ((operands_offset ops idx - 2 * (operands_count ops - new_len) : Nat) : Int) := by
        rw [operand_offset_at_eq (set_operands_operands cp ops') (by omega) (hoffb idx hidx),
          hoffv idx hidx]
      obtain ⟨s, hs, -⟩ := specifier_at_ok h hwf.1 hi (hall idx (by omega)).1
      refine ⟨s, hs, ?_⟩
      refine specifier_at_transfer h (set_operands_operands cp ops') he he' ?_ hs
      intro m v hm hv
      have hmono := wf_next_mono hwf hne (new_len - 1) (by omega) idx (by omega)
      have hnx : operands_next ops idx =
          operands_offset ops idx + 2 + ops.getD (operands_offset ops idx + 1) 0 := rfl
      rw [hdata' _ (by omega) (by omega), ← hv]
      congr 1
      omega
  · unfold shrink_operands
    rw [hcount]
    simp only [ok_bind, if_true]
    rfl

theorem shrink_operands_spec_witness :
    ∃ cp', twoSpecifierPool.shrink_operands roomyLoaderData 1 = .ok (cp', none) ∧
      cp'.operand_array_length = .ok 1 ∧ cp'.operands_length = .ok 5 ∧
      ∃ s, twoSpecifierPool.specifier_at 0 = .ok s ∧ cp'.specifier_at 0 = .ok s := by
  obtain ⟨-, -, -, hshrink, -⟩ := shrink_operands_spec twoSpecifierPool roomyLoaderData
    [4, 0, 7, 0, 10, 1, 9, 7, 0] 1 rfl (by decide) (by decide) (by decide)
  obtain ⟨cp', hres, -, hcount, hlen, hall⟩ := hshrink rfl
  exact ⟨cp', hres, hcount, hlen, hall 0 (by decide)⟩

/-- C19, as stated, fails: the table of `twoSpecifierPool` is well formed and holds two
specifiers; `shrink_operands(1)` in an exhausted metaspace returns with the exception
of the failed allocation pending, and the table still holds its two specifiers in its
nine shorts. -/
theorem shrink_operands_allocation_fails :
    OperandsWF [4, 0, 7, 0, 10, 1, 9, 7, 0] ∧
    twoSpecifierPool.operands = some [4, 0, 7, 0, 10, 1, 9, 7, 0] ∧
    twoSpecifierPool.operand_array_length = .ok 2 ∧
    twoSpecifierPool.shrink_operands exhaustedLoaderData 1 =
      .ok (twoSpecifierPool, some ⟨2004, none, .self⟩) ∧
    (twoSpecifierPool.shrink_operands exhaustedLoaderData 1 >>= fun r =>
      r.1.operand_array_length) = .ok 2 ∧
    (twoSpecifierPool.shrink_operands exhaustedLoaderData 1 >>= fun r =>
      r.1.operands_length) = .ok 9 := by
  decide

/-- C20 (as amended): `extend_operands(ext_cp)` returns the pool unchanged, and allocates
nothing, when `ext_cp` holds no bootstrap specifier.  For a well-formed `ext_cp` table
of at least one specifier it allocates one array: when that allocation fails, the
exception is pending and the pool is as it was; when it succeeds, a pool without
specifiers gets a table with the specifier count and the array length of `ext_cp`, and
a pool with a well-formed table of at least one specifier gets a table whose specifier
count and array length are the sums of the two counts and of the two lengths, in which
every specifier held before is read unchanged at its old index. -/
theorem extend_operands_spec (cp : ConstantPool) (loader_data : ClassLoaderData)
    (ext_cp : ConstantPool) :
    (ext_cp.operand_array_length = .ok 0 →
      cp.extend_operands loader_data ext_cp = .ok (cp, none)) ∧
    (∀ ext_ops, ext_cp.operands = some ext_ops → OperandsWF ext_ops →
      1 ≤ operands_count ext_ops →
      ext_cp.operand_array_length = .ok (operands_count ext_ops) ∧
      (cp.operand_array_length = .ok 0 →
        (∀ e, loader_data.new_array_fails (ext_ops.length : Int) = some e →
          cp.extend_operands loader_data ext_cp = .ok (cp, some e)) ∧
        (loader_data.new_array_fails (ext_ops.length : Int) = none →
          ∃ cp', cp.extend_operands loader_data ext_cp = .ok (cp', none) ∧
            cp'.slots = cp.slots ∧
            cp'.operand_array_length = .ok ((0 + operands_count ext_ops : Nat) : Int) ∧
            cp'.operands_length = .ok (0 + ext_ops.length))) ∧
      (∀ ops, cp.operands = some ops → OperandsWF ops → 1 ≤ operands_count ops →
        ops.length + ext_ops.length < 2147483648 →
        cp.operand_array_length = .ok (operands_count ops) ∧
        (∀ e, loader_data.new_array_fails ((ops.length + ext_ops.length : Nat) : Int) =
            some e →
          cp.extend_operands loader_data ext_cp = .ok (cp, some e)) ∧
        (loader_data.new_array_fails ((ops.length + ext_ops.length : Nat) : Int) = none →
          ∃ cp', cp.extend_operands loader_data ext_cp = .ok (cp', none) ∧
            cp'.slots = cp.slots ∧
            cp'.operand_array_length =
              .ok ((operands_count ops + operands_count ext_ops : Nat) : Int) ∧
            cp'.operands_length = .ok (ops.length + ext_ops.length) ∧
            ∀ idx, idx < operands_count ops →
              ∃ s, cp.specifier_at idx = .ok s ∧ cp'.specifier_at idx = .ok s))) := by
  constructor
  · intro h0
    unfold extend_operands
    rw [h0]
    simp only [ok_bind, if_true]
    rfl
  · intro ext_ops hext hwfe hne1
    have hnee := wf_ne_nil hne1
    obtain ⟨hlen2e, h0e, hce, halle⟩ := hwfe.2 hnee
    have hcounte := operand_array_length_wf hext hwfe hnee
    have hwle := hwfe.1
    refine ⟨hcounte, ?_, ?_⟩
    · intro hempty
      have hext_eq : cp.extend_operands loader_data ext_cp =
          (new_array (0 : Nat) loader_data (ext_ops.length : Int) >>= fun r =>
            match r with
            | .error e => pure (cp, some e)
            | .ok new_ops => do
              let new_ops ← operand_offset_at_put new_ops 0
                (2 * ((operands_count ext_ops : Nat) : Int))
              pure (cp.set_operands new_ops, none)) := by
        unfold extend_operands
        rw [hcounte]
        simp only [ok_bind]
        rw [if_neg (by omega), operands_length_eq hext, hempty]
        simp only [ok_bind, if_true]
      refine ⟨fun e hf => ?_, fun halloc => ?_⟩
      · rw [hext_eq, new_array_fails 0 hf]
        rfl
      · obtain ⟨l, hput, hlen, hoff, -⟩ := operand_offset_at_put_spec
          (List.replicate ext_ops.length 0) 0 (2 * (operands_count ext_ops : Int))
          (by rw [List.length_replicate]; omega)
        rw [List.length_replicate] at hlen
        have hoffl : operands_offset l 0 = 2 * operands_count ext_ops := by
          rw [hoff]
          omega
        refine ⟨cp.set_operands l, ?_, rfl, ?_, ?_⟩
        · rw [hext_eq, new_array_eq 0 halloc]
          simp only [ok_bind]
          rw [hput]
          rfl
        · rw [operand_array_length_eq (set_operands_operands cp l) (by omega) (by omega)]
          unfold operands_count
          rw [hoffl]
          unfold operands_count at hce ⊢
          congr 2
          omega
        · rw [operands_length_eq (set_operands_operands cp l), hlen, Nat.zero_add]
    · intro ops h hwf hn hsz
      have hne := wf_ne_nil hn
      obtain ⟨hlen2, h0, hc, hall⟩ := hwf.2 hne
      have hcount := operand_array_length_wf h hwf hne
      have hext_eq : cp.extend_operands loader_data ext_cp =
          cp.resize_operands loader_data ((operands_count ext_ops : Nat) : Int)
            ((ext_ops.length : Nat) : Int) := by
        unfold extend_operands
        rw [hcounte]
        simp only [ok_bind]
        rw [if_neg (by omega), operands_length_eq hext, hcount]
        simp only [ok_bind]
        rw [if_neg (by omega)]
      refine ⟨hcount, fun e hf => ?_, fun halloc => ?_⟩
      · rw [hext_eq]
        exact resize_operands_fails h hlen2 (wf_first_lt hwf hne) loader_data _ _
          (ops.length + ext_ops.length) (by push_cast; rfl) hf
      · obtain ⟨ops', hres, hlen', hcount', hb', hspec⟩ := @resize_operands_grow_aux cp ops
          (operands_count ext_ops) ext_ops.length loader_data h hwf hn (by omega) (by omega)
          hce hsz halloc
        refine ⟨cp.set_operands ops', ?_, rfl, ?_, ?_, fun idx hidx => (hspec idx hidx).2.2⟩
        · rw [hext_eq]
          exact hres
        · rw [operand_array_length_eq (set_operands_operands cp ops') (by omega) hb', hcount']
        · rw [operands_length_eq (set_operands_operands cp ops'), hlen']

theorem extend_operands_spec_witness :
    ∃ cp', twoSpecifierPool.extend_operands roomyLoaderData oneSpecifierPool =
        .ok (cp', none) ∧
      cp'.operand_array_length = .ok 3 ∧ cp'.operands_length = .ok 14 ∧
      ∃ s, twoSpecifierPool.specifier_at 1 = .ok s ∧ cp'.specifier_at 1 = .ok s := by
  obtain ⟨-, -, hgrow⟩ :=
    (extend_operands_spec twoSpecifierPool roomyLoaderData oneSpecifierPool).2
      [2, 0, 9, 1, 5] rfl (by decide) (by decide)
  obtain ⟨-, -, hok⟩ := hgrow [4, 0, 7, 0, 10, 1, 9, 7, 0] rfl
    (by decide) (by decide) (by decide)
  obtain ⟨cp', hres, -, hcount, hlen, hall⟩ := hok rfl
  exact ⟨cp', hres, hcount, hlen, hall 1 (by decide)⟩

/-- C20, as stated, fails: `oneSpecifierPool` holds one specifier in five shorts;
`extend_operands` in an exhausted metaspace returns with the exception of the failed
allocation pending, and the table of `twoSpecifierPool` still holds two specifiers in
nine shorts, and the empty pool still holds no operands. -/
theorem extend_operands_allocation_fails :
    oneSpecifierPool.operand_array_length = .ok 1 ∧
    oneSpecifierPool.operands_length = .ok 5 ∧
    twoSpecifierPool.operand_array_length = .ok 2 ∧
    twoSpecifierPool.operands_length = .ok 9 ∧
    twoSpecifierPool.extend_operands exhaustedLoaderData oneSpecifierPool =
      .ok (twoSpecifierPool, some ⟨2004, none, .self⟩) ∧
    (emptyPool 12).operand_array_length = .ok 0 ∧
    (emptyPool 12).extend_operands exhaustedLoaderData oneSpecifierPool =
      .ok (emptyPool 12, some ⟨2004, none, .self⟩) := by
  decide
/-! ## `copy_operands` -/

theorem conjoint_memory_atomic_spec_int (src dst : List Nat) (sp dp c : Nat)
    (isp idp ic : Int) (h1 : isp = (sp : Int)) (h2 : idp = (dp : Int)) (h3 : ic = (c : Int))
    (hs : sp + c ≤ src.length) (hd : dp + c ≤ dst.length) :
    ∃ l, conjoint_memory_atomic src isp dst idp ic = .ok l ∧
      l.length = dst.length ∧
      ∀ k, l[k]? = if dp ≤ k ∧ k < dp + c then src[sp + (k - dp)]? else dst[k]? := by
  subst h1 h2 h3
  exact conjoint_memory_atomic_spec src dst sp dp c hs hd

theorem copy_operands_of_empty_source (loader_data : ClassLoaderData)
    {from_cp to_cp : ConstantPool} {n : Int}
    (hf : from_cp.operand_array_length = .ok 0) (ht : to_cp.operand_array_length = .ok n) :
    copy_operands loader_data from_cp to_cp = .ok (to_cp, none) := by
  unfold copy_operands
  rw [hf, ht]
  simp only [ok_bind, ne_eq, not_true_eq_false, if_false]
  rfl

/-- The call of `copy_operands` on a source whose specifier count is not 0 and a
destination whose count is 0 is the allocation of an array as long as the source's and
the copy of the source's array into it. -/
theorem copy_operands_into_empty_eq (loader_data : ClassLoaderData)
    {from_cp to_cp : ConstantPool} {fops : List Nat} {f : Int}
    (hf : from_cp.operands = some fops) (hfc : from_cp.operand_array_length = .ok f)
    (hf0 : f ≠ 0) (ht : to_cp.operand_array_length = .ok 0) :
    copy_operands loader_data from_cp to_cp =
      (new_array (0 : Nat) loader_data (fops.length : Int) >>= fun r =>
        match r with
        | .error e => pure (to_cp, some e)
        | .ok new_ops => do
          let new_ops ← conjoint_memory_atomic fops 0 new_ops 0 (fops.length : Int)
          pure (to_cp.set_operands new_ops, none)) := by
  unfold copy_operands
  rw [hfc, ht]
  simp only [ok_bind]
  rw [if_pos hf0]
  simp only [if_true]
  rw [operands_length_eq hf, operands_array_eq hf]
  simp only [ok_bind]

theorem copy_operands_into_empty (loader_data : ClassLoaderData)
    {from_cp to_cp : ConstantPool} {fops : List Nat} {f : Int}
    (hf : from_cp.operands = some fops) (hfc : from_cp.operand_array_length = .ok f)
    (hf0 : f ≠ 0) (ht : to_cp.operand_array_length = .ok 0)
    (halloc : loader_data.new_array_fails (fops.length : Int) = none) :
    copy_operands loader_data from_cp to_cp = .ok (to_cp.set_operands fops, none) := by
  obtain ⟨l, hcopy, hlen, hget⟩ := conjoint_memory_atomic_spec_int fops
    (List.replicate fops.length 0) 0 0 fops.length 0 0 (fops.length : Int) rfl rfl rfl
    (by omega) (by rw [List.length_replicate]; omega)
  rw [List.length_replicate] at hlen
  have hl : l = fops := by
    apply List.ext_getElem?
    intro k
    rw [hget k]
    by_cases hk : k < fops.length
    · rw [if_pos ⟨by omega, by omega⟩]
      congr 1
      omega
    · rw [if_neg (by omega), List.getElem?_eq_none (by rw [List.length_replicate]; omega),
        List.getElem?_eq_none (by omega)]
  rw [copy_operands_into_empty_eq loader_data hf hfc hf0 ht, new_array_eq 0 halloc]
  simp only [ok_bind]
  rw [hcopy, hl]
  rfl

/-- When the allocation fails, `copy_operands` into a destination without specifiers
returns with the exception pending and the destination as it was. -/
theorem copy_operands_into_empty_fails (loader_data : ClassLoaderData)
    {from_cp to_cp : ConstantPool} {fops : List Nat} {f : Int}
    (hf : from_cp.operands = some fops) (hfc : from_cp.operand_array_length = .ok f)
    (hf0 : f ≠ 0) (ht : to_cp.operand_array_length = .ok 0)
    {e : Throwable} (hfail : loader_data.new_array_fails (fops.length : Int) = some e) :
    copy_operands loader_data from_cp to_cp = .ok (to_cp, some e) := by
  rw [copy_operands_into_empty_eq loader_data hf hfc hf0 ht, new_array_fails 0 hfail]
  rfl

/-- When the allocation fails, `copy_operands` into a destination that holds specifiers
returns with the exception pending and the destination as it was. -/
theorem copy_operands_append_fails (loader_data : ClassLoaderData)
    {from_cp to_cp : ConstantPool} {fops tops : List Nat}
    (hf : from_cp.operands = some fops) (ht : to_cp.operands = some tops)
    (hwff : OperandsWF fops) (hwft : OperandsWF tops)
    (hnf : 1 ≤ operands_count fops) (hnt : 1 ≤ operands_count tops)
    {e : Throwable}
    (hfail : loader_data.new_array_fails ((tops.length + fops.length : Nat) : Int) =
      some e) :
    copy_operands loader_data from_cp to_cp = .ok (to_cp, some e) := by
  have hnef := wf_ne_nil hnf
  have hnet := wf_ne_nil hnt
  unfold copy_operands
  rw [operand_array_length_wf hf hwff hnef, operand_array_length_wf ht hwft hnet]
  simp only [ok_bind]
  rw [if_pos (by omega), if_neg (by omega)]
  rw [operands_length_eq hf, operands_length_eq ht]
  simp only [ok_bind]
  have e1 : (tops.length : Int) + (fops.length : Int) =
      ((tops.length + fops.length : Nat) : Int) := by push_cast; rfl
  rw [e1, new_array_fails 0 hfail]
  rfl

theorem copy_operands_append (loader_data : ClassLoaderData)
    {from_cp to_cp : ConstantPool} {fops tops : List Nat}
    (hf : from_cp.operands = some fops) (ht : to_cp.operands = some tops)
    (hwff : OperandsWF fops) (hwft : OperandsWF tops)
    (hnf : 1 ≤ operands_count fops) (hnt : 1 ≤ operands_count tops)
    (hsz : tops.length + fops.length < 2147483648)
    (halloc : loader_data.new_array_fails ((tops.length + fops.length : Nat) : Int) =
      none) :
    ∃ ops', copy_operands loader_data from_cp to_cp = .ok (to_cp.set_operands ops', none) ∧
      ops'.length = tops.length + fops.length ∧
      (∀ k, k < 2 * operands_count tops → ops'[k]? = tops[k]?) ∧
      (∀ j, j < operands_count fops →
        operands_offset ops' (operands_count tops + j) = operands_offset fops j + tops.length) ∧
      (∀ k, 2 * (operands_count tops + operands_count fops) ≤ k →
        k < tops.length + 2 * operands_count fops →
        ops'[k]? = tops[k - 2 * operands_count fops]?) ∧
      (∀ k, tops.length + 2 * operands_count fops ≤ k → k < tops.length + fops.length →
        ops'[k]? = fops[k - tops.length]?) := by
  have hnef := wf_ne_nil hnf
  have hnet := wf_ne_nil hnt
  obtain ⟨hlen2f, h0f, hcf, hallf⟩ := hwff.2 hnef
  obtain ⟨hlen2t, h0t, hct, hallt⟩ := hwft.2 hnet
  obtain ⟨l1, hc1, hlen1, hget1⟩ := conjoint_memory_atomic_spec_int tops
    (List.replicate (tops.length + fops.length) 0) 0 0 (operands_count tops * 2)
    0 0 (((operands_count tops : Nat) : Int) * 2) rfl rfl (by omega) (by omega)
    (by rw [List.length_replicate]; omega)
  rw [List.length_replicate] at hlen1
  obtain ⟨l2, hc2, hlen2, hget2⟩ := conjoint_memory_atomic_spec_int fops l1
    0 (operands_count tops * 2) (operands_count fops * 2)
    0 (0 + ((operands_count tops : Nat) : Int) * 2) (((operands_count fops : Nat) : Int) * 2)
    rfl (by omega) (by omega) (by omega) (by omega)
  obtain ⟨l3, hc3, hlen3, hget3⟩ := conjoint_memory_atomic_spec_int tops l2
    (operands_count tops * 2) (operands_count tops * 2 + operands_count fops * 2)
    (tops.length - operands_count tops * 2)
    (((operands_count tops : Nat) : Int) * 2)
    (0 + ((operands_count tops : Nat) : Int) * 2 + ((operands_count fops : Nat) : Int) * 2)
    ((tops.length : Int) - ((operands_count tops : Nat) : Int) * 2)
    (by omega) (by omega) (by omega) (by omega) (by omega)
  obtain ⟨l4, hc4, hlen4, hget4⟩ := conjoint_memory_atomic_spec_int fops l3
    (operands_count fops * 2) (tops.length + operands_count fops * 2)
    (fops.length - operands_count fops * 2)
    (((operands_count fops : Nat) : Int) * 2)
    (0 + ((operands_count tops : Nat) : Int) * 2 + ((operands_count fops : Nat) : Int) * 2 +
      ((tops.length : Int) - ((operands_count tops : Nat) : Int) * 2))
    ((fops.length : Int) - ((operands_count fops : Nat) : Int) * 2)
    (by omega) (by omega) (by omega) (by omega) (by omega)
  obtain ⟨l5, hadj, hlen5, hoff5, hrest5⟩ := adjust_offsets_spec (operands_count tops)
    tops.length (operands_count fops) 0 l4 (by omega)
  refine ⟨l5, ?_, by omega, fun k hk => ?_, fun j hj => ?_, fun k hk1 hk2 => ?_,
    fun k hk1 hk2 => ?_⟩
  · unfold copy_operands
    rw [operand_array_length_wf hf hwff hnef, operand_array_length_wf ht hwft hnet]
    simp only [ok_bind]
    rw [if_pos (by omega), if_neg (by omega)]
    rw [operands_length_eq hf, operands_length_eq ht, operands_array_eq hf,
      operands_array_eq ht]
    simp only [ok_bind]
    have e : (tops.length : Int) + (fops.length : Int) =
        ((tops.length + fops.length : Nat) : Int) := by push_cast; rfl
    rw [e, new_array_eq 0 halloc]
    simp only [ok_bind]
    rw [hc1]
    simp only [ok_bind]
    rw [hc2]
    simp only [ok_bind]
    rw [hc3]
    simp only [ok_bind]
    rw [hc4]
    simp only [ok_bind, Int.toNat_ofNat]
    rw [hadj]
    rfl
  · rw [hrest5 k (Or.inl (by omega)), hget4, if_neg (by omega), hget3, if_neg (by omega),
      hget2, if_neg (by omega), hget1, if_pos ⟨by omega, by omega⟩]
    congr 1
    omega
  · rw [hoff5 j (Nat.zero_le _) (by omega)]
    have hsrc : operands_offset l4 (operands_count tops + j) = operands_offset fops j := by
      apply operands_offset_congr
      · rw [hget4, if_neg (by omega), hget3, if_neg (by omega), hget2,
          if_pos ⟨by omega, by omega⟩]
        congr 1
        omega
      · rw [hget4, if_neg (by omega), hget3, if_neg (by omega), hget2,
          if_pos ⟨by omega, by omega⟩]
        congr 1
        omega
    rw [hsrc]
    have hnx := (hallf j hj).1
    unfold operands_next at hnx
    omega
  · rw [hrest5 k (Or.inr (by omega)), hget4, if_neg (by omega), hget3,
      if_pos ⟨by omega, by omega⟩]
    congr 1
    omega
  · rw [hrest5 k (Or.inr (by omega)), hget4, if_pos ⟨by omega, by omega⟩]
    congr 1
    omega

/-! ## The loop of `copy_cp_to_impl` -/

theorem copied_slots_getElem?_ne (s : CPSlot) (slots : List CPSlot) {to_i j : Nat} (n : Nat)
    (hj : j ≠ to_i) (hj2 : TwoSlotTag s.tag → j ≠ to_i + 1) :
    (copied_slots s slots to_i n)[j]? = slots[j]? := by
  unfold copied_slots
  by_cases h : TwoSlotTag s.tag
  · simp only [h, if_true]
    rw [List.getElem?_set_ne (Ne.symm (hj2 h)), List.getElem?_set_ne (Ne.symm hj)]
  · simp only [h, if_false]
    rw [List.getElem?_set_ne (Ne.symm hj)]

theorem slot_at_congr {cp cp' : ConstantPool} {j j' : Nat}
    (h : cp'.slots[j']? = cp.slots[j]?) : cp'.slot_at j' = cp.slot_at j := by
  unfold slot_at; rw [h]

theorem operand_array_length_congr {cp cp' : ConstantPool} (h : cp'.operands = cp.operands) :
    cp'.operand_array_length = cp.operand_array_length := by
  unfold operand_array_length operand_offset_at operand_at
  rw [h]

theorem first_slots_from_ge (cp : ConstantPool) (end_i : Nat) :
    ∀ (n src i : Nat), i ∈ first_slots_from cp end_i n src → src ≤ i ∧ i ≤ end_i := by
  intro n
  induction n with
  | zero => intro src i h; simp [first_slots_from] at h
  | succ n ih =>
    intro src i h
    rw [first_slots_from] at h
    by_cases hs : src ≤ end_i
    · rw [if_pos hs] at h
      rcases List.mem_cons.mp h with h | h
      · subst h; exact ⟨Nat.le_refl _, hs⟩
      · have := ih _ i h
        have hnext : src < cp.next_entry src := by
          unfold next_entry; split <;> omega
        omega
    · rw [if_neg hs] at h
      simp at h

theorem next_entry_of_tag {cp : ConstantPool} {i t : Nat} (h : cp.tag_at i = .ok t) :
    cp.next_entry i = if t = JVM_CONSTANT_Double ∨ t = JVM_CONSTANT_Long then i + 2
      else i + 1 := by
  unfold next_entry
  rw [h]
  simp only [Except.ok.injEq]

theorem copy_entry_to_spec (heap : SymbolHeap) {from_cp to_cp : ConstantPool}
    {from_i to_i n : Nat} {s : CPSlot}
    (hs : from_cp.slot_at from_i = .ok s) (hc : Copyable s.tag)
    (hd : to_i < to_cp.length) (h2 : TwoSlotTag s.tag → to_i + 1 < to_cp.length)
    (hn : BootstrapTag s.tag → to_cp.operand_array_length = .ok n) :
    ∃ to1 heap1, copy_entry_to heap from_cp from_i to_cp to_i = .ok (to1, heap1) ∧
      to1.operands = to_cp.operands ∧ to1.length = to_cp.length ∧
      to1.slot_at to_i = .ok ⟨demoted_tag s.tag,
        copied_value s (to_cp.slots.getD to_i ⟨0, 0⟩) n⟩ ∧
      ∀ j, j ≠ to_i → (TwoSlotTag s.tag → j ≠ to_i + 1) → to1.slots[j]? = to_cp.slots[j]? := by
  refine ⟨_, _, copy_entry_to_eq heap hs hc hd h2 hn, rfl, ?_, ?_, ?_⟩
  · show (copied_slots s to_cp.slots to_i n).length = _
    rw [copied_slots_length]; rfl
  · exact slot_at_copied s to_cp.operands n (show to_i < to_cp.slots.length from hd)
  · intro j hj hj2
    exact copied_slots_getElem?_ne s to_cp.slots n hj hj2

theorem copy_cp_to_loop_spec (from_cp : ConstantPool) (end_i n0 : Nat) :
    ∀ (fuel src dest : Nat) (to_cp : ConstantPool) (heap : SymbolHeap),
      end_i + 1 - src ≤ fuel →
      (src ≤ end_i → dest + (end_i + 1 - src) ≤ to_cp.length) →
      to_cp.operand_array_length = .ok n0 →
      (∀ i, i ∈ first_slots_from from_cp end_i fuel src →
        ∃ s, from_cp.slot_at i = .ok s ∧ Copyable s.tag ∧
          (TwoSlotTag s.tag → i + 1 ≤ end_i)) →
      ∃ r, copy_cp_to_loop from_cp end_i fuel src dest to_cp heap = .ok r ∧
        r.1.operands = to_cp.operands ∧ r.1.length = to_cp.length ∧
        (∀ k, k < dest → r.1.slots[k]? = to_cp.slots[k]?) ∧
        ∀ i, i ∈ first_slots_from from_cp end_i fuel src →
          ∃ s, from_cp.slot_at i = .ok s ∧
            r.1.slot_at (dest + (i - src)) = .ok ⟨demoted_tag s.tag,
              copied_value s (to_cp.slots.getD (dest + (i - src)) ⟨0, 0⟩) n0⟩ := by
  intro fuel
  induction fuel with
  | zero =>
    intro src dest to_cp heap hfuel _ _ _
    refine ⟨(to_cp, heap), ?_, rfl, rfl, fun k _ => rfl, fun i hi => ?_⟩
    · rw [copy_cp_to_loop, if_neg (by omega)]; rfl
    · simp [first_slots_from] at hi
  | succ fuel ih =>
    intro src dest to_cp heap hfuel hroom hn hwf
    by_cases hs : src ≤ end_i
    · have hmem : src ∈ first_slots_from from_cp end_i (fuel + 1) src := by
        rw [first_slots_from, if_pos hs]; exact List.mem_cons_self _ _
      obtain ⟨s, hslot, hcopyable, htwo⟩ := hwf src hmem
      have htag := tag_at_of_slot hslot
      have hroom' := hroom hs
      have hd : dest < to_cp.length := by omega
      have h2 : TwoSlotTag s.tag → dest + 1 < to_cp.length := by
        intro h; have := htwo h; omega
      obtain ⟨to1, heap1, hcopy, hops1, hlen1, hslot1, hrest1⟩ :=
        copy_entry_to_spec heap hslot hcopyable hd h2 (fun _ => hn)
      clear hcopyable
      have hnext := next_entry_of_tag htag
      have hlist : first_slots_from from_cp end_i (fuel + 1) src =
          src :: first_slots_from from_cp end_i fuel (from_cp.next_entry src) := by
        rw [first_slots_from, if_pos hs]
      have step : ∀ delta, 1 ≤ delta → (TwoSlotTag s.tag → delta = 2) →
          (delta = 2 → src + 1 ≤ end_i) → delta ≤ 2 →
          from_cp.next_entry src = src + delta →
          (∀ r, copy_cp_to_loop from_cp end_i fuel (src + delta) (dest + delta) to1 heap1 =
              .ok r → copy_cp_to_loop from_cp end_i (fuel + 1) src dest to_cp heap = .ok r) →
          ∃ r, copy_cp_to_loop from_cp end_i (fuel + 1) src dest to_cp heap = .ok r ∧
            r.1.operands = to_cp.operands ∧ r.1.length = to_cp.length ∧
            (∀ k, k < dest → r.1.slots[k]? = to_cp.slots[k]?) ∧
            ∀ i, i ∈ first_slots_from from_cp end_i (fuel + 1) src →
              ∃ s, from_cp.slot_at i = .ok s ∧
                r.1.slot_at (dest + (i - src)) = .ok ⟨demoted_tag s.tag,
                  copied_value s (to_cp.slots.getD (dest + (i - src)) ⟨0, 0⟩) n0⟩ := by
        intro delta hd1 hd2 hd3 hd4 hnx hrun
        have hn1 : to1.operand_array_length = .ok n0 :=
          (operand_array_length_congr hops1).trans hn
        have hroom1 : src + delta ≤ end_i →
            dest + delta + (end_i + 1 - (src + delta)) ≤ to1.length := by
          intro _; rw [hlen1]; omega
        have hwf1 : ∀ i, i ∈ first_slots_from from_cp end_i fuel (src + delta) →
            ∃ s, from_cp.slot_at i = .ok s ∧ Copyable s.tag ∧
              (TwoSlotTag s.tag → i + 1 ≤ end_i) := by
          intro i hi
          apply hwf i
          rw [hlist, hnx]
          exact List.mem_cons_of_mem _ hi
        obtain ⟨r, hloop, hops, hlen, hbelow, hall⟩ := ih (src + delta) (dest + delta)
          to1 heap1 (by omega) hroom1 hn1 hwf1
        refine ⟨r, hrun r hloop, hops.trans hops1, hlen.trans hlen1, fun k hk => ?_,
          fun i hi => ?_⟩
        · rw [hbelow k (by omega)]
          exact hrest1 k (by omega) (fun _ => by omega)
        · rw [hlist, hnx] at hi
          rcases List.mem_cons.mp hi with hi | hi
          · subst hi
            refine ⟨s, hslot, ?_⟩
            rw [Nat.sub_self, Nat.add_zero, slot_at_congr (hbelow dest (by omega))]
            exact hslot1
          · obtain ⟨s', hs', hr'⟩ := hall i hi
            have hge := (first_slots_from_ge from_cp end_i fuel _ i hi).1
            refine ⟨s', hs', ?_⟩
            have e : dest + (i - src) = dest + delta + (i - (src + delta)) := by omega
            rw [e, hr']
            have hget := hrest1 (dest + delta + (i - (src + delta))) (by omega)
              (fun h => by have := hd2 h; omega)
            simp only [List.getD_eq_getElem?_getD, hget]
      by_cases h2s : s.tag = JVM_CONSTANT_Double ∨ s.tag = JVM_CONSTANT_Long
      · have h2s' : TwoSlotTag s.tag := by
          rcases h2s with h | h
          · exact Or.inr h
          · exact Or.inl h
        rw [if_pos h2s] at hnext
        refine step 2 (by omega) (fun _ => rfl) (fun _ => htwo h2s') (by omega) hnext ?_
        intro r hr
        rw [copy_cp_to_loop, if_pos hs, hcopy, htag]
        simp only [ok_bind]
        rw [if_pos h2s]
        exact hr
      · have h2s' : ¬ TwoSlotTag s.tag := by
          intro h
          rcases h with h | h
          · exact h2s (Or.inr h)
          · exact h2s (Or.inl h)
        rw [if_neg h2s] at hnext
        refine step 1 (by omega) (fun h => absurd h h2s') (fun h => by omega) (by omega)
          hnext ?_
        intro r hr
        rw [copy_cp_to_loop, if_pos hs, hcopy, htag]
        simp only [ok_bind]
        rw [if_neg h2s]
        exact hr
    · refine ⟨(to_cp, heap), ?_, rfl, rfl, fun k _ => rfl, fun i hi => ?_⟩
      · rw [copy_cp_to_loop, if_neg hs]; rfl
      · rw [first_slots_from, if_neg hs] at hi
        simp at hi

/-! ## Copying a pool into an empty pool -/

theorem emptyPool_length (n : Nat) : (emptyPool n).length = n := by
  unfold length emptyPool
  exact List.length_replicate _ _

theorem emptyPool_operand_array_length (n : Nat) :
    (emptyPool n).operand_array_length = .ok 0 := rfl

theorem emptyPool_getD (n j : Nat) : (emptyPool n).slots.getD j ⟨0, 0⟩ = ⟨0, 0⟩ := by
  unfold emptyPool
  rw [List.getD_eq_getElem?_getD, List.getElem?_replicate]
  split <;> rfl

theorem tdiv_two_nonpos {a : Int} (h : a < 0) : a.tdiv 2 ≤ 0 := by
  have h1 : a = -(-a) := by omega
  rw [h1, Int.neg_tdiv]
  have := Int.tdiv_nonneg (show (0 : Int) ≤ -a by omega) (show (0 : Int) ≤ 2 by omega)
  omega

theorem jint_wrap_neg {v : Nat} (h1 : 2147483648 ≤ v) (h2 : v < 4294967296) :
    jint_wrap (v : Int) < 0 := by
  unfold jint_wrap
  have e : (v : Int) + 2147483648 = ((v : Int) - 2147483648) + 4294967296 := by ring
  rw [e, Int.add_emod_self, Int.emod_eq_of_lt (by omega) (by omega)]
  omega

theorem operand_array_length_eq_wrap {cp : ConstantPool} {ops : List Nat}
    (h : cp.operands = some ops) (hlen : 2 ≤ ops.length) :
    cp.operand_array_length = .ok (Int.tdiv (jint_wrap (operands_offset ops 0)) 2) := by
  unfold operand_array_length
  rw [h]
  cases ops with
  | nil => simp at hlen
  | cons a t =>
    simp only
    rw [operand_offset_at_eq_wrap h (by omega)]
    rfl

/-- A pool whose specifier count is read and is not 0 has an operands array of at least
two shorts. -/
theorem operands_of_length_ne_zero {cp : ConstantPool} {f : Int}
    (h : cp.operand_array_length = .ok f) (hf : f ≠ 0) :
    ∃ ops, cp.operands = some ops ∧ 2 ≤ ops.length := by
  unfold operand_array_length at h
  cases hops : cp.operands with
  | none => rw [hops] at h; exact absurd (Except.ok.inj h).symm hf
  | some ops =>
    rw [hops] at h
    cases ops with
    | nil => exact absurd (Except.ok.inj h).symm hf
    | cons a t =>
      simp only at h
      obtain ⟨e, he, h⟩ := bind_eq_ok.mp h
      unfold operand_offset_at at he
      obtain ⟨lo, hlo, he⟩ := bind_eq_ok.mp he
      obtain ⟨hi, hhi, he⟩ := bind_eq_ok.mp he
      rw [operand_at_eq_ok hops] at hhi
      have hlen : 2 ≤ (a :: t).length := by
        by_contra hc
        rw [List.getElem?_eq_none (by omega)] at hhi
        cases hhi
      exact ⟨a :: t, rfl, hlen⟩

theorem operands_of_length_pos {cp : ConstantPool} {n : Int}
    (h : cp.operand_array_length = .ok n) (hn : 1 ≤ n) :
    ∃ ops, cp.operands = some ops ∧ 2 ≤ ops.length ∧
      operands_offset ops 0 < 2147483648 ∧ n = (operands_count ops : Int) := by
  obtain ⟨ops, hops, hlen⟩ := operands_of_length_ne_zero h (by omega)
  have hb : operands_offset ops 0 < 2147483648 := by
    by_contra hc
    rw [operand_array_length_eq_wrap hops hlen] at h
    have h := Except.ok.inj h
    have := tdiv_two_nonpos (jint_wrap_neg (Nat.le_of_not_lt hc) (operands_offset_lt ops 0))
    omega
  refine ⟨ops, hops, hlen, hb, ?_⟩
  rw [operand_array_length_eq hops hlen hb] at h
  exact (Except.ok.inj h).symm

theorem copyable_at_spec {cp : ConstantPool} {i : Nat} (h : cp.copyable_at i = true) :
    ∃ s, cp.slot_at i = .ok s ∧ Copyable s.tag ∧ (TwoSlotTag s.tag → i + 1 < cp.length) := by
  unfold copyable_at tag_at at h
  cases hs : cp.slot_at i with
  | error e => rw [hs] at h; simp at h
  | ok s =>
    rw [hs] at h
    simp only [map_ok, Bool.and_eq_true, decide_eq_true_eq] at h
    exact ⟨s, rfl, h.1, h.2⟩

theorem first_slots_ge {cp : ConstantPool} {i : Nat} (h : i ∈ cp.first_slots) :
    1 ≤ i ∧ i < cp.length := by
  have := first_slots_from_ge cp _ _ _ i h
  omega

/-- The loop of `copy_cp_to_impl` on a pool that can be copied and an empty destination
of the same length. -/
theorem copy_cp_to_loop_empty (heap : SymbolHeap) (cp : ConstantPool)
    (hwf : CopyableSource cp) :
    ∃ r, copy_cp_to_loop cp (cp.length - 1) (cp.length - 1 + 1 - 1) 1 1
        (emptyPool cp.length) heap = .ok r ∧
      r.1.operands = none ∧ r.1.operand_array_length = .ok 0 ∧ r.1.length = cp.length ∧
      (∀ i, i ∈ cp.first_slots → ∃ s, cp.slot_at i = .ok s ∧
        r.1.slot_at i = .ok ⟨demoted_tag s.tag, copied_value s ⟨0, 0⟩ 0⟩) := by
  obtain ⟨hentries, hops⟩ := hwf
  have hfuel : cp.length - 1 + 1 - 1 = cp.length - 1 := by omega
  obtain ⟨r, hloop, hrops, hrlen, -, hall⟩ := copy_cp_to_loop_spec cp (cp.length - 1) 0
    (cp.length - 1) 1 1 (emptyPool cp.length) heap (by omega)
    (by intro h; rw [emptyPool_length]; omega) (emptyPool_operand_array_length _)
    (by
      intro i hi
      obtain ⟨s, hs, hc, h2⟩ := copyable_at_spec (hentries i hi)
      exact ⟨s, hs, hc, fun h => by have := h2 h; omega⟩)
  rw [emptyPool_length] at hrlen
  refine ⟨r, by rw [hfuel]; exact hloop, hrops,
    (operand_array_length_congr hrops).trans (emptyPool_operand_array_length _), hrlen, ?_⟩
  intro i hi
  obtain ⟨s, hs, hr⟩ := hall i hi
  have hge := (first_slots_ge hi).1
  have e : 1 + (i - 1) = i := by omega
  rw [e, emptyPool_getD] at hr
  exact ⟨s, hs, hr⟩

theorem copy_cp_to_impl_empty (loader_data : ClassLoaderData) (heap : SymbolHeap)
    (cp : ConstantPool) (hwf : CopyableSource cp)
    (halloc : ∀ ops, cp.operands = some ops → cp.operand_array_length ≠ .ok 0 →
      loader_data.new_array_fails (ops.length : Int) = none) :
    ∃ r, copy_cp_to_impl loader_data heap cp 1 (cp.length - 1) (emptyPool cp.length) 1 =
        .ok (r, none) ∧
      r.1.length = cp.length ∧
      (∀ i, i ∈ cp.first_slots → ∃ s, cp.slot_at i = .ok s ∧
        r.1.slot_at i = .ok ⟨demoted_tag s.tag, copied_value s ⟨0, 0⟩ 0⟩) ∧
      (∀ n, cp.operand_array_length = .ok n → 1 ≤ n → r.1.operands = cp.operands) := by
  obtain ⟨r, hloop, -, hrn, hrlen, hslots⟩ := copy_cp_to_loop_empty heap cp hwf
  obtain ⟨f, hf⟩ : ∃ f, cp.operand_array_length = .ok f := by
    have hok : cp.operand_array_length.isOk = true := hwf.2
    cases hx : cp.operand_array_length with
    | error e => rw [hx] at hok; cases hok
    | ok f => exact ⟨f, rfl⟩
  by_cases hf0 : f = 0
  · subst hf0
    refine ⟨(r.1, r.2), ?_, hrlen, hslots, fun n hn h1 => ?_⟩
    · unfold copy_cp_to_impl
      rw [hloop]
      simp only [ok_bind]
      rw [copy_operands_of_empty_source loader_data hf hrn]
      rfl
    · rw [hf] at hn
      have := Except.ok.inj hn
      omega
  · obtain ⟨fops, hfops, -⟩ := operands_of_length_ne_zero hf hf0
    have hne : cp.operand_array_length ≠ .ok 0 := by
      rw [hf]
      intro hc
      exact hf0 (Except.ok.inj hc)
    refine ⟨(r.1.set_operands fops, r.2), ?_, hrlen, hslots, fun n hn h1 => ?_⟩
    · unfold copy_cp_to_impl
      rw [hloop]
      simp only [ok_bind]
      rw [copy_operands_into_empty loader_data hfops hf hf0 hrn (halloc fops hfops hne)]
      rfl
    · rw [hfops]; rfl

/-- When the allocation of the operands array fails, `copy_cp_to_impl` into an empty
destination returns with the exception pending: the entries are copied and the
destination has no operands. -/
theorem copy_cp_to_impl_empty_fails (loader_data : ClassLoaderData) (heap : SymbolHeap)
    (cp : ConstantPool) (hwf : CopyableSource cp) {ops : List Nat} {e : Throwable}
    (hops : cp.operands = some ops) (hne : cp.operand_array_length ≠ .ok 0)
    (hfail : loader_data.new_array_fails (ops.length : Int) = some e) :
    ∃ r, copy_cp_to_impl loader_data heap cp 1 (cp.length - 1) (emptyPool cp.length) 1 =
        .ok (r, some e) ∧
      r.1.length = cp.length ∧ r.1.operands = none ∧
      (∀ i, i ∈ cp.first_slots → ∃ s, cp.slot_at i = .ok s ∧
        r.1.slot_at i = .ok ⟨demoted_tag s.tag, copied_value s ⟨0, 0⟩ 0⟩) := by
  obtain ⟨r, hloop, hrops, hrn, hrlen, hslots⟩ := copy_cp_to_loop_empty heap cp hwf
  obtain ⟨f, hf⟩ : ∃ f, cp.operand_array_length = .ok f := by
    have hok : cp.operand_array_length.isOk = true := hwf.2
    cases hx : cp.operand_array_length with
    | error e => rw [hx] at hok; cases hok
    | ok f => exact ⟨f, rfl⟩
  have hf0 : f ≠ 0 := by
    intro hc
    rw [hf, hc] at hne
    exact hne rfl
  refine ⟨(r.1, r.2), ?_, hrlen, hrops, hslots⟩
  unfold copy_cp_to_impl
  rw [hloop]
  simp only [ok_bind]
  rw [copy_operands_into_empty_fails loader_data hops hf hf0 hrn hfail]
  rfl

/-! ## Comparing a pool with its copy -/

theorem operand_at_of_operands_eq {cp cp' : ConstantPool} (h : cp'.operands = cp.operands) (k : Nat) :
    cp'.operand_at k = cp.operand_at k := by
  unfold operand_at; rw [h]

theorem operand_offset_at_of_operands_eq {cp cp' : ConstantPool} (h : cp'.operands = cp.operands)
    (i : Nat) : cp'.operand_offset_at i = cp.operand_offset_at i := by
  unfold operand_offset_at
  simp only [operand_at_of_operands_eq h]

theorem argument_indices_get {cp : ConstantPool} (e : Nat) :
    ∀ (n j : Nat) (l : List Nat), cp.argument_indices e n j = .ok l →
      ∀ k, k < n → ∃ a, cp.argument_index e (j + k) = .ok a ∧ a ∈ l := by
  intro n
  induction n with
  | zero => intro j l _ k hk; omega
  | succ n ih =>
    intro j l hl k hk
    rw [argument_indices] at hl
    obtain ⟨a, ha, hl⟩ := bind_eq_ok.mp hl
    obtain ⟨rest, hrest, hl⟩ := bind_eq_ok.mp hl
    cases hl
    cases k with
    | zero => exact ⟨a, ha, List.mem_cons_self _ _⟩
    | succ k =>
      obtain ⟨b, hb, hmem⟩ := ih (j + 1) rest hrest k (by omega)
      refine ⟨b, ?_, List.mem_cons_of_mem _ hmem⟩
      have e' : j + (k + 1) = j + 1 + k := by omega
      rw [e']; exact hb

theorem compare_operand_with_self (cmp : Nat → Nat → Except Fault Bool)
    {cp cp' : ConstantPool} (h : cp'.operands = cp.operands) {idx : Nat} {sp : Specifier}
    (hsp : cp.specifier_at idx = .ok sp)
    (hbsm : cmp sp.bootstrap_method_index sp.bootstrap_method_index = .ok true)
    (hargs : ∀ a, a ∈ sp.arguments → cmp a a = .ok true) :
    compare_operand_with cmp cp idx cp' idx = .ok true := by
  unfold specifier_at at hsp
  obtain ⟨e, he, hsp⟩ := bind_eq_ok.mp hsp
  obtain ⟨bsm, hb, hsp⟩ := bind_eq_ok.mp hsp
  obtain ⟨argc, hc, hsp⟩ := bind_eq_ok.mp hsp
  obtain ⟨args, ha, hsp⟩ := bind_eq_ok.mp hsp
  cases hsp
  have he' : cp'.bsm_attribute_entry idx = .ok e := by
    unfold bsm_attribute_entry at he ⊢
    rw [operand_offset_at_of_operands_eq h]; exact he
  have hb' : cp'.bootstrap_method_index e = .ok bsm := by
    unfold bootstrap_method_index at hb ⊢
    rw [operand_at_of_operands_eq h]; exact hb
  have hc' : cp'.argument_count e = .ok argc := by
    unfold argument_count at hc ⊢
    rw [operand_at_of_operands_eq h]; exact hc
  rw [compare_operand_with_eq_true cmp he he' hb hb' hc hc']
  refine ⟨hbsm, rfl, fun k hk => ?_⟩
  obtain ⟨a, hak, hmem⟩ := argument_indices_get e argc 0 args ha k hk
  rw [Nat.zero_add] at hak
  refine ⟨a, a, hak, ?_, hargs a hmem⟩
  unfold argument_index at hak ⊢
  rw [operand_at_of_operands_eq h]; exact hak

theorem copied_int_eq {s : CPSlot} (h1 : ¬ KlassTag s.tag) (h2 : ¬ WordTag s.tag) :
    copied_value s ⟨0, 0⟩ 0 % 4294967296 = s.value % 4294967296 := by
  by_cases h3 : BootstrapTag s.tag
  · rw [copied_value_bootstrap _ 0 h3, Nat.add_zero, pack_shorts_extract, Nat.mod_mod]
  · exact copied_value_other _ 0 h1 h2 h3

set_option maxHeartbeats 4000000 in
theorem copy_stable_compare {cp cp' : ConstantPool}
    (hslots : ∀ i, i ∈ cp.first_slots → ∃ s, cp.slot_at i = .ok s ∧
      cp'.slot_at i = .ok ⟨demoted_tag s.tag, copied_value s ⟨0, 0⟩ 0⟩)
    (hops : ∀ n, cp.operand_array_length = .ok n → 1 ≤ n → cp'.operands = cp.operands) :
    ∀ fuel i, copy_stable fuel cp i = true → compare_entry_to fuel cp i cp' i = .ok true := by
  intro fuel
  induction fuel with
  | zero => intro i h; simp [copy_stable] at h
  | succ fuel ih =>
    intro i h
    rw [copy_stable, Bool.and_eq_true, decide_eq_true_eq] at h
    obtain ⟨hmem, h⟩ := h
    obtain ⟨s, hs, hd⟩ := hslots i hmem
    rw [hs] at h
    simp only at h
    have ht1 := tag_at_of_slot hs
    have ht2 := tag_at_of_slot hd
    have hi1 := int_at_addr_of_slot hs
    have hi2 := int_at_addr_of_slot hd
    have hw1 := symbol_at_addr_of_slot hs
    have hw2 := symbol_at_addr_of_slot hd
    have hl1 := long_at_of_slot hs
    have hl2 := long_at_of_slot hd
    have hd1 := double_at_of_slot hs
    have hd2 := double_at_of_slot hd
    simp only at ht2 hi2 hw2 hl2 hd2
    have H1 : s.tag = JVM_CONSTANT_Utf8 ∨ s.tag = JVM_CONSTANT_String →
        cp'.symbol_at_addr i = .ok s.value := by
      intro hc; rw [hw2, copied_value_symbol _ 0 hc]
    have H2 : TwoSlotTag s.tag → cp'.long_at i = .ok (s.value % 18446744073709551616) ∧
        cp'.double_at i = .ok (s.value % 18446744073709551616) := by
      intro hc
      rw [hl2, hd2, copied_value_two_slot _ 0 hc, Nat.mod_mod]
      exact ⟨rfl, rfl⟩
    have H3 : ¬ KlassTag s.tag → ¬ WordTag s.tag →
        cp'.int_at_addr i = .ok (s.value % 4294967296) := by
      intro hc1 hc2; rw [hi2, copied_int_eq hc1 hc2]
    clear hi2 hw2 hl2 hd2
    rw [compare_entry_to]
    have hcases : s.tag = JVM_CONSTANT_Utf8 ∨ s.tag = JVM_CONSTANT_String ∨
        s.tag = JVM_CONSTANT_Integer ∨ s.tag = JVM_CONSTANT_Long ∨
        s.tag = JVM_CONSTANT_Float ∨ s.tag = JVM_CONSTANT_Double ∨
        s.tag = JVM_CONSTANT_ClassIndex ∨ s.tag = JVM_CONSTANT_StringIndex ∨
        s.tag = JVM_CONSTANT_MethodType ∨ s.tag = JVM_CONSTANT_MethodTypeInError ∨
        s.tag = JVM_CONSTANT_Fieldref ∨ s.tag = JVM_CONSTANT_Methodref ∨
        s.tag = JVM_CONSTANT_InterfaceMethodref ∨ s.tag = JVM_CONSTANT_NameAndType ∨
        s.tag = JVM_CONSTANT_MethodHandle ∨ s.tag = JVM_CONSTANT_MethodHandleInError ∨
        s.tag = JVM_CONSTANT_Dynamic ∨ s.tag = JVM_CONSTANT_DynamicInError ∨
        s.tag = JVM_CONSTANT_InvokeDynamic := by
      split_ifs at h with c1 c2 c3 c4 c5 c6 c7
      · rcases c1 with c | c | c | c <;> simp only [c, true_or, or_true]
      · simp only [c2, true_or, or_true]
      · simp only [c3, true_or, or_true]
      · rcases c4 with c | c | c | c <;> simp only [c, true_or, or_true]
      · rcases c5 with c | c | c | c <;> simp only [c, true_or, or_true]
      · rcases c6 with c | c <;> simp only [c, true_or, or_true]
      · rcases c7 with c | c | c <;> simp only [c, true_or, or_true]
    rcases hcases with hk | hk | hk | hk | hk | hk | hk | hk | hk | hk | hk | hk | hk | hk |
      hk | hk | hk | hk | hk
    all_goals
      rw [hk] at ht1 ht2
      simp only [hk, demoted_tag, KlassTag, BootstrapTag, JVM_CONSTANT_Invalid,
        JVM_CONSTANT_Utf8, JVM_CONSTANT_Integer,
        JVM_CONSTANT_Float, JVM_CONSTANT_Long, JVM_CONSTANT_Double, JVM_CONSTANT_Class,
        JVM_CONSTANT_String, JVM_CONSTANT_Fieldref, JVM_CONSTANT_Methodref,
        JVM_CONSTANT_InterfaceMethodref, JVM_CONSTANT_NameAndType, JVM_CONSTANT_MethodHandle,
        JVM_CONSTANT_MethodType, JVM_CONSTANT_Dynamic, JVM_CONSTANT_InvokeDynamic,
        JVM_CONSTANT_UnresolvedClass, JVM_CONSTANT_ClassIndex, JVM_CONSTANT_StringIndex,
        JVM_CONSTANT_UnresolvedClassInError, JVM_CONSTANT_MethodHandleInError,
        JVM_CONSTANT_MethodTypeInError, JVM_CONSTANT_DynamicInError, Nat.reduceEqDiff,
        or_false, false_or, or_true, true_or, or_self, if_true, if_false] at ht1 ht2 h
      simp only [hk, KlassTag, WordTag, TwoSlotTag, JVM_CONSTANT_Invalid,
        JVM_CONSTANT_Utf8, JVM_CONSTANT_Integer,
        JVM_CONSTANT_Float, JVM_CONSTANT_Long, JVM_CONSTANT_Double, JVM_CONSTANT_Class,
        JVM_CONSTANT_String, JVM_CONSTANT_Fieldref, JVM_CONSTANT_Methodref,
        JVM_CONSTANT_InterfaceMethodref, JVM_CONSTANT_NameAndType, JVM_CONSTANT_MethodHandle,
        JVM_CONSTANT_MethodType, JVM_CONSTANT_Dynamic, JVM_CONSTANT_InvokeDynamic,
        JVM_CONSTANT_UnresolvedClass, JVM_CONSTANT_ClassIndex, JVM_CONSTANT_StringIndex,
        JVM_CONSTANT_UnresolvedClassInError, JVM_CONSTANT_MethodHandleInError,
        JVM_CONSTANT_MethodTypeInError, JVM_CONSTANT_DynamicInError, Nat.reduceEqDiff,
        or_false, false_or, or_true, true_or, or_self, not_false_eq_true, not_true_eq_false,
        forall_const, false_implies, true_implies] at H1 H2 H3
      simp only [compare_entry_with, ht1, ht2, ok_bind, constantTag.non_error_value,
        JVM_CONSTANT_Invalid, JVM_CONSTANT_Utf8, JVM_CONSTANT_Integer,
        JVM_CONSTANT_Float, JVM_CONSTANT_Long, JVM_CONSTANT_Double, JVM_CONSTANT_Class,
        JVM_CONSTANT_String, JVM_CONSTANT_Fieldref, JVM_CONSTANT_Methodref,
        JVM_CONSTANT_InterfaceMethodref, JVM_CONSTANT_NameAndType, JVM_CONSTANT_MethodHandle,
        JVM_CONSTANT_MethodType, JVM_CONSTANT_Dynamic, JVM_CONSTANT_InvokeDynamic,
        JVM_CONSTANT_UnresolvedClass, JVM_CONSTANT_ClassIndex, JVM_CONSTANT_StringIndex,
        JVM_CONSTANT_UnresolvedClassInError, JVM_CONSTANT_MethodHandleInError,
        JVM_CONSTANT_MethodTypeInError, JVM_CONSTANT_DynamicInError, Nat.reduceEqDiff,
        or_false, false_or, or_true, true_or, or_self, if_true, if_false, ne_eq,
        not_true_eq_false, not_false_eq_true]
    all_goals
      simp only [symbol_at, unresolved_string_at, int_at, float_at, klass_index_at,
        string_index_at, method_type_index_at, name_and_type_at, method_handle_ref_kind_at,
        method_handle_index_at, bootstrap_methods_attribute_index,
        bootstrap_name_and_type_ref_index_at,
        uncached_klass_ref_index_at, uncached_name_and_type_ref_index_at, name_ref_index_at,
        signature_ref_index_at, ht1, ht2, hi1, hw1, hl1, hd1, H1, H2, H3,
        constantTag.has_bootstrap,
        JVM_CONSTANT_Dynamic, JVM_CONSTANT_InvokeDynamic, JVM_CONSTANT_DynamicInError,
        map_ok, ok_bind, pure_eq_ok, Nat.reduceEqDiff, decide_False, decide_True,
        Bool.or_false, Bool.false_or, Bool.or_true, Bool.true_or, if_true, if_false,
        Bool.false_eq_true, h]
    all_goals
      first
      | (rw [ih _ h]; rfl)
      | (rw [Bool.and_eq_true] at h
         rw [ih _ h.1]
         simp only [ok_bind, if_true]
         rw [ih _ h.2]
         rfl)
      | (rw [Bool.and_eq_true] at h
         obtain ⟨hnt, hm⟩ := h
         rw [ih _ hnt]
         simp only [ok_bind]
         cases hlen : cp.operand_array_length with
         | error e => rw [hlen] at hm; simp at hm
         | ok n =>
           cases hsp : cp.specifier_at (extract_low_short_from_int (s.value % 4294967296)) with
           | error e => rw [hlen, hsp] at hm; simp at hm
           | ok sp =>
             rw [hlen, hsp] at hm
             simp only [Bool.and_eq_true, decide_eq_true_eq, List.all_eq_true] at hm
             obtain ⟨⟨h1n, hbsm⟩, hargs⟩ := hm
             rw [compare_operand_with_self _ (hops n hlen h1n) hsp (ih _ hbsm)
               (fun a ha => ih a (hargs a ha))]
             rfl)

/-- C14 (as amended): for a source pool whose every entry can be copied, `copy_cp_to_impl`
of the entries `1..length-1` into an empty destination of the same length returns.
When the source holds bootstrap specifiers and the allocation of the destination's
operands array fails, the exception is pending and the destination has the entries
but no operands.  When the allocation does not fail, no exception is pending and
`compare_entry_to(i, destination, i)` on the source returns true for every first slot `i`
of an entry that is not a class entry nor a NaN Float or Double and that refers, through
its sub-entries and its bootstrap specifier, to no such entry; for a Class,
UnresolvedClass or UnresolvedClassInError entry, which is copied as ClassIndex, it
returns false. -/
theorem copy_cp_to_impl_compare (loader_data : ClassLoaderData) (heap : SymbolHeap)
    (cp : ConstantPool) (hwf : CopyableSource cp) :
    (∀ ops e, cp.operands = some ops → cp.operand_array_length ≠ .ok 0 →
      loader_data.new_array_fails (ops.length : Int) = some e →
      ∃ r, copy_cp_to_impl loader_data heap cp 1 (cp.length - 1) (emptyPool cp.length) 1 =
          .ok (r, some e) ∧
        r.1.operands = none) ∧
    ((∀ ops, cp.operands = some ops → cp.operand_array_length ≠ .ok 0 →
        loader_data.new_array_fails (ops.length : Int) = none) →
      ∃ r, copy_cp_to_impl loader_data heap cp 1 (cp.length - 1) (emptyPool cp.length) 1 =
          .ok (r, none) ∧
        (∀ fuel i, copy_stable fuel cp i = true →
          compare_entry_to fuel cp i r.1 i = .ok true) ∧
        (∀ fuel i t, i ∈ cp.first_slots → cp.tag_at i = .ok t → KlassTag t →
          compare_entry_to (fuel + 1) cp i r.1 i = .ok false)) := by
  refine ⟨fun ops e hops hne hfail => ?_, fun halloc => ?_⟩
  · obtain ⟨r, hr, -, hnone, -⟩ :=
      copy_cp_to_impl_empty_fails loader_data heap cp hwf hops hne hfail
    exact ⟨r, hr, hnone⟩
  · obtain ⟨r, hr, -, hslots, hops⟩ := copy_cp_to_impl_empty loader_data heap cp hwf halloc
    refine ⟨r, hr, copy_stable_compare hslots hops, fun fuel i t hi ht hk => ?_⟩
    obtain ⟨s, hs, hd⟩ := hslots i hi
    have ht' := tag_at_of_slot hs
    rw [ht] at ht'
    cases ht'
    rw [compare_entry_to]
    refine compare_entry_with_tags_ne _ ht (tag_at_of_slot hd) ?_
    show normalized_tag s.tag ≠ normalized_tag (demoted_tag s.tag)
    rcases hk with h | h | h <;> rw [h] <;> decide

theorem copy_cp_to_impl_compare_witness :
    ∃ r, copy_cp_to_impl roomyLoaderData demoHeap demoPool 1 11 (emptyPool 12) 1 =
        .ok (r, none) ∧
      compare_entry_to 2 demoPool 5 r.1 5 = .ok true := by
  obtain ⟨r, hr, hstable, -⟩ :=
    (copy_cp_to_impl_compare roomyLoaderData demoHeap demoPool (by decide)).2
      (fun _ _ _ => rfl)
  exact ⟨r, hr, hstable 2 5 (by decide)⟩

/-- C14, as stated, fails: in the copy of `demoPool` into an empty pool of the same length
the UnresolvedClass entry 2 is a ClassIndex entry, and `compare_entry_to(2, copy, 2)`
returns false at every depth; in the copy of `nanPool` the Float entry 1, a NaN, is
copied bit for bit and compares unequal to its copy; and in an exhausted metaspace the
copy of `demoPool` returns with the exception of the failed allocation pending and a
destination without operands. -/
theorem copy_cp_to_impl_class_entry_unequal :
    CopyableSource demoPool ∧ 2 ∈ demoPool.first_slots ∧
    demoPool.tag_at 2 = .ok JVM_CONSTANT_UnresolvedClass ∧
    (copy_cp_to_impl roomyLoaderData demoHeap demoPool 1 11 (emptyPool 12) 1 >>= fun r =>
      r.1.1.tag_at 2) = .ok JVM_CONSTANT_ClassIndex ∧
    (copy_cp_to_impl roomyLoaderData demoHeap demoPool 1 11 (emptyPool 12) 1 >>= fun r =>
      compare_entry_to 1 demoPool 2 r.1.1 2) = .ok false ∧
    (∀ fuel, (copy_cp_to_impl roomyLoaderData demoHeap demoPool 1 11 (emptyPool 12) 1 >>=
      fun r => compare_entry_to fuel demoPool 2 r.1.1 2) ≠ .ok true) ∧
    CopyableSource nanPool ∧ 1 ∈ nanPool.first_slots ∧
    (copy_cp_to_impl roomyLoaderData demoHeap nanPool 1 1 (emptyPool 2) 1 >>= fun r =>
      compare_entry_to 1 nanPool 1 r.1.1 1) = .ok false ∧
    (copy_cp_to_impl exhaustedLoaderData demoHeap demoPool 1 11 (emptyPool 12) 1 >>=
      fun r => pure (r.2, r.1.1.operands)) = .ok (some ⟨2004, none, .self⟩, none) := by
  have h1 : (copy_cp_to_impl roomyLoaderData demoHeap demoPool 1 11 (emptyPool 12) 1 >>=
      fun r => compare_entry_to 1 demoPool 2 r.1.1 2) = .ok false := by decide
  refine ⟨by decide, by decide, by decide, by decide, h1, fun fuel hf => ?_, by decide,
    by decide, by decide, by decide⟩
  obtain ⟨r, hr, hc⟩ := bind_eq_ok.mp hf
  rw [hr] at h1
  simp only [ok_bind] at h1
  have m1 := compare_entry_to_mono (Nat.le_max_left fuel 1) demoPool 2 r.1.1 2 _ hc
  have m2 := compare_entry_to_mono (Nat.le_max_right fuel 1) demoPool 2 r.1.1 2 _ h1
  rw [m1] at m2
  cases m2

/-! ## The appended specifiers -/

theorem appended_length_empty {from_cp to_cp : ConstantPool} {fops : List Nat}
    (hf : from_cp.operands = some fops) (ht : to_cp.operand_array_length = .ok 0) :
    appended_length from_cp to_cp = (fops.length : Int) := by
  unfold appended_length
  rw [if_pos ht, hf]
  rfl

theorem appended_length_append {from_cp to_cp : ConstantPool} {fops tops : List Nat}
    (hf : from_cp.operands = some fops) (ht : to_cp.operands = some tops)
    (hne : to_cp.operand_array_length ≠ .ok 0) :
    appended_length from_cp to_cp = ((tops.length + fops.length : Nat) : Int) := by
  unfold appended_length
  rw [if_neg hne, hf, ht]
  push_cast
  rfl

theorem appended_length_congr (from_cp : ConstantPool) {cp cp' : ConstantPool}
    (h : cp'.operands = cp.operands) :
    appended_length from_cp cp' = appended_length from_cp cp := by
  unfold appended_length
  rw [operand_array_length_congr h, h]

/-- The two ways in which `copy_operands` appends a well-formed table of at least one
specifier: to a destination without specifiers, and to a well-formed table. -/
theorem copy_operands_cases {from_cp to_cp : ConstantPool} {fops : List Nat} {n : Nat}
    (hf : from_cp.operands = some fops) (hn : to_cp.operand_array_length = .ok n)
    (hto : n = 0 ∨ ∃ tops, to_cp.operands = some tops ∧ OperandsWF tops ∧
      tops.length + fops.length < 2147483648) :
    (n = 0 ∧ to_cp.operand_array_length = .ok 0 ∧
      appended_length from_cp to_cp = (fops.length : Int)) ∨
    (∃ tops, to_cp.operands = some tops ∧ OperandsWF tops ∧
      tops.length + fops.length < 2147483648 ∧ tops ≠ [] ∧ n = operands_count tops ∧
      1 ≤ operands_count tops ∧
      appended_length from_cp to_cp = ((tops.length + fops.length : Nat) : Int)) := by
  by_cases hn0 : n = 0
  · subst hn0
    exact Or.inl ⟨rfl, hn, appended_length_empty hf hn⟩
  · rcases hto with h0 | ⟨tops, ht, hwft, hsz⟩
    · exact absurd h0 hn0
    · have hnet : tops ≠ [] := by
        intro hnil
        rw [hnil] at ht
        have : to_cp.operand_array_length = .ok 0 := by
          unfold operand_array_length; rw [ht]
        rw [this] at hn
        have := Except.ok.inj hn
        omega
      have hcount : n = operands_count tops := by
        rw [operand_array_length_wf ht hwft hnet] at hn
        have := Except.ok.inj hn
        omega
      have hne : to_cp.operand_array_length ≠ .ok 0 := by
        rw [hn]
        intro hc
        have := Except.ok.inj hc
        omega
      exact Or.inr ⟨tops, ht, hwft, hsz, hnet, hcount, by omega,
        appended_length_append hf ht hne⟩

theorem copy_operands_specifiers (loader_data : ClassLoaderData)
    {from_cp to_cp : ConstantPool} {fops : List Nat} {n : Nat}
    (hf : from_cp.operands = some fops) (hwff : OperandsWF fops)
    (hnf : 1 ≤ operands_count fops) (hn : to_cp.operand_array_length = .ok n)
    (hto : n = 0 ∨ ∃ tops, to_cp.operands = some tops ∧ OperandsWF tops ∧
      tops.length + fops.length < 2147483648)
    (halloc : loader_data.new_array_fails (appended_length from_cp to_cp) = none) :
    ∃ ops', copy_operands loader_data from_cp to_cp = .ok (to_cp.set_operands ops', none) ∧
      ∀ j, j < operands_count fops →
        ∃ s, from_cp.specifier_at j = .ok s ∧
          (to_cp.set_operands ops').specifier_at (n + j) = .ok s := by
  have hnef := wf_ne_nil hnf
  obtain ⟨hlen2f, h0f, hcf, hallf⟩ := hwff.2 hnef
  have hfc := operand_array_length_wf hf hwff hnef
  rcases copy_operands_cases hf hn hto with ⟨hn0, ht0, hlen⟩ |
    ⟨tops, ht, hwft, hsz, hnet, hcount, hnt, hlen⟩
  · subst hn0
    rw [hlen] at halloc
    refine ⟨fops, copy_operands_into_empty loader_data hf hfc (by omega) ht0 halloc,
      fun j hj => ?_⟩
    have hi := wf_index_lt hwff hnef hj
    obtain ⟨s, hs, -⟩ := specifier_at_ok hf hwff.1 hi (hallf j hj).1
    refine ⟨s, hs, ?_⟩
    rw [Nat.zero_add]
    have he := operand_offset_at_eq hf hi (wf_offset_lt hwff hnef hj)
    have he' := operand_offset_at_eq (set_operands_operands to_cp fops) hi
      (wf_offset_lt hwff hnef hj)
    exact specifier_at_transfer hf (set_operands_operands to_cp fops) he he'
      (fun m v _ hv => hv) hs
  · subst hcount
    rw [hlen] at halloc
    obtain ⟨hlen2t, h0t, hct, hallt⟩ := hwft.2 hnet
    obtain ⟨ops', hres, hlen', -, hoff', -, hdata'⟩ := copy_operands_append loader_data
      hf ht hwff hwft hnf hnt hsz halloc
    refine ⟨ops', hres, fun j hj => ?_⟩
    have hi := wf_index_lt hwff hnef hj
    obtain ⟨s, hs, -⟩ := specifier_at_ok hf hwff.1 hi (hallf j hj).1
    refine ⟨s, hs, ?_⟩
    have hnx := (hallf j hj).1
    unfold operands_next at hnx
    have he := operand_offset_at_eq hf hi (wf_offset_lt hwff hnef hj)
    have he' : (to_cp.set_operands ops').operand_offset_at (operands_count tops + j) =
        .ok ((operands_offset fops j + tops.length : Nat) : Int) := by
      rw [operand_offset_at_eq (set_operands_operands to_cp ops') (by omega)
        (by rw [hoff' j hj]; omega), hoff' j hj]
    refine specifier_at_transfer hf (set_operands_operands to_cp ops') he he' ?_ hs
    intro m v hm hv
    have hge := wf_offset_ge hwff hnef j hj
    rw [hdata' _ (by omega) (by omega), ← hv]
    congr 1
    omega

/-- When the allocation fails, `copy_operands` of a well-formed table of at least one
specifier returns with the exception pending and the destination as it was. -/
theorem copy_operands_specifiers_fails (loader_data : ClassLoaderData)
    {from_cp to_cp : ConstantPool} {fops : List Nat} {n : Nat}
    (hf : from_cp.operands = some fops) (hwff : OperandsWF fops)
    (hnf : 1 ≤ operands_count fops) (hn : to_cp.operand_array_length = .ok n)
    (hto : n = 0 ∨ ∃ tops, to_cp.operands = some tops ∧ OperandsWF tops ∧
      tops.length + fops.length < 2147483648)
    {e : Throwable}
    (hfail : loader_data.new_array_fails (appended_length from_cp to_cp) = some e) :
    copy_operands loader_data from_cp to_cp = .ok (to_cp, some e) := by
  have hnef := wf_ne_nil hnf
  have hfc := operand_array_length_wf hf hwff hnef
  rcases copy_operands_cases hf hn hto with ⟨hn0, ht0, hlen⟩ |
    ⟨tops, ht, hwft, hsz, hnet, hcount, hnt, hlen⟩
  · rw [hlen] at hfail
    exact copy_operands_into_empty_fails loader_data hf hfc (by omega) ht0 hfail
  · rw [hlen] at hfail
    exact copy_operands_append_fails loader_data hf ht hwff hwft hnf hnt hfail

theorem copy_cp_to_impl_eq {loader_data : ClassLoaderData} {heap : SymbolHeap}
    {from_cp to_cp : ConstantPool}
    {start_i end_i to_i : Nat} {r0 : ConstantPool × SymbolHeap} {cp' : ConstantPool}
    {exc : Option Throwable}
    (hloop : copy_cp_to_loop from_cp end_i (end_i + 1 - start_i) start_i to_i to_cp heap =
      .ok r0)
    (hres : copy_operands loader_data from_cp r0.1 = .ok (cp', exc)) :
    copy_cp_to_impl loader_data heap from_cp start_i end_i to_cp to_i =
      .ok ((cp', r0.2), exc) := by
  unfold copy_cp_to_impl
  rw [hloop]
  simp only [ok_bind]
  rw [hres]
  rfl

/-- C17 (as amended): for a well-formed source table of at least one specifier and a
destination that holds `n` specifiers (none, or a well-formed table, the two arrays
together no longer than an `int`), `copy_operands` returns: when the allocation of the
new array fails, with the exception pending and the destination as it was; when it
succeeds, with no exception pending and the specifier read at `n + j` in the
destination is the source's specifier `j`.  A `copy_cp_to_impl` call whose entries can
all be copied returns: when the allocation fails, with the exception pending and the
operands of the destination as they were; when it succeeds, every Dynamic,
DynamicInError or InvokeDynamic entry it copies whose specifier index `b` is below the
source's count with `b + n` below 65536 names the specifier `b + n` in the destination,
which is the source's specifier `b`. -/
theorem copy_cp_to_impl_specifiers (loader_data : ClassLoaderData) (heap : SymbolHeap)
    (from_cp to_cp : ConstantPool)
    (fops : List Nat) (start_i end_i to_i n : Nat)
    (hf : from_cp.operands = some fops) (hwff : OperandsWF fops)
    (hnf : 1 ≤ operands_count fops) (hn : to_cp.operand_array_length = .ok n)
    (hto : n = 0 ∨ ∃ tops, to_cp.operands = some tops ∧ OperandsWF tops ∧
      tops.length + fops.length < 2147483648) :
    (∀ e, loader_data.new_array_fails (appended_length from_cp to_cp) = some e →
      copy_operands loader_data from_cp to_cp = .ok (to_cp, some e)) ∧
    (loader_data.new_array_fails (appended_length from_cp to_cp) = none →
      ∃ cp', copy_operands loader_data from_cp to_cp = .ok (cp', none) ∧
        cp'.slots = to_cp.slots ∧
        ∀ j, j < operands_count fops →
          ∃ s, from_cp.specifier_at j = .ok s ∧ cp'.specifier_at (n + j) = .ok s) ∧
    ((start_i ≤ end_i → to_i + (end_i + 1 - start_i) ≤ to_cp.length) →
      (∀ i, i ∈ first_slots_from from_cp end_i (end_i + 1 - start_i) start_i →
        ∃ s, from_cp.slot_at i = .ok s ∧ Copyable s.tag ∧
          (TwoSlotTag s.tag → i + 1 ≤ end_i)) →
      (∀ e, loader_data.new_array_fails (appended_length from_cp to_cp) = some e →
        ∃ r, copy_cp_to_impl loader_data heap from_cp start_i end_i to_cp to_i =
            .ok (r, some e) ∧
          r.1.operands = to_cp.operands) ∧
      (loader_data.new_array_fails (appended_length from_cp to_cp) = none →
        ∃ r, copy_cp_to_impl loader_data heap from_cp start_i end_i to_cp to_i =
            .ok (r, none) ∧
          ∀ i t b, i ∈ first_slots_from from_cp end_i (end_i + 1 - start_i) start_i →
            from_cp.tag_at i = .ok t → BootstrapTag t →
            from_cp.bootstrap_methods_attribute_index i = .ok b →
            b < operands_count fops → b + n < 65536 →
              r.1.bootstrap_methods_attribute_index (to_i + (i - start_i)) = .ok (b + n) ∧
              ∃ s, from_cp.specifier_at b = .ok s ∧ r.1.specifier_at (b + n) = .ok s)) := by
  refine ⟨fun e hfail => copy_operands_specifiers_fails loader_data hf hwff hnf hn hto hfail,
    fun halloc => ?_, fun hroom hwf => ?_⟩
  · obtain ⟨ops', hres, hall⟩ := copy_operands_specifiers loader_data hf hwff hnf hn hto halloc
    exact ⟨to_cp.set_operands ops', hres, rfl, hall⟩
  · obtain ⟨r0, hloop, hops0, hlen0, -, hall0⟩ := copy_cp_to_loop_spec from_cp end_i n
      (end_i + 1 - start_i) start_i to_i to_cp heap (Nat.le_refl _) hroom hn hwf
    have hn0 : r0.1.operand_array_length = .ok n :=
      (operand_array_length_congr hops0).trans hn
    have hto0 : n = 0 ∨ ∃ tops, r0.1.operands = some tops ∧ OperandsWF tops ∧
        tops.length + fops.length < 2147483648 := by
      rcases hto with h | ⟨tops, ht, hw, hsz⟩
      · exact Or.inl h
      · exact Or.inr ⟨tops, hops0.trans ht, hw, hsz⟩
    have hlen := appended_length_congr from_cp hops0
    refine ⟨fun e hfail => ?_, fun halloc => ?_⟩
    · rw [← hlen] at hfail
      exact ⟨(r0.1, r0.2), copy_cp_to_impl_eq hloop
        (copy_operands_specifiers_fails loader_data hf hwff hnf hn0 hto0 hfail), hops0⟩
    · rw [← hlen] at halloc
      obtain ⟨ops', hres, hspec⟩ :=
        copy_operands_specifiers loader_data hf hwff hnf hn0 hto0 halloc
      refine ⟨(r0.1.set_operands ops', r0.2), copy_cp_to_impl_eq hloop hres,
        fun i t b hi ht hbt hb hlt hsum => ?_⟩
      obtain ⟨s, hs, hr⟩ := hall0 i hi
      have ht' := tag_at_of_slot hs
      rw [ht] at ht'
      cases ht'
      refine ⟨?_, hspec b hlt |>.imp fun s' h => ?_⟩
      · have hr' : (r0.1.set_operands ops').slot_at (to_i + (i - start_i)) = _ := hr
        unfold bootstrap_methods_attribute_index at hb ⊢
        rw [int_at_addr_of_slot hs, map_ok] at hb
        have hb' : extract_low_short_from_int (s.value % 4294967296) = b := by
          cases hb; rfl
        rw [int_at_addr_of_slot hr', map_ok, copied_value_bootstrap _ n hbt, hb',
          extract_low_pack hsum (extract_high_short_lt _)]
      · rw [Nat.add_comm b n]
        exact h

theorem copy_cp_to_impl_specifiers_witness :
    ∃ r, copy_cp_to_impl roomyLoaderData demoHeap demoPool 11 11 demoDestOneSpecifier 11 =
        .ok (r, none) ∧
      r.1.bootstrap_methods_attribute_index 11 = .ok 1 ∧
      ∃ s, demoPool.specifier_at 0 = .ok s ∧ r.1.specifier_at 1 = .ok s := by
  obtain ⟨r, hr, hall⟩ := ((copy_cp_to_impl_specifiers roomyLoaderData demoHeap demoPool
    demoDestOneSpecifier
    [2, 0, 10, 1, 9] 11 11 11 1 rfl (by decide) (by decide) (by decide)
    (Or.inr ⟨[2, 0, 7, 0], rfl, by decide, by decide⟩)).2.2 (by decide)
    (by
      intro i hi
      have hi' : i = 11 := by
        have := first_slots_from_ge demoPool 11 _ _ i hi
        omega
      subst hi'
      exact ⟨⟨17, 327680⟩, by decide, by decide, by decide⟩)).2 rfl
  obtain ⟨h1, h2⟩ := hall 11 JVM_CONSTANT_Dynamic 0 (by decide) (by decide) (by decide)
    (by decide) (by decide) (by decide)
  exact ⟨r, hr, h1, h2⟩

/-- C16: `copy_operands` into a destination that holds one specifier `(#7, [])`, from a
source that holds the specifier `(#9, [#5])`, returns the array `[2,0, 6,0, 7,0, 9,1,5]`:
the offset recorded for the old specifier is still 2 while its record has moved to
offset 4, and the specifier read at index 0 is `(#6, [])`, no longer `(#7, [])`. -/
theorem copy_operands_moves_old_records :
    OperandsWF [2, 0, 7, 0] ∧ OperandsWF [2, 0, 9, 1, 5] ∧
    demoDestOneSpecifier.operand_array_length = .ok 1 ∧
    demoDestOneSpecifier.specifier_at 0 = .ok ⟨7, 0, []⟩ ∧
    (copy_operands roomyLoaderData oneSpecifierPool demoDestOneSpecifier >>= fun r =>
      r.1.operands_array) = .ok [2, 0, 6, 0, 7, 0, 9, 1, 5] ∧
    (copy_operands roomyLoaderData oneSpecifierPool demoDestOneSpecifier >>= fun r =>
      r.1.specifier_at 0) = .ok ⟨6, 0, []⟩ ∧
    (copy_operands roomyLoaderData oneSpecifierPool demoDestOneSpecifier >>= fun r =>
      pure r.2) = .ok none := by
  decide

/-! ## A table of 65536 specifiers -/

theorem wideOperands_length : wideOperands.length = 262144 := by
  unfold wideOperands
  rw [List.length_map, List.length_range]

theorem wideOperands_getD {k : Nat} (hk : k < 262144) :
    wideOperands.getD k 0 =
      if k < 131072 then
        (if k % 2 = 0 then (131072 + k) % 65536 else (131072 + (k - 1)) / 65536)
      else (if k % 2 = 0 then 9 else 0) := by
  unfold wideOperands
  rw [List.getD_eq_getElem?_getD, List.getElem?_map, List.getElem?_range hk]
  rfl

theorem wideOperands_offset {i : Nat} (hi : i < 65536) :
    operands_offset wideOperands i = 131072 + 2 * i := by
  unfold operands_offset build_int_from_shorts
  rw [wideOperands_getD (show 2 * i < 262144 by omega),
    wideOperands_getD (show 2 * i + 1 < 262144 by omega)]
  have h1 : 2 * i < 131072 := by omega
  have h2 : 2 * i % 2 = 0 := by omega
  have h3 : 2 * i + 1 < 131072 := by omega
  have h4 : ¬ ((2 * i + 1) % 2 = 0) := by omega
  simp only [h1, h2, h3, h4, if_true, if_false]
  omega

theorem wideOperands_count : operands_count wideOperands = 65536 := by
  unfold operands_count
  rw [wideOperands_offset (by omega)]

theorem wideOperands_next {i : Nat} (hi : i < 65536) :
    operands_next wideOperands i = 131074 + 2 * i := by
  unfold operands_next
  rw [wideOperands_offset hi, wideOperands_getD (by omega)]
  have h1 : ¬ (131072 + 2 * i + 1 < 131072) := by omega
  have h2 : ¬ ((131072 + 2 * i + 1) % 2 = 0) := by omega
  simp only [h1, h2, if_false]
  omega

theorem wideOperands_wf : OperandsWF wideOperands := by
  refine ⟨by rw [wideOperands_length]; omega, fun _ => ?_⟩
  rw [wideOperands_count, wideOperands_length, wideOperands_offset (by omega)]
  refine ⟨by omega, by omega, by omega, fun i hi => ?_⟩
  rw [wideOperands_next hi]
  refine ⟨by omega, fun hi' => ?_⟩
  rw [wideOperands_offset hi']
  omega

theorem wideSpecifierPool_specifier :
    wideSpecifierPool.specifier_at 65535 = .ok ⟨9, 0, []⟩ := by
  have hops : wideSpecifierPool.operands = some wideOperands := rfl
  obtain ⟨s, hs, h1, h2, h3⟩ := specifier_at_ok hops
    (by rw [wideOperands_length]; omega)
    (show 2 * 65535 + 1 < wideOperands.length by rw [wideOperands_length]; omega)
    (by rw [wideOperands_next (by omega), wideOperands_length])
  rw [wideOperands_offset (by omega)] at h1 h2
  rw [wideOperands_getD (by omega)] at h1 h2
  simp only [Nat.reduceMul, Nat.reduceAdd, Nat.reduceLT, Nat.reduceMod, if_true, if_false,
    Nat.reduceEqDiff] at h1 h2
  rw [h2] at h3
  rw [hs]
  cases s with
  | mk a b c =>
    simp only at h1 h2 h3
    subst h1 h2
    rw [List.length_eq_zero.mp h3]

/-- C17, as stated, fails: in an exhausted metaspace `copy_operands` of the specifier of
`oneSpecifierPool` returns with the exception of the failed allocation pending and the
destination, which held one specifier, still holds one, and `copy_cp_to_impl` of the
Dynamic entry 11 of `demoPool` leaves an entry that names specifier 1 of a destination
that holds one specifier only.  And the last clause fails also when the allocation
succeeds: the InvokeDynamic entry of `wideSpecifierPool` names the last of 65536
specifiers, `(#9, [])`; `copy_cp_to_impl` into a destination that holds one specifier
returns, and the copied entry names specifier 0 of the destination, which is not
`(#9, [])`. -/
theorem copy_cp_to_impl_specifier_index_overflow :
    OperandsWF [2, 0, 9, 1, 5] ∧ oneSpecifierPool.operand_array_length = .ok 1 ∧
    copy_operands exhaustedLoaderData oneSpecifierPool demoDestOneSpecifier =
      .ok (demoDestOneSpecifier, some ⟨2004, none, .self⟩) ∧
    demoDestOneSpecifier.specifier_at (1 + 0) = .error .out_of_bounds ∧
    (copy_cp_to_impl exhaustedLoaderData demoHeap demoPool 11 11 demoDestOneSpecifier 11 >>=
      fun r => pure (r.2, r.1.1.operands)) =
        .ok (some ⟨2004, none, .self⟩, some [2, 0, 7, 0]) ∧
    (copy_cp_to_impl exhaustedLoaderData demoHeap demoPool 11 11 demoDestOneSpecifier 11 >>=
      fun r => r.1.1.bootstrap_methods_attribute_index 11) = .ok 1 ∧
    OperandsWF wideOperands ∧ operands_count wideOperands = 65536 ∧
    OperandsWF [2, 0, 7, 0] ∧ demoDestOneSpecifier.operand_array_length = .ok 1 ∧
    wideSpecifierPool.tag_at 1 = .ok JVM_CONSTANT_InvokeDynamic ∧
    wideSpecifierPool.bootstrap_methods_attribute_index 1 = .ok 65535 ∧
    wideSpecifierPool.specifier_at 65535 = .ok ⟨9, 0, []⟩ ∧
    ∃ r, copy_cp_to_impl roomyLoaderData demoHeap wideSpecifierPool 1 1
        demoDestOneSpecifier 1 = .ok (r, none) ∧
      r.1.bootstrap_methods_attribute_index 1 = .ok 0 ∧
      r.1.specifier_at 0 ≠ .ok ⟨9, 0, []⟩ := by
  have hfops : wideSpecifierPool.operands = some wideOperands := rfl
  have hwft : OperandsWF [2, 0, 7, 0] := by decide
  refine ⟨by decide, by decide, by decide, by decide, by decide, by decide,
    wideOperands_wf, wideOperands_count, hwft, by decide, by decide, by decide,
    wideSpecifierPool_specifier, ?_⟩
  have hslot : wideSpecifierPool.slot_at 1 = .ok ⟨18, 65535⟩ := by decide
  obtain ⟨r0, hloop, hops0, -, -, hall0⟩ := copy_cp_to_loop_spec wideSpecifierPool 1 1
    (1 + 1 - 1) 1 1 demoDestOneSpecifier demoHeap (Nat.le_refl _) (fun _ => by decide)
    (by decide)
    (by
      intro i hi
      have hi' : i = 1 := by
        have := first_slots_from_ge wideSpecifierPool 1 _ _ i hi
        omega
      subst hi'
      exact ⟨⟨18, 65535⟩, hslot, by decide, by decide⟩)
  have htops : r0.1.operands = some [2, 0, 7, 0] := hops0
  obtain ⟨ops', hres, hlen', hidx, hoff, -, -⟩ := copy_operands_append roomyLoaderData
    hfops htops
    wideOperands_wf hwft (by rw [wideOperands_count]; omega) (by decide)
    (by rw [wideOperands_length]; decide) rfl
  have hcount : operands_count [2, 0, 7, 0] = 1 := by decide
  rw [hcount] at hidx hoff
  rw [wideOperands_length] at hlen'
  have hlen4 : ([2, 0, 7, 0] : List Nat).length = 4 := rfl
  rw [hlen4] at hlen' hoff
  refine ⟨(r0.1.set_operands ops', r0.2), copy_cp_to_impl_eq hloop hres, ?_, ?_⟩
  · obtain ⟨s, hs, hr⟩ := hall0 1 (by
      rw [first_slots_from, if_pos (Nat.le_refl _)]; exact List.mem_cons_self _ _)
    rw [hslot] at hs
    cases hs
    have hr' : (r0.1.set_operands ops').slot_at 1 = _ := hr
    unfold bootstrap_methods_attribute_index
    rw [int_at_addr_of_slot hr', map_ok, copied_value_bootstrap _ 1 (by decide)]
    decide
  · intro hs
    unfold specifier_at bootstrap_method_index at hs
    have h0 : operands_offset ops' 0 = 2 := by
      rw [@operands_offset_congr [2, 0, 7, 0] ops' 0 0
        (hidx 0 (by omega)) (hidx 1 (by omega))]
      decide
    rw [bsm_attribute_entry_eq (operand_offset_at_eq (set_operands_operands r0.1 ops')
      (by omega) (by omega)), h0] at hs
    simp only [ok_bind] at hs
    obtain ⟨bsm, hb, hs⟩ := bind_eq_ok.mp hs
    obtain ⟨argc, hc, hs⟩ := bind_eq_ok.mp hs
    obtain ⟨args, ha, hs⟩ := bind_eq_ok.mp hs
    have hbsm : bsm = 9 := by
      have := congrArg (fun x => match x with
        | Except.ok (sp : Specifier) => sp.bootstrap_method_index
        | Except.error _ => 0) hs
      exact this
    subst hbsm
    rw [operand_at_eq (set_operands_operands r0.1 ops') (by omega)] at hb
    have hb' : ops'.getD 2 0 = 9 := Except.ok.inj hb
    have h1 := hoff 0 (by rw [wideOperands_count]; omega)
    rw [wideOperands_offset (by omega)] at h1
    unfold operands_offset build_int_from_shorts at h1
    simp only [Nat.add_zero, Nat.mul_one] at h1
    rw [hb'] at h1
    omega

end ConstantPool

namespace ConstantPool

/-! ## Resolution: tags and slots -/

theorem tag_at_lt {cp : ConstantPool} {i t : Nat} (h : cp.tag_at i = .ok t) : i < cp.length := by
  obtain ⟨s, hs, _⟩ := tag_at_eq_ok.mp h
  exact slot_at_lt hs

theorem tag_at_put_with_tag {cp : ConstantPool} {i : Nat} (t : Nat) (h : i < cp.length) :
    cp.tag_at_put i t = .ok (cp.with_tag i t) := tag_at_put_eq t h

theorem with_tag_length (cp : ConstantPool) (i t : Nat) : (cp.with_tag i t).length = cp.length := by
  simp [with_tag, length]

theorem with_tag_operands (cp : ConstantPool) (i t : Nat) :
    (cp.with_tag i t).operands = cp.operands := rfl

theorem with_tag_slot_at_ne (cp : ConstantPool) {i j : Nat} (t : Nat) (h : j ≠ i) :
    (cp.with_tag i t).slot_at j = cp.slot_at j := by
  unfold slot_at with_tag
  simp only [List.getElem?_set_ne (Ne.symm h)]

theorem with_tag_tag_at_ne (cp : ConstantPool) {i j : Nat} (t : Nat) (h : j ≠ i) :
    (cp.with_tag i t).tag_at j = cp.tag_at j := by
  unfold tag_at; rw [with_tag_slot_at_ne cp t h]

theorem with_tag_tag_at_self {cp : ConstantPool} {i : Nat} (t : Nat) (h : i < cp.length) :
    (cp.with_tag i t).tag_at i = .ok t := by
  unfold tag_at slot_at with_tag
  unfold length at h
  simp only [List.getElem?_set_self h, map_ok]

theorem with_tag_int_at_addr (cp : ConstantPool) (i t j : Nat) :
    (cp.with_tag i t).int_at_addr j = cp.int_at_addr j := by
  by_cases h : j = i
  · subst h
    unfold int_at_addr slot_at with_tag
    by_cases hl : j < cp.slots.length
    · simp only [List.getElem?_set_self hl, map_ok, List.getD_eq_getElem?_getD,
        List.getElem?_eq_getElem hl, Option.getD_some]
    · have hl' : cp.slots.length ≤ j := Nat.le_of_not_lt hl
      simp only [List.getElem?_eq_none hl', List.getElem?_eq_none
        (by simpa using hl' : (cp.slots.set j _).length ≤ j)]
  · unfold int_at_addr; rw [with_tag_slot_at_ne cp t h]

theorem with_tag_symbol_at (cp : ConstantPool) (i t j : Nat) :
    (cp.with_tag i t).symbol_at j = cp.symbol_at j := by
  by_cases h : j = i
  · subst h
    unfold symbol_at symbol_at_addr slot_at with_tag
    by_cases hl : j < cp.slots.length
    · simp only [List.getElem?_set_self hl, map_ok, List.getD_eq_getElem?_getD,
        List.getElem?_eq_getElem hl, Option.getD_some]
    · have hl' : cp.slots.length ≤ j := Nat.le_of_not_lt hl
      simp only [List.getElem?_eq_none hl', List.getElem?_eq_none
        (by simpa using hl' : (cp.slots.set j _).length ≤ j)]
  · unfold symbol_at symbol_at_addr; rw [with_tag_slot_at_ne cp t h]

theorem with_tag_klass_slot_resolved_klass_index (cp : ConstantPool) (i t j : Nat) :
    (cp.with_tag i t).klass_slot_resolved_klass_index j =
      cp.klass_slot_resolved_klass_index j := by
  unfold klass_slot_resolved_klass_index; rw [with_tag_int_at_addr]

theorem with_tag_klass_slot_name_index (cp : ConstantPool) (i t j : Nat) :
    (cp.with_tag i t).klass_slot_name_index j = cp.klass_slot_name_index j := by
  unfold klass_slot_name_index; rw [with_tag_int_at_addr]

theorem with_tag_tag_at (cp : ConstantPool) (i t j : Nat) :
    (cp.with_tag i t).tag_at j = if j = i ∧ i < cp.length then .ok t else cp.tag_at j := by
  by_cases h : j = i
  · subst h
    by_cases hl : j < cp.length
    · simp only [hl, and_self, if_true, with_tag_tag_at_self t hl]
    · simp only [hl, and_false, if_false]
      have hl' : cp.slots.length ≤ j := Nat.le_of_not_lt hl
      unfold tag_at slot_at with_tag
      simp only [List.getElem?_eq_none hl', List.getElem?_eq_none
        (by simpa using hl' : (cp.slots.set j _).length ≤ j)]
  · simp only [h, false_and, if_false, with_tag_tag_at_ne cp t h]

end ConstantPool

namespace PoolState

theorem cmpxchg_tag_hit {st : PoolState} {i c : Nat} (x : Nat) (h : st.cp.tag_at i = .ok c) :
    st.cmpxchg_tag i c x = .ok ({ st with cp := st.cp.with_tag i x }, c) := by
  unfold cmpxchg_tag
  rw [h]
  simp only [ConstantPool.ok_bind, if_true,
    ConstantPool.tag_at_put_with_tag x (ConstantPool.tag_at_lt h), ConstantPool.pure_eq_ok]

theorem cmpxchg_tag_miss {st : PoolState} {i c t : Nat} (x : Nat) (h : st.cp.tag_at i = .ok t)
    (hne : t ≠ c) : st.cmpxchg_tag i c x = .ok (st, t) := by
  unfold cmpxchg_tag
  rw [h]
  simp only [ConstantPool.ok_bind, hne, if_false, ConstantPool.pure_eq_ok]

theorem cmpxchg_tag_error {st : PoolState} {i c : Nat} (x : Nat) {f : Fault}
    (h : st.cp.tag_at i = .error f) : st.cmpxchg_tag i c x = .error f := by
  unfold cmpxchg_tag
  rw [h]; rfl

theorem resolved_klasses_store_eq {st : PoolState} {i : Nat} (k : Option Klass)
    (h : i < st.resolved_klasses.length) :
    st.resolved_klasses_store i k =
      .ok { st with resolved_klasses := st.resolved_klasses.set i k } := by
  unfold resolved_klasses_store; simp only [h, if_true]

theorem resolved_klasses_store_error {st : PoolState} {i : Nat} (k : Option Klass)
    (h : ¬ i < st.resolved_klasses.length) :
    st.resolved_klasses_store i k = .error .out_of_bounds := by
  unfold resolved_klasses_store; simp only [h, if_false]

theorem resolved_klasses_at_eq_ok {st : PoolState} {i : Nat} {k : Option Klass} :
    st.resolved_klasses_at i = .ok k ↔ st.resolved_klasses[i]? = some k := by
  unfold resolved_klasses_at
  cases h : st.resolved_klasses[i]? <;> simp

theorem resolved_reference_at_eq_ok {st : PoolState} {i : Nat} {o : Oop} :
    st.resolved_reference_at i = .ok o ↔ st.resolved_references[i]? = some o := by
  unfold resolved_reference_at
  cases h : st.resolved_references[i]? <;> simp

end PoolState

/-! ## Resolution: tag transitions -/

theorem TagTransition.not_settled {t t1 : Nat} (h : TagTransition t t1) : ¬ SettledTag t := by
  unfold TagTransition at h
  unfold SettledTag
  simp only [JVM_CONSTANT_UnresolvedClass, JVM_CONSTANT_Class,
    JVM_CONSTANT_UnresolvedClassInError, JVM_CONSTANT_MethodHandle,
    JVM_CONSTANT_MethodHandleInError, JVM_CONSTANT_MethodType,
    JVM_CONSTANT_MethodTypeInError, JVM_CONSTANT_Dynamic, JVM_CONSTANT_DynamicInError] at *
  omega

theorem TagTransition.klass_tag_iff {t t1 : Nat} (h : TagTransition t t1) :
    KlassTag t1 ↔ KlassTag t := by
  unfold TagTransition at h
  simp only [KlassTag, JVM_CONSTANT_UnresolvedClass, JVM_CONSTANT_Class,
    JVM_CONSTANT_UnresolvedClassInError, JVM_CONSTANT_MethodHandle,
    JVM_CONSTANT_MethodHandleInError, JVM_CONSTANT_MethodType,
    JVM_CONSTANT_MethodTypeInError, JVM_CONSTANT_Dynamic, JVM_CONSTANT_DynamicInError] at *
  omega

theorem TagTransition.of_error_value {t t1 : Nat} (h : constantTag.error_value t = .ok t1) :
    TagTransition t t1 := by
  unfold constantTag.error_value at h
  unfold TagTransition
  split_ifs at h with h1 h2 h3 h4
  · cases h; exact Or.inr (Or.inl ⟨h1, rfl⟩)
  · cases h; exact Or.inr (Or.inr (Or.inl ⟨h2, rfl⟩))
  · cases h; exact Or.inr (Or.inr (Or.inr (Or.inl ⟨h3, rfl⟩)))
  · cases h; exact Or.inr (Or.inr (Or.inr (Or.inr ⟨h4, rfl⟩)))

theorem TagsAdvance.tags_refl (cp : ConstantPool) : TagsAdvance cp cp :=
  ⟨rfl, fun _ t h => ⟨t, h, Or.inl rfl, fun _ => rfl⟩⟩

theorem TagsAdvance.with_tag {cp : ConstantPool} {i c x : Nat} (h : cp.tag_at i = .ok c)
    (ht : TagTransition c x) : TagsAdvance cp (cp.with_tag i x) := by
  refine ⟨ConstantPool.with_tag_length cp i x, fun j t hj => ?_⟩
  rw [ConstantPool.with_tag_tag_at]
  by_cases hji : j = i
  · subst hji
    rw [h] at hj
    cases hj
    simp only [ConstantPool.tag_at_lt h, and_self, if_true]
    exact ⟨x, rfl, Or.inr ht, fun hs => absurd hs ht.not_settled⟩
  · simp only [hji, false_and, if_false]
    exact ⟨t, hj, Or.inl rfl, fun _ => rfl⟩

theorem TagsAdvance.tags_trans {cp cp1 cp2 : ConstantPool} (h1 : TagsAdvance cp cp1)
    (h2 : TagsAdvance cp1 cp2) : TagsAdvance cp cp2 := by
  refine ⟨h2.1.trans h1.1, fun i t hi => ?_⟩
  obtain ⟨t1, ht1, hstep1, hset1⟩ := h1.2 i t hi
  obtain ⟨t2, ht2, hstep2, hset2⟩ := h2.2 i t1 ht1
  refine ⟨t2, ht2, ?_, ?_⟩
  · rcases hstep1 with rfl | htr
    · exact hstep2
    · have hs : SettledTag t1 := by
        unfold TagTransition at htr
        unfold SettledTag
        omega
      rw [hset2 hs]
      exact Or.inr htr
  · intro hs
    have := hset1 hs
    subst this
    exact hset2 hs

/-- The pool after one atomic step of a thread is the pool before, or differs from it in
one tag that has made a transition. -/
theorem Thread.step_cp (env : Env) (st : PoolState) (th : Thread) :
    (th.step env st).1.cp = st.cp ∨
      ∃ i c x, st.cp.tag_at i = .ok c ∧ TagTransition c x ∧
        (th.step env st).1.cp = st.cp.with_tag i x := by
  cases th with
  | idle => exact Or.inl rfl
  | store i k =>
    left
    simp only [Thread.step]
    split
    · rfl
    · rename_i r hr
      by_cases hl : r < st.resolved_klasses.length
      · rw [PoolState.resolved_klasses_store_eq _ hl]
      · rw [PoolState.resolved_klasses_store_error _ hl]
  | swap i k =>
    simp only [Thread.step]
    cases ht : st.cp.tag_at i with
    | error f => rw [PoolState.cmpxchg_tag_error _ ht]; exact Or.inl rfl
    | ok t =>
      by_cases hc : t = JVM_CONSTANT_UnresolvedClass
      · subst hc
        rw [PoolState.cmpxchg_tag_hit _ ht]
        right
        exact ⟨i, _, JVM_CONSTANT_Class, ht, Or.inl ⟨rfl, rfl⟩, by simp⟩
      · rw [PoolState.cmpxchg_tag_miss _ ht hc]
        left
        simp only
        split <;> rfl
  | reset i =>
    left
    simp only [Thread.step]
    split
    · rfl
    · rename_i r hr
      by_cases hl : r < st.resolved_klasses.length
      · rw [PoolState.resolved_klasses_store_eq _ hl]
      · rw [PoolState.resolved_klasses_store_error _ hl]
  | save i tag e =>
    left
    simp only [Thread.step]
    split
    · rfl
    · split
      · rfl
      · split
        · rfl
        · split <;> rfl
  | record i tag e =>
    left
    simp only [Thread.step]
    cases h : ConstantPool.add_resolution_error env st i tag e with
    | error f => rfl
    | ok st1 =>
      simp only
      unfold ConstantPool.add_resolution_error at h
      obtain ⟨m, _, hm⟩ := ConstantPool.bind_eq_ok.mp h
      cases hm
      rfl
  | mark i tag e =>
    simp only [Thread.step]
    cases he : constantTag.error_value tag with
    | error f => exact Or.inl rfl
    | ok error_tag =>
      simp only
      cases ht : st.cp.tag_at i with
      | error f => rw [PoolState.cmpxchg_tag_error _ ht]; exact Or.inl rfl
      | ok t =>
        by_cases hc : t = tag
        · subst hc
          rw [PoolState.cmpxchg_tag_hit _ ht]
          right
          exact ⟨i, _, error_tag, ht, TagTransition.of_error_value he, rfl⟩
        · rw [PoolState.cmpxchg_tag_miss _ ht hc]
          exact Or.inl rfl
  | publish ci o =>
    left
    simp only [Thread.step]
    cases h : st.set_resolved_reference_at ci o with
    | error f => rfl
    | ok r =>
      obtain ⟨st1, old⟩ := r
      simp only
      unfold PoolState.set_resolved_reference_at at h
      obtain ⟨⟨a, b⟩, _, hm⟩ := ConstantPool.bind_eq_ok.mp h
      cases hm
      rfl

/-! ## Resolution: the invariant of the racing threads -/

theorem Thread.step_tags_advance (env : Env) (st : PoolState) (th : Thread) :
    TagsAdvance st.cp (th.step env st).1.cp := by
  rcases Thread.step_cp env st th with h | ⟨i, c, x, hc, ht, h⟩
  · rw [h]; exact TagsAdvance.tags_refl _
  · rw [h]; exact TagsAdvance.with_tag hc ht

theorem System.act_tags_advance (env : Env) (sys : System) (a : Action) :
    TagsAdvance sys.shared.cp (sys.act env a).shared.cp := by
  cases a with
  | spawn th =>
    simp only [System.act]
    split <;> exact TagsAdvance.tags_refl _
  | step t =>
    simp only [System.act]
    split
    · exact TagsAdvance.tags_refl _
    · exact Thread.step_tags_advance env _ _

namespace PoolState

theorem mem_klass_entries {st : PoolState} {i : Nat} :
    i ∈ st.klass_entries ↔ ∃ t, st.cp.tag_at i = .ok t ∧ KlassTag t := by
  unfold klass_entries
  rw [List.mem_filter, List.mem_range]
  constructor
  · rintro ⟨_, h⟩
    cases ht : st.cp.tag_at i with
    | error f => rw [ht] at h; cases h
    | ok t => rw [ht] at h; exact ⟨t, rfl, of_decide_eq_true h⟩
  · rintro ⟨t, ht, hk⟩
    refine ⟨ConstantPool.tag_at_lt ht, ?_⟩
    rw [ht]
    exact decide_eq_true hk

theorem resolved_klass_slot_eq_ok {st : PoolState} {i : Nat} {v : Option Klass} :
    st.resolved_klass_slot i = .ok v ↔
      ∃ r, st.cp.klass_slot_resolved_klass_index i = .ok r ∧
        st.resolved_klasses[r]? = some v := by
  unfold resolved_klass_slot
  rw [ConstantPool.bind_eq_ok]
  simp only [resolved_klasses_at_eq_ok]

/-- The slot indices and the class entries of two states agree. -/
theorem klassSlotsDistinct_congr {st st1 : PoolState}
    (hk : ∀ i, st1.cp.klass_slot_resolved_klass_index i =
      st.cp.klass_slot_resolved_klass_index i)
    (ht : ∀ i, (∃ t, st1.cp.tag_at i = .ok t ∧ KlassTag t) ↔
      (∃ t, st.cp.tag_at i = .ok t ∧ KlassTag t))
    (h : st.KlassSlotsDistinct) : st1.KlassSlotsDistinct := by
  intro i hi j hj hij
  rw [mem_klass_entries, ht, ← mem_klass_entries] at hi hj
  rw [hk, hk] at hij
  exact h i hi j hj hij

theorem klass_tag_with_tag_iff {cp : ConstantPool} {i c x : Nat} (hc : cp.tag_at i = .ok c)
    (htr : TagTransition c x) (j : Nat) :
    (∃ t, (cp.with_tag i x).tag_at j = .ok t ∧ KlassTag t) ↔
      (∃ t, cp.tag_at j = .ok t ∧ KlassTag t) := by
  rw [ConstantPool.with_tag_tag_at]
  by_cases hji : j = i
  · subst hji
    simp only [ConstantPool.tag_at_lt hc, and_self, if_true, hc, Except.ok.injEq]
    constructor
    · rintro ⟨t, rfl, hk⟩; exact ⟨c, rfl, htr.klass_tag_iff.mp hk⟩
    · rintro ⟨t, rfl, hk⟩; exact ⟨x, rfl, htr.klass_tag_iff.mpr hk⟩
  · simp only [hji, false_and, if_false]

end PoolState

namespace PoolState

/-- The invariant looks only at the pool and the resolved klasses. -/
theorem safe_of_same {st st1 : PoolState} (hcp : st1.cp = st.cp)
    (hk : st1.resolved_klasses = st.resolved_klasses) :
    (st.KlassSlotsDistinct → st1.KlassSlotsDistinct) ∧
    (st.KlassesPublished → st1.KlassesPublished) ∧
    ∀ o : Thread, o.Safe st → o.Safe st1 := by
  have hslot : ∀ i, st1.resolved_klass_slot i = st.resolved_klass_slot i := by
    intro i
    unfold resolved_klass_slot resolved_klasses_at
    rw [hcp, hk]
  refine ⟨?_, ?_, ?_⟩
  · exact klassSlotsDistinct_congr (fun i => by rw [hcp]) (fun i => by rw [hcp])
  · intro h i hi
    rw [hcp] at hi
    rw [hslot]
    exact h i hi
  · intro o ho
    cases o with
    | swap j k =>
      intro hj
      rw [hcp] at hj
      rw [hslot]
      exact ho hj
    | reset j =>
      show st1.cp.tag_at j = _
      rw [hcp]; exact ho
    | idle => trivial
    | store _ _ => trivial
    | save _ _ _ => trivial
    | record _ _ _ => trivial
    | mark _ _ _ => trivial
    | publish _ _ => trivial

/-- A store of a klass into a slot keeps the invariant. -/
theorem safe_of_store {st st1 : PoolState} {r : Nat} {k : Klass} (hcp : st1.cp = st.cp)
    (hk : st1.resolved_klasses = st.resolved_klasses.set r (some k)) :
    (st.KlassSlotsDistinct → st1.KlassSlotsDistinct) ∧
    (st.KlassesPublished → st1.KlassesPublished) ∧
    ∀ o : Thread, o.Safe st → o.Safe st1 := by
  have hslot : ∀ i, (∃ k1, st.resolved_klass_slot i = .ok (some k1)) →
      ∃ k1, st1.resolved_klass_slot i = .ok (some k1) := by
    rintro i ⟨k1, h1⟩
    obtain ⟨r1, hr1, hv⟩ := resolved_klass_slot_eq_ok.mp h1
    by_cases hrr : r = r1
    · subst hrr
      refine ⟨k, resolved_klass_slot_eq_ok.mpr ⟨r, by rw [hcp]; exact hr1, ?_⟩⟩
      rw [hk]
      have hl : r < st.resolved_klasses.length := by
        by_contra hn
        rw [List.getElem?_eq_none (Nat.le_of_not_lt hn)] at hv
        cases hv
      exact List.getElem?_set_self hl
    · refine ⟨k1, resolved_klass_slot_eq_ok.mpr ⟨r1, by rw [hcp]; exact hr1, ?_⟩⟩
      rw [hk, List.getElem?_set_ne hrr]
      exact hv
  refine ⟨?_, ?_, ?_⟩
  · exact klassSlotsDistinct_congr (fun i => by rw [hcp]) (fun i => by rw [hcp])
  · intro h i hi
    rw [hcp] at hi
    exact hslot i (h i hi)
  · intro o ho
    cases o with
    | swap j k =>
      intro hj
      rw [hcp] at hj
      exact hslot j (ho hj)
    | reset j =>
      show st1.cp.tag_at j = _
      rw [hcp]; exact ho
    | idle => trivial
    | store _ _ => trivial
    | save _ _ _ => trivial
    | record _ _ _ => trivial
    | mark _ _ _ => trivial
    | publish _ _ => trivial

/-- A reset of the slot of an entry in error keeps the invariant. -/
theorem safe_of_reset {st st1 : PoolState} {i r : Nat} (hcp : st1.cp = st.cp)
    (hr : st.cp.klass_slot_resolved_klass_index i = .ok r)
    (hi : st.cp.tag_at i = .ok JVM_CONSTANT_UnresolvedClassInError)
    (hk : st1.resolved_klasses = st.resolved_klasses.set r none)
    (hD : st.KlassSlotsDistinct) :
    st1.KlassSlotsDistinct ∧
    (st.KlassesPublished → st1.KlassesPublished) ∧
    ∀ o : Thread, o.Safe st → o.Safe st1 := by
  have hmem : i ∈ st.klass_entries :=
    mem_klass_entries.mpr ⟨_, hi, Or.inr (Or.inr rfl)⟩
  have hslot : ∀ j t, st.cp.tag_at j = .ok t → KlassTag t →
      t ≠ JVM_CONSTANT_UnresolvedClassInError →
      (∃ k1, st.resolved_klass_slot j = .ok (some k1)) →
      ∃ k1, st1.resolved_klass_slot j = .ok (some k1) := by
    rintro j t hj hkt hne ⟨k1, h1⟩
    obtain ⟨r1, hr1, hv⟩ := resolved_klass_slot_eq_ok.mp h1
    have hrr : r ≠ r1 := by
      intro hrr
      subst hrr
      have hij : i = j := hD i hmem j (mem_klass_entries.mpr ⟨t, hj, hkt⟩) (by rw [hr, hr1])
      subst hij
      rw [hi] at hj
      cases hj
      exact hne rfl
    refine ⟨k1, resolved_klass_slot_eq_ok.mpr ⟨r1, by rw [hcp]; exact hr1, ?_⟩⟩
    rw [hk, List.getElem?_set_ne hrr]
    exact hv
  refine ⟨?_, ?_, ?_⟩
  · exact klassSlotsDistinct_congr (fun i => by rw [hcp]) (fun i => by rw [hcp]) hD
  · intro h j hj
    rw [hcp] at hj
    exact hslot j _ hj (Or.inl rfl) (by decide) (h j hj)
  · intro o ho
    cases o with
    | swap j k =>
      intro hj
      rw [hcp] at hj
      exact hslot j _ hj (Or.inr (Or.inl rfl)) (by decide) (ho hj)
    | reset j =>
      show st1.cp.tag_at j = _
      rw [hcp]; exact ho
    | idle => trivial
    | store _ _ => trivial
    | save _ _ _ => trivial
    | record _ _ _ => trivial
    | mark _ _ _ => trivial
    | publish _ _ => trivial

/-- A tag transition keeps the invariant, provided the slot is filled when the new tag is
Class. -/
theorem safe_of_transition {st st1 : PoolState} {i c x : Nat}
    (hcp : st1.cp = st.cp.with_tag i x) (hc : st.cp.tag_at i = .ok c)
    (htr : TagTransition c x) (hk : st1.resolved_klasses = st.resolved_klasses)
    (hfill : x = JVM_CONSTANT_Class → ∃ k, st.resolved_klass_slot i = .ok (some k)) :
    (st.KlassSlotsDistinct → st1.KlassSlotsDistinct) ∧
    (st.KlassesPublished → st1.KlassesPublished) ∧
    ∀ o : Thread, o.Safe st → o.Safe st1 := by
  have hslot : ∀ j, st1.resolved_klass_slot j = st.resolved_klass_slot j := by
    intro j
    unfold resolved_klass_slot resolved_klasses_at
    rw [hcp, hk, ConstantPool.with_tag_klass_slot_resolved_klass_index]
  have hx : x ≠ JVM_CONSTANT_UnresolvedClass := by
    unfold TagTransition at htr
    simp only [JVM_CONSTANT_UnresolvedClass, JVM_CONSTANT_Class,
      JVM_CONSTANT_UnresolvedClassInError, JVM_CONSTANT_MethodHandle,
      JVM_CONSTANT_MethodHandleInError, JVM_CONSTANT_MethodType,
      JVM_CONSTANT_MethodTypeInError, JVM_CONSTANT_Dynamic, JVM_CONSTANT_DynamicInError] at *
    omega
  have hcne : c ≠ JVM_CONSTANT_UnresolvedClassInError := by
    unfold TagTransition at htr
    simp only [JVM_CONSTANT_UnresolvedClass, JVM_CONSTANT_Class,
      JVM_CONSTANT_UnresolvedClassInError, JVM_CONSTANT_MethodHandle,
      JVM_CONSTANT_MethodHandleInError, JVM_CONSTANT_MethodType,
      JVM_CONSTANT_MethodTypeInError, JVM_CONSTANT_Dynamic, JVM_CONSTANT_DynamicInError] at *
    omega
  have hlt := ConstantPool.tag_at_lt hc
  refine ⟨?_, ?_, ?_⟩
  · refine klassSlotsDistinct_congr
      (fun j => by rw [hcp, ConstantPool.with_tag_klass_slot_resolved_klass_index])
      (fun j => ?_)
    rw [hcp]
    exact klass_tag_with_tag_iff hc htr j
  · intro h j hj
    rw [hslot]
    rw [hcp, ConstantPool.with_tag_tag_at] at hj
    by_cases hji : j = i
    · subst hji
      simp only [hlt, and_self, if_true, Except.ok.injEq] at hj
      exact hfill hj
    · simp only [hji, false_and, if_false] at hj
      exact h j hj
  · intro o ho
    cases o with
    | swap j k =>
      intro hj
      rw [hslot]
      rw [hcp, ConstantPool.with_tag_tag_at] at hj
      by_cases hji : j = i
      · subst hji
        simp only [hlt, and_self, if_true, Except.ok.injEq] at hj
        exact absurd hj hx
      · simp only [hji, false_and, if_false] at hj
        exact ho hj
    | reset j =>
      show st1.cp.tag_at j = _
      have ho' : st.cp.tag_at j = .ok JVM_CONSTANT_UnresolvedClassInError := ho
      rw [hcp, ConstantPool.with_tag_tag_at]
      by_cases hji : j = i
      · subst hji
        rw [hc] at ho'
        cases ho'
        exact absurd rfl hcne
      · simp only [hji, false_and, if_false]
        exact ho'
    | idle => trivial
    | store _ _ => trivial
    | save _ _ _ => trivial
    | record _ _ _ => trivial
    | mark _ _ _ => trivial
    | publish _ _ => trivial

end PoolState

/-- One atomic step of a thread at a safe program point keeps the invariant: the class
entries keep slots of their own, the entries tagged Class keep a filled slot, the
thread arrives at a safe program point, and every other thread stays at one. -/
theorem Thread.step_safe (env : Env) (st : PoolState) (th : Thread)
    (hD : st.KlassSlotsDistinct) (hP : st.KlassesPublished) (hS : th.Safe st) :
    (th.step env st).1.KlassSlotsDistinct ∧ (th.step env st).1.KlassesPublished ∧
      (th.step env st).2.Safe (th.step env st).1 ∧
      ∀ o : Thread, o.Safe st → o.Safe (th.step env st).1 := by
  cases th with
  | idle => exact ⟨hD, hP, trivial, fun _ h => h⟩
  | store i k =>
    simp only [Thread.step]
    cases hr : st.cp.klass_slot_resolved_klass_index i with
    | error f => exact ⟨hD, hP, trivial, fun _ h => h⟩
    | ok r =>
      simp only
      by_cases hl : r < st.resolved_klasses.length
      · rw [PoolState.resolved_klasses_store_eq _ hl]
        simp only
        obtain ⟨h1, h2, h3⟩ := @PoolState.safe_of_store st
          { st with resolved_klasses := st.resolved_klasses.set r (some k) } r k rfl rfl
        refine ⟨h1 hD, h2 hP, ?_, h3⟩
        intro _
        exact ⟨k, PoolState.resolved_klass_slot_eq_ok.mpr ⟨r, hr, List.getElem?_set_self hl⟩⟩
      · rw [PoolState.resolved_klasses_store_error _ hl]
        exact ⟨hD, hP, trivial, fun _ h => h⟩
  | swap i k =>
    simp only [Thread.step]
    cases ht : st.cp.tag_at i with
    | error f =>
      rw [PoolState.cmpxchg_tag_error _ ht]
      exact ⟨hD, hP, trivial, fun _ h => h⟩
    | ok t =>
      by_cases hc : t = JVM_CONSTANT_UnresolvedClass
      · subst hc
        rw [PoolState.cmpxchg_tag_hit _ ht]
        simp only [show ¬ (JVM_CONSTANT_UnresolvedClass = JVM_CONSTANT_UnresolvedClassInError)
          by decide, if_false]
        obtain ⟨h1, h2, h3⟩ := @PoolState.safe_of_transition st
          { st with cp := st.cp.with_tag i JVM_CONSTANT_Class } i _ JVM_CONSTANT_Class rfl ht
          (Or.inl ⟨rfl, rfl⟩) rfl (fun _ => hS ht)
        exact ⟨h1 hD, h2 hP, trivial, h3⟩
      · rw [PoolState.cmpxchg_tag_miss _ ht hc]
        simp only
        by_cases he : t = JVM_CONSTANT_UnresolvedClassInError
        · subst he
          simp only [if_true]
          exact ⟨hD, hP, ht, fun _ h => h⟩
        · simp only [he, if_false]
          exact ⟨hD, hP, trivial, fun _ h => h⟩
  | reset i =>
    simp only [Thread.step]
    cases hr : st.cp.klass_slot_resolved_klass_index i with
    | error f => exact ⟨hD, hP, trivial, fun _ h => h⟩
    | ok r =>
      simp only
      by_cases hl : r < st.resolved_klasses.length
      · rw [PoolState.resolved_klasses_store_eq _ hl]
        simp only
        obtain ⟨h1, h2, h3⟩ := @PoolState.safe_of_reset st
          { st with resolved_klasses := st.resolved_klasses.set r none } i r rfl hr hS rfl hD
        exact ⟨h1, h2 hP, trivial, h3⟩
      · rw [PoolState.resolved_klasses_store_error _ hl]
        exact ⟨hD, hP, trivial, fun _ h => h⟩
  | save i tag e =>
    simp only [Thread.step]
    split
    · exact ⟨hD, hP, trivial, fun _ h => h⟩
    · split
      · exact ⟨hD, hP, trivial, fun _ h => h⟩
      · split
        · exact ⟨hD, hP, trivial, fun _ h => h⟩
        · split <;> exact ⟨hD, hP, trivial, fun _ h => h⟩
  | record i tag e =>
    simp only [Thread.step]
    cases h : ConstantPool.add_resolution_error env st i tag e with
    | error f => exact ⟨hD, hP, trivial, fun _ h => h⟩
    | ok st1 =>
      simp only
      unfold ConstantPool.add_resolution_error at h
      obtain ⟨m, _, hm⟩ := ConstantPool.bind_eq_ok.mp h
      have hcp : st1.cp = st.cp := by cases hm; rfl
      have hk : st1.resolved_klasses = st.resolved_klasses := by cases hm; rfl
      obtain ⟨h1, h2, h3⟩ := PoolState.safe_of_same hcp hk
      exact ⟨h1 hD, h2 hP, trivial, h3⟩
  | mark i tag e =>
    simp only [Thread.step]
    cases he : constantTag.error_value tag with
    | error f => exact ⟨hD, hP, trivial, fun _ h => h⟩
    | ok error_tag =>
      simp only
      cases ht : st.cp.tag_at i with
      | error f =>
        rw [PoolState.cmpxchg_tag_error _ ht]
        exact ⟨hD, hP, trivial, fun _ h => h⟩
      | ok t =>
        by_cases hc : t = tag
        · subst hc
          rw [PoolState.cmpxchg_tag_hit _ ht]
          have htr := TagTransition.of_error_value he
          have hne : error_tag ≠ JVM_CONSTANT_Class := by
            unfold constantTag.error_value at he
            split_ifs at he <;> cases he <;> decide
          obtain ⟨h1, h2, h3⟩ := @PoolState.safe_of_transition st
            { st with cp := st.cp.with_tag i error_tag } i _ error_tag rfl ht htr rfl
            (fun h => absurd h hne)
          exact ⟨h1 hD, h2 hP, trivial, h3⟩
        · rw [PoolState.cmpxchg_tag_miss _ ht hc]
          exact ⟨hD, hP, trivial, fun _ h => h⟩
  | publish ci o =>
    simp only [Thread.step]
    cases h : st.set_resolved_reference_at ci o with
    | error f => exact ⟨hD, hP, trivial, fun _ h => h⟩
    | ok r =>
      obtain ⟨st1, old⟩ := r
      simp only
      unfold PoolState.set_resolved_reference_at at h
      obtain ⟨⟨a, b⟩, _, hm⟩ := ConstantPool.bind_eq_ok.mp h
      have hcp : st1.cp = st.cp := by cases hm; rfl
      have hk : st1.resolved_klasses = st.resolved_klasses := by cases hm; rfl
      obtain ⟨h1, h2, h3⟩ := PoolState.safe_of_same hcp hk
      exact ⟨h1 hD, h2 hP, trivial, h3⟩

/-- Every action keeps the invariant of the racing threads. -/
theorem System.act_inv (env : Env) (sys : System) (a : Action) (h : sys.Inv) :
    (sys.act env a).Inv := by
  obtain ⟨hD, hP, hS⟩ := h
  cases a with
  | spawn th =>
    simp only [System.act]
    by_cases he : th.entry = true
    · simp only [he, if_true]
      refine ⟨hD, hP, ?_⟩
      intro o ho
      rcases List.mem_append.mp ho with ho | ho
      · exact hS o ho
      · rw [List.mem_singleton] at ho
        subst ho
        cases o <;> trivial
    · simp only [he, if_false]
      exact ⟨hD, hP, hS⟩
  | step t =>
    simp only [System.act]
    cases ht : sys.threads[t]? with
    | none => exact ⟨hD, hP, hS⟩
    | some th =>
      simp only
      have hth : th ∈ sys.threads := List.getElem?_mem ht
      obtain ⟨h1, h2, h3, h4⟩ := Thread.step_safe env sys.shared th hD hP (hS th hth)
      refine ⟨h1, h2, ?_⟩
      intro o ho
      rcases List.mem_or_eq_of_mem_set ho with ho | ho
      · exact h4 o (hS o ho)
      · subst ho; exact h3

/-- Every schedule keeps the invariant of the racing threads. -/
theorem System.run_inv (env : Env) (schedule : List Action) :
    ∀ sys : System, sys.Inv → (sys.run env schedule).Inv := by
  induction schedule with
  | nil => intro sys h; exact h
  | cons a rest ih =>
    intro sys h
    exact ih (sys.act env a) (System.act_inv env sys a h)

/-- A pool whose class entries are all unresolved, with slots of their own, and no thread
at work satisfies the invariant. -/
theorem System.inv_of_unresolved {st : PoolState} (hU : st.KlassesUnresolved)
    (hD : st.KlassSlotsDistinct) : System.Inv ⟨st, []⟩ := by
  refine ⟨hD, ?_, ?_⟩
  · intro i hi
    have hm : i ∈ st.klass_entries := PoolState.mem_klass_entries.mpr ⟨_, hi, Or.inl rfl⟩
    have := (hU i hm).1
    rw [hi] at this
    cases this
  · intro o ho
    cases ho

/-! ## Resolution: what a call leaves in place -/

namespace PoolState

theorem Advances.adv_refl (st : PoolState) : st.Advances st :=
  ⟨TagsAdvance.tags_refl _, rfl, fun _ _ h _ => h, rfl, [], (List.append_nil _).symm⟩

theorem Advances.adv_trans {st st1 st2 : PoolState} (h1 : st.Advances st1)
    (h2 : st1.Advances st2) : st.Advances st2 := by
  obtain ⟨a1, b1, c1, d1, l1, e1⟩ := h1
  obtain ⟨a2, b2, c2, d2, l2, e2⟩ := h2
  refine ⟨a1.tags_trans a2, b2.trans b1, fun j o hj ho => c2 j o (c1 j o hj ho) ho, d2.trans d1,
    l1 ++ l2, ?_⟩
  rw [e2, e1, List.append_assoc]

/-- A state that differs in the error table, the resolved klasses and the trace only. -/
theorem Advances.of_same {st st1 : PoolState} (hcp : st1.cp = st.cp)
    (hr : st1.resolved_references = st.resolved_references)
    (hm : st1.reference_map = st.reference_map) (ht : ∃ l, st1.trace = st.trace ++ l) :
    st.Advances st1 := by
  refine ⟨by rw [hcp]; exact TagsAdvance.tags_refl _, by rw [hr], fun j o hj _ => by rw [hr]; exact hj,
    hm, ht⟩

theorem Advances.adv_log (st : PoolState) (ev : Event) : st.Advances (st.log ev) :=
  Advances.of_same rfl rfl rfl ⟨[ev], rfl⟩

theorem resolved_klasses_store_advances {st st1 : PoolState} {i : Nat} {k : Option Klass}
    (h : st.resolved_klasses_store i k = .ok st1) : st.Advances st1 := by
  unfold resolved_klasses_store at h
  split_ifs at h
  cases h
  exact Advances.of_same rfl rfl rfl ⟨[], (List.append_nil _).symm⟩

theorem cmpxchg_tag_advances {st st1 : PoolState} {i c x old : Nat} (htr : TagTransition c x)
    (h : st.cmpxchg_tag i c x = .ok (st1, old)) : st.Advances st1 := by
  cases ht : st.cp.tag_at i with
  | error f => rw [cmpxchg_tag_error _ ht] at h; cases h
  | ok t =>
    by_cases hc : t = c
    · subst hc
      rw [cmpxchg_tag_hit _ ht] at h
      cases h
      exact ⟨TagsAdvance.with_tag ht htr, rfl, fun _ _ h _ => h, rfl, [],
        (List.append_nil _).symm⟩
    · rw [cmpxchg_tag_miss _ ht hc] at h
      cases h
      exact Advances.adv_refl _

/-- The effect of `replace_if_null` on the array. -/
theorem replace_if_null_eq_ok {a a1 : List Oop} {i : Nat} {x old : Oop}
    (h : replace_if_null a i x = .ok (a1, old)) :
    a[i]? = some old ∧ a1 = (if old = .null then a.set i x else a) := by
  unfold replace_if_null at h
  cases ha : a[i]? with
  | none => rw [ha] at h; cases h
  | some o =>
    rw [ha] at h
    simp only at h
    by_cases ho : o = .null
    · subst ho
      simp only [if_true] at h
      cases h
      simp
    · simp only [ho, if_false] at h
      cases h
      simp [ho]

theorem set_resolved_reference_at_eq_ok {st st1 : PoolState} {i : Nat} {x old : Oop}
    (h : st.set_resolved_reference_at i x = .ok (st1, old)) :
    st.resolved_references[i]? = some old ∧
      st1 = { st with resolved_references :=
        if old = .null then st.resolved_references.set i x else st.resolved_references } := by
  unfold set_resolved_reference_at at h
  obtain ⟨⟨a, b⟩, hab, hm⟩ := ConstantPool.bind_eq_ok.mp h
  obtain ⟨h1, h2⟩ := replace_if_null_eq_ok hab
  cases hm
  exact ⟨h1, by rw [h2]⟩

theorem set_resolved_reference_at_advances {st st1 : PoolState} {i : Nat} {x old : Oop}
    (h : st.set_resolved_reference_at i x = .ok (st1, old)) : st.Advances st1 := by
  obtain ⟨h1, h2⟩ := set_resolved_reference_at_eq_ok h
  subst h2
  refine ⟨TagsAdvance.tags_refl _, ?_, ?_, rfl, [], (List.append_nil _).symm⟩
  · simp only
    split <;> simp
  · intro j o hj ho
    simp only
    by_cases hold : old = .null
    · simp only [hold, if_true]
      have hji : i ≠ j := by
        intro hij
        subst hij
        rw [h1] at hj
        cases hj
        exact ho hold
      rw [List.getElem?_set_ne hji]
      exact hj
    · simp only [hold, if_false]
      exact hj

theorem string_at_put_advances {st st1 : PoolState} {i : Nat} {x : Oop}
    (h : st.string_at_put i x = .ok st1) : st.Advances st1 := by
  unfold string_at_put at h
  obtain ⟨⟨a, b⟩, hab, hm⟩ := ConstantPool.bind_eq_ok.mp h
  cases hm
  exact set_resolved_reference_at_advances hab

end PoolState

namespace ConstantPool

theorem add_resolution_error_eq_ok {env : Env} {st st1 : PoolState} {which tag : Nat}
    {e : Throwable} (h : add_resolution_error env st which tag e = .ok st1) :
    ∃ m, exception_message env st.cp which tag e = .ok m ∧
      st1 = ⟨st.cp, st.resolved_klasses, st.resolved_references, st.reference_map,
        SystemDictionary.add_resolution_error st.error_table which
          ⟨e.klass, m, cause_sym e, cause_msg e⟩, st.trace⟩ := by
  unfold add_resolution_error at h
  obtain ⟨m, hm, h⟩ := bind_eq_ok.mp h
  cases h
  exact ⟨m, hm, rfl⟩

theorem add_resolution_error_advances {env : Env} {st st1 : PoolState} {which tag : Nat}
    {e : Throwable} (h : add_resolution_error env st which tag e = .ok st1) :
    st.Advances st1 := by
  obtain ⟨m, _, h1⟩ := add_resolution_error_eq_ok h
  subst h1
  exact PoolState.Advances.of_same rfl rfl rfl ⟨[], (List.append_nil _).symm⟩

theorem save_and_throw_exception_advances {env : Env} {st st1 : PoolState} {i tag : Nat}
    {e : Throwable} {p : Option Throwable}
    (h : save_and_throw_exception env st i tag e = .ok (st1, p)) : st.Advances st1 := by
  unfold save_and_throw_exception at h
  obtain ⟨error_tag, he, h⟩ := bind_eq_ok.mp h
  by_cases hl : env.is_linkage_error e.klass = true
  · simp only [hl, Bool.not_true, Bool.false_eq_true, if_false] at h
    obtain ⟨t, ht, h⟩ := bind_eq_ok.mp h
    by_cases hte : t = error_tag
    · simp only [hte, ne_eq, not_true_eq_false, if_false] at h
      obtain ⟨e1, _, h⟩ := bind_eq_ok.mp h
      cases h
      exact PoolState.Advances.adv_refl _
    · simp only [ne_eq, hte, not_false_eq_true, if_true] at h
      obtain ⟨st2, h2, h⟩ := bind_eq_ok.mp h
      obtain ⟨⟨st3, old⟩, h3, h⟩ := bind_eq_ok.mp h
      have hadv := (add_resolution_error_advances h2).adv_trans
        (PoolState.cmpxchg_tag_advances (TagTransition.of_error_value he) h3)
      have h' : (if old ≠ error_tag ∧ old ≠ tag then
          (pure (st3, none) : Except Fault (PoolState × Option Throwable))
          else pure (st3, some e)) = .ok (st1, p) := h
      split_ifs at h' <;> cases h' <;> exact hadv
  · simp only [hl, Bool.not_false, if_true] at h
    cases h
    exact PoolState.Advances.adv_refl _

theorem klass_at_impl_failed_advances {env : Env} {st st1 : PoolState} {i r : Nat}
    {e : Throwable} {out : Except Throwable (Option Klass)}
    (h : klass_at_impl_failed env st i r e = .ok (st1, out)) : st.Advances st1 := by
  unfold klass_at_impl_failed at h
  obtain ⟨⟨st2, p⟩, h2, h⟩ := bind_eq_ok.mp h
  have hadv := save_and_throw_exception_advances h2
  cases p with
  | some e1 => cases h; exact hadv
  | none =>
    obtain ⟨k, _, h⟩ := bind_eq_ok.mp h
    cases h
    exact hadv

theorem klass_at_impl_resolved_advances {st st1 : PoolState} {i r : Nat} {k : Klass}
    {out : Except Throwable (Option Klass)}
    (h : klass_at_impl_resolved st i r k = .ok (st1, out)) : st.Advances st1 := by
  unfold klass_at_impl_resolved at h
  obtain ⟨st2, h2, h⟩ := bind_eq_ok.mp h
  obtain ⟨⟨st3, old⟩, h3, h⟩ := bind_eq_ok.mp h
  have hadv := (PoolState.resolved_klasses_store_advances h2).adv_trans
    (PoolState.cmpxchg_tag_advances (Or.inl ⟨rfl, rfl⟩) h3)
  have h' : (if old = JVM_CONSTANT_UnresolvedClassInError then
      (st3.resolved_klasses_store r none >>= fun st4 =>
        throw_resolution_error st4 i >>= fun e =>
          (pure (st4, Except.error e) :
            Except Fault (PoolState × Except Throwable (Option Klass))))
      else pure (st3, .ok (some k))) = .ok (st1, out) := h
  split_ifs at h'
  · obtain ⟨st4, h4, h'⟩ := bind_eq_ok.mp h'
    obtain ⟨e, _, h'⟩ := bind_eq_ok.mp h'
    cases h'
    exact hadv.adv_trans (PoolState.resolved_klasses_store_advances h4)
  · cases h'
    exact hadv

theorem verify_constant_pool_resolve_advances (env : Env) (st : PoolState) (k : Klass) :
    st.Advances (verify_constant_pool_resolve env st k).1 := by
  unfold verify_constant_pool_resolve
  split
  · exact PoolState.Advances.adv_refl _
  · exact PoolState.Advances.adv_log _ _

theorem klass_at_impl_advances {env : Env} {st st1 : PoolState} {i : Nat}
    {out : Except Throwable (Option Klass)}
    (h : klass_at_impl env st i = .ok (st1, out)) : st.Advances st1 := by
  unfold klass_at_impl at h
  obtain ⟨r, _, h⟩ := bind_eq_ok.mp h
  obtain ⟨n, _, h⟩ := bind_eq_ok.mp h
  obtain ⟨t, _, h⟩ := bind_eq_ok.mp h
  by_cases h1 : constantTag.is_klass t = true
  · simp only [h1, if_true] at h
    obtain ⟨k, _, h⟩ := bind_eq_ok.mp h
    cases h
    exact PoolState.Advances.adv_refl _
  · simp only [h1, if_false] at h
    by_cases h2 : constantTag.is_unresolved_klass_in_error t = true
    · simp only [h2, if_true] at h
      obtain ⟨e, _, h⟩ := bind_eq_ok.mp h
      cases h
      exact PoolState.Advances.adv_refl _
    · simp only [h2, if_false] at h
      obtain ⟨name, _, h⟩ := bind_eq_ok.mp h
      have hlog := PoolState.Advances.adv_log st (.resolve_or_fail name)
      cases hres : env.resolve_or_fail st.trace name with
      | error e =>
        rw [hres] at h
        exact hlog.adv_trans (klass_at_impl_failed_advances h)
      | ok k =>
        rw [hres] at h
        simp only at h
        have hv := verify_constant_pool_resolve_advances env (st.log (.resolve_or_fail name)) k
        cases hver : verify_constant_pool_resolve env (st.log (.resolve_or_fail name)) k with
        | mk st2 p =>
          rw [hver] at h hv
          cases p with
          | some e => exact (hlog.adv_trans hv).adv_trans (klass_at_impl_failed_advances h)
          | none => exact (hlog.adv_trans hv).adv_trans (klass_at_impl_resolved_advances h)

end ConstantPool

namespace ConstantPool

theorem string_at_impl_advances {env : Env} {st st1 : PoolState} {i : Nat} {ci : Int}
    {out : Except Throwable Oop} (h : string_at_impl env st i ci = .ok (st1, out)) :
    st.Advances st1 := by
  unfold string_at_impl at h
  split_ifs at h
  obtain ⟨str, _, h⟩ := bind_eq_ok.mp h
  by_cases hs : str = .null
  · simp only [hs, ne_eq, not_true_eq_false, if_false] at h
    obtain ⟨sym, _, h⟩ := bind_eq_ok.mp h
    have hlog := PoolState.Advances.adv_log st (.intern sym)
    cases hi : env.intern st.trace sym with
    | error e =>
      rw [hi] at h
      cases h
      exact hlog
    | ok s =>
      rw [hi] at h
      obtain ⟨st2, h2, h⟩ := bind_eq_ok.mp h
      cases h
      exact hlog.adv_trans (PoolState.string_at_put_advances h2)
  · simp only [ne_eq, hs, not_false_eq_true, if_true] at h
    cases h
    exact PoolState.Advances.adv_refl _

theorem resolve_constant_dynamic_advances {env : Env} {st st1 : PoolState} {i tag : Nat}
    {out : Except Throwable Oop} (h : resolve_constant_dynamic env st i tag = .ok (st1, out)) :
    st.Advances st1 := by
  unfold resolve_constant_dynamic at h
  obtain ⟨sig, _, h⟩ := bind_eq_ok.mp h
  have hlog := PoolState.Advances.adv_log st (.invoke_bootstrap_method i)
  cases hb : env.invoke_bootstrap_method st.trace i with
  | mk p v =>
    rw [hb] at h
    cases p with
    | none => cases h; exact hlog
    | some e =>
      simp only at h
      obtain ⟨⟨st2, p2⟩, h2, h⟩ := bind_eq_ok.mp h
      have hadv := hlog.adv_trans (save_and_throw_exception_advances h2)
      cases p2 <;> cases h <;> exact hadv

theorem resolve_constant_link_method_handle_advances {env : Env} {st st1 : PoolState}
    {i tag ref_kind name signature : Nat} {callee : Klass} {out : Except Throwable Oop}
    (h : resolve_constant_link_method_handle env st i tag ref_kind callee name signature =
      .ok (st1, out)) : st.Advances st1 := by
  unfold resolve_constant_link_method_handle at h
  have hlog := PoolState.Advances.adv_log st
    (.link_method_handle_constant ref_kind callee name signature)
  cases hb : env.link_method_handle_constant st.trace ref_kind callee name signature with
  | mk p v =>
    simp only [hb, bind_pure_comp, pure_bind] at h
    cases p with
    | none => cases h; exact hlog
    | some e =>
      simp only at h
      obtain ⟨⟨st2, p2⟩, h2, h⟩ := bind_eq_ok.mp h
      have hadv := hlog.adv_trans (save_and_throw_exception_advances h2)
      cases p2 <;> cases h <;> exact hadv

theorem resolve_constant_check_method_handle_advances {env : Env} {st st1 : PoolState}
    {i tag ref_kind name signature m_tag : Nat} {callee : Option Klass}
    {out : Except Throwable Oop}
    (h : resolve_constant_check_method_handle env st i tag ref_kind callee name signature
      m_tag = .ok (st1, out)) : st.Advances st1 := by
  unfold resolve_constant_check_method_handle at h
  cases callee with
  | none => cases h
  | some callee =>
    simp only at h
    split_ifs at h
    · obtain ⟨⟨st2, p2⟩, h2, h⟩ := bind_eq_ok.mp h
      have hadv := save_and_throw_exception_advances h2
      cases p2 with
      | some e => cases h; exact hadv
      | none => exact hadv.adv_trans (resolve_constant_link_method_handle_advances h)
    · exact resolve_constant_link_method_handle_advances h

theorem resolve_constant_method_handle_advances {env : Env} {st st1 : PoolState} {i tag : Nat}
    {out : Except Throwable Oop}
    (h : resolve_constant_method_handle env st i tag = .ok (st1, out)) : st.Advances st1 := by
  unfold resolve_constant_method_handle at h
  obtain ⟨ref_kind, _, h⟩ := bind_eq_ok.mp h
  obtain ⟨callee_index, _, h⟩ := bind_eq_ok.mp h
  obtain ⟨name, _, h⟩ := bind_eq_ok.mp h
  obtain ⟨signature, _, h⟩ := bind_eq_ok.mp h
  obtain ⟨member, _, h⟩ := bind_eq_ok.mp h
  obtain ⟨m_tag, _, h⟩ := bind_eq_ok.mp h
  obtain ⟨⟨st2, r⟩, h2, h⟩ := bind_eq_ok.mp h
  have hk := klass_at_impl_advances h2
  cases r with
  | error e =>
    simp only at h
    obtain ⟨⟨st3, p⟩, h3, h⟩ := bind_eq_ok.mp h
    have hadv := hk.adv_trans (save_and_throw_exception_advances h3)
    cases p with
    | some e1 => cases h; exact hadv
    | none => exact hadv.adv_trans (resolve_constant_check_method_handle_advances h)
  | ok callee => exact hk.adv_trans (resolve_constant_check_method_handle_advances h)

theorem resolve_constant_method_type_advances {env : Env} {st st1 : PoolState} {i tag : Nat}
    {out : Except Throwable Oop}
    (h : resolve_constant_method_type env st i tag = .ok (st1, out)) : st.Advances st1 := by
  unfold resolve_constant_method_type at h
  obtain ⟨sig, _, h⟩ := bind_eq_ok.mp h
  have hlog := PoolState.Advances.adv_log st (.find_method_handle_type sig)
  cases hb : env.find_method_handle_type st.trace sig with
  | mk p v =>
    rw [hb] at h
    cases p with
    | none => cases h; exact hlog
    | some e =>
      simp only at h
      obtain ⟨⟨st2, p2⟩, h2, h⟩ := bind_eq_ok.mp h
      have hadv := hlog.adv_trans (save_and_throw_exception_advances h2)
      cases p2 <;> cases h <;> exact hadv

theorem resolve_constant_box_advances (env : Env) (st : PoolState) (type value : Nat) :
    st.Advances (resolve_constant_box env st type value).1 :=
  PoolState.Advances.adv_log _ _

theorem resolve_constant_value_advances {env : Env} {st st1 : PoolState} {i tag : Nat}
    {ci : Int} {out : Except Throwable Oop}
    (h : resolve_constant_value env st i ci tag = .ok (st1, out)) : st.Advances st1 := by
  unfold resolve_constant_value at h
  by_cases h1 : tag = JVM_CONSTANT_UnresolvedClass ∨ tag = JVM_CONSTANT_Class
  · rw [if_pos h1] at h
    obtain ⟨⟨st2, r⟩, h2, h⟩ := bind_eq_ok.mp h
    have hk := klass_at_impl_advances h2
    cases r with
    | error e => cases h; exact hk
    | ok k =>
      cases k with
      | none => cases h
      | some k => cases h; exact hk
  rw [if_neg h1] at h
  by_cases h2 : tag = JVM_CONSTANT_Dynamic
  · rw [if_pos h2] at h; exact resolve_constant_dynamic_advances h
  rw [if_neg h2] at h
  by_cases h3 : tag = JVM_CONSTANT_String
  · rw [if_pos h3] at h; exact string_at_impl_advances h
  rw [if_neg h3] at h
  by_cases h4 : tag = JVM_CONSTANT_MethodHandle
  · rw [if_pos h4] at h; exact resolve_constant_method_handle_advances h
  rw [if_neg h4] at h
  by_cases h5 : tag = JVM_CONSTANT_MethodType
  · rw [if_pos h5] at h; exact resolve_constant_method_type_advances h
  rw [if_neg h5] at h
  by_cases h6 : tag = JVM_CONSTANT_Integer
  · rw [if_pos h6] at h
    obtain ⟨v, _, h⟩ := bind_eq_ok.mp h
    cases h; exact PoolState.Advances.adv_log _ _
  rw [if_neg h6] at h
  by_cases h7 : tag = JVM_CONSTANT_Float
  · rw [if_pos h7] at h
    obtain ⟨v, _, h⟩ := bind_eq_ok.mp h
    cases h; exact PoolState.Advances.adv_log _ _
  rw [if_neg h7] at h
  by_cases h8 : tag = JVM_CONSTANT_Long
  · rw [if_pos h8] at h
    obtain ⟨v, _, h⟩ := bind_eq_ok.mp h
    cases h; exact PoolState.Advances.adv_log _ _
  rw [if_neg h8] at h
  by_cases h9 : tag = JVM_CONSTANT_Double
  · rw [if_pos h9] at h
    obtain ⟨v, _, h⟩ := bind_eq_ok.mp h
    cases h; exact PoolState.Advances.adv_log _ _
  rw [if_neg h9] at h
  by_cases h10 : tag = JVM_CONSTANT_UnresolvedClassInError ∨ tag = JVM_CONSTANT_DynamicInError ∨
      tag = JVM_CONSTANT_MethodHandleInError ∨ tag = JVM_CONSTANT_MethodTypeInError
  · rw [if_pos h10] at h
    obtain ⟨e, _, h⟩ := bind_eq_ok.mp h
    cases h; exact PoolState.Advances.adv_refl _
  rw [if_neg h10] at h
  cases h

theorem resolve_constant_publish_advances {st st1 : PoolState} {ci : Int} {o v : Oop}
    (h : resolve_constant_publish st ci o = .ok (st1, v)) : st.Advances st1 := by
  unfold resolve_constant_publish at h
  by_cases hc : ci ≥ 0
  · rw [if_pos hc] at h
    obtain ⟨⟨st2, old⟩, h2, h⟩ := bind_eq_ok.mp h
    have hadv := PoolState.set_resolved_reference_at_advances h2
    have h' : (if old = Oop.null then (pure (st2, o) : Except Fault (PoolState × Oop))
        else if old = Universe.the_null_sentinel then pure (st2, Oop.null)
        else pure (st2, old)) = .ok (st1, v) := h
    split_ifs at h' <;> cases h' <;> exact hadv
  · rw [if_neg hc] at h
    cases h
    exact PoolState.Advances.adv_refl _

theorem resolve_constant_at_tag_advances {env : Env} {st st1 : PoolState} {i : Nat}
    {ci : Int} {status : Option Bool} {out : Except Throwable Oop × Option Bool}
    (h : resolve_constant_at_tag env st i ci status = .ok (st1, out)) : st.Advances st1 := by
  unfold resolve_constant_at_tag at h
  obtain ⟨tag, _, h⟩ := bind_eq_ok.mp h
  split_ifs at h
  · cases h; exact PoolState.Advances.adv_refl _
  · obtain ⟨⟨st2, r⟩, h2, h⟩ := bind_eq_ok.mp h
    have hv := resolve_constant_value_advances h2
    cases r with
    | error e => cases h; exact hv
    | ok o =>
      simp only at h
      obtain ⟨⟨st3, v⟩, h3, h⟩ := bind_eq_ok.mp h
      cases h
      exact hv.adv_trans (resolve_constant_publish_advances h3)

theorem resolve_constant_at_impl_advances {env : Env} {st st1 : PoolState} {cp_index ci : Int}
    {status : Option Bool} {out : Except Throwable Oop × Option Bool}
    (h : resolve_constant_at_impl env st cp_index ci status = .ok (st1, out)) :
    st.Advances st1 := by
  unfold resolve_constant_at_impl at h
  simp only at h
  generalize (if ci = _possible_index_sentinel then st.cp_to_object_index cp_index else ci) = c
    at h
  by_cases hc : c ≥ 0
  · rw [if_pos hc] at h
    obtain ⟨o, _, h⟩ := bind_eq_ok.mp h
    by_cases ho : o ≠ Oop.null
    · rw [if_pos ho] at h
      cases h; exact PoolState.Advances.adv_refl _
    · rw [if_neg ho] at h
      obtain ⟨i, _, h⟩ := bind_eq_ok.mp h
      exact resolve_constant_at_tag_advances h
  · rw [if_neg hc] at h
    by_cases hn : cp_index < 0
    · rw [if_pos hn] at h; cases h
    · rw [if_neg hn] at h
      exact resolve_constant_at_tag_advances h

end ConstantPool

namespace ConstantPool

/-! ## C21: an entry tagged Class has a resolved klass -/

/-- C21: start from a pool whose class entries are all UnresolvedClass with null
resolved-klass slots, each entry with a slot of its own as
`initialize_unresolved_klasses` hands them out, and let any number of threads take the
atomic steps of `klass_at_impl` and `save_and_throw_exception` (slot store, tag
compare-and-swap, slot reset, recording an error) in any interleaving.  In every state
reached, every entry whose tag is Class has a non-null resolved-klass slot. -/
theorem klass_tag_implies_resolved_klass (env : Env) (st : PoolState)
    (hU : st.KlassesUnresolved) (hD : st.KlassSlotsDistinct) (schedule : List Action) :
    ∀ i, (System.run env ⟨st, []⟩ schedule).shared.cp.tag_at i = .ok JVM_CONSTANT_Class →
      ∃ k, (System.run env ⟨st, []⟩ schedule).shared.resolved_klass_slot i = .ok (some k) :=
  (System.run_inv env schedule ⟨st, []⟩ (System.inv_of_unresolved hU hD)).2.1

theorem klass_tag_implies_resolved_klass_witness :
    resolutionState.KlassesUnresolved ∧ resolutionState.KlassSlotsDistinct ∧
      (System.run resolutionEnv ⟨resolutionState, []⟩ raceSchedule).shared.cp.tag_at 7 =
        .ok JVM_CONSTANT_Class ∧
      (System.run resolutionEnv ⟨resolutionState, []⟩ raceSchedule).shared.cp.tag_at 2 =
        .ok JVM_CONSTANT_UnresolvedClassInError ∧
      ∃ k, (System.run resolutionEnv ⟨resolutionState, []⟩
        raceSchedule).shared.resolved_klass_slot 7 = .ok (some k) :=
  ⟨by decide, by decide, by decide, by decide,
    klass_tag_implies_resolved_klass resolutionEnv resolutionState (by decide) (by decide)
      raceSchedule 7 (by decide)⟩

/-! ## C22: the tag transitions of resolution -/

/-- C22: no atomic step of a thread at work in `klass_at_impl`,
`resolve_constant_at_impl` or `save_and_throw_exception`, and no call of one of these
functions, changes a tag that is Class or an in-error variant; every tag is left as it
is or makes one of the transitions UnresolvedClass to Class, UnresolvedClass to
UnresolvedClassInError, MethodHandle to MethodHandleInError, MethodType to
MethodTypeInError and Dynamic to DynamicInError. -/
theorem resolution_tags_only_advance (env : Env) :
    (∀ (sys : System) (a : Action), TagsAdvance sys.shared.cp (sys.act env a).shared.cp) ∧
    (∀ st i st1 out, klass_at_impl env st i = .ok (st1, out) → TagsAdvance st.cp st1.cp) ∧
    (∀ st i tag e st1 p, save_and_throw_exception env st i tag e = .ok (st1, p) →
      TagsAdvance st.cp st1.cp) ∧
    (∀ st cp_index cache_index status_return st1 out,
      resolve_constant_at_impl env st cp_index cache_index status_return = .ok (st1, out) →
        TagsAdvance st.cp st1.cp) :=
  ⟨System.act_tags_advance env,
    fun _ _ _ _ h => (klass_at_impl_advances h).1,
    fun _ _ _ _ _ _ h => (save_and_throw_exception_advances h).1,
    fun _ _ _ _ _ _ h => (resolve_constant_at_impl_advances h).1⟩

theorem resolution_tags_only_advance_witness :
    (∃ st1 out, klass_at_impl resolutionEnv resolutionState 7 = .ok (st1, out) ∧
      st1.cp.tag_at 7 = .ok JVM_CONSTANT_UnresolvedClassInError ∧
      TagsAdvance resolutionState.cp st1.cp) ∧
    (∃ st1 p, save_and_throw_exception resolutionEnv resolutionState 9 JVM_CONSTANT_MethodType
        ⟨2000, none, .self⟩ = .ok (st1, p) ∧
      st1.cp.tag_at 9 = .ok JVM_CONSTANT_MethodTypeInError ∧
      TagsAdvance resolutionState.cp st1.cp) ∧
    (∃ st1 out, resolve_constant_at_impl resolutionEnv resolutionState 2 (-1) none =
        .ok (st1, out) ∧
      st1.cp.tag_at 2 = .ok JVM_CONSTANT_Class ∧ TagsAdvance resolutionState.cp st1.cp) := by
  refine ⟨?_, ?_, ?_⟩
  · have hv : (fun r => r.1.cp.tag_at 7) <$> klass_at_impl resolutionEnv resolutionState 7 =
        .ok (.ok JVM_CONSTANT_UnresolvedClassInError) := by decide
    cases h : klass_at_impl resolutionEnv resolutionState 7 with
    | error f => rw [h] at hv; cases hv
    | ok r =>
      rw [h] at hv
      exact ⟨r.1, r.2, rfl, Except.ok.inj hv,
        (resolution_tags_only_advance resolutionEnv).2.1 resolutionState 7 r.1 r.2 h⟩
  · have hv : (fun r => r.1.cp.tag_at 9) <$> save_and_throw_exception resolutionEnv
        resolutionState 9 JVM_CONSTANT_MethodType ⟨2000, none, .self⟩ =
        .ok (.ok JVM_CONSTANT_MethodTypeInError) := by decide
    cases h : save_and_throw_exception resolutionEnv resolutionState 9 JVM_CONSTANT_MethodType
      ⟨2000, none, .self⟩ with
    | error f => rw [h] at hv; cases hv
    | ok r =>
      rw [h] at hv
      exact ⟨r.1, r.2, rfl, Except.ok.inj hv,
        (resolution_tags_only_advance resolutionEnv).2.2.1 resolutionState 9
          JVM_CONSTANT_MethodType ⟨2000, none, .self⟩ r.1 r.2 h⟩
  · have hv : (fun r => r.1.cp.tag_at 2) <$> resolve_constant_at_impl resolutionEnv
        resolutionState 2 (-1) none = .ok (.ok JVM_CONSTANT_Class) := by decide
    cases h : resolve_constant_at_impl resolutionEnv resolutionState 2 (-1) none with
    | error f => rw [h] at hv; cases hv
    | ok r =>
      rw [h] at hv
      exact ⟨r.1, r.2, rfl, Except.ok.inj hv,
        (resolution_tags_only_advance resolutionEnv).2.2.2 resolutionState 2 (-1) none
          r.1 r.2 h⟩

end ConstantPool

namespace ConstantPool

/-! ## C23: replaying a recorded error -/

theorem throw_resolution_error_eq {st : PoolState} {which : Nat} {entry : ResolutionErrorEntry}
    (h : SystemDictionary.find_resolution_error st.error_table which = some entry) :
    throw_resolution_error st which = .ok entry.replayed := by
  unfold throw_resolution_error ResolutionErrorEntry.replayed
  rw [h]
  obtain ⟨error, message, cause, cause_msg⟩ := entry
  cases message <;> cases cause <;> rfl

theorem klass_slot_reads_of_tag {cp : ConstantPool} {i t : Nat} (h : cp.tag_at i = .ok t) :
    ∃ s, cp.slot_at i = .ok s ∧ s.tag = t ∧
      cp.klass_slot_resolved_klass_index i =
        .ok (extract_low_short_from_int (s.value % 4294967296)) ∧
      cp.klass_slot_name_index i = .ok (extract_high_short_from_int (s.value % 4294967296)) := by
  obtain ⟨s, hs, ht⟩ := tag_at_eq_ok.mp h
  refine ⟨s, hs, ht, ?_, ?_⟩
  · unfold klass_slot_resolved_klass_index; rw [int_at_addr_of_slot hs]; rfl
  · unfold klass_slot_name_index; rw [int_at_addr_of_slot hs]; rfl

/-- The call of `klass_at_impl` at an entry in error replays the recorded error and
leaves the state as it is. -/
theorem klass_at_impl_in_error (env : Env) {st : PoolState} {i : Nat}
    {entry : ResolutionErrorEntry}
    (ht : st.cp.tag_at i = .ok JVM_CONSTANT_UnresolvedClassInError)
    (he : SystemDictionary.find_resolution_error st.error_table i = some entry) :
    klass_at_impl env st i = .ok (st, .error entry.replayed) := by
  obtain ⟨s, _, _, hr, hn⟩ := klass_slot_reads_of_tag ht
  unfold klass_at_impl
  rw [hr, hn, ht]
  simp only [ok_bind, constantTag.is_klass, constantTag.is_unresolved_klass_in_error,
    throw_resolution_error_eq he]
  rfl

/-- A call that is not answered from the resolved references resolves the entry. -/
theorem resolve_constant_at_impl_uncached (env : Env) {st : PoolState} {cp_index ci : Int}
    {i : Nat} (status : Option Bool) (h : st.Uncached cp_index ci i) :
    resolve_constant_at_impl env st cp_index ci status =
      resolve_constant_at_tag env st i (st.cache_index cp_index ci) status := by
  unfold resolve_constant_at_impl
  simp only
  unfold PoolState.Uncached at h
  have hfold : (if ci = _possible_index_sentinel then st.cp_to_object_index cp_index else ci) =
      st.cache_index cp_index ci := rfl
  rw [hfold]
  rcases h with ⟨hc, hi⟩ | ⟨hc, hnull, hmap⟩
  · have hc' : ¬ st.cache_index cp_index ci ≥ 0 := by omega
    rw [if_neg hc']
    have hn : ¬ cp_index < 0 := by omega
    rw [if_neg hn, hi, Int.toNat_ofNat]
  · have hc' : st.cache_index cp_index ci ≥ 0 := hc
    rw [if_pos hc', PoolState.resolved_reference_at_eq_ok.mpr hnull]
    simp only [ok_bind, ne_eq, not_true_eq_false, if_false]
    unfold PoolState.object_to_cp_index
    rw [hmap]
    rfl

theorem resolve_constant_value_in_error (env : Env) {st : PoolState} {i tag : Nat}
    (ci : Int) {entry : ResolutionErrorEntry} (htag : InErrorTag tag)
    (he : SystemDictionary.find_resolution_error st.error_table i = some entry) :
    resolve_constant_value env st i ci tag = .ok (st, .error entry.replayed) := by
  unfold resolve_constant_value
  rcases htag with rfl | rfl | rfl | rfl <;>
    simp [throw_resolution_error_eq he]

/-- A call in find-cached mode (`status_return` not null) that is not answered from the
resolved references, at an entry in error, raises nothing: it returns null and reports
the constant as not found. -/
theorem resolve_constant_at_impl_find_cached_in_error (env : Env) {st : PoolState}
    {cp_index ci : Int} {i tag : Nat} (b : Bool) (hu : st.Uncached cp_index ci i)
    (ht : st.cp.tag_at i = .ok tag) (htag : InErrorTag tag) :
    resolve_constant_at_impl env st cp_index ci (some b) = .ok (st, .ok .null, some false) := by
  rw [resolve_constant_at_impl_uncached env (some b) hu]
  unfold resolve_constant_at_tag
  rw [ht]
  simp only [ok_bind]
  have hno : ¬ (tag = JVM_CONSTANT_Class ∨ tag = JVM_CONSTANT_String ∨
      tag = JVM_CONSTANT_Integer ∨ tag = JVM_CONSTANT_Float ∨ tag = JVM_CONSTANT_Long ∨
      tag = JVM_CONSTANT_Double) := by
    rcases htag with rfl | rfl | rfl | rfl <;> decide
  rw [if_pos ⟨rfl, hno⟩]
  rfl

/-- A call of `resolve_constant_at_impl` whose resolved-references slot is filled is
answered from the slot and changes nothing. -/
theorem resolve_constant_at_impl_cached (env : Env) {st : PoolState} {cp_index ci : Int}
    (status : Option Bool) {o : Oop} (hc : 0 ≤ st.cache_index cp_index ci)
    (ho : st.resolved_references[(st.cache_index cp_index ci).toNat]? = some o)
    (hn : o ≠ .null) :
    resolve_constant_at_impl env st cp_index ci status =
      .ok (st, .ok o.resolved, status.map (fun _ => true)) := by
  unfold resolve_constant_at_impl
  simp only
  have hfold : (if ci = _possible_index_sentinel then st.cp_to_object_index cp_index else ci) =
      st.cache_index cp_index ci := rfl
  rw [hfold, if_pos (show st.cache_index cp_index ci ≥ 0 from hc),
    PoolState.resolved_reference_at_eq_ok.mpr ho]
  simp only [ok_bind, ne_eq, hn, not_false_eq_true, if_true]
  rfl

/-- C23 (as amended): if the tag at a class entry is UnresolvedClassInError and the error
table records (kind, message, cause) for that index, `klass_at_impl` raises an error of
that kind with that message (none when none is recorded) and, when a cause is recorded,
a cause of the recorded kind and message, and leaves the pool, the error table and the
calls made to the class loader and the accessibility check as they are.
`resolve_constant_at_impl` does the same for every in-error tag when it is called to
resolve (`status_return` is null) and is not answered from the resolved references.
Called in find-cached mode (`status_return` not null) and not answered from the
resolved references, it raises nothing, returns null, reports the constant as not found
and leaves the state as it is.  A call whose resolved-references slot holds an object
returns that object (null for the null sentinel) in either mode, raises nothing and
leaves the state as it is. -/
theorem in_error_replays_recorded_error (env : Env) (st : PoolState) (i : Nat)
    (entry : ResolutionErrorEntry)
    (he : SystemDictionary.find_resolution_error st.error_table i = some entry) :
    (st.cp.tag_at i = .ok JVM_CONSTANT_UnresolvedClassInError →
      klass_at_impl env st i = .ok (st, .error entry.replayed)) ∧
    (∀ tag cp_index cache_index, st.cp.tag_at i = .ok tag → InErrorTag tag →
      st.Uncached cp_index cache_index i →
      resolve_constant_at_impl env st cp_index cache_index none =
        .ok (st, .error entry.replayed, none)) ∧
    (∀ tag cp_index cache_index b, st.cp.tag_at i = .ok tag → InErrorTag tag →
      st.Uncached cp_index cache_index i →
      resolve_constant_at_impl env st cp_index cache_index (some b) =
        .ok (st, .ok .null, some false)) ∧
    (∀ cp_index cache_index status o, 0 ≤ st.cache_index cp_index cache_index →
      st.resolved_references[(st.cache_index cp_index cache_index).toNat]? = some o →
      st.reference_map[(st.cache_index cp_index cache_index).toNat]? = some i →
      o ≠ .null →
      resolve_constant_at_impl env st cp_index cache_index status =
        .ok (st, .ok o.resolved, status.map (fun _ => true))) := by
  refine ⟨fun ht => klass_at_impl_in_error env ht he, ?_,
    fun tag cp_index ci b ht htag hu =>
      resolve_constant_at_impl_find_cached_in_error env b hu ht htag,
    fun cp_index ci status o hc ho _ hne =>
      resolve_constant_at_impl_cached env status hc ho hne⟩
  intro tag cp_index ci ht htag hu
  rw [resolve_constant_at_impl_uncached env none hu]
  unfold resolve_constant_at_tag
  rw [ht]
  simp only [ok_bind, Option.isSome_none, Bool.false_eq_true, false_and, if_false,
    resolve_constant_value_in_error env _ htag he, Option.map_none']
  rfl

theorem in_error_replays_recorded_error_witness :
    SystemDictionary.find_resolution_error errorState.error_table 7 =
      some ⟨2000, some [98, 97, 114], some 2001, some [98, 97, 114]⟩ ∧
    errorState.cp.tag_at 7 = .ok JVM_CONSTANT_UnresolvedClassInError ∧
    klass_at_impl resolutionEnv errorState 7 =
      .ok (errorState, .error ⟨2000, some [98, 97, 114], .other 2001 (some [98, 97, 114])⟩) ∧
    errorState.cp.tag_at 8 = .ok JVM_CONSTANT_MethodHandleInError ∧
    errorState.Uncached 8 (-2) 8 ∧
    resolve_constant_at_impl resolutionEnv errorState 8 (-2) none =
      .ok (errorState, .error ⟨2002, none, .self⟩, none) ∧
    resolve_constant_at_impl resolutionEnv errorState 8 (-2) (some true) =
      .ok (errorState, .ok .null, some false) :=
  ⟨by decide, by decide,
    (in_error_replays_recorded_error resolutionEnv errorState 7
      ⟨2000, some [98, 97, 114], some 2001, some [98, 97, 114]⟩ (by decide)).1 (by decide),
    by decide, by decide,
    (in_error_replays_recorded_error resolutionEnv errorState 8 ⟨2002, none, none, none⟩
      (by decide)).2.1 _ 8 (-2) (by decide) (Or.inr (Or.inl rfl)) (by decide),
    (in_error_replays_recorded_error resolutionEnv errorState 8 ⟨2002, none, none, none⟩
      (by decide)).2.2.1 _ 8 (-2) true (by decide) (Or.inr (Or.inl rfl)) (by decide)⟩

/-- C23, as stated, fails: the MethodHandle entry #8 is in error with a recorded error, and
`resolve_constant_at_impl` called in find-cached mode (`status_return` not null) raises
nothing: it returns null and reports the constant as not found.  And when the
resolved-references slot of the entry holds the object 500, `resolve_constant_at_impl`
called to resolve raises nothing either: it returns the object. -/
theorem in_error_find_cached_raises_nothing :
    errorState.cp.tag_at 8 = .ok JVM_CONSTANT_MethodHandleInError ∧
    SystemDictionary.find_resolution_error errorState.error_table 8 =
      some ⟨2002, none, none, none⟩ ∧
    resolve_constant_at_impl resolutionEnv errorState 8 (-2) (some false) =
      .ok (errorState, .ok .null, some false) ∧
    errorStateCached.cp.tag_at 8 = .ok JVM_CONSTANT_MethodHandleInError ∧
    SystemDictionary.find_resolution_error errorStateCached.error_table 8 =
      some ⟨2002, none, none, none⟩ ∧
    resolve_constant_at_impl resolutionEnv errorStateCached 8 (-2) none =
      .ok (errorStateCached, .ok (.object 500), none) := by
  decide

end ConstantPool

namespace ConstantPool

/-! ## C24: the first error and the replayed error -/

theorem find_resolution_error_add_self {table : ResolutionErrorTable} {which : Nat}
    (entry : ResolutionErrorEntry)
    (h : SystemDictionary.find_resolution_error table which = none) :
    SystemDictionary.find_resolution_error
      (SystemDictionary.add_resolution_error table which entry) which = some entry := by
  unfold SystemDictionary.add_resolution_error
  rw [h]
  unfold SystemDictionary.find_resolution_error at h ⊢
  simp only [Option.map_eq_none'] at h
  simp only [List.find?_append, h, Option.none_or, List.find?_cons, decide_True,
    Option.map_some']

theorem find_resolution_error_add_ne {table : ResolutionErrorTable} {which j : Nat}
    (entry : ResolutionErrorEntry) (hj : j ≠ which) :
    SystemDictionary.find_resolution_error
      (SystemDictionary.add_resolution_error table which entry) j =
      SystemDictionary.find_resolution_error table j := by
  unfold SystemDictionary.add_resolution_error
  cases h : SystemDictionary.find_resolution_error table which with
  | some e => rfl
  | none =>
    simp only
    unfold SystemDictionary.find_resolution_error
    cases hf : List.find? (fun p => decide (p.1 = j)) table with
    | some p => simp [List.find?_append, hf]
    | none =>
      simp [List.find?_append, hf, List.find?_cons, Ne.symm hj]

/-- With a LinkageError pending at an entry that carries the tag it was entered with,
`save_and_throw_exception` records the error, puts the entry in error and leaves the
exception pending. -/
theorem save_and_throw_exception_linkage {env : Env} {st : PoolState} {i tag error_tag : Nat}
    {e : Throwable} (het : constantTag.error_value tag = .ok error_tag)
    (hl : env.is_linkage_error e.klass = true) (ht : st.cp.tag_at i = .ok tag) :
    save_and_throw_exception env st i tag e =
      (exception_message env st.cp i tag e >>= fun m =>
        .ok (⟨st.cp.with_tag i error_tag, st.resolved_klasses, st.resolved_references,
          st.reference_map,
          SystemDictionary.add_resolution_error st.error_table i
            ⟨e.klass, m, cause_sym e, cause_msg e⟩, st.trace⟩, some e)) := by
  have hne : tag ≠ error_tag := by
    unfold constantTag.error_value at het
    split_ifs at het with h1 h2 h3 h4 <;> cases het <;> subst_vars <;> decide
  unfold save_and_throw_exception
  rw [het, ht]
  simp only [ok_bind, hl, Bool.not_true, Bool.false_eq_true, if_false, ne_eq, hne,
    not_false_eq_true, if_true]
  unfold add_resolution_error
  cases hm : exception_message env st.cp i tag e with
  | error f => rfl
  | ok m =>
    simp only [ok_bind, pure_eq_ok]
    rw [PoolState.cmpxchg_tag_hit _ (show (PoolState.mk st.cp st.resolved_klasses
      st.resolved_references st.reference_map (SystemDictionary.add_resolution_error
        st.error_table i ⟨e.klass, m, cause_sym e, cause_msg e⟩) st.trace).cp.tag_at i =
          .ok tag from ht)]
    simp only [ok_bind, not_true_eq_false, and_false, if_false]

/-- Without a LinkageError pending, `save_and_throw_exception` changes nothing. -/
theorem save_and_throw_exception_not_linkage {env : Env} (st : PoolState) (i : Nat)
    {tag error_tag : Nat} {e : Throwable} (het : constantTag.error_value tag = .ok error_tag)
    (hl : env.is_linkage_error e.klass = false) :
    save_and_throw_exception env st i tag e = .ok (st, some e) := by
  unfold save_and_throw_exception
  rw [het]
  simp only [ok_bind, hl, Bool.not_false, if_true, pure_eq_ok]

end ConstantPool

namespace ConstantPool

theorem klass_at_impl_failed_linkage {env : Env} {st : PoolState} {i : Nat} (r : Nat)
    {e : Throwable} (hl : env.is_linkage_error e.klass = true)
    (ht : st.cp.tag_at i = .ok JVM_CONSTANT_UnresolvedClass) :
    klass_at_impl_failed env st i r e =
      (exception_message env st.cp i JVM_CONSTANT_UnresolvedClass e >>= fun m =>
        .ok (⟨st.cp.with_tag i JVM_CONSTANT_UnresolvedClassInError, st.resolved_klasses,
          st.resolved_references, st.reference_map,
          SystemDictionary.add_resolution_error st.error_table i
            ⟨e.klass, m, cause_sym e, cause_msg e⟩, st.trace⟩, .error e)) := by
  unfold klass_at_impl_failed
  rw [save_and_throw_exception_linkage (rfl : constantTag.error_value
    JVM_CONSTANT_UnresolvedClass = .ok JVM_CONSTANT_UnresolvedClassInError) hl ht]
  cases exception_message env st.cp i JVM_CONSTANT_UnresolvedClass e <;> rfl

theorem klass_at_impl_failed_not_linkage {env : Env} (st : PoolState) (i r : Nat)
    {e : Throwable} (hl : env.is_linkage_error e.klass = false) :
    klass_at_impl_failed env st i r e = .ok (st, .error e) := by
  unfold klass_at_impl_failed
  rw [save_and_throw_exception_not_linkage st i (rfl : constantTag.error_value
    JVM_CONSTANT_UnresolvedClass = .ok JVM_CONSTANT_UnresolvedClassInError) hl]
  rfl

/-- At an UnresolvedClass entry with a slot in the array, the loaded klass is stored and
the entry becomes a Class entry. -/
theorem klass_at_impl_resolved_unresolved {st : PoolState} {i r : Nat} (k : Klass)
    (ht : st.cp.tag_at i = .ok JVM_CONSTANT_UnresolvedClass)
    (hr : r < st.resolved_klasses.length) :
    klass_at_impl_resolved st i r k =
      .ok (⟨st.cp.with_tag i JVM_CONSTANT_Class, st.resolved_klasses.set r (some k),
        st.resolved_references, st.reference_map, st.error_table, st.trace⟩,
        .ok (some k)) := by
  unfold klass_at_impl_resolved
  rw [PoolState.resolved_klasses_store_eq _ hr]
  simp only [ok_bind]
  rw [PoolState.cmpxchg_tag_hit _ (show (PoolState.mk st.cp (st.resolved_klasses.set r (some k))
    st.resolved_references st.reference_map st.error_table st.trace).cp.tag_at i =
      .ok JVM_CONSTANT_UnresolvedClass from ht)]
  simp only [ok_bind, show ¬ (JVM_CONSTANT_UnresolvedClass = JVM_CONSTANT_UnresolvedClassInError)
    by decide, if_false, pure_eq_ok]

theorem klass_at_impl_resolved_ne_error {st st1 : PoolState} {i r : Nat} {k : Klass}
    {e : Throwable} (ht : st.cp.tag_at i = .ok JVM_CONSTANT_UnresolvedClass) :
    klass_at_impl_resolved st i r k ≠ .ok (st1, .error e) := by
  intro h
  by_cases hr : r < st.resolved_klasses.length
  · rw [klass_at_impl_resolved_unresolved k ht hr] at h
    cases h
  · unfold klass_at_impl_resolved at h
    rw [PoolState.resolved_klasses_store_error _ hr] at h
    cases h

/-- The call of `klass_at_impl` at an UnresolvedClass entry asks the class loader for the
name of the entry and then goes on from the answer. -/
theorem klass_at_impl_unresolved (env : Env) {st : PoolState} {i : Nat}
    (ht : st.cp.tag_at i = .ok JVM_CONSTANT_UnresolvedClass) :
    ∃ r n, st.cp.klass_slot_resolved_klass_index i = .ok r ∧
      st.cp.klass_slot_name_index i = .ok n ∧
      klass_at_impl env st i =
        (st.cp.symbol_at n >>= fun name =>
          match env.resolve_or_fail st.trace name with
          | .error e => klass_at_impl_failed env (st.log (.resolve_or_fail name)) i r e
          | .ok k =>
            match verify_constant_pool_resolve env (st.log (.resolve_or_fail name)) k with
            | (st2, some e) => klass_at_impl_failed env st2 i r e
            | (st2, none) => klass_at_impl_resolved st2 i r k) := by
  obtain ⟨s, _, _, hr, hn⟩ := klass_slot_reads_of_tag ht
  refine ⟨_, _, hr, hn, ?_⟩
  unfold klass_at_impl
  rw [hr, hn, ht]
  simp only [ok_bind, constantTag.is_klass, constantTag.is_unresolved_klass_in_error,
    show ¬ (JVM_CONSTANT_UnresolvedClass = JVM_CONSTANT_Class) by decide,
    show ¬ (JVM_CONSTANT_UnresolvedClass = JVM_CONSTANT_UnresolvedClassInError) by decide,
    decide_False, Bool.false_eq_true, if_false]

theorem verify_constant_pool_resolve_same (env : Env) (st : PoolState) (k : Klass) :
    (verify_constant_pool_resolve env st k).1.cp = st.cp ∧
    (verify_constant_pool_resolve env st k).1.error_table = st.error_table ∧
    (verify_constant_pool_resolve env st k).1.resolved_klasses = st.resolved_klasses ∧
    (verify_constant_pool_resolve env st k).1.resolved_references = st.resolved_references ∧
    (verify_constant_pool_resolve env st k).1.reference_map = st.reference_map := by
  unfold verify_constant_pool_resolve
  split <;> exact ⟨rfl, rfl, rfl, rfl, rfl⟩

/-- A call of `klass_at_impl` at an UnresolvedClass entry that raises an error has failed
to resolve the class with that error, in a state that differs from the one of the call
in the calls made to the collaborators only. -/
theorem klass_at_impl_unresolved_error {env : Env} {st st1 : PoolState} {i : Nat}
    {e : Throwable} (ht : st.cp.tag_at i = .ok JVM_CONSTANT_UnresolvedClass)
    (h : klass_at_impl env st i = .ok (st1, .error e)) :
    ∃ st0 r, st0.cp = st.cp ∧ st0.error_table = st.error_table ∧
      st0.resolved_klasses = st.resolved_klasses ∧
      st0.resolved_references = st.resolved_references ∧
      st0.reference_map = st.reference_map ∧
      klass_at_impl_failed env st0 i r e = .ok (st1, .error e) := by
  obtain ⟨r, n, _, _, heq⟩ := klass_at_impl_unresolved env ht
  rw [heq] at h
  obtain ⟨name, _, h⟩ := bind_eq_ok.mp h
  have hfailed : ∀ (st0 : PoolState) (e0 : Throwable), st0.cp = st.cp →
      klass_at_impl_failed env st0 i r e0 = .ok (st1, .error e) → e0 = e := by
    intro st0 e0 hcp hf
    have ht0 : st0.cp.tag_at i = .ok JVM_CONSTANT_UnresolvedClass := by rw [hcp]; exact ht
    by_cases hl : env.is_linkage_error e0.klass = true
    · rw [klass_at_impl_failed_linkage r hl ht0] at hf
      obtain ⟨m, _, hf⟩ := bind_eq_ok.mp hf
      cases hf
      rfl
    · rw [klass_at_impl_failed_not_linkage st0 i r (by simpa using hl)] at hf
      cases hf
      rfl
  cases hres : env.resolve_or_fail st.trace name with
  | error e0 =>
    rw [hres] at h
    simp only at h
    have := hfailed (st.log (.resolve_or_fail name)) e0 rfl h
    subst this
    exact ⟨st.log (.resolve_or_fail name), r, rfl, rfl, rfl, rfl, rfl, h⟩
  | ok k =>
    rw [hres] at h
    simp only at h
    obtain ⟨h1, h2, h3, h4, h5⟩ :=
      verify_constant_pool_resolve_same env (st.log (.resolve_or_fail name)) k
    cases hver : verify_constant_pool_resolve env (st.log (.resolve_or_fail name)) k with
    | mk st2 p =>
      rw [hver] at h h1 h2 h3 h4 h5
      cases p with
      | some e0 =>
        simp only at h
        have := hfailed st2 e0 h1 h
        subst this
        exact ⟨st2, r, h1, h2, h3, h4, h5, h⟩
      | none =>
        simp only at h
        exact absurd h (klass_at_impl_resolved_ne_error (by rw [h1]; exact ht))

end ConstantPool

namespace ConstantPool

theorem exception_message_unresolved_class (env : Env) (cp : ConstantPool) (which : Nat)
    (e : Throwable) :
    exception_message env cp which JVM_CONSTANT_UnresolvedClass e =
      match e.message with
      | some msg => .ok (some msg)
      | none => cp.klass_name_at which >>= fun name =>
          .ok (if name ≠ 0 then some (env.heap name).as_C_string else none) := by
  unfold exception_message
  cases e.message with
  | some msg => rfl
  | none => simp only [if_true]; rfl

theorem replayed_cause_sym (E : Throwable) (m : Option CString) :
    cause_sym (ResolutionErrorEntry.mk E.klass m (cause_sym E) (cause_msg E)).replayed =
      cause_sym E := by
  obtain ⟨k, msg, c⟩ := E
  cases c <;> rfl

theorem replayed_cause_msg (E : Throwable) (m : Option CString) :
    cause_msg (ResolutionErrorEntry.mk E.klass m (cause_sym E) (cause_msg E)).replayed =
      cause_msg E := by
  obtain ⟨k, msg, c⟩ := E
  cases c <;> rfl

/-- C24: let the resolution of an UnresolvedClass entry without recorded error fail with a
LinkageError E, so that the first `klass_at_impl` call raises E and records the
failure.  Every later `klass_at_impl` call on the entry, in the state the first call
leaves and in every state in which the entry is in error with the same record, raises
an error of the kind of E with the cause kind and cause message of E.  Its message is
the message of E when E has one; when E has none, it is the name of the class. -/
theorem later_error_matches_first (env : Env) (st st1 : PoolState) (i : Nat) (E : Throwable)
    (ht : st.cp.tag_at i = .ok JVM_CONSTANT_UnresolvedClass)
    (hnone : SystemDictionary.find_resolution_error st.error_table i = none)
    (hE : env.is_linkage_error E.klass = true)
    (h1 : klass_at_impl env st i = .ok (st1, .error E)) :
    ∃ name e2, st.cp.klass_name_at i = .ok name ∧
      st1.cp.tag_at i = .ok JVM_CONSTANT_UnresolvedClassInError ∧
      (∀ st2 : PoolState, st2.cp.tag_at i = .ok JVM_CONSTANT_UnresolvedClassInError →
        SystemDictionary.find_resolution_error st2.error_table i =
          SystemDictionary.find_resolution_error st1.error_table i →
        klass_at_impl env st2 i = .ok (st2, .error e2)) ∧
      e2.klass = E.klass ∧ cause_sym e2 = cause_sym E ∧ cause_msg e2 = cause_msg E ∧
      e2.message =
        match E.message with
        | some m => some m
        | none => if name ≠ 0 then some (env.heap name).as_C_string else none := by
  obtain ⟨st0, r, hcp, htab, -, -, -, hf⟩ := klass_at_impl_unresolved_error ht h1
  have ht0 : st0.cp.tag_at i = .ok JVM_CONSTANT_UnresolvedClass := by rw [hcp]; exact ht
  rw [klass_at_impl_failed_linkage r hE ht0] at hf
  obtain ⟨m, hm, hf⟩ := bind_eq_ok.mp hf
  have hst1 : st1 = ⟨st0.cp.with_tag i JVM_CONSTANT_UnresolvedClassInError, st0.resolved_klasses,
      st0.resolved_references, st0.reference_map,
      SystemDictionary.add_resolution_error st0.error_table i
        ⟨E.klass, m, cause_sym E, cause_msg E⟩, st0.trace⟩ := by
    cases hf; rfl
  have hname : ∃ name, st.cp.klass_name_at i = .ok name := by
    obtain ⟨s, _, _, _, hn⟩ := klass_slot_reads_of_tag ht
    obtain ⟨_, n, _, hn', heq⟩ := klass_at_impl_unresolved env ht
    rw [heq] at h1
    obtain ⟨name, hname, _⟩ := bind_eq_ok.mp h1
    refine ⟨name, ?_⟩
    unfold klass_name_at
    rw [hn']
    exact hname
  obtain ⟨name, hname⟩ := hname
  have hfind : SystemDictionary.find_resolution_error st1.error_table i =
      some ⟨E.klass, m, cause_sym E, cause_msg E⟩ := by
    rw [hst1]
    exact find_resolution_error_add_self _ (by rw [htab]; exact hnone)
  have hmsg : m = match E.message with
      | some m => some m
      | none => if name ≠ 0 then some (env.heap name).as_C_string else none := by
    rw [exception_message_unresolved_class, hcp] at hm
    cases hEm : E.message with
    | some msg => rw [hEm] at hm; cases hm; rfl
    | none =>
      rw [hEm] at hm
      simp only [hname, ok_bind] at hm
      cases hm
      rfl
  refine ⟨name, (ResolutionErrorEntry.mk E.klass m (cause_sym E) (cause_msg E)).replayed,
    hname, ?_, ?_, rfl, ?_, ?_, hmsg⟩
  · rw [hst1]
    exact with_tag_tag_at_self _ (tag_at_lt ht0)
  · intro st2 ht2 hrec
    exact klass_at_impl_in_error env ht2 (hrec.trans hfind)
  · exact replayed_cause_sym E m
  · exact replayed_cause_msg E m

theorem later_error_matches_first_witness :
    resolutionState.cp.tag_at 7 = .ok JVM_CONSTANT_UnresolvedClass ∧
    SystemDictionary.find_resolution_error resolutionState.error_table 7 = none ∧
    resolutionEnv.is_linkage_error 2000 = true ∧
    ∃ name e2, resolutionState.cp.klass_name_at 7 = .ok name ∧
      (∀ st2 : PoolState, st2.cp.tag_at 7 = .ok JVM_CONSTANT_UnresolvedClassInError →
        SystemDictionary.find_resolution_error st2.error_table 7 =
          some ⟨2000, some [98, 97, 114], some 2001, some [98, 97, 114]⟩ →
        klass_at_impl resolutionEnv st2 7 = .ok (st2, .error e2)) ∧
      e2.klass = 2000 ∧ cause_sym e2 = some 2001 ∧ cause_msg e2 = some [98, 97, 114] := by
  refine ⟨by decide, by decide, by decide, ?_⟩
  have hv : (fun r => (r.2, SystemDictionary.find_resolution_error r.1.error_table 7)) <$>
      klass_at_impl resolutionEnv resolutionState 7 =
      .ok (.error ⟨2000, none, .other 2001 (some [98, 97, 114])⟩,
        some ⟨2000, some [98, 97, 114], some 2001, some [98, 97, 114]⟩) := by decide
  cases h : klass_at_impl resolutionEnv resolutionState 7 with
  | error f => rw [h] at hv; cases hv
  | ok r =>
    rw [h] at hv
    obtain ⟨st1, out⟩ := r
    have hout : out = .error ⟨2000, none, .other 2001 (some [98, 97, 114])⟩ :=
      congrArg Prod.fst (Except.ok.inj hv)
    have hrec : SystemDictionary.find_resolution_error st1.error_table 7 =
        some ⟨2000, some [98, 97, 114], some 2001, some [98, 97, 114]⟩ :=
      congrArg Prod.snd (Except.ok.inj hv)
    subst hout
    obtain ⟨name, e2, hname, -, hlater, hk, hcs, hcm, -⟩ :=
      later_error_matches_first resolutionEnv resolutionState st1 7
        ⟨2000, none, .other 2001 (some [98, 97, 114])⟩ (by decide) (by decide) (by decide) h
    exact ⟨name, e2, hname, fun st2 ht2 hr2 => hlater st2 ht2 (hr2.trans hrec.symm), hk, hcs,
      hcm⟩

/-- C24, counterexample: the class loader fails for the class entry #7 with a LinkageError
without message.  The first `klass_at_impl` call raises that error, without message;
the second call raises an error with the name of the class, `bar`, as message. -/
theorem later_error_message_differs :
    (klass_at_impl resolutionEnv resolutionState 7 >>= fun r =>
      (fun r2 => (r.2, r2.2)) <$> klass_at_impl resolutionEnv r.1 7) =
      .ok (.error ⟨2000, none, .other 2001 (some [98, 97, 114])⟩,
        .error ⟨2000, some [98, 97, 114], .other 2001 (some [98, 97, 114])⟩) := by
  decide

end ConstantPool

namespace ConstantPool

/-! ## C26 and C27: resolved entries are answered from the tables -/

theorem klass_at_impl_class (env : Env) {st : PoolState} {i : Nat}
    (ht : st.cp.tag_at i = .ok JVM_CONSTANT_Class) :
    klass_at_impl env st i = (st.resolved_klass_slot i >>= fun klass => .ok (st, .ok klass)) := by
  obtain ⟨s, _, _, hr, hn⟩ := klass_slot_reads_of_tag ht
  unfold klass_at_impl PoolState.resolved_klass_slot
  rw [hr, hn, ht]
  simp only [ok_bind, constantTag.is_klass, decide_True, if_true]
  rfl

theorem klass_at_impl_failed_ne_ok {env : Env} {st st1 : PoolState} {i r : Nat}
    {e : Throwable} {k : Option Klass}
    (ht : st.cp.tag_at i = .ok JVM_CONSTANT_UnresolvedClass) :
    klass_at_impl_failed env st i r e ≠ .ok (st1, .ok k) := by
  intro hf
  by_cases hl : env.is_linkage_error e.klass = true
  · rw [klass_at_impl_failed_linkage r hl ht] at hf
    obtain ⟨m, _, hf⟩ := bind_eq_ok.mp hf
    cases hf
  · rw [klass_at_impl_failed_not_linkage st i r (by simpa using hl)] at hf
    cases hf

/-- A call of `klass_at_impl` at a class entry that returns a klass leaves a state in
which the entry is answered from the resolved klasses, with the same klass. -/
theorem klass_at_impl_returns {env : Env} {st st1 : PoolState} {i t : Nat}
    {k : Option Klass} (ht : st.cp.tag_at i = .ok t) (hk : KlassTag t)
    (h : klass_at_impl env st i = .ok (st1, .ok k)) :
    st1.cp.tag_at i = .ok JVM_CONSTANT_Class ∧ st1.resolved_klass_slot i = .ok k := by
  rcases hk with rfl | rfl | rfl
  · rw [klass_at_impl_class env ht] at h
    obtain ⟨klass, hs, h⟩ := bind_eq_ok.mp h
    cases h
    exact ⟨ht, hs⟩
  · obtain ⟨r, n, hr, _, heq⟩ := klass_at_impl_unresolved env ht
    rw [heq] at h
    obtain ⟨name, _, h⟩ := bind_eq_ok.mp h
    cases hres : env.resolve_or_fail st.trace name with
    | error e0 =>
      rw [hres] at h
      exact absurd h (klass_at_impl_failed_ne_ok ht)
    | ok k0 =>
      rw [hres] at h
      simp only at h
      obtain ⟨h1, -, h3, -, -⟩ :=
        verify_constant_pool_resolve_same env (st.log (.resolve_or_fail name)) k0
      cases hver : verify_constant_pool_resolve env (st.log (.resolve_or_fail name)) k0 with
      | mk st2 p =>
        rw [hver] at h h1 h3
        have ht2 : st2.cp.tag_at i = .ok JVM_CONSTANT_UnresolvedClass := by rw [h1]; exact ht
        cases p with
        | some e0 => exact absurd h (klass_at_impl_failed_ne_ok ht2)
        | none =>
          simp only at h
          by_cases hlt : r < st2.resolved_klasses.length
          · rw [klass_at_impl_resolved_unresolved k0 ht2 hlt] at h
            cases h
            refine ⟨with_tag_tag_at_self _ (tag_at_lt ht2), ?_⟩
            refine PoolState.resolved_klass_slot_eq_ok.mpr ⟨r, ?_, List.getElem?_set_self hlt⟩
            show (st2.cp.with_tag i JVM_CONSTANT_Class).klass_slot_resolved_klass_index i = _
            rw [with_tag_klass_slot_resolved_klass_index, h1]
            exact hr
          · unfold klass_at_impl_resolved at h
            rw [PoolState.resolved_klasses_store_error _ hlt] at h
            cases h
  · obtain ⟨s, _, _, hr, hn⟩ := klass_slot_reads_of_tag ht
    unfold klass_at_impl at h
    rw [hr, hn, ht] at h
    simp only [ok_bind, constantTag.is_klass, constantTag.is_unresolved_klass_in_error,
      show ¬ (JVM_CONSTANT_UnresolvedClassInError = JVM_CONSTANT_Class) by decide,
      decide_False, decide_True, Bool.false_eq_true, if_false, if_true] at h
    obtain ⟨e, _, h⟩ := bind_eq_ok.mp h
    cases h

theorem Oop.resolved_null : Oop.resolved .null = .null := by
  unfold Oop.resolved; decide

/-- A call of `resolve_constant_at_impl` with a resolved-references index that returns a
value other than the sentinel leaves the value in the slot, the null sentinel standing
for null; the slot is null afterwards only when the call was made in find-cached mode,
found nothing and did nothing. -/
theorem resolve_constant_at_impl_slot {env : Env} {st st1 : PoolState} {cp_index ci : Int}
    {status s1 : Option Bool} {v : Oop} (hc : 0 ≤ st.cache_index cp_index ci)
    (h : resolve_constant_at_impl env st cp_index ci status = .ok (st1, .ok v, s1))
    (hv : v ≠ Universe.the_null_sentinel) :
    ∃ o, st1.resolved_references[(st.cache_index cp_index ci).toNat]? = some o ∧
      o.resolved = v ∧
      (o ≠ .null → s1 = status.map (fun _ => true)) ∧
      (o = .null → status.isSome = true ∧ s1 = some false ∧ st1 = st) := by
  unfold resolve_constant_at_impl at h
  simp only at h
  have hfold : (if ci = _possible_index_sentinel then st.cp_to_object_index cp_index else ci) =
      st.cache_index cp_index ci := rfl
  rw [hfold] at h
  generalize st.cache_index cp_index ci = c at h hc
  rw [if_pos (show c ≥ 0 from hc)] at h
  obtain ⟨o0, ho0, h⟩ := bind_eq_ok.mp h
  rw [PoolState.resolved_reference_at_eq_ok] at ho0
  by_cases hn : o0 ≠ Oop.null
  · rw [if_pos hn] at h
    cases h
    exact ⟨o0, ho0, rfl, fun _ => rfl, fun h0 => absurd h0 hn⟩
  · rw [if_neg hn] at h
    have hn' : o0 = Oop.null := by simpa using hn
    subst hn'
    obtain ⟨i, _, h⟩ := bind_eq_ok.mp h
    unfold resolve_constant_at_tag at h
    obtain ⟨tag, _, h⟩ := bind_eq_ok.mp h
    split_ifs at h with hskip
    · cases h
      exact ⟨.null, ho0, Oop.resolved_null, fun h0 => absurd rfl h0,
        fun _ => ⟨hskip.1, rfl, rfl⟩⟩
    · obtain ⟨⟨st2, r⟩, h2, h⟩ := bind_eq_ok.mp h
      cases r with
      | error e => cases h
      | ok result_oop =>
        simp only at h
        obtain ⟨⟨st3, v3⟩, h3, h⟩ := bind_eq_ok.mp h
        cases h
        unfold resolve_constant_publish at h3
        rw [if_pos (show c ≥ 0 from hc)] at h3
        obtain ⟨⟨st4, old⟩, h4, h3⟩ := bind_eq_ok.mp h3
        obtain ⟨hold, hst4⟩ := PoolState.set_resolved_reference_at_eq_ok h4
        have hlt : c.toNat < st2.resolved_references.length := by
          by_contra hcon
          rw [List.getElem?_eq_none (Nat.le_of_not_lt hcon)] at hold
          cases hold
        have hrefs : st4.resolved_references =
            if old = Oop.null then st2.resolved_references.set c.toNat
              (if result_oop = Oop.null then Universe.the_null_sentinel else result_oop)
            else st2.resolved_references := by rw [hst4]
        have hnew : (if result_oop = Oop.null then Universe.the_null_sentinel else result_oop) ≠
            Oop.null := by
          by_cases hr : result_oop = Oop.null
          · rw [if_pos hr]; decide
          · rw [if_neg hr]; exact hr
        have h3' : (if old = Oop.null then (pure (st4, result_oop) : Except Fault (PoolState × Oop))
            else if old = Universe.the_null_sentinel then pure (st4, Oop.null)
            else pure (st4, old)) = .ok (st3, v3) := h3
        by_cases ho : old = Oop.null
        · rw [if_pos ho] at h3' hrefs
          obtain ⟨h5, h6⟩ := Prod.mk.inj (Except.ok.inj h3')
          subst h5 h6
          rw [hrefs]
          refine ⟨_, List.getElem?_set_self hlt, ?_, fun _ => rfl, fun h0 => absurd h0 hnew⟩
          by_cases hr : result_oop = Oop.null
          · rw [if_pos hr, hr]
            rfl
          · rw [if_neg hr]
            unfold Oop.resolved
            rw [if_neg hv]
        · rw [if_neg ho] at h3' hrefs
          by_cases hs : old = Universe.the_null_sentinel
          · rw [if_pos hs] at h3'
            obtain ⟨h5, h6⟩ := Prod.mk.inj (Except.ok.inj h3')
            subst h5 h6
            rw [hrefs]
            refine ⟨old, hold, ?_, fun _ => rfl, fun h0 => absurd h0 ho⟩
            unfold Oop.resolved
            rw [if_pos hs]
          · rw [if_neg hs] at h3'
            obtain ⟨h5, h6⟩ := Prod.mk.inj (Except.ok.inj h3')
            subst h5 h6
            rw [hrefs]
            refine ⟨old, hold, ?_, fun _ => rfl, fun h0 => absurd h0 ho⟩
            unfold Oop.resolved
            rw [if_neg hs]

theorem cache_index_congr {st st1 : PoolState} (h : st1.reference_map = st.reference_map)
    (cp_index ci : Int) : st1.cache_index cp_index ci = st.cache_index cp_index ci := by
  unfold PoolState.cache_index PoolState.cp_to_object_index
  rw [h]

end ConstantPool

namespace ConstantPool

/-- C26: if `klass_at_impl` resolves a class entry and returns k, the next `klass_at_impl`
call on the entry returns the same k and leaves the state as it is: the class loader
and the accessibility check are not called and nothing is changed.  If
`resolve_constant_at_impl`, called to resolve, resolves an entry through its
resolved-references slot and returns v, the next call for the entry returns the same v,
reports it as found when asked to, and leaves the state as it is: nothing is interned
or linked and no bootstrap method is called.  (v is not the null sentinel, an object
private to the VM that no collaborator hands out.) -/
theorem resolved_entry_answered_again (env : Env) (st st1 : PoolState) :
    (∀ i t k, st.cp.tag_at i = .ok t → KlassTag t →
      klass_at_impl env st i = .ok (st1, .ok k) →
      klass_at_impl env st1 i = .ok (st1, .ok k)) ∧
    (∀ cp_index cache_index v s1, 0 ≤ st.cache_index cp_index cache_index →
      resolve_constant_at_impl env st cp_index cache_index none = .ok (st1, .ok v, s1) →
      v ≠ Universe.the_null_sentinel →
      ∀ status_return,
        resolve_constant_at_impl env st1 cp_index cache_index status_return =
          .ok (st1, .ok v, status_return.map (fun _ => true))) := by
  refine ⟨?_, ?_⟩
  · intro i t k ht hk h
    obtain ⟨h1, h2⟩ := klass_at_impl_returns ht hk h
    rw [klass_at_impl_class env h1, h2]
    rfl
  · intro cp_index ci v s1 hc h hv status
    obtain ⟨o, ho, hres, -, hnull⟩ := resolve_constant_at_impl_slot hc h hv
    have hmap := (resolve_constant_at_impl_advances h).2.2.2.1
    have hci := cache_index_congr hmap cp_index ci
    have hn : o ≠ .null := by
      intro h0
      have := (hnull h0).1
      cases this
    rw [← hci] at ho hc
    rw [resolve_constant_at_impl_cached env status hc ho hn, hres]

theorem resolved_entry_answered_again_witness :
    (∃ st1 k, resolutionState.cp.tag_at 2 = .ok JVM_CONSTANT_UnresolvedClass ∧
      klass_at_impl resolutionEnv resolutionState 2 = .ok (st1, .ok (some k)) ∧
      klass_at_impl resolutionEnv st1 2 = .ok (st1, .ok (some k))) ∧
    (∃ st1, 0 ≤ resolutionState.cache_index 16 (-2) ∧
      resolve_constant_at_impl resolutionEnv resolutionState 16 (-2) none =
        .ok (st1, .ok (.object 1001), none) ∧
      resolve_constant_at_impl resolutionEnv st1 16 (-2) (some false) =
        .ok (st1, .ok (.object 1001), some true)) := by
  refine ⟨?_, ?_⟩
  · have hv : (fun r => r.2) <$> klass_at_impl resolutionEnv resolutionState 2 =
        .ok (.ok (some fooKlass)) := by decide
    cases h : klass_at_impl resolutionEnv resolutionState 2 with
    | error f => rw [h] at hv; cases hv
    | ok r =>
      rw [h] at hv
      obtain ⟨st1, out⟩ := r
      have hout : out = .ok (some fooKlass) := Except.ok.inj hv
      subst hout
      exact ⟨st1, fooKlass, by decide, rfl,
        (resolved_entry_answered_again resolutionEnv resolutionState st1).1 2 _ _ (by decide)
          (Or.inr (Or.inl rfl)) h⟩
  · have hv : (fun r => r.2) <$> resolve_constant_at_impl resolutionEnv resolutionState 16 (-2)
        none = .ok (.ok (.object 1001), none) := by decide
    cases h : resolve_constant_at_impl resolutionEnv resolutionState 16 (-2) none with
    | error f => rw [h] at hv; cases hv
    | ok r =>
      rw [h] at hv
      obtain ⟨st1, out⟩ := r
      have hout : out = (.ok (.object 1001), none) := Except.ok.inj hv
      subst hout
      exact ⟨st1, by decide, rfl,
        (resolved_entry_answered_again resolutionEnv resolutionState st1).2 16 (-2)
          (.object 1001) none (by decide) h (by decide) (some false)⟩

/-- C27: `set_resolved_reference_at` changes a resolved-references slot only when the slot
is null, and returns the previous content of the slot.  For every
`resolve_constant_at_impl` call with a cache index >= 0 that completes normally, the
value returned is the content of that slot after the call, the null sentinel standing
for null, and every slot that was not null before the call holds the same object after
it.  (The value returned is not the null sentinel, an object private to the VM that no
collaborator hands out.) -/
theorem resolved_reference_slot_set_once (env : Env) (st : PoolState) :
    (∀ index new_result, index < st.resolved_references.length →
      ∃ old, st.resolved_references[index]? = some old ∧
        (old = .null → st.set_resolved_reference_at index new_result =
          .ok (⟨st.cp, st.resolved_klasses, st.resolved_references.set index new_result,
            st.reference_map, st.error_table, st.trace⟩, old)) ∧
        (old ≠ .null → st.set_resolved_reference_at index new_result = .ok (st, old))) ∧
    (∀ cp_index cache_index status_return st1 v s1, 0 ≤ cache_index →
      resolve_constant_at_impl env st cp_index cache_index status_return =
        .ok (st1, .ok v, s1) →
      v ≠ Universe.the_null_sentinel →
      (∃ o, st1.resolved_references[cache_index.toNat]? = some o ∧ v = o.resolved) ∧
      ∀ (j : Nat) (o : Oop), st.resolved_references[j]? = some o → o ≠ .null →
        st1.resolved_references[j]? = some o) := by
  refine ⟨?_, ?_⟩
  · intro index new_result hlt
    refine ⟨st.resolved_references[index], List.getElem?_eq_getElem hlt, ?_, ?_⟩
    · intro hold
      unfold PoolState.set_resolved_reference_at replace_if_null
      rw [List.getElem?_eq_getElem hlt]
      simp only [hold, if_true, ok_bind, pure_eq_ok]
    · intro hold
      unfold PoolState.set_resolved_reference_at replace_if_null
      rw [List.getElem?_eq_getElem hlt]
      simp only [hold, if_false, ok_bind, pure_eq_ok]
  · intro cp_index ci status st1 v s1 hc h hv
    have hci : st.cache_index cp_index ci = ci := by
      unfold PoolState.cache_index
      rw [if_neg]
      unfold _possible_index_sentinel
      omega
    have hc' : 0 ≤ st.cache_index cp_index ci := by rw [hci]; exact hc
    obtain ⟨o, ho, hres, -, -⟩ := resolve_constant_at_impl_slot hc' h hv
    rw [hci] at ho
    exact ⟨⟨o, ho, hres.symm⟩, (resolve_constant_at_impl_advances h).2.2.1⟩

theorem resolved_reference_slot_set_once_witness :
    (1 < resolutionState.resolved_references.length ∧
      (fun r => r.2) <$> resolutionState.set_resolved_reference_at 1 (.object 77) =
        .ok .null) ∧
    (∃ st1 o, (0 : Int) ≤ 4 ∧
      resolve_constant_at_impl resolutionEnv resolutionState 15 4 none =
        .ok (st1, .ok .null, none) ∧
      Oop.null ≠ Universe.the_null_sentinel ∧
      st1.resolved_references[(4 : Int).toNat]? = some o ∧ Oop.null = o.resolved) := by
  refine ⟨⟨by decide, ?_⟩, ?_⟩
  · obtain ⟨old, hold, h1, -⟩ := (resolved_reference_slot_set_once resolutionEnv
      resolutionState).1 1 (.object 77) (by decide)
    have hnull : old = .null :=
      (Option.some.inj (hold.symm.trans (by decide :
        resolutionState.resolved_references[1]? = some Oop.null))).symm ▸ rfl
    rw [h1 hnull, hnull]
    rfl
  · have hv : (fun r => r.2) <$> resolve_constant_at_impl resolutionEnv resolutionState 15 4
        none = .ok (.ok .null, none) := by decide
    cases h : resolve_constant_at_impl resolutionEnv resolutionState 15 4 none with
    | error f => rw [h] at hv; cases hv
    | ok r =>
      rw [h] at hv
      obtain ⟨st1, out⟩ := r
      have hout : out = (.ok .null, none) := Except.ok.inj hv
      subst hout
      obtain ⟨⟨o, ho, hres⟩, -⟩ := (resolved_reference_slot_set_once resolutionEnv
        resolutionState).2 15 4 none st1 .null none (by decide) h (by decide)
      exact ⟨st1, o, by decide, rfl, by decide, ho, hres⟩

end ConstantPool

namespace ConstantPool

/-! ## C28 and C29: dynamically-computed constants -/

theorem resolve_constant_value_dynamic (env : Env) (st : PoolState) (i : Nat) (ci : Int) :
    resolve_constant_value env st i ci JVM_CONSTANT_Dynamic =
      resolve_constant_dynamic env st i JVM_CONSTANT_Dynamic := by
  unfold resolve_constant_value
  simp

theorem resolve_constant_value_method_handle (env : Env) (st : PoolState) (i : Nat) (ci : Int) :
    resolve_constant_value env st i ci JVM_CONSTANT_MethodHandle =
      resolve_constant_method_handle env st i JVM_CONSTANT_MethodHandle := by
  unfold resolve_constant_value
  simp

theorem resolve_constant_value_method_type (env : Env) (st : PoolState) (i : Nat) (ci : Int) :
    resolve_constant_value env st i ci JVM_CONSTANT_MethodType =
      resolve_constant_method_type env st i JVM_CONSTANT_MethodType := by
  unfold resolve_constant_value
  simp

/-- A resolving call at an entry tagged Dynamic, MethodHandle or MethodType computes the
value of the entry and publishes it. -/
theorem resolve_constant_at_tag_resolving (env : Env) {st : PoolState} {i tag : Nat} (ci : Int)
    (ht : st.cp.tag_at i = .ok tag) :
    resolve_constant_at_tag env st i ci none =
      (resolve_constant_value env st i ci tag >>= fun r =>
        match r.2 with
        | .error e => .ok (r.1, .error e, none)
        | .ok result_oop =>
          resolve_constant_publish r.1 ci result_oop >>= fun p => .ok (p.1, .ok p.2, none)) := by
  unfold resolve_constant_at_tag
  rw [ht]
  simp only [ok_bind, Option.isSome_none, Bool.false_eq_true, false_and, if_false,
    Option.map_none']
  cases resolve_constant_value env st i ci tag with
  | error f => rfl
  | ok r =>
    obtain ⟨st1, out⟩ := r
    cases out <;> rfl

theorem is_reference_type_of_primitive {t : Nat} (h : is_java_primitive t = true) :
    is_reference_type t = false := by
  unfold is_java_primitive at h
  unfold is_reference_type
  simp only [T_BOOLEAN, T_LONG, Bool.and_eq_true, decide_eq_true_eq] at h
  simp only [T_OBJECT, T_ARRAY, Bool.or_eq_false_iff, decide_eq_false_iff_not]
  omega

/-- The check of lines 1169 to 1189 rejects null and every object that is not a box of
the primitive type of the signature, with an InternalError. -/
theorem resolve_constant_check_box_rejects (env : Env) {signature : Nat} {v : Oop}
    (hp : is_java_primitive (Signature.basic_type (env.heap signature)) = true)
    (hv : v = .null ∨
      java_lang_boxing_object.is_instance v (Signature.basic_type (env.heap signature)) =
        false) :
    ∃ msg, resolve_constant_check_box env signature v =
      .error (Exceptions.new_exception env.java_lang_InternalError (some msg)) := by
  unfold resolve_constant_check_box
  simp only [is_reference_type_of_primitive hp, Bool.not_false, if_true, hp, Bool.not_true,
    Bool.false_eq_true, if_false]
  by_cases h0 : v = .null
  · simp only [h0, if_true]
    exact ⟨_, rfl⟩
  · rcases hv with hv | hv
    · exact absurd hv h0
    · simp only [h0, if_false, hv, Bool.not_false, if_true]
      exact ⟨_, rfl⟩

/-- The check of lines 1169 to 1189 lets every value of a reference type through. -/
theorem resolve_constant_check_box_reference (env : Env) {signature : Nat} (v : Oop)
    (hr : is_reference_type (Signature.basic_type (env.heap signature)) = true) :
    resolve_constant_check_box env signature v = .ok v := by
  unfold resolve_constant_check_box
  simp only [hr, Bool.not_true, Bool.false_eq_true, if_false]

/-- The Dynamic case when the bootstrap method returns normally. -/
theorem resolve_constant_dynamic_returned (env : Env) {st : PoolState} {i signature : Nat}
    {v : Oop} (tag : Nat) (hs : st.cp.uncached_signature_ref_at i = .ok signature)
    (hb : env.invoke_bootstrap_method st.trace i = (none, v)) :
    resolve_constant_dynamic env st i tag =
      .ok (st.log (.invoke_bootstrap_method i), resolve_constant_check_box env signature v) := by
  unfold resolve_constant_dynamic
  rw [hs]
  simp only [ok_bind, hb, pure_eq_ok]

/-- The Dynamic case returns whenever the signature and the name of the entry can be
read; it calls the bootstrap method once and leaves the resolved references as they
are. -/
theorem resolve_constant_dynamic_total (env : Env) {st : PoolState} {i signature name : Nat}
    (ht : st.cp.tag_at i = .ok JVM_CONSTANT_Dynamic)
    (hs : st.cp.uncached_signature_ref_at i = .ok signature)
    (hn : st.cp.uncached_name_ref_at i = .ok name) :
    ∃ st1 r, resolve_constant_dynamic env st i JVM_CONSTANT_Dynamic = .ok (st1, r) ∧
      st1.trace = st.trace ++ [.invoke_bootstrap_method i] ∧
      st1.resolved_references = st.resolved_references := by
  unfold resolve_constant_dynamic
  rw [hs]
  simp only [ok_bind]
  cases hb : env.invoke_bootstrap_method st.trace i with
  | mk p v =>
    cases p with
    | none => exact ⟨_, _, rfl, rfl, rfl⟩
    | some e =>
      simp only
      have htl : (st.log (.invoke_bootstrap_method i)).cp.tag_at i = .ok JVM_CONSTANT_Dynamic :=
        ht
      by_cases hl : env.is_linkage_error (env.wrap_dynamic_exception e).klass = true
      · rw [save_and_throw_exception_linkage (rfl : constantTag.error_value
          JVM_CONSTANT_Dynamic = .ok JVM_CONSTANT_DynamicInError) hl htl]
        have hm : ∃ m, exception_message env (st.log (.invoke_bootstrap_method i)).cp i
            JVM_CONSTANT_Dynamic (env.wrap_dynamic_exception e) = .ok m := by
          unfold exception_message
          cases (env.wrap_dynamic_exception e).message with
          | some msg => exact ⟨_, rfl⟩
          | none =>
            simp only [show ¬ (JVM_CONSTANT_Dynamic = JVM_CONSTANT_UnresolvedClass) by decide,
              show ¬ (JVM_CONSTANT_Dynamic = JVM_CONSTANT_MethodHandle) by decide,
              show ¬ (JVM_CONSTANT_Dynamic = JVM_CONSTANT_MethodType) by decide, if_false,
              if_true]
            have hn' : (st.log (.invoke_bootstrap_method i)).cp.uncached_name_ref_at i =
                .ok name := hn
            rw [hn']
            exact ⟨_, rfl⟩
        obtain ⟨m, hm⟩ := hm
        rw [hm]
        exact ⟨_, _, rfl, rfl, rfl⟩
      · rw [save_and_throw_exception_not_linkage _ i (rfl : constantTag.error_value
          JVM_CONSTANT_Dynamic = .ok JVM_CONSTANT_DynamicInError) (by simpa using hl)]
        exact ⟨_, _, rfl, rfl, rfl⟩

theorem set_resolved_reference_at_total (st : PoolState) {index : Nat} (x : Oop)
    (h : index < st.resolved_references.length) :
    ∃ st1 old, st.set_resolved_reference_at index x = .ok (st1, old) ∧
      st1.trace = st.trace := by
  unfold PoolState.set_resolved_reference_at replace_if_null
  rw [List.getElem?_eq_getElem h]
  simp only
  by_cases ho : st.resolved_references[index] = Oop.null
  · simp only [ho, if_true, ok_bind, pure_eq_ok]
    exact ⟨_, _, rfl, rfl⟩
  · simp only [ho, if_false, ok_bind, pure_eq_ok]
    exact ⟨_, _, rfl, rfl⟩

/-- Publishing returns whenever the resolved-references index, if there is one, is in the
array; it makes no call to a collaborator. -/
theorem resolve_constant_publish_total (st : PoolState) {ci : Int} (v : Oop)
    (hci : 0 ≤ ci → ci.toNat < st.resolved_references.length) :
    ∃ st1 v1, resolve_constant_publish st ci v = .ok (st1, v1) ∧ st1.trace = st.trace := by
  unfold resolve_constant_publish
  by_cases hc : ci ≥ 0
  · rw [if_pos hc]
    simp only
    obtain ⟨st1, old, h1, h2⟩ := set_resolved_reference_at_total st
      (if v = Oop.null then Universe.the_null_sentinel else v) (hci hc)
    rw [h1]
    simp only [ok_bind]
    split_ifs <;> exact ⟨_, _, rfl, h2⟩
  · rw [if_neg hc]
    exact ⟨_, _, rfl, rfl⟩

end ConstantPool

namespace ConstantPool

theorem uncached_of_same {st st1 : PoolState} {cp_index ci : Int} {i : Nat}
    (hr : st1.resolved_references = st.resolved_references)
    (hm : st1.reference_map = st.reference_map) (h : st.Uncached cp_index ci i) :
    st1.Uncached cp_index ci i := by
  unfold PoolState.Uncached at h ⊢
  rw [cache_index_congr hm, hr, hm]
  exact h

theorem uncached_in_range {st : PoolState} {cp_index ci : Int} {i : Nat}
    (h : st.Uncached cp_index ci i) :
    0 ≤ st.cache_index cp_index ci →
      (st.cache_index cp_index ci).toNat < st.resolved_references.length := by
  intro hc
  rcases h with ⟨h1, _⟩ | ⟨_, h2, _⟩
  · omega
  · by_contra hcon
    rw [List.getElem?_eq_none (Nat.le_of_not_lt hcon)] at h2
    cases h2

/-- C28: let a Dynamic entry have a signature of a primitive type, and let the bootstrap
method return null or an object that is not a box of that type.  Then
`resolve_constant_at_impl`, called to resolve the entry, raises InternalError and
changes nothing but the record of the call to the bootstrap method: the tag of the
entry is still Dynamic, the error table is unchanged and the resolved-references slot
of the entry is still null.  A later call returns and has called the bootstrap method
again. -/
theorem primitive_condy_not_boxed (env : Env) (st : PoolState) (cp_index cache_index : Int)
    (i signature name : Nat) (v : Oop)
    (hu : st.Uncached cp_index cache_index i)
    (ht : st.cp.tag_at i = .ok JVM_CONSTANT_Dynamic)
    (hs : st.cp.uncached_signature_ref_at i = .ok signature)
    (hn : st.cp.uncached_name_ref_at i = .ok name)
    (hp : is_java_primitive (Signature.basic_type (env.heap signature)) = true)
    (hb : env.invoke_bootstrap_method st.trace i = (none, v))
    (hv : v = .null ∨
      java_lang_boxing_object.is_instance v (Signature.basic_type (env.heap signature)) =
        false) :
    ∃ msg st1,
      resolve_constant_at_impl env st cp_index cache_index none =
        .ok (st1, .error ⟨env.java_lang_InternalError, some msg, .self⟩, none) ∧
      st1.cp.tag_at i = .ok JVM_CONSTANT_Dynamic ∧ st1.error_table = st.error_table ∧
      st1.resolved_references = st.resolved_references ∧ st1.Uncached cp_index cache_index i ∧
      st1.trace = st.trace ++ [.invoke_bootstrap_method i] ∧
      ∃ st2 out, resolve_constant_at_impl env st1 cp_index cache_index none = .ok (st2, out) ∧
        st2.trace = st1.trace ++ [.invoke_bootstrap_method i] := by
  obtain ⟨msg, hmsg⟩ := resolve_constant_check_box_rejects env hp hv
  have hu1 : (st.log (.invoke_bootstrap_method i)).Uncached cp_index cache_index i :=
    uncached_of_same rfl rfl hu
  refine ⟨msg, st.log (.invoke_bootstrap_method i), ?_, ht, rfl, rfl, hu1, rfl, ?_⟩
  · rw [resolve_constant_at_impl_uncached env none hu, resolve_constant_at_tag_resolving env _ ht,
      resolve_constant_value_dynamic, resolve_constant_dynamic_returned env _ hs hb, hmsg]
    rfl
  · have ht1 : (st.log (.invoke_bootstrap_method i)).cp.tag_at i = .ok JVM_CONSTANT_Dynamic := ht
    rw [resolve_constant_at_impl_uncached env none hu1,
      resolve_constant_at_tag_resolving env _ ht1, resolve_constant_value_dynamic]
    obtain ⟨st2, r, h2, htr, href⟩ := resolve_constant_dynamic_total env ht1
      (show (st.log (.invoke_bootstrap_method i)).cp.uncached_signature_ref_at i = _ from hs)
      (show (st.log (.invoke_bootstrap_method i)).cp.uncached_name_ref_at i = _ from hn)
    rw [h2]
    simp only [ok_bind]
    cases r with
    | error e => exact ⟨_, _, rfl, htr⟩
    | ok result_oop =>
      simp only
      obtain ⟨st3, v3, h3, htr3⟩ := @resolve_constant_publish_total st2
        ((st.log (.invoke_bootstrap_method i)).cache_index cp_index cache_index)
        result_oop (by rw [href]; exact uncached_in_range hu1)
      rw [h3]
      exact ⟨_, _, rfl, htr3.trans htr⟩

theorem primitive_condy_not_boxed_witness :
    resolutionState.Uncached 12 (-2) 12 ∧
    resolutionState.cp.tag_at 12 = .ok JVM_CONSTANT_Dynamic ∧
    is_java_primitive (Signature.basic_type (resolutionEnv.heap 1004)) = true ∧
    ∃ msg st1,
      resolve_constant_at_impl resolutionEnv resolutionState 12 (-2) none =
        .ok (st1, .error ⟨2003, some msg, .self⟩, none) ∧
      st1.cp.tag_at 12 = .ok JVM_CONSTANT_Dynamic ∧
      ∃ st2 out, resolve_constant_at_impl resolutionEnv st1 12 (-2) none = .ok (st2, out) ∧
        st2.trace = st1.trace ++ [.invoke_bootstrap_method 12] := by
  obtain ⟨msg, st1, h1, h2, -, -, -, -, h3⟩ := primitive_condy_not_boxed resolutionEnv
    resolutionState 12 (-2) 12 1004 1001 .null (by decide) (by decide) (by decide) (by decide)
    (by decide) (by decide) (Or.inl rfl)
  exact ⟨by decide, by decide, by decide, msg, st1, h1, h2, h3⟩

/-- C29: let a Dynamic entry with a resolved-references slot have a signature of a
reference type, and let the bootstrap method return null.  Then
`resolve_constant_at_impl`, called to resolve the entry, stores the null sentinel in
the slot and returns null.  A later call returns null, reports the constant as found
when it is made in find-cached mode, and leaves the state as it is: the bootstrap
method is not called. -/
theorem reference_condy_null (env : Env) (st : PoolState) (cp_index cache_index : Int)
    (i signature : Nat)
    (hc : 0 ≤ st.cache_index cp_index cache_index)
    (hslot : st.resolved_references[(st.cache_index cp_index cache_index).toNat]? =
      some Oop.null)
    (hmap : st.reference_map[(st.cache_index cp_index cache_index).toNat]? = some i)
    (ht : st.cp.tag_at i = .ok JVM_CONSTANT_Dynamic)
    (hs : st.cp.uncached_signature_ref_at i = .ok signature)
    (hr : is_reference_type (Signature.basic_type (env.heap signature)) = true)
    (hb : env.invoke_bootstrap_method st.trace i = (none, .null)) :
    ∃ st1, resolve_constant_at_impl env st cp_index cache_index none =
        .ok (st1, .ok .null, none) ∧
      st1.resolved_references[(st.cache_index cp_index cache_index).toNat]? =
        some Universe.the_null_sentinel ∧
      st1.trace = st.trace ++ [.invoke_bootstrap_method i] ∧
      ∀ status_return, resolve_constant_at_impl env st1 cp_index cache_index status_return =
        .ok (st1, .ok .null, status_return.map (fun _ => true)) := by
  have hu : st.Uncached cp_index cache_index i := Or.inr ⟨hc, hslot, hmap⟩
  have hlt := uncached_in_range hu hc
  have hfirst : resolve_constant_at_impl env st cp_index cache_index none =
      .ok (⟨st.cp, st.resolved_klasses,
        st.resolved_references.set (st.cache_index cp_index cache_index).toNat
          Universe.the_null_sentinel, st.reference_map, st.error_table,
        st.trace ++ [.invoke_bootstrap_method i]⟩, .ok .null, none) := by
    rw [resolve_constant_at_impl_uncached env none hu, resolve_constant_at_tag_resolving env _ ht,
      resolve_constant_value_dynamic, resolve_constant_dynamic_returned env _ hs hb,
      resolve_constant_check_box_reference env _ hr]
    simp only [ok_bind]
    unfold resolve_constant_publish
    rw [if_pos (show st.cache_index cp_index cache_index ≥ 0 from hc)]
    simp only [if_true]
    unfold PoolState.set_resolved_reference_at replace_if_null
    have hslot1 : (st.log (.invoke_bootstrap_method i)).resolved_references[
        (st.cache_index cp_index cache_index).toNat]? = some Oop.null := hslot
    rw [hslot1]
    simp only [if_true, ok_bind, pure_eq_ok]
    rfl
  refine ⟨_, hfirst, List.getElem?_set_self hlt, rfl, ?_⟩
  intro status
  have hci : PoolState.cache_index ⟨st.cp, st.resolved_klasses,
      st.resolved_references.set (st.cache_index cp_index cache_index).toNat
        Universe.the_null_sentinel, st.reference_map, st.error_table,
      st.trace ++ [.invoke_bootstrap_method i]⟩ cp_index cache_index =
      st.cache_index cp_index cache_index := cache_index_congr rfl cp_index cache_index
  rw [resolve_constant_at_impl_cached env status (o := Universe.the_null_sentinel)
    (by rw [hci]; exact hc) (by rw [hci]; exact List.getElem?_set_self hlt) (by decide)]
  rfl

theorem reference_condy_null_witness :
    0 ≤ resolutionState.cache_index 15 (-2) ∧
    resolutionState.cp.tag_at 15 = .ok JVM_CONSTANT_Dynamic ∧
    is_reference_type (Signature.basic_type (resolutionEnv.heap 1005)) = true ∧
    ∃ st1, resolve_constant_at_impl resolutionEnv resolutionState 15 (-2) none =
        .ok (st1, .ok .null, none) ∧
      st1.resolved_references[4]? = some Universe.the_null_sentinel ∧
      resolve_constant_at_impl resolutionEnv st1 15 (-2) (some false) =
        .ok (st1, .ok .null, some true) := by
  obtain ⟨st1, h1, h2, -, h3⟩ := reference_condy_null resolutionEnv resolutionState 15 (-2) 15
    1005 (by decide) (by decide) (by decide) (by decide) (by decide) (by decide) (by decide)
  exact ⟨by decide, by decide, by decide, st1, h1, h2, h3 (some false)⟩

end ConstantPool

namespace PoolState

/-! ## C30: the member kind of a method handle -/

theorem TouchesOnly.touches_refl (j : Nat) (st : PoolState) : st.TouchesOnly j st :=
  ⟨rfl, rfl, fun _ _ => rfl, fun _ _ => rfl, fun _ => rfl, fun _ => rfl, rfl⟩

theorem TouchesOnly.touches_trans {j : Nat} {st st1 st2 : PoolState} (h1 : st.TouchesOnly j st1)
    (h2 : st1.TouchesOnly j st2) : st.TouchesOnly j st2 :=
  ⟨h2.1.trans h1.1, h2.2.1.trans h1.2.1, fun i hi => (h2.2.2.1 i hi).trans (h1.2.2.1 i hi),
    fun i hi => (h2.2.2.2.1 i hi).trans (h1.2.2.2.1 i hi),
    fun i => (h2.2.2.2.2.1 i).trans (h1.2.2.2.2.1 i),
    fun i => (h2.2.2.2.2.2.1 i).trans (h1.2.2.2.2.2.1 i),
    h2.2.2.2.2.2.2.trans h1.2.2.2.2.2.2⟩

theorem TouchesOnly.touches_log (j : Nat) (st : PoolState) (ev : Event) : st.TouchesOnly j (st.log ev) :=
  ⟨rfl, rfl, fun _ _ => rfl, fun _ _ => rfl, fun _ => rfl, fun _ => rfl, rfl⟩

theorem resolved_klasses_store_touches {st st1 : PoolState} {r : Nat} {k : Option Klass}
    (j : Nat) (h : st.resolved_klasses_store r k = .ok st1) : st.TouchesOnly j st1 := by
  unfold resolved_klasses_store at h
  split_ifs at h
  cases h
  exact ⟨rfl, rfl, fun _ _ => rfl, fun _ _ => rfl, fun _ => rfl, fun _ => rfl,
    List.length_set _ _ _⟩

theorem cmpxchg_tag_touches {st st1 : PoolState} {j c x old : Nat}
    (h : st.cmpxchg_tag j c x = .ok (st1, old)) : st.TouchesOnly j st1 := by
  cases ht : st.cp.tag_at j with
  | error f => rw [cmpxchg_tag_error _ ht] at h; cases h
  | ok t =>
    by_cases hc : t = c
    · subst hc
      rw [cmpxchg_tag_hit _ ht] at h
      cases h
      exact ⟨rfl, rfl, fun i hi => ConstantPool.with_tag_tag_at_ne _ _ hi, fun _ _ => rfl,
        fun i => ConstantPool.with_tag_int_at_addr _ _ _ i,
        fun i => ConstantPool.with_tag_symbol_at _ _ _ i, rfl⟩
    · rw [cmpxchg_tag_miss _ ht hc] at h
      cases h
      exact TouchesOnly.touches_refl _ _

end PoolState

namespace ConstantPool

theorem add_resolution_error_touches {env : Env} {st st1 : PoolState} {j tag : Nat}
    {e : Throwable} (h : add_resolution_error env st j tag e = .ok st1) :
    st.TouchesOnly j st1 := by
  obtain ⟨m, _, h1⟩ := add_resolution_error_eq_ok h
  subst h1
  exact ⟨rfl, rfl, fun _ _ => rfl, fun i hi => find_resolution_error_add_ne _ hi,
    fun _ => rfl, fun _ => rfl, rfl⟩

theorem save_and_throw_exception_touches {env : Env} {st st1 : PoolState} {j tag : Nat}
    {e : Throwable} {p : Option Throwable}
    (h : save_and_throw_exception env st j tag e = .ok (st1, p)) : st.TouchesOnly j st1 := by
  unfold save_and_throw_exception at h
  obtain ⟨error_tag, he, h⟩ := bind_eq_ok.mp h
  by_cases hl : env.is_linkage_error e.klass = true
  · simp only [hl, Bool.not_true, Bool.false_eq_true, if_false] at h
    obtain ⟨t, ht, h⟩ := bind_eq_ok.mp h
    by_cases hte : t = error_tag
    · simp only [hte, ne_eq, not_true_eq_false, if_false] at h
      obtain ⟨e1, _, h⟩ := bind_eq_ok.mp h
      cases h
      exact PoolState.TouchesOnly.touches_refl _ _
    · simp only [ne_eq, hte, not_false_eq_true, if_true] at h
      obtain ⟨st2, h2, h⟩ := bind_eq_ok.mp h
      obtain ⟨⟨st3, old⟩, h3, h⟩ := bind_eq_ok.mp h
      have hadv := (add_resolution_error_touches h2).touches_trans (PoolState.cmpxchg_tag_touches h3)
      have h' : (if old ≠ error_tag ∧ old ≠ tag then
          (pure (st3, none) : Except Fault (PoolState × Option Throwable))
          else pure (st3, some e)) = .ok (st1, p) := h
      split_ifs at h' <;> cases h' <;> exact hadv
  · simp only [hl, Bool.not_false, if_true] at h
    cases h
    exact PoolState.TouchesOnly.touches_refl _ _

theorem klass_at_impl_failed_touches {env : Env} {st st1 : PoolState} {j r : Nat}
    {e : Throwable} {out : Except Throwable (Option Klass)}
    (h : klass_at_impl_failed env st j r e = .ok (st1, out)) : st.TouchesOnly j st1 := by
  unfold klass_at_impl_failed at h
  obtain ⟨⟨st2, p⟩, h2, h⟩ := bind_eq_ok.mp h
  have hadv := save_and_throw_exception_touches h2
  cases p with
  | some e1 => cases h; exact hadv
  | none =>
    obtain ⟨k, _, h⟩ := bind_eq_ok.mp h
    cases h
    exact hadv

theorem klass_at_impl_resolved_touches {st st1 : PoolState} {j r : Nat} {k : Klass}
    {out : Except Throwable (Option Klass)}
    (h : klass_at_impl_resolved st j r k = .ok (st1, out)) : st.TouchesOnly j st1 := by
  unfold klass_at_impl_resolved at h
  obtain ⟨st2, h2, h⟩ := bind_eq_ok.mp h
  obtain ⟨⟨st3, old⟩, h3, h⟩ := bind_eq_ok.mp h
  have hadv := (PoolState.resolved_klasses_store_touches j h2).touches_trans
    (PoolState.cmpxchg_tag_touches h3)
  have h' : (if old = JVM_CONSTANT_UnresolvedClassInError then
      (st3.resolved_klasses_store r none >>= fun st4 =>
        throw_resolution_error st4 j >>= fun e =>
          (pure (st4, Except.error e) :
            Except Fault (PoolState × Except Throwable (Option Klass))))
      else pure (st3, .ok (some k))) = .ok (st1, out) := h
  split_ifs at h'
  · obtain ⟨st4, h4, h'⟩ := bind_eq_ok.mp h'
    obtain ⟨e, _, h'⟩ := bind_eq_ok.mp h'
    cases h'
    exact hadv.touches_trans (PoolState.resolved_klasses_store_touches j h4)
  · cases h'
    exact hadv

theorem verify_constant_pool_resolve_touches (env : Env) (j : Nat) (st : PoolState) (k : Klass) :
    st.TouchesOnly j (verify_constant_pool_resolve env st k).1 := by
  unfold verify_constant_pool_resolve
  split
  · exact PoolState.TouchesOnly.touches_refl _ _
  · exact PoolState.TouchesOnly.touches_log _ _ _

/-- A call of `klass_at_impl` touches no entry but its own. -/
theorem klass_at_impl_touches {env : Env} {st st1 : PoolState} {j : Nat}
    {out : Except Throwable (Option Klass)}
    (h : klass_at_impl env st j = .ok (st1, out)) : st.TouchesOnly j st1 := by
  unfold klass_at_impl at h
  obtain ⟨r, _, h⟩ := bind_eq_ok.mp h
  obtain ⟨n, _, h⟩ := bind_eq_ok.mp h
  obtain ⟨t, _, h⟩ := bind_eq_ok.mp h
  by_cases h1 : constantTag.is_klass t = true
  · simp only [h1, if_true] at h
    obtain ⟨k, _, h⟩ := bind_eq_ok.mp h
    cases h
    exact PoolState.TouchesOnly.touches_refl _ _
  · simp only [h1, if_false] at h
    by_cases h2 : constantTag.is_unresolved_klass_in_error t = true
    · simp only [h2, if_true] at h
      obtain ⟨e, _, h⟩ := bind_eq_ok.mp h
      cases h
      exact PoolState.TouchesOnly.touches_refl _ _
    · simp only [h2, if_false] at h
      obtain ⟨name, _, h⟩ := bind_eq_ok.mp h
      have hlog := PoolState.TouchesOnly.touches_log j st (.resolve_or_fail name)
      cases hres : env.resolve_or_fail st.trace name with
      | error e =>
        rw [hres] at h
        exact hlog.touches_trans (klass_at_impl_failed_touches h)
      | ok k =>
        rw [hres] at h
        simp only at h
        have hv := verify_constant_pool_resolve_touches env j (st.log (.resolve_or_fail name)) k
        cases hver : verify_constant_pool_resolve env (st.log (.resolve_or_fail name)) k with
        | mk st2 p =>
          rw [hver] at h hv
          cases p with
          | some e => exact (hlog.touches_trans hv).touches_trans (klass_at_impl_failed_touches h)
          | none => exact (hlog.touches_trans hv).touches_trans (klass_at_impl_resolved_touches h)

end ConstantPool

namespace ConstantPool

theorem save_and_throw_exception_trace {env : Env} {st st1 : PoolState} {j tag : Nat}
    {e : Throwable} {p : Option Throwable}
    (h : save_and_throw_exception env st j tag e = .ok (st1, p)) : st1.trace = st.trace := by
  unfold save_and_throw_exception at h
  obtain ⟨error_tag, he, h⟩ := bind_eq_ok.mp h
  by_cases hl : env.is_linkage_error e.klass = true
  · simp only [hl, Bool.not_true, Bool.false_eq_true, if_false] at h
    obtain ⟨t, ht, h⟩ := bind_eq_ok.mp h
    by_cases hte : t = error_tag
    · simp only [hte, ne_eq, not_true_eq_false, if_false] at h
      obtain ⟨e1, _, h⟩ := bind_eq_ok.mp h
      cases h
      rfl
    · simp only [ne_eq, hte, not_false_eq_true, if_true] at h
      obtain ⟨st2, h2, h⟩ := bind_eq_ok.mp h
      obtain ⟨⟨st3, old⟩, h3, h⟩ := bind_eq_ok.mp h
      have h2t : st2.trace = st.trace := by
        obtain ⟨m, _, h2'⟩ := add_resolution_error_eq_ok h2
        rw [h2']
      have h3t : st3.trace = st2.trace := by
        unfold PoolState.cmpxchg_tag at h3
        obtain ⟨o, _, h3⟩ := bind_eq_ok.mp h3
        split_ifs at h3
        · obtain ⟨cp, _, h3⟩ := bind_eq_ok.mp h3
          cases h3
          rfl
        · cases h3
          rfl
      have h' : (if old ≠ error_tag ∧ old ≠ tag then
          (pure (st3, none) : Except Fault (PoolState × Option Throwable))
          else pure (st3, some e)) = .ok (st1, p) := h
      split_ifs at h' <;> cases h' <;> exact h3t.trans h2t
  · simp only [hl, Bool.not_false, if_true] at h
    cases h
    rfl

theorem resolve_constant_publish_trace {st st1 : PoolState} {ci : Int} {o v : Oop}
    (h : resolve_constant_publish st ci o = .ok (st1, v)) : st1.trace = st.trace := by
  unfold resolve_constant_publish at h
  by_cases hc : ci ≥ 0
  · rw [if_pos hc] at h
    obtain ⟨⟨st2, old⟩, h2, h⟩ := bind_eq_ok.mp h
    obtain ⟨_, h2'⟩ := PoolState.set_resolved_reference_at_eq_ok h2
    have h' : (if old = Oop.null then (pure (st2, o) : Except Fault (PoolState × Oop))
        else if old = Universe.the_null_sentinel then pure (st2, Oop.null)
        else pure (st2, old)) = .ok (st1, v) := h
    split_ifs at h' <;> cases h' <;> rw [h2']
  · rw [if_neg hc] at h
    cases h
    rfl

theorem resolve_constant_link_method_handle_trace {env : Env} {st st1 : PoolState}
    {i tag ref_kind name signature : Nat} {callee : Klass} {out : Except Throwable Oop}
    (h : resolve_constant_link_method_handle env st i tag ref_kind callee name signature =
      .ok (st1, out)) :
    st1.trace = st.trace ++ [.link_method_handle_constant ref_kind callee name signature] := by
  unfold resolve_constant_link_method_handle at h
  cases hb : env.link_method_handle_constant st.trace ref_kind callee name signature with
  | mk p v =>
    simp only [hb, bind_pure_comp, pure_bind] at h
    cases p with
    | none => cases h; rfl
    | some e =>
      simp only at h
      obtain ⟨⟨st2, p2⟩, h2, h⟩ := bind_eq_ok.mp h
      have ht := save_and_throw_exception_trace h2
      cases p2 <;> cases h <;> exact ht

/-- The MethodHandle case once the class of the member has been resolved. -/
theorem resolve_constant_method_handle_resolved (env : Env) {st st1 : PoolState}
    {i ref_kind callee_index name signature member m_tag : Nat} {callee : Option Klass}
    (tag : Nat)
    (hk : st.cp.method_handle_ref_kind_at i = .ok ref_kind)
    (hci : st.cp.method_handle_klass_index_at i = .ok callee_index)
    (hname : st.cp.method_handle_name_ref_at i = .ok name)
    (hsig : st.cp.method_handle_signature_ref_at i = .ok signature)
    (hmem : st.cp.method_handle_index_at i = .ok member)
    (hmt : st.cp.tag_at member = .ok m_tag)
    (hres : klass_at_impl env st callee_index = .ok (st1, .ok callee)) :
    resolve_constant_method_handle env st i tag =
      resolve_constant_check_method_handle env st1 i tag ref_kind callee name signature
        m_tag := by
  unfold resolve_constant_method_handle
  rw [hk, hci, hname, hsig, hmem]
  simp only [ok_bind]
  rw [hmt]
  simp only [ok_bind]
  rw [hres]
  rfl

end ConstantPool

namespace ConstantPool

/-- C30: let `resolve_constant_at_impl` be called to resolve a MethodHandle entry, and let
the class entry of its member resolve to the klass `callee`.  If `callee` is an
interface and the member is a Methodref, or `callee` is not an interface and the member
is an InterfaceMethodref, the call raises IncompatibleClassChangeError, makes no call
to link the method handle, records the error for the entry and changes the tag of the
entry to MethodHandleInError.  For every other combination the check raises nothing:
the call goes on as lines 1243 to 1252 and 1311 to 1330 say, with the linking of the
method handle as the next call to a collaborator. -/
theorem method_handle_member_kind_check (env : Env) (st st1 : PoolState)
    (cp_index cache_index : Int) (i ref_kind callee_index name signature member m_tag ct : Nat)
    (callee : Klass)
    (hu : st.Uncached cp_index cache_index i)
    (ht : st.cp.tag_at i = .ok JVM_CONSTANT_MethodHandle)
    (hk : st.cp.method_handle_ref_kind_at i = .ok ref_kind)
    (hci : st.cp.method_handle_klass_index_at i = .ok callee_index)
    (hname : st.cp.method_handle_name_ref_at i = .ok name)
    (hsig : st.cp.method_handle_signature_ref_at i = .ok signature)
    (hmem : st.cp.method_handle_index_at i = .ok member)
    (hmt : st.cp.tag_at member = .ok m_tag)
    (hct : st.cp.tag_at callee_index = .ok ct) (hck : KlassTag ct)
    (hres : klass_at_impl env st callee_index = .ok (st1, .ok (some callee))) :
    (((callee.is_interface = true ∧ m_tag = JVM_CONSTANT_Methodref) ∨
        (callee.is_interface = false ∧ m_tag = JVM_CONSTANT_InterfaceMethodref)) →
      env.is_linkage_error env.java_lang_IncompatibleClassChangeError = true →
      SystemDictionary.find_resolution_error st.error_table i = none →
      ∃ st2, resolve_constant_at_impl env st cp_index cache_index none =
          .ok (st2, .error ⟨env.java_lang_IncompatibleClassChangeError,
            some (inconsistent_method_message env i callee name signature), .self⟩, none) ∧
        st2.trace = st1.trace ∧
        st2.cp.tag_at i = .ok JVM_CONSTANT_MethodHandleInError ∧
        SystemDictionary.find_resolution_error st2.error_table i =
          some ⟨env.java_lang_IncompatibleClassChangeError,
            some (inconsistent_method_message env i callee name signature), none, none⟩) ∧
    (¬ ((callee.is_interface = true ∧ m_tag = JVM_CONSTANT_Methodref) ∨
        (callee.is_interface = false ∧ m_tag = JVM_CONSTANT_InterfaceMethodref)) →
      resolve_constant_at_impl env st cp_index cache_index none =
        (resolve_constant_link_method_handle env st1 i JVM_CONSTANT_MethodHandle ref_kind
          callee name signature >>= fun r =>
            match r.2 with
            | .error e => .ok (r.1, .error e, none)
            | .ok result_oop =>
              resolve_constant_publish r.1 (st.cache_index cp_index cache_index)
                result_oop >>= fun p => .ok (p.1, .ok p.2, none)) ∧
      ∀ st2 out, resolve_constant_at_impl env st cp_index cache_index none = .ok (st2, out) →
        st2.trace = st1.trace ++
          [.link_method_handle_constant ref_kind callee name signature]) := by
  have hne : i ≠ callee_index := by
    intro h
    subst h
    rw [ht] at hct
    cases hct
    rcases hck with h | h | h <;> cases h
  obtain ⟨-, -, htag, htab, -, -, -⟩ := klass_at_impl_touches hres
  have ht1 : st1.cp.tag_at i = .ok JVM_CONSTANT_MethodHandle := by rw [htag i hne]; exact ht
  have hcall : resolve_constant_at_impl env st cp_index cache_index none =
      (resolve_constant_check_method_handle env st1 i JVM_CONSTANT_MethodHandle ref_kind
        (some callee) name signature m_tag >>= fun r =>
          match r.2 with
          | .error e => .ok (r.1, .error e, none)
          | .ok result_oop =>
            resolve_constant_publish r.1 (st.cache_index cp_index cache_index)
              result_oop >>= fun p => .ok (p.1, .ok p.2, none)) := by
    rw [resolve_constant_at_impl_uncached env none hu, resolve_constant_at_tag_resolving env _ ht,
      resolve_constant_value_method_handle,
      resolve_constant_method_handle_resolved env _ hk hci hname hsig hmem hmt hres]
  refine ⟨?_, ?_⟩
  · intro hbad hl hnone
    have hcond : ((callee.is_interface && constantTag.is_method m_tag) ||
        (!callee.is_interface && constantTag.is_interface_method m_tag)) = true := by
      rcases hbad with ⟨h1, h2⟩ | ⟨h1, h2⟩ <;>
        simp [h1, h2, constantTag.is_method, constantTag.is_interface_method]
    have hnone1 : SystemDictionary.find_resolution_error st1.error_table i = none := by
      rw [htab i hne]; exact hnone
    rw [hcall]
    unfold resolve_constant_check_method_handle
    simp only [hcond, if_true]
    rw [save_and_throw_exception_linkage (rfl : constantTag.error_value
      JVM_CONSTANT_MethodHandle = .ok JVM_CONSTANT_MethodHandleInError) hl ht1]
    refine ⟨_, rfl, rfl, with_tag_tag_at_self _ (tag_at_lt ht1), ?_⟩
    exact find_resolution_error_add_self _ hnone1
  · intro hgood
    have hcond : ((callee.is_interface && constantTag.is_method m_tag) ||
        (!callee.is_interface && constantTag.is_interface_method m_tag)) = false := by
      cases hi : callee.is_interface <;>
        simp [hi, constantTag.is_method, constantTag.is_interface_method] at hgood ⊢ <;>
        exact hgood
    have hcheck : resolve_constant_check_method_handle env st1 i JVM_CONSTANT_MethodHandle
        ref_kind (some callee) name signature m_tag =
        resolve_constant_link_method_handle env st1 i JVM_CONSTANT_MethodHandle ref_kind
          callee name signature := by
      unfold resolve_constant_check_method_handle
      simp only [hcond, Bool.false_eq_true, if_false]
    rw [hcall, hcheck]
    refine ⟨rfl, ?_⟩
    intro st2 out h
    obtain ⟨⟨st3, r⟩, h3, h⟩ := bind_eq_ok.mp h
    have htr := resolve_constant_link_method_handle_trace h3
    cases r with
    | error e => cases h; exact htr
    | ok v =>
      simp only at h
      obtain ⟨⟨st4, v4⟩, h4, h⟩ := bind_eq_ok.mp h
      cases h
      exact (resolve_constant_publish_trace h4).trans htr

theorem method_handle_member_kind_check_witness :
    (∃ st1 st2 msg, klass_at_impl resolutionEnv resolutionState 2 =
        .ok (st1, .ok (some fooKlass)) ∧
      resolve_constant_at_impl resolutionEnv resolutionState 8 (-2) none =
        .ok (st2, .error ⟨2002, some msg, .self⟩, none) ∧
      st2.trace = st1.trace ∧
      st2.cp.tag_at 8 = .ok JVM_CONSTANT_MethodHandleInError) ∧
    (∃ st1, klass_at_impl resolutionEnv resolutionState 2 = .ok (st1, .ok (some fooKlass)) ∧
      ∀ st2 out, resolve_constant_at_impl resolutionEnv resolutionState 18 (-2) none =
          .ok (st2, out) →
        st2.trace = st1.trace ++ [.link_method_handle_constant 9 fooKlass 1001 1002]) := by
  have hv : (fun r => r.2) <$> klass_at_impl resolutionEnv resolutionState 2 =
      .ok (.ok (some fooKlass)) := by decide
  cases h : klass_at_impl resolutionEnv resolutionState 2 with
  | error f => rw [h] at hv; cases hv
  | ok r =>
    rw [h] at hv
    obtain ⟨st1, out⟩ := r
    have hout : out = .ok (some fooKlass) := Except.ok.inj hv
    subst hout
    refine ⟨?_, ?_⟩
    · obtain ⟨st2, h1, h2, h3, -⟩ := (method_handle_member_kind_check resolutionEnv
        resolutionState st1 8 (-2) 8 5 2 1001 1002 6 JVM_CONSTANT_Methodref
        JVM_CONSTANT_UnresolvedClass fooKlass (by decide) (by decide) (by decide) (by decide)
        (by decide) (by decide) (by decide) (by decide) (by decide) (Or.inr (Or.inl rfl)) h).1
        (Or.inl ⟨rfl, rfl⟩) (by decide) (by decide)
      exact ⟨st1, st2, _, rfl, h1, h2, h3⟩
    · exact ⟨st1, rfl, ((method_handle_member_kind_check resolutionEnv
        resolutionState st1 18 (-2) 18 9 2 1001 1002 17 JVM_CONSTANT_InterfaceMethodref
        JVM_CONSTANT_UnresolvedClass fooKlass (by decide) (by decide) (by decide) (by decide)
        (by decide) (by decide) (by decide) (by decide) (by decide) (Or.inr (Or.inl rfl)) h).2
        (by decide)).2⟩

end ConstantPool

namespace ConstantPool

/-! ## C25: errors that are not LinkageErrors -/

/-- With the tag it was entered with still at the entry, `save_and_throw_exception`
leaves the exception it was entered with pending, and changes the state only for a
LinkageError. -/
theorem save_and_throw_exception_pending {env : Env} {st st1 : PoolState} {i tag : Nat}
    {e : Throwable} {p : Option Throwable} (hv : ∃ error_tag, constantTag.error_value tag =
      .ok error_tag) (ht : st.cp.tag_at i = .ok tag)
    (h : save_and_throw_exception env st i tag e = .ok (st1, p)) :
    p = some e ∧ (env.is_linkage_error e.klass = false → st1 = st) := by
  obtain ⟨error_tag, hv⟩ := hv
  by_cases hl : env.is_linkage_error e.klass = true
  · rw [save_and_throw_exception_linkage hv hl ht] at h
    obtain ⟨m, _, h⟩ := bind_eq_ok.mp h
    cases h
    exact ⟨rfl, fun h0 => by rw [hl] at h0; cases h0⟩
  · rw [save_and_throw_exception_not_linkage st i hv (by simpa using hl)] at h
    cases h
    exact ⟨rfl, fun _ => rfl⟩

/-- A resolving call that raises an error has failed to compute the value. -/
theorem resolve_constant_at_tag_error {env : Env} {st st1 : PoolState} {i tag : Nat}
    {ci : Int} {e : Throwable} {s1 : Option Bool} (ht : st.cp.tag_at i = .ok tag)
    (h : resolve_constant_at_tag env st i ci none = .ok (st1, .error e, s1)) :
    resolve_constant_value env st i ci tag = .ok (st1, .error e) := by
  rw [resolve_constant_at_tag_resolving env ci ht] at h
  obtain ⟨⟨st2, r⟩, h2, h⟩ := bind_eq_ok.mp h
  cases r with
  | error e0 => cases h; exact h2
  | ok v =>
    simp only at h
    obtain ⟨p, _, h⟩ := bind_eq_ok.mp h
    cases h

/-- A resolving call has made the calls of the computation of the value. -/
theorem resolve_constant_at_tag_trace {env : Env} {st st1 : PoolState} {i tag : Nat}
    {ci : Int} {out : Except Throwable Oop × Option Bool} (ht : st.cp.tag_at i = .ok tag)
    (h : resolve_constant_at_tag env st i ci none = .ok (st1, out)) :
    ∃ st2 r, resolve_constant_value env st i ci tag = .ok (st2, r) ∧ st1.trace = st2.trace := by
  rw [resolve_constant_at_tag_resolving env ci ht] at h
  obtain ⟨⟨st2, r⟩, h2, h⟩ := bind_eq_ok.mp h
  refine ⟨st2, r, h2, ?_⟩
  cases r with
  | error e0 => cases h; rfl
  | ok v =>
    simp only at h
    obtain ⟨⟨st3, v3⟩, h3, h⟩ := bind_eq_ok.mp h
    cases h
    exact resolve_constant_publish_trace h3

theorem resolve_constant_method_type_trace {env : Env} {st st1 : PoolState} {i tag : Nat}
    {out : Except Throwable Oop}
    (h : resolve_constant_method_type env st i tag = .ok (st1, out)) :
    ∃ signature, st1.trace = st.trace ++ [.find_method_handle_type signature] := by
  unfold resolve_constant_method_type at h
  obtain ⟨sig, _, h⟩ := bind_eq_ok.mp h
  refine ⟨sig, ?_⟩
  cases hb : env.find_method_handle_type st.trace sig with
  | mk p v =>
    rw [hb] at h
    cases p with
    | none => cases h; rfl
    | some e =>
      simp only at h
      obtain ⟨⟨st2, p2⟩, h2, h⟩ := bind_eq_ok.mp h
      have ht := save_and_throw_exception_trace h2
      cases p2 <;> cases h <;> exact ht

theorem resolve_constant_dynamic_trace {env : Env} {st st1 : PoolState} {i tag : Nat}
    {out : Except Throwable Oop}
    (h : resolve_constant_dynamic env st i tag = .ok (st1, out)) :
    st1.trace = st.trace ++ [.invoke_bootstrap_method i] := by
  unfold resolve_constant_dynamic at h
  obtain ⟨sig, _, h⟩ := bind_eq_ok.mp h
  cases hb : env.invoke_bootstrap_method st.trace i with
  | mk p v =>
    rw [hb] at h
    cases p with
    | none => cases h; rfl
    | some e =>
      simp only at h
      obtain ⟨⟨st2, p2⟩, h2, h⟩ := bind_eq_ok.mp h
      have ht := save_and_throw_exception_trace h2
      cases p2 <;> cases h <;> exact ht

/-- A MethodType entry whose resolution fails with an error that is not a LinkageError is
left as it is. -/
theorem resolve_constant_method_type_failed {env : Env} {st st1 : PoolState} {i : Nat}
    {e : Throwable} (ht : st.cp.tag_at i = .ok JVM_CONSTANT_MethodType)
    (hl : env.is_linkage_error e.klass = false)
    (h : resolve_constant_method_type env st i JVM_CONSTANT_MethodType = .ok (st1, .error e)) :
    ∃ sig, st.cp.method_type_signature_at i = .ok sig ∧
      st1 = st.log (.find_method_handle_type sig) := by
  unfold resolve_constant_method_type at h
  obtain ⟨sig, hsig, h⟩ := bind_eq_ok.mp h
  refine ⟨sig, hsig, ?_⟩
  cases hb : env.find_method_handle_type st.trace sig with
  | mk p v =>
    rw [hb] at h
    cases p with
    | none => cases h
    | some e0 =>
      simp only at h
      obtain ⟨⟨st2, p2⟩, h2, h⟩ := bind_eq_ok.mp h
      obtain ⟨hp, hsame⟩ := @save_and_throw_exception_pending env _ _ i
        JVM_CONSTANT_MethodType _ _ ⟨JVM_CONSTANT_MethodTypeInError, rfl⟩
        (show (st.log (.find_method_handle_type sig)).cp.tag_at i = _ from ht) h2
      subst hp
      cases h
      exact hsame hl

/-- A Dynamic entry whose resolution fails with an error that is not a LinkageError is
left as it is. -/
theorem resolve_constant_dynamic_failed {env : Env} {st st1 : PoolState} {i : Nat}
    {e : Throwable} (ht : st.cp.tag_at i = .ok JVM_CONSTANT_Dynamic)
    (hl : env.is_linkage_error e.klass = false)
    (h : resolve_constant_dynamic env st i JVM_CONSTANT_Dynamic = .ok (st1, .error e)) :
    (∃ sig, st.cp.uncached_signature_ref_at i = .ok sig) ∧
      st1 = st.log (.invoke_bootstrap_method i) := by
  unfold resolve_constant_dynamic at h
  obtain ⟨sig, hsig, h⟩ := bind_eq_ok.mp h
  refine ⟨⟨sig, hsig⟩, ?_⟩
  cases hb : env.invoke_bootstrap_method st.trace i with
  | mk p v =>
    rw [hb] at h
    cases p with
    | none => exact (Prod.mk.inj (Except.ok.inj h)).1.symm
    | some e0 =>
      simp only at h
      obtain ⟨⟨st2, p2⟩, h2, h⟩ := bind_eq_ok.mp h
      obtain ⟨hp, hsame⟩ := @save_and_throw_exception_pending env _ _ i
        JVM_CONSTANT_Dynamic _ _ ⟨JVM_CONSTANT_DynamicInError, rfl⟩
        (show (st.log (.invoke_bootstrap_method i)).cp.tag_at i = _ from ht) h2
      subst hp
      cases h
      exact hsame hl

/-- A call of `klass_at_impl` at an UnresolvedClass entry asks the class loader
first. -/
theorem klass_at_impl_unresolved_trace {env : Env} {st st1 : PoolState} {i : Nat}
    {out : Except Throwable (Option Klass)}
    (ht : st.cp.tag_at i = .ok JVM_CONSTANT_UnresolvedClass)
    (h : klass_at_impl env st i = .ok (st1, out)) :
    ∃ name rest, st.cp.klass_name_at i = .ok name ∧
      st1.trace = st.trace ++ Event.resolve_or_fail name :: rest := by
  obtain ⟨r, n, _, hn, heq⟩ := klass_at_impl_unresolved env ht
  rw [heq] at h
  obtain ⟨name, hname, h⟩ := bind_eq_ok.mp h
  have hkn : st.cp.klass_name_at i = .ok name := by
    unfold klass_name_at
    rw [hn]
    exact hname
  have hrest : ∀ (st0 : PoolState), (∃ l, st0.trace = st.trace ++ Event.resolve_or_fail name :: l) →
      st0.Advances st1 → ∃ rest, st1.trace = st.trace ++ Event.resolve_or_fail name :: rest := by
    rintro st0 ⟨l, hl⟩ hadv
    obtain ⟨l2, hl2⟩ := hadv.2.2.2.2
    exact ⟨l ++ l2, by rw [hl2, hl]; simp⟩
  refine ⟨name, ?_⟩
  cases hres : env.resolve_or_fail st.trace name with
  | error e0 =>
    rw [hres] at h
    obtain ⟨rest, hr⟩ := hrest (st.log (.resolve_or_fail name)) ⟨[], rfl⟩
      (klass_at_impl_failed_advances h)
    exact ⟨rest, hkn, hr⟩
  | ok k =>
    rw [hres] at h
    simp only at h
    have hv := verify_constant_pool_resolve_advances env (st.log (.resolve_or_fail name)) k
    cases hver : verify_constant_pool_resolve env (st.log (.resolve_or_fail name)) k with
    | mk st2 p =>
      rw [hver] at h hv
      obtain ⟨l, hl⟩ := hv.2.2.2.2
      have hst2 : ∃ l, st2.trace = st.trace ++ Event.resolve_or_fail name :: l :=
        ⟨l, by rw [hl]; simp [PoolState.log]⟩
      cases p with
      | some e0 =>
        obtain ⟨rest, hr⟩ := hrest st2 hst2 (klass_at_impl_failed_advances h)
        exact ⟨rest, hkn, hr⟩
      | none =>
        obtain ⟨rest, hr⟩ := hrest st2 hst2 (klass_at_impl_resolved_advances h)
        exact ⟨rest, hkn, hr⟩

/-- A class entry whose resolution fails with an error that is not a LinkageError is left
as it is. -/
theorem klass_at_impl_failed_same {env : Env} {st st1 : PoolState} {i : Nat} {e : Throwable}
    (ht : st.cp.tag_at i = .ok JVM_CONSTANT_UnresolvedClass)
    (hl : env.is_linkage_error e.klass = false)
    (h : klass_at_impl env st i = .ok (st1, .error e)) :
    st1.cp = st.cp ∧ st1.error_table = st.error_table ∧
      st1.resolved_klasses = st.resolved_klasses ∧
      st1.resolved_references = st.resolved_references ∧
      st1.reference_map = st.reference_map := by
  obtain ⟨st0, r, h1, h2, h3, h4, h5, hf⟩ := klass_at_impl_unresolved_error ht h
  rw [klass_at_impl_failed_not_linkage st0 i r hl] at hf
  cases hf
  exact ⟨h1, h2, h3, h4, h5⟩

end ConstantPool

namespace ConstantPool

theorem klass_at_impl_in_error_inv {env : Env} {st st1 : PoolState} {i : Nat}
    {out : Except Throwable (Option Klass)}
    (ht : st.cp.tag_at i = .ok JVM_CONSTANT_UnresolvedClassInError)
    (h : klass_at_impl env st i = .ok (st1, out)) :
    ∃ entry, SystemDictionary.find_resolution_error st.error_table i = some entry ∧
      out = .error entry.replayed := by
  cases hf : SystemDictionary.find_resolution_error st.error_table i with
  | some entry =>
    rw [klass_at_impl_in_error env ht hf] at h
    cases h
    exact ⟨entry, rfl, rfl⟩
  | none =>
    exfalso
    obtain ⟨s, _, _, hr, hn⟩ := klass_slot_reads_of_tag ht
    unfold klass_at_impl at h
    rw [hr, hn, ht] at h
    simp only [ok_bind, constantTag.is_klass, constantTag.is_unresolved_klass_in_error,
      show ¬ (JVM_CONSTANT_UnresolvedClassInError = JVM_CONSTANT_Class) by decide,
      decide_False, decide_True, Bool.false_eq_true, if_false, if_true] at h
    obtain ⟨e, he, _⟩ := bind_eq_ok.mp h
    unfold throw_resolution_error at he
    rw [hf] at he
    cases he

theorem method_handle_reads_congr {cp cp1 : ConstantPool}
    (h : ∀ i, cp1.int_at_addr i = cp.int_at_addr i) (i : Nat) :
    cp1.method_handle_index_at i = cp.method_handle_index_at i ∧
    cp1.method_handle_klass_index_at i = cp.method_handle_klass_index_at i := by
  have hm : cp1.method_handle_index_at i = cp.method_handle_index_at i := by
    unfold method_handle_index_at; rw [h]
  refine ⟨hm, ?_⟩
  unfold method_handle_klass_index_at
  rw [hm]
  cases cp.method_handle_index_at i with
  | error f => rfl
  | ok member =>
    simp only [ok_bind]
    unfold uncached_klass_ref_index_at
    rw [h]

/-- Everything the MethodHandle case does after the class of the member has been resolved
adds to the calls made to the collaborators. -/
theorem resolve_constant_check_method_handle_trace {env : Env} {st st1 : PoolState}
    {i tag ref_kind name signature m_tag : Nat} {callee : Option Klass}
    {out : Except Throwable Oop}
    (h : resolve_constant_check_method_handle env st i tag ref_kind callee name signature
      m_tag = .ok (st1, out)) : ∃ l, st1.trace = st.trace ++ l :=
  (resolve_constant_check_method_handle_advances h).2.2.2.2

/-- The MethodHandle case, entered in a state in which the class of the member is not
resolved yet, asks the class loader. -/
theorem resolve_constant_method_handle_unresolved_trace {env : Env} {st st2 : PoolState}
    {i tag callee_index : Nat} {out : Except Throwable Oop}
    (hci : st.cp.method_handle_klass_index_at i = .ok callee_index)
    (hct : st.cp.tag_at callee_index = .ok JVM_CONSTANT_UnresolvedClass)
    (h : resolve_constant_method_handle env st i tag = .ok (st2, out)) :
    ∃ ev rest, st2.trace = st.trace ++ ev :: rest := by
  unfold resolve_constant_method_handle at h
  obtain ⟨ref_kind, _, h⟩ := bind_eq_ok.mp h
  obtain ⟨callee_index2, hci2, h⟩ := bind_eq_ok.mp h
  have := hci.symm.trans hci2
  cases this
  obtain ⟨name, _, h⟩ := bind_eq_ok.mp h
  obtain ⟨signature, _, h⟩ := bind_eq_ok.mp h
  obtain ⟨member, _, h⟩ := bind_eq_ok.mp h
  obtain ⟨m_tag, _, h⟩ := bind_eq_ok.mp h
  obtain ⟨⟨sta, r⟩, hka, h⟩ := bind_eq_ok.mp h
  obtain ⟨cname, rest, _, htr⟩ := klass_at_impl_unresolved_trace hct hka
  have hfin : ∀ l, st2.trace = sta.trace ++ l →
      ∃ ev rest, st2.trace = st.trace ++ ev :: rest := by
    intro l hl
    exact ⟨Event.resolve_or_fail cname, rest ++ l, by rw [hl, htr]; simp⟩
  cases r with
  | error e0 =>
    simp only at h
    obtain ⟨⟨stb, p⟩, hb, h⟩ := bind_eq_ok.mp h
    have hbt := save_and_throw_exception_trace hb
    cases p with
    | some e1 =>
      obtain ⟨h5, -⟩ := Prod.mk.inj (Except.ok.inj h)
      subst h5
      exact hfin [] (by rw [List.append_nil]; exact hbt)
    | none =>
      obtain ⟨l, hl⟩ := resolve_constant_check_method_handle_trace h
      exact hfin l (by rw [hl, hbt])
  | ok callee =>
    obtain ⟨l, hl⟩ := resolve_constant_check_method_handle_trace h
    exact hfin l hl

/-- The MethodHandle case, entered in a state in which the class of the member is
resolved to a klass that fits the kind of the member, links the method handle. -/
theorem resolve_constant_method_handle_resolved_trace {env : Env} {st st2 : PoolState}
    {i tag callee_index member m_tag : Nat} {callee : Klass} {out : Except Throwable Oop}
    (hci : st.cp.method_handle_klass_index_at i = .ok callee_index)
    (hmem : st.cp.method_handle_index_at i = .ok member)
    (hmt : st.cp.tag_at member = .ok m_tag)
    (hct : st.cp.tag_at callee_index = .ok JVM_CONSTANT_Class)
    (hslot : st.resolved_klass_slot callee_index = .ok (some callee))
    (hgood : ((callee.is_interface && constantTag.is_method m_tag) ||
        (!callee.is_interface && constantTag.is_interface_method m_tag)) = false)
    (h : resolve_constant_method_handle env st i tag = .ok (st2, out)) :
    ∃ ev rest, st2.trace = st.trace ++ ev :: rest := by
  unfold resolve_constant_method_handle at h
  obtain ⟨ref_kind, _, h⟩ := bind_eq_ok.mp h
  obtain ⟨callee_index2, hci2, h⟩ := bind_eq_ok.mp h
  have := hci.symm.trans hci2
  cases this
  obtain ⟨name, _, h⟩ := bind_eq_ok.mp h
  obtain ⟨signature, _, h⟩ := bind_eq_ok.mp h
  obtain ⟨member2, hmem2, h⟩ := bind_eq_ok.mp h
  have := hmem.symm.trans hmem2
  cases this
  obtain ⟨m_tag2, hmt2, h⟩ := bind_eq_ok.mp h
  have := hmt.symm.trans hmt2
  cases this
  rw [klass_at_impl_class env hct, hslot] at h
  simp only [ok_bind] at h
  unfold resolve_constant_check_method_handle at h
  simp only [hgood, Bool.false_eq_true, if_false] at h
  exact ⟨_, [], resolve_constant_link_method_handle_trace h⟩

end ConstantPool

namespace ConstantPool

/-! ## C25: the later call returns -/

theorem klass_name_at_congr {cp cp1 : ConstantPool}
    (hint : ∀ i, cp1.int_at_addr i = cp.int_at_addr i)
    (hsym : ∀ i, cp1.symbol_at i = cp.symbol_at i) (i : Nat) :
    cp1.klass_name_at i = cp.klass_name_at i := by
  unfold klass_name_at klass_slot_name_index
  simp only [hint, hsym]

theorem uncached_name_ref_at_congr {cp cp1 : ConstantPool}
    (hint : ∀ i, cp1.int_at_addr i = cp.int_at_addr i)
    (hsym : ∀ i, cp1.symbol_at i = cp.symbol_at i) {m : Nat}
    (htag : cp1.tag_at m = cp.tag_at m) :
    cp1.uncached_name_ref_at m = cp.uncached_name_ref_at m := by
  unfold uncached_name_ref_at uncached_name_and_type_ref_index_at name_ref_index_at
    name_and_type_at bootstrap_name_and_type_ref_index_at
  simp only [hint, hsym, htag]

theorem method_handle_name_ref_at_congr {cp cp1 : ConstantPool}
    (hint : ∀ i, cp1.int_at_addr i = cp.int_at_addr i)
    (hsym : ∀ i, cp1.symbol_at i = cp.symbol_at i) {i member : Nat}
    (hmem : cp.method_handle_index_at i = .ok member)
    (htag : cp1.tag_at member = cp.tag_at member) :
    cp1.method_handle_name_ref_at i = cp.method_handle_name_ref_at i := by
  unfold method_handle_name_ref_at
  rw [(method_handle_reads_congr hint i).1, hmem]
  exact uncached_name_ref_at_congr hint hsym htag

theorem uncached_signature_ref_at_congr {cp cp1 : ConstantPool}
    (hint : ∀ i, cp1.int_at_addr i = cp.int_at_addr i)
    (hsym : ∀ i, cp1.symbol_at i = cp.symbol_at i) {m : Nat}
    (htag : cp1.tag_at m = cp.tag_at m) :
    cp1.uncached_signature_ref_at m = cp.uncached_signature_ref_at m := by
  unfold uncached_signature_ref_at uncached_name_and_type_ref_index_at signature_ref_index_at
    name_and_type_at bootstrap_name_and_type_ref_index_at
  simp only [hint, hsym, htag]

theorem method_handle_signature_ref_at_congr {cp cp1 : ConstantPool}
    (hint : ∀ i, cp1.int_at_addr i = cp.int_at_addr i)
    (hsym : ∀ i, cp1.symbol_at i = cp.symbol_at i) {i member : Nat}
    (hmem : cp.method_handle_index_at i = .ok member)
    (htag : cp1.tag_at member = cp.tag_at member) :
    cp1.method_handle_signature_ref_at i = cp.method_handle_signature_ref_at i := by
  unfold method_handle_signature_ref_at
  rw [(method_handle_reads_congr hint i).1, hmem]
  exact uncached_signature_ref_at_congr hint hsym htag

theorem method_handle_ref_kind_at_congr {cp cp1 : ConstantPool}
    (hint : ∀ i, cp1.int_at_addr i = cp.int_at_addr i) (i : Nat) :
    cp1.method_handle_ref_kind_at i = cp.method_handle_ref_kind_at i := by
  unfold method_handle_ref_kind_at
  rw [hint]

/-- The message to record can be made when the name the entry stands for can be read. -/
theorem exception_message_total (env : Env) {cp : ConstantPool} {which tag n : Nat}
    (e : Throwable)
    (h : (if tag = JVM_CONSTANT_UnresolvedClass then cp.klass_name_at which
      else if tag = JVM_CONSTANT_MethodHandle then cp.method_handle_name_ref_at which
      else if tag = JVM_CONSTANT_MethodType then cp.method_type_signature_at which
      else if tag = JVM_CONSTANT_Dynamic then cp.uncached_name_ref_at which
      else .error .should_not_reach_here) = .ok n) :
    ∃ m, exception_message env cp which tag e = .ok m := by
  unfold exception_message
  cases e.message with
  | some msg => exact ⟨_, rfl⟩
  | none =>
    simp only
    by_cases h1 : tag = JVM_CONSTANT_UnresolvedClass
    · rw [if_pos h1] at h ⊢
      rw [h]
      exact ⟨_, rfl⟩
    · rw [if_neg h1] at h ⊢
      by_cases h2 : tag = JVM_CONSTANT_MethodHandle
      · rw [if_pos h2] at h ⊢
        rw [h]
        exact ⟨_, rfl⟩
      · rw [if_neg h2] at h ⊢
        by_cases h3 : tag = JVM_CONSTANT_MethodType
        · rw [if_pos h3] at h ⊢
          rw [h]
          exact ⟨_, rfl⟩
        · rw [if_neg h3] at h ⊢
          by_cases h4 : tag = JVM_CONSTANT_Dynamic
          · rw [if_pos h4] at h ⊢
            rw [h]
            exact ⟨_, rfl⟩
          · rw [if_neg h4] at h
            cases h

/-- With the tag it is entered with at the entry and a message to record,
`save_and_throw_exception` returns with the exception pending. -/
theorem save_and_throw_exception_total {env : Env} {st : PoolState} {i tag error_tag : Nat}
    (e : Throwable) (hv : constantTag.error_value tag = .ok error_tag)
    (ht : st.cp.tag_at i = .ok tag)
    (hm : ∃ m, exception_message env st.cp i tag e = .ok m) :
    ∃ st1, save_and_throw_exception env st i tag e = .ok (st1, some e) := by
  by_cases hl : env.is_linkage_error e.klass = true
  · obtain ⟨m, hm⟩ := hm
    rw [save_and_throw_exception_linkage hv hl ht, hm]
    exact ⟨_, rfl⟩
  · rw [save_and_throw_exception_not_linkage st i hv (by simpa using hl)]
    exact ⟨_, rfl⟩

theorem klass_at_impl_failed_total {env : Env} {st : PoolState} {i : Nat} (r : Nat)
    (e : Throwable) (ht : st.cp.tag_at i = .ok JVM_CONSTANT_UnresolvedClass)
    (hn : ∃ n, st.cp.klass_name_at i = .ok n) :
    ∃ st1, klass_at_impl_failed env st i r e = .ok (st1, .error e) := by
  obtain ⟨n, hn⟩ := hn
  obtain ⟨st1, h⟩ := @save_and_throw_exception_total env st i JVM_CONSTANT_UnresolvedClass
    JVM_CONSTANT_UnresolvedClassInError e rfl ht (exception_message_total env e hn)
  unfold klass_at_impl_failed
  rw [h]
  exact ⟨st1, rfl⟩

/-- At a class entry that is resolved or unresolved and has a resolved-klass slot and,
when it is unresolved, a name that can be read, `klass_at_impl` returns. -/
theorem klass_at_impl_total (env : Env) {st : PoolState} {i t : Nat}
    (ht : st.cp.tag_at i = .ok t)
    (hk : t = JVM_CONSTANT_Class ∨ t = JVM_CONSTANT_UnresolvedClass)
    (hslot : ∃ k, st.resolved_klass_slot i = .ok k)
    (hname : t = JVM_CONSTANT_UnresolvedClass → ∃ n, st.cp.klass_name_at i = .ok n) :
    ∃ st1 out, klass_at_impl env st i = .ok (st1, out) := by
  obtain ⟨k0, hslot⟩ := hslot
  rcases hk with rfl | rfl
  · rw [klass_at_impl_class env ht, hslot]
    exact ⟨_, _, rfl⟩
  · obtain ⟨r, n, hr, hn, heq⟩ := klass_at_impl_unresolved env ht
    obtain ⟨name, hname⟩ := hname rfl
    have hsym : st.cp.symbol_at n = .ok name := by
      unfold klass_name_at at hname
      rw [hn] at hname
      exact hname
    have hrl : r < st.resolved_klasses.length := by
      obtain ⟨r1, hr1, hget⟩ := PoolState.resolved_klass_slot_eq_ok.mp hslot
      have := hr.symm.trans hr1
      cases this
      by_contra hge
      rw [List.getElem?_eq_none (Nat.le_of_not_lt hge)] at hget
      cases hget
    rw [heq, hsym]
    simp only [ok_bind]
    cases hres : env.resolve_or_fail st.trace name with
    | error e =>
      simp only
      obtain ⟨st1, h1⟩ := @klass_at_impl_failed_total env (st.log (.resolve_or_fail name)) i r e
        ht ⟨name, hname⟩
      exact ⟨_, _, h1⟩
    | ok k =>
      simp only
      obtain ⟨h1, -, h3, -, -⟩ :=
        verify_constant_pool_resolve_same env (st.log (.resolve_or_fail name)) k
      cases hver : verify_constant_pool_resolve env (st.log (.resolve_or_fail name)) k with
      | mk st2 p =>
        rw [hver] at h1 h3
        have ht2 : st2.cp.tag_at i = .ok JVM_CONSTANT_UnresolvedClass := by rw [h1]; exact ht
        cases p with
        | some e =>
          simp only
          obtain ⟨st1, hf⟩ := @klass_at_impl_failed_total env st2 i r e ht2
            ⟨name, by rw [h1]; exact hname⟩
          exact ⟨_, _, hf⟩
        | none =>
          simp only
          rw [klass_at_impl_resolved_unresolved k ht2 (by rw [h3]; exact hrl)]
          exact ⟨_, _, rfl⟩

/-- What `klass_at_impl` returns at an UnresolvedClass entry is not null. -/
theorem klass_at_impl_unresolved_some {env : Env} {st st1 : PoolState} {i : Nat}
    {k : Option Klass} (ht : st.cp.tag_at i = .ok JVM_CONSTANT_UnresolvedClass)
    (h : klass_at_impl env st i = .ok (st1, .ok k)) : ∃ k1, k = some k1 := by
  obtain ⟨r, n, _, _, heq⟩ := klass_at_impl_unresolved env ht
  rw [heq] at h
  obtain ⟨name, _, h⟩ := bind_eq_ok.mp h
  cases hres : env.resolve_or_fail st.trace name with
  | error e =>
    rw [hres] at h
    exact absurd h (klass_at_impl_failed_ne_ok
      (show (st.log (.resolve_or_fail name)).cp.tag_at i = _ from ht))
  | ok kk =>
    rw [hres] at h
    simp only at h
    obtain ⟨h1, -, -, -, -⟩ :=
      verify_constant_pool_resolve_same env (st.log (.resolve_or_fail name)) kk
    cases hver : verify_constant_pool_resolve env (st.log (.resolve_or_fail name)) kk with
    | mk st2 p =>
      rw [hver] at h h1
      have ht2 : st2.cp.tag_at i = .ok JVM_CONSTANT_UnresolvedClass := by rw [h1]; exact ht
      cases p with
      | some e => exact absurd h (klass_at_impl_failed_ne_ok ht2)
      | none =>
        simp only at h
        by_cases hr : r < st2.resolved_klasses.length
        · rw [klass_at_impl_resolved_unresolved kk ht2 hr] at h
          obtain ⟨-, h6⟩ := Prod.mk.inj (Except.ok.inj h)
          exact ⟨kk, (Except.ok.inj h6).symm⟩
        · unfold klass_at_impl_resolved at h
          rw [PoolState.resolved_klasses_store_error _ hr] at h
          cases h

theorem resolve_constant_link_method_handle_total (env : Env) {st : PoolState} {i : Nat}
    (ref_kind : Nat) (callee : Klass) (name signature : Nat)
    (ht : st.cp.tag_at i = .ok JVM_CONSTANT_MethodHandle)
    (hn : ∃ n, st.cp.method_handle_name_ref_at i = .ok n) :
    ∃ st1 out, resolve_constant_link_method_handle env st i JVM_CONSTANT_MethodHandle ref_kind
      callee name signature = .ok (st1, out) := by
  obtain ⟨n, hn⟩ := hn
  unfold resolve_constant_link_method_handle
  cases hlink : env.link_method_handle_constant st.trace ref_kind callee name signature with
  | mk p v =>
    cases p with
    | none => exact ⟨_, _, rfl⟩
    | some e =>
      obtain ⟨st1, h1⟩ := @save_and_throw_exception_total env
        (st.log (.link_method_handle_constant ref_kind callee name signature)) i
        JVM_CONSTANT_MethodHandle JVM_CONSTANT_MethodHandleInError e rfl ht
        (exception_message_total env e hn)
      simp only [h1, ok_bind, pure_eq_ok]
      exact ⟨_, _, rfl⟩

theorem resolve_constant_check_method_handle_total (env : Env) {st : PoolState} {i : Nat}
    (ref_kind : Nat) (callee : Klass) (name signature m_tag : Nat)
    (ht : st.cp.tag_at i = .ok JVM_CONSTANT_MethodHandle)
    (hn : ∃ n, st.cp.method_handle_name_ref_at i = .ok n) :
    ∃ st1 out, resolve_constant_check_method_handle env st i JVM_CONSTANT_MethodHandle ref_kind
      (some callee) name signature m_tag = .ok (st1, out) := by
  unfold resolve_constant_check_method_handle
  simp only
  by_cases hcond : ((callee.is_interface && constantTag.is_method m_tag) ||
      (!callee.is_interface && constantTag.is_interface_method m_tag)) = true
  · rw [if_pos hcond]
    obtain ⟨n, hn⟩ := hn
    obtain ⟨st1, h1⟩ := @save_and_throw_exception_total env st i
      JVM_CONSTANT_MethodHandle JVM_CONSTANT_MethodHandleInError
      (Exceptions.new_exception env.java_lang_IncompatibleClassChangeError
        (some (inconsistent_method_message env i callee name signature))) rfl ht
      (exception_message_total env _ hn)
    simp only [h1, ok_bind, pure_eq_ok]
    exact ⟨_, _, rfl⟩
  · rw [if_neg hcond]
    exact resolve_constant_link_method_handle_total env ref_kind callee name signature ht hn

/-- The MethodHandle case returns when the entry can be read and the class entry of its
member is resolved or unresolved and has a resolved-klass slot, which is filled when the
entry is resolved, and a name that can be read when it is unresolved. -/
theorem resolve_constant_method_handle_total (env : Env) {st : PoolState}
    {i ref_kind callee_index name signature member m_tag ct : Nat}
    (ht : st.cp.tag_at i = .ok JVM_CONSTANT_MethodHandle)
    (hk : st.cp.method_handle_ref_kind_at i = .ok ref_kind)
    (hci : st.cp.method_handle_klass_index_at i = .ok callee_index)
    (hname : st.cp.method_handle_name_ref_at i = .ok name)
    (hsig : st.cp.method_handle_signature_ref_at i = .ok signature)
    (hmem : st.cp.method_handle_index_at i = .ok member)
    (hmt : st.cp.tag_at member = .ok m_tag)
    (hne : i ≠ callee_index) (hmne : member ≠ callee_index)
    (hct : st.cp.tag_at callee_index = .ok ct)
    (hck : ct = JVM_CONSTANT_Class ∨ ct = JVM_CONSTANT_UnresolvedClass)
    (hslot : ∃ k, st.resolved_klass_slot callee_index = .ok k)
    (hpub : ct = JVM_CONSTANT_Class → ∃ k, st.resolved_klass_slot callee_index = .ok (some k))
    (hcname : ct = JVM_CONSTANT_UnresolvedClass →
      ∃ n, st.cp.klass_name_at callee_index = .ok n) :
    ∃ st1 out, resolve_constant_method_handle env st i JVM_CONSTANT_MethodHandle =
      .ok (st1, out) := by
  obtain ⟨sta, r, hka⟩ := klass_at_impl_total env hct hck hslot hcname
  obtain ⟨-, -, htag, -, hint, hsym, -⟩ := klass_at_impl_touches hka
  have hta : sta.cp.tag_at i = .ok JVM_CONSTANT_MethodHandle := by rw [htag i hne]; exact ht
  have hna : ∃ n, sta.cp.method_handle_name_ref_at i = .ok n :=
    ⟨name, by rw [method_handle_name_ref_at_congr hint hsym hmem (htag member hmne)]; exact hname⟩
  unfold resolve_constant_method_handle
  rw [hk, hci, hname, hsig, hmem]
  simp only [ok_bind]
  rw [hmt]
  simp only [ok_bind]
  rw [hka]
  simp only [ok_bind]
  cases r with
  | error e0 =>
    obtain ⟨n, hn⟩ := hna
    obtain ⟨stb, hb⟩ := @save_and_throw_exception_total env sta i
      JVM_CONSTANT_MethodHandle JVM_CONSTANT_MethodHandleInError e0 rfl hta
      (exception_message_total env e0 hn)
    simp only [hb, ok_bind, pure_eq_ok]
    exact ⟨_, _, rfl⟩
  | ok callee_opt =>
    have hsome : ∃ callee, callee_opt = some callee := by
      rcases hck with rfl | rfl
      · obtain ⟨k, hk0⟩ := hpub rfl
        rw [klass_at_impl_class env hct, hk0] at hka
        obtain ⟨-, h6⟩ := Prod.mk.inj (Except.ok.inj hka)
        exact ⟨k, (Except.ok.inj h6).symm⟩
      · exact klass_at_impl_unresolved_some hct hka
    obtain ⟨callee, rfl⟩ := hsome
    exact resolve_constant_check_method_handle_total env ref_kind callee name signature m_tag
      hta hna

theorem resolve_constant_method_type_total (env : Env) {st : PoolState} {i signature : Nat}
    (ht : st.cp.tag_at i = .ok JVM_CONSTANT_MethodType)
    (hs : st.cp.method_type_signature_at i = .ok signature) :
    ∃ st1 out, resolve_constant_method_type env st i JVM_CONSTANT_MethodType =
      .ok (st1, out) := by
  unfold resolve_constant_method_type
  rw [hs]
  simp only [ok_bind]
  cases hfind : env.find_method_handle_type st.trace signature with
  | mk p v =>
    cases p with
    | none => exact ⟨_, _, rfl⟩
    | some e =>
      obtain ⟨st1, h1⟩ := @save_and_throw_exception_total env
        (st.log (.find_method_handle_type signature)) i
        JVM_CONSTANT_MethodType JVM_CONSTANT_MethodTypeInError e rfl ht
        (exception_message_total env e hs)
      simp only [h1, ok_bind, pure_eq_ok]
      exact ⟨_, _, rfl⟩

/-- A resolving call that is not answered from the resolved references returns when the
computation of the value returns. -/
theorem resolve_constant_at_impl_total (env : Env) {st : PoolState} {cp_index ci : Int}
    {i tag : Nat} (hu : st.Uncached cp_index ci i) (ht : st.cp.tag_at i = .ok tag)
    (hval : ∃ st2 r, resolve_constant_value env st i (st.cache_index cp_index ci) tag =
      .ok (st2, r)) :
    ∃ st3 out, resolve_constant_at_impl env st cp_index ci none = .ok (st3, out) := by
  obtain ⟨st2, r, hval⟩ := hval
  have hlen := (resolve_constant_value_advances hval).2.1
  rw [resolve_constant_at_impl_uncached env none hu, resolve_constant_at_tag_resolving env _ ht,
    hval]
  simp only [ok_bind]
  cases r with
  | error e => exact ⟨_, _, rfl⟩
  | ok v =>
    simp only
    obtain ⟨st3, v3, h3, -⟩ := @resolve_constant_publish_total st2
      (st.cache_index cp_index ci) v (by intro hc; rw [hlen]; exact uncached_in_range hu hc)
    rw [h3]
    exact ⟨_, _, rfl⟩

end ConstantPool

namespace ConstantPool

/-- A MethodHandle entry whose resolution fails with an error that is not a LinkageError
keeps its tag and its record in the error table, and a later computation of its value
calls a collaborator again: the class loader, or the linking of the method handle. -/
theorem resolve_constant_method_handle_failed {env : Env} {st st1 : PoolState} {i : Nat}
    {e : Throwable} (hwf : st.MethodHandleWF env i)
    (ht : st.cp.tag_at i = .ok JVM_CONSTANT_MethodHandle)
    (hl : env.is_linkage_error e.klass = false)
    (h : resolve_constant_method_handle env st i JVM_CONSTANT_MethodHandle =
      .ok (st1, .error e)) :
    st1.cp.tag_at i = .ok JVM_CONSTANT_MethodHandle ∧
    SystemDictionary.find_resolution_error st1.error_table i =
      SystemDictionary.find_resolution_error st.error_table i ∧
    st1.resolved_references = st.resolved_references ∧
    st1.reference_map = st.reference_map ∧
    ∃ st2 out ev rest, resolve_constant_method_handle env st1 i JVM_CONSTANT_MethodHandle =
      .ok (st2, out) ∧ st2.trace = st1.trace ++ ev :: rest := by
  obtain ⟨hicce, member, m_tag, callee_index, ct, hmem, hmt, hmk, hci, hct, hck, hslot0, hrec⟩ := hwf
  have hne : i ≠ callee_index := by
    intro h0
    subst h0
    rw [ht] at hct
    cases hct
    rcases hck with h0 | h0 | h0 <;> cases h0
  have hmne : member ≠ callee_index := by
    intro h0
    subst h0
    rw [hmt] at hct
    cases hct
    exact hmk hck
  unfold resolve_constant_method_handle at h
  obtain ⟨ref_kind, hk, h⟩ := bind_eq_ok.mp h
  obtain ⟨callee_index2, hci2, h⟩ := bind_eq_ok.mp h
  have := hci.symm.trans hci2
  cases this
  obtain ⟨name, hname, h⟩ := bind_eq_ok.mp h
  obtain ⟨signature, hsig, h⟩ := bind_eq_ok.mp h
  obtain ⟨member2, hmem2, h⟩ := bind_eq_ok.mp h
  have := hmem.symm.trans hmem2
  cases this
  obtain ⟨m_tag2, hmt2, h⟩ := bind_eq_ok.mp h
  have := hmt.symm.trans hmt2
  cases this
  obtain ⟨⟨sta, r⟩, hka, h⟩ := bind_eq_ok.mp h
  obtain ⟨hrefs, hmap, htag, htab, hint, hsym, hlen⟩ := klass_at_impl_touches hka
  have hta : sta.cp.tag_at i = .ok JVM_CONSTANT_MethodHandle := by rw [htag i hne]; exact ht
  obtain ⟨hmem_a, hci_a⟩ := method_handle_reads_congr hint i
  have hmt_a : sta.cp.tag_at member = .ok m_tag := by rw [htag member hmne]; exact hmt
  have hk_a : sta.cp.method_handle_ref_kind_at i = .ok ref_kind := by
    rw [method_handle_ref_kind_at_congr hint]; exact hk
  have hname_a : sta.cp.method_handle_name_ref_at i = .ok name := by
    rw [method_handle_name_ref_at_congr hint hsym hmem (htag member hmne)]; exact hname
  have hsig_a : sta.cp.method_handle_signature_ref_at i = .ok signature := by
    rw [method_handle_signature_ref_at_congr hint hsym hmem (htag member hmne)]; exact hsig
  cases r with
  | error e0 =>
    simp only at h
    obtain ⟨⟨stb, p⟩, hb, h⟩ := bind_eq_ok.mp h
    obtain ⟨hp, hsame⟩ := @save_and_throw_exception_pending env _ _ i
      JVM_CONSTANT_MethodHandle _ _ ⟨JVM_CONSTANT_MethodHandleInError, rfl⟩ hta hb
    subst hp
    obtain ⟨h5, h6⟩ := Prod.mk.inj (Except.ok.inj h)
    have h7 : e0 = e := Except.error.inj h6
    subst h5 h7
    have := hsame hl
    subst this
    rcases hck with hc | hc | hc
    · subst hc
      rw [klass_at_impl_class env hct] at hka
      obtain ⟨k, _, hka⟩ := bind_eq_ok.mp hka
      cases hka
    · subst hc
      obtain ⟨hcp, -, hrk, -, -⟩ := klass_at_impl_failed_same hct hl hka
      obtain ⟨cname, -, hcn, -⟩ := klass_at_impl_unresolved_trace hct hka
      have hct1 : stb.cp.tag_at callee_index = .ok JVM_CONSTANT_UnresolvedClass := by
        rw [hcp]; exact hct
      have hslot1 : ∃ k, stb.resolved_klass_slot callee_index = .ok k := by
        obtain ⟨k, hk0⟩ := hslot0
        refine ⟨k, ?_⟩
        unfold PoolState.resolved_klass_slot PoolState.resolved_klasses_at at hk0 ⊢
        rw [hcp, hrk]
        exact hk0
      obtain ⟨st2, out, h2⟩ := resolve_constant_method_handle_total env hta hk_a
        (hci_a.trans hci) hname_a hsig_a (hmem_a.trans hmem) hmt_a hne hmne hct1 (Or.inr rfl)
        hslot1 (fun h0 => absurd h0 (by decide)) (fun _ => ⟨cname, by rw [hcp]; exact hcn⟩)
      obtain ⟨ev, rest, htr⟩ := resolve_constant_method_handle_unresolved_trace
        (hci_a.trans hci) hct1 h2
      exact ⟨hta, htab i hne, hrefs, hmap, st2, out, ev, rest, h2, htr⟩
    · subst hc
      obtain ⟨entry, hfind, hout⟩ := klass_at_impl_in_error_inv hct hka
      have h8 : e0 = entry.replayed := Except.error.inj hout
      have h9 := hrec entry hfind
      rw [h8] at hl
      rw [show entry.replayed.klass = entry.error from rfl, h9] at hl
      cases hl
  | ok callee_opt =>
    simp only at h
    cases callee_opt with
    | none => cases h
    | some callee =>
      obtain ⟨hclass, hslot⟩ := klass_at_impl_returns hct hck hka
      unfold resolve_constant_check_method_handle at h
      simp only at h
      by_cases hcond : ((callee.is_interface && constantTag.is_method m_tag) ||
          (!callee.is_interface && constantTag.is_interface_method m_tag)) = true
      · exfalso
        simp only [hcond, if_true] at h
        obtain ⟨⟨stb, p⟩, hb, h⟩ := bind_eq_ok.mp h
        obtain ⟨hp, -⟩ := @save_and_throw_exception_pending env _ _ i
          JVM_CONSTANT_MethodHandle _ _ ⟨JVM_CONSTANT_MethodHandleInError, rfl⟩ hta hb
        subst hp
        obtain ⟨-, h6⟩ := Prod.mk.inj (Except.ok.inj h)
        have h7 := Except.error.inj h6
        rw [← h7] at hl
        rw [show (Exceptions.new_exception env.java_lang_IncompatibleClassChangeError
          (some (inconsistent_method_message env i callee name signature))).klass =
            env.java_lang_IncompatibleClassChangeError from rfl, hicce] at hl
        cases hl
      · have hgood : ((callee.is_interface && constantTag.is_method m_tag) ||
            (!callee.is_interface && constantTag.is_interface_method m_tag)) = false := by
          simpa using hcond
        simp only [hgood, Bool.false_eq_true, if_false] at h
        unfold resolve_constant_link_method_handle at h
        cases hlink : env.link_method_handle_constant sta.trace ref_kind callee name
            signature with
        | mk p v =>
          simp only [hlink, bind_pure_comp, pure_bind] at h
          cases p with
          | none => cases h
          | some e0 =>
            simp only at h
            obtain ⟨⟨stb, p2⟩, hb, h⟩ := bind_eq_ok.mp h
            obtain ⟨hp, hsame⟩ := @save_and_throw_exception_pending env _ _ i
              JVM_CONSTANT_MethodHandle _ _ ⟨JVM_CONSTANT_MethodHandleInError, rfl⟩
              (show (sta.log (.link_method_handle_constant ref_kind callee name
                signature)).cp.tag_at i = _ from hta) hb
            subst hp
            obtain ⟨h5, h6⟩ := Prod.mk.inj (Except.ok.inj h)
            have h7 : e0 = e := Except.error.inj h6
            subst h5 h7
            have := hsame hl
            subst this
            have hlater : ∀ stL : PoolState, stL.cp = sta.cp →
                stL.resolved_klasses = sta.resolved_klasses →
                ∃ st2 out ev rest, resolve_constant_method_handle env stL i
                  JVM_CONSTANT_MethodHandle = .ok (st2, out) ∧
                  st2.trace = stL.trace ++ ev :: rest := by
              intro stL hcpL hrkL
              have hslotL : stL.resolved_klass_slot callee_index = .ok (some callee) := by
                unfold PoolState.resolved_klass_slot PoolState.resolved_klasses_at at hslot ⊢
                rw [hcpL, hrkL]
                exact hslot
              have hciL : stL.cp.method_handle_klass_index_at i = .ok callee_index := by
                rw [hcpL]; exact hci_a.trans hci
              have hmemL : stL.cp.method_handle_index_at i = .ok member := by
                rw [hcpL]; exact hmem_a.trans hmem
              have hmtL : stL.cp.tag_at member = .ok m_tag := by rw [hcpL]; exact hmt_a
              have hctL : stL.cp.tag_at callee_index = .ok JVM_CONSTANT_Class := by
                rw [hcpL]; exact hclass
              obtain ⟨st2, out, h2⟩ := resolve_constant_method_handle_total env
                (show stL.cp.tag_at i = _ by rw [hcpL]; exact hta)
                (show stL.cp.method_handle_ref_kind_at i = _ by rw [hcpL]; exact hk_a)
                hciL (show stL.cp.method_handle_name_ref_at i = _ by rw [hcpL]; exact hname_a)
                (show stL.cp.method_handle_signature_ref_at i = _ by rw [hcpL]; exact hsig_a)
                hmemL hmtL hne hmne hctL (Or.inl rfl) ⟨some callee, hslotL⟩
                (fun _ => ⟨callee, hslotL⟩) (fun h0 => absurd h0 (by decide))
              obtain ⟨ev, rest, htr⟩ := resolve_constant_method_handle_resolved_trace
                hciL hmemL hmtL hctL hslotL hgood h2
              exact ⟨st2, out, ev, rest, h2, htr⟩
            exact ⟨hta, htab i hne, hrefs, hmap, hlater _ rfl rfl⟩

end ConstantPool

namespace ConstantPool

/-- C25: when the pending exception is not a LinkageError, `save_and_throw_exception`
leaves the state as it is, with the tag of the entry and the error table, and the same
exception stays pending.  Consequently a class entry whose resolution by
`klass_at_impl` fails with such an error, and a MethodType, Dynamic or MethodHandle
entry whose resolution by `resolve_constant_at_impl` fails with such an error, still
has its unresolved tag and no new record in the error table, and a later call returns
and has called a collaborator again: the class loader for a class entry, and the
method-type lookup, the bootstrap method, or the class loader or the linking for the
other entries.  (The class entries have a resolved-klass slot, and the name of the
Dynamic entry can be read.) -/
theorem non_linkage_error_not_recorded (env : Env) (st st1 : PoolState) (e : Throwable)
    (hl : env.is_linkage_error e.klass = false) :
    (∀ i tag error_tag, constantTag.error_value tag = .ok error_tag →
      save_and_throw_exception env st i tag e = .ok (st, some e)) ∧
    (∀ i, st.cp.tag_at i = .ok JVM_CONSTANT_UnresolvedClass →
      (∃ k, st.resolved_klass_slot i = .ok k) →
      klass_at_impl env st i = .ok (st1, .error e) →
      st1.cp.tag_at i = .ok JVM_CONSTANT_UnresolvedClass ∧
      st1.error_table = st.error_table ∧
      ∃ st2 out name rest, klass_at_impl env st1 i = .ok (st2, out) ∧
        st.cp.klass_name_at i = .ok name ∧
        st2.trace = st1.trace ++ Event.resolve_or_fail name :: rest) ∧
    (∀ cp_index cache_index i tag s1, st.Uncached cp_index cache_index i →
      st.cp.tag_at i = .ok tag →
      (tag = JVM_CONSTANT_MethodType ∨
        (tag = JVM_CONSTANT_Dynamic ∧ ∃ name, st.cp.uncached_name_ref_at i = .ok name) ∨
        (tag = JVM_CONSTANT_MethodHandle ∧ st.MethodHandleWF env i)) →
      resolve_constant_at_impl env st cp_index cache_index none = .ok (st1, .error e, s1) →
      st1.cp.tag_at i = .ok tag ∧
      SystemDictionary.find_resolution_error st1.error_table i =
        SystemDictionary.find_resolution_error st.error_table i ∧
      ∃ st2 out ev rest,
        resolve_constant_at_impl env st1 cp_index cache_index none = .ok (st2, out) ∧
        st2.trace = st1.trace ++ ev :: rest) := by
  refine ⟨?_, ?_, ?_⟩
  · intro i tag error_tag hv
    exact save_and_throw_exception_not_linkage st i hv hl
  · intro i ht hslot h
    obtain ⟨hcp, htab, hrk, -, -⟩ := klass_at_impl_failed_same ht hl h
    have ht1 : st1.cp.tag_at i = .ok JVM_CONSTANT_UnresolvedClass := by rw [hcp]; exact ht
    obtain ⟨name, -, hn, -⟩ := klass_at_impl_unresolved_trace ht h
    have hslot1 : ∃ k, st1.resolved_klass_slot i = .ok k := by
      obtain ⟨k, hk0⟩ := hslot
      refine ⟨k, ?_⟩
      unfold PoolState.resolved_klass_slot PoolState.resolved_klasses_at at hk0 ⊢
      rw [hcp, hrk]
      exact hk0
    obtain ⟨st2, out, h2⟩ := klass_at_impl_total env ht1 (Or.inr rfl) hslot1
      (fun _ => ⟨name, by rw [hcp]; exact hn⟩)
    obtain ⟨name2, rest, hn2, htr⟩ := klass_at_impl_unresolved_trace ht1 h2
    rw [hcp] at hn2
    exact ⟨ht1, htab, st2, out, name2, rest, h2, hn2, htr⟩
  · intro cp_index ci i tag s1 hu ht htag h
    rw [resolve_constant_at_impl_uncached env none hu] at h
    have hval := resolve_constant_at_tag_error ht h
    have hlater : st1.cp.tag_at i = .ok tag → st1.resolved_references = st.resolved_references →
        st1.reference_map = st.reference_map →
        (∃ st2 r ev rest, resolve_constant_value env st1 i (st1.cache_index cp_index ci) tag =
          .ok (st2, r) ∧ st2.trace = st1.trace ++ ev :: rest) →
        ∃ st2 out ev rest, resolve_constant_at_impl env st1 cp_index ci none = .ok (st2, out) ∧
          st2.trace = st1.trace ++ ev :: rest := by
      intro ht1 hr hm hstep
      obtain ⟨st2, r, ev, rest, hv2, htr2⟩ := hstep
      have hu1 := uncached_of_same hr hm hu
      obtain ⟨st3, out, h3⟩ := resolve_constant_at_impl_total env hu1 ht1 ⟨st2, r, hv2⟩
      refine ⟨st3, out, ev, rest, h3, ?_⟩
      rw [resolve_constant_at_impl_uncached env none hu1] at h3
      obtain ⟨st4, r4, h4, htr4⟩ := resolve_constant_at_tag_trace ht1 h3
      have h5 := (Prod.mk.inj (Except.ok.inj (hv2.symm.trans h4))).1
      rw [htr4, ← h5]
      exact htr2
    rcases htag with rfl | ⟨rfl, hname⟩ | ⟨rfl, hwf⟩
    · rw [resolve_constant_value_method_type] at hval
      obtain ⟨sig, hsig, hst1⟩ := resolve_constant_method_type_failed ht hl hval
      subst hst1
      refine ⟨ht, rfl, hlater ht rfl rfl ?_⟩
      obtain ⟨st2, r, h2⟩ := resolve_constant_method_type_total env
        (show (st.log (.find_method_handle_type sig)).cp.tag_at i = _ from ht)
        (show (st.log (.find_method_handle_type sig)).cp.method_type_signature_at i = _
          from hsig)
      rw [resolve_constant_value_method_type]
      obtain ⟨sig2, hsig2⟩ := resolve_constant_method_type_trace h2
      exact ⟨st2, r, _, [], h2, hsig2⟩
    · rw [resolve_constant_value_dynamic] at hval
      obtain ⟨⟨sig, hsig⟩, hst1⟩ := resolve_constant_dynamic_failed ht hl hval
      subst hst1
      obtain ⟨name, hname⟩ := hname
      refine ⟨ht, rfl, hlater ht rfl rfl ?_⟩
      obtain ⟨st2, r, h2, htr, -⟩ := resolve_constant_dynamic_total env
        (show (st.log (.invoke_bootstrap_method i)).cp.tag_at i = _ from ht)
        (show (st.log (.invoke_bootstrap_method i)).cp.uncached_signature_ref_at i = _
          from hsig)
        (show (st.log (.invoke_bootstrap_method i)).cp.uncached_name_ref_at i = _ from hname)
      rw [resolve_constant_value_dynamic]
      exact ⟨st2, r, _, [], h2, htr⟩
    · rw [resolve_constant_value_method_handle] at hval
      obtain ⟨ht1, htab, hr, hm, st2, r, ev, rest, h2, htr⟩ :=
        resolve_constant_method_handle_failed hwf ht hl hval
      refine ⟨ht1, htab, hlater ht1 hr hm ?_⟩
      rw [resolve_constant_value_method_handle]
      exact ⟨st2, r, ev, rest, h2, htr⟩

theorem non_linkage_error_not_recorded_witness :
    resolutionEnv.is_linkage_error 2001 = false ∧
    save_and_throw_exception resolutionEnv resolutionState 20 JVM_CONSTANT_UnresolvedClass
      ⟨2001, some [111, 111, 109], .self⟩ =
        .ok (resolutionState, some ⟨2001, some [111, 111, 109], .self⟩) ∧
    (∃ st1, klass_at_impl resolutionEnv resolutionState 20 =
        .ok (st1, .error ⟨2001, some [111, 111, 109], .self⟩) ∧
      st1.cp.tag_at 20 = .ok JVM_CONSTANT_UnresolvedClass ∧
      ∃ st2 out name rest, klass_at_impl resolutionEnv st1 20 = .ok (st2, out) ∧
        st2.trace = st1.trace ++ Event.resolve_or_fail name :: rest) ∧
    (∃ st1, resolutionState.Uncached 9 (-2) 9 ∧
      resolve_constant_at_impl resolutionEnv resolutionState 9 (-2) none =
        .ok (st1, .error ⟨2001, none, .self⟩, none) ∧
      st1.cp.tag_at 9 = .ok JVM_CONSTANT_MethodType ∧
      ∃ st2 out ev rest, resolve_constant_at_impl resolutionEnv st1 9 (-2) none =
          .ok (st2, out) ∧
        st2.trace = st1.trace ++ ev :: rest) := by
  refine ⟨by decide, ?_, ?_, ?_⟩
  · exact (non_linkage_error_not_recorded resolutionEnv resolutionState resolutionState
      ⟨2001, some [111, 111, 109], .self⟩ (by decide)).1 20 JVM_CONSTANT_UnresolvedClass
      JVM_CONSTANT_UnresolvedClassInError rfl
  · have hv : (klass_at_impl resolutionEnv resolutionState 20 >>= fun r =>
        (fun r2 => (r.2, true)) <$> klass_at_impl resolutionEnv r.1 20) =
        .ok (.error ⟨2001, some [111, 111, 109], .self⟩, true) := by decide
    cases h : klass_at_impl resolutionEnv resolutionState 20 with
    | error f => rw [h] at hv; cases hv
    | ok r =>
      rw [h] at hv
      obtain ⟨st1, out⟩ := r
      simp only [ok_bind] at hv
      cases h2 : klass_at_impl resolutionEnv st1 20 with
      | error f => rw [h2] at hv; cases hv
      | ok r2 =>
        rw [h2] at hv
        have hout : out = .error ⟨2001, some [111, 111, 109], .self⟩ :=
          (Prod.mk.inj (Except.ok.inj hv)).1
        subst hout
        obtain ⟨ht1, -, st2, out2, name, rest, hcall, -, htr⟩ :=
          (non_linkage_error_not_recorded resolutionEnv resolutionState st1
            ⟨2001, some [111, 111, 109], .self⟩ (by decide)).2.1 20 (by decide)
            ⟨none, by decide⟩ h
        exact ⟨st1, rfl, ht1, st2, out2, name, rest, hcall, htr⟩
  · have hv : (resolve_constant_at_impl resolutionEnv resolutionState 9 (-2) none >>= fun r =>
        (fun r2 => (r.2, true)) <$> resolve_constant_at_impl resolutionEnv r.1 9 (-2) none) =
        .ok ((.error ⟨2001, none, .self⟩, none), true) := by decide
    cases h : resolve_constant_at_impl resolutionEnv resolutionState 9 (-2) none with
    | error f => rw [h] at hv; cases hv
    | ok r =>
      rw [h] at hv
      obtain ⟨st1, out⟩ := r
      simp only [ok_bind] at hv
      cases h2 : resolve_constant_at_impl resolutionEnv st1 9 (-2) none with
      | error f => rw [h2] at hv; cases hv
      | ok r2 =>
        rw [h2] at hv
        have hout : out = (.error ⟨2001, none, .self⟩, none) :=
          (Prod.mk.inj (Except.ok.inj hv)).1
        subst hout
        obtain ⟨ht1, -, st2, out2, ev, rest, hcall, htr⟩ :=
          (non_linkage_error_not_recorded resolutionEnv resolutionState st1
            ⟨2001, none, .self⟩ (by decide)).2.2 9 (-2) 9
            JVM_CONSTANT_MethodType none (by decide) (by decide) (Or.inl rfl) h
        exact ⟨st1, by decide, rfl, ht1, st2, out2, ev, rest, hcall, htr⟩

end ConstantPool

namespace ConstantPool

/-- The pool and the resolved-klasses array of `resolutionState` are what
`initialize_unresolved_klasses` makes of the parsed pool: every class entry is unresolved
and has a null slot of its own. -/
theorem initialize_unresolved_klasses_parsedPool :
    (initialize_unresolved_klasses true parsedPool roomyLoaderData >>= fun r =>
      pure r.1.1) = .ok resolutionState.cp ∧
    (initialize_unresolved_klasses true parsedPool roomyLoaderData >>= fun r =>
      pure r.1.2) = .ok (some resolutionState.resolved_klasses) ∧
    (initialize_unresolved_klasses true parsedPool roomyLoaderData >>= fun r =>
      pure r.2) = .ok none ∧
    (initialize_unresolved_klasses false parsedPool roomyLoaderData >>= fun r =>
      pure r.1.1) = .ok resolutionState.cp ∧
    (initialize_unresolved_klasses false parsedPool roomyLoaderData >>= fun r =>
      pure r.1.2) = .ok (some resolutionState.resolved_klasses) ∧
    (initialize_unresolved_klasses false parsedPool roomyLoaderData >>= fun r =>
      pure r.2) = .ok none := by
  decide

end ConstantPool

namespace ConstantPool

/-! ## The specifier count after `copy_operands` -/

/-- After `copy_operands` into a destination that holds specifiers already,
`operand_array_length` reports the count the destination had before: the first offset,
which it is read from, is one of the offsets that are left as they were. -/
theorem copy_operands_count_kept (loader_data : ClassLoaderData)
    {from_cp to_cp : ConstantPool} {fops tops : List Nat}
    (hf : from_cp.operands = some fops) (ht : to_cp.operands = some tops)
    (hwff : OperandsWF fops) (hwft : OperandsWF tops)
    (hnf : 1 ≤ operands_count fops) (hnt : 1 ≤ operands_count tops)
    (hsz : tops.length + fops.length < 2147483648)
    (halloc : loader_data.new_array_fails ((tops.length + fops.length : Nat) : Int) =
      none) :
    (copy_operands loader_data from_cp to_cp >>= fun r => r.1.operand_array_length) =
      .ok (operands_count tops) := by
  obtain ⟨ops1, hcopy, hlen, hfirst, -, -, -⟩ :=
    copy_operands_append loader_data hf ht hwff hwft hnf hnt hsz halloc
  have hnet := wf_ne_nil hnt
  have hlen2 := (hwft.2 hnet).1
  have hoff : operands_offset ops1 0 = operands_offset tops 0 := by
    unfold operands_offset
    rw [getD_congr (hfirst 0 (by omega)), getD_congr (hfirst 1 (by omega))]
  rw [hcopy]
  simp only [ok_bind]
  rw [operand_array_length_eq (show (to_cp.set_operands ops1).operands = some ops1 from rfl)
    (by omega) (by rw [hoff]; exact wf_first_lt hwft hnet)]
  unfold operands_count
  rw [hoff]

/-- C38: `copy_operands` from a source that holds the specifier `(#9, [#5])`, one
specifier, into an empty destination leaves a table for which `operand_array_length`
reports 0 + 1 specifiers; into a destination that holds the specifier `(#7, [])` already
it leaves a table for which `operand_array_length` reports 1 specifier, not 1 + 1. -/
theorem copy_operands_count_not_added :
    oneSpecifierPool.operand_array_length = .ok 1 ∧
    (emptyPool 12).operand_array_length = .ok 0 ∧
    (copy_operands roomyLoaderData oneSpecifierPool (emptyPool 12) >>= fun r =>
      r.1.operand_array_length) = .ok 1 ∧
    demoDestOneSpecifier.operand_array_length = .ok 1 ∧
    (copy_operands roomyLoaderData oneSpecifierPool demoDestOneSpecifier >>= fun r =>
      r.1.operand_array_length) = .ok 1 ∧
    (copy_operands roomyLoaderData oneSpecifierPool demoDestOneSpecifier >>= fun r =>
      pure r.2) = .ok none := by
  decide

end ConstantPool

namespace ConstantPool

/-! ## The resolved-klass slots handed out by `initialize_unresolved_klasses` -/

theorem class_index_count_succ (cp : ConstantPool) (i : Nat) :
    class_index_count cp (i + 1) =
      class_index_count cp i +
        (if 1 ≤ i ∧ cp.tag_at i = .ok JVM_CONSTANT_ClassIndex then 1 else 0) := by
  unfold class_index_count
  rw [List.range_succ, List.filter_append, List.length_append]
  congr 1
  by_cases h : 1 ≤ i ∧ cp.tag_at i = .ok JVM_CONSTANT_ClassIndex
  · rw [if_pos h]
    simp [List.filter, h.1, h.2]
  · rw [if_neg h]
    have : (decide (1 ≤ i) && decide (cp.tag_at i = .ok JVM_CONSTANT_ClassIndex)) = false := by
      simpa using h
    simp [List.filter, this]

theorem class_index_count_mono (cp : ConstantPool) {i j : Nat} (h : i ≤ j) :
    class_index_count cp i ≤ class_index_count cp j := by
  induction j with
  | zero =>
    have : i = 0 := by omega
    subst this
    exact Nat.le_refl _
  | succ j ih =>
    by_cases hij : i = j + 1
    · subst hij; exact Nat.le_refl _
    · have := ih (by omega)
      rw [class_index_count_succ]
      omega

theorem class_index_count_lt (cp : ConstantPool) {i j : Nat} (hi : 1 ≤ i)
    (ht : cp.tag_at i = .ok JVM_CONSTANT_ClassIndex) (hij : i < j) :
    class_index_count cp i < class_index_count cp j := by
  have h1 := class_index_count_succ cp i
  rw [if_pos ⟨hi, ht⟩] at h1
  have h2 := class_index_count_mono cp (show i + 1 ≤ j by omega)
  omega

theorem class_index_count_le (cp : ConstantPool) (i : Nat) : class_index_count cp i ≤ i := by
  unfold class_index_count
  exact (List.length_filter_le _ _).trans (by rw [List.length_range])

theorem class_index_count_ge (cp : ConstantPool) {i : Nat} (h : cp.length ≤ i) :
    class_index_count cp i = class_index_count cp cp.length := by
  have h2 : ∀ k, class_index_count cp (cp.length + k) = class_index_count cp cp.length := by
    intro k
    induction k with
    | zero => rfl
    | succ k ihk =>
      rw [← Nat.add_assoc, class_index_count_succ, ihk, if_neg, Nat.add_zero]
      intro h
      have := tag_at_lt h.2
      omega
  have := h2 (i - cp.length)
  rw [show cp.length + (i - cp.length) = i by omega] at this
  exact this

/-- The loop of `initialize_unresolved_klasses` from index `i` on, entered with the count
of the ClassIndex entries before `i`: every ClassIndex entry from `i` on becomes an
UnresolvedClass entry that holds the number of ClassIndex entries before it and its
name index, and nothing else is changed. -/
theorem initialize_unresolved_klasses_from_spec (product : Bool) (cp0 : ConstantPool)
    (hprod : product = true ∨ ClassEntriesReverted cp0) :
    ∀ (fuel i : Nat) (cp : ConstantPool), cp0.length ≤ i + fuel → 1 ≤ i →
      cp.length = cp0.length → cp.operands = cp0.operands →
      (∀ j, i ≤ j → cp.slots[j]? = cp0.slots[j]?) →
      ∃ cp1, initialize_unresolved_klasses_from product cp (class_index_count cp0 i) fuel i =
          .ok (cp1, class_index_count cp0 cp0.length) ∧
        cp1.length = cp0.length ∧ cp1.operands = cp0.operands ∧
        (∀ j, j < i → cp1.slots[j]? = cp.slots[j]?) ∧
        ∀ j, i ≤ j → ∀ s, cp0.slots[j]? = some s →
          cp1.slots[j]? = some (if s.tag = JVM_CONSTANT_ClassIndex then
            ⟨JVM_CONSTANT_UnresolvedClass, s.value / 4294967296 * 4294967296 +
              build_int_from_shorts (class_index_count cp0 j) (s.value % 4294967296)⟩
            else s) := by
  intro fuel
  induction fuel with
  | zero =>
    intro i cp hfuel hi hlen hops hsame
    refine ⟨cp, ?_, hlen, hops, fun _ _ => rfl, ?_⟩
    · rw [class_index_count_ge cp0 (show cp0.length ≤ i by omega)]
      rfl
    · intro j hj s hs
      have : j < cp0.slots.length := by
        by_contra h
        rw [List.getElem?_eq_none (by omega)] at hs
        cases hs
      unfold length at hfuel
      omega
  | succ fuel ih =>
    intro i cp hfuel hi hlen hops hsame
    by_cases hlt : i < cp.length
    · have hlt0 : i < cp0.length := by rw [← hlen]; exact hlt
      obtain ⟨s, hs⟩ := slot_at_of_lt hlt
      have hs0 : cp0.slots[i]? = some s := by
        rw [← hsame i (Nat.le_refl _)]; exact slot_at_eq_ok.mp hs
      have htag0 : cp0.tag_at i = .ok s.tag := tag_at_of_slot (slot_at_eq_ok.mpr hs0)
      unfold initialize_unresolved_klasses_from
      rw [if_pos hlt, tag_at_of_slot hs]
      simp only [ok_bind]
      by_cases hci : s.tag = JVM_CONSTANT_ClassIndex
      · rw [if_pos hci]
        unfold klass_index_at unresolved_klass_at_put
        rw [int_at_addr_of_slot hs]
        simp only [ok_bind]
        rw [tagged_int_at_put_eq _ _ hlt]
        simp only [ok_bind]
        have hcount : class_index_count cp0 i + 1 = class_index_count cp0 (i + 1) := by
          rw [class_index_count_succ, if_pos ⟨hi, by rw [htag0, hci]⟩]
        rw [hcount]
        have hgetD : cp.slots.getD i ⟨0, 0⟩ = s := by
          rw [List.getD_eq_getElem?_getD, slot_at_eq_ok.mp hs]; rfl
        obtain ⟨cp1, h1, h2, h3, h4, h5⟩ := ih (i + 1)
          ⟨cp.slots.set i ⟨JVM_CONSTANT_UnresolvedClass,
            (cp.slots.getD i ⟨0, 0⟩).value / 4294967296 * 4294967296 +
              build_int_from_shorts (class_index_count cp0 i) (s.value % 4294967296) %
                4294967296⟩, cp.operands⟩
          (by omega) (by omega)
          (by show (cp.slots.set i _).length = _; rw [List.length_set]; exact hlen) hops
          (by
            intro j hj
            show (cp.slots.set i _)[j]? = _
            rw [List.getElem?_set_ne (by omega)]
            exact hsame j (by omega))
        refine ⟨cp1, h1, h2, h3, ?_, ?_⟩
        · intro j hj
          rw [h4 j (by omega)]
          show (cp.slots.set i _)[j]? = _
          rw [List.getElem?_set_ne (by omega)]
        · intro j hj s' hs'
          by_cases hji : j = i
          · subst hji
            rw [hs0] at hs'
            cases hs'
            rw [h4 j (by omega)]
            show (cp.slots.set j _)[j]? = _
            rw [List.getElem?_set_self (show j < cp.slots.length from hlt), if_pos hci, hgetD,
              Nat.mod_eq_of_lt (build_int_from_shorts_lt _ _)]
          · exact h5 j (by omega) s' hs'
      · rw [if_neg hci]
        have hnp : ¬ (product = false ∧ (s.tag = JVM_CONSTANT_Class ∨
            s.tag = JVM_CONSTANT_UnresolvedClass ∨
            s.tag = JVM_CONSTANT_UnresolvedClassInError)) := by
          rintro ⟨hp, hk⟩
          rcases hprod with h | h
          · rw [h] at hp; cases hp
          · refine h s ?_ hk
            rw [List.mem_iff_getElem?]
            refine ⟨i - 1, ?_⟩
            rw [List.getElem?_drop, show 1 + (i - 1) = i by omega]
            exact hs0
        rw [if_neg hnp]
        have hcount : class_index_count cp0 i = class_index_count cp0 (i + 1) := by
          rw [class_index_count_succ, if_neg (by rw [htag0]; simp [hci])]
          rfl
        rw [hcount]
        obtain ⟨cp1, h1, h2, h3, h4, h5⟩ := ih (i + 1) cp (by omega) (by omega) hlen hops
          (fun j hj => hsame j (by omega))
        refine ⟨cp1, h1, h2, h3, fun j hj => h4 j (by omega), ?_⟩
        intro j hj s' hs'
        by_cases hji : j = i
        · subst hji
          rw [hs0] at hs'
          cases hs'
          rw [h4 j (by omega), if_neg hci]
          exact slot_at_eq_ok.mp hs
        · exact h5 j (by omega) s' hs'
    · have hge : cp0.length ≤ i := by rw [← hlen]; omega
      unfold initialize_unresolved_klasses_from
      rw [if_neg hlt]
      have hcount := class_index_count_ge cp0 hge
      rw [hcount]
      refine ⟨cp, rfl, hlen, hops, fun _ _ => rfl, ?_⟩
      intro j hj s hs
      have : j < cp0.slots.length := by
        by_contra h
        rw [List.getElem?_eq_none (by omega)] at hs
        cases hs
      unfold length at hge
      omega

theorem class_index_count_one (cp : ConstantPool) : class_index_count cp 1 = 0 := by
  rw [class_index_count_succ, if_neg (by omega)]
  rfl

/-- Every count below the count at `n` is the count at a ClassIndex entry before `n`. -/
theorem class_index_count_onto (cp : ConstantPool) :
    ∀ n k, k < class_index_count cp n →
      ∃ i, 1 ≤ i ∧ i < n ∧ cp.tag_at i = .ok JVM_CONSTANT_ClassIndex ∧
        class_index_count cp i = k := by
  intro n
  induction n with
  | zero =>
    intro k hk
    have := class_index_count_le cp 0
    omega
  | succ n ih =>
    intro k hk
    by_cases hkn : k < class_index_count cp n
    · obtain ⟨i, h1, h2, h3, h4⟩ := ih k hkn
      exact ⟨i, h1, by omega, h3, h4⟩
    · rw [class_index_count_succ] at hk
      by_cases hc : 1 ≤ n ∧ cp.tag_at n = .ok JVM_CONSTANT_ClassIndex
      · rw [if_pos hc] at hk
        exact ⟨n, hc.1, by omega, hc.2, by omega⟩
      · rw [if_neg hc] at hk
        omega

/-- C36 (as amended): for a pool of at most 65536 slots whose ClassIndex entries hold name
indices within the pool and, in a build that is not a product build, whose class entries
are all ClassIndex entries, `initialize_unresolved_klasses` returns.  Every ClassIndex
entry has become an UnresolvedClass entry with the same name index whose slot index is
the number of ClassIndex entries before it, which is below n, the number of ClassIndex
entries; the slot indices grow strictly with the pool index, so no two entries share
one, and every index below n is handed out; the slots of every other kind of entry are
unchanged.  When the allocation of the resolved-klasses table succeeds, the table has
exactly n null slots and no exception is pending; when it fails, the pool has no table
and the exception is pending. -/
theorem initialize_unresolved_klasses_slots (product : Bool) (cp : ConstantPool)
    (loader_data : ClassLoaderData) (hlen : cp.length ≤ 65536)
    (hname : ClassIndexNamesInPool cp)
    (hprod : product = true ∨ ClassEntriesReverted cp) :
    ∃ cp1,
      (loader_data.new_array_fails ((class_index_count cp cp.length : Nat) : Int) = none →
        initialize_unresolved_klasses product cp loader_data =
          .ok ((cp1, some (List.replicate (class_index_count cp cp.length) none)), none)) ∧
      (∀ e, loader_data.new_array_fails ((class_index_count cp cp.length : Nat) : Int) =
          some e →
        initialize_unresolved_klasses product cp loader_data = .ok ((cp1, none), some e)) ∧
      cp1.length = cp.length ∧
      (∀ i, 1 ≤ i → cp.tag_at i = .ok JVM_CONSTANT_ClassIndex →
        cp1.tag_at i = .ok JVM_CONSTANT_UnresolvedClass ∧
        cp1.klass_slot_name_index i = cp.klass_index_at i ∧
        cp1.klass_slot_resolved_klass_index i = .ok (class_index_count cp i) ∧
        class_index_count cp i < class_index_count cp cp.length) ∧
      (∀ i j, 1 ≤ i → i < j → cp.tag_at i = .ok JVM_CONSTANT_ClassIndex →
        cp.tag_at j = .ok JVM_CONSTANT_ClassIndex →
        class_index_count cp i < class_index_count cp j) ∧
      (∀ k, k < class_index_count cp cp.length →
        ∃ i, 1 ≤ i ∧ cp.tag_at i = .ok JVM_CONSTANT_ClassIndex ∧
          cp1.klass_slot_resolved_klass_index i = .ok k) ∧
      (∀ i, i = 0 ∨ cp.tag_at i ≠ .ok JVM_CONSTANT_ClassIndex → cp1.slot_at i = cp.slot_at i) := by
  obtain ⟨cp1, h1, h2, -, h4, h5⟩ :=
    initialize_unresolved_klasses_from_spec product cp hprod cp.length 1 cp (by omega)
      (Nat.le_refl _) rfl rfl (fun _ _ => rfl)
  rw [class_index_count_one] at h1
  have hentry : ∀ i, 1 ≤ i → cp.tag_at i = .ok JVM_CONSTANT_ClassIndex →
      cp1.tag_at i = .ok JVM_CONSTANT_UnresolvedClass ∧
      cp1.klass_slot_name_index i = cp.klass_index_at i ∧
      cp1.klass_slot_resolved_klass_index i = .ok (class_index_count cp i) ∧
      class_index_count cp i < class_index_count cp cp.length := by
    intro i hi ht
    have hlt := tag_at_lt ht
    obtain ⟨s, hs⟩ := slot_at_of_lt hlt
    have hst : s.tag = JVM_CONSTANT_ClassIndex := by
      have := tag_at_of_slot hs
      rw [ht] at this
      exact (Except.ok.inj this).symm
    have hs1 := h5 i hi s (slot_at_eq_ok.mp hs)
    rw [if_pos hst] at hs1
    have hs1 := slot_at_eq_ok.mpr hs1
    obtain ⟨name, hn, hk⟩ := hname i (List.mem_range.mpr hlt) ht
    have hn := List.mem_range.mp hn
    have hkv : s.value % 4294967296 = name := by
      have h := hk
      unfold klass_index_at at h
      rw [int_at_addr_of_slot hs] at h
      cases h
      rfl
    have hc := class_index_count_le cp i
    have hb := build_int_from_shorts_lt (class_index_count cp i) (s.value % 4294967296)
    refine ⟨tag_at_of_slot hs1, ?_, ?_, class_index_count_lt cp hi ht hlt⟩
    · unfold klass_slot_name_index klass_index_at
      rw [int_at_addr_of_slot hs1, int_at_addr_of_slot hs]
      show Except.ok _ = Except.ok _
      congr 1
      show extract_high_short_from_int _ = _
      rw [hkv] at hb ⊢
      dsimp only
      unfold extract_high_short_from_int build_int_from_shorts at *
      omega
    · unfold klass_slot_resolved_klass_index
      rw [int_at_addr_of_slot hs1]
      show Except.ok _ = Except.ok _
      congr 1
      show extract_low_short_from_int _ = _
      dsimp only
      unfold extract_low_short_from_int build_int_from_shorts at *
      omega
  refine ⟨cp1, ?_, ?_, h2, hentry, ?_, ?_, ?_⟩
  · intro halloc
    unfold initialize_unresolved_klasses allocate_resolved_klasses
    rw [h1]
    simp only [ok_bind]
    rw [new_array_eq none halloc]
    rfl
  · intro e hfail
    unfold initialize_unresolved_klasses allocate_resolved_klasses
    rw [h1]
    simp only [ok_bind]
    rw [new_array_fails none hfail]
    rfl
  · intro i j hi hij hti _
    exact class_index_count_lt cp hi hti hij
  · intro k hk
    obtain ⟨i, hi, -, ht, hc⟩ := class_index_count_onto cp cp.length k hk
    exact ⟨i, hi, ht, hc ▸ (hentry i hi ht).2.2.1⟩
  · intro i hi
    by_cases hlt : i < cp.length
    · obtain ⟨s, hs⟩ := slot_at_of_lt hlt
      rw [hs]
      apply slot_at_eq_ok.mpr
      rcases Nat.eq_zero_or_pos i with h0 | hpos
      · subst h0
        rw [h4 0 (by omega)]
        exact slot_at_eq_ok.mp hs
      · have hne : s.tag ≠ JVM_CONSTANT_ClassIndex := by
          intro hst
          rcases hi with h0 | hi
          · omega
          · apply hi
            rw [tag_at_of_slot hs, hst]
        have := h5 i hpos s (slot_at_eq_ok.mp hs)
        rw [if_neg hne] at this
        exact this
    · have e1 : cp1.slots[i]? = none := List.getElem?_eq_none (by
        have : cp1.slots.length = cp.length := h2
        omega)
      have e2 : cp.slots[i]? = none := List.getElem?_eq_none (by unfold length at hlt; omega)
      unfold slot_at
      rw [e1, e2]

/-- The parsed pool `parsedPool` has 21 slots, its three ClassIndex entries name slots of
the pool and it has no other class entries, so in either build and with room in the
metaspace its class entries get the slots 0, 1 and 2 of a table of three. -/
theorem initialize_unresolved_klasses_slots_witness :
    parsedPool.length ≤ 65536 ∧ ClassIndexNamesInPool parsedPool ∧
    ClassEntriesReverted parsedPool ∧
    class_index_count parsedPool parsedPool.length = 3 ∧
    ∃ cp1, initialize_unresolved_klasses false parsedPool roomyLoaderData =
        .ok ((cp1, some [none, none, none]), none) ∧
      cp1.length = parsedPool.length ∧
      (∀ i, 1 ≤ i → parsedPool.tag_at i = .ok JVM_CONSTANT_ClassIndex →
        cp1.tag_at i = .ok JVM_CONSTANT_UnresolvedClass ∧
        cp1.klass_slot_name_index i = parsedPool.klass_index_at i ∧
        cp1.klass_slot_resolved_klass_index i = .ok (class_index_count parsedPool i) ∧
        class_index_count parsedPool i < class_index_count parsedPool parsedPool.length) ∧
      (∀ i j, 1 ≤ i → i < j → parsedPool.tag_at i = .ok JVM_CONSTANT_ClassIndex →
        parsedPool.tag_at j = .ok JVM_CONSTANT_ClassIndex →
        class_index_count parsedPool i < class_index_count parsedPool j) ∧
      (∀ k, k < class_index_count parsedPool parsedPool.length →
        ∃ i, 1 ≤ i ∧ parsedPool.tag_at i = .ok JVM_CONSTANT_ClassIndex ∧
          cp1.klass_slot_resolved_klass_index i = .ok k) ∧
      (∀ i, i = 0 ∨ parsedPool.tag_at i ≠ .ok JVM_CONSTANT_ClassIndex →
        cp1.slot_at i = parsedPool.slot_at i) := by
  obtain ⟨cp1, hok, -, hrest⟩ := initialize_unresolved_klasses_slots false parsedPool
    roomyLoaderData (by decide) (by decide) (Or.inr (by decide))
  exact ⟨by decide, by decide, by decide, by decide, cp1, hok rfl, hrest⟩

/-- C36, as stated, fails: the three ClassIndex entries of `parsedPool` name slots of the
pool, and in an exhausted metaspace `initialize_unresolved_klasses` returns, in either
build, with the exception of the failed allocation pending and no resolved-klasses
table.  And in a build that is not a product build the call on `demoPoolResolved`,
whose entry 2 is tagged Class, reaches `ShouldNotReachHere()`. -/
theorem initialize_unresolved_klasses_allocation_fails :
    ClassIndexNamesInPool parsedPool ∧
    class_index_count parsedPool parsedPool.length = 3 ∧
    (initialize_unresolved_klasses true parsedPool exhaustedLoaderData >>=
      fun r => pure r.1.2) = .ok none ∧
    (initialize_unresolved_klasses true parsedPool exhaustedLoaderData >>=
      fun r => pure r.2) = .ok (some ⟨2004, none, .self⟩) ∧
    (initialize_unresolved_klasses false parsedPool exhaustedLoaderData >>=
      fun r => pure r.1.2) = .ok none ∧
    (initialize_unresolved_klasses false parsedPool exhaustedLoaderData >>=
      fun r => pure r.2) = .ok (some ⟨2004, none, .self⟩) ∧
    demoPoolResolved.tag_at 2 = .ok JVM_CONSTANT_Class ∧
    (initialize_unresolved_klasses false demoPoolResolved roomyLoaderData >>=
      fun r => pure r.2) = .error .should_not_reach_here := by
  decide

end ConstantPool

namespace ArchivedPool

open ConstantPool (ok_bind pure_eq_ok bind_eq_ok map_ok isOk_iff slot_at_eq_ok slot_at_of_lt
  tag_at_of_slot tag_at_lt tag_at_put_eq int_at_addr_of_slot)

/-! ## Archiving: `remove_unshareable_entries` -/

theorem getD_of_slot {cp : ConstantPool} {i : Nat} {s : CPSlot} (hs : cp.slot_at i = .ok s) :
    cp.slots.getD i ⟨0, 0⟩ = s := by
  rw [List.getD_eq_getElem?_getD, slot_at_eq_ok.mp hs]
  rfl

/-- An entry in error gets the tag of the entry it was before the error. -/
theorem remove_unshareable_entry_in_error (env : ArchiveEnv) {p : ArchivedPool} {i : Nat}
    {s : CPSlot} (hs : p.cp.slot_at i = .ok s)
    (h : s.tag = JVM_CONSTANT_UnresolvedClassInError ∨ s.tag = JVM_CONSTANT_MethodHandleInError ∨
      s.tag = JVM_CONSTANT_MethodTypeInError ∨ s.tag = JVM_CONSTANT_DynamicInError) :
    p.remove_unshareable_entry env i =
      .ok { p with cp := ⟨p.cp.slots.set i ⟨archived_tag env p i s.tag, s.value⟩,
        p.cp.operands⟩ } := by
  have hlt := tag_at_lt (tag_at_of_slot hs)
  unfold remove_unshareable_entry archived_tag
  rw [tag_at_of_slot hs]
  simp only [ok_bind]
  rcases h with h | h | h | h <;> rw [h] <;>
    simp only [tag_at_put_eq _ hlt, getD_of_slot hs, ok_bind, pure_eq_ok,
      JVM_CONSTANT_UnresolvedClass, JVM_CONSTANT_UnresolvedClassInError,
      JVM_CONSTANT_MethodHandleInError, JVM_CONSTANT_MethodTypeInError,
      JVM_CONSTANT_DynamicInError, JVM_CONSTANT_Class, JVM_CONSTANT_MethodHandle,
      JVM_CONSTANT_MethodType, JVM_CONSTANT_Dynamic] <;> rfl

/-- An entry that is neither in error nor tagged Class is left as it is. -/
theorem remove_unshareable_entry_other (env : ArchiveEnv) {p : ArchivedPool} {i : Nat}
    {s : CPSlot} (hs : p.cp.slot_at i = .ok s)
    (h1 : s.tag ≠ JVM_CONSTANT_UnresolvedClassInError)
    (h2 : s.tag ≠ JVM_CONSTANT_MethodHandleInError)
    (h3 : s.tag ≠ JVM_CONSTANT_MethodTypeInError)
    (h4 : s.tag ≠ JVM_CONSTANT_DynamicInError) (h5 : s.tag ≠ JVM_CONSTANT_Class) :
    p.remove_unshareable_entry env i = .ok p ∧ archived_tag env p i s.tag = s.tag := by
  constructor
  · unfold remove_unshareable_entry
    rw [tag_at_of_slot hs]
    simp only [ok_bind]
    by_cases h0 : s.tag = JVM_CONSTANT_UnresolvedClass
    · rw [if_pos h0]; rfl
    · rw [if_neg h0, if_neg h1, if_neg h2, if_neg h3, if_neg h4, if_neg h5]; rfl
  · unfold archived_tag
    rw [if_neg h1, if_neg h2, if_neg h3, if_neg h4, if_neg h5]

theorem archived_tag_class (env : ArchiveEnv) (p : ArchivedPool) (i : Nat) :
    archived_tag env p i JVM_CONSTANT_Class =
      if p.keeps_klass env i then JVM_CONSTANT_Class else JVM_CONSTANT_UnresolvedClass := by
  unfold archived_tag
  rw [if_neg (by decide), if_neg (by decide), if_neg (by decide), if_neg (by decide),
    if_pos rfl]

/-- A class entry whose slot holds `v`: the entry is left as it is when `v` is a class and
the resolution is deterministic, and is unresolved with a null slot otherwise. -/
theorem remove_unshareable_entry_class (env : ArchiveEnv) {p : ArchivedPool} {i k : Nat}
    {s : CPSlot} {v : Option Klass} (hs : p.cp.slot_at i = .ok s)
    (ht : s.tag = JVM_CONSTANT_Class)
    (hk : p.cp.klass_slot_resolved_klass_index i = .ok k)
    (hv : p.resolved_klasses[k]? = some v) :
    p.remove_unshareable_entry env i =
      .ok (if (v.isSome && env.is_resolution_deterministic i) = true then p
        else { p with
          cp := ⟨p.cp.slots.set i ⟨JVM_CONSTANT_UnresolvedClass, s.value⟩, p.cp.operands⟩,
          resolved_klasses := p.resolved_klasses.set k none }) := by
  have hlt := tag_at_lt (tag_at_of_slot hs)
  have hklt : k < p.resolved_klasses.length := by
    by_contra h
    rw [List.getElem?_eq_none (by omega)] at hv
    cases hv
  unfold remove_unshareable_entry
  rw [tag_at_of_slot hs, ht]
  simp only [ok_bind]
  rw [if_neg (by decide), if_neg (by decide), if_neg (by decide), if_neg (by decide),
    if_neg (by decide)]
  simp only [if_true]
  unfold remove_resolved_klass_if_non_deterministic resolved_klass_at
  rw [tag_at_of_slot hs, ht]
  simp only [ok_bind]
  rw [if_neg (by decide), hk]
  simp only [ok_bind]
  rw [hv]
  simp only [ok_bind]
  cases v with
  | none =>
    simp only [Option.isSome_none, Bool.false_and, Bool.false_eq_true, if_false, Bool.not_false,
      if_true, tag_at_put_eq _ hlt, getD_of_slot hs, ok_bind, klasses_at_put, hklt, pure_eq_ok]
  | some kl =>
    by_cases hc : env.is_resolution_deterministic i = true
    · simp only [hc, Option.isSome_some, Bool.and_self, if_true, Bool.not_true,
        Bool.false_eq_true, if_false, pure_eq_ok]
    · have hc2 := Bool.eq_false_iff.mpr hc
      simp only [hc2, Option.isSome_some, Bool.and_false, Bool.false_eq_true, if_false,
        Bool.not_false, if_true, tag_at_put_eq _ hlt, getD_of_slot hs, ok_bind, klasses_at_put,
        hklt, pure_eq_ok]

theorem klass_slot_index_of_slot {cp : ConstantPool} {i : Nat} {s : CPSlot}
    (hs : cp.slot_at i = .ok s) :
    cp.klass_slot_resolved_klass_index i =
      .ok (extract_low_short_from_int (s.value % 4294967296)) := by
  unfold ConstantPool.klass_slot_resolved_klass_index
  rw [int_at_addr_of_slot hs]
  rfl

theorem keeps_klass_eq (env : ArchiveEnv) {p : ArchivedPool} {i k : Nat} {v : Option Klass}
    (hk : p.cp.klass_slot_resolved_klass_index i = .ok k)
    (hv : p.resolved_klasses[k]? = some v) :
    p.keeps_klass env i = (v.isSome && env.is_resolution_deterministic i) := by
  unfold keeps_klass resolved_klass_slot
  rw [hk]
  simp only [ok_bind]
  rw [hv]
  cases v <;> simp

/-- One turn of the loop of `remove_unshareable_entries`. -/
theorem remove_unshareable_entry_step (env : ArchiveEnv) {p0 p : ArchivedPool} {i : Nat}
    (hin : ClassSlotsInTable p0) (hd : ConstantPool.ClassSlotsDistinct p0.cp)
    (hi : 1 ≤ i) (hlt : i < p0.cp.length) (inv : ArchivedUpTo env p0 i p) :
    ∃ p1, p.remove_unshareable_entry env i = .ok p1 ∧ ArchivedUpTo env p0 (i + 1) p1 := by
  obtain ⟨s, hs0⟩ := slot_at_of_lt hlt
  have hs0q := slot_at_eq_ok.mp hs0
  have hsq : p.cp.slots[i]? = some s := by rw [inv.rest i (Or.inr (Nat.le_refl _))]; exact hs0q
  have hs := slot_at_eq_ok.mpr hsq
  have hilt : i < p.cp.slots.length := by rw [inv.slots_length]; exact hlt
  by_cases hc : s.tag = JVM_CONSTANT_Class
  · -- a class entry
    have ht0 : p0.cp.tag_at i = .ok JVM_CONSTANT_Class := by rw [tag_at_of_slot hs0, hc]
    obtain ⟨v, hv0⟩ := isOk_iff.mp (hin i (List.mem_range.mpr hlt) ht0)
    have hk0 := klass_slot_index_of_slot hs0
    have hk := klass_slot_index_of_slot hs
    generalize extract_low_short_from_int (s.value % 4294967296) = k at hk0 hk
    have hv0k : p0.resolved_klasses[k]? = some v := by
      unfold resolved_klass_slot at hv0
      rw [hk0] at hv0
      simp only [ok_bind] at hv0
      cases h : p0.resolved_klasses[k]? with
      | none => rw [h] at hv0; cases hv0
      | some w => rw [h] at hv0; cases hv0; rfl
    have hfresh : ∀ j, 1 ≤ j → j < i → p0.cp.tag_at j = .ok JVM_CONSTANT_Class →
        p0.cp.klass_slot_resolved_klass_index j = .ok k → False := by
      intro j _ hji htj hkj
      have := hd j (List.mem_range.mpr (tag_at_lt htj)) i (List.mem_range.mpr hlt) htj ht0
        (by rw [hkj, hk0])
      omega
    have hvk : p.resolved_klasses[k]? = some v := by
      rw [inv.kept k (fun j h1 h2 h3 h4 => (hfresh j h1 h2 h3 h4).elim)]
      exact hv0k
    have hkeep := keeps_klass_eq env hk0 hv0k
    have hklt : k < p.resolved_klasses.length := by
      by_contra h
      rw [List.getElem?_eq_none (by omega)] at hvk
      cases hvk
    rw [remove_unshareable_entry_class env hs hc hk hvk]
    by_cases hb : (v.isSome && env.is_resolution_deterministic i) = true
    · rw [if_pos hb]
      refine ⟨p, rfl, inv.frame, inv.operands, inv.slots_length, inv.klasses_length, ?_, ?_,
        ?_, ?_⟩
      · intro j hj
        exact inv.rest j (by omega)
      · intro j s' h1 h2 hs'
        by_cases hji : j = i
        · subst hji
          rw [hs0q] at hs'
          cases hs'
          rw [hsq, hc, archived_tag_class, hkeep, hb, if_pos rfl, ← hc]
        · exact inv.done j s' h1 (by omega) hs'
      · intro j k' h1 h2 h3 h4 h5
        by_cases hji : j = i
        · subst hji
          rw [hkeep, hb] at h5
          cases h5
        · exact inv.nulled j k' h1 (by omega) h3 h4 h5
      · intro k' hall
        exact inv.kept k' (fun j h1 h2 h3 h4 => hall j h1 (by omega) h3 h4)
    · rw [if_neg hb]
      have hb2 := Bool.eq_false_iff.mpr hb
      refine ⟨_, rfl, ?_, inv.operands, ?_, ?_, ?_, ?_, ?_, ?_⟩
      · show _ = ArchivedPool.mk _ _ _ _ _ _ _ _ _ _
        rw [inv.frame]
      · show (p.cp.slots.set i _).length = _
        rw [List.length_set]
        exact inv.slots_length
      · show (p.resolved_klasses.set k _).length = _
        rw [List.length_set]
        exact inv.klasses_length
      · intro j hj
        show (p.cp.slots.set i _)[j]? = _
        rw [List.getElem?_set_ne (by omega)]
        exact inv.rest j (by omega)
      · intro j s' h1 h2 hs'
        show (p.cp.slots.set i _)[j]? = _
        by_cases hji : j = i
        · subst hji
          rw [hs0q] at hs'
          cases hs'
          rw [List.getElem?_set_self hilt, hc, archived_tag_class, hkeep, hb2,
            if_neg (by decide)]
        · rw [List.getElem?_set_ne (by omega)]
          exact inv.done j s' h1 (by omega) hs'
      · intro j k' h1 h2 h3 h4 h5
        show (p.resolved_klasses.set k _)[k']? = _
        by_cases hkk : k' = k
        · subst hkk
          rw [List.getElem?_set_self hklt]
        · rw [List.getElem?_set_ne (by omega)]
          by_cases hji : j = i
          · subst hji
            rw [hk0] at h4
            cases h4
            exact (hkk rfl).elim
          · exact inv.nulled j k' h1 (by omega) h3 h4 h5
      · intro k' hall
        show (p.resolved_klasses.set k _)[k']? = _
        by_cases hkk : k' = k
        · subst hkk
          have := hall i hi (by omega) ht0 hk0
          rw [hkeep, hb2] at this
          cases this
        · rw [List.getElem?_set_ne (by omega)]
          exact inv.kept k' (fun j h1 h2 h3 h4 => hall j h1 (by omega) h3 h4)
  · -- an entry of another kind: only its tag may change
    have hnull : ∀ (j k' : Nat), 1 ≤ j → j < i + 1 →
        p0.cp.tag_at j = .ok JVM_CONSTANT_Class →
        p0.cp.klass_slot_resolved_klass_index j = .ok k' → keeps_klass env p0 j = false →
        p.resolved_klasses[k']? = some none := by
      intro j k' h1 h2 h3 h4 h5
      by_cases hji : j = i
      · subst hji
        rw [tag_at_of_slot hs0] at h3
        exact (hc (Except.ok.inj h3)).elim
      · exact inv.nulled j k' h1 (by omega) h3 h4 h5
    have hkept : ∀ k', (∀ j, 1 ≤ j → j < i + 1 → p0.cp.tag_at j = .ok JVM_CONSTANT_Class →
        p0.cp.klass_slot_resolved_klass_index j = .ok k' → keeps_klass env p0 j = true) →
        p.resolved_klasses[k']? = p0.resolved_klasses[k']? := by
      intro k' hall
      exact inv.kept k' (fun j h1 h2 h3 h4 => hall j h1 (by omega) h3 h4)
    by_cases he : s.tag = JVM_CONSTANT_UnresolvedClassInError ∨
        s.tag = JVM_CONSTANT_MethodHandleInError ∨
        s.tag = JVM_CONSTANT_MethodTypeInError ∨ s.tag = JVM_CONSTANT_DynamicInError
    · rw [remove_unshareable_entry_in_error env hs he]
      have htag : archived_tag env p i s.tag = archived_tag env p0 i s.tag := by
        unfold archived_tag
        rw [if_neg hc, if_neg hc]
      refine ⟨_, rfl, ?_, inv.operands, ?_, inv.klasses_length, ?_, ?_, hnull, hkept⟩
      · show _ = ArchivedPool.mk _ _ _ _ _ _ _ _ _ _
        rw [inv.frame]
      · show (p.cp.slots.set i _).length = _
        rw [List.length_set]
        exact inv.slots_length
      · intro j hj
        show (p.cp.slots.set i _)[j]? = _
        rw [List.getElem?_set_ne (by omega)]
        exact inv.rest j (by omega)
      · intro j s' h1 h2 hs'
        show (p.cp.slots.set i _)[j]? = _
        by_cases hji : j = i
        · subst hji
          rw [hs0q] at hs'
          cases hs'
          rw [List.getElem?_set_self hilt, htag]
        · rw [List.getElem?_set_ne (by omega)]
          exact inv.done j s' h1 (by omega) hs'
    · have h1 : s.tag ≠ JVM_CONSTANT_UnresolvedClassInError := fun h => he (Or.inl h)
      have h2 : s.tag ≠ JVM_CONSTANT_MethodHandleInError := fun h => he (Or.inr (Or.inl h))
      have h3 : s.tag ≠ JVM_CONSTANT_MethodTypeInError :=
        fun h => he (Or.inr (Or.inr (Or.inl h)))
      have h4 : s.tag ≠ JVM_CONSTANT_DynamicInError :=
        fun h => he (Or.inr (Or.inr (Or.inr h)))
      rw [(remove_unshareable_entry_other env hs h1 h2 h3 h4 hc).1]
      have htag : archived_tag env p0 i s.tag = s.tag := by
        unfold archived_tag
        rw [if_neg h1, if_neg h2, if_neg h3, if_neg h4, if_neg hc]
      refine ⟨p, rfl, inv.frame, inv.operands, inv.slots_length, inv.klasses_length, ?_, ?_,
        hnull, hkept⟩
      · intro j hj
        exact inv.rest j (by omega)
      · intro j s' h1 h2 hs'
        by_cases hji : j = i
        · subst hji
          rw [hs0q] at hs'
          cases hs'
          rw [hsq, htag]
        · exact inv.done j s' h1 (by omega) hs'

/-- The loop of `remove_unshareable_entries` returns, and archives the entries it visits. -/
theorem remove_unshareable_entries_from_spec (env : ArchiveEnv) {p0 : ArchivedPool}
    (hin : ClassSlotsInTable p0) (hd : ConstantPool.ClassSlotsDistinct p0.cp) :
    ∀ (n i : Nat) (p : ArchivedPool), 1 ≤ i → n = 0 ∨ i + n ≤ p0.cp.length →
      ArchivedUpTo env p0 i p →
      ∃ p1, remove_unshareable_entries_from env n i p = .ok p1 ∧
        ArchivedUpTo env p0 (i + n) p1 := by
  intro n
  induction n with
  | zero =>
    intro i p _ _ inv
    exact ⟨p, rfl, inv⟩
  | succ n ih =>
    intro i p hi hle inv
    obtain ⟨p1, h1, inv1⟩ := remove_unshareable_entry_step env hin hd hi (by omega) inv
    obtain ⟨p2, h2, inv2⟩ := ih (i + 1) p1 (by omega) (by omega) inv1
    refine ⟨p2, ?_, ?_⟩
    · unfold remove_unshareable_entries_from
      rw [h1]
      exact h2
    · rw [show i + (n + 1) = i + 1 + n by omega]
      exact inv2

/-- One turn of the loop of `remove_unshareable_entries`, for the tags alone. -/
theorem remove_unshareable_entry_tags (env : ArchiveEnv) {p0 p : ArchivedPool} {i : Nat}
    (hin : ClassSlotsInTable p0) (hi : 1 ≤ i) (hlt : i < p0.cp.length)
    (inv : TagsArchivedUpTo env p0 i p) :
    ∃ p1, p.remove_unshareable_entry env i = .ok p1 ∧ TagsArchivedUpTo env p0 (i + 1) p1 := by
  obtain ⟨s, hs0⟩ := slot_at_of_lt hlt
  have hs0q := slot_at_eq_ok.mp hs0
  have hsq : p.cp.slots[i]? = some s := by rw [inv.rest i (Or.inr (Nat.le_refl _))]; exact hs0q
  have hs := slot_at_eq_ok.mpr hsq
  have hilt : i < p.cp.slots.length := by rw [inv.slots_length]; exact hlt
  have hset : ∀ (t : Nat) (ks : List (Option Klass)),
      ks.length = p0.resolved_klasses.length →
      (s.tag ≠ JVM_CONSTANT_Class → t = archived_tag env p0 i s.tag) →
      (s.tag = JVM_CONSTANT_Class → t = JVM_CONSTANT_UnresolvedClass) →
      TagsArchivedUpTo env p0 (i + 1)
        { p with cp := ⟨p.cp.slots.set i ⟨t, s.value⟩, p.cp.operands⟩,
                 resolved_klasses := ks } := by
    intro t ks hks h1 h2
    refine ⟨?_, hks, ?_, ?_, ?_⟩
    · show (p.cp.slots.set i _).length = _
      rw [List.length_set]
      exact inv.slots_length
    · intro j hj
      show (p.cp.slots.set i _)[j]? = _
      rw [List.getElem?_set_ne (by omega)]
      exact inv.rest j (by omega)
    · intro j s' hj1 hj2 hs' hne
      show (p.cp.slots.set i _)[j]? = _
      by_cases hji : j = i
      · subst hji
        rw [hs0q] at hs'
        cases hs'
        rw [List.getElem?_set_self hilt, h1 hne]
      · rw [List.getElem?_set_ne (by omega)]
        exact inv.done j s' hj1 (by omega) hs' hne
    · intro j s' hj1 hj2 hs' he
      show (p.cp.slots.set i _)[j]? = _ ∨ (p.cp.slots.set i _)[j]? = _
      by_cases hji : j = i
      · subst hji
        rw [hs0q] at hs'
        cases hs'
        rw [List.getElem?_set_self hilt, h2 he]
        exact Or.inr rfl
      · rw [List.getElem?_set_ne (by omega)]
        exact inv.classes j s' hj1 (by omega) hs' he
  have hsame : (s.tag ≠ JVM_CONSTANT_Class → s.tag = archived_tag env p0 i s.tag) →
      TagsArchivedUpTo env p0 (i + 1) p := by
    intro h1
    refine ⟨inv.slots_length, inv.klasses_length, ?_, ?_, ?_⟩
    · intro j hj
      exact inv.rest j (by omega)
    · intro j s' hj1 hj2 hs' hne
      by_cases hji : j = i
      · subst hji
        rw [hs0q] at hs'
        cases hs'
        rw [hsq, ← h1 hne]
      · exact inv.done j s' hj1 (by omega) hs' hne
    · intro j s' hj1 hj2 hs' he
      by_cases hji : j = i
      · subst hji
        rw [hs0q] at hs'
        cases hs'
        exact Or.inl hsq
      · exact inv.classes j s' hj1 (by omega) hs' he
  by_cases hc : s.tag = JVM_CONSTANT_Class
  · have ht0 : p0.cp.tag_at i = .ok JVM_CONSTANT_Class := by rw [tag_at_of_slot hs0, hc]
    obtain ⟨v, hv0⟩ := isOk_iff.mp (hin i (List.mem_range.mpr hlt) ht0)
    have hk0 := klass_slot_index_of_slot hs0
    have hk := klass_slot_index_of_slot hs
    generalize extract_low_short_from_int (s.value % 4294967296) = k at hk0 hk
    have hklt : k < p.resolved_klasses.length := by
      rw [inv.klasses_length]
      unfold resolved_klass_slot at hv0
      rw [hk0] at hv0
      simp only [ok_bind] at hv0
      by_contra h
      rw [List.getElem?_eq_none (by omega)] at hv0
      cases hv0
    rw [remove_unshareable_entry_class env hs hc hk (List.getElem?_eq_getElem hklt)]
    by_cases hb : ((p.resolved_klasses[k]).isSome && env.is_resolution_deterministic i) = true
    · rw [if_pos hb]
      exact ⟨p, rfl, hsame (fun h => (h hc).elim)⟩
    · rw [if_neg hb]
      exact ⟨_, rfl, hset _ _ (by rw [List.length_set]; exact inv.klasses_length)
        (fun h => (h hc).elim) (fun _ => rfl)⟩
  · by_cases he : s.tag = JVM_CONSTANT_UnresolvedClassInError ∨
        s.tag = JVM_CONSTANT_MethodHandleInError ∨
        s.tag = JVM_CONSTANT_MethodTypeInError ∨ s.tag = JVM_CONSTANT_DynamicInError
    · rw [remove_unshareable_entry_in_error env hs he]
      have htag : archived_tag env p i s.tag = archived_tag env p0 i s.tag := by
        unfold archived_tag
        rw [if_neg hc, if_neg hc]
      exact ⟨_, rfl, hset _ _ inv.klasses_length (fun _ => htag) (fun h => (hc h).elim)⟩
    · have h1 : s.tag ≠ JVM_CONSTANT_UnresolvedClassInError := fun h => he (Or.inl h)
      have h2 : s.tag ≠ JVM_CONSTANT_MethodHandleInError := fun h => he (Or.inr (Or.inl h))
      have h3 : s.tag ≠ JVM_CONSTANT_MethodTypeInError :=
        fun h => he (Or.inr (Or.inr (Or.inl h)))
      have h4 : s.tag ≠ JVM_CONSTANT_DynamicInError :=
        fun h => he (Or.inr (Or.inr (Or.inr h)))
      rw [(remove_unshareable_entry_other env hs h1 h2 h3 h4 hc).1]
      have htag : archived_tag env p0 i s.tag = s.tag := by
        unfold archived_tag
        rw [if_neg h1, if_neg h2, if_neg h3, if_neg h4, if_neg hc]
      exact ⟨p, rfl, hsame (fun _ => htag.symm)⟩

/-- The loop of `remove_unshareable_entries` returns, and archives the tags of the entries
it visits. -/
theorem remove_unshareable_entries_from_tags (env : ArchiveEnv) {p0 : ArchivedPool}
    (hin : ClassSlotsInTable p0) :
    ∀ (n i : Nat) (p : ArchivedPool), 1 ≤ i → n = 0 ∨ i + n ≤ p0.cp.length →
      TagsArchivedUpTo env p0 i p →
      ∃ p1, remove_unshareable_entries_from env n i p = .ok p1 ∧
        TagsArchivedUpTo env p0 (i + n) p1 := by
  intro n
  induction n with
  | zero =>
    intro i p _ _ inv
    exact ⟨p, rfl, inv⟩
  | succ n ih =>
    intro i p hi hle inv
    obtain ⟨p1, h1, inv1⟩ := remove_unshareable_entry_tags env hin hi (by omega) inv
    obtain ⟨p2, h2, inv2⟩ := ih (i + 1) p1 (by omega) (by omega) inv1
    refine ⟨p2, ?_, ?_⟩
    · unfold remove_unshareable_entries_from
      rw [h1]
      exact h2
    · rw [show i + (n + 1) = i + 1 + n by omega]
      exact inv2

/-- The pool and the resolved klasses that `remove_unshareable_entries` returns are those
the loop leaves. -/
theorem remove_unshareable_entries_eq {env : ArchiveEnv} {p q : ArchivedPool}
    (h : remove_unshareable_entries_from env (p.cp.length - 1) 1 p = .ok q) :
    ∃ p1, p.remove_unshareable_entries env = .ok p1 ∧ p1.cp = q.cp ∧
      p1.resolved_klasses = q.resolved_klasses := by
  unfold remove_unshareable_entries
  rw [h]
  simp only [ok_bind]
  cases hc : q.cache with
  | none => exact ⟨q, rfl, rfl, rfl⟩
  | some c => exact ⟨_, rfl, rfl, rfl⟩

end ArchivedPool

namespace ArchivedPool

open ConstantPool (ok_bind pure_eq_ok bind_eq_ok map_ok isOk_iff slot_at_eq_ok slot_at_of_lt
  tag_at_of_slot tag_at_lt tag_at_put_eq int_at_addr_of_slot)

/-- C33: for a pool whose entries tagged Class name slots of the resolved-klasses table,
`remove_unshareable_entries` returns a pool of the same length in which no entry (index 1
and up) has an in-error tag: every UnresolvedClassInError, MethodHandleInError,
MethodTypeInError and DynamicInError entry has the tag UnresolvedClass, MethodHandle,
MethodType and Dynamic with the payload it had, and every entry that was neither in error
nor tagged Class has the tag and the payload it had. -/
theorem remove_unshareable_entries_reverts_errors (env : ArchiveEnv) (p : ArchivedPool)
    (hin : ClassSlotsInTable p) :
    ∃ p1, p.remove_unshareable_entries env = .ok p1 ∧
      p1.cp.length = p.cp.length ∧
      (∀ i t, 1 ≤ i → p1.cp.tag_at i = .ok t →
        t ≠ JVM_CONSTANT_UnresolvedClassInError ∧ t ≠ JVM_CONSTANT_MethodHandleInError ∧
        t ≠ JVM_CONSTANT_MethodTypeInError ∧ t ≠ JVM_CONSTANT_DynamicInError) ∧
      (∀ i s, 1 ≤ i → p.cp.slot_at i = .ok s →
        (s.tag = JVM_CONSTANT_UnresolvedClassInError →
          p1.cp.slot_at i = .ok ⟨JVM_CONSTANT_UnresolvedClass, s.value⟩) ∧
        (s.tag = JVM_CONSTANT_MethodHandleInError →
          p1.cp.slot_at i = .ok ⟨JVM_CONSTANT_MethodHandle, s.value⟩) ∧
        (s.tag = JVM_CONSTANT_MethodTypeInError →
          p1.cp.slot_at i = .ok ⟨JVM_CONSTANT_MethodType, s.value⟩) ∧
        (s.tag = JVM_CONSTANT_DynamicInError →
          p1.cp.slot_at i = .ok ⟨JVM_CONSTANT_Dynamic, s.value⟩) ∧
        (s.tag ≠ JVM_CONSTANT_UnresolvedClassInError →
          s.tag ≠ JVM_CONSTANT_MethodHandleInError → s.tag ≠ JVM_CONSTANT_MethodTypeInError →
          s.tag ≠ JVM_CONSTANT_DynamicInError → s.tag ≠ JVM_CONSTANT_Class →
          p1.cp.slot_at i = .ok s)) := by
  obtain ⟨q, hq, inv⟩ := remove_unshareable_entries_from_tags env hin (p.cp.length - 1) 1 p
    (Nat.le_refl _) (by omega)
    ⟨rfl, rfl, fun _ _ => rfl, fun j s h1 h2 => by omega, fun j s h1 h2 => by omega⟩
  obtain ⟨p1, hp1, hcp, -⟩ := remove_unshareable_entries_eq hq
  have hdone : ∀ i s, 1 ≤ i → p.cp.slot_at i = .ok s → s.tag ≠ JVM_CONSTANT_Class →
      p1.cp.slot_at i = .ok ⟨archived_tag env p i s.tag, s.value⟩ := by
    intro i s hi hs hne
    have hlt := tag_at_lt (tag_at_of_slot hs)
    rw [hcp]
    exact slot_at_eq_ok.mpr (inv.done i s hi (by omega) (slot_at_eq_ok.mp hs) hne)
  refine ⟨p1, hp1, ?_, ?_, ?_⟩
  · rw [hcp]
    exact inv.slots_length
  · intro i t hi ht
    have hlt1 := tag_at_lt ht
    have hlt : i < p.cp.length := by
      have : p1.cp.length = p.cp.length := by rw [hcp]; exact inv.slots_length
      omega
    obtain ⟨s, hs⟩ := slot_at_of_lt hlt
    by_cases hc : s.tag = JVM_CONSTANT_Class
    · rcases inv.classes i s hi (by omega) (slot_at_eq_ok.mp hs) hc with h | h
      · have := tag_at_of_slot (slot_at_eq_ok.mpr (hcp ▸ h))
        rw [ht, hc] at this
        have ht2 : t = JVM_CONSTANT_Class := Except.ok.inj this
        rw [ht2]
        decide
      · have := tag_at_of_slot (slot_at_eq_ok.mpr (hcp ▸ h))
        rw [ht] at this
        have ht2 : t = JVM_CONSTANT_UnresolvedClass := Except.ok.inj this
        rw [ht2]
        decide
    · have := tag_at_of_slot (hdone i s hi hs hc)
      rw [ht] at this
      have ht2 : t = archived_tag env p i s.tag := Except.ok.inj this
      rw [ht2]
      unfold archived_tag
      rw [if_neg hc]
      by_cases h1 : s.tag = JVM_CONSTANT_UnresolvedClassInError
      · rw [if_pos h1]; decide
      · rw [if_neg h1]
        by_cases h2 : s.tag = JVM_CONSTANT_MethodHandleInError
        · rw [if_pos h2]; decide
        · rw [if_neg h2]
          by_cases h3 : s.tag = JVM_CONSTANT_MethodTypeInError
          · rw [if_pos h3]; decide
          · rw [if_neg h3]
            by_cases h4 : s.tag = JVM_CONSTANT_DynamicInError
            · rw [if_pos h4]; decide
            · rw [if_neg h4]
              exact ⟨h1, h2, h3, h4⟩
  · intro i s hi hs
    refine ⟨?_, ?_, ?_, ?_, ?_⟩
    · intro h
      rw [hdone i s hi hs (by rw [h]; decide), h]
      rfl
    · intro h
      rw [hdone i s hi hs (by rw [h]; decide), h]
      rfl
    · intro h
      rw [hdone i s hi hs (by rw [h]; decide), h]
      rfl
    · intro h
      rw [hdone i s hi hs (by rw [h]; decide), h]
      rfl
    · intro h1 h2 h3 h4 h5
      rw [hdone i s hi hs h5]
      unfold archived_tag
      rw [if_neg h1, if_neg h2, if_neg h3, if_neg h4, if_neg h5]

/-- The entries of `archivePool` tagged Class name slots of its table of three, so
`remove_unshareable_entries` leaves no in-error tag in it. -/
theorem remove_unshareable_entries_reverts_errors_witness :
    ClassSlotsInTable archivePool ∧
    ∃ p1, archivePool.remove_unshareable_entries archiveEnv = .ok p1 ∧
      p1.cp.length = archivePool.cp.length ∧
      (∀ i t, 1 ≤ i → p1.cp.tag_at i = .ok t →
        t ≠ JVM_CONSTANT_UnresolvedClassInError ∧ t ≠ JVM_CONSTANT_MethodHandleInError ∧
        t ≠ JVM_CONSTANT_MethodTypeInError ∧ t ≠ JVM_CONSTANT_DynamicInError) ∧
      (∀ i s, 1 ≤ i → archivePool.cp.slot_at i = .ok s →
        (s.tag = JVM_CONSTANT_UnresolvedClassInError →
          p1.cp.slot_at i = .ok ⟨JVM_CONSTANT_UnresolvedClass, s.value⟩) ∧
        (s.tag = JVM_CONSTANT_MethodHandleInError →
          p1.cp.slot_at i = .ok ⟨JVM_CONSTANT_MethodHandle, s.value⟩) ∧
        (s.tag = JVM_CONSTANT_MethodTypeInError →
          p1.cp.slot_at i = .ok ⟨JVM_CONSTANT_MethodType, s.value⟩) ∧
        (s.tag = JVM_CONSTANT_DynamicInError →
          p1.cp.slot_at i = .ok ⟨JVM_CONSTANT_Dynamic, s.value⟩) ∧
        (s.tag ≠ JVM_CONSTANT_UnresolvedClassInError →
          s.tag ≠ JVM_CONSTANT_MethodHandleInError → s.tag ≠ JVM_CONSTANT_MethodTypeInError →
          s.tag ≠ JVM_CONSTANT_DynamicInError → s.tag ≠ JVM_CONSTANT_Class →
          p1.cp.slot_at i = .ok s)) :=
  ⟨by decide, remove_unshareable_entries_reverts_errors archiveEnv archivePool (by decide)⟩

/-- What `remove_unshareable_entries` makes of `archivePool`: the four entries in error
are reverted, the class entry #2 keeps its class, and the class entry #7, whose
resolution is not deterministic, is unresolved with a null slot. -/
theorem remove_unshareable_entries_archivePool :
    archivePool.remove_unshareable_entries archiveEnv =
      .ok { archivePool with
        cp := ⟨[⟨0, 0⟩, ⟨1, 1000⟩, ⟨7, 65536⟩, ⟨1, 1001⟩, ⟨1, 1002⟩, ⟨12, 262147⟩,
          ⟨10, 327682⟩, ⟨100, 196609⟩, ⟨15, 393221⟩, ⟨16, 4⟩, ⟨1, 1004⟩, ⟨12, 655363⟩,
          ⟨17, 720896⟩, ⟨1, 1005⟩, ⟨12, 851971⟩, ⟨17, 917504⟩, ⟨8, 1001⟩, ⟨11, 327682⟩,
          ⟨15, 1114121⟩, ⟨1, 1003⟩, ⟨100, 1245186⟩], some [2, 0, 8, 0]⟩,
        resolved_klasses := [some fooKlass, none, none],
        cache := some ⟨none, none⟩ } := by
  decide

/-- C34: for a pool whose entries tagged Class name slots of their own of the
resolved-klasses table, `remove_unshareable_entries` returns, and for every entry tagged
Class before (index 1 and up) whose slot held `k`: if `k` is null or the resolution of the
entry is not deterministic, the entry is tagged UnresolvedClass afterwards and its slot is
null; otherwise it is still tagged Class and its slot holds `k`.  Every entry tagged Class
afterwards has a slot that is not null. -/
theorem remove_unshareable_entries_class_entries (env : ArchiveEnv) (p : ArchivedPool)
    (hin : ClassSlotsInTable p) (hd : ConstantPool.ClassSlotsDistinct p.cp) :
    ∃ p1, p.remove_unshareable_entries env = .ok p1 ∧
      (∀ i k, 1 ≤ i → p.cp.tag_at i = .ok JVM_CONSTANT_Class → p.resolved_klass_at i = .ok k →
        ((k = none ∨ env.is_resolution_deterministic i = false) →
          p1.cp.tag_at i = .ok JVM_CONSTANT_UnresolvedClass ∧
          p1.resolved_klass_slot i = .ok none) ∧
        (k ≠ none → env.is_resolution_deterministic i = true →
          p1.cp.tag_at i = .ok JVM_CONSTANT_Class ∧ p1.resolved_klass_at i = .ok k)) ∧
      (∀ i, 1 ≤ i → p1.cp.tag_at i = .ok JVM_CONSTANT_Class →
        ∃ k, p1.resolved_klass_at i = .ok (some k)) := by
  obtain ⟨q, hq, inv⟩ := remove_unshareable_entries_from_spec env hin hd (p.cp.length - 1) 1 p
    (Nat.le_refl _) (by omega)
    ⟨rfl, rfl, rfl, rfl, fun _ _ => rfl, fun j s h1 h2 => by omega,
      fun j k h1 h2 => by omega, fun _ _ => rfl⟩
  obtain ⟨p1, hp1, hcp, hrk⟩ := remove_unshareable_entries_eq hq
  -- what the loop has done to a class entry
  have hclass : ∀ i s, 1 ≤ i → p.cp.slot_at i = .ok s → s.tag = JVM_CONSTANT_Class →
      ∃ k v, p.cp.klass_slot_resolved_klass_index i = .ok k ∧
        p1.cp.klass_slot_resolved_klass_index i = .ok k ∧
        p.resolved_klasses[k]? = some v ∧
        p.keeps_klass env i = (v.isSome && env.is_resolution_deterministic i) ∧
        p1.cp.slot_at i = .ok ⟨archived_tag env p i JVM_CONSTANT_Class, s.value⟩ ∧
        (p.keeps_klass env i = false → p1.resolved_klasses[k]? = some none) ∧
        (p.keeps_klass env i = true → p1.resolved_klasses[k]? = some v) := by
    intro i s hi hs hc
    have hlt := tag_at_lt (tag_at_of_slot hs)
    have ht0 : p.cp.tag_at i = .ok JVM_CONSTANT_Class := by rw [tag_at_of_slot hs, hc]
    obtain ⟨v, hv0⟩ := isOk_iff.mp (hin i (List.mem_range.mpr hlt) ht0)
    have hk0 := klass_slot_index_of_slot hs
    have hs1 : p1.cp.slot_at i = .ok ⟨archived_tag env p i JVM_CONSTANT_Class, s.value⟩ := by
      rw [hcp, ← hc]
      exact slot_at_eq_ok.mpr (inv.done i s hi (by omega) (slot_at_eq_ok.mp hs))
    have hk1 := klass_slot_index_of_slot hs1
    have hk1 : p1.cp.klass_slot_resolved_klass_index i =
        .ok (extract_low_short_from_int (s.value % 4294967296)) := hk1
    generalize extract_low_short_from_int (s.value % 4294967296) = k at hk0 hk1
    have hv0k : p.resolved_klasses[k]? = some v := by
      unfold resolved_klass_slot at hv0
      rw [hk0] at hv0
      simp only [ok_bind] at hv0
      cases h : p.resolved_klasses[k]? with
      | none => rw [h] at hv0; cases hv0
      | some w => rw [h] at hv0; cases hv0; rfl
    refine ⟨k, v, hk0, hk1, hv0k, keeps_klass_eq env hk0 hv0k, hs1, ?_, ?_⟩
    · intro hkeep
      rw [hrk]
      exact inv.nulled i k hi (by omega) ht0 hk0 hkeep
    · intro hkeep
      rw [hrk, inv.kept k, hv0k]
      intro j hj1 _ htj hkj
      have hji := hd j (List.mem_range.mpr (tag_at_lt htj)) i (List.mem_range.mpr hlt) htj ht0
        (by rw [hkj, hk0])
      rw [hji]
      exact hkeep
  refine ⟨p1, hp1, ?_, ?_⟩
  · intro i kl hi ht hkl
    have hlt := tag_at_lt ht
    obtain ⟨s, hs⟩ := slot_at_of_lt hlt
    have hc : s.tag = JVM_CONSTANT_Class := by
      have := tag_at_of_slot hs
      rw [ht] at this
      exact (Except.ok.inj this).symm
    obtain ⟨k, v, hk0, hk1, hv, hkeep, hs1, hnull, hsame⟩ := hclass i s hi hs hc
    have hvk : v = kl := by
      unfold resolved_klass_at at hkl
      rw [ht] at hkl
      simp only [ok_bind] at hkl
      rw [if_neg (by decide), hk0] at hkl
      simp only [ok_bind] at hkl
      rw [hv] at hkl
      exact Except.ok.inj hkl
    subst hvk
    rw [archived_tag_class] at hs1
    constructor
    · intro hcase
      have hk : p.keeps_klass env i = false := by
        rw [hkeep]
        rcases hcase with h | h
        · rw [h]; rfl
        · rw [h, Bool.and_false]
      rw [hk, if_neg (by decide)] at hs1
      refine ⟨tag_at_of_slot hs1, ?_⟩
      unfold resolved_klass_slot
      rw [hk1]
      simp only [ok_bind]
      rw [hnull hk]
    · intro hne hdet
      have hk : p.keeps_klass env i = true := by
        rw [hkeep, hdet, Bool.and_true]
        cases v with
        | none => exact (hne rfl).elim
        | some _ => rfl
      rw [hk, if_pos rfl] at hs1
      refine ⟨tag_at_of_slot hs1, ?_⟩
      unfold resolved_klass_at
      rw [tag_at_of_slot hs1]
      simp only [ok_bind]
      rw [if_neg (by decide), hk1]
      simp only [ok_bind]
      rw [hsame hk]
  · intro i hi ht1
    have hlt1 := tag_at_lt ht1
    have hlt : i < p.cp.length := by
      have : p1.cp.length = p.cp.length := by rw [hcp]; exact inv.slots_length
      omega
    obtain ⟨s, hs⟩ := slot_at_of_lt hlt
    have hs1 : p1.cp.slot_at i = .ok ⟨archived_tag env p i s.tag, s.value⟩ := by
      rw [hcp]
      exact slot_at_eq_ok.mpr (inv.done i s hi (by omega) (slot_at_eq_ok.mp hs))
    have hat : archived_tag env p i s.tag = JVM_CONSTANT_Class := by
      have := tag_at_of_slot hs1
      rw [ht1] at this
      exact (Except.ok.inj this).symm
    have hc : s.tag = JVM_CONSTANT_Class ∧ p.keeps_klass env i = true := by
      unfold archived_tag at hat
      by_cases h1 : s.tag = JVM_CONSTANT_UnresolvedClassInError
      · rw [if_pos h1] at hat; cases hat
      · rw [if_neg h1] at hat
        by_cases h2 : s.tag = JVM_CONSTANT_MethodHandleInError
        · rw [if_pos h2] at hat; cases hat
        · rw [if_neg h2] at hat
          by_cases h3 : s.tag = JVM_CONSTANT_MethodTypeInError
          · rw [if_pos h3] at hat; cases hat
          · rw [if_neg h3] at hat
            by_cases h4 : s.tag = JVM_CONSTANT_DynamicInError
            · rw [if_pos h4] at hat; cases hat
            · rw [if_neg h4] at hat
              by_cases h5 : s.tag = JVM_CONSTANT_Class
              · rw [if_pos h5] at hat
                by_cases h6 : p.keeps_klass env i = true
                · exact ⟨h5, h6⟩
                · rw [if_neg h6] at hat; cases hat
              · rw [if_neg h5] at hat
                exact (h5 hat).elim
    obtain ⟨k, v, hk0, hk1, hv, hkeep, -, -, hsame⟩ := hclass i s hi hs hc.1
    have hv2 := hc.2
    rw [hkeep] at hv2
    cases v with
    | none => cases hv2
    | some kl =>
      refine ⟨kl, ?_⟩
      unfold resolved_klass_at
      rw [ht1]
      simp only [ok_bind]
      rw [if_neg (by decide), hk1]
      simp only [ok_bind]
      rw [hsame hc.2]

/-- The entries of `archivePool` tagged Class, #2 and #7, have the slots 0 and 1 of its
table of three. -/
theorem remove_unshareable_entries_class_entries_witness :
    ClassSlotsInTable archivePool ∧ ConstantPool.ClassSlotsDistinct archivePool.cp ∧
    ∃ p1, archivePool.remove_unshareable_entries archiveEnv = .ok p1 ∧
      (∀ i k, 1 ≤ i → archivePool.cp.tag_at i = .ok JVM_CONSTANT_Class →
        archivePool.resolved_klass_at i = .ok k →
        ((k = none ∨ archiveEnv.is_resolution_deterministic i = false) →
          p1.cp.tag_at i = .ok JVM_CONSTANT_UnresolvedClass ∧
          p1.resolved_klass_slot i = .ok none) ∧
        (k ≠ none → archiveEnv.is_resolution_deterministic i = true →
          p1.cp.tag_at i = .ok JVM_CONSTANT_Class ∧ p1.resolved_klass_at i = .ok k)) ∧
      (∀ i, 1 ≤ i → p1.cp.tag_at i = .ok JVM_CONSTANT_Class →
        ∃ k, p1.resolved_klass_at i = .ok (some k)) :=
  ⟨by decide, by decide,
    remove_unshareable_entries_class_entries archiveEnv archivePool (by decide) (by decide)⟩

end ArchivedPool

namespace ArchivedPool

open ConstantPool (ok_bind pure_eq_ok bind_eq_ok map_ok isOk_iff)

/-! ## Restoring: `restore_unshareable_info` -/

/-- A call on a pool that has its resolved references changes nothing. -/
theorem restore_unshareable_info_present (env : ArchiveEnv) {p : ArchivedPool}
    {c : ConstantPoolCache} {refs : List Oop} (hc : p.cache = some c)
    (hr : c.resolved_references = some refs) :
    p.restore_unshareable_info env = .ok (p, none) := by
  unfold restore_unshareable_info
  rw [hc]
  simp only [hr]
  by_cases h1 : (!p.holder_is_linked && !p.holder_is_rewritten) = true
  · rw [if_pos h1]; rfl
  · rw [if_neg h1]
    by_cases h2 : p.is_for_method_handle_intrinsic = true
    · rw [if_pos h2]; rfl
    · rw [if_neg h2]
      simp

/-- The scratch references are made for a pool that has its resolved references; nothing
else of the pool changes. -/
theorem restore_scratch_references_spec (env : ArchiveEnv) {p : ArchivedPool}
    {c : ConstantPoolCache} (hc : p.cache = some c) :
    ∃ p1 e, p.restore_scratch_references env = .ok (p1, e) ∧ p1.cache = p.cache ∧
      (c.resolved_references = none → p1 = p) := by
  unfold restore_scratch_references resolved_references
  rw [hc]
  by_cases h1 : env.is_dumping_final_static_archive = true ∧ env.is_dumping_heap = true
  · rw [if_pos h1]
    simp only [ok_bind]
    cases hr : c.resolved_references with
    | none => exact ⟨p, none, rfl, hc, fun _ => rfl⟩
    | some a =>
      unfold oopFactory.new_objArray
      simp only [if_neg (show ¬ ((a.length : Int) < 0) by omega)]
      cases hf : env.new_objArray_fails a.length with
      | none => exact ⟨_, none, rfl, rfl, fun h => by cases h⟩
      | some e => exact ⟨p, some e, rfl, hc, fun h => by cases h⟩
  · rw [if_neg h1]
    exact ⟨p, none, rfl, hc, fun _ => rfl⟩

/-- A call returns, and either changes nothing or leaves a pool with resolved
references. -/
theorem restore_unshareable_info_total (env : ArchiveEnv) (p : ArchivedPool)
    (hcache : (p.holder_is_linked = true ∨ p.holder_is_rewritten = true) →
      p.is_for_method_handle_intrinsic = false → p.cache ≠ none) :
    ∃ p1 e, p.restore_unshareable_info env = .ok (p1, e) ∧
      (p1 = p ∨ ∃ c refs, p1.cache = some c ∧ c.resolved_references = some refs) := by
  unfold restore_unshareable_info
  by_cases h1 : (!p.holder_is_linked && !p.holder_is_rewritten) = true
  · rw [if_pos h1]; exact ⟨p, none, rfl, Or.inl rfl⟩
  · rw [if_neg h1]
    by_cases h2 : p.is_for_method_handle_intrinsic = true
    · rw [if_pos h2]; exact ⟨p, none, rfl, Or.inl rfl⟩
    · rw [if_neg h2]
      have hl : p.holder_is_linked = true ∨ p.holder_is_rewritten = true := by
        cases h : p.holder_is_linked
        · cases h' : p.holder_is_rewritten
          · rw [h, h'] at h1; exact (h1 rfl).elim
          · exact Or.inr rfl
        · exact Or.inl rfl
      have hnew : ∀ (cc : ConstantPoolCache),
          ({ p with cache := some cc } : ArchivedPool).cache = some cc := fun _ => rfl
      cases hc : p.cache with
      | none => exact (hcache hl (Bool.eq_false_iff.mpr h2) hc).elim
      | some c =>
        simp only
        cases hr : c.resolved_references with
        | some refs =>
          rw [if_pos (by simp)]
          exact ⟨p, none, rfl, Or.inl rfl⟩
        | none =>
          rw [if_neg (by simp)]
          unfold restore_resolved_references
          by_cases h3 : env.Object_klass_loaded = true
          · rw [if_pos h3]
            by_cases h4 : env.is_in_use = true ∧ c.archived_references ≠ none
            · rw [if_pos h4]
              simp only [ok_bind, pure_eq_ok]
              obtain ⟨a, ha⟩ := Option.ne_none_iff_exists'.mp h4.2
              obtain ⟨p1, e, h5, h6, -⟩ := restore_scratch_references_spec env
                (hnew ⟨c.archived_references, none⟩)
              exact ⟨p1, e, h5, Or.inr ⟨_, a, h6, ha⟩⟩
            · rw [if_neg h4]
              by_cases h5 : p.resolved_reference_length > 0
              · simp only [if_pos h5]
                unfold oopFactory.new_objArray
                simp only [if_neg (show ¬ (p.resolved_reference_length < 0) by omega)]
                cases hf : env.new_objArray_fails p.resolved_reference_length with
                | some e => exact ⟨p, some e, rfl, Or.inl rfl⟩
                | none =>
                  simp only [ok_bind, pure_eq_ok]
                  obtain ⟨p1, e, h5, h6, -⟩ := restore_scratch_references_spec env
                    (hnew ⟨some (List.replicate p.resolved_reference_length.toNat Oop.null),
                      c.archived_references⟩)
                  exact ⟨p1, e, h5, Or.inr ⟨_, _, h6, rfl⟩⟩
              · simp only [if_neg h5, ok_bind, pure_eq_ok]
                obtain ⟨p1, e, h5, -, h7⟩ := restore_scratch_references_spec env hc
                exact ⟨p1, e, h5, Or.inl (h7 hr)⟩
          · rw [if_neg h3]
            simp only [ok_bind, pure_eq_ok]
            obtain ⟨p1, e, h5, -, h7⟩ := restore_scratch_references_spec env hc
            exact ⟨p1, e, h5, Or.inl (h7 hr)⟩

/-- The table that a call makes anew. -/
theorem restore_unshareable_info_new_table (env : ArchiveEnv) {p : ArchivedPool}
    {c : ConstantPoolCache}
    (hl : p.holder_is_linked = true ∨ p.holder_is_rewritten = true)
    (hi : p.is_for_method_handle_intrinsic = false) (ho : env.Object_klass_loaded = true)
    (hc : p.cache = some c) (hr : c.resolved_references = none)
    (ha : ¬ (env.is_in_use = true ∧ c.archived_references ≠ none))
    (hn : 0 < p.resolved_reference_length)
    (hf : env.new_objArray_fails p.resolved_reference_length = none) :
    ∃ p1 e, p.restore_unshareable_info env = .ok (p1, e) ∧
      p1.resolved_references =
        .ok (some (List.replicate p.resolved_reference_length.toNat Oop.null)) := by
  have hnew : ∀ (cc : ConstantPoolCache),
      ({ p with cache := some cc } : ArchivedPool).cache = some cc := fun _ => rfl
  unfold restore_unshareable_info
  have h1 : ¬ (!p.holder_is_linked && !p.holder_is_rewritten) = true := by
    rcases hl with h | h <;> rw [h] <;> simp
  rw [if_neg h1, if_neg (by rw [hi]; decide), hc]
  simp only
  rw [if_neg (by simp [hr])]
  unfold restore_resolved_references
  rw [if_pos ho, if_neg ha]
  simp only [if_pos hn]
  unfold oopFactory.new_objArray
  simp only [if_neg (show ¬ (p.resolved_reference_length < 0) by omega), hf, ok_bind,
    pure_eq_ok]
  obtain ⟨p1, e, h5, h6, -⟩ := restore_scratch_references_spec env
    (hnew ⟨some (List.replicate p.resolved_reference_length.toNat Oop.null),
      c.archived_references⟩)
  refine ⟨p1, e, h5, ?_⟩
  unfold resolved_references
  rw [h6]

/-- C35, as it fails: the pool `sharedPool` has no resolved references, the recorded
length 6 and no archived references, and still a call creates no table when the Object
klass is not loaded yet, when the allocation fails (the exception is left pending), when
the holder is neither linked nor rewritten, and when the pool is the pool of a
method-handle intrinsic. -/
theorem restore_unshareable_info_creates_no_table :
    sharedPool.resolved_references = .ok none ∧
    sharedPool.cache = some ⟨none, none⟩ ∧
    sharedPool.resolved_reference_length = 6 ∧
    earlyBootEnv.is_in_use = false ∧
    sharedPool.restore_unshareable_info earlyBootEnv = .ok (sharedPool, none) ∧
    fullHeapEnv.is_in_use = false ∧
    sharedPool.restore_unshareable_info fullHeapEnv =
      .ok (sharedPool, some ⟨2004, none, .self⟩) ∧
    archiveEnv.is_in_use = false ∧
    unlinkedPool.resolved_reference_length = 6 ∧
    unlinkedPool.resolved_references = .ok none ∧
    unlinkedPool.restore_unshareable_info archiveEnv = .ok (unlinkedPool, none) ∧
    intrinsicPool.resolved_reference_length = 6 ∧
    intrinsicPool.cache = none ∧
    intrinsicPool.restore_unshareable_info archiveEnv = .ok (intrinsicPool, none) := by
  decide

/-- C35, amended: for a pool that has a cache unless its holder is neither linked nor
rewritten or it is the pool of a method-handle intrinsic, `restore_unshareable_info`
returns, and a second call in a row returns with the state the first has left; when the
resolved references exist the call changes nothing and leaves no exception; and when the
holder is linked or rewritten, the pool is not the pool of a method-handle intrinsic, the
Object klass is loaded, the pool has no resolved references, no archived references are
available, the recorded length n is positive and the allocation does not fail, the first
call leaves resolved references of exactly n slots, all null. -/
theorem restore_unshareable_info_idempotent (env : ArchiveEnv) (p : ArchivedPool)
    (hcache : (p.holder_is_linked = true ∨ p.holder_is_rewritten = true) →
      p.is_for_method_handle_intrinsic = false → p.cache ≠ none) :
    ∃ p1 e1 e2, p.restore_unshareable_info env = .ok (p1, e1) ∧
      p1.restore_unshareable_info env = .ok (p1, e2) ∧
      (∀ c refs, p.cache = some c → c.resolved_references = some refs →
        p1 = p ∧ e1 = none) ∧
      ((p.holder_is_linked = true ∨ p.holder_is_rewritten = true) →
        p.is_for_method_handle_intrinsic = false → env.Object_klass_loaded = true →
        ∀ c, p.cache = some c → c.resolved_references = none →
        ¬ (env.is_in_use = true ∧ c.archived_references ≠ none) →
        0 < p.resolved_reference_length →
        env.new_objArray_fails p.resolved_reference_length = none →
        p1.resolved_references =
          .ok (some (List.replicate p.resolved_reference_length.toNat Oop.null))) := by
  obtain ⟨p1, e1, h1, h2⟩ := restore_unshareable_info_total env p hcache
  have hsecond : ∃ e2, p1.restore_unshareable_info env = .ok (p1, e2) := by
    rcases h2 with h | ⟨c, refs, hc, hr⟩
    · rw [h]
      rw [h] at h1
      exact ⟨e1, h1⟩
    · exact ⟨none, restore_unshareable_info_present env hc hr⟩
  obtain ⟨e2, h3⟩ := hsecond
  refine ⟨p1, e1, e2, h1, h3, ?_, ?_⟩
  · intro c refs hc hr
    have := restore_unshareable_info_present env hc hr
    rw [h1] at this
    cases this
    exact ⟨rfl, rfl⟩
  · intro hl hi ho c hc hr ha hn hf
    obtain ⟨p2, e, h4, h5⟩ := restore_unshareable_info_new_table env hl hi ho hc hr ha hn hf
    rw [h1] at h4
    cases h4
    exact h5

/-- The pool `sharedPool` has a cache; with the collaborators `archiveEnv` a call makes
its table of six null slots and a second call changes nothing. -/
theorem restore_unshareable_info_idempotent_witness :
    ((sharedPool.holder_is_linked = true ∨ sharedPool.holder_is_rewritten = true) →
      sharedPool.is_for_method_handle_intrinsic = false → sharedPool.cache ≠ none) ∧
    ∃ p1 e1 e2, sharedPool.restore_unshareable_info archiveEnv = .ok (p1, e1) ∧
      p1.restore_unshareable_info archiveEnv = .ok (p1, e2) ∧
      (∀ c refs, sharedPool.cache = some c → c.resolved_references = some refs →
        p1 = sharedPool ∧ e1 = none) ∧
      ((sharedPool.holder_is_linked = true ∨ sharedPool.holder_is_rewritten = true) →
        sharedPool.is_for_method_handle_intrinsic = false →
        archiveEnv.Object_klass_loaded = true →
        ∀ c, sharedPool.cache = some c → c.resolved_references = none →
        ¬ (archiveEnv.is_in_use = true ∧ c.archived_references ≠ none) →
        0 < sharedPool.resolved_reference_length →
        archiveEnv.new_objArray_fails sharedPool.resolved_reference_length = none →
        p1.resolved_references =
          .ok (some (List.replicate sharedPool.resolved_reference_length.toNat Oop.null))) :=
  ⟨by decide, restore_unshareable_info_idempotent archiveEnv sharedPool (by decide)⟩

/-- What the first and the second call make of `sharedPool`. -/
theorem restore_unshareable_info_sharedPool :
    sharedPool.restore_unshareable_info archiveEnv =
      .ok ({ sharedPool with
        cache := some ⟨some [.null, .null, .null, .null, .null, .null], none⟩ }, none) ∧
    ({ sharedPool with cache := some ⟨some [.null, .null, .null, .null, .null, .null],
        none⟩ } : ArchivedPool).restore_unshareable_info archiveEnv =
      .ok ({ sharedPool with
        cache := some ⟨some [.null, .null, .null, .null, .null, .null], none⟩ }, none) := by
  decide

end ArchivedPool

namespace ConstantPool

/-! ## The indices that `copy_cp_to_impl` visits -/

theorem next_entry_gt (cp : ConstantPool) (i : Nat) : i < cp.next_entry i := by
  unfold next_entry
  split <;> omega

theorem next_entry_le (cp : ConstantPool) (i : Nat) : cp.next_entry i ≤ i + 2 := by
  unfold next_entry
  split <;> omega

/-- Fuel beyond the number of slots left does not change the visited indices. -/
theorem first_slots_from_fuel (cp : ConstantPool) (end_i : Nat) :
    ∀ (n m a : Nat), end_i + 1 - a ≤ n → end_i + 1 - a ≤ m →
      first_slots_from cp end_i n a = first_slots_from cp end_i m a := by
  intro n
  induction n with
  | zero =>
    intro m a hn _
    cases m with
    | zero => rfl
    | succ m =>
      rw [first_slots_from, first_slots_from, if_neg (by omega)]
  | succ n ih =>
    intro m a hn hm
    cases m with
    | zero =>
      rw [first_slots_from, first_slots_from, if_neg (by omega)]
    | succ m =>
      rw [first_slots_from, first_slots_from]
      by_cases ha : a ≤ end_i
      · rw [if_pos ha, if_pos ha]
        have := next_entry_gt cp a
        rw [ih m (cp.next_entry a) (by omega) (by omega)]
      · rw [if_neg ha, if_neg ha]

/-- The indices visited from a visited index on are the visited indices from it on. -/
theorem first_slots_from_tail (cp : ConstantPool) (end_i : Nat) :
    ∀ (n a0 a m i : Nat), end_i + 1 - a0 ≤ n → end_i + 1 - a ≤ m →
      a ∈ first_slots_from cp end_i n a0 →
      (i ∈ first_slots_from cp end_i m a ↔ i ∈ first_slots_from cp end_i n a0 ∧ a ≤ i) := by
  intro n
  induction n with
  | zero =>
    intro a0 a m i _ _ ha
    simp [first_slots_from] at ha
  | succ n ih =>
    intro a0 a m i hn hm ha
    rw [first_slots_from] at ha
    by_cases h0 : a0 ≤ end_i
    · rw [if_pos h0] at ha
      have hgt := next_entry_gt cp a0
      rcases List.mem_cons.mp ha with ha | ha
      · subst ha
        rw [first_slots_from_fuel cp end_i m (n + 1) a hm hn]
        constructor
        · intro h
          exact ⟨h, (first_slots_from_ge cp end_i _ _ i h).1⟩
        · intro h
          exact h.1
      · have hge := (first_slots_from_ge cp end_i _ _ a ha).1
        rw [ih (cp.next_entry a0) a m i (by omega) hm ha, first_slots_from, if_pos h0,
          List.mem_cons]
        constructor
        · intro h
          exact ⟨Or.inr h.1, h.2⟩
        · intro h
          rcases h.1 with h1 | h1
          · omega
          · exact ⟨h1, h.2⟩
    · rw [if_neg h0] at ha
      cases ha

/-- The indices visited up to an earlier end are the visited indices up to it. -/
theorem first_slots_from_cut (cp : ConstantPool) (end_i end_j : Nat) (hle : end_j ≤ end_i) :
    ∀ (n a i : Nat),
      (i ∈ first_slots_from cp end_j n a ↔ i ∈ first_slots_from cp end_i n a ∧ i ≤ end_j) := by
  intro n
  induction n with
  | zero =>
    intro a i
    simp [first_slots_from]
  | succ n ih =>
    intro a i
    rw [first_slots_from, first_slots_from]
    by_cases ha : a ≤ end_j
    · rw [if_pos ha, if_pos (by omega), List.mem_cons, List.mem_cons, ih]
      constructor
      · intro h
        rcases h with h | h
        · exact ⟨Or.inl h, by omega⟩
        · exact ⟨Or.inr h.1, h.2⟩
      · intro h
        rcases h.1 with h1 | h1
        · exact Or.inl h1
        · exact Or.inr ⟨h1, h.2⟩
    · rw [if_neg ha]
      constructor
      · intro h
        cases h
      · intro h
        by_cases hb : a ≤ end_i
        · rw [if_pos hb, List.mem_cons] at h
          rcases h.1 with h1 | h1
          · omega
          · have := (first_slots_from_ge cp end_i _ _ i h1).1
            have := next_entry_gt cp a
            omega
        · rw [if_neg hb] at h
          cases h.1

/-- From the first slot of an entry on, `copy_cp_to_impl` visits the first slots of the
entries in `start_i .. end_i`. -/
theorem first_slots_from_mem {cp : ConstantPool} {start_i end_i : Nat}
    (hstart : start_i ∈ cp.first_slots) (hend : end_i < cp.length) (i : Nat) :
    i ∈ first_slots_from cp end_i (end_i + 1 - start_i) start_i ↔
      i ∈ cp.first_slots ∧ start_i ≤ i ∧ i ≤ end_i := by
  have h1 := first_slots_from_cut cp (cp.length - 1) end_i (by omega) (end_i + 1 - start_i)
    start_i i
  have hs := (first_slots_from_ge cp _ _ _ start_i hstart).1
  have h2 := first_slots_from_tail cp (cp.length - 1) (cp.length - 1) 1 start_i
    (cp.length - 1 + 1 - start_i) i (by omega) (Nat.le_refl _) hstart
  rw [h1]
  by_cases hi : i ≤ end_i
  · have h3 := first_slots_from_cut cp (cp.length - 1) end_i (by omega)
      (cp.length - 1 + 1 - start_i) start_i i
    have h4 := first_slots_from_fuel cp end_i (end_i + 1 - start_i)
      (cp.length - 1 + 1 - start_i) start_i (Nat.le_refl _) (by omega)
    rw [← h1, h4, h3, h2]
    unfold first_slots
    constructor
    · intro h
      exact ⟨h.1.1, h.1.2, h.2⟩
    · intro h
      exact ⟨⟨h.1, h.2.1⟩, h.2.2⟩
  · constructor
    · intro h
      exact (hi h.2).elim
    · intro h
      exact (hi h.2.2).elim

/-- Between a visited index and the index of the next entry nothing is visited. -/
theorem first_slots_from_gap (cp : ConstantPool) (end_i : Nat) :
    ∀ (n a i j : Nat), i ∈ first_slots_from cp end_i n a → j ∈ first_slots_from cp end_i n a →
      j ≤ i ∨ cp.next_entry i ≤ j := by
  intro n
  induction n with
  | zero =>
    intro a i j hi _
    simp [first_slots_from] at hi
  | succ n ih =>
    intro a i j hi hj
    rw [first_slots_from] at hi hj
    by_cases ha : a ≤ end_i
    · rw [if_pos ha] at hi hj
      have hgt := next_entry_gt cp a
      rcases List.mem_cons.mp hi with hi | hi
      · subst hi
        rcases List.mem_cons.mp hj with hj | hj
        · exact Or.inl (by omega)
        · exact Or.inr (first_slots_from_ge cp end_i _ _ j hj).1
      · rcases List.mem_cons.mp hj with hj | hj
        · have := (first_slots_from_ge cp end_i _ _ i hi).1
          exact Or.inl (by omega)
        · exact ih _ i j hi hj
    · rw [if_neg ha] at hi
      cases hi

/-! ## The calls of `copy_entry_to` that `copy_cp_to_impl` makes -/

theorem foldlM_congr_mem {α β : Type} (f g : β → α → Except Fault β) :
    ∀ (l : List α) (init : β), (∀ x, x ∈ l → ∀ r, f r x = g r x) →
      l.foldlM f init = l.foldlM g init := by
  intro l
  induction l with
  | nil => intro init _; rfl
  | cons a l ih =>
    intro init h
    rw [List.foldlM_cons, List.foldlM_cons, h a (List.mem_cons_self _ _)]
    cases hg : g init a with
    | error e => rfl
    | ok r =>
      simp only [ok_bind]
      exact ih r (fun x hx => h x (List.mem_cons_of_mem _ hx))

theorem copy_entry_to_reads_tag {heap : SymbolHeap} {from_cp to_cp : ConstantPool}
    {from_i to_i : Nat} {r : ConstantPool × SymbolHeap}
    (h : copy_entry_to heap from_cp from_i to_cp to_i = .ok r) :
    ∃ t, from_cp.tag_at from_i = .ok t := by
  cases ht : from_cp.tag_at from_i with
  | ok t => exact ⟨t, rfl⟩
  | error e =>
    have he : copy_entry_to heap from_cp from_i to_cp to_i = .error e := by
      rw [copy_entry_to, ht]
      rfl
    rw [he] at h
    cases h

/-- The loop of `copy_cp_to_impl` makes the calls of `copy_entry_to` for the visited
indices, one after the other, and no other call. -/
theorem copy_cp_to_loop_eq_fold (from_cp : ConstantPool) (end_i : Nat) :
    ∀ (fuel src dest : Nat) (to_cp : ConstantPool) (heap : SymbolHeap),
      end_i + 1 - src ≤ fuel →
      copy_cp_to_loop from_cp end_i fuel src dest to_cp heap =
        (first_slots_from from_cp end_i fuel src).foldlM
          (fun r i => copy_entry_to r.2 from_cp i r.1 (dest + (i - src))) (to_cp, heap) := by
  intro fuel
  induction fuel with
  | zero =>
    intro src dest to_cp heap hfuel
    rw [copy_cp_to_loop, if_neg (by omega)]
    rfl
  | succ fuel ih =>
    intro src dest to_cp heap hfuel
    rw [copy_cp_to_loop, first_slots_from]
    by_cases hs : src ≤ end_i
    · rw [if_pos hs, if_pos hs, List.foldlM_cons]
      simp only [Nat.sub_self, Nat.add_zero]
      cases hcopy : copy_entry_to heap from_cp src to_cp dest with
      | error e => rfl
      | ok r =>
        obtain ⟨t, ht⟩ := copy_entry_to_reads_tag hcopy
        simp only [ok_bind]
        rw [ht]
        simp only [ok_bind]
        have hnext := next_entry_of_tag ht
        by_cases h2 : t = JVM_CONSTANT_Double ∨ t = JVM_CONSTANT_Long
        · rw [if_pos h2] at hnext ⊢
          rw [hnext, ih (src + 2) (dest + 2) r.1 r.2 (by omega)]
          apply foldlM_congr_mem
          intro i hi r'
          have := (first_slots_from_ge from_cp end_i _ _ i hi).1
          rw [show dest + 2 + (i - (src + 2)) = dest + (i - src) by omega]
        · rw [if_neg h2] at hnext ⊢
          rw [hnext, ih (src + 1) (dest + 1) r.1 r.2 (by omega)]
          apply foldlM_congr_mem
          intro i hi r'
          have := (first_slots_from_ge from_cp end_i _ _ i hi).1
          rw [show dest + 1 + (i - (src + 1)) = dest + (i - src) by omega]
    · rw [if_neg hs, if_neg hs]
      rfl

/-- The slot after the copy of every Long or Double that the loop of `copy_cp_to_impl`
copies is tagged Invalid, its payload being left as it was. -/
theorem copy_cp_to_loop_second_slots (from_cp : ConstantPool) (end_i n0 : Nat) :
    ∀ (fuel src dest : Nat) (to_cp : ConstantPool) (heap : SymbolHeap),
      end_i + 1 - src ≤ fuel →
      (src ≤ end_i → dest + (end_i + 1 - src) ≤ to_cp.length) →
      to_cp.operand_array_length = .ok n0 →
      (∀ i, i ∈ first_slots_from from_cp end_i fuel src →
        ∃ s, from_cp.slot_at i = .ok s ∧ Copyable s.tag ∧
          (TwoSlotTag s.tag → i + 1 ≤ end_i)) →
      ∀ r, copy_cp_to_loop from_cp end_i fuel src dest to_cp heap = .ok r →
        ∀ i s, i ∈ first_slots_from from_cp end_i fuel src → from_cp.slot_at i = .ok s →
          TwoSlotTag s.tag →
          r.1.slot_at (dest + (i - src) + 1) = .ok ⟨JVM_CONSTANT_Invalid,
            (to_cp.slots.getD (dest + (i - src) + 1) ⟨0, 0⟩).value⟩ := by
  intro fuel
  induction fuel with
  | zero =>
    intro src dest to_cp heap _ _ _ _ r _ i s hi
    simp [first_slots_from] at hi
  | succ fuel ih =>
    intro src dest to_cp heap hfuel hroom hn hwf r hr i s hi hsi htwo
    by_cases hs : src ≤ end_i
    · have hmem : src ∈ first_slots_from from_cp end_i (fuel + 1) src := by
        rw [first_slots_from, if_pos hs]; exact List.mem_cons_self _ _
      have hwf0 := hwf
      obtain ⟨s0, hslot, hcopyable, htwo0⟩ := hwf src hmem
      have htag := tag_at_of_slot hslot
      have hroom' := hroom hs
      have hd : dest < to_cp.length := by omega
      have h2 : TwoSlotTag s0.tag → dest + 1 < to_cp.length := by
        intro h; have := htwo0 h; omega
      have hcopy := copy_entry_to_eq heap hslot hcopyable hd h2 (fun _ => hn)
      clear hcopyable
      have hnext := next_entry_of_tag htag
      have hlist : first_slots_from from_cp end_i (fuel + 1) src =
          src :: first_slots_from from_cp end_i fuel (from_cp.next_entry src) := by
        rw [first_slots_from, if_pos hs]
      rw [copy_cp_to_loop, if_pos hs, hcopy, htag] at hr
      simp only [ok_bind] at hr
      clear hcopy
      have hlen1 : (ConstantPool.mk (copied_slots s0 to_cp.slots dest n0)
          to_cp.operands).length = to_cp.length := by
        show (copied_slots s0 to_cp.slots dest n0).length = _
        rw [copied_slots_length]; rfl
      have hn1 : (ConstantPool.mk (copied_slots s0 to_cp.slots dest n0)
          to_cp.operands).operand_array_length = .ok n0 :=
        (operand_array_length_congr rfl).trans hn
      have hsec : TwoSlotTag s0.tag →
          (ConstantPool.mk (copied_slots s0 to_cp.slots dest n0) to_cp.operands).slot_at
            (dest + 1) =
          .ok ⟨JVM_CONSTANT_Invalid, (to_cp.slots.getD (dest + 1) ⟨0, 0⟩).value⟩ :=
        fun h => slot_at_copied_second _ to_cp.operands n0 h (h2 h)
      have hne : ∀ j, j ≠ dest → j ≠ dest + 1 →
          (ConstantPool.mk (copied_slots s0 to_cp.slots dest n0) to_cp.operands).slots[j]? =
            to_cp.slots[j]? :=
        fun j h1 h2 => copied_slots_getElem?_ne s0 to_cp.slots n0 h1 (fun _ => h2)
      generalize (if s0.tag = JVM_CONSTANT_Utf8 then heap.increment_refcount s0.value
        else heap) = heap1 at hr
      generalize ConstantPool.mk (copied_slots s0 to_cp.slots dest n0) to_cp.operands = to1
        at hr hlen1 hn1 hsec hne
      clear hroom hn hwf hmem hd h2 htag
      have step : ∀ delta, 1 ≤ delta → (TwoSlotTag s0.tag → delta = 2) →
          (delta = 2 → TwoSlotTag s0.tag) → delta ≤ 2 →
          from_cp.next_entry src = src + delta →
          copy_cp_to_loop from_cp end_i fuel (src + delta) (dest + delta) to1 heap1 = .ok r →
          (∀ i, i ∈ first_slots_from from_cp end_i fuel (src + delta) →
            ∃ s, from_cp.slot_at i = .ok s ∧ Copyable s.tag ∧
              (TwoSlotTag s.tag → i + 1 ≤ end_i)) →
          r.1.slot_at (dest + (i - src) + 1) = .ok ⟨JVM_CONSTANT_Invalid,
            (to_cp.slots.getD (dest + (i - src) + 1) ⟨0, 0⟩).value⟩ := by
        intro delta hd1 hd2 hd3 hd4 hnx hrun hwf1
        have hroom1 : src + delta ≤ end_i →
            dest + delta + (end_i + 1 - (src + delta)) ≤ to1.length := by
          intro _; rw [hlen1]; omega
        rw [hlist, hnx] at hi
        rcases List.mem_cons.mp hi with hi | hi
        · subst hi
          rw [hslot] at hsi
          cases hsi
          have hdel := hd2 htwo
          subst hdel
          obtain ⟨r', hloop, -, -, hbelow, -⟩ := copy_cp_to_loop_spec from_cp end_i n0 fuel
            (i + 2) (dest + 2) to1 heap1 (by omega) hroom1 hn1 hwf1
          rw [hrun] at hloop
          cases hloop
          rw [Nat.sub_self, Nat.add_zero, slot_at_congr (hbelow (dest + 1) (by omega))]
          exact hsec htwo
        · have hge := (first_slots_from_ge from_cp end_i fuel _ i hi).1
          have := ih (src + delta) (dest + delta) to1 heap1 (by omega) hroom1 hn1 hwf1 r hrun
            i s hi hsi htwo
          have e : dest + (i - src) + 1 = dest + delta + (i - (src + delta)) + 1 := by omega
          rw [e, this]
          have hget := hne (dest + delta + (i - (src + delta)) + 1) (by omega) (by omega)
          simp only [List.getD_eq_getElem?_getD, hget]
      have hwfn : ∀ i, i ∈ first_slots_from from_cp end_i fuel (from_cp.next_entry src) →
          ∃ s, from_cp.slot_at i = .ok s ∧ Copyable s.tag ∧
            (TwoSlotTag s.tag → i + 1 ≤ end_i) := by
        intro i hi
        apply hwf0 i
        rw [hlist]
        exact List.mem_cons_of_mem _ hi
      by_cases h2s : s0.tag = JVM_CONSTANT_Double ∨ s0.tag = JVM_CONSTANT_Long
      · have h2s' : TwoSlotTag s0.tag := by
          rcases h2s with h | h
          · exact Or.inr h
          · exact Or.inl h
        rw [if_pos h2s] at hnext hr
        exact step 2 (by omega) (fun _ => rfl) (fun _ => h2s') (by omega) hnext hr
          (hnext ▸ hwfn)
      · have h2s' : ¬ TwoSlotTag s0.tag := by
          intro h
          rcases h with h | h
          · exact h2s (Or.inr h)
          · exact h2s (Or.inl h)
        rw [if_neg h2s] at hnext hr
        exact step 1 (by omega) (fun h => absurd h h2s') (fun h => by omega) (by omega)
          hnext hr (hnext ▸ hwfn)
    · rw [first_slots_from, if_neg hs] at hi
      cases hi

theorem demoted_tag_two_slot (t : Nat) : TwoSlotTag (demoted_tag t) ↔ TwoSlotTag t := by
  unfold demoted_tag
  by_cases h1 : KlassTag t
  · rw [if_pos h1]
    constructor
    · intro h
      rcases h with h | h <;> cases h
    · intro h
      rcases h1 with h1 | h1 | h1 <;> rcases h with h | h <;> rw [h1] at h <;> cases h
  · rw [if_neg h1]
    by_cases h2 : t = JVM_CONSTANT_MethodHandleInError
    · rw [if_pos h2, h2]
      constructor <;> intro h <;> rcases h with h | h <;> cases h
    · rw [if_neg h2]
      by_cases h3 : t = JVM_CONSTANT_MethodTypeInError
      · rw [if_pos h3, h3]
        constructor <;> intro h <;> rcases h with h | h <;> cases h
      · rw [if_neg h3]
        by_cases h4 : t = JVM_CONSTANT_DynamicInError
        · rw [if_pos h4, h4]
          constructor <;> intro h <;> rcases h with h | h <;> cases h
        · rw [if_neg h4]

/-- A pool without operands array, or with a well-formed one, has a specifier count that
is read and is not negative. -/
theorem operand_array_length_of_table {cp : ConstantPool}
    (h : match cp.operands with
      | none => True
      | some tops => OperandsWF tops) :
    ∃ n : Nat, cp.operand_array_length = .ok (n : Int) := by
  cases hops : cp.operands with
  | none =>
    refine ⟨0, ?_⟩
    unfold operand_array_length
    rw [hops]
    rfl
  | some tops =>
    rw [hops] at h
    by_cases hnil : tops = []
    · refine ⟨0, ?_⟩
      unfold operand_array_length
      rw [hops, hnil]
      rfl
    · exact ⟨operands_count tops, operand_array_length_wf hops h hnil⟩

theorem copy_operands_appendable (loader_data : ClassLoaderData)
    {from_cp to_cp : ConstantPool}
    (h : OperandsAppendable from_cp to_cp) :
    ∃ cp1, copy_operands loader_data from_cp to_cp =
        .ok (cp1, if from_cp.operand_array_length = .ok 0 then none
          else loader_data.new_array_fails (appended_length from_cp to_cp)) ∧
      cp1.slots = to_cp.slots := by
  obtain ⟨n, hn⟩ := operand_array_length_of_table h.1
  rcases h.2 with h0 | h1
  · rw [if_pos h0]
    exact ⟨to_cp, copy_operands_of_empty_source loader_data h0 hn, rfl⟩
  · cases hf : from_cp.operands with
    | none => rw [hf] at h1; exact h1.elim
    | some fops =>
      rw [hf] at h1
      obtain ⟨hwff, hnf, hto⟩ := h1
      have hfne : from_cp.operand_array_length ≠ .ok 0 := by
        rw [operand_array_length_wf hf hwff (wf_ne_nil hnf)]
        intro hc
        have := Except.ok.inj hc
        omega
      rw [if_neg hfne]
      have hto2 : n = 0 ∨ ∃ tops, to_cp.operands = some tops ∧ OperandsWF tops ∧
          tops.length + fops.length < 2147483648 := by
        rcases hto with h0 | h2
        · rw [hn] at h0
          have := Except.ok.inj h0
          exact Or.inl (by omega)
        · cases ht : to_cp.operands with
          | none =>
            have h0 : to_cp.operand_array_length = .ok 0 := by
              unfold operand_array_length; rw [ht]
            rw [hn] at h0
            have := Except.ok.inj h0
            exact Or.inl (by omega)
          | some tops =>
            have hw := h.1
            rw [ht] at hw h2
            exact Or.inr ⟨tops, rfl, hw, h2⟩
      cases hx : loader_data.new_array_fails (appended_length from_cp to_cp) with
      | none =>
        obtain ⟨ops1, hres, -⟩ :=
          copy_operands_specifiers loader_data hf hwff hnf hn hto2 hx
        exact ⟨_, hres, rfl⟩
      | some e =>
        exact ⟨to_cp, copy_operands_specifiers_fails loader_data hf hwff hnf hn hto2 hx, rfl⟩

theorem operands_appendable_congr {from_cp to_cp to1 : ConstantPool}
    (h : OperandsAppendable from_cp to_cp) (ho : to1.operands = to_cp.operands) :
    OperandsAppendable from_cp to1 := by
  unfold OperandsAppendable at h ⊢
  rw [operand_array_length_congr ho, ho]
  exact h

/-- C37: when `start_i` is the first slot of an entry of the source, the entries in
`start_i .. end_i` can be copied, the range holds both slots of its Longs and Doubles, the
destination has room and the operands can be appended, `copy_cp_to_impl` is the calls of
`copy_entry_to` for the first slots of the entries in `start_i .. end_i`, in order, each to
the destination index `to_i + (s - start_i)`, followed by `copy_operands`; it returns,
with the exception pending that a failed allocation of `copy_operands` leaves, if the
source holds specifiers and the allocation fails, and with none otherwise; in either
case the second slot of a Long or Double is not among the indices of the calls, each
entry is written at `to_i + (s - start_i)`, its tag taking two slots exactly when the
source tag does, and the destination slot after every copied Long or Double is tagged
Invalid. -/
theorem copy_cp_to_impl_two_slot_entries (loader_data : ClassLoaderData)
    (heap : SymbolHeap) (from_cp to_cp : ConstantPool)
    (start_i end_i to_i : Nat)
    (hstart : start_i ∈ from_cp.first_slots) (hend : end_i < from_cp.length)
    (hroom : start_i ≤ end_i → to_i + (end_i + 1 - start_i) ≤ to_cp.length)
    (hwf : CopyableRange from_cp start_i end_i) (hops : OperandsAppendable from_cp to_cp) :
    copy_cp_to_impl loader_data heap from_cp start_i end_i to_cp to_i =
      ((first_slots_from from_cp end_i (end_i + 1 - start_i) start_i).foldlM
          (fun r i => copy_entry_to r.2 from_cp i r.1 (to_i + (i - start_i))) (to_cp, heap) >>=
        fun r0 => copy_operands loader_data from_cp r0.1 >>=
          fun c => pure ((c.1, r0.2), c.2)) ∧
    (∀ i, i ∈ first_slots_from from_cp end_i (end_i + 1 - start_i) start_i ↔
      i ∈ from_cp.first_slots ∧ start_i ≤ i ∧ i ≤ end_i) ∧
    ∃ r, ∃ n : Nat, copy_cp_to_impl loader_data heap from_cp start_i end_i to_cp to_i =
        .ok (r, if from_cp.operand_array_length = .ok 0 then none
          else loader_data.new_array_fails (appended_length from_cp to_cp)) ∧
      to_cp.operand_array_length = .ok n ∧ r.1.length = to_cp.length ∧
      ∀ i, i ∈ from_cp.first_slots → start_i ≤ i → i ≤ end_i →
        ∃ s, from_cp.slot_at i = .ok s ∧
          r.1.slot_at (to_i + (i - start_i)) = .ok ⟨demoted_tag s.tag,
            copied_value s (to_cp.slots.getD (to_i + (i - start_i)) ⟨0, 0⟩) n⟩ ∧
          (TwoSlotTag (demoted_tag s.tag) ↔ TwoSlotTag s.tag) ∧
          (TwoSlotTag s.tag →
            i + 1 ∉ first_slots_from from_cp end_i (end_i + 1 - start_i) start_i ∧
            r.1.tag_at (to_i + (i - start_i) + 1) = .ok JVM_CONSTANT_Invalid) := by
  have hmem := first_slots_from_mem hstart hend
  obtain ⟨n, hn⟩ := operand_array_length_of_table hops.1
  have hwf1 : ∀ i, i ∈ first_slots_from from_cp end_i (end_i + 1 - start_i) start_i →
      ∃ s, from_cp.slot_at i = .ok s ∧ Copyable s.tag ∧
        (TwoSlotTag s.tag → i + 1 ≤ end_i) := by
    intro i hi
    obtain ⟨h1, h2, h3⟩ := (hmem i).mp hi
    obtain ⟨hc, htwo⟩ := hwf i h1 h2 h3
    obtain ⟨s, hs, hcs, -⟩ := copyable_at_spec hc
    refine ⟨s, hs, hcs, fun h => htwo ?_⟩
    rw [tag_at_of_slot hs]
    rcases h with h | h
    · exact Or.inl (by rw [h])
    · exact Or.inr (by rw [h])
  obtain ⟨r0, hloop, hops0, hlen0, -, hall0⟩ := copy_cp_to_loop_spec from_cp end_i n
    (end_i + 1 - start_i) start_i to_i to_cp heap (Nat.le_refl _) hroom hn hwf1
  have hsec := copy_cp_to_loop_second_slots from_cp end_i n (end_i + 1 - start_i) start_i
    to_i to_cp heap (Nat.le_refl _) hroom hn hwf1 r0 hloop
  obtain ⟨cp1, hcopy, hslots⟩ :=
    copy_operands_appendable loader_data (operands_appendable_congr hops hops0)
  rw [appended_length_congr from_cp hops0] at hcopy
  have hfold := copy_cp_to_loop_eq_fold from_cp end_i (end_i + 1 - start_i) start_i to_i
    to_cp heap (Nat.le_refl _)
  have himpl := copy_cp_to_impl_eq hloop hcopy
  refine ⟨?_, hmem, (cp1, r0.2), n, himpl, hn, ?_, ?_⟩
  · rw [← hfold]
    rfl
  · show cp1.slots.length = _
    rw [hslots]
    exact hlen0
  · intro i h1 h2 h3
    have hi := (hmem i).mpr ⟨h1, h2, h3⟩
    obtain ⟨s, hs, hr⟩ := hall0 i hi
    refine ⟨s, hs, ?_, demoted_tag_two_slot s.tag, fun htwo => ⟨?_, ?_⟩⟩
    · rw [slot_at_congr (congrArg (fun l => l[to_i + (i - start_i)]?) hslots)]
      exact hr
    · intro hmem1
      have hnext := next_entry_of_tag (tag_at_of_slot hs)
      rw [if_pos (by rcases htwo with h | h; exact Or.inr h; exact Or.inl h)] at hnext
      have := first_slots_from_gap from_cp end_i _ _ i (i + 1) hi hmem1
      omega
    · have := hsec i s hi hs htwo
      rw [← slot_at_congr (congrArg (fun l => l[to_i + (i - start_i) + 1]?) hslots)] at this
      exact tag_at_of_slot this

/-- The entries #5 to #9 of `demoPool`, the Long #7 among them, are copied to the slots 2
to 6 of `scribbledPool`, with room in the metaspace and without: in an exhausted
metaspace the call returns with the exception of the failed allocation pending and the
entries in their places all the same. -/
theorem copy_cp_to_impl_two_slot_entries_witness :
    5 ∈ demoPool.first_slots ∧ 9 < demoPool.length ∧
    (5 ≤ 9 → 2 + (9 + 1 - 5) ≤ scribbledPool.length) ∧
    CopyableRange demoPool 5 9 ∧ OperandsAppendable demoPool scribbledPool ∧
    (∃ r, ∃ n : Nat, copy_cp_to_impl roomyLoaderData demoHeap demoPool 5 9 scribbledPool 2 =
        .ok (r, none) ∧
      scribbledPool.operand_array_length = .ok n ∧ r.1.length = scribbledPool.length ∧
      ∀ i, i ∈ demoPool.first_slots → 5 ≤ i → i ≤ 9 →
        ∃ s, demoPool.slot_at i = .ok s ∧
          r.1.slot_at (2 + (i - 5)) = .ok ⟨demoted_tag s.tag,
            copied_value s (scribbledPool.slots.getD (2 + (i - 5)) ⟨0, 0⟩) n⟩ ∧
          (TwoSlotTag (demoted_tag s.tag) ↔ TwoSlotTag s.tag) ∧
          (TwoSlotTag s.tag →
            i + 1 ∉ first_slots_from demoPool 9 (9 + 1 - 5) 5 ∧
            r.1.tag_at (2 + (i - 5) + 1) = .ok JVM_CONSTANT_Invalid)) ∧
    (∃ r, ∃ n : Nat,
      copy_cp_to_impl exhaustedLoaderData demoHeap demoPool 5 9 scribbledPool 2 =
        .ok (r, some ⟨2004, none, .self⟩) ∧
      scribbledPool.operand_array_length = .ok n ∧ r.1.length = scribbledPool.length ∧
      ∀ i, i ∈ demoPool.first_slots → 5 ≤ i → i ≤ 9 →
        ∃ s, demoPool.slot_at i = .ok s ∧
          r.1.slot_at (2 + (i - 5)) = .ok ⟨demoted_tag s.tag,
            copied_value s (scribbledPool.slots.getD (2 + (i - 5)) ⟨0, 0⟩) n⟩ ∧
          (TwoSlotTag (demoted_tag s.tag) ↔ TwoSlotTag s.tag) ∧
          (TwoSlotTag s.tag →
            i + 1 ∉ first_slots_from demoPool 9 (9 + 1 - 5) 5 ∧
            r.1.tag_at (2 + (i - 5) + 1) = .ok JVM_CONSTANT_Invalid)) := by
  have e1 : (if demoPool.operand_array_length = .ok 0 then none
      else roomyLoaderData.new_array_fails (appended_length demoPool scribbledPool)) =
      none := by decide
  have e2 : (if demoPool.operand_array_length = .ok 0 then none
      else exhaustedLoaderData.new_array_fails (appended_length demoPool scribbledPool)) =
      some ⟨2004, none, .self⟩ := by decide
  have h1 := (copy_cp_to_impl_two_slot_entries roomyLoaderData demoHeap demoPool
    scribbledPool 5 9 2 (by decide) (by decide) (by decide) (by decide) (by decide)).2.2
  have h2 := (copy_cp_to_impl_two_slot_entries exhaustedLoaderData demoHeap demoPool
    scribbledPool 5 9 2 (by decide) (by decide) (by decide) (by decide) (by decide)).2.2
  rw [e1] at h1
  rw [e2] at h2
  exact ⟨by decide, by decide, by decide, by decide, by decide, h1, h2⟩

/-- What the copy of the entries #5 to #9 of `demoPool` to the slots 2 to 6 of
`scribbledPool` leaves: the Long at the slot 4, the Invalid tag over the leftover of the
slot 5, and the String at the slot 6. -/
theorem copy_cp_to_impl_scribbledPool :
    (fun r => r.1.1) <$>
        copy_cp_to_impl roomyLoaderData demoHeap demoPool 5 9 scribbledPool 2 =
      .ok ⟨[⟨3, 7⟩, ⟨3, 7⟩, ⟨12, 262147⟩, ⟨10, 327682⟩, ⟨5, 42⟩, ⟨0, 7⟩, ⟨8, 1001⟩, ⟨3, 7⟩,
        ⟨3, 7⟩, ⟨3, 7⟩, ⟨3, 7⟩, ⟨3, 7⟩], some [2, 0, 10, 1, 9]⟩ := by
  decide

end ConstantPool

namespace ConstantPool

/-! ## `compare_entry_to` with the two sides exchanged -/

theorem okLe_swap {α β γ : Type} {x : Except Fault α} {y : Except Fault β}
    {f : α → β → Except Fault γ} {g : β → α → Except Fault γ}
    (h : ∀ a b, OkLe (f a b) (g b a)) :
    OkLe (x >>= fun a => y >>= fun b => f a b) (y >>= fun b => x >>= fun a => g b a) := by
  intro r hr
  obtain ⟨a, ha, hr⟩ := bind_eq_ok.mp hr
  obtain ⟨b, hb, hr⟩ := bind_eq_ok.mp hr
  rw [hb]
  simp only [ok_bind]
  rw [ha]
  exact h a b r hr

theorem okLe_ite_comm {α β : Type} [DecidableEq β] {a b : β} {x x' y y' : Except Fault α}
    (hx : a = b → OkLe x x') (hy : OkLe y y') :
    OkLe (if a = b then x else y) (if b = a then x' else y') := by
  by_cases h : a = b
  · rw [if_pos h, if_pos h.symm]; exact hx h
  · rw [if_neg h, if_neg (fun h' => h h'.symm)]; exact hy

theorem jfloat_eq_comm (a b : Nat) : jfloat_eq a b = jfloat_eq b a := by
  have e : decide (a = b) = decide (b = a) := by
    by_cases h : a = b
    · subst h; rfl
    · have h' : ¬ b = a := fun h' => h h'.symm
      simp [h, h']
  unfold jfloat_eq
  simp only
  rw [e]
  ac_rfl

theorem jdouble_eq_comm (a b : Nat) : jdouble_eq a b = jdouble_eq b a := by
  have e : decide (a = b) = decide (b = a) := by
    by_cases h : a = b
    · subst h; rfl
    · have h' : ¬ b = a := fun h' => h h'.symm
      simp [h, h']
  unfold jdouble_eq
  simp only
  rw [e]
  ac_rfl

theorem okLe_of_eq {α : Type} {x y : Except Fault α} (h : x = y) : OkLe x y := by
  rw [h]; exact okLe_refl _

theorem compare_operand_args_swap {cmp cmp' : Nat → Nat → Except Fault Bool}
    (h : ∀ a b, OkLe (cmp a b) (cmp' b a))
    (cp1 : ConstantPool) (e1 : Nat) (cp2 : ConstantPool) (e2 : Nat) (n j : Nat) :
    OkLe (compare_operand_args cmp cp1 e1 cp2 e2 n j)
      (compare_operand_args cmp' cp2 e2 cp1 e1 n j) := by
  induction n generalizing j with
  | zero => exact okLe_refl _
  | succ n ih =>
    unfold compare_operand_args
    refine okLe_swap fun k1 k2 => okLe_bind (h k1 k2) fun m => okLe_ite (okLe_refl _) (ih (j + 1))

theorem compare_operand_with_swap {cmp cmp' : Nat → Nat → Except Fault Bool}
    (h : ∀ a b, OkLe (cmp a b) (cmp' b a))
    (cp1 : ConstantPool) (idx1 : Nat) (cp2 : ConstantPool) (idx2 : Nat) :
    OkLe (compare_operand_with cmp cp1 idx1 cp2 idx2)
      (compare_operand_with cmp' cp2 idx2 cp1 idx1) := by
  unfold compare_operand_with
  refine okLe_swap fun e1 e2 => okLe_swap fun k1 k2 =>
    okLe_bind (h k1 k2) fun m => okLe_ite (okLe_refl _) ?_
  refine okLe_swap fun argc argc2 => okLe_ite_comm (fun he => ?_) (okLe_refl _)
  subst he
  exact compare_operand_args_swap h cp1 e1 cp2 e2 argc 0

theorem compare_entry_with_swap {cmp cmp' : Nat → Nat → Except Fault Bool}
    (h : ∀ a b, OkLe (cmp a b) (cmp' b a))
    (cp1 : ConstantPool) (index1 : Nat) (cp2 : ConstantPool) (index2 : Nat) :
    OkLe (compare_entry_with cmp cp1 index1 cp2 index2)
      (compare_entry_with cmp' cp2 index2 cp1 index1) := by
  unfold compare_entry_with
  refine okLe_swap fun tag1 tag2 => ?_
  dsimp only
  generalize (if constantTag.non_error_value tag1 = JVM_CONSTANT_Class then
    JVM_CONSTANT_UnresolvedClass else constantTag.non_error_value tag1) = t1
  generalize (if constantTag.non_error_value tag2 = JVM_CONSTANT_Class then
    JVM_CONSTANT_UnresolvedClass else constantTag.non_error_value tag2) = t2
  by_cases ht : t1 = t2
  · subst ht
    repeat' first
      | exact okLe_refl _
      | exact h _ _
      | exact compare_operand_with_swap h _ _ _ _
      | exact okLe_of_eq (by rw [jfloat_eq_comm])
      | exact okLe_of_eq (by rw [jdouble_eq_comm])
      | apply okLe_ite
      | refine okLe_ite_comm (fun _ => ?_) ?_
      | refine okLe_swap (fun _ _ => ?_)
      | apply okLe_bind
      | intro _
  · rw [if_pos ht, if_pos (fun h => ht h.symm)]
    exact okLe_refl _

/-- With the two sides exchanged `compare_entry_to` returns what it returns. -/
theorem compare_entry_to_swap (cp1 cp2 : ConstantPool) :
    ∀ (fuel index1 index2 : Nat),
      OkLe (compare_entry_to fuel cp1 index1 cp2 index2)
        (compare_entry_to fuel cp2 index2 cp1 index1) := by
  intro fuel
  induction fuel with
  | zero => intro _ _; exact okLe_error _ _
  | succ n ih =>
    intro index1 index2
    rw [compare_entry_to, compare_entry_to]
    exact compare_entry_with_swap (fun a b => ih a b) cp1 index1 cp2 index2

end ConstantPool

theorem okAnd_eq_true {α : Type} {x : Except Fault α} {f : α → Bool} :
    okAnd x f = true ↔ ∃ a, x = .ok a ∧ f a = true := by
  unfold okAnd
  cases x with
  | error e => simp
  | ok a => simp

namespace ConstantPool

/-! ## `compare_entry_to` on entries whose references end -/

theorem compare_operand_args_returns (cmp : Nat → Nat → Except Fault Bool)
    (cp1 : ConstantPool) (e1 : Nat) (cp2 : ConstantPool) (e2 : Nat) :
    ∀ (n j : Nat),
      (∀ k, k < n → ∃ a1 a2, cp1.argument_index e1 (j + k) = .ok a1 ∧
        cp2.argument_index e2 (j + k) = .ok a2 ∧ ∃ r, cmp a1 a2 = .ok r) →
      ∃ r, compare_operand_args cmp cp1 e1 cp2 e2 n j = .ok r := by
  intro n
  induction n with
  | zero => intro j _; exact ⟨true, rfl⟩
  | succ n ih =>
    intro j h
    obtain ⟨a1, a2, h1, h2, r, hr⟩ := h 0 (by omega)
    rw [Nat.add_zero] at h1 h2
    unfold compare_operand_args
    simp only [h1, h2, hr, ok_bind]
    cases r with
    | false => exact ⟨false, rfl⟩
    | true =>
      simp only [Bool.not_true, Bool.false_eq_true, if_false]
      apply ih (j + 1)
      intro k hk
      have := h (k + 1) (by omega)
      rwa [show j + (k + 1) = j + 1 + k by omega] at this

theorem specifier_at_reads {cp : ConstantPool} {idx : Nat} {sp : Specifier}
    (h : cp.specifier_at idx = .ok sp) :
    ∃ e, cp.bsm_attribute_entry idx = .ok e ∧
      cp.bootstrap_method_index e = .ok sp.bootstrap_method_index ∧
      cp.argument_count e = .ok sp.argument_count ∧
      ∀ k, k < sp.argument_count →
        ∃ a, cp.argument_index e k = .ok a ∧ a ∈ sp.arguments := by
  unfold specifier_at at h
  obtain ⟨e, he, h⟩ := bind_eq_ok.mp h
  obtain ⟨bsm, hb, h⟩ := bind_eq_ok.mp h
  obtain ⟨argc, hc, h⟩ := bind_eq_ok.mp h
  obtain ⟨args, ha, h⟩ := bind_eq_ok.mp h
  cases h
  refine ⟨e, he, hb, hc, fun k hk => ?_⟩
  have := argument_indices_get e argc 0 args ha k hk
  rwa [Nat.zero_add] at this

theorem compare_operand_with_returns (cmp : Nat → Nat → Except Fault Bool)
    {cp1 cp2 : ConstantPool} {idx1 idx2 : Nat} {sp1 sp2 : Specifier}
    (hs1 : cp1.specifier_at idx1 = .ok sp1) (hs2 : cp2.specifier_at idx2 = .ok sp2)
    (hbsm : ∃ r, cmp sp1.bootstrap_method_index sp2.bootstrap_method_index = .ok r)
    (hargs : ∀ a1, a1 ∈ sp1.arguments → ∀ a2, a2 ∈ sp2.arguments → ∃ r, cmp a1 a2 = .ok r) :
    ∃ r, compare_operand_with cmp cp1 idx1 cp2 idx2 = .ok r := by
  obtain ⟨e1, he1, hk1, hc1, ha1⟩ := specifier_at_reads hs1
  obtain ⟨e2, he2, hk2, hc2, ha2⟩ := specifier_at_reads hs2
  obtain ⟨m, hm⟩ := hbsm
  simp only [compare_operand_with, he1, he2, hk1, hk2, hm, ok_bind]
  cases m with
  | false => exact ⟨false, rfl⟩
  | true =>
    simp only [Bool.not_true, Bool.false_eq_true, if_false, hc1, hc2, ok_bind]
    by_cases hc : sp1.argument_count = sp2.argument_count
    · rw [if_pos hc]
      apply compare_operand_args_returns
      intro k hk
      obtain ⟨a1, h1, m1⟩ := ha1 k hk
      obtain ⟨a2, h2, m2⟩ := ha2 k (by omega)
      rw [Nat.zero_add]
      exact ⟨a1, a2, h1, h2, hargs a1 m1 a2 m2⟩
    · rw [if_neg hc]
      exact ⟨false, rfl⟩

theorem ite_bool_returns (r : Bool) :
    ∃ b, (if r = true then (pure true : Except Fault Bool) else pure false) = .ok b := by
  cases r <;> exact ⟨_, rfl⟩

theorem ite_eq_returns (a b : Nat) :
    ∃ r, (if a = b then (pure true : Except Fault Bool) else pure false) = .ok r := by
  by_cases h : a = b
  · rw [if_pos h]; exact ⟨true, rfl⟩
  · rw [if_neg h]; exact ⟨false, rfl⟩

/-- The comparison of two entries whose references end within `d` levels returns when it
is given the depth `d`. -/
theorem compare_entry_to_returns (fl : Bool) (cp1 cp2 : ConstantPool) :
    ∀ (d i j : Nat), refs_end_within fl d cp1 i = true → refs_end_within fl d cp2 j = true →
      ∃ b, compare_entry_to d cp1 i cp2 j = .ok b := by
  intro d
  induction d with
  | zero =>
    intro i j h
    rw [refs_end_within] at h
    cases h
  | succ d ih =>
    intro i j h1 h2
    rw [refs_end_within] at h1 h2
    obtain ⟨tag1, ht1, h1⟩ := okAnd_eq_true.mp h1
    obtain ⟨tag2, ht2, h2⟩ := okAnd_eq_true.mp h2
    rw [compare_entry_to]
    simp only [compare_entry_with, ht1, ht2, ok_bind]
    unfold normalized_tag at h1 h2
    dsimp only at h1 h2
    generalize (if constantTag.non_error_value tag1 = JVM_CONSTANT_Class then
      JVM_CONSTANT_UnresolvedClass else constantTag.non_error_value tag1) = t1 at h1 ⊢
    generalize (if constantTag.non_error_value tag2 = JVM_CONSTANT_Class then
      JVM_CONSTANT_UnresolvedClass else constantTag.non_error_value tag2) = t2 at h2 ⊢
    by_cases hT : t1 = t2
    swap
    · rw [if_pos hT]
      exact ⟨false, rfl⟩
    subst hT
    rw [if_neg (fun h => h rfl)]
    -- ClassIndex
    by_cases c : t1 = JVM_CONSTANT_ClassIndex
    · rw [if_pos c] at h1 h2 ⊢
      obtain ⟨a, ha, h1⟩ := okAnd_eq_true.mp h1
      obtain ⟨b, hb, h2⟩ := okAnd_eq_true.mp h2
      obtain ⟨r, hr⟩ := ih a b h1 h2
      simp only [ha, hb, hr, ok_bind]
      exact ite_bool_returns r
    rw [if_neg c] at h1 h2 ⊢
    clear c
    -- Double
    by_cases c : t1 = JVM_CONSTANT_Double
    · rw [if_pos c] at h1 h2 ⊢
      obtain ⟨a, ha⟩ := isOk_iff.mp (Bool.and_eq_true_iff.mp h1).2
      obtain ⟨b, hb⟩ := isOk_iff.mp (Bool.and_eq_true_iff.mp h2).2
      simp only [ha, hb, ok_bind]
      exact ite_bool_returns _
    rw [if_neg c] at h1 h2 ⊢
    clear c
    -- Fieldref, InterfaceMethodref, Methodref
    by_cases c : t1 = JVM_CONSTANT_Fieldref ∨ t1 = JVM_CONSTANT_InterfaceMethodref ∨
        t1 = JVM_CONSTANT_Methodref
    · rw [if_pos c] at h1 h2 ⊢
      obtain ⟨a, ha, h1⟩ := okAnd_eq_true.mp h1
      obtain ⟨a', ha', h1⟩ := okAnd_eq_true.mp h1
      obtain ⟨b, hb, h2⟩ := okAnd_eq_true.mp h2
      obtain ⟨b', hb', h2⟩ := okAnd_eq_true.mp h2
      rw [Bool.and_eq_true_iff] at h1 h2
      obtain ⟨r, hr⟩ := ih a b h1.1 h2.1
      obtain ⟨r', hr'⟩ := ih a' b' h1.2 h2.2
      simp only [ha, hb, hr, ok_bind]
      cases r with
      | false => exact ⟨false, rfl⟩
      | true =>
        rw [if_pos rfl]
        simp only [ha', hb', hr', ok_bind]
        exact ite_bool_returns r'
    rw [if_neg c] at h1 h2 ⊢
    clear c
    -- Float
    by_cases c : t1 = JVM_CONSTANT_Float
    · rw [if_pos c] at h1 h2 ⊢
      obtain ⟨a, ha⟩ := isOk_iff.mp (Bool.and_eq_true_iff.mp h1).2
      obtain ⟨b, hb⟩ := isOk_iff.mp (Bool.and_eq_true_iff.mp h2).2
      simp only [ha, hb, ok_bind]
      exact ite_bool_returns _
    rw [if_neg c] at h1 h2 ⊢
    clear c
    -- Integer
    by_cases c : t1 = JVM_CONSTANT_Integer
    · rw [if_pos c] at h1 h2 ⊢
      obtain ⟨a, ha⟩ := isOk_iff.mp h1
      obtain ⟨b, hb⟩ := isOk_iff.mp h2
      simp only [ha, hb, ok_bind]
      exact ite_eq_returns a b
    rw [if_neg c] at h1 h2 ⊢
    clear c
    -- Long
    by_cases c : t1 = JVM_CONSTANT_Long
    · rw [if_pos c] at h1 h2 ⊢
      obtain ⟨a, ha⟩ := isOk_iff.mp h1
      obtain ⟨b, hb⟩ := isOk_iff.mp h2
      simp only [ha, hb, ok_bind]
      exact ite_eq_returns a b
    rw [if_neg c] at h1 h2 ⊢
    clear c
    -- NameAndType
    by_cases c : t1 = JVM_CONSTANT_NameAndType
    · rw [if_pos c] at h1 h2 ⊢
      obtain ⟨a, ha, h1⟩ := okAnd_eq_true.mp h1
      obtain ⟨a', ha', h1⟩ := okAnd_eq_true.mp h1
      obtain ⟨b, hb, h2⟩ := okAnd_eq_true.mp h2
      obtain ⟨b', hb', h2⟩ := okAnd_eq_true.mp h2
      rw [Bool.and_eq_true_iff] at h1 h2
      obtain ⟨r, hr⟩ := ih a b h1.1 h2.1
      obtain ⟨r', hr'⟩ := ih a' b' h1.2 h2.2
      simp only [ha, hb, hr, ok_bind]
      cases r with
      | false => exact ⟨false, rfl⟩
      | true =>
        rw [if_pos rfl]
        simp only [ha', hb', hr', ok_bind]
        exact ite_bool_returns r'
    rw [if_neg c] at h1 h2 ⊢
    clear c
    -- StringIndex
    by_cases c : t1 = JVM_CONSTANT_StringIndex
    · rw [if_pos c] at h1 h2 ⊢
      obtain ⟨a, ha, h1⟩ := okAnd_eq_true.mp h1
      obtain ⟨b, hb, h2⟩ := okAnd_eq_true.mp h2
      obtain ⟨r, hr⟩ := ih a b h1 h2
      simp only [ha, hb, hr, ok_bind]
      exact ite_bool_returns r
    rw [if_neg c] at h1 h2 ⊢
    clear c
    -- UnresolvedClass
    by_cases c : t1 = JVM_CONSTANT_UnresolvedClass
    · rw [if_pos c] at h1 h2 ⊢
      obtain ⟨a, ha⟩ := isOk_iff.mp h1
      obtain ⟨b, hb⟩ := isOk_iff.mp h2
      simp only [ha, hb, ok_bind]
      exact ite_eq_returns a b
    rw [if_neg c] at h1 h2 ⊢
    clear c
    -- MethodType
    by_cases c : t1 = JVM_CONSTANT_MethodType
    · rw [if_pos c] at h1 h2 ⊢
      obtain ⟨a, ha, h1⟩ := okAnd_eq_true.mp h1
      obtain ⟨b, hb, h2⟩ := okAnd_eq_true.mp h2
      obtain ⟨r, hr⟩ := ih a b h1 h2
      simp only [ha, hb, hr, ok_bind]
      exact ite_bool_returns r
    rw [if_neg c] at h1 h2 ⊢
    clear c
    -- MethodHandle
    by_cases c : t1 = JVM_CONSTANT_MethodHandle
    · rw [if_pos c] at h1 h2 ⊢
      obtain ⟨k, hk, h1⟩ := okAnd_eq_true.mp h1
      obtain ⟨a, ha, h1⟩ := okAnd_eq_true.mp h1
      obtain ⟨k', hk', h2⟩ := okAnd_eq_true.mp h2
      obtain ⟨b, hb, h2⟩ := okAnd_eq_true.mp h2
      obtain ⟨r, hr⟩ := ih a b h1 h2
      simp only [hk, hk', ok_bind]
      by_cases hkk : k = k'
      · rw [if_pos hkk]
        simp only [ha, hb, hr, ok_bind]
        exact ite_bool_returns r
      · rw [if_neg hkk]
        exact ⟨false, rfl⟩
    rw [if_neg c] at h1 h2 ⊢
    clear c
    -- Dynamic, InvokeDynamic
    have hdyn : (t1 = JVM_CONSTANT_Dynamic ∨ t1 = JVM_CONSTANT_InvokeDynamic) →
        ∃ b, (do
          let k1 ← cp1.bootstrap_name_and_type_ref_index_at i
          let k2 ← cp2.bootstrap_name_and_type_ref_index_at j
          let i1 ← cp1.bootstrap_methods_attribute_index i
          let i2 ← cp2.bootstrap_methods_attribute_index j
          let match_entry ← compare_entry_to d cp1 k1 cp2 k2
          let match_operand ←
            compare_operand_with (fun a b => compare_entry_to d cp1 a cp2 b) cp1 i1 cp2 i2
          pure (match_entry && match_operand)) = Except.ok b := by
      intro c
      rw [if_pos c] at h1 h2
      obtain ⟨k, hk, h1⟩ := okAnd_eq_true.mp h1
      obtain ⟨a, ha, h1⟩ := okAnd_eq_true.mp h1
      obtain ⟨k', hk', h2⟩ := okAnd_eq_true.mp h2
      obtain ⟨b, hb, h2⟩ := okAnd_eq_true.mp h2
      rw [Bool.and_eq_true_iff] at h1 h2
      obtain ⟨sp1, hs1, h1s⟩ := okAnd_eq_true.mp h1.2
      obtain ⟨sp2, hs2, h2s⟩ := okAnd_eq_true.mp h2.2
      rw [Bool.and_eq_true_iff, List.all_eq_true] at h1s h2s
      obtain ⟨r, hr⟩ := ih k k' h1.1 h2.1
      obtain ⟨r', hr'⟩ := compare_operand_with_returns
        (fun a b => compare_entry_to d cp1 a cp2 b) hs1 hs2 (ih _ _ h1s.1 h2s.1)
        (fun a1 m1 a2 m2 => ih a1 a2 (h1s.2 a1 m1) (h2s.2 a2 m2))
      simp only [hk, hk', ha, hb, hr, hr', ok_bind]
      exact ⟨_, rfl⟩
    by_cases c : t1 = JVM_CONSTANT_Dynamic
    · rw [if_pos c]
      exact hdyn (Or.inl c)
    rw [if_neg c]
    by_cases c' : t1 = JVM_CONSTANT_InvokeDynamic
    · rw [if_pos c']
      exact hdyn (Or.inr c')
    rw [if_neg c']
    rw [if_neg (fun h => h.elim c c')] at h1 h2
    clear c c' hdyn
    -- String
    by_cases c : t1 = JVM_CONSTANT_String
    · rw [if_pos c] at h1 h2 ⊢
      obtain ⟨a, ha⟩ := isOk_iff.mp h1
      obtain ⟨b, hb⟩ := isOk_iff.mp h2
      simp only [ha, hb, ok_bind]
      exact ite_eq_returns a b
    rw [if_neg c] at h1 h2 ⊢
    clear c
    -- Utf8
    by_cases c : t1 = JVM_CONSTANT_Utf8
    · rw [if_pos c] at h1 h2 ⊢
      obtain ⟨a, ha⟩ := isOk_iff.mp h1
      obtain ⟨b, hb⟩ := isOk_iff.mp h2
      simp only [ha, hb, ok_bind]
      exact ite_eq_returns a b
    rw [if_neg c] at h1
    cases h1

end ConstantPool

namespace ConstantPool

/-- An entry whose references end within `d` levels without a Float or Double among them
compares equal to itself when the comparison is given the depth `d`. -/
theorem compare_entry_to_self (cp : ConstantPool) :
    ∀ (d i : Nat), refs_end_within false d cp i = true →
      compare_entry_to d cp i cp i = .ok true := by
  intro d
  induction d with
  | zero =>
    intro i h
    rw [refs_end_within] at h
    cases h
  | succ d ih =>
    intro i h1
    rw [refs_end_within] at h1
    obtain ⟨tag1, ht1, h1⟩ := okAnd_eq_true.mp h1
    rw [compare_entry_to]
    simp only [compare_entry_with, ht1, ok_bind]
    unfold normalized_tag at h1
    dsimp only at h1
    generalize (if constantTag.non_error_value tag1 = JVM_CONSTANT_Class then
      JVM_CONSTANT_UnresolvedClass else constantTag.non_error_value tag1) = t1 at h1 ⊢
    rw [if_neg (fun h => h rfl)]
    -- ClassIndex
    by_cases c : t1 = JVM_CONSTANT_ClassIndex
    · rw [if_pos c] at h1 ⊢
      obtain ⟨a, ha, h1⟩ := okAnd_eq_true.mp h1
      simp only [ha, ih a h1, ok_bind]
      rfl
    rw [if_neg c] at h1 ⊢
    clear c
    -- Double
    by_cases c : t1 = JVM_CONSTANT_Double
    · rw [if_pos c, Bool.false_and] at h1
      cases h1
    rw [if_neg c] at h1 ⊢
    clear c
    -- Fieldref, InterfaceMethodref, Methodref
    by_cases c : t1 = JVM_CONSTANT_Fieldref ∨ t1 = JVM_CONSTANT_InterfaceMethodref ∨
        t1 = JVM_CONSTANT_Methodref
    · rw [if_pos c] at h1 ⊢
      obtain ⟨a, ha, h1⟩ := okAnd_eq_true.mp h1
      obtain ⟨a', ha', h1⟩ := okAnd_eq_true.mp h1
      rw [Bool.and_eq_true_iff] at h1
      simp only [ha, ih a h1.1, ok_bind]
      simp only [if_true]
      simp only [ha', ih a' h1.2, ok_bind]
      rfl
    rw [if_neg c] at h1 ⊢
    clear c
    -- Float
    by_cases c : t1 = JVM_CONSTANT_Float
    · rw [if_pos c, Bool.false_and] at h1
      cases h1
    rw [if_neg c] at h1 ⊢
    clear c
    -- Integer
    by_cases c : t1 = JVM_CONSTANT_Integer
    · rw [if_pos c] at h1 ⊢
      obtain ⟨a, ha⟩ := isOk_iff.mp h1
      simp only [ha, ok_bind]
      simp only [if_true]
      rfl
    rw [if_neg c] at h1 ⊢
    clear c
    -- Long
    by_cases c : t1 = JVM_CONSTANT_Long
    · rw [if_pos c] at h1 ⊢
      obtain ⟨a, ha⟩ := isOk_iff.mp h1
      simp only [ha, ok_bind]
      simp only [if_true]
      rfl
    rw [if_neg c] at h1 ⊢
    clear c
    -- NameAndType
    by_cases c : t1 = JVM_CONSTANT_NameAndType
    · rw [if_pos c] at h1 ⊢
      obtain ⟨a, ha, h1⟩ := okAnd_eq_true.mp h1
      obtain ⟨a', ha', h1⟩ := okAnd_eq_true.mp h1
      rw [Bool.and_eq_true_iff] at h1
      simp only [ha, ih a h1.1, ok_bind]
      simp only [if_true]
      simp only [ha', ih a' h1.2, ok_bind]
      rfl
    rw [if_neg c] at h1 ⊢
    clear c
    -- StringIndex
    by_cases c : t1 = JVM_CONSTANT_StringIndex
    · rw [if_pos c] at h1 ⊢
      obtain ⟨a, ha, h1⟩ := okAnd_eq_true.mp h1
      simp only [ha, ih a h1, ok_bind]
      rfl
    rw [if_neg c] at h1 ⊢
    clear c
    -- UnresolvedClass
    by_cases c : t1 = JVM_CONSTANT_UnresolvedClass
    · rw [if_pos c] at h1 ⊢
      obtain ⟨a, ha⟩ := isOk_iff.mp h1
      simp only [ha, ok_bind]
      simp only [if_true]
      rfl
    rw [if_neg c] at h1 ⊢
    clear c
    -- MethodType
    by_cases c : t1 = JVM_CONSTANT_MethodType
    · rw [if_pos c] at h1 ⊢
      obtain ⟨a, ha, h1⟩ := okAnd_eq_true.mp h1
      simp only [ha, ih a h1, ok_bind]
      rfl
    rw [if_neg c] at h1 ⊢
    clear c
    -- MethodHandle
    by_cases c : t1 = JVM_CONSTANT_MethodHandle
    · rw [if_pos c] at h1 ⊢
      obtain ⟨k, hk, h1⟩ := okAnd_eq_true.mp h1
      obtain ⟨a, ha, h1⟩ := okAnd_eq_true.mp h1
      simp only [hk, ok_bind]
      simp only [if_true]
      simp only [ha, ih a h1, ok_bind]
      rfl
    rw [if_neg c] at h1 ⊢
    clear c
    -- Dynamic, InvokeDynamic
    have hdyn : (t1 = JVM_CONSTANT_Dynamic ∨ t1 = JVM_CONSTANT_InvokeDynamic) →
        (do
          let k1 ← cp.bootstrap_name_and_type_ref_index_at i
          let k2 ← cp.bootstrap_name_and_type_ref_index_at i
          let i1 ← cp.bootstrap_methods_attribute_index i
          let i2 ← cp.bootstrap_methods_attribute_index i
          let match_entry ← compare_entry_to d cp k1 cp k2
          let match_operand ←
            compare_operand_with (fun a b => compare_entry_to d cp a cp b) cp i1 cp i2
          pure (match_entry && match_operand)) = Except.ok true := by
      intro c
      rw [if_pos c] at h1
      obtain ⟨k, hk, h1⟩ := okAnd_eq_true.mp h1
      obtain ⟨a, ha, h1⟩ := okAnd_eq_true.mp h1
      rw [Bool.and_eq_true_iff] at h1
      obtain ⟨sp1, hs1, h1s⟩ := okAnd_eq_true.mp h1.2
      rw [Bool.and_eq_true_iff, List.all_eq_true] at h1s
      have hop := compare_operand_with_self (fun a b => compare_entry_to d cp a cp b)
        (rfl : cp.operands = cp.operands) hs1 (ih _ h1s.1) (fun a m => ih a (h1s.2 a m))
      simp only [hk, ha, ih k h1.1, hop, ok_bind]
      rfl
    by_cases c : t1 = JVM_CONSTANT_Dynamic
    · rw [if_pos c]
      exact hdyn (Or.inl c)
    rw [if_neg c]
    by_cases c' : t1 = JVM_CONSTANT_InvokeDynamic
    · rw [if_pos c']
      exact hdyn (Or.inr c')
    rw [if_neg c']
    rw [if_neg (fun h => h.elim c c')] at h1
    clear c c' hdyn
    -- String
    by_cases c : t1 = JVM_CONSTANT_String
    · rw [if_pos c] at h1 ⊢
      obtain ⟨a, ha⟩ := isOk_iff.mp h1
      simp only [ha, ok_bind]
      simp only [if_true]
      rfl
    rw [if_neg c] at h1 ⊢
    clear c
    -- Utf8
    by_cases c : t1 = JVM_CONSTANT_Utf8
    · rw [if_pos c] at h1 ⊢
      obtain ⟨a, ha⟩ := isOk_iff.mp h1
      simp only [ha, ok_bind]
      simp only [if_true]
      rfl
    rw [if_neg c] at h1
    cases h1

/-- C39: with the two sides exchanged `compare_entry_to` returns the same value, at every
depth of nested calls and for all pools and indices: whenever either call returns, the
other returns the same; and an entry whose references end within `d` levels without a
Float or Double among them compares equal to itself at every depth from `d` on. -/
theorem compare_entry_to_symmetric_reflexive (cp1 cp2 : ConstantPool) (i j : Nat) :
    (∀ fuel b, compare_entry_to fuel cp1 i cp2 j = .ok b ↔
      compare_entry_to fuel cp2 j cp1 i = .ok b) ∧
    (∀ d, refs_end_within false d cp1 i = true →
      ∀ fuel, d ≤ fuel → compare_entry_to fuel cp1 i cp1 i = .ok true) :=
  ⟨fun fuel b => ⟨compare_entry_to_swap cp1 cp2 fuel i j b,
      compare_entry_to_swap cp2 cp1 fuel j i b⟩,
    fun d h _ hle => compare_entry_to_mono hle cp1 i cp1 i true
      (compare_entry_to_self cp1 d i h)⟩

/-- The references of the Dynamic entry #11 of `demoPool` end within five levels and reach
no Float or Double: the entry compares equal to itself; and the class entry #2 of
`demoPool` and the resolved class entry #2 of `demoPoolResolved` compare equal either way
round. -/
theorem compare_entry_to_symmetric_reflexive_witness :
    refs_end_within false 5 demoPool 11 = true ∧
    compare_entry_to 5 demoPool 11 demoPool 11 = .ok true ∧
    compare_entry_to 1 demoPool 2 demoPoolResolved 2 = .ok true ∧
    compare_entry_to 1 demoPoolResolved 2 demoPool 2 = .ok true :=
  ⟨by decide,
    (compare_entry_to_symmetric_reflexive demoPool demoPool 11 11).2 5 (by decide) 5
      (Nat.le_refl _),
    by decide,
    ((compare_entry_to_symmetric_reflexive demoPool demoPoolResolved 2 2).1 1 true).mp
      (by decide)⟩

end ConstantPool

namespace ConstantPool

/-! ## The depth of the comparison -/

/-- The comparison of two bootstrap specifiers whose references end within `d` levels
returns when the entry comparisons are given the depth `d`. -/
theorem compare_operand_to_returns (fl : Bool) (cp1 cp2 : ConstantPool) (d idx1 idx2 : Nat)
    (h1 : specifier_refs_end_within fl d cp1 idx1 = true)
    (h2 : specifier_refs_end_within fl d cp2 idx2 = true) :
    ∃ b, compare_operand_to d cp1 idx1 cp2 idx2 = .ok b := by
  unfold specifier_refs_end_within at h1 h2
  obtain ⟨sp1, hs1, h1s⟩ := okAnd_eq_true.mp h1
  obtain ⟨sp2, hs2, h2s⟩ := okAnd_eq_true.mp h2
  rw [Bool.and_eq_true_iff, List.all_eq_true] at h1s h2s
  exact compare_operand_with_returns (fun a b => compare_entry_to d cp1 a cp2 b) hs1 hs2
    (compare_entry_to_returns fl cp1 cp2 d _ _ h1s.1 h2s.1)
    (fun a1 m1 a2 m2 => compare_entry_to_returns fl cp1 cp2 d a1 a2 (h1s.2 a1 m1) (h2s.2 a2 m2))

theorem cyclicPool_sub_entries (fuel : Nat) :
    (compare_entry_to fuel cyclicPool 2 cyclicPool 2 = .ok true ∨
      compare_entry_to fuel cyclicPool 2 cyclicPool 2 = .error .out_of_fuel) ∧
    (compare_entry_to fuel cyclicPool 5 cyclicPool 5 = .ok true ∨
      compare_entry_to fuel cyclicPool 5 cyclicPool 5 = .error .out_of_fuel) := by
  by_cases h : fuel < 4
  · interval_cases fuel <;> decide
  · exact ⟨Or.inl (compare_entry_to_mono (show 4 ≤ fuel by omega) _ _ _ _ _ (by decide)),
      Or.inl (compare_entry_to_mono (show 4 ≤ fuel by omega) _ _ _ _ _ (by decide))⟩

/-- The comparison of the Dynamic entry #1 of `cyclicPool` with itself uses up every
depth: the comparison of its bootstrap argument is the same comparison again. -/
theorem cyclicPool_entry_never_returns :
    ∀ fuel, compare_entry_to fuel cyclicPool 1 cyclicPool 1 = .error .out_of_fuel := by
  intro fuel
  induction fuel with
  | zero => rfl
  | succ n ih =>
    have ht : cyclicPool.tag_at 1 = .ok JVM_CONSTANT_Dynamic := by decide
    have e1 : cyclicPool.bootstrap_name_and_type_ref_index_at 1 = .ok 2 := by decide
    have e2 : cyclicPool.bootstrap_methods_attribute_index 1 = .ok 0 := by decide
    have e3 : cyclicPool.bsm_attribute_entry 0 = .ok 2 := by decide
    have e4 : cyclicPool.bootstrap_method_index 2 = .ok 5 := by decide
    have e5 : cyclicPool.argument_count 2 = .ok 1 := by decide
    have e6 : cyclicPool.argument_index 2 0 = .ok 1 := by decide
    rw [compare_entry_to, compare_entry_with_dynamic _ ht ht rfl (Or.inl (by decide))]
    simp only [e1, e2, ok_bind]
    rcases (cyclicPool_sub_entries n).1 with h2 | h2
    · rw [h2]
      simp only [ok_bind]
      simp only [compare_operand_with, e3, e4, ok_bind]
      rcases (cyclicPool_sub_entries n).2 with h5 | h5
      · rw [h5]
        simp only [ok_bind, Bool.not_true, Bool.false_eq_true, if_false, e5, if_true]
        simp only [compare_operand_args, e6, ok_bind, ih]
        rfl
      · rw [h5]
        rfl
    · rw [h2]
      rfl

theorem cyclicPool_operand_never_returns :
    ∀ fuel, compare_operand_to fuel cyclicPool 0 cyclicPool 0 = .error .out_of_fuel := by
  intro fuel
  have e3 : cyclicPool.bsm_attribute_entry 0 = .ok 2 := by decide
  have e4 : cyclicPool.bootstrap_method_index 2 = .ok 5 := by decide
  have e5 : cyclicPool.argument_count 2 = .ok 1 := by decide
  have e6 : cyclicPool.argument_index 2 0 = .ok 1 := by decide
  simp only [compare_operand_to, compare_operand_with, e3, e4, ok_bind]
  rcases (cyclicPool_sub_entries fuel).2 with h5 | h5
  · rw [h5]
    simp only [ok_bind, Bool.not_true, Bool.false_eq_true, if_false, e5, if_true]
    simp only [compare_operand_args, e6, ok_bind, cyclicPool_entry_never_returns fuel]
    rfl
  · rw [h5]
    rfl

/-- C40, as it fails: `cyclicPool` obeys the class-file typing of sub-indices, the
bootstrap argument of its Dynamic entry #1 is the entry #1, and the comparison of the
entry #1 with itself returns at no depth of nested calls, nor does the comparison of its
bootstrap specifier with itself. -/
theorem compare_entry_to_cycle_never_returns :
    ClassFileTyped cyclicPool ∧
    cyclicPool.tag_at 1 = .ok JVM_CONSTANT_Dynamic ∧
    cyclicPool.bootstrap_methods_attribute_index 1 = .ok 0 ∧
    cyclicPool.specifier_at 0 = .ok ⟨5, 1, [1]⟩ ∧
    (∀ fuel, compare_entry_to fuel cyclicPool 1 cyclicPool 1 = .error .out_of_fuel) ∧
    (∀ fuel, compare_operand_to fuel cyclicPool 0 cyclicPool 0 = .error .out_of_fuel) :=
  ⟨by decide, by decide, by decide, by decide, cyclicPool_entry_never_returns,
    cyclicPool_operand_never_returns⟩

/-- C40, amended: for two pools and a depth `d`, the comparison of two entries whose
references end within `d` levels (every entry they reach can be read and has a tag
`compare_entry_to` has a case for, and no chain of references, through bootstrap
arguments or otherwise, is longer than `d`) returns one value at every depth of nested
calls from `d` on; and so does the comparison of two bootstrap specifiers whose
references end within `d` levels. -/
theorem compare_entry_to_terminates (cp1 cp2 : ConstantPool) (d : Nat) :
    (∀ i j, refs_end_within true d cp1 i = true → refs_end_within true d cp2 j = true →
      ∃ b, ∀ fuel, d ≤ fuel → compare_entry_to fuel cp1 i cp2 j = .ok b) ∧
    (∀ idx1 idx2, specifier_refs_end_within true d cp1 idx1 = true →
      specifier_refs_end_within true d cp2 idx2 = true →
      ∃ b, ∀ fuel, d ≤ fuel → compare_operand_to fuel cp1 idx1 cp2 idx2 = .ok b) := by
  constructor
  · intro i j h1 h2
    obtain ⟨b, hb⟩ := compare_entry_to_returns true cp1 cp2 d i j h1 h2
    exact ⟨b, fun fuel hle => compare_entry_to_mono hle cp1 i cp2 j b hb⟩
  · intro idx1 idx2 h1 h2
    obtain ⟨b, hb⟩ := compare_operand_to_returns true cp1 cp2 d idx1 idx2 h1 h2
    exact ⟨b, fun fuel hle => compare_operand_to_mono hle cp1 idx1 cp2 idx2 b hb⟩

/-- The references of the Dynamic entry #11 of `demoPool` and of the DynamicInError
entry #11 of `demoPoolResolved`, and those of their bootstrap specifiers, end within
five levels. -/
theorem compare_entry_to_terminates_witness :
    refs_end_within true 5 demoPool 11 = true ∧
    refs_end_within true 5 demoPoolResolved 11 = true ∧
    (∃ b, ∀ fuel, 5 ≤ fuel → compare_entry_to fuel demoPool 11 demoPoolResolved 11 = .ok b) ∧
    specifier_refs_end_within true 5 demoPool 0 = true ∧
    specifier_refs_end_within true 5 demoPoolResolved 0 = true ∧
    (∃ b, ∀ fuel, 5 ≤ fuel → compare_operand_to fuel demoPool 0 demoPoolResolved 0 = .ok b) :=
  ⟨by decide, by decide,
    (compare_entry_to_terminates demoPool demoPoolResolved 5).1 11 11 (by decide) (by decide),
    by decide, by decide,
    (compare_entry_to_terminates demoPool demoPoolResolved 5).2 0 0 (by decide) (by decide)⟩

end ConstantPool

namespace ConstantPool

/-! ## Bootstrap arguments: the checks and the stores of `copy_bootstrap_arguments_at_impl` -/

theorem set_take_succ {α : Type} (l : List α) (i : Nat) (v : α) (h : i < l.length) :
    (l.set i v).take (i + 1) = l.take i ++ [v] := by
  apply List.ext_getElem?
  intro k
  by_cases hk : k < i
  · rw [List.getElem?_take_of_lt (by omega), List.getElem?_set_ne (by omega),
      List.getElem?_append_left (by rw [List.length_take]; omega),
      List.getElem?_take_of_lt hk]
  · by_cases hki : k = i
    · subst hki
      rw [List.getElem?_take_of_lt (by omega), List.getElem?_set_self h,
        List.getElem?_append_right (by rw [List.length_take]; omega), List.length_take,
        show k - min k l.length = 0 by omega]
      rfl
    · rw [List.getElem?_eq_none (by rw [List.length_take, List.length_set]; omega),
        List.getElem?_eq_none (by
          rw [List.length_append, List.length_take, List.length_singleton]; omega)]

theorem set_drop_succ {α : Type} (l : List α) (i m : Nat) (v : α) :
    (l.set i v).drop (i + 1 + m) = l.drop (i + (m + 1)) := by
  apply List.ext_getElem?
  intro k
  rw [List.getElem?_drop, List.getElem?_drop, List.getElem?_set_ne (by omega)]
  congr 1
  omega

/-- The loop of `copy_bootstrap_arguments_at_impl` stores the objects of the arguments, in
argument order, into the elements from `info_i` on and leaves every other element as it
is. -/
theorem copy_bootstrap_arguments_loop_eq (env : Env) (cp_index : Nat) (must_resolve : Bool)
    (if_not_available : Oop) :
    ∀ (n i info_i : Nat) (st : PoolState) (info : List Oop), info_i + n ≤ info.length →
      copy_bootstrap_arguments_loop env cp_index must_resolve if_not_available n i info_i st
          info =
        (bootstrap_argument_values env cp_index must_resolve if_not_available n i st >>=
          fun r => pure (r.1, info.take info_i ++ r.2.1 ++ info.drop (info_i + r.2.1.length),
            r.2.2)) := by
  intro n
  induction n with
  | zero =>
    intro i info_i st info _
    unfold copy_bootstrap_arguments_loop bootstrap_argument_values
    simp only [pure_eq_ok, ok_bind, List.append_nil, List.length_nil, Nat.add_zero,
      List.take_append_drop]
  | succ n ih =>
    intro i info_i st info hle
    unfold copy_bootstrap_arguments_loop bootstrap_argument_values
    cases ha : st.cp.bootstrap_argument_index_at cp_index i with
    | error e => rfl
    | ok arg_index =>
      simp only [ok_bind]
      cases hr : bootstrap_argument_oop env st arg_index must_resolve if_not_available with
      | error e => rfl
      | ok r =>
        simp only [ok_bind]
        cases hv : r.2 with
        | error e =>
          simp only [pure_eq_ok, ok_bind, List.append_nil, List.length_nil, Nat.add_zero,
            List.take_append_drop]
        | ok v =>
          simp only [obj_at_put, if_pos (show info_i < info.length by omega), ok_bind]
          rw [ih (i + 1) (info_i + 1) r.1 (info.set info_i v)
            (by rw [List.length_set]; omega)]
          cases hrest : bootstrap_argument_values env cp_index must_resolve if_not_available n
              (i + 1) r.1 with
          | error e => rfl
          | ok rest =>
            simp only [ok_bind, pure_eq_ok, List.length_cons]
            rw [set_take_succ _ _ _ (by omega), set_drop_succ]
            simp only [List.append_assoc, List.singleton_append]

theorem bsm_argument_access_ok_iff (st : PoolState) (cp_index start_arg end_arg : Int)
    (info : Option (List Oop)) (pos : Int) :
    bsm_argument_access_ok st cp_index start_arg end_arg info pos = true ↔
      0 < cp_index ∧ cp_index < st.cp.length ∧
      (∃ tag, st.cp.tag_at cp_index.toNat = .ok tag ∧
        (tag = JVM_CONSTANT_InvokeDynamic ∨ tag = JVM_CONSTANT_Dynamic)) ∧
      0 ≤ start_arg ∧ start_arg ≤ end_arg ∧
      (∃ argc : Nat, st.cp.bootstrap_argument_count_at cp_index.toNat = .ok argc ∧
        end_arg ≤ argc) ∧
      0 ≤ pos ∧ ∃ a : List Oop, info = some a ∧ pos + (end_arg - start_arg) ≤ a.length := by
  unfold bsm_argument_access_ok
  cases info with
  | none => simp
  | some a =>
    simp only [Bool.and_eq_true, decide_eq_true_eq, okAnd_eq_true, Option.some.injEq,
      exists_eq_left']
    constructor
    · rintro ⟨⟨⟨⟨⟨⟨⟨h1, h2⟩, h3⟩, h4⟩, h5⟩, h6⟩, h7⟩, h8⟩
      exact ⟨h1, h2, h3, h4, h5, h6, h7, h8⟩
    · rintro ⟨h1, h2, h3, h4, h5, h6, h7, h8⟩
      exact ⟨⟨⟨⟨⟨⟨⟨h1, h2⟩, h3⟩, h4⟩, h5⟩, h6⟩, h7⟩, h8⟩

/-- The checks of `copy_bootstrap_arguments_at_impl`: either one fails and the call leaves
the LinkageError pending, or all hold and the call is its loop. -/
theorem copy_bootstrap_arguments_at_impl_cases (env : Env) (st : PoolState)
    (cp_index start_arg end_arg : Int) (info : Option (List Oop)) (pos : Int)
    (must_resolve : Bool) (if_not_available : Oop)
    (hstart : start_arg < 2147483648) (hend : end_arg < 2147483648)
    (hpos : pos < 2147483648)
    (hlen : ∀ a, info = some a → a.length < 2147483648)
    (hargc : ∀ tag, st.cp.tag_at cp_index.toNat = .ok tag →
      tag = JVM_CONSTANT_InvokeDynamic ∨ tag = JVM_CONSTANT_Dynamic →
      (st.cp.bootstrap_argument_count_at cp_index.toNat).isOk = true) :
    (copy_bootstrap_arguments_at_impl env st cp_index start_arg end_arg info pos
        must_resolve if_not_available = .ok (st, info, some (bad_bsm_argument_access env)) ∧
      ¬ bsm_argument_access_ok st cp_index start_arg end_arg info pos = true) ∨
      (bsm_argument_access_ok st cp_index start_arg end_arg info pos = true ∧
      ∃ a, info = some a ∧
        copy_bootstrap_arguments_at_impl env st cp_index start_arg end_arg info pos
            must_resolve if_not_available =
          (bootstrap_argument_values env cp_index.toNat must_resolve if_not_available
              (end_arg - start_arg).toNat start_arg.toNat st >>= fun r =>
            pure (r.1, some (a.take pos.toNat ++ r.2.1 ++
              a.drop (pos.toNat + r.2.1.length)), r.2.2))) := by
  have hiff := bsm_argument_access_ok_iff st cp_index start_arg end_arg info pos
  rw [hiff]
  unfold copy_bootstrap_arguments_at_impl
  simp only
  by_cases c1 : 0 ≥ cp_index ∨ cp_index ≥ (st.cp.length : Int)
  · rw [if_pos c1]
    exact Or.inl ⟨rfl, fun h => by omega⟩
  rw [if_neg c1]
  obtain ⟨s, hs⟩ := slot_at_of_lt (show cp_index.toNat < st.cp.length by omega)
  have ht := tag_at_of_slot hs
  rw [ht]
  simp only [ok_bind]
  by_cases c2 : ¬ (s.tag = JVM_CONSTANT_InvokeDynamic ∨ s.tag = JVM_CONSTANT_Dynamic)
  · rw [if_pos c2]
    refine Or.inl ⟨rfl, fun h => ?_⟩
    obtain ⟨tag, h1, h2⟩ := h.2.2.1
    exact c2 (Except.ok.inj h1 ▸ h2)
  rw [if_neg c2]
  by_cases c3 : 0 > start_arg ∨ start_arg > end_arg
  · rw [if_pos c3]
    exact Or.inl ⟨rfl, fun h => by omega⟩
  rw [if_neg c3]
  obtain ⟨argc, hc⟩ := isOk_iff.mp (hargc s.tag ht (not_not.mp c2))
  rw [hc]
  simp only [ok_bind]
  by_cases c4 : end_arg > (argc : Int)
  · rw [if_pos c4]
    refine Or.inl ⟨rfl, fun h => ?_⟩
    obtain ⟨argc2, h1, h2⟩ := h.2.2.2.2.2.1
    have := Except.ok.inj h1
    omega
  rw [if_neg c4]
  have hlim : 0 ≤ pos → (pos + (end_arg - start_arg) < 2147483648 →
        jint_wrap (jint_wrap (pos + end_arg) - start_arg) = pos + (end_arg - start_arg)) ∧
      (2147483648 ≤ pos + (end_arg - start_arg) →
        jint_wrap (jint_wrap (pos + end_arg) - start_arg) < 0) := by
    intro h0
    unfold jint_wrap
    constructor <;> intro _ <;> omega
  by_cases c5 : 0 > pos ∨ pos > jint_wrap (jint_wrap (pos + end_arg) - start_arg)
  · rw [if_pos c5]
    refine Or.inl ⟨rfl, fun h => ?_⟩
    obtain ⟨a, h1, h2⟩ := h.2.2.2.2.2.2.2
    have hl := hlen a h1
    have := hlim h.2.2.2.2.2.2.1
    omega
  rw [if_neg c5]
  have hp0 : 0 ≤ pos := by omega
  cases info with
  | none =>
    refine Or.inl ⟨rfl, fun h => ?_⟩
    obtain ⟨a, h1, -⟩ := h.2.2.2.2.2.2.2
    cases h1
  | some a =>
    simp only
    have hl := hlen a rfl
    have hlim2 := hlim hp0
    by_cases c6 : jint_wrap (jint_wrap (pos + end_arg) - start_arg) > (a.length : Int)
    · rw [if_pos c6]
      refine Or.inl ⟨rfl, fun h => ?_⟩
      obtain ⟨a', h1, h2⟩ := h.2.2.2.2.2.2.2
      cases h1
      omega
    rw [if_neg c6]
    have hfit : pos + (end_arg - start_arg) ≤ a.length := by omega
    refine Or.inr ⟨⟨by omega, by omega, ⟨s.tag, rfl, not_not.mp c2⟩, by omega, by omega,
      ⟨argc, rfl, by omega⟩, hp0, a, rfl, hfit⟩, a, rfl, ?_⟩
    rw [copy_bootstrap_arguments_loop_eq env cp_index.toNat must_resolve if_not_available
      (end_arg - start_arg).toNat start_arg.toNat pos.toNat st a (by omega)]
    cases bootstrap_argument_values env cp_index.toNat must_resolve if_not_available
        (end_arg - start_arg).toNat start_arg.toNat st with
    | error e => rfl
    | ok r => rfl

/-- The best-effort request for the three bootstrap arguments of the Dynamic entry #12 of
`argumentsState`, with the placeholder `object 9`: the String #16 is interned and stored,
the placeholder is stored for the unresolved class #7 and for the MethodType #9, and the
elements 0 and 4 of the info array are as they were. -/
theorem copy_bootstrap_arguments_at_impl_argumentsState :
    (fun r => (r.2.1, r.2.2)) <$>
        copy_bootstrap_arguments_at_impl resolutionEnv argumentsState 12 0 3
          (some [.null, .null, .null, .null, .null]) 1 false (.object 9) =
      .ok (some [.null, .object 1001, .object 9, .object 9, .null], none) := by
  decide

end ConstantPool

namespace ConstantPool

/-! ## Bootstrap arguments in the best-effort mode -/

/-- In the best-effort mode the object for an argument whose entry has one of the tags
UnresolvedClass, MethodHandle, MethodType, Dynamic or their in-error variants and is not
answered from the resolved references is the placeholder; the state is as it was. -/
theorem bootstrap_argument_oop_placeholder (env : Env) {st : PoolState} {j tag : Nat}
    (if_not_available : Oop) (ht : st.cp.tag_at j = .ok tag) (hp : PlaceholderTag tag)
    (hu : st.Uncached (j : Int) _possible_index_sentinel j) :
    bootstrap_argument_oop env st j false if_not_available =
      .ok (st, .ok if_not_available) := by
  have hno : ¬ (tag = JVM_CONSTANT_Class ∨ tag = JVM_CONSTANT_String ∨
      tag = JVM_CONSTANT_Integer ∨ tag = JVM_CONSTANT_Float ∨ tag = JVM_CONSTANT_Long ∨
      tag = JVM_CONSTANT_Double) := by
    rcases hp with h | h | h | h | h | h | h | h <;> rw [h] <;> decide
  unfold bootstrap_argument_oop find_cached_constant_at
  rw [if_neg (by decide), resolve_constant_at_impl_uncached env (some false) hu]
  unfold resolve_constant_at_tag
  rw [ht]
  simp only [ok_bind]
  rw [if_pos ⟨rfl, hno⟩]
  rfl

theorem bootstrap_argument_values_placeholders (env : Env) (st : PoolState) (cp_index : Nat)
    (if_not_available : Oop) :
    ∀ (n i : Nat),
      (∀ k, k < n → ∃ j tag, st.cp.bootstrap_argument_index_at cp_index (i + k) = .ok j ∧
        st.cp.tag_at j = .ok tag ∧ PlaceholderTag tag ∧
        st.Uncached (j : Int) _possible_index_sentinel j) →
      bootstrap_argument_values env cp_index false if_not_available n i st =
        .ok (st, List.replicate n if_not_available, none) := by
  intro n
  induction n with
  | zero => intro i _; rfl
  | succ n ih =>
    intro i h
    obtain ⟨j, tag, hj, ht, hp, hu⟩ := h 0 (by omega)
    rw [Nat.add_zero] at hj
    unfold bootstrap_argument_values
    rw [hj]
    simp only [ok_bind]
    rw [bootstrap_argument_oop_placeholder env if_not_available ht hp hu]
    simp only [ok_bind]
    rw [ih (i + 1) (fun k hk => by
      have := h (k + 1) (by omega)
      rwa [show i + (k + 1) = i + 1 + k by omega] at this)]
    rfl

/-- C32: in the best-effort mode (`must_resolve` false), for an argument whose entry is
tagged UnresolvedClass, MethodHandle, MethodType, Dynamic or an in-error variant and is
not answered from the resolved references, the object the loop of
`copy_bootstrap_arguments_at_impl` computes is the placeholder, without an exception and
with the state as it was (the tags, the resolved klasses, the error table and the calls
made to the class loader, the linker and the bootstrap methods), and the loop, arriving
at such an argument, stores the placeholder and goes on in the same state; and a request
that passes the checks and whose arguments are all such arguments returns without an
exception, the state as it was and the placeholder in each of the elements
`info[pos .. pos + (end_arg - start_arg))`, the other elements as they were. -/
theorem copy_bootstrap_arguments_best_effort (env : Env) (st : PoolState)
    (if_not_available : Oop) :
    (∀ j tag, st.cp.tag_at j = .ok tag → PlaceholderTag tag →
      st.Uncached (j : Int) _possible_index_sentinel j →
      bootstrap_argument_oop env st j false if_not_available =
        .ok (st, .ok if_not_available) ∧
      ∀ (cp_index n i info_i : Nat) (info : List Oop),
        st.cp.bootstrap_argument_index_at cp_index i = .ok j → info_i < info.length →
        copy_bootstrap_arguments_loop env cp_index false if_not_available (n + 1) i info_i st
            info =
          copy_bootstrap_arguments_loop env cp_index false if_not_available n (i + 1)
            (info_i + 1) st (info.set info_i if_not_available)) ∧
    (∀ (cp_index start_arg end_arg pos : Int) (a : List Oop),
      start_arg < 2147483648 → end_arg < 2147483648 → pos < 2147483648 →
      a.length < 2147483648 →
      bsm_argument_access_ok st cp_index start_arg end_arg (some a) pos = true →
      (∀ k, k < (end_arg - start_arg).toNat → ∃ j tag,
        st.cp.bootstrap_argument_index_at cp_index.toNat (start_arg.toNat + k) = .ok j ∧
        st.cp.tag_at j = .ok tag ∧ PlaceholderTag tag ∧
        st.Uncached (j : Int) _possible_index_sentinel j) →
      copy_bootstrap_arguments_at_impl env st cp_index start_arg end_arg (some a) pos false
          if_not_available =
        .ok (st, some (a.take pos.toNat ++
            List.replicate (end_arg - start_arg).toNat if_not_available ++
            a.drop (pos.toNat + (end_arg - start_arg).toNat)), none)) := by
  constructor
  · intro j tag ht hp hu
    have hbody := bootstrap_argument_oop_placeholder env if_not_available ht hp hu
    refine ⟨hbody, ?_⟩
    intro cp_index n i info_i info hj hlt
    rw [copy_bootstrap_arguments_loop, hj]
    simp only [ok_bind]
    rw [hbody]
    simp only [ok_bind, obj_at_put, if_pos hlt]
  · intro cp_index start_arg end_arg pos a hstart hend hpos hlen hok hall
    have hcount : ∀ tag, st.cp.tag_at cp_index.toNat = .ok tag →
        tag = JVM_CONSTANT_InvokeDynamic ∨ tag = JVM_CONSTANT_Dynamic →
        (st.cp.bootstrap_argument_count_at cp_index.toNat).isOk = true := by
      intro _ _ _
      obtain ⟨argc, hc, -⟩ :=
        ((bsm_argument_access_ok_iff st cp_index start_arg end_arg (some a) pos).mp
          hok).2.2.2.2.2.1
      rw [hc]
      rfl
    rcases copy_bootstrap_arguments_at_impl_cases env st cp_index start_arg end_arg (some a) pos
      false if_not_available hstart hend hpos (fun a' h => by cases h; exact hlen) hcount
      with ⟨-, h⟩ | ⟨-, a', ha', h⟩
    · exact (h hok).elim
    · cases ha'
      rw [h, bootstrap_argument_values_placeholders env st cp_index.toNat if_not_available _ _
        hall]
      simp only [ok_bind, pure_eq_ok, List.length_replicate]

/-- The best-effort request for the bootstrap arguments 1 and 2 of the Dynamic entry #12
of `argumentsState`, the unresolved class entry #7 and the MethodType entry #9: the
placeholder `object 9` is stored in `info[1]` and `info[2]` and the state is as it
was. -/
theorem copy_bootstrap_arguments_best_effort_witness :
    argumentsState.cp.tag_at 7 = .ok JVM_CONSTANT_UnresolvedClass ∧
    argumentsState.Uncached (7 : Nat) _possible_index_sentinel 7 ∧
    bootstrap_argument_oop resolutionEnv argumentsState 7 false (.object 9) =
      .ok (argumentsState, .ok (.object 9)) ∧
    bsm_argument_access_ok argumentsState 12 1 3
      (some [.null, .null, .null, .null, .null]) 1 = true ∧
    copy_bootstrap_arguments_at_impl resolutionEnv argumentsState 12 1 3
        (some [.null, .null, .null, .null, .null]) 1 false (.object 9) =
      .ok (argumentsState,
        some (([.null, .null, .null, .null, .null] : List Oop).take (1 : Int).toNat ++
          List.replicate ((3 : Int) - 1).toNat (.object 9) ++
          ([.null, .null, .null, .null, .null] : List Oop).drop
            ((1 : Int).toNat + ((3 : Int) - 1).toNat)), none) :=
  ⟨by decide, by decide,
    ((copy_bootstrap_arguments_best_effort resolutionEnv argumentsState (.object 9)).1 7
      JVM_CONSTANT_UnresolvedClass (by decide) (by decide) (by decide)).1,
    by decide,
    (copy_bootstrap_arguments_best_effort resolutionEnv argumentsState (.object 9)).2 12 1 3 1
      [.null, .null, .null, .null, .null] (by decide) (by decide) (by decide) (by decide)
      (by decide) (fun k hk => by
        have hk2 : k < 2 := hk
        interval_cases k
        · exact ⟨7, JVM_CONSTANT_UnresolvedClass, by decide, by decide, by decide, by decide⟩
        · exact ⟨9, JVM_CONSTANT_MethodType, by decide, by decide, by decide, by decide⟩)⟩

end ConstantPool

end Hotspot
